import Mathlib

/-!
# GIMLI mesh (`src/mesh.cpp`): entity store, classification, accessors, refinement nodes

A shallow embedding of the mesh container of GIMLI and proofs about it.

Conventions of the embedding

* The three `std::vector`s of owned entities (`nodeVector_`, `cellVector_`,
  `boundaryVector_`) are lists. A pointer to an entity owned by a mesh is the
  index of the entity in the vector of its mesh; the null pointer is `none`.
* `double` values are kept abstract: `P` is the type of positions
  (`RVector3`) and `R` the type of scalars; only the operations that the code
  applies to them are assumed (`+`, `/`, the literal `2`).
* Unsigned counters: `count - 1` on an unsigned counter is computed modulo
  `2 ^ w`, where `w` is the width of the counter type.
* A call that does not return normally ends in a `Failure`.
-/

namespace GIMLI

/-! ## Data model -/

/-- Run-time type of a cell (`rtti()` of the classes created by `createCell`). -/
inductive CellShape
  | Cell | EdgeCell | Edge3Cell | Triangle | Triangle6 | Quadrangle | Quadrangle8
  | Tetrahedron | Tetrahedron10 | Hexahedron | Hexahedron20 | TriPrism | TriPrism15
  | Pyramid | Pyramid13
  deriving DecidableEq, Repr

/-- Run-time type of a boundary (the classes created by `createBoundary`). -/
inductive BoundaryShape
  | NodeBoundary | Edge | Edge3 | TriangleFace | Triangle6Face | QuadrangleFace
  | Quadrangle8Face
  deriving DecidableEq, Repr

/-- A `Node`: position, marker and id. -/
structure Node (P : Type) where
  pos : P
  marker : Int
  id : Int
  deriving DecidableEq, Repr

/-- A `Cell`: its class, its nodes (pointers into the node vector of the owning
mesh), marker, id and attribute; the neighbour cells it has recorded (pairs of a
facet index and a cell pointer, a facet without a pair has the null pointer) and
its tag. -/
structure Cell (R : Type) where
  shape : CellShape
  nodes : List Nat
  marker : Int
  id : Int
  attribute_ : R
  neighbourCells_ : List (Nat × Nat) := []
  tagged_ : Bool := false
  deriving DecidableEq, Repr

/-- A `Boundary`: its class, its nodes, marker, id, and the two adjacent cells. -/
structure Boundary where
  shape : BoundaryShape
  nodes : List Nat
  marker : Int
  id : Int
  leftCell : Option Nat := none
  rightCell : Option Nat := none
  deriving DecidableEq, Repr

/-- The members of `Mesh` that the functions below read or write. `tree_` is the
kd-tree: `none` is the null pointer, `some l` a tree that holds the node pointers
`l` in insertion order. -/
structure Mesh (P R : Type) where
  dimension_ : Nat
  nodeVector_ : List (Node P) := []
  cellVector_ : List (Cell R) := []
  boundaryVector_ : List Boundary := []
  rangesKnown_ : Bool := false
  neighboursKnown_ : Bool := false
  tree_ : Option (List Nat) := none
  oldTet10NumberingStyle_ : Bool := true
  deriving DecidableEq, Repr

/-- The exit codes used by the accessors (`EXIT_MESH_NO_NODE`, ...). -/
inductive ExitCode
  | EXIT_MESH_NO_NODE | EXIT_MESH_NO_CELL | EXIT_MESH_NO_BOUNDARY
  deriving DecidableEq, Repr

/-- The ways in which a call ends without returning to its caller normally. -/
inductive Failure
  /-- Call of `exit(code)` after a message on `std::cerr`. -/
  | exit (code : ExitCode)
  /-- Call of `throwError(ret, msg)`. -/
  | throwError (ret : Nat)
  /-- The statement `THROW_TO_IMPL`. -/
  | toImpl
  /-- An element access outside a vector: no error is raised by the code. -/
  | outOfRange
  deriving DecidableEq, Repr

variable {P R : Type}

namespace Mesh

/-- The constructor `Mesh(uint dim)`. -/
def new (dim : Nat) : Mesh P R :=
  { dimension_ := dim, rangesKnown_ := false, neighboursKnown_ := false, tree_ := none,
    oldTet10NumberingStyle_ := true }

/-- Member `nodeCount()`. -/
def nodeCount (m : Mesh P R) : Nat := m.nodeVector_.length

/-- Member `cellCount()`. -/
def cellCount (m : Mesh P R) : Nat := m.cellVector_.length

/-- Member `boundaryCount()`. -/
def boundaryCount (m : Mesh P R) : Nat := m.boundaryVector_.length

/-- Member `clear()`: the tree is deleted, the three vectors are emptied, both
flags are reset. -/
def clear (m : Mesh P R) : Mesh P R :=
  { m with tree_ := none, cellVector_ := [], boundaryVector_ := [], nodeVector_ := [],
           rangesKnown_ := false, neighboursKnown_ := false }

/-! ## Creation of nodes -/

/-- Member `createNode_(pos, marker, id)`: with `id == -1` the id is
`nodeCount()`; the node is pushed to the back of `nodeVector_`. Returns the
pointer to the new node and the mesh. -/
def createNode_ (m : Mesh P R) (pos : P) (marker : Int) (id : Int) : Nat × Mesh P R :=
  let id := if id = -1 then (m.nodeCount : Int) else id
  (m.nodeVector_.length,
   { m with nodeVector_ := m.nodeVector_ ++ [{ pos := pos, marker := marker, id := id }] })

/-- Member `createNode(pos, marker)`. -/
def createNode (m : Mesh P R) (pos : P) (marker : Int) : Nat × Mesh P R :=
  createNode_ m pos marker (-1)

/-! ## Classification of cells and boundaries -/

/-- Modelled from the spec: the template `createCell_< B >(nodes, marker, id)` of
`mesh.h`, defined outside `mesh.cpp`. A creation operation is an
arena push: the new cell of class `B` over `nodes` gets the marker and the id
handed over and is appended to `cellVector_`; its attribute is the default of a
fresh cell. Returns the pointer to the new cell. -/
def createCell_ [Inhabited R] (shape : CellShape) (m : Mesh P R) (nodes : List Nat)
    (marker : Int) (id : Int) : Option Nat × Mesh P R :=
  (some m.cellVector_.length,
   { m with cellVector_ := m.cellVector_ ++
      [{ shape := shape, nodes := nodes, marker := marker, id := id, attribute_ := default }] })

/-- Member `createCell(nodes, marker)`: the nested `switch` over `nodes.size()`
and `dimension_`. A combination without a `return` leaves the `switch`; the
function then prints a message on `std::cout` and returns `NULL`. -/
def createCell [Inhabited R] (m : Mesh P R) (nodes : List Nat) (marker : Int) :
    Option Nat × Mesh P R :=
  match nodes.length with
  | 0 => createCell_ .Cell m nodes marker m.cellCount
  | 2 => createCell_ .EdgeCell m nodes marker m.cellCount
  | 3 =>
    match m.dimension_ with
    | 1 => createCell_ .Edge3Cell m nodes marker m.cellCount
    | 2 => createCell_ .Triangle m nodes marker m.cellCount
    | _ => (none, m)
  | 4 =>
    match m.dimension_ with
    | 2 => createCell_ .Quadrangle m nodes marker m.cellCount
    | 3 => createCell_ .Tetrahedron m nodes marker m.cellCount
    | _ => (none, m)
  | 5 => createCell_ .Pyramid m nodes marker m.cellCount
  | 6 =>
    match m.dimension_ with
    | 2 => createCell_ .Triangle6 m nodes marker m.cellCount
    | 3 => createCell_ .TriPrism m nodes marker m.cellCount
    | _ => (none, m)
  | 8 =>
    match m.dimension_ with
    | 2 => createCell_ .Quadrangle8 m nodes marker m.cellCount
    | 3 => createCell_ .Hexahedron m nodes marker m.cellCount
    | _ => (none, m)
  | 10 => createCell_ .Tetrahedron10 m nodes marker m.cellCount
  | 13 => createCell_ .Pyramid13 m nodes marker m.cellCount
  | 15 => createCell_ .TriPrism15 m nodes marker m.cellCount
  | 20 => createCell_ .Hexahedron20 m nodes marker m.cellCount
  | _ => (none, m)

/-- The type of the template `createBoundaryChecked_< B >(nodes, marker)` of
`mesh.h`, defined outside `mesh.cpp`: from the class, the mesh, the
nodes and the marker to the returned pointer and the mesh. `createBoundary` takes
it as a parameter. -/
abbrev BoundaryCreator (P R : Type) :=
  BoundaryShape → Mesh P R → List Nat → Int → Option Nat × Mesh P R

/-- Modelled from the spec: the template `createBoundary_< B >(nodes, marker, id)`
of `mesh.h`, defined outside `mesh.cpp`. A creation operation is an
arena push: the new boundary of class `B` over `nodes` gets the marker and the id
handed over, has no adjacent cell yet, and is appended to `boundaryVector_`. -/
def createBoundary_ (shape : BoundaryShape) (m : Mesh P R) (nodes : List Nat)
    (marker : Int) (id : Int) : Option Nat × Mesh P R :=
  (some m.boundaryVector_.length,
   { m with boundaryVector_ := m.boundaryVector_ ++
      [{ shape := shape, nodes := nodes, marker := marker, id := id }] })

/-- Modelled from the spec: a boundary creator that pushes a boundary with the
next sequential id. It agrees with `createBoundaryChecked_` whenever the mesh
holds no boundary over the same nodes yet. -/
def pushBoundary : BoundaryCreator P R :=
  fun shape m nodes marker => createBoundary_ shape m nodes marker m.boundaryCount

/-- Member `createBoundary(nodes, marker)`: the `switch` over `nodes.size()`;
three nodes give an `Edge3` if `dimension_ == 2` and a `TriangleFace` otherwise.
A size without a `case` leaves the `switch`; the function then prints a message
on `std::cout` and returns `NULL`. -/
def createBoundary (createBoundaryChecked_ : BoundaryCreator P R) (m : Mesh P R)
    (nodes : List Nat) (marker : Int) : Option Nat × Mesh P R :=
  match nodes.length with
  | 1 => createBoundaryChecked_ .NodeBoundary m nodes marker
  | 2 => createBoundaryChecked_ .Edge m nodes marker
  | 3 =>
    if m.dimension_ = 2 then createBoundaryChecked_ .Edge3 m nodes marker
    else createBoundaryChecked_ .TriangleFace m nodes marker
  | 4 => createBoundaryChecked_ .QuadrangleFace m nodes marker
  | 6 => createBoundaryChecked_ .Triangle6Face m nodes marker
  | 8 => createBoundaryChecked_ .Quadrangle8Face m nodes marker
  | _ => (none, m)

/-! ## Bounds-checked accessors -/

/-- The value of `count - 1` for an unsigned counter of `w` bits: the
subtraction wraps around modulo `2 ^ w`. -/
def countMinusOne (w count : Nat) : Nat := (count + 2 ^ w - 1) % 2 ^ w

/-- Member `node(uint i)`: `exit(EXIT_MESH_NO_NODE)` if `i > nodeCount() - 1`
(the test `i < 0` is never true for a `uint`), else `*nodeVector_[i]`. The
element access itself is not checked. -/
def node (w : Nat) (m : Mesh P R) (i : Nat) : Except Failure (Node P) :=
  if i > countMinusOne w m.nodeCount then .error (.exit .EXIT_MESH_NO_NODE)
  else
    match m.nodeVector_[i]? with
    | some n => .ok n
    | none => .error .outOfRange

/-- Member `cell(uint i)`: `exit(EXIT_MESH_NO_CELL)` if `i > cellCount() - 1`,
else `*cellVector_[i]`. -/
def cell (w : Nat) (m : Mesh P R) (i : Nat) : Except Failure (Cell R) :=
  if i > countMinusOne w m.cellCount then .error (.exit .EXIT_MESH_NO_CELL)
  else
    match m.cellVector_[i]? with
    | some c => .ok c
    | none => .error .outOfRange

/-- Member `boundary(uint i)`: `exit(EXIT_MESH_NO_BOUNDARY)` if
`i > boundaryCount() - 1`, else `*boundaryVector_[i]`. -/
def boundary (w : Nat) (m : Mesh P R) (i : Nat) : Except Failure Boundary :=
  if i > countMinusOne w m.boundaryCount then .error (.exit .EXIT_MESH_NO_BOUNDARY)
  else
    match m.boundaryVector_[i]? with
    | some b => .ok b
    | none => .error .outOfRange

/-! ## Cell attributes -/

/-- Member `cellAttributes()`: the attribute of every cell, in the order of
`cellVector_`. -/
def cellAttributes (m : Mesh P R) : List R := m.cellVector_.map (fun c => c.attribute_)

/-- Member `cellMarker()`: the marker of every cell, in the order of
`cellVector_`. -/
def cellMarker (m : Mesh P R) : List Int := m.cellVector_.map (fun c => c.marker)

/-- The loop `for (uint i = 0; i < cellCount(); i ++) cell(i).setAttribute(attr[i])`
of `setCellAttributes`, from index `i` on, with `todo` cells left. -/
def setCellAttributesFrom (w : Nat) (attr : List R) :
    Nat → Nat → Mesh P R → Except Failure Unit × Mesh P R
  | 0, _, m => (.ok (), m)
  | todo + 1, i, m =>
    match cell w m i with
    | .error e => (.error e, m)
    | .ok c =>
      match attr[i]? with
      | none => (.error .outOfRange, m)
      | some a =>
        setCellAttributesFrom w attr todo (i + 1)
          { m with cellVector_ := m.cellVector_.set i { c with attribute_ := a } }

/-- Member `setCellAttributes(attr)`: `throwError(1, ...)` if
`attr.size() != cellCount()`; `throwError`, declared outside `mesh.cpp`,
reports the message and ends the call. Otherwise the attribute of cell `i`
becomes `attr[i]` for every `i < cellCount()`. Returns how the call ends and the
mesh as the call leaves it. -/
def setCellAttributes (w : Nat) (m : Mesh P R) (attr : List R) :
    Except Failure Unit × Mesh P R :=
  if attr.length ≠ m.cellCount then (.error (.throwError 1), m)
  else setCellAttributesFrom w attr m.cellCount 0 m

/-! ## The kd-tree and creation of nodes with a check -/

/-- Operations that `mesh.cpp` calls and that are declared elsewhere. -/
structure Externals (P R : Type) where
  /-- `RVector3::distance`. -/
  distance : P → P → R
  /-- The comparison `<` of two `double`s. -/
  less : R → R → Bool
  /-- `KDTreeWrapper::nearest(pos)` for a tree holding the given node pointers,
  over the given nodes: a node pointer or `NULL`. -/
  nearest : List Nat → List (Node P) → P → Option Nat
  /-- The default argument `marker` of `createNode(pos, marker)`. -/
  defaultMarker : Int
  /-- The position `c.shape().xyz(RVector3(0.5, 0.5))` for a cell whose nodes
  have the given positions. -/
  shapeCentre : List P → P

/-- Member `fillKDTree_()`: a missing tree is allocated; if its size differs from
`nodeCount()`, an empty tree is filled with all node pointers and a non-empty one
ends the call with `throwError(1, ...)`. -/
def fillKDTree_ (m : Mesh P R) : Except Failure Unit × Mesh P R :=
  let tree := m.tree_.getD []
  let m1 := { m with tree_ := some tree }
  if tree.length ≠ m1.nodeCount then
    if tree.length = 0 then
      (.ok (), { m1 with tree_ := some (tree ++ List.range m1.nodeCount) })
    else (.error (.throwError 1), m1)
  else (.ok (), m1)

/-- Member `createNodeWithCheck(pos, tol)`: after `fillKDTree_()`, the nearest
node of the tree is returned if it is closer to `pos` than `tol`; otherwise a
node is created at `pos` and inserted into the tree. -/
def createNodeWithCheck (ext : Externals P R) (m : Mesh P R) (pos : P) (tol : R) :
    Except Failure Nat × Mesh P R :=
  match fillKDTree_ m with
  | (.error e, m1) => (.error e, m1)
  | (.ok _, m1) =>
    let tree := m1.tree_.getD []
    let create : Except Failure Nat × Mesh P R :=
      let r := createNode m1 pos ext.defaultMarker
      (.ok r.1, { r.2 with tree_ := some (tree ++ [r.1]) })
    match ext.nearest tree m1.nodeVector_ pos with
    | none => create
    | some refNode =>
      match m1.nodeVector_[refNode]? with
      | none => (.error .outOfRange, m1)
      | some ref => if ext.less (ext.distance pos ref.pos) tol then (.ok refNode, m1) else create

/-- One call of the node creation interface. -/
inductive NodeCall (P R : Type)
  | createNode (pos : P) (marker : Int)
  | createNodeWithCheck (pos : P) (tol : R)

/-- The mesh after one call of the node creation interface (also when the call
ends in a failure). -/
def runNodeCall (ext : Externals P R) (m : Mesh P R) : NodeCall P R → Mesh P R
  | .createNode pos marker => (createNode m pos marker).2
  | .createNodeWithCheck pos tol => (createNodeWithCheck ext m pos tol).2

/-- The mesh after a sequence of calls of the node creation interface. -/
def runNodeCalls (ext : Externals P R) (m : Mesh P R) (calls : List (NodeCall P R)) :
    Mesh P R :=
  calls.foldl (runNodeCall ext) m

/-- Every node is stored at the index given by its id. -/
def IdsAreIndices (m : Mesh P R) : Prop :=
  ∀ (i : Nat) (n : Node P), m.nodeVector_[i]? = some n → n.id = (i : Int)

end Mesh

/-! ## Refinement nodes -/

/-- Function `markerT(n0, n1)`: the marker of the node between `n0` and `n1`. -/
def markerT (n0 n1 : Node P) : Int :=
  if n0.marker = -99 ∧ n1.marker = -99 then -1
  else if n0.marker = -99 then n1.marker
  else if n1.marker = -99 then n0.marker
  else if n0.marker = n1.marker then n1.marker
  else 0

/-- The address held by a `Node *` handed to `createRefinementNode_`: a node of
the mesh under construction (`this`), or a node of the mesh that is refined. -/
inductive NodePtr
  | own (i : Nat)
  | input (i : Nat)
  deriving DecidableEq, Repr

/-- A `Node *` argument: the address, which `==` compares, and the node it
points to. -/
structure NodeRef (P : Type) where
  ptr : NodePtr
  node : Node P
  deriving DecidableEq, Repr

/-- The map `std::map< std::pair< Index, Index >, Node * >`, which the code reads
and writes through `operator[]` only: the value under a key, `none` for the null
pointer (an absent key reads as the null pointer). -/
abbrev NodeMatrix := Int × Int → Option Nat

namespace Mesh

/-- Member `createRefinementNode_(n0, n1, nodeMatrix)`: the node registered
under `(n0->id(), n1->id())` if there is one; otherwise a new node, a copy of
`n0` registered under `(id0, id0)` if `n0 == n1`, else the node at
`(n0->pos() + n1->pos()) / 2.0` with marker `markerT(n0, n1)`, registered under
`(id0, id1)` and `(id1, id0)`. Returns the node pointer, the mesh and the map. -/
def createRefinementNode_ [Add P] [HDiv P R P] [OfNat R 2] (m : Mesh P R)
    (n0 n1 : NodeRef P) (nodeMatrix : NodeMatrix) : Nat × Mesh P R × NodeMatrix :=
  match nodeMatrix (n0.node.id, n1.node.id) with
  | some n => (n, m, nodeMatrix)
  | none =>
    if n0.ptr = n1.ptr then
      let r := createNode m n0.node.pos n0.node.marker
      (r.1, r.2, Function.update nodeMatrix (n0.node.id, n0.node.id) (some r.1))
    else
      let r := createNode m ((n0.node.pos + n1.node.pos) / (2 : R)) (markerT n0.node n1.node)
      (r.1, r.2,
       Function.update (Function.update nodeMatrix (n0.node.id, n1.node.id) (some r.1))
         (n1.node.id, n0.node.id) (some r.1))

/-! ## Refinement -/

/-- The tables `Tet10NodeSplitZienk`, `Tet10NodeSplit`, `Hex20NodeSplit`,
`Prism15NodeSplit` and `Pyramid13NodeSplit`, defined outside `mesh.cpp`: entry
`j` names the two local nodes of the parent between which node `j` lies. -/
structure SplitTables where
  Tet10NodeSplitZienk : List (Nat × Nat)
  Tet10NodeSplit : List (Nat × Nat)
  Hex20NodeSplit : List (Nat × Nat)
  Prism15NodeSplit : List (Nat × Nat)
  Pyramid13NodeSplit : List (Nat × Nat)

/-- Conversion of an `int` to the unsigned type of `w` bits. -/
def toUint (w : Nat) (z : Int) : Nat := (z % (2 ^ w : Int)).toNat

/-- The expression `&node(id)`: the pointer to the node at index `id` of `m`,
after the bounds check of `node`. -/
def nodePtr (w : Nat) (m : Mesh P R) (id : Int) : Except Failure Nat :=
  match node w m (toUint w id) with
  | .ok _ => .ok (toUint w id)
  | .error e => .error e

/-- The expression `c.node(k).id()` for a cell or boundary of `mesh` with the
node pointers `nodes`. -/
def entityNodeId (mesh : Mesh P R) (nodes : List Nat) (k : Nat) : Except Failure Int :=
  match nodes[k]? with
  | none => .error .outOfRange
  | some ptr =>
    match mesh.nodeVector_[ptr]? with
    | none => .error .outOfRange
    | some n => .ok n.id

/-- The expression `&node(c.node(k).id())`. -/
def copyOfNode (w : Nat) (this mesh : Mesh P R) (nodes : List Nat) (k : Nat) :
    Except Failure Nat :=
  match entityNodeId mesh nodes k with
  | .ok id => nodePtr w this id
  | .error e => .error e

/-- The `Node *` argument for the node at index `i` of `m`. -/
def ownNodeRef (m : Mesh P R) (i : Nat) : Except Failure (NodeRef P) :=
  match m.nodeVector_[i]? with
  | some n => .ok { ptr := .own i, node := n }
  | none => .error .outOfRange

/-- The call `createRefinementNode_(n0, n1, nodeMatrix)` for two pointers to nodes
of the mesh under construction. -/
def refinementNode [Add P] [HDiv P R P] [OfNat R 2] (this : Mesh P R) (nodeMatrix : NodeMatrix)
    (n0 n1 : Nat) : Except Failure (Nat × Mesh P R × NodeMatrix) :=
  match ownNodeRef this n0, ownNodeRef this n1 with
  | .ok a, .ok b => .ok (createRefinementNode_ this a b nodeMatrix)
  | .error e, _ => .error e
  | _, .error e => .error e

/-- The loop `for (j = 0; j < n.size(); j ++) n[j] = createRefinementNode_(
&node(c.node(T[j][0]).id()), &node(c.node(T[j][1]).id()), nodeMatrix)` over the
entries of the table `T` that are left; `n` collects the nodes. -/
def splitNodes [Add P] [HDiv P R P] [OfNat R 2] (w : Nat) (mesh : Mesh P R) (nodes : List Nat) :
    List (Nat × Nat) → List Nat → Mesh P R → NodeMatrix →
      Except Failure (List Nat × Mesh P R × NodeMatrix)
  | [], n, this, nodeMatrix => .ok (n, this, nodeMatrix)
  | (k0, k1) :: rest, n, this, nodeMatrix =>
    match copyOfNode w this mesh nodes k0, copyOfNode w this mesh nodes k1 with
    | .ok p0, .ok p1 =>
      match refinementNode this nodeMatrix p0 p1 with
      | .ok (nj, this1, nodeMatrix1) =>
        splitNodes w mesh nodes rest (n ++ [nj]) this1 nodeMatrix1
      | .error e => .error e
    | .error e, _ => .error e
    | _, .error e => .error e

/-- The first `count` entries of a table, as the loop bound `n.size()` asks for;
a table with fewer entries is read outside its bounds. -/
def tableRows (table : List (Nat × Nat)) (count : Nat) : Except Failure (List (Nat × Nat)) :=
  if count ≤ table.length then .ok (table.take count) else .error .outOfRange

/-- Creation of several cells of one class and marker, one after the other
(`createTriangle`, `createQuadrangle`, `createTetrahedron`: calls of
`createCell_` with `cellCount()` as id). -/
def createCells_ [Inhabited R] (shape : CellShape) (marker : Int) :
    List (List Nat) → Mesh P R → Mesh P R
  | [], this => this
  | ns :: rest, this =>
    createCells_ shape marker rest (createCell_ shape this ns marker this.cellCount).2

/-- Several calls of `createCell(ns, marker)`, one after the other. -/
def createCells [Inhabited R] (marker : Int) : List (List Nat) → Mesh P R → Mesh P R
  | [], this => this
  | ns :: rest, this => createCells marker rest (createCell this ns marker).2

/-- Several calls of `createBoundaryChecked_< B >(ns, marker)`, one after the
other (`createEdge`, `createTriangleFace`, `createQuadrangleFace`). -/
def createBoundaries (createBoundaryChecked_ : BoundaryCreator P R) (shape : BoundaryShape)
    (marker : Int) : List (List Nat) → Mesh P R → Mesh P R
  | [], this => this
  | ns :: rest, this =>
    createBoundaries createBoundaryChecked_ shape marker rest
      (createBoundaryChecked_ shape this ns marker).2

/-- Positions of the nodes of a cell of `mesh`. -/
def nodePositions (mesh : Mesh P R) (nodes : List Nat) : List P :=
  nodes.filterMap (fun ptr => (mesh.nodeVector_[ptr]?).map (fun n => n.pos))

/-- The element `n[k]` of the vector `n`, which the code has resized beyond
every index it reads. -/
def nth (n : List Nat) (k : Nat) : Nat := n.getD k 0

/-- The `switch (c.rtti())` in the cell loop of `createRefined_` for the cell `c`
of `mesh`: it fills the vector `n` with the nodes of the quadratic cell and, with
`h2`, creates the children of `c`. Returns `n`, the mesh and the map. -/
def refineCell [Add P] [HDiv P R P] [OfNat R 2] [Inhabited R] (w : Nat) (ext : Externals P R)
    (tables : SplitTables) (mesh : Mesh P R) (h2 : Bool) (c : Cell R) (this : Mesh P R)
    (nodeMatrix : NodeMatrix) : Except Failure (List Nat × Mesh P R × NodeMatrix) :=
  match c.shape with
  | .EdgeCell => do
    let n0 ← copyOfNode w this mesh c.nodes 0
    let n1 ← copyOfNode w this mesh c.nodes 1
    let (n2, this, nodeMatrix) ← refinementNode this nodeMatrix n0 n1
    let this := if h2 then createCells c.marker [[n0, n2], [n2, n1]] this else this
    pure ([n0, n1, n2], this, nodeMatrix)
  | .Triangle => do
    let n0 ← copyOfNode w this mesh c.nodes 0
    let n1 ← copyOfNode w this mesh c.nodes 1
    let n2 ← copyOfNode w this mesh c.nodes 2
    let (n3, this, nodeMatrix) ← refinementNode this nodeMatrix n0 n1
    let (n4, this, nodeMatrix) ← refinementNode this nodeMatrix n1 n2
    let (n5, this, nodeMatrix) ← refinementNode this nodeMatrix n2 n0
    let this :=
      if h2 then
        createCells_ .Triangle c.marker [[n0, n3, n5], [n1, n4, n3], [n2, n5, n4], [n3, n4, n5]] this
      else this
    pure ([n0, n1, n2, n3, n4, n5], this, nodeMatrix)
  | .Quadrangle => do
    let n0 ← copyOfNode w this mesh c.nodes 0
    let n1 ← copyOfNode w this mesh c.nodes 1
    let n2 ← copyOfNode w this mesh c.nodes 2
    let n3 ← copyOfNode w this mesh c.nodes 3
    let (n4, this, nodeMatrix) ← refinementNode this nodeMatrix n0 n1
    let (n5, this, nodeMatrix) ← refinementNode this nodeMatrix n1 n2
    let (n6, this, nodeMatrix) ← refinementNode this nodeMatrix n2 n3
    let (n7, this, nodeMatrix) ← refinementNode this nodeMatrix n3 n0
    let this :=
      if h2 then
        let r := createNode this (ext.shapeCentre (nodePositions mesh c.nodes)) ext.defaultMarker
        let n8 := r.1
        createCells_ .Quadrangle c.marker
          [[n0, n4, n8, n7], [n1, n5, n8, n4], [n2, n6, n8, n5], [n3, n7, n8, n6]] r.2
      else this
    pure ([n0, n1, n2, n3, n4, n5, n6, n7], this, nodeMatrix)
  | .Tetrahedron =>
    if this.oldTet10NumberingStyle_ then do
      let rows ← tableRows tables.Tet10NodeSplitZienk 10
      let (n, this, nodeMatrix) ← splitNodes w mesh c.nodes rows [] this nodeMatrix
      let this :=
        if h2 then
          createCells_ .Tetrahedron c.marker
            [[nth n 4, nth n 6, nth n 5, nth n 0], [nth n 4, nth n 5, nth n 6, nth n 9],
             [nth n 7, nth n 9, nth n 4, nth n 1], [nth n 7, nth n 4, nth n 9, nth n 5],
             [nth n 8, nth n 7, nth n 5, nth n 2], [nth n 8, nth n 5, nth n 7, nth n 9],
             [nth n 6, nth n 9, nth n 8, nth n 3], [nth n 6, nth n 8, nth n 9, nth n 5]] this
        else this
      pure (n, this, nodeMatrix)
    else do
      let rows ← tableRows tables.Tet10NodeSplit 10
      let (n, this, nodeMatrix) ← splitNodes w mesh c.nodes rows [] this nodeMatrix
      if h2 then throw .toImpl else pure (n, this, nodeMatrix)
  | .Hexahedron => do
    let rows ← tableRows tables.Hex20NodeSplit 20
    let (n, this, nodeMatrix) ← splitNodes w mesh c.nodes rows [] this nodeMatrix
    if h2 then do
      let (n20, this, nodeMatrix) ← refinementNode this nodeMatrix (nth n 8) (nth n 10)
      let (n21, this, nodeMatrix) ← refinementNode this nodeMatrix (nth n 12) (nth n 14)
      let (n22, this, nodeMatrix) ← refinementNode this nodeMatrix (nth n 8) (nth n 12)
      let (n23, this, nodeMatrix) ← refinementNode this nodeMatrix (nth n 9) (nth n 13)
      let (n24, this, nodeMatrix) ← refinementNode this nodeMatrix (nth n 10) (nth n 14)
      let (n25, this, nodeMatrix) ← refinementNode this nodeMatrix (nth n 11) (nth n 15)
      let (n26, this, nodeMatrix) ← refinementNode this nodeMatrix n20 n21
      let this := createCells c.marker
        [[nth n 0, nth n 8, n20, nth n 11, nth n 16, n22, n26, n25],
         [nth n 8, nth n 1, nth n 9, n20, n22, nth n 17, n23, n26],
         [nth n 11, n20, nth n 10, nth n 3, n25, n26, n24, nth n 19],
         [n20, nth n 9, nth n 2, nth n 10, n26, n23, nth n 18, n24],
         [nth n 16, n22, n26, n25, nth n 4, nth n 12, n21, nth n 15],
         [n22, nth n 17, n23, n26, nth n 12, nth n 5, nth n 13, n21],
         [n25, n26, n24, nth n 19, nth n 15, n21, nth n 14, nth n 7],
         [n26, n23, nth n 18, n24, n21, nth n 13, nth n 6, nth n 14]] this
      pure (n, this, nodeMatrix)
    else pure (n, this, nodeMatrix)
  | .TriPrism => do
    let rows ← tableRows tables.Prism15NodeSplit 15
    let (n, this, nodeMatrix) ← splitNodes w mesh c.nodes rows [] this nodeMatrix
    if h2 then do
      let (nf1, this, nodeMatrix) ← refinementNode this nodeMatrix (nth n 6) (nth n 9)
      let (nf2, this, nodeMatrix) ← refinementNode this nodeMatrix (nth n 7) (nth n 10)
      let (nf3, this, nodeMatrix) ← refinementNode this nodeMatrix (nth n 8) (nth n 11)
      let this := createCells c.marker
        [[nth n 0, nth n 6, nth n 8, nth n 12, nf1, nf3],
         [nth n 1, nth n 7, nth n 6, nth n 13, nf2, nf1],
         [nth n 2, nth n 8, nth n 7, nth n 14, nf3, nf2],
         [nth n 6, nth n 7, nth n 8, nf1, nf2, nf3],
         [nth n 12, nf1, nf3, nth n 3, nth n 9, nth n 11],
         [nth n 13, nf2, nf1, nth n 4, nth n 10, nth n 9],
         [nth n 14, nf3, nf2, nth n 5, nth n 11, nth n 10],
         [nf1, nf2, nf3, nth n 9, nth n 10, nth n 11]] this
      pure (n, this, nodeMatrix)
    else pure (n, this, nodeMatrix)
  | .Pyramid => do
    let rows ← tableRows tables.Pyramid13NodeSplit 13
    let (n, this, nodeMatrix) ← splitNodes w mesh c.nodes rows [] this nodeMatrix
    if h2 then throw .toImpl else pure (n, this, nodeMatrix)
  | _ => throw .toImpl

/-- The first `switch (b.rtti())` in the boundary loop of `createRefined_` for
the boundary `b` of `mesh`: it fills the vector `n`. -/
def boundaryNodes [Add P] [HDiv P R P] [OfNat R 2] (w : Nat) (mesh : Mesh P R) (b : Boundary)
    (this : Mesh P R) (nodeMatrix : NodeMatrix) :
    Except Failure (List Nat × Mesh P R × NodeMatrix) :=
  match b.shape with
  | .NodeBoundary => do
    let n0 ← copyOfNode w this mesh b.nodes 0
    pure ([n0], this, nodeMatrix)
  | .Edge => do
    let n0 ← copyOfNode w this mesh b.nodes 0
    let n1 ← copyOfNode w this mesh b.nodes 1
    let (n2, this, nodeMatrix) ← refinementNode this nodeMatrix n0 n1
    pure ([n0, n1, n2], this, nodeMatrix)
  | .TriangleFace => do
    let n0 ← copyOfNode w this mesh b.nodes 0
    let n1 ← copyOfNode w this mesh b.nodes 1
    let n2 ← copyOfNode w this mesh b.nodes 2
    let (n3, this, nodeMatrix) ← refinementNode this nodeMatrix n0 n1
    let (n4, this, nodeMatrix) ← refinementNode this nodeMatrix n1 n2
    let (n5, this, nodeMatrix) ← refinementNode this nodeMatrix n2 n0
    pure ([n0, n1, n2, n3, n4, n5], this, nodeMatrix)
  | .QuadrangleFace => do
    let n0 ← copyOfNode w this mesh b.nodes 0
    let n1 ← copyOfNode w this mesh b.nodes 1
    let n2 ← copyOfNode w this mesh b.nodes 2
    let n3 ← copyOfNode w this mesh b.nodes 3
    let (n4, this, nodeMatrix) ← refinementNode this nodeMatrix n0 n1
    let (n5, this, nodeMatrix) ← refinementNode this nodeMatrix n1 n2
    let (n6, this, nodeMatrix) ← refinementNode this nodeMatrix n2 n3
    let (n7, this, nodeMatrix) ← refinementNode this nodeMatrix n3 n0
    pure ([n0, n1, n2, n3, n4, n5, n6, n7], this, nodeMatrix)
  | _ => throw .toImpl

/-- The body of the boundary loop of `createRefined_` for the boundary `b` of
`mesh`: the vector `n` is filled, then either the quadratic boundary over `n` is
created (`p2 && !h2`) or the sub-facets of `b`, all with the marker of `b`. -/
def refineBoundary [Add P] [HDiv P R P] [OfNat R 2] (w : Nat)
    (createBoundaryChecked_ : BoundaryCreator P R) (mesh : Mesh P R) (p2 h2 : Bool)
    (b : Boundary) (this : Mesh P R) (nodeMatrix : NodeMatrix) :
    Except Failure (Mesh P R × NodeMatrix) := do
  let (n, this, nodeMatrix) ← boundaryNodes w mesh b this nodeMatrix
  if p2 && !h2 then
    pure ((createBoundary createBoundaryChecked_ this n b.marker).2, nodeMatrix)
  else
    match b.shape with
    | .NodeBoundary =>
      pure ((createBoundary createBoundaryChecked_ this n b.marker).2, nodeMatrix)
    | .Edge =>
      pure (createBoundaries createBoundaryChecked_ .Edge b.marker
        [[nth n 0, nth n 2], [nth n 2, nth n 1]] this, nodeMatrix)
    | .TriangleFace =>
      pure (createBoundaries createBoundaryChecked_ .TriangleFace b.marker
        [[nth n 0, nth n 3, nth n 5], [nth n 1, nth n 4, nth n 3], [nth n 2, nth n 5, nth n 4],
         [nth n 3, nth n 4, nth n 5]] this, nodeMatrix)
    | .QuadrangleFace => do
      let r4 ← ownNodeRef this (nth n 4)
      let r6 ← ownNodeRef this (nth n 6)
      let (n8, this, nodeMatrix) ←
        match nodeMatrix (r4.node.id, r6.node.id) with
        | some n8 => pure (n8, this, nodeMatrix)
        | none => refinementNode this nodeMatrix (nth n 5) (nth n 7)
      pure (createBoundaries createBoundaryChecked_ .QuadrangleFace b.marker
        [[nth n 0, nth n 4, n8, nth n 7], [nth n 1, nth n 5, n8, nth n 4],
         [nth n 2, nth n 6, n8, nth n 5], [nth n 3, nth n 7, n8, nth n 6]] this, nodeMatrix)
    | _ => pure (this, nodeMatrix)

/-- The loop `for (i = 0; i < mesh.nodeCount(); i ++) createRefinementNode_(
&mesh.node(i), &mesh.node(i), nodeMatrix)` over the indices that are left. -/
def copyNodes [Add P] [HDiv P R P] [OfNat R 2] (w : Nat) (mesh : Mesh P R) :
    List Nat → Mesh P R → NodeMatrix → Except Failure (Mesh P R × NodeMatrix)
  | [], this, nodeMatrix => .ok (this, nodeMatrix)
  | i :: rest, this, nodeMatrix =>
    match node w mesh i with
    | .error e => .error e
    | .ok n =>
      let r := createRefinementNode_ this { ptr := .input i, node := n }
        { ptr := .input i, node := n } nodeMatrix
      copyNodes w mesh rest r.2.1 r.2.2

/-- The cell loop of `createRefined_` over the indices that are left: the
`switch` for cell `i`, then `createCell(n, c.marker())` if `p2 && !h2`. -/
def refineCells [Add P] [HDiv P R P] [OfNat R 2] [Inhabited R] (w : Nat) (ext : Externals P R)
    (tables : SplitTables) (mesh : Mesh P R) (p2 h2 : Bool) :
    List Nat → Mesh P R → NodeMatrix → Except Failure (Mesh P R × NodeMatrix)
  | [], this, nodeMatrix => .ok (this, nodeMatrix)
  | i :: rest, this, nodeMatrix =>
    match cell w mesh i with
    | .error e => .error e
    | .ok c =>
      match refineCell w ext tables mesh h2 c this nodeMatrix with
      | .error e => .error e
      | .ok (n, this1, nodeMatrix1) =>
        let this2 := if p2 && !h2 then (createCell this1 n c.marker).2 else this1
        refineCells w ext tables mesh p2 h2 rest this2 nodeMatrix1

/-- The boundary loop of `createRefined_` over the indices that are left. -/
def refineBoundaries [Add P] [HDiv P R P] [OfNat R 2] (w : Nat)
    (createBoundaryChecked_ : BoundaryCreator P R) (mesh : Mesh P R) (p2 h2 : Bool) :
    List Nat → Mesh P R → NodeMatrix → Except Failure (Mesh P R × NodeMatrix)
  | [], this, nodeMatrix => .ok (this, nodeMatrix)
  | i :: rest, this, nodeMatrix =>
    match boundary w mesh i with
    | .error e => .error e
    | .ok b =>
      match refineBoundary w createBoundaryChecked_ mesh p2 h2 b this nodeMatrix with
      | .error e => .error e
      | .ok (this1, nodeMatrix1) =>
        refineBoundaries w createBoundaryChecked_ mesh p2 h2 rest this1 nodeMatrix1

/-- Member `createRefined_(mesh, p2, h2)`: `this` is cleared, every node of
`mesh` is copied, every cell and then every boundary of `mesh` is refined.
Returns the mesh under construction, or the failure that ends the call. -/
def createRefined_ [Add P] [HDiv P R P] [OfNat R 2] [Inhabited R] (w : Nat)
    (ext : Externals P R) (tables : SplitTables) (createBoundaryChecked_ : BoundaryCreator P R)
    (this mesh : Mesh P R) (p2 h2 : Bool) : Except Failure (Mesh P R) := do
  let (this, nodeMatrix) ←
    copyNodes w mesh (List.range mesh.nodeCount) this.clear (fun _ => none)
  let (this, nodeMatrix) ←
    refineCells w ext tables mesh p2 h2 (List.range mesh.cellCount) this nodeMatrix
  let (this, _) ←
    refineBoundaries w createBoundaryChecked_ mesh p2 h2 (List.range mesh.boundaryCount) this
      nodeMatrix
  pure this

end Mesh

/-! ## The classification tables as the specification words them -/

/-- The table of cell classes per `(pointCount, dimension)`, written from the
specification: `0 -> Cell`, `2 -> EdgeCell`, `3 -> Edge3Cell` (dimension 1) and
`Triangle` (dimension 2), `4 -> Quadrangle` (dimension 2) and `Tetrahedron`
(dimension 3), `5 -> Pyramid`, `6 -> Triangle6` (dimension 2) and `TriPrism`
(dimension 3), `8 -> Quadrangle8` (dimension 2) and `Hexahedron` (dimension 3),
`10 -> Tetrahedron10`, `13 -> Pyramid13`, `15 -> TriPrism15`,
`20 -> Hexahedron20`; every other pair has no class. -/
def cellTable (pointCount dimension : Nat) : Option CellShape :=
  if pointCount = 0 then some .Cell
  else if pointCount = 2 then some .EdgeCell
  else if pointCount = 3 ∧ dimension = 1 then some .Edge3Cell
  else if pointCount = 3 ∧ dimension = 2 then some .Triangle
  else if pointCount = 4 ∧ dimension = 2 then some .Quadrangle
  else if pointCount = 4 ∧ dimension = 3 then some .Tetrahedron
  else if pointCount = 5 then some .Pyramid
  else if pointCount = 6 ∧ dimension = 2 then some .Triangle6
  else if pointCount = 6 ∧ dimension = 3 then some .TriPrism
  else if pointCount = 8 ∧ dimension = 2 then some .Quadrangle8
  else if pointCount = 8 ∧ dimension = 3 then some .Hexahedron
  else if pointCount = 10 then some .Tetrahedron10
  else if pointCount = 13 then some .Pyramid13
  else if pointCount = 15 then some .TriPrism15
  else if pointCount = 20 then some .Hexahedron20
  else none

/-- The table of boundary classes per `(pointCount, dimension)` that
`createBoundary` implements: `1 -> NodeBoundary`, `2 -> Edge`, `3 -> Edge3` in
dimension 2 and `TriangleFace` in every other dimension, `4 -> QuadrangleFace`,
`6 -> Triangle6Face`, `8 -> Quadrangle8Face`; every other count has no class. -/
def boundaryTable (pointCount dimension : Nat) : Option BoundaryShape :=
  if pointCount = 1 then some .NodeBoundary
  else if pointCount = 2 then some .Edge
  else if pointCount = 3 ∧ dimension = 2 then some .Edge3
  else if pointCount = 3 ∧ dimension ≠ 2 then some .TriangleFace
  else if pointCount = 4 then some .QuadrangleFace
  else if pointCount = 6 then some .Triangle6Face
  else if pointCount = 8 then some .Quadrangle8Face
  else none

/-! ## Example data -/

/-- A mesh of dimension `dim` over integer coordinates with the three nodes
`(0,0)`, `(1,0)`, `(0,1)` of markers `m0`, `m1`, `m2` (positions are pairs
flattened to one integer each, `10 * x + y`). -/
def threeNodes (dim : Nat) (m0 m1 m2 : Int) : Mesh Int Int :=
  { dimension_ := dim,
    nodeVector_ := [{ pos := 0, marker := m0, id := 0 }, { pos := 10, marker := m1, id := 1 },
                    { pos := 1, marker := m2, id := 2 }] }

/-- The mesh `threeNodes 2 m0 m1 m2` with one triangle over its three nodes, of
marker `cellMarker`. -/
def oneTriangle (m0 m1 m2 cellMarker : Int) : Mesh Int Int :=
  { threeNodes 2 m0 m1 m2 with
    cellVector_ := [{ shape := .Triangle, nodes := [0, 1, 2], marker := cellMarker, id := 0,
                      attribute_ := 0 }] }

/-- The `Node *` to node `i` of the mesh under construction, which holds `n`. -/
def ownRef (i : Nat) (n : Node Int) : NodeRef Int := { ptr := .own i, node := n }

/-- A map without entries. -/
def emptyMatrix : NodeMatrix := fun _ => none

/-- Stand-ins over integer coordinates for the operations declared outside
`mesh.cpp`; a kd-tree that finds no node. -/
def plainExternals : Mesh.Externals Int Int :=
  { distance := fun a b => a - b, less := fun a b => decide (a < b),
    nearest := fun _ _ _ => none, defaultMarker := 0, shapeCentre := fun _ => 0 }

/-- Split tables without rows, for meshes whose cells need no table (edges,
triangles, quadrangles). -/
def noTables : Mesh.SplitTables :=
  { Tet10NodeSplitZienk := [], Tet10NodeSplit := [], Hex20NodeSplit := [],
    Prism15NodeSplit := [], Pyramid13NodeSplit := [] }

/-- The markers of the nodes and the markers of the cells of the mesh a call
returned, `none` if the call ended in a failure. -/
def markersOf {P R : Type} (r : Except Failure (Mesh P R)) : Option (List Int × List Int) :=
  match r with
  | .ok m => some (m.nodeVector_.map (fun n => n.marker), m.cellVector_.map (fun c => c.marker))
  | .error _ => none

open Mesh

/-! ## Properties of states and calls -/

/-- The map holds the same entry under both orderings of every key. -/
def SymmetricMatrix (M : NodeMatrix) : Prop := ∀ i j : Int, M (i, j) = M (j, i)

/-- A boundary creator that leaves the nodes and the cells of the mesh alone. -/
def KeepsNodesAndCells (cbc : BoundaryCreator P R) : Prop :=
  ∀ shape m nodes marker,
    (cbc shape m nodes marker).2.nodeVector_ = m.nodeVector_ ∧
    (cbc shape m nodes marker).2.cellVector_ = m.cellVector_

/-- The nodes of `this` start with the nodes of `mesh`, and every node of `this`
is stored at the index given by its id. -/
def HoldsNodesOf (mesh this : Mesh P R) : Prop :=
  (∃ l, this.nodeVector_ = mesh.nodeVector_ ++ l) ∧ IdsAreIndices this

/-- The property `Q` holds for the value a call returns, if it returns. -/
def WhenOk {α : Type} (Q : α → Prop) (x : Except Failure α) : Prop := ∀ a, x = .ok a → Q a

/-- The map registers exactly the pairs `(i, i)` with `i < V`, each with the node
at index `i`. -/
def DiagMatrix (V : Nat) (M : NodeMatrix) : Prop :=
  ∀ a b : Int, M (a, b) = if a = b ∧ 0 ≤ a ∧ a < (V : Int) then some a.toNat else none

/-- What `createRefined_(mesh, true, false)` makes of `oneTriangle 0 0 0 7` in a
new mesh of dimension 2: the three nodes, the three nodes between them, and one
`Triangle6`. -/
def quadraticTriangle : Mesh Int Int :=
  { dimension_ := 2,
    nodeVector_ := [{ pos := 0, marker := 0, id := 0 }, { pos := 10, marker := 0, id := 1 },
                    { pos := 1, marker := 0, id := 2 }, { pos := 5, marker := 0, id := 3 },
                    { pos := 5, marker := 0, id := 4 }, { pos := 0, marker := 0, id := 5 }],
    cellVector_ := [{ shape := .Triangle6, nodes := [0, 1, 2, 3, 4, 5], marker := 7, id := 0,
                      attribute_ := 0 }] }

/-- The call returns, and the property `Q` holds for the value it returns. -/
def Returns {α : Type} (Q : α → Prop) (x : Except Failure α) : Prop := ∃ a, x = .ok a ∧ Q a

/-- The undirected edge between the nodes `a` and `b`. -/
def undirected (a b : Nat) : Nat × Nat := (min a b, max a b)

/-- The edges of a triangle over the nodes `[a, b, c]`, in the order in which
the code asks for the nodes between them: `(a, b)`, `(b, c)`, `(c, a)`. -/
def triangleEdges (nodes : List Nat) : List (Nat × Nat) :=
  match nodes with
  | [a, b, c] => [(a, b), (b, c), (c, a)]
  | _ => []

/-- The undirected edges between two different nodes of the triangles of a list
of cells (with repetitions). -/
def cellEdges (cells : List (Cell R)) : List (Nat × Nat) :=
  ((cells.flatMap (fun c => triangleEdges c.nodes)).filter (fun e => e.1 ≠ e.2)).map
    (fun e => undirected e.1 e.2)

/-- The number of distinct undirected edges of the triangles of a mesh. -/
def edgeCount (mesh : Mesh P R) : Nat := (cellEdges mesh.cellVector_).dedup.length

/-- The set of undirected edges `S` with the edge between `a` and `b` added, if
the two are different nodes. -/
def withEdge (a b : Nat) (S : Finset (Nat × Nat)) : Finset (Nat × Nat) :=
  if a = b then S else insert (undirected a b) S

/-- The state of a refinement of triangles over `V` input nodes after the nodes
between the edges `S` have been created: ids are indices, there is one node per
input node and per edge of `S`, and the map registers the pairs `(i, i)` of input
nodes and both orderings of the edges of `S`, each with a node of the mesh. -/
def TriangleState (V : Nat) (S : Finset (Nat × Nat)) (this : Mesh P R) (M : NodeMatrix) : Prop :=
  IdsAreIndices this ∧ this.nodeCount = V + S.card ∧
  (∀ a b : Int, (M (a, b)).isSome ↔
    0 ≤ a ∧ 0 ≤ b ∧ a < V ∧ b < V ∧ (a = b ∨ undirected a.toNat b.toNat ∈ S)) ∧
  (∀ k n, M k = some n → n < this.nodeCount)

/-- The cells of a refinement of triangles after `k` input cells: four triangles
per input cell, over nodes of the mesh. -/
def TriangleCells (k : Nat) (this : Mesh P R) : Prop :=
  this.cellCount = 4 * k ∧
  ∀ c ∈ this.cellVector_, c.shape = CellShape.Triangle ∧ ∀ x ∈ c.nodes, x < this.nodeCount

/-- A boundary of a 2D mesh of triangles that lies on a cell edge: an `Edge`
between two nodes of a triangle, or a `NodeBoundary` on a node. -/
def OnCellEdge (mesh : Mesh P R) (b : Boundary) : Prop :=
  (b.shape = BoundaryShape.Edge ∧ ∃ a c, b.nodes = [a, c] ∧ a < mesh.nodeCount ∧
    c < mesh.nodeCount ∧ (a = c ∨ undirected a c ∈ cellEdges mesh.cellVector_)) ∨
  (b.shape = BoundaryShape.NodeBoundary ∧ ∃ a, b.nodes = [a] ∧ a < mesh.nodeCount)
/-- The input of a refinement of triangles: ids are indices, every cell is a
triangle over three nodes of the mesh, every boundary lies on a cell edge, and
the counts fit the counters of `w` bits. -/
def TriangleMesh (w : Nat) (mesh : Mesh P R) : Prop :=
  IdsAreIndices mesh ∧
  (∀ c ∈ mesh.cellVector_, c.shape = CellShape.Triangle ∧ ∃ a b d, c.nodes = [a, b, d] ∧
    a < mesh.nodeCount ∧ b < mesh.nodeCount ∧ d < mesh.nodeCount) ∧
  (∀ b ∈ mesh.boundaryVector_, OnCellEdge mesh b) ∧
  mesh.nodeCount + edgeCount mesh < 2 ^ w ∧ mesh.cellCount < 2 ^ w ∧
  mesh.boundaryCount < 2 ^ w

/-! ## Refinement of meshes of every supported class -/

/-- Member `createP2()`: the quadratic refinement of `this` in a new mesh of the
same dimension. -/
def Mesh.createP2 [Add P] [HDiv P R P] [OfNat R 2] [Inhabited R] (w : Nat)
    (ext : Externals P R) (tables : SplitTables) (createBoundaryChecked_ : BoundaryCreator P R)
    (this : Mesh P R) : Except Failure (Mesh P R) :=
  createRefined_ w ext tables createBoundaryChecked_ (Mesh.new this.dimension_) this true false

/-- Node `x` of `this` lies in the middle between its nodes `a` and `b`: its
position is `(pos a + pos b) / 2` with the two nodes in one order or the other. -/
def MidPoint [Add P] [HDiv P R P] [OfNat R 2] (this : Mesh P R) (a b x : Nat) : Prop :=
  ∃ na nb nx, this.nodeVector_[a]? = some na ∧ this.nodeVector_[b]? = some nb ∧
    this.nodeVector_[x]? = some nx ∧
    (nx.pos = (na.pos + nb.pos) / (2 : R) ∨ nx.pos = (nb.pos + na.pos) / (2 : R))

/-- The node that a request for the pair `a`, `b` of input nodes delivers: `a`
itself if both are the same node, a node in the middle otherwise. -/
def PairPoint [Add P] [HDiv P R P] [OfNat R 2] (this : Mesh P R) (a b x : Nat) : Prop :=
  (a = b → x = a) ∧ (a ≠ b → MidPoint this a b x)

/-- The state of a refinement of a mesh with `V` nodes: the ids of the mesh
under construction are indices, it holds at least `V` nodes, the map registers
every input node under its own id, every registered node exists, and a node
registered under two different ids lies in the middle between those nodes. -/
def RefState [Add P] [HDiv P R P] [OfNat R 2] (V : Nat) (this : Mesh P R) (M : NodeMatrix) :
    Prop :=
  IdsAreIndices this ∧ V ≤ this.nodeCount ∧
  (∀ a : Nat, a < V → M ((a : Int), (a : Int)) = some a) ∧
  (∀ (a b : Int) (n : Nat), M (a, b) = some n → n < this.nodeCount ∧
    (a ≠ b → 0 ≤ a ∧ 0 ≤ b ∧ MidPoint this a.toNat b.toNat n))

/-- Number of nodes of a cell of each class. -/
def shapeNodeCount : CellShape → Nat
  | .Cell => 0
  | .EdgeCell => 2
  | .Edge3Cell => 3
  | .Triangle => 3
  | .Triangle6 => 6
  | .Quadrangle => 4
  | .Quadrangle8 => 8
  | .Tetrahedron => 4
  | .Tetrahedron10 => 10
  | .Hexahedron => 8
  | .Hexahedron20 => 20
  | .TriPrism => 6
  | .TriPrism15 => 15
  | .Pyramid => 5
  | .Pyramid13 => 13

/-- Number of nodes that the `switch` of the cell loop puts into the vector `n`
for a cell of the class. -/
def quadraticCount : CellShape → Nat
  | .EdgeCell => 3
  | .Triangle => 6
  | .Quadrangle => 8
  | .Tetrahedron => 10
  | .Hexahedron => 20
  | .TriPrism => 15
  | .Pyramid => 13
  | _ => 0

/-- A split table for a class with `k` nodes and `t` nodes in the quadratic
class: it has `t` rows at least, row `j < k` is `(j, j)`, and each of the rows
`k .. t - 1` names two different local nodes. -/
def ProperTable (k t : Nat) (T : List (Nat × Nat)) : Prop :=
  k ≤ t ∧ t ≤ T.length ∧ T.take k = (List.range k).map (fun j => (j, j)) ∧
  ∀ row ∈ (T.take t).drop k, row.1 < k ∧ row.2 < k ∧ row.1 ≠ row.2

/-- All five split tables are proper. -/
def ProperTables (tables : SplitTables) : Prop :=
  ProperTable 4 10 tables.Tet10NodeSplitZienk ∧ ProperTable 4 10 tables.Tet10NodeSplit ∧
  ProperTable 8 20 tables.Hex20NodeSplit ∧ ProperTable 6 15 tables.Prism15NodeSplit ∧
  ProperTable 5 13 tables.Pyramid13NodeSplit

/-- Node `x` is what a request for two different local nodes of a cell over
`nodes` delivers. -/
def EdgeNode [Add P] [HDiv P R P] [OfNat R 2] (this : Mesh P R) (nodes : List Nat) (x : Nat) :
    Prop :=
  ∃ k0 k1 a b : Nat, k0 ≠ k1 ∧ nodes[k0]? = some a ∧ nodes[k1]? = some b ∧
    PairPoint this a b x

/-- The vector `n` for the cell `c`: the nodes of `c` in their order, followed by
nodes for pairs of different local nodes of `c`; all are nodes of `this`. -/
def QuadraticNodes [Add P] [HDiv P R P] [OfNat R 2] (this : Mesh P R) (c : Cell R)
    (n : List Nat) : Prop :=
  n.length = quadraticCount c.shape ∧ n.take c.nodes.length = c.nodes ∧
  (∀ x ∈ n.drop c.nodes.length, EdgeNode this c.nodes x) ∧ ∀ x ∈ n, x < this.nodeCount

/-- The classes for which the `switch` of the cell loop ends in `THROW_TO_IMPL`:
every class without a `case`, with `h2` the pyramid, and with `h2` the
tetrahedron unless `oldTet10NumberingStyle_` is set. -/
def unsplittable (h2 oldStyle : Bool) : CellShape → Bool
  | .EdgeCell => false
  | .Triangle => false
  | .Quadrangle => false
  | .Hexahedron => false
  | .TriPrism => false
  | .Tetrahedron => h2 && !oldStyle
  | .Pyramid => h2
  | _ => true

/-- Number of tetrahedra among the cells. -/
def tetrahedronCount (cells : List (Cell R)) : Nat :=
  cells.countP (fun c => decide (c.shape = CellShape.Tetrahedron))

/-- A cell of a mesh with `V` nodes: it has the number of nodes of its class,
and its nodes are nodes of the mesh. -/
def CellOver (V : Nat) (c : Cell R) : Prop :=
  c.nodes.length = shapeNodeCount c.shape ∧ ∀ p ∈ c.nodes, p < V

/-- What the `switch` of the cell loop does for the cell `c` in the state
`this`: the state stays a state of the refinement, at most 27 nodes and, with
`h2` only, cells are appended (8 tetrahedra for a tetrahedron, no tetrahedron
otherwise), and `n` is the vector of the quadratic cell. -/
def CellStep [Add P] [HDiv P R P] [OfNat R 2] (V : Nat) (h2 : Bool) (c : Cell R)
    (this : Mesh P R) (r : List Nat × Mesh P R × NodeMatrix) : Prop :=
  RefState V r.2.1 r.2.2 ∧
  (∃ l ch, l.length ≤ 27 ∧
    r.2.1 = { this with nodeVector_ := this.nodeVector_ ++ l,
                        cellVector_ := this.cellVector_ ++ ch } ∧
    (h2 = false → ch = []) ∧
    (h2 = true → tetrahedronCount ch = if c.shape = CellShape.Tetrahedron then 8 else 0)) ∧
  QuadraticNodes r.2.1 c r.1

/-- The mesh `this1` is `this` with at most `k` nodes appended. -/
def Grows (this this1 : Mesh P R) (k : Nat) : Prop :=
  ∃ l, l.length ≤ k ∧ this1 = { this with nodeVector_ := this.nodeVector_ ++ l }

/-- Number of nodes of a boundary of each class. -/
def boundaryNodeCount : BoundaryShape → Nat
  | .NodeBoundary => 1
  | .Edge => 2
  | .Edge3 => 3
  | .TriangleFace => 3
  | .Triangle6Face => 6
  | .QuadrangleFace => 4
  | .Quadrangle8Face => 8

/-- The classes for which the first `switch` of the boundary loop ends in
`THROW_TO_IMPL`: every class without a `case`. -/
def unsplittableBoundary : BoundaryShape → Bool
  | .NodeBoundary => false
  | .Edge => false
  | .TriangleFace => false
  | .QuadrangleFace => false
  | _ => true

/-- Number of nodes that the first `switch` of the boundary loop puts into the
vector `n` for a boundary of the class. -/
def quadraticFacetCount : BoundaryShape → Nat
  | .NodeBoundary => 1
  | .Edge => 3
  | .TriangleFace => 6
  | .QuadrangleFace => 8
  | _ => 0

/-- A boundary of a mesh with `V` nodes: it has the number of nodes of its
class, and its nodes are nodes of the mesh. -/
def BoundaryOver (V : Nat) (b : Boundary) : Prop :=
  b.nodes.length = boundaryNodeCount b.shape ∧ ∀ p ∈ b.nodes, p < V

/-- Number of boundaries that the boundary loop creates for a boundary of the
class: one quadratic boundary if `quadratic` (`p2 && !h2`), the sub-facets
otherwise. -/
def facetCount (quadratic : Bool) : BoundaryShape → Nat
  | .NodeBoundary => 1
  | .Edge => if quadratic then 1 else 2
  | .TriangleFace => if quadratic then 1 else 4
  | .QuadrangleFace => if quadratic then 1 else 4
  | _ => 0

/-- A boundary creator that appends one boundary with the marker handed over
and leaves everything else alone. -/
def PushesMarked (cbc : BoundaryCreator P R) : Prop :=
  ∀ shape m nodes marker, ∃ b : Boundary, b.marker = marker ∧
    (cbc shape m nodes marker).2 = { m with boundaryVector_ := m.boundaryVector_ ++ [b] }

/-- The markers of the boundaries of a mesh, in the order of the boundaries. -/
def boundaryMarkers (m : Mesh P R) : List Int := m.boundaryVector_.map (fun b => b.marker)

/-- What the body of the boundary loop does for the boundary `b` in the state
`this`: the state stays a state of the refinement, at most 5 nodes are appended,
the cells stay, and a creator that pushes marked boundaries has appended
`facetCount` boundaries with the marker of `b`. -/
def BoundaryStep [Add P] [HDiv P R P] [OfNat R 2] (V : Nat) (cbc : BoundaryCreator P R)
    (p2 h2 : Bool) (b : Boundary) (this : Mesh P R) (r : Mesh P R × NodeMatrix) : Prop :=
  RefState V r.1 r.2 ∧ (∃ l, l.length ≤ 5 ∧ r.1.nodeVector_ = this.nodeVector_ ++ l) ∧
  r.1.cellVector_ = this.cellVector_ ∧
  (PushesMarked cbc → boundaryMarkers r.1 =
    boundaryMarkers this ++ List.replicate (facetCount (p2 && !h2) b.shape) b.marker)

/-- An input of `createRefined_` that the refinement can walk through: ids are
indices, the split tables are proper, every cell and boundary has the nodes of
its class among the nodes of the mesh, and the nodes that the refinement may
create fit the counters of `w` bits (at most 27 per cell and 5 per boundary). -/
def Refinable (w : Nat) (tables : SplitTables) (mesh : Mesh P R) : Prop :=
  IdsAreIndices mesh ∧ ProperTables tables ∧
  (∀ c ∈ mesh.cellVector_, CellOver mesh.nodeCount c) ∧
  (∀ b ∈ mesh.boundaryVector_, BoundaryOver mesh.nodeCount b) ∧
  mesh.nodeCount + 27 * mesh.cellCount + 5 * mesh.boundaryCount < 2 ^ w

/-- The cell classes with a `case` in the `switch` of the cell loop. -/
def splittableShapes : List CellShape :=
  [.EdgeCell, .Triangle, .Quadrangle, .Tetrahedron, .Hexahedron, .TriPrism, .Pyramid]

/-- The boundary classes with a `case` in the first `switch` of the boundary
loop. -/
def splittableBoundaryShapes : List BoundaryShape :=
  [.NodeBoundary, .Edge, .TriangleFace, .QuadrangleFace]

/-- Split tables for the examples: the rows `(j, j)` for the nodes of the class,
then one row per edge of the class. -/
def exampleTables : Mesh.SplitTables :=
  { Tet10NodeSplitZienk :=
      [(0, 0), (1, 1), (2, 2), (3, 3), (0, 1), (0, 2), (0, 3), (1, 2), (2, 3), (3, 1)],
    Tet10NodeSplit :=
      [(0, 0), (1, 1), (2, 2), (3, 3), (0, 1), (1, 2), (2, 0), (0, 3), (1, 3), (2, 3)],
    Hex20NodeSplit :=
      [(0, 0), (1, 1), (2, 2), (3, 3), (4, 4), (5, 5), (6, 6), (7, 7), (0, 1), (1, 2), (2, 3),
       (3, 0), (4, 5), (5, 6), (6, 7), (7, 4), (0, 4), (1, 5), (2, 6), (3, 7)],
    Prism15NodeSplit :=
      [(0, 0), (1, 1), (2, 2), (3, 3), (4, 4), (5, 5), (0, 1), (1, 2), (2, 0), (3, 4), (4, 5),
       (5, 3), (0, 3), (1, 4), (2, 5)],
    Pyramid13NodeSplit :=
      [(0, 0), (1, 1), (2, 2), (3, 3), (4, 4), (0, 1), (1, 2), (2, 3), (3, 0), (0, 4), (1, 4),
       (2, 4), (3, 4)] }

/-- A mesh of dimension 3 over integer coordinates with four nodes, one
tetrahedron over them with marker 7, and the triangle face over the first three
nodes with marker 5. -/
def oneTetrahedron : Mesh Int Int :=
  { dimension_ := 3,
    nodeVector_ := [{ pos := 0, marker := 0, id := 0 }, { pos := 100, marker := 0, id := 1 },
                    { pos := 10, marker := 0, id := 2 }, { pos := 1, marker := 0, id := 3 }],
    cellVector_ := [{ shape := .Tetrahedron, nodes := [0, 1, 2, 3], marker := 7, id := 0,
                      attribute_ := 0 }],
    boundaryVector_ := [{ shape := .TriangleFace, nodes := [0, 1, 2], marker := 5, id := 0 }] }

/-- A new mesh of dimension 3 in which `oldTet10NumberingStyle_` is switched off. -/
def newStyleMesh : Mesh Int Int := { (Mesh.new 3 : Mesh Int Int) with oldTet10NumberingStyle_ := false }

/-- The quadratic class of each class that the cell loop handles, as the
specification lists them: edge -> `Edge3Cell`, triangle -> `Triangle6`,
quadrangle -> `Quadrangle8`, tetrahedron -> `Tetrahedron10`, hexahedron ->
`Hexahedron20`, prism -> `TriPrism15`, pyramid -> `Pyramid13`. -/
def quadraticShape : CellShape → Option CellShape
  | .EdgeCell => some .Edge3Cell
  | .Triangle => some .Triangle6
  | .Quadrangle => some .Quadrangle8
  | .Tetrahedron => some .Tetrahedron10
  | .Hexahedron => some .Hexahedron20
  | .TriPrism => some .TriPrism15
  | .Pyramid => some .Pyramid13
  | _ => none

/-- The class is one that the cell loop handles, and the mesh has the dimension
in which `createCell` reads the node count of its quadratic cell as that cell:
dimension 1 for an edge, dimension 2 for a triangle and a quadrangle, any
dimension for the volume classes. -/
def FitsDimension (dim : Nat) : CellShape → Prop
  | .EdgeCell => dim = 1
  | .Triangle => dim = 2
  | .Quadrangle => dim = 2
  | .Tetrahedron => True
  | .Hexahedron => True
  | .TriPrism => True
  | .Pyramid => True
  | _ => False

/-- The cell `q` of the mesh `m` is the quadratic version of the input cell `c`:
its class is the quadratic class of `c`, its marker the marker of `c`, and its
nodes the vector `n` for `c`. -/
def QuadraticOf [Add P] [HDiv P R P] [OfNat R 2] (m : Mesh P R) (c q : Cell R) : Prop :=
  quadraticShape c.shape = some q.shape ∧ q.marker = c.marker ∧ QuadraticNodes m c q.nodes

/-- The mesh `oneTriangle 0 0 0 7` (one triangle over three nodes) taken as a mesh
of dimension 3. -/
def triangleInSpace : Mesh Int Int := { oneTriangle 0 0 0 7 with dimension_ := 3 }

/-! ## Neighbour infos and the search for a cell -/

/-- Members of `Cell`, `Boundary`, `Node` and `Shape` that `mesh.cpp` calls and
that are declared in other files. -/
structure EntityOps (P R : Type) where
  /-- `c->boundaryCount()` for a cell of the class. -/
  boundaryCount : CellShape → Nat
  /-- `c->boundaryNodes(j)` for a cell of the class over the nodes. -/
  boundaryNodes : CellShape → List Nat → Nat → List Nat
  /-- The cell pointer that `c->findNeighbourCell(j)` records for facet `j` of
  the cell at index `c` of the mesh (`none` is the null pointer). -/
  findNeighbourCell : Mesh P R → Nat → Nat → Option Nat
  /-- `bound->normShowsOutside(*c)`. -/
  normShowsOutside : Mesh P R → Boundary → Cell R → Bool
  /-- `cell->shape().isInside(pos, sf, false)` for a cell of the class whose
  nodes have the given positions. -/
  isInside : CellShape → List P → P → Bool
  /-- The facet whose neighbour `cell->neighbourCell(sf)` returns, for the `sf`
  that `isInside` has filled. -/
  exitFacet : CellShape → List P → P → Nat
  /-- `refNode->cellSet()` in the order of its iteration. -/
  cellSet : Mesh P R → Nat → List Nat

/-- Modelled from the spec: `c->neighbourCell(j)`, the neighbour cell recorded
for facet `j`, the null pointer if none is recorded. -/
def Cell.neighbourCell (c : Cell R) (j : Nat) : Option Nat := c.neighbourCells_.lookup j

/-- Modelled from the spec: the cell after `c->findNeighbourCell(j)` has recorded
the pointer `v` for facet `j`. -/
def Cell.setNeighbourCell (c : Cell R) (j : Nat) (v : Option Nat) : Cell R :=
  { c with neighbourCells_ :=
      match v with
      | some n => (j, n) :: c.neighbourCells_.filter (fun e => e.1 ≠ j)
      | none => c.neighbourCells_.filter (fun e => e.1 ≠ j) }

/-- Modelled from the spec: `c->cleanNeighbourInfos()`, prior adjacency of the
cell is cleared. -/
def Cell.cleanNeighbourInfos (c : Cell R) : Cell R := { c with neighbourCells_ := [] }

/-- Modelled from the spec: two node lists are the identical point set. -/
def samePoints (a b : List Nat) : Bool := a.all (fun x => b.contains x) && b.all (fun x => a.contains x)

/-- Modelled from the spec: the boundary creator of the adjacency derivation,
which finds an existing boundary over the identical point set or creates one
with the marker handed over and the next sequential id. -/
def findOrCreateBoundary : Mesh.BoundaryCreator P R :=
  fun shape m nodes marker =>
    match m.boundaryVector_.findIdx? (fun b => samePoints b.nodes nodes) with
    | some i => (some i, m)
    | none => Mesh.createBoundary_ shape m nodes marker m.boundaryCount

/-- Member `cleanNeighbourInfos()`: `cleanNeighbourInfos()` for every cell, and
`setLeftCell(NULL)`, `setRightCell(NULL)` for every boundary. The accessors
`cell(i)` and `boundary(i)` are called with an index below the count, where
their check passes. -/
def Mesh.cleanNeighbourInfos (m : Mesh P R) : Mesh P R :=
  { m with cellVector_ := m.cellVector_.map (fun c => c.cleanNeighbourInfos),
           boundaryVector_ := m.boundaryVector_.map
             (fun b => { b with leftCell := none, rightCell := none }) }

/-- The value of `cellIsLeft` in `createNeighbourInfosCell_` for facet `j` of the
cell `c` and its boundary `bound`: for a boundary of a class with 2 nodes the
comparison of the ids of the first nodes, with more than 2 nodes
`normShowsOutside`, and `true` otherwise. -/
def Mesh.cellIsLeft (ops : EntityOps P R) (m : Mesh P R) (c : Cell R) (j : Nat)
    (bound : Boundary) : Except Failure Bool :=
  if boundaryNodeCount bound.shape = 2 then
    match Mesh.entityNodeId m (ops.boundaryNodes c.shape c.nodes j) 0,
      Mesh.entityNodeId m bound.nodes 0 with
    | .ok a, .ok b => .ok (decide (a = b))
    | .error e, _ => .error e
    | _, .error e => .error e
  else if boundaryNodeCount bound.shape > 2 then .ok (ops.normShowsOutside m bound c)
  else .ok true

/-- The assignment step of `createNeighbourInfosCell_` for the cell pointer `c`,
the pointer `neighbour` that `c->neighbourCell(j)` returns, and the boundary
`bound`: the boundary after the step, and whether the step ended in `continue`
(which skips the cross check). -/
def assignSides (c : Nat) (neighbour : Option Nat) (isLeft : Bool) (bound : Boundary) :
    Boundary × Bool :=
  if bound.leftCell = none ∧ isLeft = true then
    if bound.rightCell = some c then (bound, true)
    else
      let b1 := { bound with leftCell := some c }
      (if neighbour.isSome ∧ b1.rightCell = none then { b1 with rightCell := neighbour }
       else b1, false)
  else if bound.rightCell = none then
    if bound.leftCell = some c then (bound, true)
    else
      let b1 := { bound with rightCell := some c }
      (if neighbour.isSome ∧ b1.leftCell = none then { b1 with leftCell := neighbour }
       else b1, false)
  else (bound, false)

/-- The condition of the cross check for the cell pointer `c`: `c` is neither the
left nor the right cell of the boundary, or both sides are equal. -/
def crossCheckFails (c : Nat) (bound : Boundary) : Bool :=
  decide ((bound.leftCell ≠ some c ∧ bound.rightCell ≠ some c) ∨
    bound.leftCell = bound.rightCell)

/-- What the body of the loop of `createNeighbourInfosCell_` has reached after
the assignment step. -/
structure Assigned (P R : Type) where
  /-- The mesh after `findNeighbourCell` and `createBoundary`. -/
  mesh : Mesh P R
  /-- The pointer `bound`. -/
  bound : Nat
  /-- The boundary `*bound` after the assignment step. -/
  after : Boundary
  /-- The assignment step ended in `continue`. -/
  skipsCheck : Bool

/-- The body of the loop of `createNeighbourInfosCell_` for facet `j` of the cell
at index `c`, up to and including the assignment step; `none` if the facet is
left at once because `c->neighbourCell(j)` is not null. Creating a boundary
leaves the cells alone, so `c->neighbourCell(j)` is read from the cell as
`findNeighbourCell` has left it. A null pointer `bound` is dereferenced. -/
def Mesh.assignFacet (ops : EntityOps P R) (cbc : Mesh.BoundaryCreator P R) (ci j : Nat)
    (m : Mesh P R) : Except Failure (Option (Assigned P R)) :=
  match m.cellVector_[ci]? with
  | none => .error .outOfRange
  | some c =>
    if (c.neighbourCell j).isSome then .ok none
    else
      let c1 := c.setNeighbourCell j (ops.findNeighbourCell m ci j)
      let m1 := { m with cellVector_ := m.cellVector_.set ci c1 }
      match Mesh.createBoundary cbc m1 (ops.boundaryNodes c1.shape c1.nodes j) 0 with
      | (none, _) => .error .outOfRange
      | (some bi, m2) =>
        match m2.boundaryVector_[bi]? with
        | none => .error .outOfRange
        | some bound =>
          match Mesh.cellIsLeft ops m2 c1 j bound with
          | .error e => .error e
          | .ok isLeft =>
            let r := assignSides ci (c1.neighbourCell j) isLeft bound
            .ok (some { mesh := m2, bound := bi, after := r.1, skipsCheck := r.2 })

/-- The body of the loop of `createNeighbourInfosCell_` for facet `j` of the cell
at index `c`: the assignment step, then the cross check, which ends the call
with `throwError(1, ...)`. -/
def Mesh.neighbourInfosFacet (ops : EntityOps P R) (cbc : Mesh.BoundaryCreator P R)
    (ci j : Nat) (m : Mesh P R) : Except Failure (Mesh P R) :=
  match Mesh.assignFacet ops cbc ci j m with
  | .error e => .error e
  | .ok none => .ok m
  | .ok (some a) =>
    if a.skipsCheck then .ok a.mesh
    else if crossCheckFails ci a.after then .error (.throwError 1)
    else .ok { a.mesh with boundaryVector_ := a.mesh.boundaryVector_.set a.bound a.after }

/-- The loop of `createNeighbourInfosCell_` over the facets that are left. -/
def Mesh.neighbourInfosFacets (ops : EntityOps P R) (cbc : Mesh.BoundaryCreator P R)
    (ci : Nat) : List Nat → Mesh P R → Except Failure (Mesh P R)
  | [], m => .ok m
  | j :: rest, m =>
    match Mesh.neighbourInfosFacet ops cbc ci j m with
    | .error e => .error e
    | .ok m1 => Mesh.neighbourInfosFacets ops cbc ci rest m1

/-- Member `createNeighbourInfosCell_(c)` for the cell at index `c`: the loop
over `j < c->boundaryCount()`. -/
def Mesh.createNeighbourInfosCell_ (ops : EntityOps P R) (cbc : Mesh.BoundaryCreator P R)
    (ci : Nat) (m : Mesh P R) : Except Failure (Mesh P R) :=
  match m.cellVector_[ci]? with
  | none => .error .outOfRange
  | some c => Mesh.neighbourInfosFacets ops cbc ci (List.range (ops.boundaryCount c.shape)) m

/-- The loop of `createNeighbourInfos` over the cells that are left. -/
def Mesh.neighbourInfosCells (ops : EntityOps P R) (cbc : Mesh.BoundaryCreator P R) :
    List Nat → Mesh P R → Except Failure (Mesh P R)
  | [], m => .ok m
  | i :: rest, m =>
    match Mesh.createNeighbourInfosCell_ ops cbc i m with
    | .error e => .error e
    | .ok m1 => Mesh.neighbourInfosCells ops cbc rest m1

/-- Member `createNeighbourInfos(force)`: if `!neighboursKnown_ || force`, prior
adjacency is cleaned, `createNeighbourInfosCell_(&cell(i))` runs for every
`i < cellCount()`, and `neighboursKnown_` is set. -/
def Mesh.createNeighbourInfos (ops : EntityOps P R) (cbc : Mesh.BoundaryCreator P R)
    (m : Mesh P R) (force : Bool) : Except Failure (Mesh P R) :=
  if !m.neighboursKnown_ || force then
    match Mesh.neighbourInfosCells ops cbc (List.range m.cellCount) m.cleanNeighbourInfos with
    | .error e => .error e
    | .ok m1 => .ok { m1 with neighboursKnown_ := true }
  else .ok m

/-- How a walk of `findCellBySlopeSearch_` ends: with a cell, with the null
pointer, or not within the number of steps looked at. -/
inductive Walk
  | found (cell : Nat)
  | notFound
  | unfinished
  deriving DecidableEq, Repr

/-- Member `findCellBySlopeSearch_(pos, start, count, tagging)`, for at most
`fuel` passes of its `do ... while (cell)` loop: a tagged cell with `tagging`
ends the walk with the null pointer; otherwise the cell is tagged and tested,
returned if `pos` is inside, and else replaced by its neighbour across the exit
facet, after `createNeighbourInfosCell_(cell)` if `!neighboursKnown_`. Returns
the end of the walk, `count` and the mesh. -/
def Mesh.findCellBySlopeSearch_ (ops : EntityOps P R) (cbc : Mesh.BoundaryCreator P R)
    (pos : P) (tagging : Bool) :
    Nat → Nat → Nat → Mesh P R → Except Failure Walk × Nat × Mesh P R
  | 0, _, count, m => (.ok .unfinished, count, m)
  | fuel + 1, cell, count, m =>
    match m.cellVector_[cell]? with
    | none => (.error .outOfRange, count, m)
    | some c =>
      if c.tagged_ && tagging then (.ok .notFound, count, m)
      else
        let c1 := { c with tagged_ := true }
        let m1 := { m with cellVector_ := m.cellVector_.set cell c1 }
        if ops.isInside c1.shape (Mesh.nodePositions m1 c1.nodes) pos then
          (.ok (.found cell), count, m1)
        else
          match (if !m1.neighboursKnown_ then Mesh.createNeighbourInfosCell_ ops cbc cell m1
                 else .ok m1) with
          | .error e => (.error e, count, m1)
          | .ok m2 =>
            match m2.cellVector_[cell]? with
            | none => (.error .outOfRange, count, m2)
            | some c2 =>
              match c2.neighbourCell
                (ops.exitFacet c1.shape (Mesh.nodePositions m1 c1.nodes) pos) with
              | none => (.ok .notFound, count + 1, m2)
              | some next =>
                Mesh.findCellBySlopeSearch_ ops cbc pos tagging fuel next (count + 1) m2

/-- The loop of the extensive search in `findCell` over the cells that are left:
a walk with `tagging` from each cell until one ends with a cell. -/
def Mesh.findCellExtensive (ops : EntityOps P R) (cbc : Mesh.BoundaryCreator P R) (pos : P)
    (fuel : Nat) : List Nat → Nat → Mesh P R → Except Failure Walk × Nat × Mesh P R
  | [], count, m => (.ok .notFound, count, m)
  | i :: rest, count, m =>
    match Mesh.findCellBySlopeSearch_ ops cbc pos true fuel i count m with
    | (.ok .notFound, count1, m1) => Mesh.findCellExtensive ops cbc pos fuel rest count1 m1
    | r => r

/-- Member `findCell(pos, count, extensive)` (`bruteForce` is `false`): after
`fillKDTree_()`, `throwError(1, ...)` if the tree has no nearest node or that
node has no cells; else the walk without tagging from the first cell of the
node, and, if it ends with the null pointer and `extensive` is set, all cells are
untagged and the walks with tagging follow. Every walk gets `fuel` passes.
Returns the end of the search, `count` and the mesh. -/
def Mesh.findCell (ops : EntityOps P R) (ext : Mesh.Externals P R)
    (cbc : Mesh.BoundaryCreator P R) (fuel : Nat) (m : Mesh P R) (pos : P) (extensive : Bool) :
    Except Failure Walk × Nat × Mesh P R :=
  match Mesh.fillKDTree_ m with
  | (.error e, m1) => (.error e, 0, m1)
  | (.ok _, m1) =>
    match ext.nearest (m1.tree_.getD []) m1.nodeVector_ pos with
    | none => (.error (.throwError 1), 0, m1)
    | some refNode =>
      match ops.cellSet m1 refNode with
      | [] => (.error (.throwError 1), 0, m1)
      | start :: _ =>
        match Mesh.findCellBySlopeSearch_ ops cbc pos false fuel start 0 m1 with
        | (.ok .notFound, count, m2) =>
          if extensive then
            let m3 := { m2 with cellVector_ :=
              m2.cellVector_.map (fun c => { c with tagged_ := false }) }
            Mesh.findCellExtensive ops cbc pos fuel (List.range m3.cellCount) 0 m3
          else (.ok .notFound, count, m2)
        | r => r

/-- The failure that ends a call, `none` if the call returns. -/
def failureOf {α : Type} (r : Except Failure α) : Option Failure :=
  match r with
  | .ok _ => none
  | .error e => some e

/-- Stand-ins for the members of the entities, for meshes of edge cells over
integer coordinates: an edge cell has the facets `[node 0]` and `[node 1]`, no
neighbour is found, a position is inside a cell if it is one of the positions of
its nodes, and the exit facet is facet 0; each node has cell 0 in its cell set. -/
def edgeOps : EntityOps Int Int :=
  { boundaryCount := fun _ => 2,
    boundaryNodes := fun _ nodes j => (nodes[j]?).toList,
    findNeighbourCell := fun _ _ _ => none,
    normShowsOutside := fun _ _ _ => true,
    isInside := fun _ ps p => ps.contains p,
    exitFacet := fun _ _ _ => 0,
    cellSet := fun _ _ => [0] }

/-- A mesh of dimension 1 over integer coordinates with four nodes and the
three edge cells `(0, 1)`, `(0, 2)`, `(0, 3)`, which meet in node 0. -/
def starMesh : Mesh Int Int :=
  { dimension_ := 1,
    nodeVector_ := [{ pos := 0, marker := 0, id := 0 }, { pos := 1, marker := 0, id := 1 },
                    { pos := 2, marker := 0, id := 2 }, { pos := 3, marker := 0, id := 3 }],
    cellVector_ := [{ shape := .EdgeCell, nodes := [0, 1], marker := 0, id := 0, attribute_ := 0 },
                    { shape := .EdgeCell, nodes := [0, 2], marker := 0, id := 1, attribute_ := 0 },
                    { shape := .EdgeCell, nodes := [0, 3], marker := 0, id := 2,
                      attribute_ := 0 }] }

/-- A mesh of dimension 1 over integer coordinates with three nodes and the two
edge cells `(0, 1)`, `(1, 2)` in a row. -/
def lineMesh : Mesh Int Int :=
  { dimension_ := 1,
    nodeVector_ := [{ pos := 0, marker := 0, id := 0 }, { pos := 1, marker := 0, id := 1 },
                    { pos := 2, marker := 0, id := 2 }],
    cellVector_ := [{ shape := .EdgeCell, nodes := [0, 1], marker := 0, id := 0, attribute_ := 0 },
                    { shape := .EdgeCell, nodes := [1, 2], marker := 0, id := 1,
                      attribute_ := 0 }] }

/-- The mesh `lineMesh` with `neighboursKnown_` set, in which each of the two
cells has recorded the other one as the neighbour across facet 0. -/
def walkLine : Mesh Int Int :=
  { lineMesh with
    neighboursKnown_ := true,
    cellVector_ := [{ shape := .EdgeCell, nodes := [0, 1], marker := 0, id := 0, attribute_ := 0,
                      neighbourCells_ := [(0, 1)] },
                    { shape := .EdgeCell, nodes := [1, 2], marker := 0, id := 1, attribute_ := 0,
                      neighbourCells_ := [(0, 0)] }] }

/-- The mesh `lineMesh` with `neighboursKnown_` set. -/
def knownLine : Mesh Int Int := { lineMesh with neighboursKnown_ := true }

/-- Stand-ins for the operations declared outside `mesh.cpp`, with a kd-tree
whose nearest node to any position is node 0 if the tree holds a node. -/
def firstNodeExternals : Mesh.Externals Int Int :=
  { plainExternals with nearest := fun tree _ _ => tree.head? }

/-- A mesh without entities. -/
def emptyMesh : Mesh Int Int := Mesh.new 2

/-- The mesh `starMesh` in which cell 0 has recorded cell 1 as the neighbour
across facet 0, with one boundary over node 0 whose left cell is cell 1 and whose
right cell is cell 2. -/
def recordedStar : Mesh Int Int :=
  { starMesh with
    cellVector_ := [{ shape := .EdgeCell, nodes := [0, 1], marker := 0, id := 0, attribute_ := 0,
                      neighbourCells_ := [(0, 1)] },
                    { shape := .EdgeCell, nodes := [0, 2], marker := 0, id := 1, attribute_ := 0 },
                    { shape := .EdgeCell, nodes := [0, 3], marker := 0, id := 2,
                      attribute_ := 0 }],
    boundaryVector_ := [{ shape := .NodeBoundary, nodes := [0], marker := 0, id := 0,
                          leftCell := some 1, rightCell := some 2 }] }

/-- The cell pointer `c` is on exactly one side of the boundary. -/
def OnOneSide (c : Nat) (b : Boundary) : Prop :=
  (b.leftCell = some c ∧ b.rightCell ≠ some c) ∨ (b.leftCell ≠ some c ∧ b.rightCell = some c)

/-- The cells stay as they are, every boundary that exists keeps its nodes and its
two sides, and a boundary that is appended has no cell on either side. -/
def KeepsSides (cbc : BoundaryCreator P R) : Prop :=
  ∀ shape m nodes marker,
    (cbc shape m nodes marker).2.cellVector_ = m.cellVector_ ∧
    (∀ (i : Nat) (b : Boundary), m.boundaryVector_[i]? = some b →
      ∃ b1 : Boundary, (cbc shape m nodes marker).2.boundaryVector_[i]? = some b1 ∧
        b1.nodes = b.nodes ∧ b1.leftCell = b.leftCell ∧ b1.rightCell = b.rightCell) ∧
    (∀ (i : Nat) (b1 : Boundary), m.boundaryCount ≤ i →
      (cbc shape m nodes marker).2.boundaryVector_[i]? = some b1 →
      b1.leftCell = none ∧ b1.rightCell = none)

/-! ## The boundaries of the facets of a cell -/

/-- The class and the nodes of a cell. -/
def cellKey (c : Cell R) : CellShape × List Nat := (c.shape, c.nodes)

/-- Modelled from the spec: the boundary of facet `j` of the cell `c`, the first
boundary of the mesh over the identical point set. -/
def facetBoundary (ops : EntityOps P R) (m : Mesh P R) (c : Cell R) (j : Nat) : Option Nat :=
  m.boundaryVector_.findIdx? (fun b => samePoints b.nodes (ops.boundaryNodes c.shape c.nodes j))

/-- Modelled from the spec: the derived neighbour list of a cell, the boundaries
of its facets in the order of the facets. -/
def derivedBoundaries (ops : EntityOps P R) (m : Mesh P R) (c : Cell R) : List Nat :=
  (List.range (ops.boundaryCount c.shape)).filterMap (facetBoundary ops m c)

/-- The boundary has a left or a right cell. -/
def HasSide (b : Boundary) : Prop := b.leftCell ≠ none ∨ b.rightCell ≠ none

/-- The facets of each cell of the mesh are over pairwise different point sets. -/
def FacetsDiffer (ops : EntityOps P R) (m : Mesh P R) : Prop :=
  ∀ c ∈ m.cellVector_, ∀ j1 j2 : Nat, j1 < ops.boundaryCount c.shape →
    j2 < ops.boundaryCount c.shape →
    samePoints (ops.boundaryNodes c.shape c.nodes j1) (ops.boundaryNodes c.shape c.nodes j2) = true →
    j1 = j2

/-- In every mesh whose cells have the classes and nodes `K`, the cell that
`findNeighbourCell` records for a facet is a cell of the mesh with a facet over
the identical point set. -/
def NeighbourAcrossFacet (ops : EntityOps P R) (K : List (CellShape × List Nat)) : Prop :=
  ∀ (m : Mesh P R) (ci : Nat) (c : Cell R) (j x : Nat), m.cellVector_.map cellKey = K →
    m.cellVector_[ci]? = some c → ops.findNeighbourCell m ci j = some x →
    ∃ (cx : Cell R) (jx : Nat), m.cellVector_[x]? = some cx ∧ jx < ops.boundaryCount cx.shape ∧
      samePoints (ops.boundaryNodes cx.shape cx.nodes jx)
        (ops.boundaryNodes c.shape c.nodes j) = true

/-- The state of the adjacency derivation after the facets `D` have been
processed, in a mesh whose cells have the classes and nodes `K` and that held
`n0` boundaries at the start. -/
structure Adjacent (ops : EntityOps P R) (n0 : Nat) (K : List (CellShape × List Nat))
    (D : Nat → Nat → Prop) (m : Mesh P R) : Prop where
  /-- The cells have the classes and nodes `K`. -/
  keys : m.cellVector_.map cellKey = K
  /-- No boundary has the same cell on both sides. -/
  distinct : ∀ b ∈ m.boundaryVector_, ∀ x : Nat, b.leftCell = some x → b.rightCell ≠ some x
  /-- Every boundary created since the start has a side. -/
  created : ∀ (i : Nat) (b : Boundary), m.boundaryVector_[i]? = some b → n0 ≤ i → HasSide b
  /-- A cell on a side of a boundary has a facet with that boundary. -/
  justified : ∀ (i : Nat) (b : Boundary) (x : Nat), m.boundaryVector_[i]? = some b →
    (b.leftCell = some x ∨ b.rightCell = some x) →
    ∃ (cx : Cell R) (jx : Nat), m.cellVector_[x]? = some cx ∧ jx < ops.boundaryCount cx.shape ∧
      facetBoundary ops m cx jx = some i
  /-- The boundary of a processed facet has a side. -/
  visited : ∀ (ci : Nat) (c : Cell R) (j : Nat), D ci j → m.cellVector_[ci]? = some c →
    ∃ (i : Nat) (b : Boundary), facetBoundary ops m c j = some i ∧
      m.boundaryVector_[i]? = some b ∧ HasSide b
  /-- No neighbour is recorded for a facet that is not processed yet. -/
  fresh : ∀ (ci : Nat) (c : Cell R) (j : Nat), m.cellVector_[ci]? = some c → ¬ D ci j →
    c.neighbourCell j = none

/-- The mesh `lineMesh` after the adjacency derivation: the boundaries over the
nodes 0, 1, 2, with cell 0 left of the first two and cell 1 right of the second
and left of the third. -/
def derivedLine : Mesh Int Int :=
  { lineMesh with
    neighboursKnown_ := true,
    boundaryVector_ := [{ shape := .NodeBoundary, nodes := [0], marker := 0, id := 0,
                          leftCell := some 0 },
                        { shape := .NodeBoundary, nodes := [1], marker := 0, id := 1,
                          leftCell := some 0, rightCell := some 1 },
                        { shape := .NodeBoundary, nodes := [2], marker := 0, id := 2,
                          leftCell := some 1 }] }

/-! ## The spatial index -/

/-- Member `findNearestNode(pos)`: after `fillKDTree_()`, the id of the node that
`tree_->nearest(pos)` returns, as a `uint` of `w` bits; the pointer is
dereferenced without a test. -/
def Mesh.findNearestNode (w : Nat) (ext : Externals P R) (m : Mesh P R) (pos : P) :
    Except Failure Nat × Mesh P R :=
  match fillKDTree_ m with
  | (.error e, m1) => (.error e, m1)
  | (.ok _, m1) =>
    match ext.nearest (m1.tree_.getD []) m1.nodeVector_ pos with
    | none => (.error .outOfRange, m1)
    | some refNode =>
      match m1.nodeVector_[refNode]? with
      | none => (.error .outOfRange, m1)
      | some ref => (.ok (toUint w ref.id), m1)

/-- The index of the mesh is consistent: a tree that is allocated and holds a
node holds the pointer to every node of the mesh once. -/
def IndexConsistent (m : Mesh P R) : Prop :=
  ∀ t, m.tree_ = some t → t = [] ∨ t.Perm (List.range m.nodeCount)

/-- What `KDTreeWrapper::nearest` and the comparison of distances are taken to
do: a tree that holds a node returns one of its nodes, no node of the tree is
closer to the position than the node returned, and a distance that is not below
another one is below every bound the other one is below. -/
def NearestOfTree (ext : Externals P R) : Prop :=
  (∀ (tree : List Nat) (nodes : List (Node P)) (pos : P),
    (tree ≠ [] → ext.nearest tree nodes pos ≠ none) ∧
    ∀ n, ext.nearest tree nodes pos = some n → n ∈ tree ∧
      ∀ x ∈ tree, ∀ nn nx : Node P, nodes[n]? = some nn → nodes[x]? = some nx →
        ext.less (ext.distance pos nx.pos) (ext.distance pos nn.pos) = false) ∧
  ∀ a b c : R, ext.less a b = false → ext.less a c = true → ext.less b c = true

/-- The position of the node behind a pointer, 0 for a pointer outside the
nodes. -/
def posOnLine (nodes : List (Node Int)) (x : Nat) : Int := ((nodes[x]?).map (fun n => n.pos)).getD 0

/-- A nearest node of a tree over integer coordinates: the first node of the
tree at the least distance `|pos - x|`. -/
def nearestOnLine (tree : List Nat) (nodes : List (Node Int)) (pos : Int) : Option Nat :=
  tree.foldl (fun best x =>
    match best with
    | none => some x
    | some b => if |pos - posOnLine nodes x| < |pos - posOnLine nodes b| then some x else some b)
    none

/-- Stand-ins over integer coordinates for the operations declared outside
`mesh.cpp`, with the distance `|a - b|` and a tree that returns a nearest node. -/
def lineExternals : Mesh.Externals Int Int :=
  { distance := fun a b => |a - b|, less := fun a b => decide (a < b),
    nearest := nearestOnLine, defaultMarker := 0, shapeCentre := fun _ => 0 }

/-! ## Filling of empty cells -/

/-- Operations on attributes that `fillEmptyCells` uses and that are declared in
other files, and `neighbourCellCount()` of a cell. -/
structure AttributeOps (R : Type) where
  /-- The test `background != -1.0`. -/
  notMinusOne : R → Bool
  /-- The value `0.0`. -/
  zero : R
  /-- The sum `val + a` of two `double`s. -/
  add : R → R → R
  /-- The quotient `val / (double)count`. -/
  divide : R → Nat → R
  /-- The test `a > TOLERANCE`. -/
  aboveTolerance : R → Bool
  /-- The function `mean` on an `RVector`. -/
  mean : List R → R
  /-- `cell->neighbourCellCount()` for a cell of the class. -/
  neighbourCellCount : CellShape → Nat

/-- The call `c->setAttribute(v)` for the cell pointer `ci`. -/
def Mesh.setAttribute (m : Mesh P R) (ci : Nat) (v : R) : Except Failure (Mesh P R) :=
  match m.cellVector_[ci]? with
  | none => .error .outOfRange
  | some c => .ok { m with cellVector_ := m.cellVector_.set ci { c with attribute_ := v } }

/-- A loop `for (i = 0; i < emptyList.size(); i ++) emptyList[i]->setAttribute(v)`
over the cell pointers that are left, where the value `v` is evaluated on the
mesh in every pass. -/
def Mesh.setAttributes (v : Mesh P R → R) : List Nat → Mesh P R → Except Failure (Mesh P R)
  | [], m => .ok m
  | ci :: rest, m =>
    match m.setAttribute ci (v m) with
    | .error e => .error e
    | .ok m1 => Mesh.setAttributes v rest m1

/-- The loop over `j < cell->neighbourCellCount()` in `fillEmptyCells` for the
facets that are left: `count` and `val`, the number and the sum of the
attributes above `TOLERANCE` of the neighbour cells that are not null. -/
def Mesh.neighbourSum (aops : AttributeOps R) (m : Mesh P R) (c : Cell R) :
    List Nat → Nat × R → Except Failure (Nat × R)
  | [], acc => .ok acc
  | j :: rest, (count, val) =>
    match c.neighbourCell j with
    | none => Mesh.neighbourSum aops m c rest (count, val)
    | some n =>
      match m.cellVector_[n]? with
      | none => .error .outOfRange
      | some nCell =>
        if aops.aboveTolerance nCell.attribute_ then
          Mesh.neighbourSum aops m c rest (count + 1, aops.add val nCell.attribute_)
        else Mesh.neighbourSum aops m c rest (count, val)

/-- The loop over `emptyList` in `fillEmptyCells` (`smooth` is `false`) for the
cell pointers that are left: a cell without a neighbour above `TOLERANCE` is
pushed to `nextVector`, for any other cell `prolongationMap[cell]` becomes the
mean of these neighbours. The map is a list of pairs with one pair for a key. -/
def Mesh.prolongation (aops : AttributeOps R) (m : Mesh P R) :
    List Nat → List Nat × List (Nat × R) → Except Failure (List Nat × List (Nat × R))
  | [], s => .ok s
  | ci :: rest, (nextVector, prolongationMap) =>
    match m.cellVector_[ci]? with
    | none => .error .outOfRange
    | some c =>
      match Mesh.neighbourSum aops m c (List.range (aops.neighbourCellCount c.shape))
        (0, aops.zero) with
      | .error e => .error e
      | .ok (count, val) =>
        if count = 0 then Mesh.prolongation aops m rest (nextVector ++ [ci], prolongationMap)
        else
          Mesh.prolongation aops m rest
            (nextVector,
              (ci, aops.divide val count) :: prolongationMap.filter (fun e => e.1 ≠ ci))

/-- The loop over `prolongationMap` in `fillEmptyCells`: `setAttribute` for every
pair. The keys are different cells, so the order of the pairs does not matter. -/
def Mesh.applyProlongation : List (Nat × R) → Mesh P R → Except Failure (Mesh P R)
  | [], m => .ok m
  | (ci, v) :: rest, m =>
    match m.setAttribute ci v with
    | .error e => .error e
    | .ok m1 => Mesh.applyProlongation rest m1

/-- One call of `fillEmptyCells(emptyList, -1.0)` with a non-empty `emptyList`,
up to its recursive call: `createNeighbourInfos()`, the loop over `emptyList`,
the loop over `prolongationMap`, and, if `nextVector` is as long as `emptyList`,
`setAttribute(mean(this->cellAttributes()))` for every cell of `emptyList`, one
after the other, and `nextVector.clear()`. Returns the mesh and the `nextVector`
handed to the recursive call. -/
def Mesh.fillEmptyCellsRound (ops : EntityOps P R) (cbc : BoundaryCreator P R)
    (aops : AttributeOps R) (m : Mesh P R) (emptyList : List Nat) :
    Except Failure (Mesh P R × List Nat) :=
  match Mesh.createNeighbourInfos ops cbc m false with
  | .error e => .error e
  | .ok m1 =>
    match Mesh.prolongation aops m1 emptyList ([], []) with
    | .error e => .error e
    | .ok (nextVector, prolongationMap) =>
      match Mesh.applyProlongation prolongationMap m1 with
      | .error e => .error e
      | .ok m2 =>
        if emptyList.length = nextVector.length then
          match Mesh.setAttributes (fun m => aops.mean m.cellAttributes) emptyList m2 with
          | .error e => .error e
          | .ok m3 => .ok (m3, [])
        else .ok (m2, nextVector)

/-- Member `fillEmptyCells(emptyList, background)`, for at most `fuel` calls of
the function (the first one and the recursive ones); `none` if these do not
suffice. An empty `emptyList` returns at once; with `background != -1.0` every
cell of `emptyList` gets `background`. -/
def Mesh.fillEmptyCells (ops : EntityOps P R) (cbc : BoundaryCreator P R)
    (aops : AttributeOps R) :
    Nat → Mesh P R → List Nat → R → Option (Except Failure (Mesh P R))
  | 0, _, _, _ => none
  | fuel + 1, m, emptyList, background =>
    if emptyList.length = 0 then some (.ok m)
    else if aops.notMinusOne background then
      some (Mesh.setAttributes (fun _ => background) emptyList m)
    else
      match Mesh.fillEmptyCellsRound ops cbc aops m emptyList with
      | .error e => some (.error e)
      | .ok (m1, nextVector) => Mesh.fillEmptyCells ops cbc aops fuel m1 nextVector background

/-- Attribute operations over the integers: `TOLERANCE` is 0, the quotient and
the mean are those of the integers (the mean of no value is 0), and a cell has
two neighbour cells. -/
def intAttributes : AttributeOps Int :=
  { notMinusOne := fun a => decide (a ≠ -1), zero := 0, add := fun a b => a + b,
    divide := fun a n => a / (n : Int), aboveTolerance := fun a => decide (a > 0),
    mean := fun l => l.sum / (l.length : Int), neighbourCellCount := fun _ => 2 }

/-- The mesh `knownLine` (two edge cells in a row, adjacency known, no neighbour
recorded) with a third cell, where the three cells have the attributes 0, 0
and 9. -/
def emptyLine : Mesh Int Int :=
  { knownLine with
    cellVector_ := [{ shape := .EdgeCell, nodes := [0, 1], marker := 0, id := 0, attribute_ := 0 },
                    { shape := .EdgeCell, nodes := [1, 2], marker := 0, id := 1, attribute_ := 0 },
                    { shape := .EdgeCell, nodes := [1, 2], marker := 0, id := 2,
                      attribute_ := 9 }] }

/-! ## Walks of the search for a cell -/

/-- The number of cells of the mesh that are not tagged. -/
def untaggedCount (m : Mesh P R) : Nat := m.cellVector_.countP (fun c => !c.tagged_)

/-- The walk ended with a cell: 1, else 0. -/
def foundCount : Except Failure Walk → Nat
  | .ok (.found _) => 1
  | _ => 0

/-- A cell without its tag. -/
def Cell.untagged (c : Cell R) : Cell R := { c with tagged_ := false }

/-- The mesh `m1` has the nodes and the adjacency flag of `m`, and its cells are
the cells of `m` with other tags. -/
def SameButTags (m m1 : Mesh P R) : Prop :=
  m1.nodeVector_ = m.nodeVector_ ∧ m1.neighboursKnown_ = m.neighboursKnown_ ∧
  m1.cellVector_.map Cell.untagged = m.cellVector_.map Cell.untagged

/-- The test `cell->shape().isInside(pos, sf, false)` for a cell of the mesh. -/
def containsPos (ops : EntityOps P R) (m : Mesh P R) (c : Cell R) (pos : P) : Bool :=
  ops.isInside c.shape (nodePositions m c.nodes) pos

/-- The three edge cells `(0, 1)`, `(1, 2)`, `(2, 0)` of a closed ring with the
tags `t0`, `t1`, `t2`; each cell has recorded, for the facet at each of its two
nodes, the other cell at that node. -/
def ringCells (t0 t1 t2 : Bool) : List (Cell Int) :=
  [{ shape := .EdgeCell, nodes := [0, 1], marker := 0, id := 0, attribute_ := 0,
     neighbourCells_ := [(0, 2), (1, 1)], tagged_ := t0 },
   { shape := .EdgeCell, nodes := [1, 2], marker := 0, id := 1, attribute_ := 0,
     neighbourCells_ := [(0, 0), (1, 2)], tagged_ := t1 },
   { shape := .EdgeCell, nodes := [2, 0], marker := 0, id := 2, attribute_ := 0,
     neighbourCells_ := [(0, 1), (1, 0)], tagged_ := t2 }]

/-- A mesh over integer coordinates with the nodes at 0, 1, 2 and the three
cells of the closed ring, no cell tagged, adjacency known. -/
def ringMesh : Mesh Int Int :=
  { dimension_ := 2,
    nodeVector_ := [{ pos := 0, marker := 0, id := 0 }, { pos := 1, marker := 0, id := 1 },
                    { pos := 2, marker := 0, id := 2 }],
    cellVector_ := ringCells false false false,
    neighboursKnown_ := true }

/-- Every neighbour cell that a cell of the mesh has recorded is a cell of the
mesh. -/
def NeighboursInMesh (m : Mesh P R) : Prop :=
  ∀ c ∈ m.cellVector_, ∀ j n : Nat, c.neighbourCell j = some n → n < m.cellCount

/-- Every tagged cell of the mesh has been tested: `pos` is not inside. -/
def TaggedTested (ops : EntityOps P R) (pos : P) (m : Mesh P R) : Prop :=
  ∀ c ∈ m.cellVector_, c.tagged_ = true → containsPos ops m c pos = false

/-- A cell that is tagged in `m` is tagged in `m1`. -/
def TagsKept (m m1 : Mesh P R) : Prop :=
  ∀ (i : Nat) (c c1 : Cell R), m.cellVector_[i]? = some c → c.tagged_ = true →
    m1.cellVector_[i]? = some c1 → c1.tagged_ = true

/-! ## Extraction of a part of a mesh -/

/-- The map `nodeMap` of `createMeshByCellIdx`, from the id of a node of the
source to the pointer to its copy, as the list of its pairs. -/
abbrev NodeMap := List (Int × Nat)

/-- The loop over the nodes of one cell in the first loop of
`createMeshByCellIdx`, over the node pointers of the cell that are left: a node
whose id is no key of `nodeMap` is created in `this` with the position and the
marker of the node, and registered under the id. -/
def Mesh.copyNewNodes (mesh : Mesh P R) :
    List Nat → Mesh P R → NodeMap → Except Failure (Mesh P R × NodeMap)
  | [], this, nodeMap => .ok (this, nodeMap)
  | p :: rest, this, nodeMap =>
    match mesh.nodeVector_[p]? with
    | none => .error .outOfRange
    | some n =>
      match nodeMap.lookup n.id with
      | some _ => Mesh.copyNewNodes mesh rest this nodeMap
      | none =>
        let r := Mesh.createNode this n.pos n.marker
        Mesh.copyNewNodes mesh rest r.2 ((n.id, r.1) :: nodeMap)

/-- The first loop of `createMeshByCellIdx`, over the entries of `idxList` that
are left: `mesh.cell(idxList[i])`, then the loop over its nodes. -/
def Mesh.copyNodesOfCells (w : Nat) (mesh : Mesh P R) :
    List Int → Mesh P R → NodeMap → Except Failure (Mesh P R × NodeMap)
  | [], this, nodeMap => .ok (this, nodeMap)
  | idx :: rest, this, nodeMap =>
    match Mesh.cell w mesh (toUint w idx) with
    | .error e => .error e
    | .ok c =>
      match Mesh.copyNewNodes mesh c.nodes this nodeMap with
      | .error e => .error e
      | .ok (this1, nodeMap1) => Mesh.copyNodesOfCells w mesh rest this1 nodeMap1

/-- The vector `nodes` with `nodes[j] = nodeMap[cell->node(j).id()]`, over the
node pointers that are left. An id that is no key would yield a null pointer,
which the creation of the cell dereferences. -/
def Mesh.mappedNodes (mesh : Mesh P R) (nodeMap : NodeMap) : List Nat → Except Failure (List Nat)
  | [] => .ok []
  | p :: rest =>
    match mesh.nodeVector_[p]? with
    | none => .error .outOfRange
    | some n =>
      match nodeMap.lookup n.id with
      | none => .error .outOfRange
      | some q =>
        match Mesh.mappedNodes mesh nodeMap rest with
        | .error e => .error e
        | .ok qs => .ok (q :: qs)

/-- The second loop of `createMeshByCellIdx`, over the entries of `idxList` that
are left: `createCell(nodes, cell->marker())` over the copies of the nodes of
`mesh.cell(idxList[i])`. -/
def Mesh.copyCells [Inhabited R] (w : Nat) (mesh : Mesh P R) (nodeMap : NodeMap) :
    List Int → Mesh P R → Except Failure (Mesh P R)
  | [], this => .ok this
  | idx :: rest, this =>
    match Mesh.cell w mesh (toUint w idx) with
    | .error e => .error e
    | .ok c =>
      match Mesh.mappedNodes mesh nodeMap c.nodes with
      | .error e => .error e
      | .ok nodes => Mesh.copyCells w mesh nodeMap rest (Mesh.createCell this nodes c.marker).2

/-- The loop over the nodes of a boundary in the third loop of
`createMeshByCellIdx`: the copies of the nodes, `none` if the id of a node is no
key of `nodeMap` (`inside = false; break`). -/
def Mesh.insideNodes (mesh : Mesh P R) (nodeMap : NodeMap) :
    List Nat → Except Failure (Option (List Nat))
  | [] => .ok (some [])
  | p :: rest =>
    match mesh.nodeVector_[p]? with
    | none => .error .outOfRange
    | some n =>
      match nodeMap.lookup n.id with
      | none => .ok none
      | some q =>
        match Mesh.insideNodes mesh nodeMap rest with
        | .error e => .error e
        | .ok none => .ok none
        | .ok (some qs) => .ok (some (q :: qs))

/-- The third loop of `createMeshByCellIdx`, over the boundary indices that are
left: a boundary of `mesh` with a marker other than 0 whose nodes all have a
copy, and for whose copies `findCommonCell(nodes, false)` is not null, is created
with its marker. `findCommonCell` is declared outside `mesh.cpp` and is a
parameter: whether it returns a cell, for the mesh and the node pointers. -/
def Mesh.copyMarkedBoundaries (w : Nat) (cbc : BoundaryCreator P R)
    (findCommonCell : Mesh P R → List Nat → Bool) (mesh : Mesh P R) (nodeMap : NodeMap) :
    List Nat → Mesh P R → Except Failure (Mesh P R)
  | [], this => .ok this
  | i :: rest, this =>
    match Mesh.boundary w mesh i with
    | .error e => .error e
    | .ok bound =>
      if bound.marker ≠ 0 then
        match Mesh.insideNodes mesh nodeMap bound.nodes with
        | .error e => .error e
        | .ok none => Mesh.copyMarkedBoundaries w cbc findCommonCell mesh nodeMap rest this
        | .ok (some nodes) =>
          if findCommonCell this nodes then
            Mesh.copyMarkedBoundaries w cbc findCommonCell mesh nodeMap rest
              (Mesh.createBoundary cbc this nodes bound.marker).2
          else Mesh.copyMarkedBoundaries w cbc findCommonCell mesh nodeMap rest this
      else Mesh.copyMarkedBoundaries w cbc findCommonCell mesh nodeMap rest this

/-- The three loops of `createMeshByCellIdx(mesh, idxList)` on `this`, after
`clear()` and `setDimension(mesh.dim())`: the mesh before the call of
`createNeighbourInfos()`. -/
def Mesh.copyByCellIdx [Inhabited R] (w : Nat) (cbc : BoundaryCreator P R)
    (findCommonCell : Mesh P R → List Nat → Bool) (this mesh : Mesh P R) (idxList : List Int) :
    Except Failure (Mesh P R) :=
  let this0 := Mesh.clear this
  match Mesh.copyNodesOfCells w mesh idxList { this0 with dimension_ := mesh.dimension_ } [] with
  | .error e => .error e
  | .ok (this1, nodeMap) =>
    match Mesh.copyCells w mesh nodeMap idxList this1 with
    | .error e => .error e
    | .ok this2 =>
      Mesh.copyMarkedBoundaries w cbc findCommonCell mesh nodeMap
        (List.range mesh.boundaryCount) this2

/-- Member `createMeshByCellIdx(mesh, idxList)` on `this`, a mesh other than
`mesh`: the three loops, then `createNeighbourInfos()`. -/
def Mesh.createMeshByCellIdx [Inhabited R] (w : Nat) (ops : EntityOps P R)
    (cbc : BoundaryCreator P R) (findCommonCell : Mesh P R → List Nat → Bool)
    (this mesh : Mesh P R) (idxList : List Int) : Except Failure (Mesh P R) :=
  match Mesh.copyByCellIdx w cbc findCommonCell this mesh idxList with
  | .error e => .error e
  | .ok this3 => Mesh.createNeighbourInfos ops cbc this3 false

/-- The elements of a list in the order of their first appearance, after the
elements `acc`. -/
def firstAppearancesFrom : List Nat → List Nat → List Nat
  | acc, [] => acc
  | acc, p :: rest =>
    if p ∈ acc then firstAppearancesFrom acc rest else firstAppearancesFrom (acc ++ [p]) rest

/-- The elements of a list, each once, in the order of their first appearance. -/
def firstAppearances (l : List Nat) : List Nat := firstAppearancesFrom [] l

/-- The node pointers of the cell at index `k` of the mesh. -/
def cellNodes (mesh : Mesh P R) (k : Nat) : List Nat :=
  ((mesh.cellVector_[k]?).map (fun c => c.nodes)).getD []

/-- A boundary creator that changes nothing but the boundaries of the mesh. -/
def OnlyBoundaries (cbc : BoundaryCreator P R) : Prop :=
  ∀ shape m nodes marker, ∃ bv : List Boundary,
    (cbc shape m nodes marker).2 = { m with boundaryVector_ := bv }

/-- What a cell keeps in the adjacency derivation: class, nodes, marker, id and
attribute. -/
def cellCore (c : Cell R) : CellShape × List Nat × Int × Int × R :=
  (c.shape, c.nodes, c.marker, c.id, c.attribute_)

/-- The stand-in for `findCommonCell` that always finds a cell. -/
def anyCommonCell : Mesh Int Int → List Nat → Bool := fun _ _ => true

/-- The mesh of the two edge cells of `lineMesh`, with the markers 5 and -2, and
a boundary with marker 3 over node 2. -/
def markedLine : Mesh Int Int :=
  { lineMesh with
    cellVector_ := [{ shape := .EdgeCell, nodes := [0, 1], marker := 5, id := 0, attribute_ := 0 },
                    { shape := .EdgeCell, nodes := [1, 2], marker := -2, id := 1, attribute_ := 0 }],
    boundaryVector_ := [{ shape := .NodeBoundary, nodes := [2], marker := 3, id := 0 }] }

/-- The nodes of `this` are the copies of the nodes `acc` of `mesh`, with the
ids 0, 1, 2, ..., and `nodeMap` holds the pointer to the copy under the id of
each of these nodes. -/
def CopiesNodes (mesh : Mesh P R) (acc : List Nat) (this : Mesh P R) (nodeMap : NodeMap) : Prop :=
  this.nodeVector_.length = acc.length ∧ acc.Nodup ∧
  (∀ (k p : Nat), acc[k]? = some p → ∃ n : Node P, mesh.nodeVector_[p]? = some n ∧
    this.nodeVector_[k]? = some ⟨n.pos, n.marker, (k : Int)⟩) ∧
  (∀ (p k : Nat), nodeMap.lookup (p : Int) = some k ↔ acc[k]? = some p)

/-- The mesh `r` holds the cells of `mesh` at the indices `L`: it has the
dimension of `mesh`; its nodes are the copies (position and marker) of the nodes
of the listed cells, each once, in the order of first appearance, with the ids
0, 1, 2, ...; and its cell `k` has the marker and the node count of the source
cell `L[k]`, and its nodes are the copies of the nodes of that cell, in the same
order. -/
def ListedCells (mesh : Mesh P R) (L : List Nat) (r : Mesh P R) : Prop :=
  r.dimension_ = mesh.dimension_ ∧ r.cellCount = L.length ∧
  r.nodeCount = (firstAppearances (L.flatMap (cellNodes mesh))).length ∧
  (∀ (k p : Nat), (firstAppearances (L.flatMap (cellNodes mesh)))[k]? = some p →
    ∃ n : Node P, mesh.nodeVector_[p]? = some n ∧
      r.nodeVector_[k]? = some ⟨n.pos, n.marker, (k : Int)⟩) ∧
  (∀ (k i : Nat), L[k]? = some i → ∃ c c1 : Cell R, mesh.cellVector_[i]? = some c ∧
    r.cellVector_[k]? = some c1 ∧ c1.marker = c.marker ∧ c1.id = (k : Int) ∧
    cellTable c.nodes.length mesh.dimension_ = some c1.shape ∧
    c1.nodes.length = c.nodes.length ∧
    ∀ (j p : Nat), c.nodes[j]? = some p →
      ∃ q, c1.nodes[j]? = some q ∧ (firstAppearances (L.flatMap (cellNodes mesh)))[q]? = some p)

/-! ## Copy of a mesh -/

/-- The loop `for (uint i = 0; i < mesh.nodeCount(); i ++) createNode(mesh.node(i))`
of `copy_`, over the indices that are left; `createNode(const Node &)` is
`createNode_(node.pos(), node.marker(), -1)`. -/
def Mesh.copyAllNodes (w : Nat) (mesh : Mesh P R) : List Nat → Mesh P R → Except Failure (Mesh P R)
  | [], this => .ok this
  | i :: rest, this =>
    match Mesh.node w mesh i with
    | .error e => .error e
    | .ok n => Mesh.copyAllNodes w mesh rest (Mesh.createNode this n.pos n.marker).2

/-- The vector `nodes` with `nodes[i] = &node(e.node(i).id())` for an entity of
`mesh` with the node pointers `nodes`, over the indices `i` that are left. -/
def Mesh.copiesOfNodes (w : Nat) (this mesh : Mesh P R) (nodes : List Nat) :
    List Nat → Except Failure (List Nat)
  | [] => .ok []
  | k :: rest =>
    match Mesh.copyOfNode w this mesh nodes k with
    | .error e => .error e
    | .ok p =>
      match Mesh.copiesOfNodes w this mesh nodes rest with
      | .error e => .error e
      | .ok ps => .ok (p :: ps)

/-- Member `createBoundary(const Boundary & bound)` for a boundary of `mesh`. -/
def Mesh.createBoundaryCopy (w : Nat) (cbc : BoundaryCreator P R) (this mesh : Mesh P R)
    (bound : Boundary) : Except Failure (Option Nat × Mesh P R) :=
  match Mesh.copiesOfNodes w this mesh bound.nodes (List.range bound.nodes.length) with
  | .error e => .error e
  | .ok nodes => .ok (Mesh.createBoundary cbc this nodes bound.marker)

/-- Member `createCell(const Cell & cell)` for a cell of `mesh`. -/
def Mesh.createCellCopy [Inhabited R] (w : Nat) (this mesh : Mesh P R) (cell : Cell R) :
    Except Failure (Option Nat × Mesh P R) :=
  match Mesh.copiesOfNodes w this mesh cell.nodes (List.range cell.nodes.length) with
  | .error e => .error e
  | .ok nodes => .ok (Mesh.createCell this nodes cell.marker)

/-- The loop `for (uint i = 0; i < mesh.boundaryCount(); i ++)
createBoundary(mesh.boundary(i))` of `copy_`, over the indices that are left. -/
def Mesh.copyAllBoundaries (w : Nat) (cbc : BoundaryCreator P R) (mesh : Mesh P R) :
    List Nat → Mesh P R → Except Failure (Mesh P R)
  | [], this => .ok this
  | i :: rest, this =>
    match Mesh.boundary w mesh i with
    | .error e => .error e
    | .ok b =>
      match Mesh.createBoundaryCopy w cbc this mesh b with
      | .error e => .error e
      | .ok r => Mesh.copyAllBoundaries w cbc mesh rest r.2

/-- The loop `for (uint i = 0; i < mesh.cellCount(); i ++) createCell(mesh.cell(i))`
of `copy_`, over the indices that are left. -/
def Mesh.copyAllCells [Inhabited R] (w : Nat) (mesh : Mesh P R) :
    List Nat → Mesh P R → Except Failure (Mesh P R)
  | [], this => .ok this
  | i :: rest, this =>
    match Mesh.cell w mesh i with
    | .error e => .error e
    | .ok c =>
      match Mesh.createCellCopy w this mesh c with
      | .error e => .error e
      | .ok r => Mesh.copyAllCells w mesh rest r.2

/-- Member `copy_(mesh)` on `this`, up to and including
`setCellAttributes(mesh.cellAttributes())`: `clear()`, the flag `rangesKnown_`
and the dimension, then the nodes, the boundaries and the cells of `mesh` in this
order, then the attributes. The export data are not part of the model. -/
def Mesh.copyEntities [Inhabited R] (w : Nat) (cbc : BoundaryCreator P R) (this mesh : Mesh P R) :
    Except Failure (Mesh P R) :=
  let this0 := Mesh.clear this
  match Mesh.copyAllNodes w mesh (List.range mesh.nodeCount)
      { this0 with rangesKnown_ := false, dimension_ := mesh.dimension_ } with
  | .error e => .error e
  | .ok this1 =>
    match Mesh.copyAllBoundaries w cbc mesh (List.range mesh.boundaryCount) this1 with
    | .error e => .error e
    | .ok this2 =>
      match Mesh.copyAllCells w mesh (List.range mesh.cellCount) this2 with
      | .error e => .error e
      | .ok this3 =>
        match Mesh.setCellAttributes w this3 mesh.cellAttributes with
        | (.error e, _) => .error e
        | (.ok _, this4) => .ok this4

/-- Member `copy_(mesh)` on `this`, a mesh other than `mesh`: the entities, then
`createNeighbourInfos(true)` if `mesh.neighboursKnown()`. The copy constructor
calls it on a new object, the assignment on the object assigned to. -/
def Mesh.copy_ [Inhabited R] (w : Nat) (ops : EntityOps P R) (cbc : BoundaryCreator P R)
    (this mesh : Mesh P R) : Except Failure (Mesh P R) :=
  match Mesh.copyEntities w cbc this mesh with
  | .error e => .error e
  | .ok this4 =>
    if mesh.neighboursKnown_ then Mesh.createNeighbourInfos ops cbc this4 true else .ok this4

/-- A boundary creator that either returns a boundary of the mesh over the
same point set and leaves the mesh as it is, or creates the boundary with the
next sequential id. -/
def FindsOrCreates (cbc : BoundaryCreator P R) : Prop :=
  ∀ shape m nodes marker,
    (∃ (i : Nat) (b : Boundary), cbc shape m nodes marker = (some i, m) ∧
      m.boundaryVector_[i]? = some b ∧ samePoints b.nodes nodes = true) ∨
    cbc shape m nodes marker = Mesh.createBoundary_ shape m nodes marker m.boundaryCount

/-- A mesh that `copy_` can walk through: node ids are indices, the counts fit
the counters of `w` bits, every cell and boundary is over nodes of the mesh and
has a class in the table of `createCell` or `createBoundary` for the dimension of
the mesh, and the boundaries are over pairwise different point sets. -/
def Copyable (w : Nat) (mesh : Mesh P R) : Prop :=
  Mesh.IdsAreIndices mesh ∧
  mesh.nodeCount < 2 ^ w ∧ mesh.cellCount < 2 ^ w ∧ mesh.boundaryCount < 2 ^ w ∧
  (∀ c ∈ mesh.cellVector_, (∀ p ∈ c.nodes, p < mesh.nodeCount) ∧
    (cellTable c.nodes.length mesh.dimension_).isSome = true) ∧
  (∀ b ∈ mesh.boundaryVector_, (∀ p ∈ b.nodes, p < mesh.nodeCount) ∧
    (boundaryTable b.nodes.length mesh.dimension_).isSome = true) ∧
  mesh.boundaryVector_.Pairwise (fun a b => samePoints a.nodes b.nodes = false)

/-- The mesh `r` holds the entities of `mesh`: the dimension and the nodes
(position, marker and id) are those of `mesh`; cell `i` has the nodes, the marker
and the attribute of cell `i` of `mesh`, the id `i` and the class of the table;
and the first boundaries have the nodes and the markers of the boundaries of
`mesh`. -/
def CopyOf (mesh r : Mesh P R) : Prop :=
  r.dimension_ = mesh.dimension_ ∧ r.nodeVector_ = mesh.nodeVector_ ∧
  r.cellVector_.map (fun c => ((c.nodes, c.marker), c.attribute_)) =
    mesh.cellVector_.map (fun c => ((c.nodes, c.marker), c.attribute_)) ∧
  (∀ (i : Nat) (c : Cell R), r.cellVector_[i]? = some c →
    c.id = (i : Int) ∧ cellTable c.nodes.length mesh.dimension_ = some c.shape) ∧
  (r.boundaryVector_.map (fun b => (b.nodes, b.marker))).take mesh.boundaryCount =
    mesh.boundaryVector_.map (fun b => (b.nodes, b.marker))

/-! ## One-dimensional grids -/

/-- What `create1DGrid` uses of `RVector3` and of the default arguments of the
header, all declared outside `mesh.cpp`. -/
structure GridOps (P R : Type) where
  /-- The position `RVector3(x, y, z)`. -/
  point : R → R → R → P
  /-- The coordinate `pos[0]`. -/
  first : P → R
  /-- The value `0.0`. -/
  zero : R
  /-- The default marker of `createNode(x, y, z, marker)`. -/
  nodeMarker : Int
  /-- The default marker of `createCell(nodes, marker)`. -/
  cellMarker : Int

/-- The loop `for (uint i = 1; i < x.size(); i ++)` of `create1DGrid`, over the
values `x[i]` that are left: `createNode(x[i], 0.0, 0.0)`, then the edge cell over
`node(nodeCount() - 2)` and `node(nodeCount() - 1)`. -/
def Mesh.gridCells [Inhabited R] (w : Nat) (gops : GridOps P R) :
    List R → Mesh P R → Except Failure (Mesh P R)
  | [], this => .ok this
  | xi :: rest, this =>
    let this1 := (Mesh.createNode this (gops.point xi gops.zero gops.zero) gops.nodeMarker).2
    match Mesh.nodePtr w this1 ((this1.nodeCount : Int) - 2),
      Mesh.nodePtr w this1 ((this1.nodeCount : Int) - 1) with
    | .ok n0, .ok n1 => Mesh.gridCells w gops rest (Mesh.createCell this1 [n0, n1] gops.cellMarker).2
    | .error e, _ => .error e
    | _, .error e => .error e

/-- The body of the last loop of `create1DGrid` for the boundary index `i`: a
boundary without a left or without a right cell gets the marker 1 if the first
coordinate of its first node is `x0`, else the marker 2 if it is `xn`. -/
def Mesh.markGridBoundary [DecidableEq R] (w : Nat) (gops : GridOps P R) (x0 xn : R) (i : Nat)
    (m : Mesh P R) : Except Failure (Mesh P R) :=
  match Mesh.boundary w m i with
  | .error e => .error e
  | .ok b =>
    if b.leftCell = none ∨ b.rightCell = none then
      match b.nodes[0]? with
      | none => .error .outOfRange
      | some ptr =>
        match m.nodeVector_[ptr]? with
        | none => .error .outOfRange
        | some n =>
          if gops.first n.pos = x0 then
            .ok { m with boundaryVector_ := m.boundaryVector_.set i { b with marker := 1 } }
          else if gops.first n.pos = xn then
            .ok { m with boundaryVector_ := m.boundaryVector_.set i { b with marker := 2 } }
          else .ok m
    else .ok m

/-- The last loop of `create1DGrid`, over the boundary indices that are left. -/
def Mesh.markGridBoundaries [DecidableEq R] (w : Nat) (gops : GridOps P R) (x0 xn : R) :
    List Nat → Mesh P R → Except Failure (Mesh P R)
  | [], m => .ok m
  | i :: rest, m =>
    match Mesh.markGridBoundary w gops x0 xn i m with
    | .error e => .error e
    | .ok m1 => Mesh.markGridBoundaries w gops x0 xn rest m1

/-- Member `create1DGrid(x)`: after `clear()` and `setDimension(1)`, for more
than one value, the node at `x[0]`, a node and an edge cell for every further
value, `createNeighbourInfos()`, and the markers of the boundaries at `x[0]` and
`x[x.size() - 1]`. The warnings on `std::cerr` are no part of the model. -/
def Mesh.create1DGrid [Inhabited R] [DecidableEq R] (w : Nat) (ops : EntityOps P R)
    (cbc : BoundaryCreator P R) (gops : GridOps P R) (this : Mesh P R) (x : List R) :
    Except Failure (Mesh P R) :=
  let this0 := Mesh.clear this
  match x with
  | x0 :: x1 :: rest =>
    let this1 :=
      (Mesh.createNode { this0 with dimension_ := 1 } (gops.point x0 gops.zero gops.zero)
        gops.nodeMarker).2
    match Mesh.gridCells w gops (x1 :: rest) this1 with
    | .error e => .error e
    | .ok this2 =>
      match Mesh.createNeighbourInfos ops cbc this2 false with
      | .error e => .error e
      | .ok this3 =>
        Mesh.markGridBoundaries w gops x0 ((x1 :: rest).getLastD x1)
          (List.range this3.boundaryCount) this3
  | _ => .ok { this0 with dimension_ := 1 }

/-- The nodes of the grid over the values `x`: node `i` at `(x[i], 0, 0)` with
the id `i`. -/
def gridNodes (gops : GridOps P R) (x : List R) : List (Node P) :=
  x.mapIdx (fun i xi => ⟨gops.point xi gops.zero gops.zero, gops.nodeMarker, (i : Int)⟩)

/-- The cells of a grid of `k` cells: cell `i` is the edge cell over the nodes `i`
and `i + 1`, with the id `i`. -/
def gridCellList [Inhabited R] (gops : GridOps P R) (k : Nat) : List (Cell R) :=
  (List.range k).map (fun i => ⟨.EdgeCell, [i, i + 1], gops.cellMarker, (i : Int), default, [], false⟩)

/-- The classes and nodes of the cells of a grid of `k` cells. -/
def gridKeys (k : Nat) : List (CellShape × List Nat) :=
  (List.range k).map (fun i => (CellShape.EdgeCell, [i, i + 1]))

/-- The two facets of an edge cell are its two nodes, each as a point set of
one node, in either order. -/
def EdgeFacets (ops : EntityOps P R) : Prop :=
  ops.boundaryCount .EdgeCell = 2 ∧
  ∀ a b : Nat,
    (ops.boundaryNodes .EdgeCell [a, b] 0 = [a] ∧ ops.boundaryNodes .EdgeCell [a, b] 1 = [b]) ∨
    (ops.boundaryNodes .EdgeCell [a, b] 0 = [b] ∧ ops.boundaryNodes .EdgeCell [a, b] 1 = [a])

/-- The cell that `findNeighbourCell` records for a facet of a cell is another
cell. -/
def NeighbourIsOther (ops : EntityOps P R) : Prop :=
  ∀ (m : Mesh P R) (ci j x : Nat), ops.findNeighbourCell m ci j = some x → x ≠ ci

/-- Every boundary of the mesh is a `NodeBoundary` with marker 0 over one node,
and no two boundaries are over the same node. -/
def NodeFacets (m : Mesh P R) : Prop :=
  (∀ b ∈ m.boundaryVector_, b.shape = .NodeBoundary ∧ b.marker = 0 ∧ ∃ p, b.nodes = [p]) ∧
  (m.boundaryVector_.map (fun b => b.nodes)).Nodup

/-- The marker of the boundary over the node `p` of a grid of `n` nodes: 1 at
the first node, 2 at the last node, 0 in between. -/
def gridMarker (n p : Nat) : Int := if p = 0 then 1 else if p + 1 = n then 2 else 0

/-- The mesh `r` is the grid over the values `x`: dimension 1, node `i` at
`(x[i], 0, 0)`, cell `i` the edge cell over the nodes `i` and `i + 1`, and one
boundary over each node, with the marker 1 at the first node, 2 at the last node
and 0 in between, so that two boundaries have a marker other than 0. -/
def GridOf [Inhabited R] (gops : GridOps P R) (x : List R) (r : Mesh P R) : Prop :=
  r.dimension_ = 1 ∧ r.nodeVector_ = gridNodes gops x ∧
  r.cellVector_.map cellCore = (gridCellList gops (x.length - 1)).map cellCore ∧
  r.boundaryCount = x.length ∧
  (∀ p : Nat, p < x.length → ∃ b ∈ r.boundaryVector_, b.nodes = [p]) ∧
  (∀ b ∈ r.boundaryVector_, ∃ p : Nat, p < x.length ∧ b.nodes = [p] ∧
    b.shape = .NodeBoundary ∧ b.marker = gridMarker x.length p) ∧
  r.boundaryVector_.countP (fun b => decide (b.marker ≠ 0)) = 2

/-- Stand-ins for `RVector3` over integer coordinates: a position is its first
coordinate; the default markers are 0. -/
def lineGridOps : GridOps Int Int :=
  { point := fun a _ _ => a, first := fun p => p, zero := 0, nodeMarker := 0, cellMarker := 0 }

/-- The boundary with the marker of its node in a grid of `n` nodes. -/
def gridMarked (n : Nat) (b : Boundary) : Boundary :=
  { b with marker := gridMarker n (b.nodes.headD 0) }

/-! ## Symmetry of the side assignment -/

/-- The boundary with its two sides exchanged. -/
def Boundary.mirrored (b : Boundary) : Boundary :=
  { b with leftCell := b.rightCell, rightCell := b.leftCell }

/-- What the assignment step and the cross check of `createNeighbourInfosCell_`
leave of the boundary `bound` for the cell pointer `c`: the boundary as it is
after the step, or `none` if the cross check ends the call with `throwError`.
A step that ends in `continue` leaves the boundary as it was. -/
def sideStep (c : Nat) (neighbour : Option Nat) (isLeft : Bool) (bound : Boundary) :
    Option Boundary :=
  if (assignSides c neighbour isLeft bound).2 then some bound
  else if crossCheckFails c (assignSides c neighbour isLeft bound).1 then none
  else some (assignSides c neighbour isLeft bound).1

/-- The one free side of the boundary is not the side that the orientation test
names, and the other side holds a cell other than `c`. -/
def FreeSideDiffers (c : Nat) (isLeft : Bool) (bound : Boundary) : Prop :=
  (isLeft = true ∧ bound.rightCell = none ∧ bound.leftCell ≠ none ∧ bound.leftCell ≠ some c) ∨
  (isLeft = false ∧ bound.leftCell = none ∧ bound.rightCell ≠ none ∧ bound.rightCell ≠ some c)

/-! ## Search of cells by attribute -/

/-- The constants `TOLERANCE` and `MAX_DOUBLE`, defined outside `mesh.cpp`, and
the value of the literal `-1` as a `double`. -/
structure DoubleConstants (R : Type) where
  TOLERANCE : R
  MAX_DOUBLE : R
  minusOne : R

/-- A loop `for (uint i = 0; i < cellCount(); i ++) if (test(cell(i)))
vCell.push_back(cellVector_[i])` over the indices that are left. -/
def Mesh.collectCells (w : Nat) (m : Mesh P R) (test : Cell R → Bool) :
    List Nat → List Nat → Except Failure (List Nat)
  | [], vCell => .ok vCell
  | i :: rest, vCell =>
    match Mesh.cell w m i with
    | .error e => .error e
    | .ok c => Mesh.collectCells w m test rest (if test c then vCell ++ [i] else vCell)

/-- Member `findCellByAttribute(from, to)`: with `to < TOLERANCE` the cells with
`attribute() - from < TOLERANCE`; otherwise `to` becomes `MAX_DOUBLE` if it is
`-1`, and the cells with `attribute() >= from && attribute() < to` are
collected. Returns the cell pointers in the order of `cellVector_`. -/
def Mesh.findCellByAttribute [LinearOrder R] [Sub R] (w : Nat) (k : DoubleConstants R)
    (m : Mesh P R) (from_ to_ : R) : Except Failure (List Nat) :=
  if to_ < k.TOLERANCE then
    Mesh.collectCells w m (fun c => decide (c.attribute_ - from_ < k.TOLERANCE))
      (List.range m.cellCount) []
  else
    let to1 := if to_ = k.minusOne then k.MAX_DOUBLE else to_
    Mesh.collectCells w m (fun c => decide (c.attribute_ ≥ from_) && decide (c.attribute_ < to1))
      (List.range m.cellCount) []

/-- The cell pointers of `m` whose cell passes `test`, in the order of
`cellVector_`. -/
def Mesh.cellsWith (m : Mesh P R) (test : Cell R → Bool) : List Nat :=
  (List.range m.cellVector_.length).filter (fun i =>
    match m.cellVector_[i]? with
    | some c => test c
    | none => false)

/-- Constants over the integers: `TOLERANCE` is 1 and `MAX_DOUBLE` is 1000. -/
def intConstants : DoubleConstants Int := { TOLERANCE := 1, MAX_DOUBLE := 1000, minusOne := -1 }

/-- A mesh of dimension 1 with three edge cells in a row whose attributes are 0,
5 and 9. -/
def attributeLine : Mesh Int Int :=
  { dimension_ := 1,
    nodeVector_ := [{ pos := 0, marker := 0, id := 0 }, { pos := 1, marker := 0, id := 1 },
                    { pos := 2, marker := 0, id := 2 }, { pos := 3, marker := 0, id := 3 }],
    cellVector_ := [{ shape := .EdgeCell, nodes := [0, 1], marker := 0, id := 0, attribute_ := 0 },
                    { shape := .EdgeCell, nodes := [1, 2], marker := 0, id := 1, attribute_ := 5 },
                    { shape := .EdgeCell, nodes := [2, 3], marker := 0, id := 2, attribute_ := 9 }] }

/-! ## Renumbering of the nodes -/

/-- The loop `for (uint i = 0; i < nodeVector_.size(); i ++)
nodeVector_[i]->setId(perm[i])` of `sortNodes` from index `i` on, over the nodes
that are left; `perm` is read outside its bounds if it is shorter than the node
vector. -/
def Mesh.setIdsFrom (perm : List Int) : List (Node P) → Nat → Except Failure (List (Node P))
  | [], _ => .ok []
  | n :: rest, i =>
    match perm[i]? with
    | none => .error .outOfRange
    | some id =>
      match Mesh.setIdsFrom perm rest (i + 1) with
      | .error e => .error e
      | .ok l => .ok ({ n with id := id } :: l)

/-- The loop `for (uint i = 0; i < nodeVector_.size(); i ++)
nodeVector_[i]->setId(i)` of `recountNodes` from index `i` on. -/
def Mesh.recountFrom : List (Node P) → Nat → List (Node P)
  | [], _ => []
  | n :: rest, i => { n with id := (i : Int) } :: Mesh.recountFrom rest (i + 1)

/-- Member `recountNodes()`. -/
def Mesh.recountNodes (m : Mesh P R) : Mesh P R :=
  { m with nodeVector_ := Mesh.recountFrom m.nodeVector_ 0 }

/-- Member `sortNodes(perm)`: node `i` gets the id `perm[i]`, the vector of node
pointers is sorted with `lesserId< Node >`, and `recountNodes()` follows.
`std::sort` and `lesserId` are defined outside `mesh.cpp`: `sort` takes the
vector of the node pointers, each paired with the node it points to, and returns
it in the new order. Sorting moves the pointers, not the nodes: the index of a
node in `nodeVector_` is its pointer in this model, so the cells, the boundaries
and the tree refer to the node that was stored at index `i` by its new index. -/
def Mesh.sortNodes (sort : List (Nat × Node P) → List (Nat × Node P)) (m : Mesh P R)
    (perm : List Int) : Except Failure (Mesh P R) :=
  match Mesh.setIdsFrom perm m.nodeVector_ 0 with
  | .error e => .error e
  | .ok l =>
    let sorted := sort l.enum
    let moved := fun (i : Nat) => (sorted.map (fun e => e.1)).indexOf i
    .ok (Mesh.recountNodes
      { m with nodeVector_ := sorted.map (fun e => e.2),
               cellVector_ := m.cellVector_.map (fun c => { c with nodes := c.nodes.map moved }),
               boundaryVector_ :=
                 m.boundaryVector_.map (fun b => { b with nodes := b.nodes.map moved }),
               tree_ := m.tree_.map (fun t => t.map moved) })

/-- What `std::sort` with `lesserId` delivers: the same pointers in an order in
which no node has a smaller id than a node before it. -/
def SortsById (sort : List (Nat × Node P) → List (Nat × Node P)) : Prop :=
  ∀ l, (sort l).Perm l ∧ (sort l).Pairwise (fun a b => ¬ b.2.id < a.2.id)

/-- Sorting by insertion, with the id as key. -/
def insertionSortById (l : List (Nat × Node P)) : List (Nat × Node P) :=
  l.insertionSort (fun a b => a.2.id ≤ b.2.id)


/-! ## The cached bounding box -/

/-- The mesh together with its members `minRange_` and `maxRange_`, the two
corners of the cached bounding box. An `RVector3` is the function from the index
`j < 3` to the coordinate `v[j]`. -/
structure RangeMesh (R : Type) extends Mesh (Fin 3 → R) R where
  minRange_ : Fin 3 → R
  maxRange_ : Fin 3 → R

/-- Member `findRange_()`: if `rangesKnown_` is not set, `minRange_` starts at
`(MAX_DOUBLE, MAX_DOUBLE, MAX_DOUBLE)` and `maxRange_` at `-minRange_`, every
node lowers `minRange_[j]` to `min(pos[j], minRange_[j])` and raises
`maxRange_[j]` to `max(pos[j], maxRange_[j])` for `j < 3`, and `rangesKnown_` is
set. `MAX_DOUBLE` is defined outside `mesh.cpp`. -/
def RangeMesh.findRange_ [LinearOrder R] [Neg R] (MAX_DOUBLE : R) (m : RangeMesh R) :
    RangeMesh R :=
  if m.rangesKnown_ then m
  else
    let r := m.nodeVector_.foldl
      (fun (box : (Fin 3 → R) × (Fin 3 → R)) n =>
        (fun j => min (n.pos j) (box.1 j), fun j => max (n.pos j) (box.2 j)))
      (fun _ => MAX_DOUBLE, fun _ => - MAX_DOUBLE)
    { m with rangesKnown_ := true, minRange_ := r.1, maxRange_ := r.2 }

/-- Member `createNode(pos, marker)` on the mesh with its cached box: the box
members are not touched by `createNode_`. -/
def RangeMesh.createNode (m : RangeMesh R) (pos : Fin 3 → R) (marker : Int) :
    Nat × RangeMesh R :=
  ((Mesh.createNode m.toMesh pos marker).1,
   { m with toMesh := (Mesh.createNode m.toMesh pos marker).2 })

/-- Member `createNodeWithCheck(pos, tol)` on the mesh with its cached box. -/
def RangeMesh.createNodeWithCheck (ext : Mesh.Externals (Fin 3 → R) R) (m : RangeMesh R)
    (pos : Fin 3 → R) (tol : R) : Except Failure Nat × RangeMesh R :=
  ((Mesh.createNodeWithCheck ext m.toMesh pos tol).1,
   { m with toMesh := (Mesh.createNodeWithCheck ext m.toMesh pos tol).2 })

/-- Member `clear()` on the mesh with its cached box. -/
def RangeMesh.clear (m : RangeMesh R) : RangeMesh R := { m with toMesh := m.toMesh.clear }

/-- Members `scale(s)`, `translate(t)` and `rotate(r)`: every node is moved by
`Node::scale`, `Node::translate` or `Node::rotate`, defined outside `mesh.cpp`
(`move` gives the position after the call), and `rangesKnown_` is reset. -/
def RangeMesh.moveNodes (move : (Fin 3 → R) → Fin 3 → R) (m : RangeMesh R) : RangeMesh R :=
  { m with nodeVector_ := m.nodeVector_.map (fun n => { n with pos := move n.pos }),
           rangesKnown_ := false }

/-- Member `scale(s)`. -/
def RangeMesh.scale (nodeScale : (Fin 3 → R) → (Fin 3 → R) → Fin 3 → R) (m : RangeMesh R)
    (s : Fin 3 → R) : RangeMesh R :=
  m.moveNodes (fun pos => nodeScale pos s)

/-- Member `translate(t)`. -/
def RangeMesh.translate (nodeTranslate : (Fin 3 → R) → (Fin 3 → R) → Fin 3 → R)
    (m : RangeMesh R) (t : Fin 3 → R) : RangeMesh R :=
  m.moveNodes (fun pos => nodeTranslate pos t)

/-- Member `rotate(r)`. -/
def RangeMesh.rotate (nodeRotate : (Fin 3 → R) → (Fin 3 → R) → Fin 3 → R) (m : RangeMesh R)
    (r : Fin 3 → R) : RangeMesh R :=
  m.moveNodes (fun pos => nodeRotate pos r)

/-- Member `copy_(mesh)` on the mesh with its cached box: the box members of
`this` are not assigned. -/
def RangeMesh.copy_ [Inhabited R] (w : Nat) (ops : EntityOps (Fin 3 → R) R)
    (cbc : Mesh.BoundaryCreator (Fin 3 → R) R) (this mesh : RangeMesh R) :
    Except Failure (RangeMesh R) :=
  match Mesh.copy_ w ops cbc this.toMesh mesh.toMesh with
  | .error e => .error e
  | .ok r => .ok { this with toMesh := r }

/-- The cached box is right if it is flagged valid: for a mesh with a node, each
coordinate of `minRange_` is the least and each coordinate of `maxRange_` the
greatest of that coordinate over the nodes of the mesh. -/
def RangeValid [LinearOrder R] (m : RangeMesh R) : Prop :=
  m.rangesKnown_ = true → m.nodeVector_ ≠ [] → ∀ j : Fin 3,
    (∀ n ∈ m.nodeVector_, m.minRange_ j ≤ n.pos j ∧ n.pos j ≤ m.maxRange_ j) ∧
    (∃ n ∈ m.nodeVector_, n.pos j = m.minRange_ j) ∧
    (∃ n ∈ m.nodeVector_, n.pos j = m.maxRange_ j)

/-- A boundary creator that leaves the flag `rangesKnown_` alone. -/
def KeepsRangeFlag (cbc : Mesh.BoundaryCreator P R) : Prop :=
  ∀ shape m nodes marker, (cbc shape m nodes marker).2.rangesKnown_ = m.rangesKnown_

/-- A mesh of dimension 3 over integer coordinates with one node at the origin
and no valid box. -/
def originMesh : RangeMesh Int :=
  { dimension_ := 3, nodeVector_ := [{ pos := fun _ => 0, marker := 0, id := 0 }],
    minRange_ := fun _ => 0, maxRange_ := fun _ => 0 }

/-- Externals over positions in space for the examples: no node is ever near.
-/
def spaceExternals : Mesh.Externals (Fin 3 → Int) Int :=
  { distance := fun _ _ => 0, less := fun a b => decide (a < b), nearest := fun _ _ _ => none,
    defaultMarker := 0, shapeCentre := fun _ _ => 0 }

/-! ## Orientation of the left cell -/

/-- Stand-ins for the members of the entities, for meshes of triangles over
integer coordinates: facet `j` of a triangle runs from its node `j` to its node
`j + 1` (modulo 3), and the neighbour across a facet is the first other cell
that holds both nodes of the facet. -/
def triangleOps : EntityOps Int Int :=
  { boundaryCount := fun _ => 3,
    boundaryNodes := fun _ nodes j => (nodes[j]?).toList ++ (nodes[(j + 1) % 3]?).toList,
    findNeighbourCell := fun m ci j =>
      match m.cellVector_[ci]? with
      | none => none
      | some c =>
        (List.range m.cellVector_.length).find? (fun k =>
          decide (k ≠ ci) &&
          match m.cellVector_[k]? with
          | some d =>
            ((c.nodes[j]?).toList ++ (c.nodes[(j + 1) % 3]?).toList).all
              (fun x => d.nodes.contains x)
          | none => false),
    normShowsOutside := fun _ _ _ => true,
    isInside := fun _ ps p => ps.contains p,
    exitFacet := fun _ _ _ => 0,
    cellSet := fun _ _ => [0] }

/-- A mesh of dimension 2 over integer coordinates with four nodes, the
triangles `(0, 1, 2)` and `(0, 1, 3)`, which both run through their common edge
from node 0 to node 1, and the edge `(1, 0)` as a boundary with marker 1. -/
def flippedTriangles : Mesh Int Int :=
  { dimension_ := 2,
    nodeVector_ := [{ pos := 0, marker := 0, id := 0 }, { pos := 1, marker := 0, id := 1 },
                    { pos := 2, marker := 0, id := 2 }, { pos := 3, marker := 0, id := 3 }],
    cellVector_ := [{ shape := .Triangle, nodes := [0, 1, 2], marker := 0, id := 0, attribute_ := 0 },
                    { shape := .Triangle, nodes := [0, 1, 3], marker := 0, id := 1, attribute_ := 0 }],
    boundaryVector_ := [{ shape := .Edge, nodes := [1, 0], marker := 1, id := 0 }] }

/-! ## Attributes of a refined mesh -/

/-- Member `createH2()`: the geometric refinement of `this` in a new mesh of the
same dimension, followed by `ret.setCellAttributes(ret.cellMarker())`; `ofInt` is
the conversion of a marker to `double` by which the vector of the markers becomes
the vector of the attributes. -/
def Mesh.createH2 [Add P] [HDiv P R P] [OfNat R 2] [Inhabited R] (w : Nat)
    (ext : Mesh.Externals P R) (tables : Mesh.SplitTables)
    (createBoundaryChecked_ : Mesh.BoundaryCreator P R) (ofInt : Int → R) (this : Mesh P R) :
    Except Failure (Mesh P R) :=
  match Mesh.createRefined_ w ext tables createBoundaryChecked_ (Mesh.new this.dimension_) this
      false true with
  | .error e => .error e
  | .ok ret =>
    match Mesh.setCellAttributes w ret (ret.cellMarker.map ofInt) with
    | (.error e, _) => .error e
    | (.ok _, ret1) => .ok ret1

/-- The cells `g` stem from the cell `c`: there are at most 8 of them, each with
the marker of `c` and the attribute of a fresh cell. -/
def StemFrom [Inhabited R] (c : Cell R) (g : List (Cell R)) : Prop :=
  g.length ≤ 8 ∧ ∀ x ∈ g, x.marker = c.marker ∧ x.attribute_ = default

/-! ## The children of a split cell -/

/-- Every entry of the map `M` is an entry of the map `M1`. -/
def MatrixLe (M M1 : NodeMatrix) : Prop := ∀ k x, M k = some x → M1 k = some x


/-- The children that the cell loop of `createRefined_` creates with `h2` for a
cell of the class, as tuples of indices into the local node vector: the vector
`n`, followed for a quadrangle by `n8`, for a hexahedron by `n20 .. n26`, and for
a prism by `nf1`, `nf2`, `nf3`. -/
def h2Tuples : CellShape → List (List Nat)
  | .EdgeCell => [[0, 2], [2, 1]]
  | .Triangle => [[0, 3, 5], [1, 4, 3], [2, 5, 4], [3, 4, 5]]
  | .Quadrangle => [[0, 4, 8, 7], [1, 5, 8, 4], [2, 6, 8, 5], [3, 7, 8, 6]]
  | .Tetrahedron =>
    [[4, 6, 5, 0], [4, 5, 6, 9], [7, 9, 4, 1], [7, 4, 9, 5], [8, 7, 5, 2], [8, 5, 7, 9],
     [6, 9, 8, 3], [6, 8, 9, 5]]
  | .Hexahedron =>
    [[0, 8, 20, 11, 16, 22, 26, 25], [8, 1, 9, 20, 22, 17, 23, 26],
     [11, 20, 10, 3, 25, 26, 24, 19], [20, 9, 2, 10, 26, 23, 18, 24],
     [16, 22, 26, 25, 4, 12, 21, 15], [22, 17, 23, 26, 12, 5, 13, 21],
     [25, 26, 24, 19, 15, 21, 14, 7], [26, 23, 18, 24, 21, 13, 6, 14]]
  | .TriPrism =>
    [[0, 6, 8, 12, 15, 17], [1, 7, 6, 13, 16, 15], [2, 8, 7, 14, 17, 16], [6, 7, 8, 15, 16, 17],
     [12, 15, 17, 3, 9, 11], [13, 16, 15, 4, 10, 9], [14, 17, 16, 5, 11, 10],
     [15, 16, 17, 9, 10, 11]]
  | _ => []

/-- The sub-facets that the boundary loop of `createRefined_` creates with `h2`
for a boundary of the class, as tuples of indices into the local node vector:
the vector `n`, followed for a quadrangle face by `n8`. -/
def h2FacetTuples : BoundaryShape → List (List Nat)
  | .NodeBoundary => [[0]]
  | .Edge => [[0, 2], [2, 1]]
  | .TriangleFace => [[0, 3, 5], [1, 4, 3], [2, 5, 4], [3, 4, 5]]
  | .QuadrangleFace => [[0, 4, 8, 7], [1, 5, 8, 4], [2, 6, 8, 5], [3, 7, 8, 6]]
  | _ => []

/-- The rows of a split table as requests `(j, a, b)`: node `j` of the local
vector is requested for the local nodes `a` and `b`. -/
def tableRequests (rows : List (Nat × Nat)) : List (Nat × Nat × Nat) :=
  rows.enum.map (fun e => (e.1, e.2.1, e.2.2))

/-- The calls of `createRefinementNode_` in the cell loop with `h2` for a cell of
the class, as triples `(j, a, b)` of indices into the local node vector: node
`j` is what the call for the nodes `a` and `b` delivers. -/
def h2Requests (tables : Mesh.SplitTables) : CellShape → List (Nat × Nat × Nat)
  | .EdgeCell => [(2, 0, 1)]
  | .Triangle => [(3, 0, 1), (4, 1, 2), (5, 2, 0)]
  | .Quadrangle => [(4, 0, 1), (5, 1, 2), (6, 2, 3), (7, 3, 0)]
  | .Tetrahedron => tableRequests (tables.Tet10NodeSplitZienk.take 10)
  | .Hexahedron =>
    tableRequests (tables.Hex20NodeSplit.take 20) ++
      [(20, 8, 10), (21, 12, 14), (22, 8, 12), (23, 9, 13), (24, 10, 14), (25, 11, 15),
       (26, 20, 21)]
  | .TriPrism =>
    tableRequests (tables.Prism15NodeSplit.take 15) ++ [(15, 6, 9), (16, 7, 10), (17, 8, 11)]
  | _ => []

/-- The calls of `createRefinementNode_` in the first `switch` of the boundary
loop for a boundary of the class, as triples `(j, a, b)` of indices into the
local node vector. -/
def facetRequests : BoundaryShape → List (Nat × Nat × Nat)
  | .Edge => [(2, 0, 1)]
  | .TriangleFace => [(3, 0, 1), (4, 1, 2), (5, 2, 0)]
  | .QuadrangleFace => [(4, 0, 1), (5, 1, 2), (6, 2, 3), (7, 3, 0)]
  | _ => []

/-- Length of the local node vector of a cell of the class with `h2`. -/
def localCount : CellShape → Nat
  | .EdgeCell => 3
  | .Triangle => 6
  | .Quadrangle => 9
  | .Tetrahedron => 10
  | .Hexahedron => 27
  | .TriPrism => 18
  | _ => 0

/-- Length of the local node vector of a boundary of the class with `h2`. -/
def facetLocalCount : BoundaryShape → Nat
  | .NodeBoundary => 1
  | .Edge => 3
  | .TriangleFace => 6
  | .QuadrangleFace => 9
  | _ => 0

/-- The class of the children of a cell of the class in a mesh of dimension
`dim`: `createTriangle`, `createQuadrangle` and `createTetrahedron` name the
class, the children of an edge, a hexahedron and a prism are created by
`createCell` from 2, 8 and 6 nodes. -/
def h2Class (dim : Nat) : CellShape → Option CellShape
  | .EdgeCell => cellTable 2 dim
  | .Triangle => some .Triangle
  | .Quadrangle => some .Quadrangle
  | .Tetrahedron => some .Tetrahedron
  | .Hexahedron => cellTable 8 dim
  | .TriPrism => cellTable 6 dim
  | _ => none

/-- The cells of one class and marker over the node lists `lists`, with the ids
`start`, `start + 1`, ... and the attribute of a fresh cell. -/
def childCellsFrom [Inhabited R] (shape : CellShape) (marker : Int) :
    Nat → List (List Nat) → List (Cell R)
  | _, [] => []
  | start, ns :: rest =>
    { shape := shape, nodes := ns, marker := marker, id := (start : Int), attribute_ := default } ::
      childCellsFrom shape marker (start + 1) rest

/-- The children of the cell `c` in a mesh of dimension `dim` over the local
node vector `loc`, with ids from `start` on. -/
def h2Children [Inhabited R] (dim : Nat) (c : Cell R) (start : Nat) (loc : List Nat) :
    List (Cell R) :=
  match h2Class dim c.shape with
  | some s =>
    childCellsFrom s c.marker start ((h2Tuples c.shape).map (fun t => t.map (Mesh.nth loc)))
  | none => []

/-- What the `switch` of the cell loop does with `h2` for the cell `c` in the
state `this`, `M`: the state stays a state of the refinement with a symmetric
map that has lost no entry; there is a local node vector `loc` of nodes of the
mesh that starts with the nodes of `c` and with the vector `n` that is returned,
every node of it is registered in the map under the pair for which it was
requested, for a quadrangle node 8 is a new node at the position `centre`, and
the mesh has got new nodes and the children of `c` over `loc`. -/
def H2Step [Add P] [HDiv P R P] [OfNat R 2] [Inhabited R] (V : Nat) (tables : Mesh.SplitTables)
    (centre : P) (c : Cell R) (this : Mesh P R) (M : NodeMatrix)
    (r : List Nat × Mesh P R × NodeMatrix) : Prop :=
  RefState V r.2.1 r.2.2 ∧ SymmetricMatrix r.2.2 ∧ MatrixLe M r.2.2 ∧
  ∃ (loc : List Nat) (l : List (Node P)),
    loc.length = localCount c.shape ∧ loc.take c.nodes.length = c.nodes ∧
    loc.take (quadraticCount c.shape) = r.1 ∧ (∀ x ∈ loc, x < r.2.1.nodeCount) ∧
    (∀ q ∈ h2Requests tables c.shape,
      r.2.2 ((Mesh.nth loc q.2.1 : Int), (Mesh.nth loc q.2.2 : Int)) = some (Mesh.nth loc q.1)) ∧
    (c.shape = .Quadrangle → ∃ nd, r.2.1.nodeVector_[Mesh.nth loc 8]? = some nd ∧
      nd.pos = centre ∧ this.nodeCount ≤ Mesh.nth loc 8) ∧
    l.length ≤ 27 ∧
    r.2.1 = { this with nodeVector_ := this.nodeVector_ ++ l,
                        cellVector_ := this.cellVector_ ++
                          h2Children this.dimension_ c this.cellCount loc }


/-- What the body of the boundary loop does with `h2` for the boundary `b` in
the state `this`, `M`: the map stays symmetric and has lost no entry; there are
a local node vector `loc` that starts with the nodes of `b` and a mesh `t`, which
is `this` with at most 5 new nodes, such that every node of `loc` is registered
in the map under the pair for which it was requested; for a quadrangle face node
8 is the node registered under the nodes 4 and 6 if there is one, and the node
requested for the nodes 5 and 7 otherwise; and the creator is called on `t` for
the sub-facets of `b` over `loc`, one after the other, with the marker of `b`. -/
def FacetStep [Add P] [HDiv P R P] [OfNat R 2] (V : Nat) (cbc : Mesh.BoundaryCreator P R)
    (b : Boundary) (this : Mesh P R) (M : NodeMatrix) (r : Mesh P R × NodeMatrix) : Prop :=
  SymmetricMatrix r.2 ∧ MatrixLe M r.2 ∧
  ∃ (loc : List Nat) (t : Mesh P R), RefState V t r.2 ∧ Grows this t 5 ∧
    loc.length = facetLocalCount b.shape ∧ loc.take b.nodes.length = b.nodes ∧
    (∀ x ∈ loc, x < t.nodeCount) ∧
    (∀ q ∈ facetRequests b.shape,
      r.2 ((Mesh.nth loc q.2.1 : Int), (Mesh.nth loc q.2.2 : Int)) = some (Mesh.nth loc q.1)) ∧
    (b.shape = .QuadrangleFace →
      (r.2 ((Mesh.nth loc 4 : Int), (Mesh.nth loc 6 : Int)) = some (Mesh.nth loc 8) ∨
        r.2 ((Mesh.nth loc 5 : Int), (Mesh.nth loc 7 : Int)) = some (Mesh.nth loc 8)) ∧
      (∀ x, M ((Mesh.nth loc 4 : Int), (Mesh.nth loc 6 : Int)) = some x → Mesh.nth loc 8 = x) ∧
      (∀ x, M ((Mesh.nth loc 5 : Int), (Mesh.nth loc 7 : Int)) = some x →
        (r.2 ((Mesh.nth loc 4 : Int), (Mesh.nth loc 6 : Int)) = none ∨
          r.2 ((Mesh.nth loc 4 : Int), (Mesh.nth loc 6 : Int)) = some x) →
        Mesh.nth loc 8 = x)) ∧
    r.1 = Mesh.createBoundaries cbc b.shape b.marker
      ((h2FacetTuples b.shape).map (fun t => t.map (Mesh.nth loc))) t


/-- The six calls of `createRefinementNode_` for the face centres `n20 .. n25` of
a hexahedron, as triples `(j, a, b)` of indices into the local node vector: each
names the edge midpoints of one pair of opposite edges of the face. -/
def faceCentreRequests : List (Nat × Nat × Nat) :=
  [(20, 8, 10), (21, 12, 14), (22, 8, 12), (23, 9, 13), (24, 10, 14), (25, 11, 15)]

/-- The map after the node loop of `createRefined_` for a mesh of `V` nodes. -/
def diagonalMatrix (V : Nat) : NodeMatrix :=
  fun k => if k.1 = k.2 ∧ 0 ≤ k.1 ∧ k.1 < (V : Int) then some k.1.toNat else none

/-- Twelve nodes at the corners of two cubes of side 4 that share the face
`x = 4`; the position `(x, y, z)` is written as `10000 * x + 100 * y + z`. -/
def hexNodes : List (Node Int) :=
  [{ pos := 0, marker := 0, id := 0 }, { pos := 40000, marker := 0, id := 1 },
   { pos := 40400, marker := 0, id := 2 }, { pos := 400, marker := 0, id := 3 },
   { pos := 4, marker := 0, id := 4 }, { pos := 40004, marker := 0, id := 5 },
   { pos := 40404, marker := 0, id := 6 }, { pos := 404, marker := 0, id := 7 },
   { pos := 80004, marker := 0, id := 8 }, { pos := 80000, marker := 0, id := 9 },
   { pos := 80400, marker := 0, id := 10 }, { pos := 80404, marker := 0, id := 11 }]

/-- Two hexahedra over `hexNodes` that share the face over the nodes 1, 2, 6, 5.
In the first it is the face of the local nodes 1, 2, 6, 5; the second has it as
its bottom face, local nodes 0, 1, 2, 3, and the face `x = 8` as its top. -/
def turnedHexahedra : Mesh Int Int :=
  { dimension_ := 3, nodeVector_ := hexNodes,
    cellVector_ := [{ shape := .Hexahedron, nodes := [0, 1, 2, 3, 4, 5, 6, 7], marker := 1, id := 0,
                      attribute_ := 0 },
                    { shape := .Hexahedron, nodes := [5, 1, 2, 6, 8, 9, 10, 11], marker := 2,
                      id := 1, attribute_ := 0 }] }

/-- The same two hexahedra, the second numbered like the first: its bottom is
in the plane `z = 0`, and the shared face is the face of its local nodes 3, 0,
4, 7. -/
def alignedHexahedra : Mesh Int Int :=
  { dimension_ := 3, nodeVector_ := hexNodes,
    cellVector_ := [{ shape := .Hexahedron, nodes := [0, 1, 2, 3, 4, 5, 6, 7], marker := 1, id := 0,
                      attribute_ := 0 },
                    { shape := .Hexahedron, nodes := [1, 9, 10, 2, 5, 8, 11, 6], marker := 2,
                      id := 1, attribute_ := 0 }] }

/-- One hexahedron over the first eight of `hexNodes` with marker 1, and the
quadrangle face over its nodes 1, 2, 6, 5 with marker 3, in a mesh of dimension
3. -/
def oneHexahedron : Mesh Int Int :=
  { dimension_ := 3, nodeVector_ := hexNodes.take 8,
    cellVector_ := [{ shape := .Hexahedron, nodes := [0, 1, 2, 3, 4, 5, 6, 7], marker := 1, id := 0,
                      attribute_ := 0 }],
    boundaryVector_ := [{ shape := .QuadrangleFace, nodes := [1, 2, 6, 5], marker := 3, id := 0 }] }

/-- The hexahedron of `oneHexahedron`, without the boundary, in a mesh of
dimension 2. -/
def flatHexahedron : Mesh Int Int :=
  { oneHexahedron with dimension_ := 2, boundaryVector_ := [] }

/-! ## Sub-facets under a creator that creates unless it finds -/

/-- The map `M1` has every entry of `M`, and every entry of `M1` for a node of
the mesh `t` is an entry of `M`. -/
def Extends (t : Mesh P R) (M M1 : NodeMatrix) : Prop :=
  MatrixLe M M1 ∧ ∀ k n, M1 k = some n → n < t.nodeCount → M k = some n

end GIMLI

/-! # Theorems -/

namespace GIMLI

variable {P R : Type}

open Mesh

/-! ## Classification -/

/-- C1: for every point list and dimension for which the table of the
specification names a class, `createCell` creates exactly one cell of that
class: it is appended to the cells at index `cellCount`, carries the given nodes
and marker and the id `cellCount` (the count before the call), and the pointer
to it is returned; nothing else in the mesh changes. -/
theorem createCell_classifies [Inhabited R] (m : Mesh P R) (nodes : List Nat) (marker : Int)
    (shape : CellShape) (h : cellTable nodes.length m.dimension_ = some shape) :
    createCell m nodes marker =
      (some m.cellCount,
       { m with cellVector_ := m.cellVector_ ++
          [{ shape := shape, nodes := nodes, marker := marker, id := (m.cellCount : Int),
             attribute_ := default }] }) := by
  unfold createCell
  unfold cellTable at h
  split <;> (try split) <;> (try simp [*] at h) <;> (try simp_all [createCell_, cellCount])

/-- Witness of C1: three nodes in dimension 2 give a `Triangle` with marker 7
and id 0. -/
theorem createCell_classifies_witness :
    cellTable [0, 1, 2].length (threeNodes 2 0 0 0).dimension_ = some CellShape.Triangle ∧
    createCell (threeNodes 2 0 0 0) [0, 1, 2] 7 =
      (some 0,
       { threeNodes 2 0 0 0 with cellVector_ :=
          [{ shape := .Triangle, nodes := [0, 1, 2], marker := 7, id := 0, attribute_ := default }] }) :=
  ⟨by decide, createCell_classifies (threeNodes 2 0 0 0) [0, 1, 2] 7 .Triangle (by decide)⟩

/-- Counterexample to C2: three nodes in a mesh of dimension 3 are a combination
outside the table; `createCell` returns to its caller, with the null pointer and
the mesh as it was, and so does `createBoundary` for five nodes. -/
theorem unmapped_call_returns :
    createCell (threeNodes 3 0 0 0) [0, 1, 2] 7 = (none, threeNodes 3 0 0 0) ∧
    createBoundary pushBoundary (threeNodes 3 0 0 0) [0, 1, 2, 0, 1] 7 =
      (none, threeNodes 3 0 0 0) := by
  constructor <;> rfl

/-- C2, amended: for every `(pointCount, dimension)` pair outside the table of
`createCell`, and for every point count other than 1, 2, 3, 4, 6, 8 handed to
`createBoundary`, the call returns the null pointer to its caller and leaves the
mesh unchanged: no entity is created and the call does not end in a failure. -/
theorem unmapped_returns_null [Inhabited R] (createBoundaryChecked_ : BoundaryCreator P R)
    (m : Mesh P R) (nodes : List Nat) (marker : Int) :
    (cellTable nodes.length m.dimension_ = none → createCell m nodes marker = (none, m)) ∧
    (nodes.length ∉ [1, 2, 3, 4, 6, 8] →
      createBoundary createBoundaryChecked_ m nodes marker = (none, m)) := by
  constructor
  · intro h
    unfold createCell
    unfold cellTable at h
    split <;> (try split) <;> (try simp [*] at h) <;> (try simp_all [createCell_, cellCount])
  · intro h
    unfold createBoundary
    split <;> simp_all

/-- Witness of the amended C2: one node and seven nodes in dimension 2. -/
theorem unmapped_returns_null_witness :
    createCell (threeNodes 2 0 0 0) [0] 7 = (none, threeNodes 2 0 0 0) ∧
    createBoundary pushBoundary (threeNodes 2 0 0 0) [0, 1, 2, 0, 1, 2, 0] 7 =
      (none, threeNodes 2 0 0 0) :=
  ⟨(unmapped_returns_null pushBoundary (threeNodes 2 0 0 0) [0] 7).1 (by decide),
   (unmapped_returns_null pushBoundary (threeNodes 2 0 0 0) [0, 1, 2, 0, 1, 2, 0] 7).2
     (by decide)⟩

/-- Counterexample to C3: in a mesh of dimension 1, which is below 3, a list of
three nodes is classified as the face of a solid, `TriangleFace`. -/
theorem three_nodes_in_dimension_one :
    (createBoundary pushBoundary (threeNodes 1 0 0 0) [0, 1, 2] 7).2.boundaryVector_ =
      [{ shape := .TriangleFace, nodes := [0, 1, 2], marker := 7, id := 0 }] := by
  rfl

/-- C3, amended: `createBoundary` selects the class by the point count, 1 ->
`NodeBoundary`, 2 -> `Edge`, 4 -> `QuadrangleFace`, 6 -> `Triangle6Face`, 8 ->
`Quadrangle8Face`, and for three points `Edge3` in dimension 2 and
`TriangleFace` in every other dimension: it hands the nodes and the marker to
`createBoundaryChecked_` of that class and returns what that returns. -/
theorem createBoundary_classifies (createBoundaryChecked_ : BoundaryCreator P R)
    (m : Mesh P R) (nodes : List Nat) (marker : Int) (shape : BoundaryShape)
    (h : boundaryTable nodes.length m.dimension_ = some shape) :
    createBoundary createBoundaryChecked_ m nodes marker =
      createBoundaryChecked_ shape m nodes marker := by
  unfold createBoundary
  unfold boundaryTable at h
  split <;> (try split) <;> (try simp [*] at h) <;> (try simp_all)

/-- Witness of the amended C3: three nodes in dimension 2 give an `Edge3`. -/
theorem createBoundary_classifies_witness :
    boundaryTable [0, 1, 2].length (threeNodes 2 0 0 0).dimension_ = some BoundaryShape.Edge3 ∧
    createBoundary pushBoundary (threeNodes 2 0 0 0) [0, 1, 2] 7 =
      pushBoundary .Edge3 (threeNodes 2 0 0 0) [0, 1, 2] 7 :=
  ⟨by decide, createBoundary_classifies pushBoundary (threeNodes 2 0 0 0) [0, 1, 2] 7 .Edge3
    (by decide)⟩

/-! ## Sequential ids of nodes -/

theorem createNode_eq (m : Mesh P R) (pos : P) (marker : Int) :
    createNode m pos marker =
      (m.nodeCount,
       { m with nodeVector_ := m.nodeVector_ ++
          [{ pos := pos, marker := marker, id := (m.nodeCount : Int) }] }) := by
  simp [createNode, createNode_, nodeCount]

theorem idsAreIndices_of_nodeVector_eq {m m1 : Mesh P R} (h : m1.nodeVector_ = m.nodeVector_)
    (hm : IdsAreIndices m) : IdsAreIndices m1 := by
  unfold IdsAreIndices at *
  rw [h]
  exact hm

theorem idsAreIndices_of_append {m m1 : Mesh P R} (pos : P) (marker : Int)
    (h : m1.nodeVector_ = m.nodeVector_ ++
      [{ pos := pos, marker := marker, id := (m.nodeVector_.length : Int) }])
    (hm : IdsAreIndices m) : IdsAreIndices m1 := by
  unfold IdsAreIndices at *
  rw [h]
  intro i n hin
  rcases Nat.lt_or_ge i m.nodeVector_.length with hlt | hge
  · rw [List.getElem?_append_left hlt] at hin
    exact hm i n hin
  · rw [List.getElem?_append_right hge] at hin
    rcases Nat.eq_or_lt_of_le hge with heq | hgt
    · subst heq
      simp at hin
      subst hin
      rfl
    · have : i - m.nodeVector_.length ≠ 0 := by omega
      obtain ⟨k, hk⟩ := Nat.exists_eq_succ_of_ne_zero this
      rw [hk] at hin
      simp at hin

theorem fillKDTree_nodeVector (m : Mesh P R) :
    (fillKDTree_ m).2.nodeVector_ = m.nodeVector_ := by
  unfold fillKDTree_
  simp only
  split <;> (try split) <;> rfl

theorem createNodeWithCheck_nodeVector (ext : Externals P R) (m : Mesh P R) (pos : P) (tol : R) :
    (createNodeWithCheck ext m pos tol).2.nodeVector_ = m.nodeVector_ ∨
    (createNodeWithCheck ext m pos tol).2.nodeVector_ = m.nodeVector_ ++
      [{ pos := pos, marker := ext.defaultMarker, id := (m.nodeVector_.length : Int) }] := by
  have hfill := fillKDTree_nodeVector m
  unfold createNodeWithCheck
  rcases hf : fillKDTree_ m with ⟨res, m1⟩
  rw [hf] at hfill
  simp only at hfill
  cases res with
  | error e => left; simpa using hfill
  | ok u =>
    simp only
    split
    · right; simp [createNode_eq, hfill, nodeCount]
    · split
      · left; exact hfill
      · split
        · left; exact hfill
        · right; simp [createNode_eq, hfill, nodeCount]

theorem idsAreIndices_runNodeCall (ext : Externals P R) (m : Mesh P R) (c : NodeCall P R)
    (hm : IdsAreIndices m) : IdsAreIndices (runNodeCall ext m c) := by
  cases c with
  | createNode pos marker =>
    refine idsAreIndices_of_append pos marker ?_ hm
    simp [runNodeCall, createNode_eq, nodeCount]
  | createNodeWithCheck pos tol =>
    rcases createNodeWithCheck_nodeVector ext m pos tol with h | h
    · exact idsAreIndices_of_nodeVector_eq h hm
    · exact idsAreIndices_of_append pos ext.defaultMarker h hm

theorem idsAreIndices_runNodeCalls (ext : Externals P R) (calls : List (NodeCall P R)) :
    ∀ m : Mesh P R, IdsAreIndices m → IdsAreIndices (runNodeCalls ext m calls) := by
  induction calls with
  | nil => intro m hm; exact hm
  | cons c cs ih =>
    intro m hm
    exact ih _ (idsAreIndices_runNodeCall ext m c hm)

theorem idsAreIndices_of_nil {m : Mesh P R} (h : m.nodeVector_ = []) : IdsAreIndices m := by
  intro i n hin
  rw [h] at hin
  simp at hin

/-- C4: after any sequence of `createNode` and `createNodeWithCheck` calls on a
cleared mesh or on a new mesh, the node stored at index `i` has id `i`. One call
of `createNode` returns the pointer to a node with id `nodeCount` (the count
before the call) holding the given position and marker, raises `nodeCount` by
one and leaves the nodes stored before as they were. -/
theorem node_ids_are_indices (ext : Externals P R) (m : Mesh P R) (dim : Nat)
    (calls : List (NodeCall P R)) (pos : P) (marker : Int) :
    IdsAreIndices (runNodeCalls ext (clear m) calls) ∧
    IdsAreIndices (runNodeCalls ext (Mesh.new dim : Mesh P R) calls) ∧
    (createNode m pos marker).2.nodeVector_[(createNode m pos marker).1]? =
      some { pos := pos, marker := marker, id := (m.nodeCount : Int) } ∧
    (createNode m pos marker).2.nodeCount = m.nodeCount + 1 ∧
    (createNode m pos marker).2.nodeVector_.take m.nodeCount = m.nodeVector_ := by
  refine ⟨idsAreIndices_runNodeCalls ext calls _ (idsAreIndices_of_nil rfl),
    idsAreIndices_runNodeCalls ext calls _ (idsAreIndices_of_nil rfl), ?_, ?_, ?_⟩
  · simp [createNode_eq, nodeCount]
  · simp [createNode_eq, nodeCount]
  · simp [createNode_eq, nodeCount]

/-! ## Bounds checks of the accessors -/

theorem countMinusOne_zero (w : Nat) : countMinusOne w 0 = 2 ^ w - 1 := by
  have hp : 0 < 2 ^ w := Nat.two_pow_pos w
  unfold countMinusOne
  rw [Nat.zero_add]
  exact Nat.mod_eq_of_lt (by omega)

theorem countMinusOne_pos {w n : Nat} (h0 : 0 < n) (h : n < 2 ^ w) :
    countMinusOne w n = n - 1 := by
  unfold countMinusOne
  have h1 : n + 2 ^ w - 1 = (n - 1) + 2 ^ w := by omega
  rw [h1, Nat.add_mod_right]
  exact Nat.mod_eq_of_lt (by omega)

/-- C5, the accessors on every input: with an empty vector no index `i` of the
counter type ends in the fatal error, the unchecked element access is reached
instead; with a non-empty vector an index at or above the count ends in
`exit` and an index below it yields the stored entity. -/
theorem accessors_bounds_check (w : Nat) (m : Mesh P R) (i : Nat) (hi : i < 2 ^ w)
    (hn : m.nodeCount < 2 ^ w) (hc : m.cellCount < 2 ^ w) (hb : m.boundaryCount < 2 ^ w) :
    node w m i =
      (if m.nodeCount = 0 then .error .outOfRange
       else match m.nodeVector_[i]? with
        | some n => .ok n
        | none => .error (.exit .EXIT_MESH_NO_NODE)) ∧
    cell w m i =
      (if m.cellCount = 0 then .error .outOfRange
       else match m.cellVector_[i]? with
        | some c => .ok c
        | none => .error (.exit .EXIT_MESH_NO_CELL)) ∧
    boundary w m i =
      (if m.boundaryCount = 0 then .error .outOfRange
       else match m.boundaryVector_[i]? with
        | some b => .ok b
        | none => .error (.exit .EXIT_MESH_NO_BOUNDARY)) := by
  refine ⟨?_, ?_, ?_⟩
  · unfold node
    by_cases h0 : m.nodeCount = 0
    · have hnil : m.nodeVector_ = [] := List.length_eq_zero.mp h0
      rw [h0, countMinusOne_zero, if_neg (by omega), if_pos rfl, hnil]
      rfl
    · rw [countMinusOne_pos (Nat.pos_of_ne_zero h0) hn, if_neg h0]
      have hlen : m.nodeCount = m.nodeVector_.length := rfl
      by_cases hlt : i < m.nodeVector_.length
      · rw [if_neg (by omega), List.getElem?_eq_getElem hlt]
      · rw [if_pos (by omega), List.getElem?_eq_none (by omega)]
  · unfold cell
    by_cases h0 : m.cellCount = 0
    · have hnil : m.cellVector_ = [] := List.length_eq_zero.mp h0
      rw [h0, countMinusOne_zero, if_neg (by omega), if_pos rfl, hnil]
      rfl
    · rw [countMinusOne_pos (Nat.pos_of_ne_zero h0) hc, if_neg h0]
      have hlen : m.cellCount = m.cellVector_.length := rfl
      by_cases hlt : i < m.cellVector_.length
      · rw [if_neg (by omega), List.getElem?_eq_getElem hlt]
      · rw [if_pos (by omega), List.getElem?_eq_none (by omega)]
  · unfold boundary
    by_cases h0 : m.boundaryCount = 0
    · have hnil : m.boundaryVector_ = [] := List.length_eq_zero.mp h0
      rw [h0, countMinusOne_zero, if_neg (by omega), if_pos rfl, hnil]
      rfl
    · rw [countMinusOne_pos (Nat.pos_of_ne_zero h0) hb, if_neg h0]
      have hlen : m.boundaryCount = m.boundaryVector_.length := rfl
      by_cases hlt : i < m.boundaryVector_.length
      · rw [if_neg (by omega), List.getElem?_eq_getElem hlt]
      · rw [if_pos (by omega), List.getElem?_eq_none (by omega)]

/-- C5 at the failing input: in a mesh without entities, `node(0)`, `cell(0)`
and `boundary(0)` (32-bit counters) pass the bounds check and reach the
unchecked element access; none of them ends in `exit`. -/
theorem accessors_on_empty_mesh :
    node 32 (Mesh.new 3 : Mesh Int Int) 0 = .error .outOfRange ∧
    cell 32 (Mesh.new 3 : Mesh Int Int) 0 = .error .outOfRange ∧
    boundary 32 (Mesh.new 3 : Mesh Int Int) 0 = .error .outOfRange :=
  accessors_bounds_check 32 (Mesh.new 3) 0 (by decide) (by decide) (by decide) (by decide)

/-! ## Cell attributes -/

theorem cell_of_append (w : Nat) (m : Mesh P R) (pre rest : List (Cell R)) (c : Cell R)
    (hcells : m.cellVector_ = pre ++ c :: rest) (hfit : m.cellCount < 2 ^ w) :
    cell w m pre.length = .ok c := by
  have hlen : m.cellCount = pre.length + (rest.length + 1) := by
    simp [cellCount, hcells]
  unfold cell
  rw [countMinusOne_pos (by omega) hfit, if_neg (by omega), hcells,
    List.getElem?_append_right (Nat.le_refl _)]
  simp

theorem setCellAttributesFrom_eq (w : Nat) (rest : List (Cell R)) :
    ∀ (m : Mesh P R) (pre : List (Cell R)) (vpre vrest : List R),
      m.cellVector_ = pre ++ rest → m.cellCount < 2 ^ w → vpre.length = pre.length →
      vrest.length = rest.length →
      setCellAttributesFrom w (vpre ++ vrest) rest.length pre.length m =
        (.ok (), { m with cellVector_ :=
          pre ++ List.zipWith (fun c a => { c with attribute_ := a }) rest vrest }) := by
  induction rest with
  | nil =>
    intro m pre vpre vrest hcells _ _ _
    simp [setCellAttributesFrom, ← hcells]
  | cons c rest ih =>
    intro m pre vpre vrest hcells hfit hvpre hvrest
    cases vrest with
    | nil => simp at hvrest
    | cons a vrest =>
      have hcell := cell_of_append w m pre rest c hcells hfit
      have hattr : (vpre ++ a :: vrest)[pre.length]? = some a := by
        rw [← hvpre, List.getElem?_append_right (Nat.le_refl _)]; simp
      simp only [List.length_cons, setCellAttributesFrom, hcell, hattr]
      have hset : m.cellVector_.set pre.length { c with attribute_ := a } =
          (pre ++ [{ c with attribute_ := a }]) ++ rest := by
        rw [hcells]; simp
      have hstep := ih { m with cellVector_ := m.cellVector_.set pre.length { c with attribute_ := a } }
        (pre ++ [{ c with attribute_ := a }]) (vpre ++ [a]) vrest hset
        (by simpa [cellCount] using hfit) (by simp [hvpre]) (by simpa using hvrest)
      simp only [List.length_append, List.length_singleton, List.append_assoc,
        List.singleton_append] at hstep
      rw [hstep]
      simp

theorem setCellAttributes_eq (w : Nat) (m : Mesh P R) (v : List R) (hfit : m.cellCount < 2 ^ w)
    (hlen : v.length = m.cellCount) :
    setCellAttributes w m v =
      (.ok (),
       { m with cellVector_ :=
                  List.zipWith (fun c a => { c with attribute_ := a }) m.cellVector_ v }) := by
  unfold setCellAttributes
  rw [if_neg (by simp [hlen])]
  have h := setCellAttributesFrom_eq w m.cellVector_ m [] [] v rfl hfit rfl hlen
  simpa [cellCount] using h

theorem zipWith_attribute_map (cells : List (Cell R)) :
    ∀ v : List R, v.length = cells.length →
      (List.zipWith (fun c a => ({ c with attribute_ := a } : Cell R)) cells v).map
        (fun c => c.attribute_) = v := by
  induction cells with
  | nil => intro v hv; simp at hv; simp [hv]
  | cons c cells ih =>
    intro v hv
    cases v with
    | nil => simp at hv
    | cons a v => simp [ih v (by simpa using hv)]

theorem zipWith_attribute_keep {β : Type} (f : Cell R → β)
    (hf : ∀ (c : Cell R) (a : R), f { c with attribute_ := a } = f c) (cells : List (Cell R)) :
    ∀ v : List R, v.length = cells.length →
      (List.zipWith (fun c a => ({ c with attribute_ := a } : Cell R)) cells v).map f =
        cells.map f := by
  induction cells with
  | nil => intro v hv; simp
  | cons c cells ih =>
    intro v hv
    cases v with
    | nil => simp at hv
    | cons a v => simp [ih v (by simpa using hv), hf]

/-- C6: for a value vector `v` as long as the cell vector, `setCellAttributes(v)`
returns normally and `cellAttributes()` then yields `v`, element for element;
the markers, ids, nodes and classes of the cells, the nodes and the boundaries
of the mesh are as before (the cell count fits the counter type). -/
theorem setCellAttributes_roundtrip (w : Nat) (m : Mesh P R) (v : List R)
    (hfit : m.cellCount < 2 ^ w) (hlen : v.length = m.cellCount) :
    (setCellAttributes w m v).1 = .ok () ∧
    cellAttributes (setCellAttributes w m v).2 = v ∧
    cellMarker (setCellAttributes w m v).2 = cellMarker m ∧
    (setCellAttributes w m v).2.cellVector_.map (fun c => (c.shape, c.nodes, c.id)) =
      m.cellVector_.map (fun c => (c.shape, c.nodes, c.id)) ∧
    (setCellAttributes w m v).2.nodeVector_ = m.nodeVector_ ∧
    (setCellAttributes w m v).2.boundaryVector_ = m.boundaryVector_ := by
  rw [setCellAttributes_eq w m v hfit hlen]
  refine ⟨rfl, ?_, ?_, ?_, rfl, rfl⟩
  · exact zipWith_attribute_map m.cellVector_ v hlen
  · exact zipWith_attribute_keep (fun c => c.marker) (fun _ _ => rfl) m.cellVector_ v hlen
  · exact zipWith_attribute_keep (fun c => (c.shape, c.nodes, c.id)) (fun _ _ => rfl)
      m.cellVector_ v hlen

/-- C7: for a value vector whose length differs from the cell count,
`setCellAttributes` ends in the error raised by `throwError` and leaves the mesh,
and with it the attribute of every cell, as it was. -/
theorem setCellAttributes_mismatch (w : Nat) (m : Mesh P R) (v : List R)
    (hlen : v.length ≠ m.cellCount) :
    (setCellAttributes w m v).1 = .error (.throwError 1) ∧
    cellAttributes (setCellAttributes w m v).2 = cellAttributes m ∧
    (setCellAttributes w m v).2 = m := by
  unfold setCellAttributes
  rw [if_pos hlen]
  exact ⟨rfl, rfl, rfl⟩

/-- Witness of C6: one triangle, attribute vector `[5]`. -/
theorem setCellAttributes_roundtrip_witness :
    (oneTriangle 0 0 0 7).cellCount < 2 ^ 32 ∧ [(5 : Int)].length = (oneTriangle 0 0 0 7).cellCount ∧
    cellAttributes (setCellAttributes 32 (oneTriangle 0 0 0 7) [5]).2 = [5] ∧
    cellMarker (setCellAttributes 32 (oneTriangle 0 0 0 7) [5]).2 = [7] :=
  ⟨by decide, by decide,
   (setCellAttributes_roundtrip 32 (oneTriangle 0 0 0 7) [5] (by decide) (by decide)).2.1,
   (setCellAttributes_roundtrip 32 (oneTriangle 0 0 0 7) [5] (by decide) (by decide)).2.2.1⟩

/-- Witness of C7: one triangle, attribute vector `[5, 6]`. -/
theorem setCellAttributes_mismatch_witness :
    [(5 : Int), 6].length ≠ (oneTriangle 0 0 0 7).cellCount ∧
    (setCellAttributes 32 (oneTriangle 0 0 0 7) [5, 6]).1 = .error (.throwError 1) ∧
    cellAttributes (setCellAttributes 32 (oneTriangle 0 0 0 7) [5, 6]).2 = [0] :=
  ⟨by decide,
   (setCellAttributes_mismatch 32 (oneTriangle 0 0 0 7) [5, 6] (by decide)).1,
   (setCellAttributes_mismatch 32 (oneTriangle 0 0 0 7) [5, 6] (by decide)).2.1⟩

/-! ## Refinement nodes -/

theorem createRefinementNode_of_some [Add P] [HDiv P R P] [OfNat R 2] (m : Mesh P R)
    (a b : NodeRef P) (M : NodeMatrix) (n : Nat) (h : M (a.node.id, b.node.id) = some n) :
    createRefinementNode_ m a b M = (n, m, M) := by
  unfold createRefinementNode_
  rw [h]

theorem createRefinementNode_of_none [Add P] [HDiv P R P] [OfNat R 2] (m : Mesh P R)
    (a b : NodeRef P) (M : NodeMatrix) (hab : a.ptr ≠ b.ptr)
    (h : M (a.node.id, b.node.id) = none) :
    createRefinementNode_ m a b M =
      (m.nodeCount,
       { m with nodeVector_ := m.nodeVector_ ++
          [{ pos := (a.node.pos + b.node.pos) / (2 : R), marker := markerT a.node b.node,
             id := (m.nodeCount : Int) }] },
       Function.update (Function.update M (a.node.id, b.node.id) (some m.nodeCount))
         (b.node.id, a.node.id) (some m.nodeCount)) := by
  unfold createRefinementNode_
  rw [h]
  simp only [if_neg hab, createNode_eq]

theorem symmetricMatrix_createRefinementNode [Add P] [HDiv P R P] [OfNat R 2] (m : Mesh P R)
    (a b : NodeRef P) (M : NodeMatrix) (hM : SymmetricMatrix M) :
    SymmetricMatrix (createRefinementNode_ m a b M).2.2 := by
  unfold createRefinementNode_
  split
  · exact hM
  · split
    · intro i j
      simp only [Function.update_apply, Prod.mk.injEq]
      split_ifs <;> first | rfl | exact hM _ _ | (exfalso; tauto)
    · intro i j
      simp only [Function.update_apply, Prod.mk.injEq]
      split_ifs <;> first | rfl | exact hM _ _ | (exfalso; tauto)

/-- Counterexample to C8: a state of the map that holds the pair under one
ordering only. The request for nodes 0 and 1 returns the registered node 2, the
request in swapped order right after it creates and returns node 3. -/
theorem asymmetric_map_two_points :
    (createRefinementNode_ (threeNodes 2 0 0 0) (ownRef 0 { pos := 0, marker := 0, id := 0 })
      (ownRef 1 { pos := 10, marker := 0, id := 1 })
      (Function.update emptyMatrix (0, 1) (some 2))).1 = 2 ∧
    (createRefinementNode_ (threeNodes 2 0 0 0) (ownRef 0 { pos := 0, marker := 0, id := 0 })
      (ownRef 1 { pos := 10, marker := 0, id := 1 })
      (Function.update emptyMatrix (0, 1) (some 2))).2.1 = threeNodes 2 0 0 0 ∧
    (createRefinementNode_ (threeNodes 2 0 0 0) (ownRef 1 { pos := 10, marker := 0, id := 1 })
      (ownRef 0 { pos := 0, marker := 0, id := 0 })
      (Function.update emptyMatrix (0, 1) (some 2))).1 = 3 := by
  refine ⟨?_, ?_, ?_⟩ <;> decide

/-- C8, amended: for two distinct nodes `a`, `b` and every state of the map that
holds the same entry under both orderings of their key (as every map built from
the empty map by `createRefinementNode_` does), a second request for the
midpoint, in the same or in the swapped order, returns the identical node as
the first and adds no node; after the first request the node is registered
under both orderings; the first request adds exactly one node, appended with the
next index, if the pair was not registered, and none if it was; a map that is
symmetric in all its keys stays so. -/
theorem midpoint_request_twice [Add P] [HDiv P R P] [OfNat R 2] (m : Mesh P R)
    (a b : NodeRef P) (M : NodeMatrix) (hab : a.ptr ≠ b.ptr)
    (hsym : M (a.node.id, b.node.id) = M (b.node.id, a.node.id)) :
    let r1 := createRefinementNode_ m a b M
    let again := createRefinementNode_ r1.2.1 a b r1.2.2
    let swapped := createRefinementNode_ r1.2.1 b a r1.2.2
    again.1 = r1.1 ∧ swapped.1 = r1.1 ∧
    again.2.1 = r1.2.1 ∧ swapped.2.1 = r1.2.1 ∧
    r1.2.2 (a.node.id, b.node.id) = some r1.1 ∧ r1.2.2 (b.node.id, a.node.id) = some r1.1 ∧
    (M (a.node.id, b.node.id) = none →
      r1.1 = m.nodeCount ∧ r1.2.1.nodeCount = m.nodeCount + 1 ∧
      r1.2.1.nodeVector_.take m.nodeCount = m.nodeVector_) ∧
    (M (a.node.id, b.node.id) ≠ none → r1.2.1 = m) ∧
    (SymmetricMatrix M → SymmetricMatrix r1.2.2) := by
  intro r1 again swapped
  have key : r1.2.2 (a.node.id, b.node.id) = some r1.1 ∧
      r1.2.2 (b.node.id, a.node.id) = some r1.1 := by
    cases h : M (a.node.id, b.node.id) with
    | none =>
      have hr1 : r1 = _ := createRefinementNode_of_none m a b M hab h
      rw [hr1]
      simp only [Function.update_apply, Prod.mk.injEq]
      constructor
      · split_ifs <;> rfl
      · simp
    | some n =>
      have hr1 : r1 = _ := createRefinementNode_of_some m a b M n h
      rw [hr1]
      exact ⟨h, hsym.symm.trans h⟩
  have hagain : again = (r1.1, r1.2.1, r1.2.2) :=
    createRefinementNode_of_some r1.2.1 a b r1.2.2 r1.1 key.1
  have hswapped : swapped = (r1.1, r1.2.1, r1.2.2) :=
    createRefinementNode_of_some r1.2.1 b a r1.2.2 r1.1 key.2
  rw [hagain, hswapped]
  refine ⟨rfl, rfl, rfl, rfl, key.1, key.2, ?_, ?_, ?_⟩
  · intro h
    have hr1 : r1 = _ := createRefinementNode_of_none m a b M hab h
    rw [hr1]
    simp [nodeCount]
  · intro h
    cases h1 : M (a.node.id, b.node.id) with
    | none => exact absurd h1 h
    | some n =>
      have hr1 : r1 = _ := createRefinementNode_of_some m a b M n h1
      rw [hr1]
  · exact symmetricMatrix_createRefinementNode m a b M

/-- Witness of the amended C8: nodes 0 and 1 of a mesh of three nodes and the
empty map; both requests return the new node 3. -/
theorem midpoint_request_twice_witness :
    (ownRef 0 { pos := 0, marker := 0, id := 0 }).ptr ≠
      (ownRef 1 { pos := 10, marker := 0, id := 1 }).ptr ∧
    emptyMatrix (0, 1) = emptyMatrix (1, 0) ∧
    (createRefinementNode_
      (createRefinementNode_ (threeNodes 2 0 0 0) (ownRef 0 { pos := 0, marker := 0, id := 0 })
        (ownRef 1 { pos := 10, marker := 0, id := 1 }) emptyMatrix).2.1
      (ownRef 1 { pos := 10, marker := 0, id := 1 }) (ownRef 0 { pos := 0, marker := 0, id := 0 })
      (createRefinementNode_ (threeNodes 2 0 0 0) (ownRef 0 { pos := 0, marker := 0, id := 0 })
        (ownRef 1 { pos := 10, marker := 0, id := 1 }) emptyMatrix).2.2).1 =
    (createRefinementNode_ (threeNodes 2 0 0 0) (ownRef 0 { pos := 0, marker := 0, id := 0 })
        (ownRef 1 { pos := 10, marker := 0, id := 1 }) emptyMatrix).1 :=
  ⟨by decide, rfl,
   (midpoint_request_twice (threeNodes 2 0 0 0) (ownRef 0 { pos := 0, marker := 0, id := 0 })
      (ownRef 1 { pos := 10, marker := 0, id := 1 }) emptyMatrix (by decide) rfl).2.1⟩

/-- C9: for two distinct nodes whose markers `m0`, `m1` both differ from the
sentinel -99 and whose pair is not registered yet, the node that
`createRefinementNode_` creates between them has marker `m0` if `m0 == m1` and
marker 0 otherwise (and so has `markerT`). -/
theorem midpoint_marker_without_sentinel [Add P] [HDiv P R P] [OfNat R 2] (m : Mesh P R)
    (a b : NodeRef P) (M : NodeMatrix) (hab : a.ptr ≠ b.ptr)
    (hnew : M (a.node.id, b.node.id) = none)
    (h0 : a.node.marker ≠ -99) (h1 : b.node.marker ≠ -99) :
    markerT a.node b.node = (if a.node.marker = b.node.marker then a.node.marker else 0) ∧
    (createRefinementNode_ m a b M).2.1.nodeVector_[(createRefinementNode_ m a b M).1]? =
      some { pos := (a.node.pos + b.node.pos) / (2 : R),
             marker := if a.node.marker = b.node.marker then a.node.marker else 0,
             id := (m.nodeCount : Int) } := by
  have hm : markerT a.node b.node =
      (if a.node.marker = b.node.marker then a.node.marker else 0) := by
    unfold markerT
    rw [if_neg (fun h => h0 h.1), if_neg h0, if_neg h1]
    split_ifs with h
    · exact h.symm
    · rfl
  refine ⟨hm, ?_⟩
  rw [createRefinementNode_of_none m a b M hab hnew, hm]
  simp [nodeCount]

/-- Witness of C9: markers 4 and 5 give marker 0. -/
theorem midpoint_marker_without_sentinel_witness :
    (ownRef 0 { pos := 0, marker := 4, id := 0 }).ptr ≠
      (ownRef 1 { pos := 10, marker := 5, id := 1 }).ptr ∧
    (4 : Int) ≠ -99 ∧ (5 : Int) ≠ -99 ∧
    markerT ({ pos := 0, marker := 4, id := 0 } : Node Int) { pos := 10, marker := 5, id := 1 } =
      0 :=
  ⟨by decide, by decide, by decide,
   (midpoint_marker_without_sentinel (threeNodes 2 4 5 0)
      (ownRef 0 { pos := 0, marker := 4, id := 0 }) (ownRef 1 { pos := 10, marker := 5, id := 1 })
      emptyMatrix (by decide) rfl (by decide) (by decide)).1⟩

/-- Counterexample to C10: one triangle of marker 5 over nodes of markers -99,
-99 and 3. Refinement (quadratic, and geometric as well) creates the three
midpoints with markers -1, 3 and 3: each pair of endpoints holds the sentinel,
and none of the midpoints has the marker 5 of the coarse cell. -/
theorem midpoints_of_marked_triangle :
    markersOf (createRefined_ 32 plainExternals noTables pushBoundary (Mesh.new 2)
      (oneTriangle (-99) (-99) 3 5) true false) = some ([-99, -99, 3, -1, 3, 3], [5]) ∧
    markersOf (createRefined_ 32 plainExternals noTables pushBoundary (Mesh.new 2)
      (oneTriangle (-99) (-99) 3 5) false true) =
        some ([-99, -99, 3, -1, 3, 3], [5, 5, 5, 5]) := by
  constructor <;> decide

/-- C10, amended: for two distinct nodes of which at least one carries the
sentinel marker -99 and whose pair is not registered yet, the node that
`createRefinementNode_` creates between them has marker -1 if both carry the
sentinel and the marker of the other node if exactly one does; the marker of the
coarse cell is no input of the creation. -/
theorem midpoint_marker_with_sentinel [Add P] [HDiv P R P] [OfNat R 2] (m : Mesh P R)
    (a b : NodeRef P) (M : NodeMatrix) (hab : a.ptr ≠ b.ptr)
    (hnew : M (a.node.id, b.node.id) = none)
    (h : a.node.marker = -99 ∨ b.node.marker = -99) :
    (createRefinementNode_ m a b M).2.1.nodeVector_[(createRefinementNode_ m a b M).1]? =
      some { pos := (a.node.pos + b.node.pos) / (2 : R),
             marker := if a.node.marker = -99 ∧ b.node.marker = -99 then -1
                       else if a.node.marker = -99 then b.node.marker else a.node.marker,
             id := (m.nodeCount : Int) } := by
  have hm : markerT a.node b.node =
      (if a.node.marker = -99 ∧ b.node.marker = -99 then -1
       else if a.node.marker = -99 then b.node.marker else a.node.marker) := by
    unfold markerT
    by_cases h0 : a.node.marker = -99
    · by_cases h1 : b.node.marker = -99
      · simp [h0, h1]
      · simp [h0, h1]
    · have h1 : b.node.marker = -99 := h.resolve_left h0
      simp [h0, h1]
  rw [createRefinementNode_of_none m a b M hab hnew, hm]
  simp [nodeCount]

/-- Witness of the amended C10: nodes of markers -99 and 3 in a mesh whose only
cell has marker 5; the node between them is node 3 and has marker 3. -/
theorem midpoint_marker_with_sentinel_witness :
    (ownRef 1 { pos := 10, marker := -99, id := 1 }).ptr ≠
      (ownRef 2 { pos := 1, marker := 3, id := 2 }).ptr ∧
    ((-99 : Int) = -99 ∨ (3 : Int) = -99) ∧
    (createRefinementNode_ (oneTriangle (-99) (-99) 3 5)
      (ownRef 1 { pos := 10, marker := -99, id := 1 }) (ownRef 2 { pos := 1, marker := 3, id := 2 })
      emptyMatrix).2.1.nodeVector_[3]? = some { pos := (10 + 1) / 2, marker := 3, id := 3 } :=
  ⟨by decide, Or.inl rfl,
   midpoint_marker_with_sentinel (oneTriangle (-99) (-99) 3 5)
      (ownRef 1 { pos := 10, marker := -99, id := 1 }) (ownRef 2 { pos := 1, marker := 3, id := 2 })
      emptyMatrix (by decide) rfl (Or.inl rfl)⟩

/-! ## Refinement keeps the nodes of the input -/

theorem holdsNodesOf_of_nodeVector_eq {mesh m m1 : Mesh P R}
    (h : m1.nodeVector_ = m.nodeVector_) (hm : HoldsNodesOf mesh m) : HoldsNodesOf mesh m1 := by
  obtain ⟨⟨l, hl⟩, hid⟩ := hm
  exact ⟨⟨l, by rw [h, hl]⟩, idsAreIndices_of_nodeVector_eq h hid⟩

theorem holdsNodesOf_createNode {mesh m : Mesh P R} (pos : P) (marker : Int)
    (hm : HoldsNodesOf mesh m) : HoldsNodesOf mesh (createNode m pos marker).2 := by
  obtain ⟨⟨l, hl⟩, hid⟩ := hm
  refine ⟨⟨l ++ [{ pos := pos, marker := marker, id := (m.nodeCount : Int) }], ?_⟩, ?_⟩
  · simp [createNode_eq, hl]
  · exact idsAreIndices_of_append pos marker (by simp [createNode_eq, nodeCount]) hid

theorem createRefinementNode_mesh [Add P] [HDiv P R P] [OfNat R 2] (m : Mesh P R)
    (a b : NodeRef P) (M : NodeMatrix) :
    (createRefinementNode_ m a b M).2.1 = m ∨
    ∃ pos marker, (createRefinementNode_ m a b M).2.1 = (createNode m pos marker).2 := by
  unfold createRefinementNode_
  split
  · left; rfl
  · split
    · right; exact ⟨_, _, rfl⟩
    · right; exact ⟨_, _, rfl⟩

theorem holdsNodesOf_createRefinementNode [Add P] [HDiv P R P] [OfNat R 2] {mesh m : Mesh P R}
    (a b : NodeRef P) (M : NodeMatrix) (hm : HoldsNodesOf mesh m) :
    HoldsNodesOf mesh (createRefinementNode_ m a b M).2.1 := by
  rcases createRefinementNode_mesh m a b M with h | ⟨pos, marker, h⟩
  · rw [h]; exact hm
  · rw [h]; exact holdsNodesOf_createNode pos marker hm

theorem holdsNodesOf_refinementNode [Add P] [HDiv P R P] [OfNat R 2] {mesh this : Mesh P R}
    {M : NodeMatrix} {n0 n1 : Nat} {r : Nat × Mesh P R × NodeMatrix}
    (h : refinementNode this M n0 n1 = .ok r) (hm : HoldsNodesOf mesh this) :
    HoldsNodesOf mesh r.2.1 := by
  unfold refinementNode at h
  split at h
  · cases h
    exact holdsNodesOf_createRefinementNode _ _ _ hm
  · cases h
  · cases h

theorem holdsNodesOf_splitNodes [Add P] [HDiv P R P] [OfNat R 2] (w : Nat) (mesh0 mesh : Mesh P R)
    (nodes : List Nat) (rows : List (Nat × Nat)) :
    ∀ (n : List Nat) (this : Mesh P R) (M : NodeMatrix) (r : List Nat × Mesh P R × NodeMatrix),
      splitNodes w mesh nodes rows n this M = .ok r → HoldsNodesOf mesh0 this →
      HoldsNodesOf mesh0 r.2.1 := by
  induction rows with
  | nil =>
    intro n this M r h hm
    simp only [splitNodes] at h
    cases h
    exact hm
  | cons row rows ih =>
    intro n this M r h hm
    obtain ⟨k0, k1⟩ := row
    simp only [splitNodes] at h
    split at h
    · split at h
      · rename_i hr
        exact ih _ _ _ r h (holdsNodesOf_refinementNode hr hm)
      · cases h
    · cases h
    · cases h

theorem createCell__nodeVector [Inhabited R] (shape : CellShape) (m : Mesh P R) (ns : List Nat)
    (marker id : Int) : (createCell_ shape m ns marker id).2.nodeVector_ = m.nodeVector_ := rfl

theorem createCell_nodeVector [Inhabited R] (m : Mesh P R) (ns : List Nat) (marker : Int) :
    (createCell m ns marker).2.nodeVector_ = m.nodeVector_ := by
  unfold createCell
  split <;> (try split) <;> rfl

theorem createCells__nodeVector [Inhabited R] (shape : CellShape) (marker : Int)
    (l : List (List Nat)) : ∀ m : Mesh P R,
    (createCells_ shape marker l m).nodeVector_ = m.nodeVector_ := by
  induction l with
  | nil => intro m; rfl
  | cons ns l ih => intro m; simp only [createCells_]; rw [ih]; rfl

theorem createCells_nodeVector [Inhabited R] (marker : Int)
    (l : List (List Nat)) : ∀ m : Mesh P R,
    (createCells marker l m).nodeVector_ = m.nodeVector_ := by
  induction l with
  | nil => intro m; rfl
  | cons ns l ih => intro m; simp only [createCells]; rw [ih, createCell_nodeVector]

theorem WhenOk.bind {α β : Type} {Q : α → Prop} {T : β → Prop} {x : Except Failure α}
    {f : α → Except Failure β} (hx : WhenOk Q x) (hf : ∀ a, Q a → WhenOk T (f a)) :
    WhenOk T (x >>= f) := by
  intro b hb
  cases x with
  | error e => cases hb
  | ok a => exact hf a (hx a rfl) b hb

theorem WhenOk.bind_any {α β : Type} {T : β → Prop} {x : Except Failure α}
    {f : α → Except Failure β} (hf : ∀ a, WhenOk T (f a)) : WhenOk T (x >>= f) :=
  WhenOk.bind (Q := fun _ => True) (fun _ _ => trivial) (fun a _ => hf a)

theorem WhenOk.pure {α : Type} {Q : α → Prop} {a : α} (h : Q a) :
    WhenOk Q (Pure.pure a : Except Failure α) := by
  intro b hb
  cases hb
  exact h

theorem WhenOk.throw {α : Type} {Q : α → Prop} {e : Failure} :
    WhenOk Q (throw e : Except Failure α) := by
  intro b hb
  cases hb

theorem whenOk_refinementNode [Add P] [HDiv P R P] [OfNat R 2] {mesh0 this : Mesh P R}
    {M : NodeMatrix} {n0 n1 : Nat} {β : Type} {Q : β → Prop}
    {f : Nat × Mesh P R × NodeMatrix → Except Failure β} (hm : HoldsNodesOf mesh0 this)
    (hf : ∀ n t M1, HoldsNodesOf mesh0 t → WhenOk Q (f (n, t, M1))) :
    WhenOk Q (refinementNode this M n0 n1 >>= f) :=
  WhenOk.bind (Q := fun r => HoldsNodesOf mesh0 r.2.1)
    (fun _ h => holdsNodesOf_refinementNode h hm) (fun r hr => hf r.1 r.2.1 r.2.2 hr)

theorem whenOk_splitNodes [Add P] [HDiv P R P] [OfNat R 2] {w : Nat} {mesh0 mesh this : Mesh P R}
    {nodes : List Nat} {rows : List (Nat × Nat)} {n : List Nat}
    {M : NodeMatrix} {β : Type} {Q : β → Prop}
    {f : List Nat × Mesh P R × NodeMatrix → Except Failure β} (hm : HoldsNodesOf mesh0 this)
    (hf : ∀ n t M1, HoldsNodesOf mesh0 t → WhenOk Q (f (n, t, M1))) :
    WhenOk Q (splitNodes w mesh nodes rows n this M >>= f) :=
  WhenOk.bind (Q := fun r => HoldsNodesOf mesh0 r.2.1)
    (fun r h => holdsNodesOf_splitNodes w mesh0 mesh nodes rows n this M r h hm)
    (fun r hr => hf r.1 r.2.1 r.2.2 hr)

theorem holdsNodesOf_refineCell [Add P] [HDiv P R P] [OfNat R 2] [Inhabited R] (w : Nat)
    (ext : Externals P R) (tables : SplitTables) (mesh0 mesh : Mesh P R) (h2 : Bool) (c : Cell R)
    (this : Mesh P R) (M : NodeMatrix) (hm : HoldsNodesOf mesh0 this) :
    WhenOk (fun r => HoldsNodesOf mesh0 r.2.1) (refineCell w ext tables mesh h2 c this M) := by
  unfold refineCell
  cases c.shape
  case EdgeCell =>
    dsimp only
    refine WhenOk.bind_any (fun a => ?_)
    refine WhenOk.bind_any (fun a => ?_)
    refine whenOk_refinementNode hm (fun n t M1 ht => ?_)
    refine WhenOk.pure ?_
    dsimp only
    split
    · exact holdsNodesOf_of_nodeVector_eq (createCells_nodeVector _ _ _) ht
    · exact ht
  case Triangle =>
    dsimp only
    refine WhenOk.bind_any (fun a => ?_)
    refine WhenOk.bind_any (fun a => ?_)
    refine WhenOk.bind_any (fun a => ?_)
    refine whenOk_refinementNode hm (fun n t M1 ht => ?_)
    refine whenOk_refinementNode ht (fun n t M1 ht => ?_)
    refine whenOk_refinementNode ht (fun n t M1 ht => ?_)
    refine WhenOk.pure ?_
    dsimp only
    split
    · exact holdsNodesOf_of_nodeVector_eq (createCells__nodeVector _ _ _ _) ht
    · exact ht
  case Quadrangle =>
    dsimp only
    refine WhenOk.bind_any (fun a => ?_)
    refine WhenOk.bind_any (fun a => ?_)
    refine WhenOk.bind_any (fun a => ?_)
    refine WhenOk.bind_any (fun a => ?_)
    refine whenOk_refinementNode hm (fun n t M1 ht => ?_)
    refine whenOk_refinementNode ht (fun n t M1 ht => ?_)
    refine whenOk_refinementNode ht (fun n t M1 ht => ?_)
    refine whenOk_refinementNode ht (fun n t M1 ht => ?_)
    refine WhenOk.pure ?_
    dsimp only
    split
    · exact holdsNodesOf_of_nodeVector_eq (createCells__nodeVector _ _ _ _)
        (holdsNodesOf_createNode _ _ ht)
    · exact ht
  case Tetrahedron =>
    dsimp only
    split
    · refine WhenOk.bind_any (fun rows => ?_)
      refine whenOk_splitNodes hm (fun n t M1 ht => ?_)
      refine WhenOk.pure ?_
      dsimp only
      split
      · exact holdsNodesOf_of_nodeVector_eq (createCells__nodeVector _ _ _ _) ht
      · exact ht
    · refine WhenOk.bind_any (fun rows => ?_)
      refine whenOk_splitNodes hm (fun n t M1 ht => ?_)
      dsimp only
      split
      · exact WhenOk.throw
      · exact WhenOk.pure ht
  case Hexahedron =>
    dsimp only
    refine WhenOk.bind_any (fun rows => ?_)
    refine whenOk_splitNodes hm (fun n t M1 ht => ?_)
    dsimp only
    split
    · refine whenOk_refinementNode ht (fun n t M1 ht => ?_)
      refine whenOk_refinementNode ht (fun n t M1 ht => ?_)
      refine whenOk_refinementNode ht (fun n t M1 ht => ?_)
      refine whenOk_refinementNode ht (fun n t M1 ht => ?_)
      refine whenOk_refinementNode ht (fun n t M1 ht => ?_)
      refine whenOk_refinementNode ht (fun n t M1 ht => ?_)
      refine whenOk_refinementNode ht (fun n t M1 ht => ?_)
      refine WhenOk.pure ?_
      exact holdsNodesOf_of_nodeVector_eq (createCells_nodeVector _ _ _) ht
    · exact WhenOk.pure ht
  case TriPrism =>
    dsimp only
    refine WhenOk.bind_any (fun rows => ?_)
    refine whenOk_splitNodes hm (fun n t M1 ht => ?_)
    dsimp only
    split
    · refine whenOk_refinementNode ht (fun n t M1 ht => ?_)
      refine whenOk_refinementNode ht (fun n t M1 ht => ?_)
      refine whenOk_refinementNode ht (fun n t M1 ht => ?_)
      refine WhenOk.pure ?_
      exact holdsNodesOf_of_nodeVector_eq (createCells_nodeVector _ _ _) ht
    · exact WhenOk.pure ht
  case Pyramid =>
    dsimp only
    refine WhenOk.bind_any (fun rows => ?_)
    refine whenOk_splitNodes hm (fun n t M1 ht => ?_)
    dsimp only
    split
    · exact WhenOk.throw
    · exact WhenOk.pure ht
  all_goals exact WhenOk.throw

theorem whenOk_refineCells [Add P] [HDiv P R P] [OfNat R 2] [Inhabited R] (w : Nat)
    (ext : Externals P R) (tables : SplitTables) (mesh0 mesh : Mesh P R) (p2 h2 : Bool)
    (l : List Nat) : ∀ (this : Mesh P R) (M : NodeMatrix), HoldsNodesOf mesh0 this →
      WhenOk (fun r => HoldsNodesOf mesh0 r.1) (refineCells w ext tables mesh p2 h2 l this M) := by
  induction l with
  | nil =>
    intro this M hm r hr
    simp only [refineCells] at hr
    cases hr
    exact hm
  | cons i l ih =>
    intro this M hm r hr
    simp only [refineCells] at hr
    split at hr
    · cases hr
    · split at hr
      · cases hr
      · have h1 := holdsNodesOf_refineCell w ext tables mesh0 mesh h2 _ this M hm _
          (by assumption)
        refine ih _ _ ?_ r hr
        split
        · exact holdsNodesOf_of_nodeVector_eq (createCell_nodeVector _ _ _) h1
        · exact h1

theorem createBoundary_nodeVector {cbc : BoundaryCreator P R} (hcbc : KeepsNodesAndCells cbc)
    (m : Mesh P R) (ns : List Nat) (marker : Int) :
    (createBoundary cbc m ns marker).2.nodeVector_ = m.nodeVector_ := by
  unfold createBoundary
  split <;> (try split) <;> first | exact (hcbc _ _ _ _).1 | rfl

theorem createBoundaries_nodeVector {cbc : BoundaryCreator P R} (hcbc : KeepsNodesAndCells cbc)
    (shape : BoundaryShape) (marker : Int) (l : List (List Nat)) :
    ∀ m : Mesh P R, (createBoundaries cbc shape marker l m).nodeVector_ = m.nodeVector_ := by
  induction l with
  | nil => intro m; rfl
  | cons ns l ih => intro m; simp only [createBoundaries]; rw [ih, (hcbc _ _ _ _).1]

theorem holdsNodesOf_boundaryNodes [Add P] [HDiv P R P] [OfNat R 2] (w : Nat)
    (mesh0 mesh : Mesh P R) (b : Boundary) (this : Mesh P R) (M : NodeMatrix)
    (hm : HoldsNodesOf mesh0 this) :
    WhenOk (fun r => HoldsNodesOf mesh0 r.2.1) (boundaryNodes w mesh b this M) := by
  unfold boundaryNodes
  cases b.shape
  case NodeBoundary =>
    dsimp only
    refine WhenOk.bind_any (fun a => ?_)
    exact WhenOk.pure hm
  case Edge =>
    dsimp only
    refine WhenOk.bind_any (fun a => ?_)
    refine WhenOk.bind_any (fun a => ?_)
    refine whenOk_refinementNode hm (fun n t M1 ht => ?_)
    exact WhenOk.pure ht
  case TriangleFace =>
    dsimp only
    refine WhenOk.bind_any (fun a => ?_)
    refine WhenOk.bind_any (fun a => ?_)
    refine WhenOk.bind_any (fun a => ?_)
    refine whenOk_refinementNode hm (fun n t M1 ht => ?_)
    refine whenOk_refinementNode ht (fun n t M1 ht => ?_)
    refine whenOk_refinementNode ht (fun n t M1 ht => ?_)
    exact WhenOk.pure ht
  case QuadrangleFace =>
    dsimp only
    refine WhenOk.bind_any (fun a => ?_)
    refine WhenOk.bind_any (fun a => ?_)
    refine WhenOk.bind_any (fun a => ?_)
    refine WhenOk.bind_any (fun a => ?_)
    refine whenOk_refinementNode hm (fun n t M1 ht => ?_)
    refine whenOk_refinementNode ht (fun n t M1 ht => ?_)
    refine whenOk_refinementNode ht (fun n t M1 ht => ?_)
    refine whenOk_refinementNode ht (fun n t M1 ht => ?_)
    exact WhenOk.pure ht
  all_goals exact WhenOk.throw

theorem holdsNodesOf_refineBoundary [Add P] [HDiv P R P] [OfNat R 2] (w : Nat)
    {cbc : BoundaryCreator P R} (hcbc : KeepsNodesAndCells cbc) (mesh0 mesh : Mesh P R)
    (p2 h2 : Bool) (b : Boundary) (this : Mesh P R) (M : NodeMatrix)
    (hm : HoldsNodesOf mesh0 this) :
    WhenOk (fun r => HoldsNodesOf mesh0 r.1) (refineBoundary w cbc mesh p2 h2 b this M) := by
  unfold refineBoundary
  refine WhenOk.bind (holdsNodesOf_boundaryNodes w mesh0 mesh b this M hm) (fun r hr => ?_)
  dsimp only
  split
  · exact WhenOk.pure (holdsNodesOf_of_nodeVector_eq (createBoundary_nodeVector hcbc _ _ _) hr)
  · split
    · exact WhenOk.pure (holdsNodesOf_of_nodeVector_eq (createBoundary_nodeVector hcbc _ _ _) hr)
    · exact WhenOk.pure
        (holdsNodesOf_of_nodeVector_eq (createBoundaries_nodeVector hcbc _ _ _ _) hr)
    · exact WhenOk.pure
        (holdsNodesOf_of_nodeVector_eq (createBoundaries_nodeVector hcbc _ _ _ _) hr)
    · refine WhenOk.bind_any (fun r4 => ?_)
      refine WhenOk.bind_any (fun r6 => ?_)
      split
      · refine WhenOk.bind (Q := fun (x : Nat × Mesh P R × NodeMatrix) =>
          HoldsNodesOf mesh0 x.2.1) (WhenOk.pure hr) (fun x hx => ?_)
        exact WhenOk.pure
          (holdsNodesOf_of_nodeVector_eq (createBoundaries_nodeVector hcbc _ _ _ _) hx)
      · refine whenOk_refinementNode hr (fun n t M1 ht => ?_)
        exact WhenOk.pure
          (holdsNodesOf_of_nodeVector_eq (createBoundaries_nodeVector hcbc _ _ _ _) ht)
    · exact WhenOk.pure hr

theorem whenOk_refineBoundaries [Add P] [HDiv P R P] [OfNat R 2] (w : Nat)
    {cbc : BoundaryCreator P R} (hcbc : KeepsNodesAndCells cbc) (mesh0 mesh : Mesh P R)
    (p2 h2 : Bool) (l : List Nat) : ∀ (this : Mesh P R) (M : NodeMatrix),
      HoldsNodesOf mesh0 this →
      WhenOk (fun r => HoldsNodesOf mesh0 r.1) (refineBoundaries w cbc mesh p2 h2 l this M) := by
  induction l with
  | nil =>
    intro this M hm r hr
    simp only [refineBoundaries] at hr
    cases hr
    exact hm
  | cons i l ih =>
    intro this M hm r hr
    simp only [refineBoundaries] at hr
    split at hr
    · cases hr
    · split at hr
      · cases hr
      · exact ih _ _
          (holdsNodesOf_refineBoundary w hcbc mesh0 mesh p2 h2 _ this M hm _ (by assumption)) r hr

theorem node_ok {w : Nat} {m : Mesh P R} {i : Nat} {n : Node P} (h : node w m i = .ok n) :
    m.nodeVector_[i]? = some n := by
  unfold node at h
  split at h
  · cases h
  · split at h
    · cases h; assumption
    · cases h

theorem diagMatrix_update {i : Nat} {M : NodeMatrix} (hM : DiagMatrix i M) :
    DiagMatrix (i + 1) (Function.update M ((i : Int), (i : Int)) (some i)) := by
  intro a b
  rw [Function.update_apply, hM a b]
  by_cases hab : (a, b) = ((i : Int), (i : Int))
  · rw [if_pos hab]
    obtain ⟨ha, hb⟩ := Prod.mk.inj hab
    subst ha hb
    rw [if_pos ⟨rfl, by omega, by omega⟩]
    simp
  · rw [if_neg hab]
    by_cases h1 : a = b ∧ 0 ≤ a ∧ a < (i : Int)
    · rw [if_pos h1, if_pos ⟨h1.1, h1.2.1, by omega⟩]
    · rw [if_neg h1, if_neg]
      rintro ⟨h2, h3, h4⟩
      apply h1
      refine ⟨h2, h3, ?_⟩
      by_contra h5
      apply hab
      have : a = (i : Int) := by omega
      rw [← h2, this]

theorem whenOk_copyNodes [Add P] [HDiv P R P] [OfNat R 2] (w : Nat) (mesh : Mesh P R)
    (hids : IdsAreIndices mesh) :
    ∀ (k i : Nat) (this : Mesh P R) (M : NodeMatrix),
      this.nodeVector_ = mesh.nodeVector_.take i → i ≤ mesh.nodeCount → DiagMatrix i M →
      WhenOk (fun r => r.1 = { this with nodeVector_ := mesh.nodeVector_.take (i + k) } ∧
          DiagMatrix (i + k) r.2)
        (copyNodes w mesh (List.range' i k) this M) := by
  intro k
  induction k with
  | zero =>
    intro i this M hthis _ hM r hr
    simp only [List.range'_zero, copyNodes] at hr
    cases hr
    refine ⟨?_, hM⟩
    simp only [Nat.add_zero, ← hthis]
  | succ k ih =>
    intro i this M hthis hi hM r hr
    simp only [List.range'_succ, copyNodes] at hr
    split at hr
    · cases hr
    · rename_i n hn
      have hget := node_ok hn
      have hid : n.id = (i : Int) := hids i n hget
      have hlt : i < mesh.nodeVector_.length := (List.getElem?_eq_some.mp hget).1
      have hcount : this.nodeCount = i := by
        simp only [nodeCount, hthis, List.length_take]
        omega
      have hnone : M (n.id, n.id) = none := by
        rw [hM, if_neg]
        rintro ⟨-, -, h3⟩
        omega
      have hstep : createRefinementNode_ this { ptr := .input i, node := n }
          { ptr := .input i, node := n } M =
          (i, { this with nodeVector_ := mesh.nodeVector_.take (i + 1) },
            Function.update M ((i : Int), (i : Int)) (some i)) := by
        unfold createRefinementNode_
        simp only [hnone, if_true, createNode_eq, hcount]
        have hn' : ({ pos := n.pos, marker := n.marker, id := (i : Int) } : Node P) = n := by
          rw [← hid]
        rw [hn', hthis, List.take_succ, hget, hid]
        rfl
      rw [hstep] at hr
      have h := ih (i + 1) _ _ rfl (by unfold nodeCount; omega) (diagMatrix_update hM) r hr
      refine ⟨?_, ?_⟩
      · rw [h.1]
        simp only [Nat.add_assoc, Nat.add_comm 1 k]
      · have := h.2
        simpa only [Nat.add_assoc, Nat.add_comm 1 k] using this

theorem holdsNodesOf_createRefined [Add P] [HDiv P R P] [OfNat R 2] [Inhabited R] (w : Nat)
    (ext : Externals P R) (tables : SplitTables) {cbc : BoundaryCreator P R}
    (hcbc : KeepsNodesAndCells cbc) (this mesh : Mesh P R) (p2 h2 : Bool)
    (hids : IdsAreIndices mesh) :
    WhenOk (fun r => HoldsNodesOf mesh r) (createRefined_ w ext tables cbc this mesh p2 h2) := by
  unfold createRefined_
  rw [List.range_eq_range']
  refine WhenOk.bind (whenOk_copyNodes w mesh hids mesh.nodeCount 0 this.clear (fun _ => none)
    rfl (Nat.zero_le _) ?_) (fun r hr => ?_)
  · intro a b
    rw [if_neg]
    rintro ⟨-, h2, h3⟩
    omega
  · have h0 : HoldsNodesOf mesh r.1 := by
      refine ⟨⟨[], ?_⟩, ?_⟩
      · rw [hr.1]
        simp [nodeCount]
      · refine idsAreIndices_of_nodeVector_eq (m := mesh) ?_ hids
        rw [hr.1]
        simp [nodeCount]
    dsimp only
    refine WhenOk.bind (whenOk_refineCells w ext tables mesh mesh p2 h2 _ r.1 r.2 h0)
      (fun r1 hr1 => ?_)
    dsimp only
    refine WhenOk.bind (whenOk_refineBoundaries w hcbc mesh mesh p2 h2 _ r1.1 r1.2 hr1)
      (fun r2 hr2 => ?_)
    exact WhenOk.pure hr2

theorem eq_ok_of_toOption {α : Type} {x : Except Failure α} {a : α}
    (h : x.toOption = some a) : x = .ok a := by
  cases x with
  | error e => cases h
  | ok b => cases h; rfl

theorem keepsNodesAndCells_pushBoundary : KeepsNodesAndCells (pushBoundary : BoundaryCreator P R) := by
  intro shape m nodes marker
  exact ⟨rfl, rfl⟩

theorem idsAreIndices_threeNodes (dim : Nat) (m0 m1 m2 : Int) :
    IdsAreIndices (threeNodes dim m0 m1 m2) := by
  intro i n h
  match i with
  | 0 => simp [threeNodes] at h; subst h; rfl
  | 1 => simp [threeNodes] at h; subst h; rfl
  | 2 => simp [threeNodes] at h; subst h; rfl
  | k + 3 => simp [threeNodes] at h

/-- C13: for an input mesh whose node ids equal their indices, every mesh that
`createRefined_` returns (whatever `p2` and `h2`) starts with the nodes of the
input: node `i` has the position, the marker and the id of input node `i` for
every `i < input.nodeCount`; every node of the result has its index as id, so
the nodes with an id of at least `input.nodeCount` are the ones appended by the
refinement. The boundary creator is any that leaves nodes and cells alone. -/
theorem refined_mesh_holds_original_nodes [Add P] [HDiv P R P] [OfNat R 2] [Inhabited R]
    (w : Nat) (ext : Externals P R) (tables : SplitTables) (cbc : BoundaryCreator P R)
    (this mesh : Mesh P R) (p2 h2 : Bool) (r : Mesh P R)
    (hcbc : KeepsNodesAndCells cbc) (hids : IdsAreIndices mesh)
    (h : createRefined_ w ext tables cbc this mesh p2 h2 = .ok r) :
    r.nodeVector_.take mesh.nodeCount = mesh.nodeVector_ ∧ IdsAreIndices r ∧
    mesh.nodeCount ≤ r.nodeCount := by
  obtain ⟨⟨l, hl⟩, hid⟩ := holdsNodesOf_createRefined w ext tables hcbc this mesh p2 h2 hids r h
  refine ⟨?_, hid, ?_⟩
  · rw [hl]
    simp [nodeCount]
  · simp [nodeCount, hl]

/-- Witness of C13: the quadratic refinement of one triangle. -/
theorem refined_mesh_holds_original_nodes_witness :
    createRefined_ 32 plainExternals noTables pushBoundary (Mesh.new 2) (oneTriangle 0 0 0 7)
      true false = .ok quadraticTriangle ∧
    quadraticTriangle.nodeVector_.take 3 = (oneTriangle 0 0 0 7).nodeVector_ :=
  ⟨eq_ok_of_toOption (by decide),
   (refined_mesh_holds_original_nodes 32 plainExternals noTables pushBoundary (Mesh.new 2)
      (oneTriangle 0 0 0 7) true false quadraticTriangle keepsNodesAndCells_pushBoundary
      (idsAreIndices_threeNodes 2 0 0 0) (eq_ok_of_toOption (by decide))).1⟩

/-! ## Calls that return -/

theorem Returns.step {α β : Type} {Q : α → Prop} {T : β → Prop} {x : Except Failure α}
    {f : α → Except Failure β} (hx : Returns Q x) (hf : ∀ a, Q a → Returns T (f a)) :
    Returns T (x >>= f) := by
  obtain ⟨a, ha, hq⟩ := hx
  rw [ha]
  exact hf a hq

theorem Returns.done {α : Type} {Q : α → Prop} {a : α} (h : Q a) :
    Returns Q (Pure.pure a : Except Failure α) := ⟨a, rfl, h⟩

theorem Returns.step_eq {α β : Type} {T : β → Prop} {x : Except Failure α} {a : α}
    {f : α → Except Failure β} (hx : x = .ok a) (hf : Returns T (f a)) :
    Returns T (x >>= f) := by
  rw [hx]
  exact hf

theorem toUint_natCast {w p : Nat} (hp : p < 2 ^ w) : toUint w (p : Int) = p := by
  unfold toUint
  have h : ((p : Int) % (2 ^ w : Int)) = (p : Int) :=
    Int.emod_eq_of_lt (by omega) (by exact_mod_cast hp)
  rw [h]
  simp

theorem node_of_lt {w : Nat} {m : Mesh P R} {i : Nat} (hi : i < m.nodeCount)
    (hfit : m.nodeCount < 2 ^ w) : ∃ n, m.nodeVector_[i]? = some n ∧ node w m i = .ok n := by
  have hlen : m.nodeCount = m.nodeVector_.length := rfl
  refine ⟨m.nodeVector_[i], List.getElem?_eq_getElem (by omega), ?_⟩
  unfold node
  rw [countMinusOne_pos (by omega) hfit, if_neg (by omega), List.getElem?_eq_getElem (by omega)]

theorem cell_of_lt {w : Nat} {m : Mesh P R} {i : Nat} (hi : i < m.cellCount)
    (hfit : m.cellCount < 2 ^ w) : ∃ c, m.cellVector_[i]? = some c ∧ cell w m i = .ok c := by
  have hlen : m.cellCount = m.cellVector_.length := rfl
  refine ⟨m.cellVector_[i], List.getElem?_eq_getElem (by omega), ?_⟩
  unfold cell
  rw [countMinusOne_pos (by omega) hfit, if_neg (by omega), List.getElem?_eq_getElem (by omega)]

theorem boundary_of_lt {w : Nat} {m : Mesh P R} {i : Nat} (hi : i < m.boundaryCount)
    (hfit : m.boundaryCount < 2 ^ w) :
    ∃ b, m.boundaryVector_[i]? = some b ∧ boundary w m i = .ok b := by
  have hlen : m.boundaryCount = m.boundaryVector_.length := rfl
  refine ⟨m.boundaryVector_[i], List.getElem?_eq_getElem (by omega), ?_⟩
  unfold boundary
  rw [countMinusOne_pos (by omega) hfit, if_neg (by omega), List.getElem?_eq_getElem (by omega)]

theorem copyOfNode_of_lt {w : Nat} {this mesh : Mesh P R} {nodes : List Nat} {k p : Nat}
    (hids : IdsAreIndices mesh) (hk : nodes[k]? = some p) (hp : p < mesh.nodeCount)
    (hthis : mesh.nodeCount ≤ this.nodeCount) (hfit : this.nodeCount < 2 ^ w) :
    copyOfNode w this mesh nodes k = .ok p := by
  have hlen : mesh.nodeCount = mesh.nodeVector_.length := rfl
  have hget : mesh.nodeVector_[p]? = some mesh.nodeVector_[p] :=
    List.getElem?_eq_getElem (by omega)
  have hid := hids p _ hget
  obtain ⟨n, -, hn⟩ := node_of_lt (w := w) (m := this) (i := p) (by omega) hfit
  unfold copyOfNode entityNodeId
  simp only [hk, hget, hid]
  unfold nodePtr
  rw [toUint_natCast (by omega), hn]

/-! ## Refinement of triangles -/

theorem undirected_eq_iff (x y a b : Nat) :
    undirected x y = undirected a b ↔ (x = a ∧ y = b) ∨ (x = b ∧ y = a) := by
  unfold undirected
  rw [Prod.mk.injEq]
  omega

theorem withEdge_of_mem {a b : Nat} {S : Finset (Nat × Nat)}
    (h : a = b ∨ undirected a b ∈ S) : withEdge a b S = S := by
  unfold withEdge
  split
  · rfl
  · exact Finset.insert_eq_of_mem (h.resolve_left (by assumption))

theorem ownNodeRef_of_lt {this : Mesh P R} {i : Nat} (hids : IdsAreIndices this)
    (hi : i < this.nodeCount) :
    ∃ n, ownNodeRef this i = .ok { ptr := .own i, node := n } ∧ n.id = (i : Int) := by
  have hlen : this.nodeCount = this.nodeVector_.length := rfl
  have hget : this.nodeVector_[i]? = some this.nodeVector_[i] :=
    List.getElem?_eq_getElem (by omega)
  refine ⟨this.nodeVector_[i], ?_, hids i _ hget⟩
  unfold ownNodeRef
  rw [hget]

theorem triangleState_refinementNode [Add P] [HDiv P R P] [OfNat R 2] {V : Nat}
    {S : Finset (Nat × Nat)} {this : Mesh P R} {M : NodeMatrix} {a b : Nat}
    (hs : TriangleState V S this M) (ha : a < V) (hb : b < V) :
    Returns (fun r => TriangleState V (withEdge a b S) r.2.1 r.2.2 ∧ r.1 < r.2.1.nodeCount ∧
        ∃ l, r.2.1 = { this with nodeVector_ := this.nodeVector_ ++ l })
      (refinementNode this M a b) := by
  obtain ⟨hids, hcount, hkeys, hvals⟩ := hs
  obtain ⟨na, hna, hida⟩ := ownNodeRef_of_lt (i := a) hids (by omega)
  obtain ⟨nb, hnb, hidb⟩ := ownNodeRef_of_lt (i := b) hids (by omega)
  unfold refinementNode
  rw [hna, hnb]
  refine ⟨_, rfl, ?_⟩
  cases hM : M (na.id, nb.id) with
  | some n =>
    rw [createRefinementNode_of_some this _ _ M n hM]
    have hmem : a = b ∨ undirected a b ∈ S := by
      have := (hkeys na.id nb.id).mp (by rw [hM]; rfl)
      rw [hida, hidb] at this
      rcases this.2.2.2.2 with h | h
      · left; exact_mod_cast h
      · right; simpa using h
    rw [withEdge_of_mem hmem]
    exact ⟨⟨hids, hcount, hkeys, hvals⟩, hvals _ _ hM, [], by simp⟩
  | none =>
    have hnot : ¬ (a = b ∨ undirected a b ∈ S) := by
      intro h
      have := (hkeys na.id nb.id).mpr (by
        rw [hida, hidb]
        refine ⟨by omega, by omega, by omega, by omega, ?_⟩
        rcases h with h | h
        · left; exact_mod_cast h
        · right; simpa using h)
      rw [hM] at this
      cases this
    have hab : a ≠ b := fun h => hnot (Or.inl h)
    have hnS : undirected a b ∉ S := fun h => hnot (Or.inr h)
    have hptr : ({ ptr := .own a, node := na } : NodeRef P).ptr ≠
        ({ ptr := .own b, node := nb } : NodeRef P).ptr := by
      intro h
      apply hab
      simpa using h
    rw [createRefinementNode_of_none this _ _ M hptr hM]
    dsimp only
    refine ⟨⟨?_, ?_, ?_, ?_⟩, ?_, ⟨_, rfl⟩⟩
    · exact idsAreIndices_of_append _ _ rfl hids
    · unfold withEdge
      rw [if_neg hab, Finset.card_insert_of_not_mem hnS]
      simp only [nodeCount, List.length_append, List.length_singleton] at hcount ⊢
      omega
    · intro x y
      rw [hida, hidb]
      simp only [Function.update_apply, Prod.mk.injEq]
      unfold withEdge
      rw [if_neg hab]
      by_cases h1 : x = (b : Int) ∧ y = (a : Int)
      · rw [if_pos h1]
        obtain ⟨hx, hy⟩ := h1
        subst hx hy
        simp only [Option.isSome_some, true_iff, Int.toNat_ofNat]
        refine ⟨by omega, by omega, by omega, by omega, Or.inr ?_⟩
        rw [Finset.mem_insert]
        left
        rw [undirected_eq_iff]
        right
        exact ⟨rfl, rfl⟩
      · rw [if_neg h1]
        by_cases h2 : x = (a : Int) ∧ y = (b : Int)
        · rw [if_pos h2]
          obtain ⟨hx, hy⟩ := h2
          subst hx hy
          simp only [Option.isSome_some, true_iff, Int.toNat_ofNat]
          refine ⟨by omega, by omega, by omega, by omega, Or.inr ?_⟩
          rw [Finset.mem_insert]
          left
          rfl
        · rw [if_neg h2, hkeys x y]
          constructor
          · rintro ⟨hx, hy, hxV, hyV, h⟩
            refine ⟨hx, hy, hxV, hyV, ?_⟩
            rcases h with h | h
            · left; exact h
            · right; exact Finset.mem_insert_of_mem h
          · rintro ⟨hx, hy, hxV, hyV, h⟩
            refine ⟨hx, hy, hxV, hyV, ?_⟩
            rcases h with h | h
            · left; exact h
            · right
              rcases Finset.mem_insert.mp h with h | h
              · exfalso
                rw [undirected_eq_iff] at h
                rcases h with ⟨h3, h4⟩ | ⟨h3, h4⟩
                · apply h2
                  constructor <;> omega
                · apply h1
                  constructor <;> omega
              · exact h
    · intro k n hk
      simp only [Function.update_apply] at hk
      simp only [nodeCount, List.length_append, List.length_singleton]
      split at hk
      · cases hk; unfold nodeCount; omega
      · split at hk
        · cases hk; unfold nodeCount; omega
        · have := hvals k n hk
          unfold nodeCount at this
          omega
    · simp [nodeCount]

theorem card_le_withEdge (a b : Nat) (S : Finset (Nat × Nat)) :
    S.card ≤ (withEdge a b S).card := by
  unfold withEdge
  split
  · exact Nat.le_refl _
  · exact Finset.card_le_card (Finset.subset_insert _ _)

theorem triangleState_of_nodeVector_eq {V : Nat} {S : Finset (Nat × Nat)} {m m1 : Mesh P R}
    {M : NodeMatrix} (h : m1.nodeVector_ = m.nodeVector_) (hs : TriangleState V S m M) :
    TriangleState V S m1 M := by
  obtain ⟨hids, hcount, hkeys, hvals⟩ := hs
  refine ⟨idsAreIndices_of_nodeVector_eq h hids, ?_, hkeys, ?_⟩
  · unfold nodeCount at hcount ⊢
    rw [h]
    exact hcount
  · intro k n hk
    have := hvals k n hk
    unfold nodeCount at this ⊢
    rw [h]
    exact this

theorem triangleCells_of_eq {k : Nat} {m m1 : Mesh P R} (hn : m1.nodeVector_ = m.nodeVector_)
    (hc : m1.cellVector_ = m.cellVector_) (h : TriangleCells k m) : TriangleCells k m1 := by
  unfold TriangleCells cellCount nodeCount at *
  rw [hn, hc]
  exact h

theorem triangle_refineCell [Add P] [HDiv P R P] [OfNat R 2] [Inhabited R] (w : Nat)
    (ext : Externals P R) (tables : SplitTables) (mesh : Mesh P R) (c : Cell R)
    {S : Finset (Nat × Nat)} {this : Mesh P R} {M : NodeMatrix} {k a b d : Nat}
    (hids : IdsAreIndices mesh) (hshape : c.shape = .Triangle) (hnodes : c.nodes = [a, b, d])
    (ha : a < mesh.nodeCount) (hb : b < mesh.nodeCount) (hd : d < mesh.nodeCount)
    (hst : TriangleState mesh.nodeCount S this M) (hcells : TriangleCells k this)
    (hfit : mesh.nodeCount + (withEdge d a (withEdge b d (withEdge a b S))).card < 2 ^ w) :
    Returns (fun r =>
        TriangleState mesh.nodeCount (withEdge d a (withEdge b d (withEdge a b S))) r.2.1 r.2.2 ∧
        TriangleCells (k + 1) r.2.1 ∧ r.2.1.boundaryVector_ = this.boundaryVector_)
      (refineCell w ext tables mesh true c this M) := by
  have hc1 := card_le_withEdge a b S
  have hc2 := card_le_withEdge b d (withEdge a b S)
  have hc3 := card_le_withEdge d a (withEdge b d (withEdge a b S))
  have hcount := hst.2.1
  unfold refineCell
  rw [hshape]
  dsimp only
  refine Returns.step_eq (copyOfNode_of_lt hids (by rw [hnodes]; rfl) ha (by omega) (by omega)) ?_
  refine Returns.step_eq (copyOfNode_of_lt hids (by rw [hnodes]; rfl) hb (by omega) (by omega)) ?_
  refine Returns.step_eq (copyOfNode_of_lt hids (by rw [hnodes]; rfl) hd (by omega) (by omega)) ?_
  refine Returns.step (triangleState_refinementNode hst ha hb) (fun r1 hr1 => ?_)
  obtain ⟨h1, hlt1, l1, hl1⟩ := hr1
  refine Returns.step (triangleState_refinementNode h1 hb hd) (fun r2 hr2 => ?_)
  obtain ⟨h2, hlt2, l2, hl2⟩ := hr2
  refine Returns.step (triangleState_refinementNode h2 hd ha) (fun r3 hr3 => ?_)
  obtain ⟨h3, hlt3, l3, hl3⟩ := hr3
  refine Returns.done ?_
  rw [if_pos rfl]
  have hn1 : r1.2.1.nodeCount = this.nodeCount + l1.length := by
    rw [hl1]; simp [nodeCount]
  have hn2 : r2.2.1.nodeCount = r1.2.1.nodeCount + l2.length := by
    rw [hl2]; simp [nodeCount]
  have hn3 : r3.2.1.nodeCount = r2.2.1.nodeCount + l3.length := by
    rw [hl3]; simp [nodeCount]
  have hcv : r3.2.1.cellVector_ = this.cellVector_ := by
    rw [hl3, hl2, hl1]
  have hbv : r3.2.1.boundaryVector_ = this.boundaryVector_ := by
    rw [hl3, hl2, hl1]
  have hA : a < r3.2.1.nodeCount := by omega
  have hB : b < r3.2.1.nodeCount := by omega
  have hD : d < r3.2.1.nodeCount := by omega
  have h1' : r1.1 < r3.2.1.nodeCount := by omega
  have h2' : r2.1 < r3.2.1.nodeCount := by omega
  have hle : this.nodeCount ≤ r3.2.1.nodeCount := by omega
  refine ⟨triangleState_of_nodeVector_eq (createCells__nodeVector _ _ _ _) h3, ?_, ?_⟩
  · obtain ⟨hk, hall⟩ := hcells
    constructor
    · simp only [createCells_, createCell_, cellCount, List.length_append, List.length_singleton,
        hcv] at hk ⊢
      omega
    · intro c' hc' 
      simp only [createCells_, createCell_, hcv, List.append_assoc,
        List.mem_append, List.mem_singleton] at hc'
      rcases hc' with hc' | hc' | hc' | hc' | hc'
      · obtain ⟨hs', hx'⟩ := hall c' hc'
        exact ⟨hs', fun x hx => Nat.lt_of_lt_of_le (hx' x hx) hle⟩
      all_goals
        subst hc'
        refine ⟨rfl, fun x hx => ?_⟩
        change x < r3.2.1.nodeCount
        simp only [List.mem_cons, List.mem_singleton, List.not_mem_nil, or_false] at hx
        rcases hx with hx | hx | hx <;> subst hx <;> assumption
  · simp only [createCells_, createCell_]
    exact hbv

theorem mem_withEdge {a b : Nat} {S : Finset (Nat × Nat)} {e : Nat × Nat} :
    e ∈ withEdge a b S ↔ e ∈ S ∨ (a ≠ b ∧ e = undirected a b) := by
  unfold withEdge
  split
  · simp [*]
  · rw [Finset.mem_insert]
    constructor
    · rintro (h | h)
      · exact Or.inr ⟨by assumption, h⟩
      · exact Or.inl h
    · rintro (h | ⟨-, h⟩)
      · exact Or.inr h
      · exact Or.inl h

theorem cellEdges_append (X Y : List (Cell R)) :
    cellEdges (X ++ Y) = cellEdges X ++ cellEdges Y := by
  simp [cellEdges, List.flatMap_append, List.filter_append, List.map_append]

theorem cellEdges_concat (X : List (Cell R)) (c : Cell R) {a b d : Nat}
    (hnodes : c.nodes = [a, b, d]) :
    (cellEdges (X ++ [c])).toFinset =
      withEdge d a (withEdge b d (withEdge a b (cellEdges X).toFinset)) := by
  ext e
  rw [cellEdges_append, List.toFinset_append, Finset.mem_union, mem_withEdge, mem_withEdge,
    mem_withEdge]
  have hc : e ∈ (cellEdges [c]).toFinset ↔
      (a ≠ b ∧ e = undirected a b) ∨ (b ≠ d ∧ e = undirected b d) ∨
        (d ≠ a ∧ e = undirected d a) := by
    simp only [cellEdges, List.flatMap_cons, List.flatMap_nil, List.append_nil, hnodes,
      triangleEdges, List.mem_toFinset, List.mem_map, List.mem_filter, List.mem_cons,
      List.mem_singleton, List.not_mem_nil, or_false, decide_eq_true_eq]
    constructor
    · rintro ⟨x, ⟨hx | hx | hx, hne⟩, rfl⟩
      · subst hx; exact Or.inl ⟨hne, rfl⟩
      · subst hx; exact Or.inr (Or.inl ⟨hne, rfl⟩)
      · subst hx; exact Or.inr (Or.inr ⟨hne, rfl⟩)
    · rintro (⟨hne, rfl⟩ | ⟨hne, rfl⟩ | ⟨hne, rfl⟩)
      · exact ⟨(a, b), ⟨Or.inl rfl, hne⟩, rfl⟩
      · exact ⟨(b, d), ⟨Or.inr (Or.inl rfl), hne⟩, rfl⟩
      · exact ⟨(d, a), ⟨Or.inr (Or.inr rfl), hne⟩, rfl⟩
  rw [hc]
  tauto

theorem cellEdges_take_subset (L : List (Cell R)) (i : Nat) :
    (cellEdges (L.take i)).toFinset ⊆ (cellEdges L).toFinset := by
  conv_rhs => rw [← List.take_append_drop i L]
  rw [cellEdges_append, List.toFinset_append]
  exact Finset.subset_union_left

theorem triangle_refineCells [Add P] [HDiv P R P] [OfNat R 2] [Inhabited R] (w : Nat)
    (ext : Externals P R) (tables : SplitTables) (mesh : Mesh P R) (hmesh : TriangleMesh w mesh)
    (B0 : List Boundary) :
    ∀ (k i : Nat) (this : Mesh P R) (M : NodeMatrix), i + k ≤ mesh.cellCount →
      TriangleState mesh.nodeCount (cellEdges (mesh.cellVector_.take i)).toFinset this M →
      TriangleCells i this → this.boundaryVector_ = B0 →
      Returns (fun r =>
          TriangleState mesh.nodeCount (cellEdges (mesh.cellVector_.take (i + k))).toFinset
            r.1 r.2 ∧
          TriangleCells (i + k) r.1 ∧ r.1.boundaryVector_ = B0)
        (refineCells w ext tables mesh true true (List.range' i k) this M) := by
  obtain ⟨hids, hcellsWF, -, hfitN, hfitC, -⟩ := hmesh
  intro k
  induction k with
  | zero =>
    intro i this M _ hst hcells hB
    exact ⟨_, rfl, hst, hcells, hB⟩
  | succ k ih =>
    intro i this M hik hst hcells hB
    obtain ⟨c, hget, hcell⟩ := cell_of_lt (w := w) (m := mesh) (i := i) (by omega) hfitC
    have hmem : c ∈ mesh.cellVector_ := List.getElem?_mem hget
    obtain ⟨hshape, a, b, d, hnodes, ha, hb, hd⟩ := hcellsWF c hmem
    have htake : mesh.cellVector_.take (i + 1) = mesh.cellVector_.take i ++ [c] := by
      rw [List.take_succ, hget]
      rfl
    have hedges := cellEdges_concat (mesh.cellVector_.take i) c hnodes
    rw [← htake] at hedges
    have hfit : mesh.nodeCount +
        (withEdge d a (withEdge b d (withEdge a b
          (cellEdges (mesh.cellVector_.take i)).toFinset))).card < 2 ^ w := by
      rw [← hedges]
      have := Finset.card_le_card (cellEdges_take_subset mesh.cellVector_ (i + 1))
      rw [List.card_toFinset (cellEdges mesh.cellVector_)] at this
      unfold edgeCount at hfitN
      omega
    obtain ⟨r, hr, hst1, hcells1, hB1⟩ :=
      triangle_refineCell w ext tables mesh c hids hshape hnodes ha hb hd hst hcells hfit
    simp only [List.range'_succ, refineCells, hcell, hr]
    rw [← hedges] at hst1
    have := ih (i + 1) r.2.1 r.2.2 (by omega) hst1 hcells1 (hB1.trans hB)
    simpa only [Nat.add_assoc, Nat.add_comm 1 k, Bool.not_true, Bool.and_false,
      Bool.false_eq_true, if_false] using this

theorem triangle_refineBoundary [Add P] [HDiv P R P] [OfNat R 2] (w : Nat)
    {cbc : BoundaryCreator P R} (hcbc : KeepsNodesAndCells cbc) (mesh : Mesh P R)
    (hmesh : TriangleMesh w mesh) (b : Boundary) (hb : OnCellEdge mesh b) {k : Nat}
    {this : Mesh P R} {M : NodeMatrix}
    (hst : TriangleState mesh.nodeCount (cellEdges mesh.cellVector_).toFinset this M)
    (hcells : TriangleCells k this) :
    Returns (fun r =>
        TriangleState mesh.nodeCount (cellEdges mesh.cellVector_).toFinset r.1 r.2 ∧
        TriangleCells k r.1)
      (refineBoundary w cbc mesh true true b this M) := by
  obtain ⟨hids, -, -, hfitN, -, -⟩ := hmesh
  have hcount := hst.2.1
  have hfit : this.nodeCount < 2 ^ w := by
    rw [List.card_toFinset] at hcount
    unfold edgeCount at hfitN
    omega
  unfold refineBoundary boundaryNodes
  rcases hb with ⟨hshape, a, c, hnodes, ha, hc, hedge⟩ | ⟨hshape, a, hnodes, ha⟩
  · rw [hshape]
    dsimp only
    simp only [bind_assoc]
    refine Returns.step_eq
      (copyOfNode_of_lt hids (by rw [hnodes]; rfl) ha (by omega) hfit) ?_
    refine Returns.step_eq
      (copyOfNode_of_lt hids (by rw [hnodes]; rfl) hc (by omega) hfit) ?_
    refine Returns.step (triangleState_refinementNode hst ha hc) (fun r1 hr1 => ?_)
    obtain ⟨h1, -, l1, hl1⟩ := hr1
    rw [withEdge_of_mem (by simpa using hedge)] at h1
    refine Returns.done ?_
    have hn : (createBoundaries cbc BoundaryShape.Edge b.marker
        [[nth [a, c, r1.1] 0, nth [a, c, r1.1] 2], [nth [a, c, r1.1] 2, nth [a, c, r1.1] 1]]
        r1.2.1).nodeVector_ = r1.2.1.nodeVector_ := createBoundaries_nodeVector hcbc _ _ _ _
    have hcv : (createBoundaries cbc BoundaryShape.Edge b.marker
        [[nth [a, c, r1.1] 0, nth [a, c, r1.1] 2], [nth [a, c, r1.1] 2, nth [a, c, r1.1] 1]]
        r1.2.1).cellVector_ = this.cellVector_ := by
      simp only [createBoundaries, (hcbc _ _ _ _).2]
      rw [hl1]
    refine ⟨triangleState_of_nodeVector_eq hn h1, ?_⟩
    obtain ⟨hk, hall⟩ := hcells
    refine ⟨by simpa only [cellCount, hcv] using hk, fun c' hc' => ?_⟩
    rw [hcv] at hc'
    obtain ⟨hs', hx'⟩ := hall c' hc'
    refine ⟨hs', fun x hx => ?_⟩
    have h2 := hx' x hx
    have h3 : this.nodeCount ≤ r1.2.1.nodeCount := by
      rw [hl1]; simp [nodeCount]
    unfold nodeCount at h2 h3 ⊢
    rw [hn]
    omega
  · rw [hshape]
    dsimp only
    simp only [bind_assoc]
    refine Returns.step_eq
      (copyOfNode_of_lt hids (by rw [hnodes]; rfl) ha (by omega) hfit) ?_
    refine Returns.done ?_
    have hn := createBoundary_nodeVector hcbc this [a] b.marker
    have hcv : (createBoundary cbc this [a] b.marker).2.cellVector_ = this.cellVector_ := by
      simp only [createBoundary, List.length_singleton, (hcbc _ _ _ _).2]
    exact ⟨triangleState_of_nodeVector_eq hn hst, triangleCells_of_eq hn hcv hcells⟩

theorem triangle_refineBoundaries [Add P] [HDiv P R P] [OfNat R 2] (w : Nat)
    {cbc : BoundaryCreator P R} (hcbc : KeepsNodesAndCells cbc) (mesh : Mesh P R)
    (hmesh : TriangleMesh w mesh) (T : Nat) :
    ∀ (k i : Nat) (this : Mesh P R) (M : NodeMatrix), i + k ≤ mesh.boundaryCount →
      TriangleState mesh.nodeCount (cellEdges mesh.cellVector_).toFinset this M →
      TriangleCells T this →
      Returns (fun r =>
          TriangleState mesh.nodeCount (cellEdges mesh.cellVector_).toFinset r.1 r.2 ∧
          TriangleCells T r.1)
        (refineBoundaries w cbc mesh true true (List.range' i k) this M) := by
  have hB := hmesh.2.2.1
  have hfitB := hmesh.2.2.2.2.2
  intro k
  induction k with
  | zero =>
    intro i this M _ hst hcells
    exact ⟨_, rfl, hst, hcells⟩
  | succ k ih =>
    intro i this M hik hst hcells
    obtain ⟨b, hget, hbnd⟩ := boundary_of_lt (w := w) (m := mesh) (i := i) (by omega) hfitB
    obtain ⟨r, hr, hst1, hcells1⟩ :=
      triangle_refineBoundary w hcbc mesh hmesh b (hB b (List.getElem?_mem hget)) hst hcells
    simp only [List.range'_succ, refineBoundaries, hbnd, hr]
    exact ih (i + 1) r.1 r.2 (by omega) hst1 hcells1

theorem copyNodes_returns [Add P] [HDiv P R P] [OfNat R 2] (w : Nat) (mesh : Mesh P R)
    (hfit : mesh.nodeCount < 2 ^ w) :
    ∀ (k i : Nat) (this : Mesh P R) (M : NodeMatrix), i + k ≤ mesh.nodeCount →
      ∃ r, copyNodes w mesh (List.range' i k) this M = .ok r := by
  intro k
  induction k with
  | zero =>
    intro i this M _
    exact ⟨_, rfl⟩
  | succ k ih =>
    intro i this M hik
    obtain ⟨n, -, hn⟩ := node_of_lt (w := w) (m := mesh) (i := i) (by omega) hfit
    simp only [List.range'_succ, copyNodes, hn]
    exact ih (i + 1) _ _ (by omega)

theorem triangleState_of_diagMatrix {mesh this : Mesh P R} {M : NodeMatrix}
    (hids : IdsAreIndices mesh) (hn : this.nodeVector_ = mesh.nodeVector_)
    (hM : DiagMatrix mesh.nodeCount M) : TriangleState mesh.nodeCount ∅ this M := by
  refine ⟨idsAreIndices_of_nodeVector_eq hn hids, ?_, ?_, ?_⟩
  · simp [nodeCount, hn]
  · intro a b
    rw [hM a b]
    constructor
    · intro h
      split at h
      · rename_i h1
        obtain ⟨h1, h2, h3⟩ := h1
        subst h1
        exact ⟨h2, h2, h3, h3, Or.inl rfl⟩
      · cases h
    · rintro ⟨h1, -, h3, -, h5 | h5⟩
      · rw [if_pos ⟨h5, h1, h3⟩]
        rfl
      · simp at h5
  · rintro ⟨a, b⟩ n hk
    rw [hM a b] at hk
    split at hk
    · rename_i h1
      cases hk
      have : this.nodeCount = mesh.nodeCount := by simp [nodeCount, hn]
      omega
    · cases hk

/-- C11: for a mesh whose cells are all triangles over its own nodes, with node
ids equal to indices, every boundary a node or an edge of a cell, and counts
that fit the counters, `createRefined_(mesh, true, true)` returns a mesh with
exactly `V + E` nodes (`E` the number of distinct undirected cell edges) and
exactly `4 T` cells, each a `Triangle` (no quadratic cell) over nodes of the
returned mesh. The boundary creator is any that leaves nodes and cells alone. -/
theorem refined_triangles_count [Add P] [HDiv P R P] [OfNat R 2] [Inhabited R] (w : Nat)
    (ext : Externals P R) (tables : SplitTables) (cbc : BoundaryCreator P R)
    (this mesh : Mesh P R) (hcbc : KeepsNodesAndCells cbc) (hmesh : TriangleMesh w mesh) :
    ∃ r, createRefined_ w ext tables cbc this mesh true true = .ok r ∧
      r.nodeCount = mesh.nodeCount + edgeCount mesh ∧
      r.cellCount = 4 * mesh.cellCount ∧
      ∀ c ∈ r.cellVector_, c.shape = CellShape.Triangle ∧ ∀ x ∈ c.nodes, x < r.nodeCount := by
  have hids := hmesh.1
  have hfitN : mesh.nodeCount < 2 ^ w := by
    have := hmesh.2.2.2.1
    omega
  obtain ⟨r0, hr0⟩ := copyNodes_returns w mesh hfitN mesh.nodeCount 0 this.clear (fun _ => none)
    (by omega)
  have hdiag0 : DiagMatrix 0 (fun _ => none) := by
    intro a b
    rw [if_neg]
    rintro ⟨-, h2, h3⟩
    omega
  obtain ⟨hr0m, hr0M⟩ := whenOk_copyNodes w mesh hids mesh.nodeCount 0 this.clear (fun _ => none)
    rfl (Nat.zero_le _) hdiag0 r0 hr0
  rw [Nat.zero_add] at hr0m hr0M
  have hn0 : r0.1.nodeVector_ = mesh.nodeVector_ := by
    rw [hr0m]
    simp [nodeCount]
  have hst0 : TriangleState mesh.nodeCount
      (cellEdges (mesh.cellVector_.take 0)).toFinset r0.1 r0.2 := by
    have := triangleState_of_diagMatrix hids hn0 hr0M
    simpa [cellEdges] using this
  have hcells0 : TriangleCells 0 r0.1 := by
    refine ⟨?_, ?_⟩
    · rw [hr0m]
      rfl
    · intro c hc
      rw [hr0m] at hc
      cases hc
  obtain ⟨r1, hr1, hst1, hcells1, -⟩ :=
    triangle_refineCells w ext tables mesh hmesh r0.1.boundaryVector_ mesh.cellCount 0 r0.1 r0.2
      (by omega) hst0 hcells0 rfl
  rw [Nat.zero_add] at hst1 hcells1
  have htake : mesh.cellVector_.take mesh.cellCount = mesh.cellVector_ := List.take_length _
  rw [htake] at hst1
  obtain ⟨r2, hr2, hst2, hcells2⟩ :=
    triangle_refineBoundaries w hcbc mesh hmesh mesh.cellCount mesh.boundaryCount 0 r1.1 r1.2
      (by omega) hst1 hcells1
  refine ⟨r2.1, ?_, ?_, hcells2.1, hcells2.2⟩
  · unfold createRefined_
    rw [List.range_eq_range', List.range_eq_range', List.range_eq_range']
    simp only [hr0, hr1, hr2, bind, Except.bind, pure, Except.pure]
  · rw [hst2.2.1, List.card_toFinset]
    rfl

theorem triangleMesh_oneTriangle : TriangleMesh 32 (oneTriangle 0 0 0 7) := by
  refine ⟨idsAreIndices_threeNodes 2 0 0 0, ?_, ?_, by decide, by decide, by decide⟩
  · intro c hc
    simp only [oneTriangle, List.mem_singleton] at hc
    subst hc
    exact ⟨rfl, 0, 1, 2, rfl, by decide, by decide, by decide⟩
  · intro b hb
    cases hb

/-- Witness of C11: one triangle is refined into 6 nodes and 4 triangles. -/
theorem refined_triangles_count_witness :
    ∃ r, createRefined_ 32 plainExternals noTables pushBoundary (Mesh.new 2)
        (oneTriangle 0 0 0 7) true true = .ok r ∧
      r.nodeCount = 3 + 3 ∧ r.cellCount = 4 * 1 ∧
      ∀ c ∈ r.cellVector_, c.shape = CellShape.Triangle ∧ ∀ x ∈ c.nodes, x < r.nodeCount :=
  refined_triangles_count 32 plainExternals noTables pushBoundary (Mesh.new 2)
    (oneTriangle 0 0 0 7) keepsNodesAndCells_pushBoundary triangleMesh_oneTriangle

/-! ## Refinement of meshes of every supported class -/

theorem Returns.andThen {α β : Type} {Q : α → Prop} {C : Except Failure β → Prop}
    {x : Except Failure α} {f : α → Except Failure β} (hx : Returns Q x)
    (hf : ∀ a, Q a → C (f a)) : C (x >>= f) := by
  obtain ⟨a, ha, hq⟩ := hx
  rw [ha]
  exact hf a hq

theorem Returns.step_error {α β : Type} {Q : α → Prop} {x : Except Failure α}
    {f : α → Except Failure β} {e : Failure} (hx : Returns Q x)
    (hf : ∀ a, Q a → f a = .error e) : x >>= f = .error e := by
  obtain ⟨a, ha, hq⟩ := hx
  rw [ha]
  exact hf a hq

theorem midPoint_of_append [Add P] [HDiv P R P] [OfNat R 2] {this this1 : Mesh P R}
    {a b x : Nat} (l : List (Node P)) (h1 : this1.nodeVector_ = this.nodeVector_ ++ l)
    (h : MidPoint this a b x) : MidPoint this1 a b x := by
  obtain ⟨na, nb, nx, ha, hb, hx, hpos⟩ := h
  have key : ∀ (i : Nat) (n : Node P), this.nodeVector_[i]? = some n →
      this1.nodeVector_[i]? = some n := by
    intro i n hi
    rw [h1, List.getElem?_append_left (List.getElem?_eq_some.mp hi).1]
    exact hi
  exact ⟨na, nb, nx, key _ _ ha, key _ _ hb, key _ _ hx, hpos⟩

theorem pairPoint_of_append [Add P] [HDiv P R P] [OfNat R 2] {this this1 : Mesh P R}
    {a b x : Nat} (l : List (Node P)) (h1 : this1.nodeVector_ = this.nodeVector_ ++ l)
    (h : PairPoint this a b x) : PairPoint this1 a b x :=
  ⟨h.1, fun hab => midPoint_of_append l h1 (h.2 hab)⟩

theorem refState_of_nodeVector_eq [Add P] [HDiv P R P] [OfNat R 2] {V : Nat}
    {m m1 : Mesh P R} {M : NodeMatrix} (h : m1.nodeVector_ = m.nodeVector_)
    (hs : RefState V m M) : RefState V m1 M := by
  obtain ⟨hids, hV, hdiag, hvals⟩ := hs
  have hcount : m1.nodeCount = m.nodeCount := by unfold nodeCount; rw [h]
  refine ⟨idsAreIndices_of_nodeVector_eq h hids, by omega, hdiag, ?_⟩
  intro a b n hn
  obtain ⟨h1, h2⟩ := hvals a b n hn
  refine ⟨by omega, fun hab => ?_⟩
  obtain ⟨h3, h4, h5⟩ := h2 hab
  exact ⟨h3, h4, midPoint_of_append [] (by simp [h]) h5⟩

theorem refState_refinementNode [Add P] [HDiv P R P] [OfNat R 2] {V : Nat}
    {this : Mesh P R} {M : NodeMatrix} {a b : Nat}
    (hs : RefState V this M) (ha : a < this.nodeCount) (hb : b < this.nodeCount) :
    Returns (fun r => RefState V r.2.1 r.2.2 ∧ r.1 < r.2.1.nodeCount ∧
        (∃ l, l.length ≤ 1 ∧ r.2.1 = { this with nodeVector_ := this.nodeVector_ ++ l }) ∧
        (a < V → b < V → PairPoint r.2.1 a b r.1))
      (refinementNode this M a b) := by
  obtain ⟨hids, hV, hdiag, hvals⟩ := hs
  obtain ⟨na, hna, hida⟩ := ownNodeRef_of_lt (i := a) hids ha
  obtain ⟨nb, hnb, hidb⟩ := ownNodeRef_of_lt (i := b) hids hb
  have hgeta : this.nodeVector_[a]? = some na := by
    unfold ownNodeRef at hna
    split at hna
    · rename_i n hn
      cases hna
      exact hn
    · cases hna
  have hgetb : this.nodeVector_[b]? = some nb := by
    unfold ownNodeRef at hnb
    split at hnb
    · rename_i n hn
      cases hnb
      exact hn
    · cases hnb
  unfold refinementNode
  rw [hna, hnb]
  refine ⟨_, rfl, ?_⟩
  cases hM : M (na.id, nb.id) with
  | some n =>
    rw [createRefinementNode_of_some this _ _ M n hM]
    refine ⟨⟨hids, hV, hdiag, hvals⟩, (hvals _ _ _ hM).1, ⟨[], Nat.zero_le _, by simp⟩, ?_⟩
    intro haV hbV
    constructor
    · intro hab
      subst hab
      have := hdiag a haV
      rw [hida, hidb, this] at hM
      exact (Option.some.inj hM).symm
    · intro hab
      have := ((hvals _ _ _ hM).2 (by rw [hida, hidb]; exact_mod_cast hab)).2.2
      simpa [hida, hidb] using this
  | none =>
    by_cases hab : a = b
    · subst hab
      have hnn : nb = na := by
        rw [hgeta] at hgetb
        exact (Option.some.inj hgetb).symm
      subst hnn
      have hVa : ¬ a < V := by
        intro haV
        have := hdiag a haV
        rw [hida] at hM
        rw [hM] at this
        cases this
      unfold createRefinementNode_
      simp only [hM, if_true, createNode_eq]
      refine ⟨⟨?_, ?_, ?_, ?_⟩, ?_, ⟨_, ?_, rfl⟩, fun h => absurd h hVa⟩
      · exact idsAreIndices_of_append _ _ rfl hids
      · simp only [nodeCount, List.length_append, List.length_singleton] at hV ⊢
        omega
      · intro x hx
        rw [Function.update_apply, if_neg]
        · exact hdiag x hx
        · rw [hida]
          intro h
          have := (Prod.mk.inj h).1
          omega
      · intro x y n hn
        rw [Function.update_apply] at hn
        split at hn
        · rename_i hxy
          cases hn
          refine ⟨by simp [nodeCount], fun hne => ?_⟩
          exfalso
          apply hne
          have h1 := (Prod.mk.inj hxy).1
          have h2 := (Prod.mk.inj hxy).2
          rw [h1, h2]
        · obtain ⟨h1, h2⟩ := hvals x y n hn
          refine ⟨by simp only [nodeCount, List.length_append, List.length_singleton] at h1 ⊢; omega,
            fun hne => ?_⟩
          obtain ⟨h3, h4, h5⟩ := h2 hne
          exact ⟨h3, h4, midPoint_of_append _ rfl h5⟩
      · simp [nodeCount]
      · simp
    · have hptr : ({ ptr := .own a, node := na } : NodeRef P).ptr ≠
          ({ ptr := .own b, node := nb } : NodeRef P).ptr := by
        intro h
        apply hab
        simpa using h
      rw [createRefinementNode_of_none this _ _ M hptr hM]
      dsimp only
      have hmid : MidPoint
          ({ this with nodeVector_ := this.nodeVector_ ++
              [{ pos := (na.pos + nb.pos) / (2 : R), marker := markerT na nb,
                 id := (this.nodeCount : Int) }] } : Mesh P R) a b this.nodeCount := by
        refine ⟨na, nb, ⟨(na.pos + nb.pos) / (2 : R), markerT na nb, (this.nodeCount : Int)⟩,
          ?_, ?_, ?_, Or.inl rfl⟩
        · show (this.nodeVector_ ++ _)[a]? = some na
          rw [List.getElem?_append_left ha]
          exact hgeta
        · show (this.nodeVector_ ++ _)[b]? = some nb
          rw [List.getElem?_append_left hb]
          exact hgetb
        · show (this.nodeVector_ ++ _)[this.nodeCount]? = some _
          unfold nodeCount
          rw [List.getElem?_append_right (Nat.le_refl _)]
          simp
      have hmid' : MidPoint
          ({ this with nodeVector_ := this.nodeVector_ ++
              [{ pos := (na.pos + nb.pos) / (2 : R), marker := markerT na nb,
                 id := (this.nodeCount : Int) }] } : Mesh P R) b a this.nodeCount := by
        obtain ⟨xa, xb, xn, h1, h2, h3, h4⟩ := hmid
        exact ⟨xb, xa, xn, h2, h1, h3, h4.symm⟩
      refine ⟨⟨?_, ?_, ?_, ?_⟩, ?_, ⟨_, ?_, rfl⟩, fun _ _ => ⟨fun h => absurd h hab, fun _ => hmid⟩⟩
      · exact idsAreIndices_of_append _ _ rfl hids
      · simp only [nodeCount, List.length_append, List.length_singleton] at hV ⊢
        omega
      · intro x hx
        rw [Function.update_apply, if_neg, Function.update_apply, if_neg]
        · exact hdiag x hx
        · rw [hida, hidb]
          intro h
          have h1 := (Prod.mk.inj h).1
          have h2 := (Prod.mk.inj h).2
          omega
        · rw [hida, hidb]
          intro h
          have h1 := (Prod.mk.inj h).1
          have h2 := (Prod.mk.inj h).2
          omega
      · intro x y n hn
        rw [Function.update_apply] at hn
        split at hn
        · rename_i hxy
          cases hn
          have h1 := (Prod.mk.inj hxy).1
          have h2 := (Prod.mk.inj hxy).2
          rw [hidb] at h1
          rw [hida] at h2
          subst h1 h2
          refine ⟨by simp [nodeCount], fun _ => ⟨by omega, by omega, ?_⟩⟩
          simpa using hmid'
        · rw [Function.update_apply] at hn
          split at hn
          · rename_i hxy
            cases hn
            have h1 := (Prod.mk.inj hxy).1
            have h2 := (Prod.mk.inj hxy).2
            rw [hida] at h1
            rw [hidb] at h2
            subst h1 h2
            refine ⟨by simp [nodeCount], fun _ => ⟨by omega, by omega, ?_⟩⟩
            simpa using hmid
          · obtain ⟨h1, h2⟩ := hvals x y n hn
            refine ⟨by
              simp only [nodeCount, List.length_append, List.length_singleton] at h1 ⊢; omega,
              fun hne => ?_⟩
            obtain ⟨h3, h4, h5⟩ := h2 hne
            exact ⟨h3, h4, midPoint_of_append _ rfl h5⟩
      · simp [nodeCount]
      · simp

theorem nth_of_getElem? {l : List Nat} {k p : Nat} (h : l[k]? = some p) : nth l k = p := by
  simp [nth, List.getD_eq_getElem?_getD, h]

theorem getElem?_nth {l : List Nat} {k : Nat} (h : k < l.length) : l[k]? = some (nth l k) := by
  simp [nth, List.getD_eq_getElem?_getD, List.getElem?_eq_getElem h]

theorem nth_mem {l : List Nat} {k : Nat} (h : k < l.length) : nth l k ∈ l :=
  List.getElem?_mem (getElem?_nth h)

theorem refState_splitNodes [Add P] [HDiv P R P] [OfNat R 2] (w : Nat) {mesh : Mesh P R}
    (hids : IdsAreIndices mesh) {nodes : List Nat} (hnodes : ∀ p ∈ nodes, p < mesh.nodeCount) :
    ∀ (rows : List (Nat × Nat)) (n : List Nat) (this : Mesh P R) (M : NodeMatrix),
      (∀ row ∈ rows, row.1 < nodes.length ∧ row.2 < nodes.length) →
      RefState mesh.nodeCount this M → this.nodeCount + rows.length < 2 ^ w →
      Returns (fun r => RefState mesh.nodeCount r.2.1 r.2.2 ∧
          (∃ l, l.length ≤ rows.length ∧
            r.2.1 = { this with nodeVector_ := this.nodeVector_ ++ l }) ∧
          ∃ res, r.1 = n ++ res ∧
            List.Forall₂ (fun row x => x < r.2.1.nodeCount ∧
              PairPoint r.2.1 (nth nodes row.1) (nth nodes row.2) x) rows res)
        (splitNodes w mesh nodes rows n this M) := by
  intro rows
  induction rows with
  | nil =>
    intro n this M _ hst _
    exact ⟨_, rfl, hst, ⟨[], Nat.le_refl _, by simp⟩, [], by simp, List.Forall₂.nil⟩
  | cons row rows ih =>
    intro n this M hrows hst hfit
    obtain ⟨k0, k1⟩ := row
    obtain ⟨hk0, hk1⟩ := hrows (k0, k1) (List.mem_cons_self _ _)
    have hV := hst.2.1
    simp only [List.length_cons] at hfit
    have h0 : copyOfNode w this mesh nodes k0 = .ok (nth nodes k0) :=
      copyOfNode_of_lt hids (getElem?_nth hk0) (hnodes _ (nth_mem hk0)) hV (by omega)
    have h1 : copyOfNode w this mesh nodes k1 = .ok (nth nodes k1) :=
      copyOfNode_of_lt hids (getElem?_nth hk1) (hnodes _ (nth_mem hk1)) hV (by omega)
    obtain ⟨r1, hr1, hst1, hlt1, ⟨l1, hl1len, hl1⟩, hpp1⟩ :=
      refState_refinementNode (a := nth nodes k0) (b := nth nodes k1) hst
        (Nat.lt_of_lt_of_le (hnodes _ (nth_mem hk0)) hV)
        (Nat.lt_of_lt_of_le (hnodes _ (nth_mem hk1)) hV)
    have hn1 : r1.2.1.nodeCount = this.nodeCount + l1.length := by
      rw [hl1]; simp [nodeCount]
    obtain ⟨r, hr, hstr, ⟨l2, hl2len, hl2⟩, res, hres, hall⟩ :=
      ih (n ++ [r1.1]) r1.2.1 r1.2.2 (fun row hrow => hrows row (List.mem_cons_of_mem _ hrow))
        hst1 (by omega)
    refine ⟨r, ?_, hstr, ⟨l1 ++ l2, ?_, ?_⟩, r1.1 :: res, ?_, ?_⟩
    · simp only [splitNodes, h0, h1, hr1]
      exact hr
    · simp only [List.length_append, List.length_cons]
      omega
    · rw [hl2, hl1]
      simp
    · rw [hres]
      simp
    · refine List.Forall₂.cons ⟨?_, ?_⟩ hall
      · have : r.2.1.nodeCount = r1.2.1.nodeCount + l2.length := by
          rw [hl2]; simp [nodeCount]
        omega
      · exact pairPoint_of_append l2 (by rw [hl2])
          (hpp1 (hnodes _ (nth_mem hk0)) (hnodes _ (nth_mem hk1)))

theorem forall2_eq_map {α β : Type} {g : α → β} {l : List α} {u : List β}
    (h : List.Forall₂ (fun a x => x = g a) l u) : u = l.map g := by
  induction h with
  | nil => rfl
  | cons h1 _ ih => rw [List.map_cons, h1, ih]

theorem exists_of_forall2_mem {α β : Type} {F : α → β → Prop} {l : List α} {u : List β}
    (h : List.Forall₂ F l u) {x : β} (hx : x ∈ u) : ∃ a ∈ l, F a x := by
  induction h with
  | nil => cases hx
  | cons h1 _ ih =>
    rcases List.mem_cons.mp hx with hx | hx
    · subst hx
      exact ⟨_, List.mem_cons_self _ _, h1⟩
    · obtain ⟨a, ha, hF⟩ := ih hx
      exact ⟨a, List.mem_cons_of_mem _ ha, hF⟩

theorem map_nth_range (l : List Nat) : (List.range l.length).map (nth l) = l := by
  apply List.ext_getElem?
  intro i
  rcases Nat.lt_or_ge i l.length with h | h
  · rw [List.getElem?_map, List.getElem?_range h]
    simp [nth, List.getD_eq_getElem?_getD, List.getElem?_eq_getElem h]
  · rw [List.getElem?_eq_none (by simpa using h), List.getElem?_eq_none h]

theorem properTable_rows {k t : Nat} {T : List (Nat × Nat)} (hT : ProperTable k t T) :
    ∀ row ∈ T.take t, row.1 < k ∧ row.2 < k := by
  obtain ⟨hkt, -, hdiag, hrest⟩ := hT
  intro row hrow
  rw [← List.take_append_drop k (T.take t), List.mem_append] at hrow
  rcases hrow with h | h
  · rw [List.take_take, Nat.min_eq_left hkt, hdiag] at h
    obtain ⟨j, hj, rfl⟩ := List.mem_map.mp h
    have := List.mem_range.mp hj
    exact ⟨this, this⟩
  · exact ⟨(hrest row h).1, (hrest row h).2.1⟩

theorem tableRows_of_proper {k t : Nat} {T : List (Nat × Nat)} (hT : ProperTable k t T) :
    tableRows T t = .ok (T.take t) := by
  unfold tableRows
  rw [if_pos hT.2.1]

theorem returns_splitTable [Add P] [HDiv P R P] [OfNat R 2] (w : Nat) {mesh : Mesh P R}
    (hids : IdsAreIndices mesh) {k t : Nat} {T : List (Nat × Nat)} (hT : ProperTable k t T)
    {nodes : List Nat} (hlen : nodes.length = k) (hnodes : ∀ p ∈ nodes, p < mesh.nodeCount)
    {this : Mesh P R} {M : NodeMatrix} (hst : RefState mesh.nodeCount this M)
    (hfit : this.nodeCount + t < 2 ^ w) :
    Returns (fun r => RefState mesh.nodeCount r.2.1 r.2.2 ∧
        (∃ l, l.length ≤ t ∧ r.2.1 = { this with nodeVector_ := this.nodeVector_ ++ l }) ∧
        r.1.length = t ∧ r.1.take k = nodes ∧ (∀ x ∈ r.1.drop k, EdgeNode r.2.1 nodes x) ∧
        ∀ x ∈ r.1, x < r.2.1.nodeCount)
      (splitNodes w mesh nodes (T.take t) [] this M) := by
  have hrowsLen : (T.take t).length = t := by
    rw [List.length_take]
    exact Nat.min_eq_left hT.2.1
  obtain ⟨r, hr, hstr, ⟨l, hllen, hl⟩, res, hres, hall⟩ :=
    refState_splitNodes w hids hnodes (T.take t) [] this M
      (by rw [hlen]; exact properTable_rows hT) hst (by omega)
  rw [List.nil_append] at hres
  refine ⟨r, hr, hstr, ⟨l, by omega, hl⟩, ?_, ?_, ?_, ?_⟩
  · rw [hres, ← hall.length_eq, hrowsLen]
  · have h1 := List.forall₂_take k hall
    rw [List.take_take, Nat.min_eq_left hT.1, hT.2.2.1, List.forall₂_map_left_iff] at h1
    have h2 : List.Forall₂ (fun j x => x = nth nodes j) (List.range k) (res.take k) :=
      h1.imp (fun j x h => h.2.1 rfl)
    rw [hres, forall2_eq_map h2, ← hlen]
    exact map_nth_range nodes
  · intro x hx
    rw [hres] at hx
    obtain ⟨row, hrow, -, hpp⟩ := exists_of_forall2_mem (List.forall₂_drop k hall) hx
    obtain ⟨h1, h2, h3⟩ := hT.2.2.2 row hrow
    exact ⟨row.1, row.2, nth nodes row.1, nth nodes row.2, h3, getElem?_nth (by omega),
      getElem?_nth (by omega), hpp⟩
  · intro x hx
    rw [hres] at hx
    obtain ⟨row, -, hlt, -⟩ := exists_of_forall2_mem hall hx
    exact hlt

theorem createCells__eq [Inhabited R] (shape : CellShape) (marker : Int) :
    ∀ (lists : List (List Nat)) (this : Mesh P R),
      ∃ ch, createCells_ shape marker lists this =
          { this with cellVector_ := this.cellVector_ ++ ch } ∧
        ch.length = lists.length ∧ ∀ c ∈ ch, c.shape = shape ∧ c.marker = marker := by
  intro lists
  induction lists with
  | nil =>
    intro this
    exact ⟨[], by simp [createCells_], rfl, by simp⟩
  | cons ns rest ih =>
    intro this
    obtain ⟨ch, h1, h2, h3⟩ := ih (createCell_ shape this ns marker this.cellCount).2
    refine ⟨(⟨shape, ns, marker, (this.cellCount : Int), default, [], false⟩ : Cell R) :: ch,
      ?_, ?_, ?_⟩
    · simp only [createCells_]
      rw [h1]
      simp [createCell_]
    · simp [h2]
    · intro c hc
      rcases List.mem_cons.mp hc with hc | hc
      · subst hc
        exact ⟨rfl, rfl⟩
      · exact h3 c hc

theorem tetrahedronCount_eq_zero {ch : List (Cell R)}
    (h : ∀ c ∈ ch, c.shape ≠ CellShape.Tetrahedron) : tetrahedronCount ch = 0 := by
  unfold tetrahedronCount
  rw [List.countP_eq_zero]
  intro c hc
  simpa using h c hc

theorem tetrahedronCount_eq_length {ch : List (Cell R)}
    (h : ∀ c ∈ ch, c.shape = CellShape.Tetrahedron) : tetrahedronCount ch = ch.length := by
  unfold tetrahedronCount
  rw [List.countP_eq_length]
  intro c hc
  simpa using h c hc

theorem cellStep_triangle [Add P] [HDiv P R P] [OfNat R 2] [Inhabited R] (w : Nat)
    (ext : Externals P R) (tables : SplitTables) {mesh : Mesh P R} (h2 : Bool) {c : Cell R}
    {this : Mesh P R} {M : NodeMatrix} (hids : IdsAreIndices mesh)
    (hshape : c.shape = CellShape.Triangle) (hc : CellOver mesh.nodeCount c)
    (hst : RefState mesh.nodeCount this M) (hfit : this.nodeCount + 27 < 2 ^ w) :
    Returns (CellStep mesh.nodeCount h2 c this) (refineCell w ext tables mesh h2 c this M) := by
  obtain ⟨hlen, hval⟩ := hc
  rw [hshape] at hlen
  obtain ⟨a, b, d, hnodes⟩ := List.length_eq_three.mp hlen
  have ha : a < mesh.nodeCount := hval a (by simp [hnodes])
  have hb : b < mesh.nodeCount := hval b (by simp [hnodes])
  have hd : d < mesh.nodeCount := hval d (by simp [hnodes])
  have hV := hst.2.1
  unfold refineCell
  rw [hshape]
  dsimp only
  refine Returns.step_eq (copyOfNode_of_lt hids (by rw [hnodes]; rfl) ha hV (by omega)) ?_
  refine Returns.step_eq (copyOfNode_of_lt hids (by rw [hnodes]; rfl) hb hV (by omega)) ?_
  refine Returns.step_eq (copyOfNode_of_lt hids (by rw [hnodes]; rfl) hd hV (by omega)) ?_
  refine Returns.step (refState_refinementNode hst (by omega) (by omega)) (fun r1 hr1 => ?_)
  obtain ⟨h1, hlt1, ⟨l1, hl1len, hl1⟩, hpp1⟩ := hr1
  have hn1 : r1.2.1.nodeCount = this.nodeCount + l1.length := by
    rw [hl1]; simp [nodeCount]
  have hb1 : b < r1.2.1.nodeCount := by omega
  have hd1 : d < r1.2.1.nodeCount := by omega
  refine Returns.step (refState_refinementNode h1 hb1 hd1) (fun r2 hr2 => ?_)
  obtain ⟨h2', hlt2, ⟨l2, hl2len, hl2⟩, hpp2⟩ := hr2
  have hn2 : r2.2.1.nodeCount = r1.2.1.nodeCount + l2.length := by
    rw [hl2]; simp [nodeCount]
  have hd2 : d < r2.2.1.nodeCount := by omega
  have ha2 : a < r2.2.1.nodeCount := by omega
  refine Returns.step (refState_refinementNode h2' hd2 ha2) (fun r3 hr3 => ?_)
  obtain ⟨h3, hlt3, ⟨l3, hl3len, hl3⟩, hpp3⟩ := hr3
  have hn3 : r3.2.1.nodeCount = r2.2.1.nodeCount + l3.length := by
    rw [hl3]; simp [nodeCount]
  refine Returns.done ?_
  obtain ⟨ch, hch, hchlen, hchall⟩ := createCells__eq (P := P) CellShape.Triangle c.marker
    [[a, r1.1, r3.1], [b, r2.1, r1.1], [d, r3.1, r2.1], [r1.1, r2.1, r3.1]] r3.2.1
  have hq : QuadraticNodes r3.2.1 c [a, b, d, r1.1, r2.1, r3.1] := by
    refine ⟨by rw [hshape]; rfl, by rw [hnodes]; rfl, ?_, ?_⟩
    · intro x hx
      rw [hnodes] at hx ⊢
      simp only [List.length_cons, List.length_nil, List.drop_succ_cons, List.drop_zero,
        List.mem_cons, List.mem_singleton, List.not_mem_nil, or_false] at hx
      rcases hx with hx | hx | hx
      · subst hx
        exact ⟨0, 1, a, b, by decide, rfl, rfl,
          pairPoint_of_append (l2 ++ l3) (by rw [hl3, hl2]; simp) (hpp1 ha hb)⟩
      · subst hx
        exact ⟨1, 2, b, d, by decide, rfl, rfl,
          pairPoint_of_append l3 (by rw [hl3]) (hpp2 hb hd)⟩
      · subst hx
        exact ⟨2, 0, d, a, by decide, rfl, rfl, hpp3 hd ha⟩
    · intro x hx
      simp only [List.mem_cons, List.mem_singleton, List.not_mem_nil, or_false] at hx
      rcases hx with hx | hx | hx | hx | hx | hx <;> subst hx <;> omega
  have hext : r3.2.1 = { this with nodeVector_ := this.nodeVector_ ++ (l1 ++ l2 ++ l3) } := by
    rw [hl3, hl2, hl1]
    simp
  cases h2 with
  | false =>
    simp only [Bool.false_eq_true, if_false]
    refine ⟨h3, ⟨l1 ++ l2 ++ l3, [], ?_, ?_, fun _ => rfl, fun h => absurd h (by decide)⟩, hq⟩
    · simp only [List.length_append]; omega
    · rw [hext]; simp
  | true =>
    simp only [if_true]
    rw [hch]
    refine ⟨refState_of_nodeVector_eq rfl h3,
      ⟨l1 ++ l2 ++ l3, ch, ?_, ?_, fun h => absurd h (by decide), fun _ => ?_⟩, ?_⟩
    · simp only [List.length_append]; omega
    · rw [hext]
    · rw [hshape, if_neg (by decide)]
      exact tetrahedronCount_eq_zero (fun c hc => by rw [(hchall c hc).1]; decide)
    · exact ⟨hq.1, hq.2.1, hq.2.2.1, hq.2.2.2⟩

theorem Grows.refl (this : Mesh P R) : Grows this this 0 := ⟨[], Nat.le_refl _, by simp⟩

theorem Grows.trans {a b c : Mesh P R} {j k : Nat} (h1 : Grows a b j) (h2 : Grows b c k) :
    Grows a c (j + k) := by
  obtain ⟨l1, hl1, rfl⟩ := h1
  obtain ⟨l2, hl2, rfl⟩ := h2
  exact ⟨l1 ++ l2, by simp only [List.length_append]; omega, by simp⟩

theorem Grows.nodeCount_le {a b : Mesh P R} {k : Nat} (h : Grows a b k) :
    a.nodeCount ≤ b.nodeCount ∧ b.nodeCount ≤ a.nodeCount + k := by
  obtain ⟨l, hl, rfl⟩ := h
  simp only [nodeCount, List.length_append]
  omega

theorem Grows.lt {a b : Mesh P R} {k x : Nat} (h : Grows a b k) (hx : x < a.nodeCount) :
    x < b.nodeCount := Nat.lt_of_lt_of_le hx h.nodeCount_le.1

theorem Grows.nodeVector {a b : Mesh P R} {k : Nat} (h : Grows a b k) :
    ∃ l, b.nodeVector_ = a.nodeVector_ ++ l := by
  obtain ⟨l, -, rfl⟩ := h
  exact ⟨l, rfl⟩

theorem Grows.pairPoint [Add P] [HDiv P R P] [OfNat R 2] {a b : Mesh P R} {k x y z : Nat}
    (h : Grows a b k) (hp : PairPoint a x y z) : PairPoint b x y z := by
  obtain ⟨l, hl⟩ := h.nodeVector
  exact pairPoint_of_append l hl hp

theorem quadraticNodes_of_append [Add P] [HDiv P R P] [OfNat R 2] {this this1 : Mesh P R}
    {c : Cell R} {n : List Nat} (l : List (Node P))
    (h : this1.nodeVector_ = this.nodeVector_ ++ l) (hq : QuadraticNodes this c n) :
    QuadraticNodes this1 c n := by
  obtain ⟨h1, h2, h3, h4⟩ := hq
  refine ⟨h1, h2, ?_, ?_⟩
  · intro x hx
    obtain ⟨k0, k1, a, b, hk, ha, hb, hp⟩ := h3 x hx
    exact ⟨k0, k1, a, b, hk, ha, hb, pairPoint_of_append l h hp⟩
  · intro x hx
    have := h4 x hx
    simp only [nodeCount, h, List.length_append] at this ⊢
    omega

theorem createCell_eq [Inhabited R] (m : Mesh P R) (ns : List Nat) (marker : Int) :
    ∃ ch, (createCell m ns marker).2 = { m with cellVector_ := m.cellVector_ ++ ch } ∧
      ∀ c ∈ ch, c.shape = CellShape.Tetrahedron → ns.length = 4 := by
  unfold createCell
  split <;> (try split) <;>
    first
    | (refine ⟨[_], rfl, ?_⟩
       intro c hc
       simp only [List.mem_singleton] at hc
       subst hc
       intro h
       first
       | assumption
       | cases h)
    | exact ⟨[], by simp, by simp⟩

theorem createCells_eq [Inhabited R] (marker : Int) :
    ∀ (lists : List (List Nat)) (this : Mesh P R), (∀ ns ∈ lists, ns.length ≠ 4) →
      ∃ ch, createCells marker lists this =
          { this with cellVector_ := this.cellVector_ ++ ch } ∧
        ∀ c ∈ ch, c.shape ≠ CellShape.Tetrahedron := by
  intro lists
  induction lists with
  | nil =>
    intro this _
    exact ⟨[], by simp [createCells], by simp⟩
  | cons ns rest ih =>
    intro this hl
    obtain ⟨ch1, h1, h1'⟩ := createCell_eq this ns marker
    obtain ⟨ch, h2, h3⟩ := ih (createCell this ns marker).2
      (fun x hx => hl x (List.mem_cons_of_mem _ hx))
    refine ⟨ch1 ++ ch, ?_, ?_⟩
    · simp only [createCells]
      rw [h2, h1]
      simp
    · intro c hc
      rcases List.mem_append.mp hc with hc | hc
      · exact fun h => hl ns (List.mem_cons_self _ _) (h1' c hc h)
      · exact h3 c hc

theorem refState_createNode [Add P] [HDiv P R P] [OfNat R 2] {V : Nat} {this : Mesh P R}
    {M : NodeMatrix} (pos : P) (marker : Int) (hs : RefState V this M) :
    RefState V (createNode this pos marker).2 M ∧ Grows this (createNode this pos marker).2 1 ∧
    (createNode this pos marker).1 < (createNode this pos marker).2.nodeCount := by
  obtain ⟨hids, hV, hdiag, hvals⟩ := hs
  rw [createNode_eq]
  refine ⟨⟨idsAreIndices_of_append pos marker rfl hids, ?_, hdiag, ?_⟩, ⟨_, ?_, rfl⟩, ?_⟩
  · simp only [nodeCount, List.length_append, List.length_singleton] at hV ⊢
    omega
  · intro a b n hn
    obtain ⟨h1, h2⟩ := hvals a b n hn
    refine ⟨by simp only [nodeCount, List.length_append, List.length_singleton] at h1 ⊢; omega,
      fun hne => ?_⟩
    obtain ⟨h3, h4, h5⟩ := h2 hne
    exact ⟨h3, h4, midPoint_of_append _ rfl h5⟩
  · simp
  · simp [nodeCount]

theorem cellStep_of [Add P] [HDiv P R P] [OfNat R 2] {V : Nat} {h2 : Bool} {c : Cell R}
    {this this1 this2 : Mesh P R} {M : NodeMatrix} {n : List Nat} {k : Nat}
    {ch : List (Cell R)} (hs : RefState V this1 M) (hg : Grows this this1 k) (hk : k ≤ 27)
    (hq : QuadraticNodes this1 c n)
    (heq : this2 = { this1 with cellVector_ := this1.cellVector_ ++ ch })
    (hfalse : h2 = false → ch = [])
    (htrue : h2 = true →
      tetrahedronCount ch = if c.shape = CellShape.Tetrahedron then 8 else 0) :
    CellStep V h2 c this (n, this2, M) := by
  obtain ⟨l, hl, rfl⟩ := hg
  subst heq
  exact ⟨refState_of_nodeVector_eq rfl hs, ⟨l, ch, by omega, rfl, hfalse, htrue⟩,
    quadraticNodes_of_append [] (by simp) hq⟩

theorem length_eq_four {l : List Nat} (h : l.length = 4) : ∃ a b c d, l = [a, b, c, d] := by
  match l, h with
  | [a, b, c, d], _ => exact ⟨a, b, c, d, rfl⟩

theorem cellStep_edgeCell [Add P] [HDiv P R P] [OfNat R 2] [Inhabited R] (w : Nat)
    (ext : Externals P R) (tables : SplitTables) {mesh : Mesh P R} (h2 : Bool) {c : Cell R}
    {this : Mesh P R} {M : NodeMatrix} (hids : IdsAreIndices mesh)
    (hshape : c.shape = CellShape.EdgeCell) (hc : CellOver mesh.nodeCount c)
    (hst : RefState mesh.nodeCount this M) (hfit : this.nodeCount + 27 < 2 ^ w) :
    Returns (CellStep mesh.nodeCount h2 c this) (refineCell w ext tables mesh h2 c this M) := by
  obtain ⟨hlen, hval⟩ := hc
  rw [hshape] at hlen
  obtain ⟨a, b, hnodes⟩ := List.length_eq_two.mp hlen
  have ha : a < mesh.nodeCount := hval a (by simp [hnodes])
  have hb : b < mesh.nodeCount := hval b (by simp [hnodes])
  have hV := hst.2.1
  unfold refineCell
  rw [hshape]
  dsimp only
  refine Returns.step_eq (copyOfNode_of_lt hids (by rw [hnodes]; rfl) ha hV (by omega)) ?_
  refine Returns.step_eq (copyOfNode_of_lt hids (by rw [hnodes]; rfl) hb hV (by omega)) ?_
  refine Returns.step (refState_refinementNode hst (by omega) (by omega)) (fun r1 hr1 => ?_)
  obtain ⟨h1, hlt1, hg1, hpp1⟩ := hr1
  have hg : Grows this r1.2.1 1 := hg1
  have hn1 := hg.nodeCount_le
  refine Returns.done ?_
  obtain ⟨ch, hch, hchall⟩ := createCells_eq (P := P) (R := R) c.marker
    [[a, r1.1], [r1.1, b]] r1.2.1 (by simp)
  have hq : QuadraticNodes r1.2.1 c [a, b, r1.1] := by
    refine ⟨by rw [hshape]; rfl, by rw [hnodes]; rfl, ?_, ?_⟩
    · intro x hx
      rw [hnodes] at hx ⊢
      simp only [List.length_cons, List.length_nil, List.drop_succ_cons, List.drop_zero,
        List.mem_singleton] at hx
      subst hx
      exact ⟨0, 1, a, b, by decide, rfl, rfl, hpp1 ha hb⟩
    · intro x hx
      simp only [List.mem_cons, List.mem_singleton, List.not_mem_nil, or_false] at hx
      rcases hx with hx | hx | hx <;> subst hx <;> omega
  cases h2 with
  | false =>
    simp only [Bool.false_eq_true, if_false]
    exact cellStep_of h1 hg (by omega) hq (by simp) (fun _ => rfl)
      (fun h => absurd h (by decide))
  | true =>
    simp only [if_true]
    refine cellStep_of h1 hg (by omega) hq hch (fun h => absurd h (by decide)) (fun _ => ?_)
    rw [hshape, if_neg (by decide)]
    exact tetrahedronCount_eq_zero hchall

theorem cellStep_quadrangle [Add P] [HDiv P R P] [OfNat R 2] [Inhabited R] (w : Nat)
    (ext : Externals P R) (tables : SplitTables) {mesh : Mesh P R} (h2 : Bool) {c : Cell R}
    {this : Mesh P R} {M : NodeMatrix} (hids : IdsAreIndices mesh)
    (hshape : c.shape = CellShape.Quadrangle) (hc : CellOver mesh.nodeCount c)
    (hst : RefState mesh.nodeCount this M) (hfit : this.nodeCount + 27 < 2 ^ w) :
    Returns (CellStep mesh.nodeCount h2 c this) (refineCell w ext tables mesh h2 c this M) := by
  obtain ⟨hlen, hval⟩ := hc
  rw [hshape] at hlen
  obtain ⟨a, b, d, e, hnodes⟩ := length_eq_four hlen
  have ha : a < mesh.nodeCount := hval a (by simp [hnodes])
  have hb : b < mesh.nodeCount := hval b (by simp [hnodes])
  have hd : d < mesh.nodeCount := hval d (by simp [hnodes])
  have he : e < mesh.nodeCount := hval e (by simp [hnodes])
  have hV := hst.2.1
  unfold refineCell
  rw [hshape]
  dsimp only
  refine Returns.step_eq (copyOfNode_of_lt hids (by rw [hnodes]; rfl) ha hV (by omega)) ?_
  refine Returns.step_eq (copyOfNode_of_lt hids (by rw [hnodes]; rfl) hb hV (by omega)) ?_
  refine Returns.step_eq (copyOfNode_of_lt hids (by rw [hnodes]; rfl) hd hV (by omega)) ?_
  refine Returns.step_eq (copyOfNode_of_lt hids (by rw [hnodes]; rfl) he hV (by omega)) ?_
  refine Returns.step (refState_refinementNode hst (by omega) (by omega)) (fun r1 hr1 => ?_)
  obtain ⟨h1, hlt1, hg1', hpp1⟩ := hr1
  have hg1 : Grows this r1.2.1 1 := hg1'
  have hn1 := hg1.nodeCount_le
  have hb1 : b < r1.2.1.nodeCount := by omega
  have hd1 : d < r1.2.1.nodeCount := by omega
  refine Returns.step (refState_refinementNode h1 hb1 hd1) (fun r2 hr2 => ?_)
  obtain ⟨h2', hlt2, hg2', hpp2⟩ := hr2
  have hg2 : Grows r1.2.1 r2.2.1 1 := hg2'
  have hn2 := hg2.nodeCount_le
  have hd2 : d < r2.2.1.nodeCount := by omega
  have he2 : e < r2.2.1.nodeCount := by omega
  refine Returns.step (refState_refinementNode h2' hd2 he2) (fun r3 hr3 => ?_)
  obtain ⟨h3, hlt3, hg3', hpp3⟩ := hr3
  have hg3 : Grows r2.2.1 r3.2.1 1 := hg3'
  have hn3 := hg3.nodeCount_le
  have he3 : e < r3.2.1.nodeCount := by omega
  have ha3 : a < r3.2.1.nodeCount := by omega
  refine Returns.step (refState_refinementNode h3 he3 ha3) (fun r4 hr4 => ?_)
  obtain ⟨h4, hlt4, hg4', hpp4⟩ := hr4
  have hg4 : Grows r3.2.1 r4.2.1 1 := hg4'
  have hn4 := hg4.nodeCount_le
  have hg : Grows this r4.2.1 4 := ((hg1.trans hg2).trans hg3).trans hg4
  refine Returns.done ?_
  have hq : QuadraticNodes r4.2.1 c [a, b, d, e, r1.1, r2.1, r3.1, r4.1] := by
    refine ⟨by rw [hshape]; rfl, by rw [hnodes]; rfl, ?_, ?_⟩
    · intro x hx
      rw [hnodes] at hx ⊢
      simp only [List.length_cons, List.length_nil, List.drop_succ_cons, List.drop_zero,
        List.mem_cons, List.mem_singleton, List.not_mem_nil, or_false] at hx
      rcases hx with hx | hx | hx | hx
      · subst hx
        exact ⟨0, 1, a, b, by decide, rfl, rfl,
          ((hg2.trans hg3).trans hg4).pairPoint (hpp1 ha hb)⟩
      · subst hx
        exact ⟨1, 2, b, d, by decide, rfl, rfl, (hg3.trans hg4).pairPoint (hpp2 hb hd)⟩
      · subst hx
        exact ⟨2, 3, d, e, by decide, rfl, rfl, hg4.pairPoint (hpp3 hd he)⟩
      · subst hx
        exact ⟨3, 0, e, a, by decide, rfl, rfl, hpp4 he ha⟩
    · intro x hx
      simp only [List.mem_cons, List.mem_singleton, List.not_mem_nil, or_false] at hx
      rcases hx with hx | hx | hx | hx | hx | hx | hx | hx <;> subst hx <;> omega
  cases h2 with
  | false =>
    simp only [Bool.false_eq_true, if_false]
    exact cellStep_of h4 hg (by omega) hq (by simp) (fun _ => rfl)
      (fun h => absurd h (by decide))
  | true =>
    simp only [if_true]
    obtain ⟨h5, hg5, -⟩ := refState_createNode (ext.shapeCentre (nodePositions mesh c.nodes))
      ext.defaultMarker h4
    obtain ⟨l5, hl5⟩ := hg5.nodeVector
    obtain ⟨ch, hch, hchlen, hchall⟩ := createCells__eq (P := P) (R := R) CellShape.Quadrangle
      c.marker
      [[a, r1.1, (createNode r4.2.1 (ext.shapeCentre (nodePositions mesh c.nodes))
          ext.defaultMarker).1, r4.1],
       [b, r2.1, (createNode r4.2.1 (ext.shapeCentre (nodePositions mesh c.nodes))
          ext.defaultMarker).1, r1.1],
       [d, r3.1, (createNode r4.2.1 (ext.shapeCentre (nodePositions mesh c.nodes))
          ext.defaultMarker).1, r2.1],
       [e, r4.1, (createNode r4.2.1 (ext.shapeCentre (nodePositions mesh c.nodes))
          ext.defaultMarker).1, r3.1]]
      (createNode r4.2.1 (ext.shapeCentre (nodePositions mesh c.nodes)) ext.defaultMarker).2
    refine cellStep_of h5 (hg.trans hg5) (by omega) (quadraticNodes_of_append l5 hl5 hq) hch
      (fun h => absurd h (by decide)) (fun _ => ?_)
    rw [hshape, if_neg (by decide)]
    exact tetrahedronCount_eq_zero (fun c hc => by rw [(hchall c hc).1]; decide)

theorem quadraticNodes_of_split [Add P] [HDiv P R P] [OfNat R 2] {this : Mesh P R} {c : Cell R}
    {n : List Nat} {k t : Nat} (hlen : c.nodes.length = k) (ht : quadraticCount c.shape = t)
    (h1 : n.length = t) (h2 : n.take k = c.nodes)
    (h3 : ∀ x ∈ n.drop k, EdgeNode this c.nodes x) (h4 : ∀ x ∈ n, x < this.nodeCount) :
    QuadraticNodes this c n := by
  refine ⟨by rw [ht, h1], by rw [hlen, h2], ?_, h4⟩
  rw [hlen]
  exact h3

theorem cellStep_tetrahedron [Add P] [HDiv P R P] [OfNat R 2] [Inhabited R] (w : Nat)
    (ext : Externals P R) {tables : SplitTables} {mesh : Mesh P R} (h2 : Bool) {c : Cell R}
    {this : Mesh P R} {M : NodeMatrix} (hids : IdsAreIndices mesh)
    (htab : ProperTables tables)
    (hshape : c.shape = CellShape.Tetrahedron) (hc : CellOver mesh.nodeCount c)
    (hst : RefState mesh.nodeCount this M) (hfit : this.nodeCount + 27 < 2 ^ w)
    (hok : unsplittable h2 this.oldTet10NumberingStyle_ CellShape.Tetrahedron = false) :
    Returns (CellStep mesh.nodeCount h2 c this) (refineCell w ext tables mesh h2 c this M) := by
  obtain ⟨hlen, hval⟩ := hc
  rw [hshape] at hlen
  have hlen4 : c.nodes.length = 4 := hlen
  unfold refineCell
  rw [hshape]
  dsimp only
  cases hflag : this.oldTet10NumberingStyle_ with
  | true =>
    simp only [if_true]
    refine Returns.step_eq (tableRows_of_proper htab.1) ?_
    refine Returns.step (returns_splitTable w hids htab.1 hlen4 hval hst (by omega))
      (fun r hr => ?_)
    obtain ⟨hs, hg', hrlen, htake, hmid, hall⟩ := hr
    have hg : Grows this r.2.1 10 := hg'
    have hq : QuadraticNodes r.2.1 c r.1 :=
      quadraticNodes_of_split hlen4 (by rw [hshape]; rfl) hrlen htake hmid hall
    refine Returns.done ?_
    cases h2 with
    | false =>
      simp only [Bool.false_eq_true, if_false]
      exact cellStep_of hs hg (by omega) hq (by simp) (fun _ => rfl)
        (fun h => absurd h (by decide))
    | true =>
      simp only [if_true]
      obtain ⟨ch, hch, hchlen, hchall⟩ := createCells__eq (P := P) (R := R)
        CellShape.Tetrahedron c.marker
        [[nth r.1 4, nth r.1 6, nth r.1 5, nth r.1 0], [nth r.1 4, nth r.1 5, nth r.1 6, nth r.1 9],
         [nth r.1 7, nth r.1 9, nth r.1 4, nth r.1 1], [nth r.1 7, nth r.1 4, nth r.1 9, nth r.1 5],
         [nth r.1 8, nth r.1 7, nth r.1 5, nth r.1 2], [nth r.1 8, nth r.1 5, nth r.1 7, nth r.1 9],
         [nth r.1 6, nth r.1 9, nth r.1 8, nth r.1 3], [nth r.1 6, nth r.1 8, nth r.1 9, nth r.1 5]]
        r.2.1
      refine cellStep_of hs hg (by omega) hq hch (fun h => absurd h (by decide)) (fun _ => ?_)
      rw [hshape, if_pos rfl, tetrahedronCount_eq_length (fun c hc => (hchall c hc).1), hchlen]
      rfl
  | false =>
    have hh2 : h2 = false := by
      rw [hflag] at hok
      simpa [unsplittable] using hok
    subst hh2
    simp only [Bool.false_eq_true, if_false]
    refine Returns.step_eq (tableRows_of_proper htab.2.1) ?_
    refine Returns.step (returns_splitTable w hids htab.2.1 hlen4 hval hst (by omega))
      (fun r hr => ?_)
    obtain ⟨hs, hg', hrlen, htake, hmid, hall⟩ := hr
    have hg : Grows this r.2.1 10 := hg'
    have hq : QuadraticNodes r.2.1 c r.1 :=
      quadraticNodes_of_split hlen4 (by rw [hshape]; rfl) hrlen htake hmid hall
    refine Returns.done ?_
    exact cellStep_of hs hg (by omega) hq (by simp) (fun _ => rfl)
      (fun h => absurd h (by decide))

theorem toImpl_tetrahedron [Add P] [HDiv P R P] [OfNat R 2] [Inhabited R] (w : Nat)
    (ext : Externals P R) {tables : SplitTables} {mesh : Mesh P R} {c : Cell R}
    {this : Mesh P R} {M : NodeMatrix} (hids : IdsAreIndices mesh)
    (htab : ProperTables tables)
    (hshape : c.shape = CellShape.Tetrahedron) (hc : CellOver mesh.nodeCount c)
    (hst : RefState mesh.nodeCount this M) (hfit : this.nodeCount + 27 < 2 ^ w)
    (hflag : this.oldTet10NumberingStyle_ = false) :
    refineCell w ext tables mesh true c this M = .error .toImpl := by
  obtain ⟨hlen, hval⟩ := hc
  rw [hshape] at hlen
  have hlen4 : c.nodes.length = 4 := hlen
  unfold refineCell
  rw [hshape]
  dsimp only
  rw [hflag]
  simp only [Bool.false_eq_true, if_false]
  refine Returns.step_error (Q := fun rows => rows = tables.Tet10NodeSplit.take 10)
    ⟨_, tableRows_of_proper htab.2.1, rfl⟩ (fun rows hrows => ?_)
  subst hrows
  refine Returns.step_error (returns_splitTable w hids htab.2.1 hlen4 hval hst (by omega))
    (fun r _ => ?_)
  rfl

theorem cellStep_pyramid [Add P] [HDiv P R P] [OfNat R 2] [Inhabited R] (w : Nat)
    (ext : Externals P R) {tables : SplitTables} {mesh : Mesh P R} {c : Cell R}
    {this : Mesh P R} {M : NodeMatrix} (hids : IdsAreIndices mesh)
    (htab : ProperTables tables)
    (hshape : c.shape = CellShape.Pyramid) (hc : CellOver mesh.nodeCount c)
    (hst : RefState mesh.nodeCount this M) (hfit : this.nodeCount + 27 < 2 ^ w) :
    Returns (CellStep mesh.nodeCount false c this)
      (refineCell w ext tables mesh false c this M) := by
  obtain ⟨hlen, hval⟩ := hc
  rw [hshape] at hlen
  have hlen5 : c.nodes.length = 5 := hlen
  unfold refineCell
  rw [hshape]
  dsimp only
  refine Returns.step_eq (tableRows_of_proper htab.2.2.2.2) ?_
  refine Returns.step (returns_splitTable w hids htab.2.2.2.2 hlen5 hval hst (by omega))
    (fun r hr => ?_)
  obtain ⟨hs, hg', hrlen, htake, hmid, hall⟩ := hr
  have hg : Grows this r.2.1 13 := hg'
  have hq : QuadraticNodes r.2.1 c r.1 :=
    quadraticNodes_of_split hlen5 (by rw [hshape]; rfl) hrlen htake hmid hall
  simp only [Bool.false_eq_true, if_false]
  refine Returns.done ?_
  exact cellStep_of hs hg (by omega) hq (by simp) (fun _ => rfl)
    (fun h => absurd h (by decide))

theorem toImpl_pyramid [Add P] [HDiv P R P] [OfNat R 2] [Inhabited R] (w : Nat)
    (ext : Externals P R) {tables : SplitTables} {mesh : Mesh P R} {c : Cell R}
    {this : Mesh P R} {M : NodeMatrix} (hids : IdsAreIndices mesh)
    (htab : ProperTables tables)
    (hshape : c.shape = CellShape.Pyramid) (hc : CellOver mesh.nodeCount c)
    (hst : RefState mesh.nodeCount this M) (hfit : this.nodeCount + 27 < 2 ^ w) :
    refineCell w ext tables mesh true c this M = .error .toImpl := by
  obtain ⟨hlen, hval⟩ := hc
  rw [hshape] at hlen
  have hlen5 : c.nodes.length = 5 := hlen
  unfold refineCell
  rw [hshape]
  dsimp only
  refine Returns.step_error (Q := fun rows => rows = tables.Pyramid13NodeSplit.take 13)
    ⟨_, tableRows_of_proper htab.2.2.2.2, rfl⟩ (fun rows hrows => ?_)
  subst hrows
  refine Returns.step_error (returns_splitTable w hids htab.2.2.2.2 hlen5 hval hst (by omega))
    (fun r _ => ?_)
  rfl

theorem cellStep_hexahedron [Add P] [HDiv P R P] [OfNat R 2] [Inhabited R] (w : Nat)
    (ext : Externals P R) {tables : SplitTables} {mesh : Mesh P R} (h2 : Bool) {c : Cell R}
    {this : Mesh P R} {M : NodeMatrix} (hids : IdsAreIndices mesh)
    (htab : ProperTables tables)
    (hshape : c.shape = CellShape.Hexahedron) (hc : CellOver mesh.nodeCount c)
    (hst : RefState mesh.nodeCount this M) (hfit : this.nodeCount + 27 < 2 ^ w) :
    Returns (CellStep mesh.nodeCount h2 c this) (refineCell w ext tables mesh h2 c this M) := by
  obtain ⟨hlen, hval⟩ := hc
  rw [hshape] at hlen
  have hlen8 : c.nodes.length = 8 := hlen
  unfold refineCell
  rw [hshape]
  dsimp only
  refine Returns.step_eq (tableRows_of_proper htab.2.2.1) ?_
  refine Returns.step (returns_splitTable w hids htab.2.2.1 hlen8 hval hst (by omega))
    (fun r hr => ?_)
  obtain ⟨hs, hg', hrlen, htake, hmid, hall⟩ := hr
  have hg : Grows this r.2.1 20 := hg'
  have hq : QuadraticNodes r.2.1 c r.1 :=
    quadraticNodes_of_split hlen8 (by rw [hshape]; rfl) hrlen htake hmid hall
  have hnth : ∀ j, j < 20 → nth r.1 j < r.2.1.nodeCount :=
    fun j hj => hall _ (nth_mem (by omega))
  cases h2 with
  | false =>
    simp only [Bool.false_eq_true, if_false]
    refine Returns.done ?_
    exact cellStep_of hs hg (by omega) hq (by simp) (fun _ => rfl)
      (fun h => absurd h (by decide))
  | true =>
    simp only [if_true]
    have a1 := hnth 8 (by decide)
    have b1 := hnth 10 (by decide)
    refine Returns.step (refState_refinementNode hs a1 b1) (fun q1 hq1 => ?_)
    obtain ⟨s1, lt1, g1', -⟩ := hq1
    have g1 : Grows r.2.1 q1.2.1 1 := g1'
    have a2 := g1.lt (hnth 12 (by decide))
    have b2 := g1.lt (hnth 14 (by decide))
    refine Returns.step (refState_refinementNode s1 a2 b2) (fun q2 hq2 => ?_)
    obtain ⟨s2, lt2, g2', -⟩ := hq2
    have g2 : Grows q1.2.1 q2.2.1 1 := g2'
    have G2 := g1.trans g2
    have a3 := G2.lt (hnth 8 (by decide))
    have b3 := G2.lt (hnth 12 (by decide))
    refine Returns.step (refState_refinementNode s2 a3 b3) (fun q3 hq3 => ?_)
    obtain ⟨s3, lt3, g3', -⟩ := hq3
    have g3 : Grows q2.2.1 q3.2.1 1 := g3'
    have G3 := G2.trans g3
    have a4 := G3.lt (hnth 9 (by decide))
    have b4 := G3.lt (hnth 13 (by decide))
    refine Returns.step (refState_refinementNode s3 a4 b4) (fun q4 hq4 => ?_)
    obtain ⟨s4, lt4, g4', -⟩ := hq4
    have g4 : Grows q3.2.1 q4.2.1 1 := g4'
    have G4 := G3.trans g4
    have a5 := G4.lt (hnth 10 (by decide))
    have b5 := G4.lt (hnth 14 (by decide))
    refine Returns.step (refState_refinementNode s4 a5 b5) (fun q5 hq5 => ?_)
    obtain ⟨s5, lt5, g5', -⟩ := hq5
    have g5 : Grows q4.2.1 q5.2.1 1 := g5'
    have G5 := G4.trans g5
    have a6 := G5.lt (hnth 11 (by decide))
    have b6 := G5.lt (hnth 15 (by decide))
    refine Returns.step (refState_refinementNode s5 a6 b6) (fun q6 hq6 => ?_)
    obtain ⟨s6, lt6, g6', -⟩ := hq6
    have g6 : Grows q5.2.1 q6.2.1 1 := g6'
    have G6 := G5.trans g6
    have a7 : q1.1 < q6.2.1.nodeCount :=
      ((((g2.trans g3).trans g4).trans g5).trans g6).lt lt1
    have b7 : q2.1 < q6.2.1.nodeCount := (((g3.trans g4).trans g5).trans g6).lt lt2
    refine Returns.step (refState_refinementNode s6 a7 b7) (fun q7 hq7 => ?_)
    obtain ⟨s7, lt7, g7', -⟩ := hq7
    have g7 : Grows q6.2.1 q7.2.1 1 := g7'
    have G7 := G6.trans g7
    refine Returns.done ?_
    obtain ⟨l7, hl7⟩ := G7.nodeVector
    obtain ⟨ch, hch, hchall⟩ := createCells_eq (P := P) (R := R) c.marker
      [[nth r.1 0, nth r.1 8, q1.1, nth r.1 11, nth r.1 16, q3.1, q7.1, q6.1],
       [nth r.1 8, nth r.1 1, nth r.1 9, q1.1, q3.1, nth r.1 17, q4.1, q7.1],
       [nth r.1 11, q1.1, nth r.1 10, nth r.1 3, q6.1, q7.1, q5.1, nth r.1 19],
       [q1.1, nth r.1 9, nth r.1 2, nth r.1 10, q7.1, q4.1, nth r.1 18, q5.1],
       [nth r.1 16, q3.1, q7.1, q6.1, nth r.1 4, nth r.1 12, q2.1, nth r.1 15],
       [q3.1, nth r.1 17, q4.1, q7.1, nth r.1 12, nth r.1 5, nth r.1 13, q2.1],
       [q6.1, q7.1, q5.1, nth r.1 19, nth r.1 15, q2.1, nth r.1 14, nth r.1 7],
       [q7.1, q4.1, nth r.1 18, q5.1, q2.1, nth r.1 13, nth r.1 6, nth r.1 14]]
      q7.2.1 (by simp)
    refine cellStep_of s7 (hg.trans G7) (by omega) (quadraticNodes_of_append l7 hl7 hq) hch
      (fun h => absurd h (by decide)) (fun _ => ?_)
    rw [hshape, if_neg (by decide)]
    exact tetrahedronCount_eq_zero hchall

theorem cellStep_triPrism [Add P] [HDiv P R P] [OfNat R 2] [Inhabited R] (w : Nat)
    (ext : Externals P R) {tables : SplitTables} {mesh : Mesh P R} (h2 : Bool) {c : Cell R}
    {this : Mesh P R} {M : NodeMatrix} (hids : IdsAreIndices mesh)
    (htab : ProperTables tables)
    (hshape : c.shape = CellShape.TriPrism) (hc : CellOver mesh.nodeCount c)
    (hst : RefState mesh.nodeCount this M) (hfit : this.nodeCount + 27 < 2 ^ w) :
    Returns (CellStep mesh.nodeCount h2 c this) (refineCell w ext tables mesh h2 c this M) := by
  obtain ⟨hlen, hval⟩ := hc
  rw [hshape] at hlen
  have hlen6 : c.nodes.length = 6 := hlen
  unfold refineCell
  rw [hshape]
  dsimp only
  refine Returns.step_eq (tableRows_of_proper htab.2.2.2.1) ?_
  refine Returns.step (returns_splitTable w hids htab.2.2.2.1 hlen6 hval hst (by omega))
    (fun r hr => ?_)
  obtain ⟨hs, hg', hrlen, htake, hmid, hall⟩ := hr
  have hg : Grows this r.2.1 15 := hg'
  have hq : QuadraticNodes r.2.1 c r.1 :=
    quadraticNodes_of_split hlen6 (by rw [hshape]; rfl) hrlen htake hmid hall
  have hnth : ∀ j, j < 15 → nth r.1 j < r.2.1.nodeCount :=
    fun j hj => hall _ (nth_mem (by omega))
  cases h2 with
  | false =>
    simp only [Bool.false_eq_true, if_false]
    refine Returns.done ?_
    exact cellStep_of hs hg (by omega) hq (by simp) (fun _ => rfl)
      (fun h => absurd h (by decide))
  | true =>
    simp only [if_true]
    have a1 := hnth 6 (by decide)
    have b1 := hnth 9 (by decide)
    refine Returns.step (refState_refinementNode hs a1 b1) (fun q1 hq1 => ?_)
    obtain ⟨s1, lt1, g1', -⟩ := hq1
    have g1 : Grows r.2.1 q1.2.1 1 := g1'
    have a2 := g1.lt (hnth 7 (by decide))
    have b2 := g1.lt (hnth 10 (by decide))
    refine Returns.step (refState_refinementNode s1 a2 b2) (fun q2 hq2 => ?_)
    obtain ⟨s2, lt2, g2', -⟩ := hq2
    have g2 : Grows q1.2.1 q2.2.1 1 := g2'
    have G2 := g1.trans g2
    have a3 := G2.lt (hnth 8 (by decide))
    have b3 := G2.lt (hnth 11 (by decide))
    refine Returns.step (refState_refinementNode s2 a3 b3) (fun q3 hq3 => ?_)
    obtain ⟨s3, lt3, g3', -⟩ := hq3
    have g3 : Grows q2.2.1 q3.2.1 1 := g3'
    have G3 := G2.trans g3
    refine Returns.done ?_
    obtain ⟨l3, hl3⟩ := G3.nodeVector
    obtain ⟨ch, hch, hchall⟩ := createCells_eq (P := P) (R := R) c.marker
      [[nth r.1 0, nth r.1 6, nth r.1 8, nth r.1 12, q1.1, q3.1],
       [nth r.1 1, nth r.1 7, nth r.1 6, nth r.1 13, q2.1, q1.1],
       [nth r.1 2, nth r.1 8, nth r.1 7, nth r.1 14, q3.1, q2.1],
       [nth r.1 6, nth r.1 7, nth r.1 8, q1.1, q2.1, q3.1],
       [nth r.1 12, q1.1, q3.1, nth r.1 3, nth r.1 9, nth r.1 11],
       [nth r.1 13, q2.1, q1.1, nth r.1 4, nth r.1 10, nth r.1 9],
       [nth r.1 14, q3.1, q2.1, nth r.1 5, nth r.1 11, nth r.1 10],
       [q1.1, q2.1, q3.1, nth r.1 9, nth r.1 10, nth r.1 11]]
      q3.2.1 (by simp)
    refine cellStep_of s3 (hg.trans G3) (by omega) (quadraticNodes_of_append l3 hl3 hq) hch
      (fun h => absurd h (by decide)) (fun _ => ?_)
    rw [hshape, if_neg (by decide)]
    exact tetrahedronCount_eq_zero hchall

theorem unsplittable_false_cases {h2 flag : Bool} {shape : CellShape}
    (h : unsplittable h2 flag shape = false) :
    shape = .EdgeCell ∨ shape = .Triangle ∨ shape = .Quadrangle ∨ shape = .Hexahedron ∨
    shape = .TriPrism ∨ (shape = .Tetrahedron ∧ (h2 = false ∨ flag = true)) ∨
    (shape = .Pyramid ∧ h2 = false) := by
  cases shape <;> cases h2 <;> cases flag <;> simp [unsplittable] at h ⊢

/-- The `switch` of the cell loop for a cell of the input: it ends in
`THROW_TO_IMPL` for the classes that cannot be split and returns otherwise. -/
theorem refineCell_verdict [Add P] [HDiv P R P] [OfNat R 2] [Inhabited R] (w : Nat)
    (ext : Externals P R) {tables : SplitTables} {mesh : Mesh P R} (h2 : Bool) {c : Cell R}
    {this : Mesh P R} {M : NodeMatrix} (hids : IdsAreIndices mesh)
    (htab : ProperTables tables) (hc : CellOver mesh.nodeCount c)
    (hst : RefState mesh.nodeCount this M) (hfit : this.nodeCount + 27 < 2 ^ w) :
    (unsplittable h2 this.oldTet10NumberingStyle_ c.shape = true →
      refineCell w ext tables mesh h2 c this M = .error .toImpl) ∧
    (unsplittable h2 this.oldTet10NumberingStyle_ c.shape = false →
      Returns (CellStep mesh.nodeCount h2 c this)
        (refineCell w ext tables mesh h2 c this M)) := by
  constructor
  · intro hbad
    cases hshape : c.shape <;> rw [hshape] at hbad <;>
      first
      | (simp [unsplittable] at hbad; done)
      | (unfold refineCell; rw [hshape]; rfl)
      | skip
    · have h2t : h2 = true := by
        cases h2
        · simp [unsplittable] at hbad
        · rfl
      have hflag : this.oldTet10NumberingStyle_ = false := by
        subst h2t
        simpa [unsplittable] using hbad
      subst h2t
      exact toImpl_tetrahedron w ext hids htab hshape hc hst hfit hflag
    · have h2t : h2 = true := by simpa [unsplittable] using hbad
      subst h2t
      exact toImpl_pyramid w ext hids htab hshape hc hst hfit
  · intro hok
    rcases unsplittable_false_cases hok with h | h | h | h | h | ⟨h, -⟩ | ⟨h, h'⟩
    · exact cellStep_edgeCell w ext tables h2 hids h hc hst hfit
    · exact cellStep_triangle w ext tables h2 hids h hc hst hfit
    · exact cellStep_quadrangle w ext tables h2 hids h hc hst hfit
    · exact cellStep_hexahedron w ext h2 hids htab h hc hst hfit
    · exact cellStep_triPrism w ext h2 hids htab h hc hst hfit
    · rw [h] at hok
      exact cellStep_tetrahedron w ext h2 hids htab h hc hst hfit hok
    · subst h'
      exact cellStep_pyramid w ext hids htab h hc hst hfit

theorem createBoundary_cellVector {cbc : BoundaryCreator P R} (hcbc : KeepsNodesAndCells cbc)
    (m : Mesh P R) (ns : List Nat) (marker : Int) :
    (createBoundary cbc m ns marker).2.cellVector_ = m.cellVector_ := by
  unfold createBoundary
  split <;> (try split) <;> first | exact (hcbc _ _ _ _).2 | rfl

theorem createBoundaries_cellVector {cbc : BoundaryCreator P R} (hcbc : KeepsNodesAndCells cbc)
    (shape : BoundaryShape) (marker : Int) (l : List (List Nat)) :
    ∀ m : Mesh P R, (createBoundaries cbc shape marker l m).cellVector_ = m.cellVector_ := by
  induction l with
  | nil => intro m; rfl
  | cons ns l ih => intro m; simp only [createBoundaries]; rw [ih, (hcbc _ _ _ _).2]

theorem boundaryMarkers_push {cbc : BoundaryCreator P R} (hp : PushesMarked cbc)
    (shape : BoundaryShape) (m : Mesh P R) (ns : List Nat) (marker : Int) :
    boundaryMarkers (cbc shape m ns marker).2 = boundaryMarkers m ++ [marker] := by
  obtain ⟨b, hb, heq⟩ := hp shape m ns marker
  rw [heq]
  simp [boundaryMarkers, hb]

theorem createBoundary_markers {cbc : BoundaryCreator P R} (hp : PushesMarked cbc)
    (m : Mesh P R) (ns : List Nat) (marker : Int)
    (hlen : ns.length = 1 ∨ ns.length = 3 ∨ ns.length = 6 ∨ ns.length = 8) :
    boundaryMarkers (createBoundary cbc m ns marker).2 = boundaryMarkers m ++ [marker] := by
  unfold createBoundary
  rcases hlen with h | h | h | h <;> rw [h] <;> dsimp only
  · exact boundaryMarkers_push hp _ _ _ _
  · split <;> exact boundaryMarkers_push hp _ _ _ _
  · exact boundaryMarkers_push hp _ _ _ _
  · exact boundaryMarkers_push hp _ _ _ _

theorem createBoundaries_markers {cbc : BoundaryCreator P R} (hp : PushesMarked cbc)
    (shape : BoundaryShape) (marker : Int) (l : List (List Nat)) :
    ∀ m : Mesh P R, boundaryMarkers (createBoundaries cbc shape marker l m) =
      boundaryMarkers m ++ List.replicate l.length marker := by
  induction l with
  | nil => intro m; simp [createBoundaries]
  | cons ns l ih =>
    intro m
    simp only [createBoundaries]
    rw [ih, boundaryMarkers_push hp]
    simp [List.replicate_succ]

theorem boundaryStep_of [Add P] [HDiv P R P] [OfNat R 2] {V : Nat} {cbc : BoundaryCreator P R}
    {p2 h2 : Bool} {b : Boundary} {this this1 this2 : Mesh P R} {M : NodeMatrix} {k : Nat}
    (hs : RefState V this1 M) (hg : Grows this this1 k) (hk : k ≤ 5)
    (hn : this2.nodeVector_ = this1.nodeVector_) (hc : this2.cellVector_ = this1.cellVector_)
    (hm : PushesMarked cbc → boundaryMarkers this2 =
      boundaryMarkers this1 ++ List.replicate (facetCount (p2 && !h2) b.shape) b.marker) :
    BoundaryStep V cbc p2 h2 b this (this2, M) := by
  obtain ⟨l, hl, rfl⟩ := hg
  refine ⟨refState_of_nodeVector_eq hn hs, ⟨l, by omega, hn⟩, hc, ?_⟩
  intro hp
  rw [hm hp]
  rfl

theorem boundaryNodes_returns [Add P] [HDiv P R P] [OfNat R 2] (w : Nat) {mesh : Mesh P R}
    (hids : IdsAreIndices mesh) {b : Boundary} {this : Mesh P R} {M : NodeMatrix}
    (hb : BoundaryOver mesh.nodeCount b) (hok : unsplittableBoundary b.shape = false)
    (hst : RefState mesh.nodeCount this M) (hfit : this.nodeCount + 5 < 2 ^ w) :
    Returns (fun r => RefState mesh.nodeCount r.2.1 r.2.2 ∧ Grows this r.2.1 4 ∧
        r.1.length = quadraticFacetCount b.shape ∧ ∀ x ∈ r.1, x < r.2.1.nodeCount)
      (boundaryNodes w mesh b this M) := by
  obtain ⟨hlen, hval⟩ := hb
  have hV := hst.2.1
  unfold boundaryNodes
  cases hshape : b.shape <;> rw [hshape] at hok hlen <;>
    first
    | (simp [unsplittableBoundary] at hok; done)
    | skip
  · obtain ⟨a, hnodes⟩ := List.length_eq_one.mp hlen
    have ha : a < mesh.nodeCount := hval a (by simp [hnodes])
    dsimp only
    refine Returns.step_eq (copyOfNode_of_lt hids (by rw [hnodes]; rfl) ha hV (by omega)) ?_
    have hall : ∀ x ∈ [a], x < this.nodeCount := by
      intro x hx
      simp only [List.mem_singleton] at hx
      subst hx
      omega
    exact Returns.done ⟨hst, ⟨[], Nat.zero_le _, by simp⟩, rfl, hall⟩
  · obtain ⟨a, c, hnodes⟩ := List.length_eq_two.mp hlen
    have ha : a < mesh.nodeCount := hval a (by simp [hnodes])
    have hc : c < mesh.nodeCount := hval c (by simp [hnodes])
    dsimp only
    refine Returns.step_eq (copyOfNode_of_lt hids (by rw [hnodes]; rfl) ha hV (by omega)) ?_
    refine Returns.step_eq (copyOfNode_of_lt hids (by rw [hnodes]; rfl) hc hV (by omega)) ?_
    refine Returns.step (refState_refinementNode hst (by omega) (by omega)) (fun r1 hr1 => ?_)
    obtain ⟨h1, hlt1, hg1', -⟩ := hr1
    have hg1 : Grows this r1.2.1 1 := hg1'
    have hn1 := hg1.nodeCount_le
    have hall : ∀ x ∈ [a, c, r1.1], x < r1.2.1.nodeCount := by
      intro x hx
      simp only [List.mem_cons, List.mem_singleton, List.not_mem_nil, or_false] at hx
      rcases hx with hx | hx | hx <;> subst hx <;> omega
    have hg : Grows this r1.2.1 4 := by
      obtain ⟨l, hl, heq⟩ := hg1
      exact ⟨l, by omega, heq⟩
    exact Returns.done ⟨h1, hg, rfl, hall⟩
  · obtain ⟨a, c, d, hnodes⟩ := List.length_eq_three.mp hlen
    have ha : a < mesh.nodeCount := hval a (by simp [hnodes])
    have hc : c < mesh.nodeCount := hval c (by simp [hnodes])
    have hd : d < mesh.nodeCount := hval d (by simp [hnodes])
    dsimp only
    refine Returns.step_eq (copyOfNode_of_lt hids (by rw [hnodes]; rfl) ha hV (by omega)) ?_
    refine Returns.step_eq (copyOfNode_of_lt hids (by rw [hnodes]; rfl) hc hV (by omega)) ?_
    refine Returns.step_eq (copyOfNode_of_lt hids (by rw [hnodes]; rfl) hd hV (by omega)) ?_
    refine Returns.step (refState_refinementNode hst (by omega) (by omega)) (fun r1 hr1 => ?_)
    obtain ⟨h1, hlt1, hg1', -⟩ := hr1
    have hg1 : Grows this r1.2.1 1 := hg1'
    have hn1 := hg1.nodeCount_le
    have hc1 : c < r1.2.1.nodeCount := by omega
    have hd1 : d < r1.2.1.nodeCount := by omega
    refine Returns.step (refState_refinementNode h1 hc1 hd1) (fun r2 hr2 => ?_)
    obtain ⟨h2', hlt2, hg2', -⟩ := hr2
    have hg2 : Grows r1.2.1 r2.2.1 1 := hg2'
    have hn2 := hg2.nodeCount_le
    have hd2 : d < r2.2.1.nodeCount := by omega
    have ha2 : a < r2.2.1.nodeCount := by omega
    refine Returns.step (refState_refinementNode h2' hd2 ha2) (fun r3 hr3 => ?_)
    obtain ⟨h3, hlt3, hg3', -⟩ := hr3
    have hg3 : Grows r2.2.1 r3.2.1 1 := hg3'
    have hn3 := hg3.nodeCount_le
    have hall : ∀ x ∈ [a, c, d, r1.1, r2.1, r3.1], x < r3.2.1.nodeCount := by
      intro x hx
      simp only [List.mem_cons, List.mem_singleton, List.not_mem_nil, or_false] at hx
      rcases hx with hx | hx | hx | hx | hx | hx <;> subst hx <;> omega
    have hg : Grows this r3.2.1 4 := by
      obtain ⟨l, hl, heq⟩ := (hg1.trans hg2).trans hg3
      exact ⟨l, by omega, heq⟩
    exact Returns.done ⟨h3, hg, rfl, hall⟩
  · obtain ⟨a, c, d, e, hnodes⟩ := length_eq_four hlen
    have ha : a < mesh.nodeCount := hval a (by simp [hnodes])
    have hc : c < mesh.nodeCount := hval c (by simp [hnodes])
    have hd : d < mesh.nodeCount := hval d (by simp [hnodes])
    have he : e < mesh.nodeCount := hval e (by simp [hnodes])
    dsimp only
    refine Returns.step_eq (copyOfNode_of_lt hids (by rw [hnodes]; rfl) ha hV (by omega)) ?_
    refine Returns.step_eq (copyOfNode_of_lt hids (by rw [hnodes]; rfl) hc hV (by omega)) ?_
    refine Returns.step_eq (copyOfNode_of_lt hids (by rw [hnodes]; rfl) hd hV (by omega)) ?_
    refine Returns.step_eq (copyOfNode_of_lt hids (by rw [hnodes]; rfl) he hV (by omega)) ?_
    refine Returns.step (refState_refinementNode hst (by omega) (by omega)) (fun r1 hr1 => ?_)
    obtain ⟨h1, hlt1, hg1', -⟩ := hr1
    have hg1 : Grows this r1.2.1 1 := hg1'
    have hn1 := hg1.nodeCount_le
    have hc1 : c < r1.2.1.nodeCount := by omega
    have hd1 : d < r1.2.1.nodeCount := by omega
    refine Returns.step (refState_refinementNode h1 hc1 hd1) (fun r2 hr2 => ?_)
    obtain ⟨h2', hlt2, hg2', -⟩ := hr2
    have hg2 : Grows r1.2.1 r2.2.1 1 := hg2'
    have hn2 := hg2.nodeCount_le
    have hd2 : d < r2.2.1.nodeCount := by omega
    have he2 : e < r2.2.1.nodeCount := by omega
    refine Returns.step (refState_refinementNode h2' hd2 he2) (fun r3 hr3 => ?_)
    obtain ⟨h3, hlt3, hg3', -⟩ := hr3
    have hg3 : Grows r2.2.1 r3.2.1 1 := hg3'
    have hn3 := hg3.nodeCount_le
    have he3 : e < r3.2.1.nodeCount := by omega
    have ha3 : a < r3.2.1.nodeCount := by omega
    refine Returns.step (refState_refinementNode h3 he3 ha3) (fun r4 hr4 => ?_)
    obtain ⟨h4, hlt4, hg4', -⟩ := hr4
    have hg4 : Grows r3.2.1 r4.2.1 1 := hg4'
    have hn4 := hg4.nodeCount_le
    have hall : ∀ x ∈ [a, c, d, e, r1.1, r2.1, r3.1, r4.1], x < r4.2.1.nodeCount := by
      intro x hx
      simp only [List.mem_cons, List.mem_singleton, List.not_mem_nil, or_false] at hx
      rcases hx with hx | hx | hx | hx | hx | hx | hx | hx <;> subst hx <;> omega
    exact Returns.done ⟨h4, ((hg1.trans hg2).trans hg3).trans hg4, rfl, hall⟩

theorem unsplittableBoundary_false_cases {shape : BoundaryShape}
    (h : unsplittableBoundary shape = false) :
    shape = .NodeBoundary ∨ shape = .Edge ∨ shape = .TriangleFace ∨ shape = .QuadrangleFace := by
  cases shape <;> simp [unsplittableBoundary] at h ⊢

theorem refineBoundary_verdict [Add P] [HDiv P R P] [OfNat R 2] (w : Nat)
    {cbc : BoundaryCreator P R} (hcbc : KeepsNodesAndCells cbc) {mesh : Mesh P R}
    (p2 h2 : Bool) (hids : IdsAreIndices mesh) {b : Boundary} {this : Mesh P R}
    {M : NodeMatrix} (hb : BoundaryOver mesh.nodeCount b)
    (hst : RefState mesh.nodeCount this M) (hfit : this.nodeCount + 5 < 2 ^ w) :
    (unsplittableBoundary b.shape = true →
      refineBoundary w cbc mesh p2 h2 b this M = .error .toImpl) ∧
    (unsplittableBoundary b.shape = false →
      Returns (BoundaryStep mesh.nodeCount cbc p2 h2 b this)
        (refineBoundary w cbc mesh p2 h2 b this M)) := by
  constructor
  · intro hbad
    unfold refineBoundary boundaryNodes
    cases hshape : b.shape <;> rw [hshape] at hbad <;>
      first
      | (simp [unsplittableBoundary] at hbad; done)
      | rfl
  · intro hok
    unfold refineBoundary
    refine Returns.step (boundaryNodes_returns w hids hb hok hst hfit) (fun r hr => ?_)
    obtain ⟨hs, hg, hrlen, hall⟩ := hr
    have hV := hs.2.1
    dsimp only
    cases hq : (p2 && !h2) with
    | true =>
      simp only [if_true]
      refine Returns.done (boundaryStep_of hs hg (by omega)
        (createBoundary_nodeVector hcbc _ _ _) (createBoundary_cellVector hcbc _ _ _)
        (fun hp => ?_))
      rw [hq, createBoundary_markers hp]
      · rcases unsplittableBoundary_false_cases hok with h | h | h | h <;> rw [h] <;> rfl
      · rw [hrlen]
        rcases unsplittableBoundary_false_cases hok with h | h | h | h <;> rw [h] <;>
          simp [quadraticFacetCount]
    | false =>
      simp only [Bool.false_eq_true, if_false]
      rcases unsplittableBoundary_false_cases hok with h | h | h | h
      · simp only [h]
        refine Returns.done (boundaryStep_of hs hg (by omega)
          (createBoundary_nodeVector hcbc _ _ _) (createBoundary_cellVector hcbc _ _ _)
          (fun hp => ?_))
        rw [hq, createBoundary_markers hp, h]
        · rfl
        · rw [hrlen, h]
          simp [quadraticFacetCount]
      · simp only [h]
        refine Returns.done (boundaryStep_of hs hg (by omega)
          (createBoundaries_nodeVector hcbc _ _ _ _) (createBoundaries_cellVector hcbc _ _ _ _)
          (fun hp => ?_))
        rw [hq, createBoundaries_markers hp, h]
        rfl
      · simp only [h]
        refine Returns.done (boundaryStep_of hs hg (by omega)
          (createBoundaries_nodeVector hcbc _ _ _ _) (createBoundaries_cellVector hcbc _ _ _ _)
          (fun hp => ?_))
        rw [hq, createBoundaries_markers hp, h]
        rfl
      · simp only [h]
        have hlen8 : r.1.length = 8 := by rw [hrlen, h]; rfl
        have hnth : ∀ j, j < 8 → nth r.1 j < r.2.1.nodeCount :=
          fun j hj => hall _ (nth_mem (by omega))
        obtain ⟨n4, hn4, -⟩ := ownNodeRef_of_lt hs.1 (hnth 4 (by decide))
        obtain ⟨n6, hn6, -⟩ := ownNodeRef_of_lt hs.1 (hnth 6 (by decide))
        refine Returns.step_eq hn4 ?_
        refine Returns.step_eq hn6 ?_
        dsimp only
        split
        · refine Returns.step_eq rfl ?_
          refine Returns.done (boundaryStep_of hs hg (by omega)
            (createBoundaries_nodeVector hcbc _ _ _ _)
            (createBoundaries_cellVector hcbc _ _ _ _) (fun hp => ?_))
          rw [hq, createBoundaries_markers hp, h]
          rfl
        · refine Returns.step
            (refState_refinementNode hs (hnth 5 (by decide)) (hnth 7 (by decide)))
            (fun q hq' => ?_)
          obtain ⟨s1, -, g1', -⟩ := hq'
          have g1 : Grows r.2.1 q.2.1 1 := g1'
          refine Returns.done (boundaryStep_of s1 (hg.trans g1) (by omega)
            (createBoundaries_nodeVector hcbc _ _ _ _)
            (createBoundaries_cellVector hcbc _ _ _ _) (fun hp => ?_))
          rw [hq, createBoundaries_markers hp, h]
          rfl

theorem drop_take_succ {α : Type} {l : List α} {i k : Nat} {a : α} (h : l[i]? = some a) :
    (l.drop i).take (k + 1) = a :: (l.drop (i + 1)).take k := by
  obtain ⟨hi, ha⟩ := List.getElem?_eq_some.mp h
  rw [List.drop_eq_getElem_cons hi, List.take_succ_cons, ha]

theorem createCell_flag [Inhabited R] (m : Mesh P R) (ns : List Nat) (marker : Int) :
    (createCell m ns marker).2.oldTet10NumberingStyle_ = m.oldTet10NumberingStyle_ := by
  obtain ⟨ch, h, -⟩ := createCell_eq m ns marker
  rw [h]

theorem refineCells_verdict [Add P] [HDiv P R P] [OfNat R 2] [Inhabited R] (w : Nat)
    (ext : Externals P R) {tables : SplitTables} {mesh : Mesh P R} (p2 h2 : Bool)
    (hids : IdsAreIndices mesh) (htab : ProperTables tables)
    (hcells : ∀ c ∈ mesh.cellVector_, CellOver mesh.nodeCount c)
    (hfitC : mesh.cellCount < 2 ^ w) (flag : Bool) (N : Nat) (hN : N < 2 ^ w)
    (Inv : Nat → Mesh P R → Prop)
    (hstep : ∀ (i : Nat) (c : Cell R) (this : Mesh P R)
      (r : List Nat × Mesh P R × NodeMatrix), mesh.cellVector_[i]? = some c →
      unsplittable h2 flag c.shape = false → Inv i this →
      CellStep mesh.nodeCount h2 c this r →
      Inv (i + 1) (if p2 && !h2 then (createCell r.2.1 r.1 c.marker).2 else r.2.1)) :
    ∀ (k i : Nat) (this : Mesh P R) (M : NodeMatrix), i + k ≤ mesh.cellCount →
      RefState mesh.nodeCount this M → this.oldTet10NumberingStyle_ = flag → Inv i this →
      this.nodeCount + 27 * k ≤ N →
      ((∃ c ∈ (mesh.cellVector_.drop i).take k, unsplittable h2 flag c.shape = true) →
        refineCells w ext tables mesh p2 h2 (List.range' i k) this M = .error .toImpl) ∧
      ((∀ c ∈ (mesh.cellVector_.drop i).take k, unsplittable h2 flag c.shape = false) →
        Returns (fun r => RefState mesh.nodeCount r.1 r.2 ∧
            r.1.oldTet10NumberingStyle_ = flag ∧ Inv (i + k) r.1 ∧ r.1.nodeCount ≤ N)
          (refineCells w ext tables mesh p2 h2 (List.range' i k) this M)) := by
  intro k
  induction k with
  | zero =>
    intro i this M _ hst hflag hinv hfit
    constructor
    · rintro ⟨c, hc, -⟩
      simp at hc
    · intro _
      have hle : this.nodeCount ≤ N := by omega
      exact ⟨_, rfl, hst, hflag, hinv, hle⟩
  | succ k ih =>
    intro i this M hik hst hflag hinv hfit
    obtain ⟨c, hget, hcell⟩ := cell_of_lt (w := w) (m := mesh) (i := i) (by omega) hfitC
    have hmem : c ∈ mesh.cellVector_ := List.getElem?_mem hget
    have hverdict := refineCell_verdict w ext h2 hids htab (hcells c hmem) hst
      (show this.nodeCount + 27 < 2 ^ w by omega)
    rw [hflag] at hverdict
    rw [drop_take_succ hget]
    cases hbad : unsplittable h2 flag c.shape with
    | true =>
      have herr := hverdict.1 hbad
      constructor
      · intro _
        simp only [List.range'_succ, refineCells, hcell, herr]
      · intro hall
        have := hall c (List.mem_cons_self _ _)
        rw [hbad] at this
        cases this
    | false =>
      obtain ⟨r, hr, hcs⟩ := hverdict.2 hbad
      obtain ⟨n, this1, M1⟩ := r
      have hinv1 := hstep i c this (n, this1, M1) hget hbad hinv hcs
      obtain ⟨hs1, ⟨l, ch, hl, heq, -, -⟩, -⟩ := hcs
      dsimp only at hs1 heq hinv1
      have hflag1 : this1.oldTet10NumberingStyle_ = flag := by rw [heq]; exact hflag
      have hn1 : this1.nodeCount ≤ this.nodeCount + 27 := by
        rw [heq]
        simp only [nodeCount, List.length_append]
        omega
      have key : refineCells w ext tables mesh p2 h2 (List.range' i (k + 1)) this M =
          refineCells w ext tables mesh p2 h2 (List.range' (i + 1) k)
            (if p2 && !h2 then (createCell this1 n c.marker).2 else this1) M1 := by
        simp only [List.range'_succ, refineCells, hcell, hr]
      rw [key]
      have hIH := ih (i + 1) (if p2 && !h2 then (createCell this1 n c.marker).2 else this1) M1
        (by omega)
        (by
          split
          · exact refState_of_nodeVector_eq (createCell_nodeVector _ _ _) hs1
          · exact hs1)
        (by
          split
          · rw [createCell_flag]; exact hflag1
          · exact hflag1)
        hinv1
        (by
          have : (if p2 && !h2 then (createCell this1 n c.marker).2 else this1).nodeCount =
              this1.nodeCount := by
            split
            · unfold nodeCount; rw [createCell_nodeVector]
            · rfl
          omega)
      constructor
      · rintro ⟨c', hc', hbad'⟩
        rcases List.mem_cons.mp hc' with h | h
        · rw [h, hbad] at hbad'
          cases hbad'
        · exact hIH.1 ⟨c', h, hbad'⟩
      · intro hall
        have := hIH.2 (fun c' hc' => hall c' (List.mem_cons_of_mem _ hc'))
        simpa only [Nat.add_assoc, Nat.add_comm 1 k] using this

theorem refineBoundaries_verdict [Add P] [HDiv P R P] [OfNat R 2] (w : Nat)
    {cbc : BoundaryCreator P R} (hcbc : KeepsNodesAndCells cbc) {mesh : Mesh P R}
    (p2 h2 : Bool) (hids : IdsAreIndices mesh)
    (hbs : ∀ b ∈ mesh.boundaryVector_, BoundaryOver mesh.nodeCount b)
    (hfitB : mesh.boundaryCount < 2 ^ w) (N : Nat) (hN : N < 2 ^ w)
    (Inv : Nat → Mesh P R → Prop)
    (hstep : ∀ (i : Nat) (b : Boundary) (this : Mesh P R) (r : Mesh P R × NodeMatrix),
      mesh.boundaryVector_[i]? = some b → unsplittableBoundary b.shape = false → Inv i this →
      BoundaryStep mesh.nodeCount cbc p2 h2 b this r → Inv (i + 1) r.1) :
    ∀ (k i : Nat) (this : Mesh P R) (M : NodeMatrix), i + k ≤ mesh.boundaryCount →
      RefState mesh.nodeCount this M → Inv i this → this.nodeCount + 5 * k ≤ N →
      ((∃ b ∈ (mesh.boundaryVector_.drop i).take k, unsplittableBoundary b.shape = true) →
        refineBoundaries w cbc mesh p2 h2 (List.range' i k) this M = .error .toImpl) ∧
      ((∀ b ∈ (mesh.boundaryVector_.drop i).take k, unsplittableBoundary b.shape = false) →
        Returns (fun r => RefState mesh.nodeCount r.1 r.2 ∧ Inv (i + k) r.1)
          (refineBoundaries w cbc mesh p2 h2 (List.range' i k) this M)) := by
  intro k
  induction k with
  | zero =>
    intro i this M _ hst hinv hfit
    constructor
    · rintro ⟨c, hc, -⟩
      simp at hc
    · intro _
      exact ⟨_, rfl, hst, hinv⟩
  | succ k ih =>
    intro i this M hik hst hinv hfit
    obtain ⟨b, hget, hbnd⟩ := boundary_of_lt (w := w) (m := mesh) (i := i) (by omega) hfitB
    have hmem : b ∈ mesh.boundaryVector_ := List.getElem?_mem hget
    have hverdict := refineBoundary_verdict w hcbc p2 h2 hids (hbs b hmem) hst
      (show this.nodeCount + 5 < 2 ^ w by omega)
    rw [drop_take_succ hget]
    cases hbad : unsplittableBoundary b.shape with
    | true =>
      have herr := hverdict.1 hbad
      constructor
      · intro _
        simp only [List.range'_succ, refineBoundaries, hbnd, herr]
      · intro hall
        have := hall b (List.mem_cons_self _ _)
        rw [hbad] at this
        cases this
    | false =>
      obtain ⟨r, hr, hbs1⟩ := hverdict.2 hbad
      obtain ⟨this1, M1⟩ := r
      have hinv1 := hstep i b this (this1, M1) hget hbad hinv hbs1
      obtain ⟨hs1, ⟨l, hl, heq⟩, -, -⟩ := hbs1
      dsimp only at hs1 heq hinv1
      have hn1 : this1.nodeCount ≤ this.nodeCount + 5 := by
        simp only [nodeCount, heq, List.length_append]
        omega
      have key : refineBoundaries w cbc mesh p2 h2 (List.range' i (k + 1)) this M =
          refineBoundaries w cbc mesh p2 h2 (List.range' (i + 1) k) this1 M1 := by
        simp only [List.range'_succ, refineBoundaries, hbnd, hr]
      rw [key]
      have hIH := ih (i + 1) this1 M1 (by omega) hs1 hinv1 (by omega)
      constructor
      · rintro ⟨c', hc', hbad'⟩
        rcases List.mem_cons.mp hc' with h | h
        · rw [h, hbad] at hbad'
          cases hbad'
        · exact hIH.1 ⟨c', h, hbad'⟩
      · intro hall
        have := hIH.2 (fun c' hc' => hall c' (List.mem_cons_of_mem _ hc'))
        simpa only [Nat.add_assoc, Nat.add_comm 1 k] using this

theorem refState_of_diagMatrix [Add P] [HDiv P R P] [OfNat R 2] {mesh this : Mesh P R}
    {M : NodeMatrix} (hids : IdsAreIndices mesh) (hn : this.nodeVector_ = mesh.nodeVector_)
    (hM : DiagMatrix mesh.nodeCount M) : RefState mesh.nodeCount this M := by
  have hcount : this.nodeCount = mesh.nodeCount := by simp [nodeCount, hn]
  refine ⟨idsAreIndices_of_nodeVector_eq hn hids, by omega, ?_, ?_⟩
  · intro a ha
    rw [hM, if_pos ⟨rfl, by omega, by omega⟩]
    simp
  · intro a b n hk
    rw [hM a b] at hk
    split at hk
    · rename_i h1
      cases hk
      refine ⟨by omega, fun hne => absurd h1.1 hne⟩
    · cases hk

/-- The outcome of `createRefined_` for an input that the refinement can walk
through: `THROW_TO_IMPL` if a cell or a boundary cannot be split, and a mesh
otherwise; `InvC` and `InvB` are invariants of the cell loop and of the
boundary loop. -/
theorem createRefined_verdict [Add P] [HDiv P R P] [OfNat R 2] [Inhabited R] (w : Nat)
    (ext : Externals P R) {tables : SplitTables} {cbc : BoundaryCreator P R}
    (this : Mesh P R) {mesh : Mesh P R} (p2 h2 : Bool) (hcbc : KeepsNodesAndCells cbc)
    (hwf : Refinable w tables mesh) (InvC InvB : Nat → Mesh P R → Prop)
    (h0 : InvC 0 { this.clear with nodeVector_ := mesh.nodeVector_ })
    (hstepC : ∀ (i : Nat) (c : Cell R) (m : Mesh P R)
      (r : List Nat × Mesh P R × NodeMatrix), mesh.cellVector_[i]? = some c →
      unsplittable h2 this.oldTet10NumberingStyle_ c.shape = false → InvC i m →
      CellStep mesh.nodeCount h2 c m r →
      InvC (i + 1) (if p2 && !h2 then (createCell r.2.1 r.1 c.marker).2 else r.2.1))
    (hCB : ∀ m, InvC mesh.cellCount m → InvB 0 m)
    (hstepB : ∀ (i : Nat) (b : Boundary) (m : Mesh P R) (r : Mesh P R × NodeMatrix),
      mesh.boundaryVector_[i]? = some b → unsplittableBoundary b.shape = false → InvB i m →
      BoundaryStep mesh.nodeCount cbc p2 h2 b m r → InvB (i + 1) r.1) :
    (((∃ c ∈ mesh.cellVector_, unsplittable h2 this.oldTet10NumberingStyle_ c.shape = true) ∨
        ∃ b ∈ mesh.boundaryVector_, unsplittableBoundary b.shape = true) →
      createRefined_ w ext tables cbc this mesh p2 h2 = .error .toImpl) ∧
    ((∀ c ∈ mesh.cellVector_, unsplittable h2 this.oldTet10NumberingStyle_ c.shape = false) →
      (∀ b ∈ mesh.boundaryVector_, unsplittableBoundary b.shape = false) →
      ∃ r, createRefined_ w ext tables cbc this mesh p2 h2 = .ok r ∧
        InvB mesh.boundaryCount r) := by
  obtain ⟨hids, htab, hcells, hbs, hfit⟩ := hwf
  have hfitN : mesh.nodeCount < 2 ^ w := by omega
  have hfitC : mesh.cellCount < 2 ^ w := by omega
  have hfitB : mesh.boundaryCount < 2 ^ w := by omega
  obtain ⟨r0, hr0⟩ := copyNodes_returns w mesh hfitN mesh.nodeCount 0 this.clear (fun _ => none)
    (by omega)
  have hdiag0 : DiagMatrix 0 (fun _ => none) := by
    intro a b
    rw [if_neg]
    rintro ⟨-, h2, h3⟩
    omega
  obtain ⟨hr0m, hr0M⟩ := whenOk_copyNodes w mesh hids mesh.nodeCount 0 this.clear (fun _ => none)
    rfl (Nat.zero_le _) hdiag0 r0 hr0
  rw [Nat.zero_add] at hr0m hr0M
  have htakeN : mesh.nodeVector_.take mesh.nodeCount = mesh.nodeVector_ := List.take_length _
  rw [htakeN] at hr0m
  have hn0 : r0.1.nodeVector_ = mesh.nodeVector_ := by rw [hr0m]
  have hst0 : RefState mesh.nodeCount r0.1 r0.2 := refState_of_diagMatrix hids hn0 hr0M
  have hcount0 : r0.1.nodeCount = mesh.nodeCount := by simp [nodeCount, hn0]
  have hC := refineCells_verdict w ext p2 h2 hids htab hcells hfitC
    this.oldTet10NumberingStyle_ (mesh.nodeCount + 27 * mesh.cellCount) (by omega) InvC hstepC
    mesh.cellCount 0 r0.1 r0.2 (by omega) hst0 (by rw [hr0m]; rfl) (by rw [hr0m]; exact h0)
    (by omega)
  have htakeC : mesh.cellVector_.take mesh.cellCount = mesh.cellVector_ := List.take_length _
  have htakeB : mesh.boundaryVector_.take mesh.boundaryCount = mesh.boundaryVector_ :=
    List.take_length _
  rw [List.drop_zero, htakeC, Nat.zero_add] at hC
  have hstart : createRefined_ w ext tables cbc this mesh p2 h2 =
      (refineCells w ext tables mesh p2 h2 (List.range' 0 mesh.cellCount) r0.1 r0.2 >>=
        fun x => refineBoundaries w cbc mesh p2 h2 (List.range' 0 mesh.boundaryCount) x.1 x.2
          >>= fun y => pure y.1) := by
    unfold createRefined_
    rw [List.range_eq_range', List.range_eq_range', List.range_eq_range', hr0]
    rfl
  rw [hstart]
  by_cases hbadC : ∃ c ∈ mesh.cellVector_,
      unsplittable h2 this.oldTet10NumberingStyle_ c.shape = true
  · constructor
    · intro _
      rw [hC.1 hbadC]
      rfl
    · intro hall
      obtain ⟨c, hc, hbad⟩ := hbadC
      rw [hall c hc] at hbad
      cases hbad
  · have hallC : ∀ c ∈ mesh.cellVector_,
        unsplittable h2 this.oldTet10NumberingStyle_ c.shape = false := by
      intro c hc
      cases h : unsplittable h2 this.oldTet10NumberingStyle_ c.shape
      · rfl
      · exact absurd ⟨c, hc, h⟩ hbadC
    obtain ⟨r1, hr1, hst1, -, hinv1, hn1⟩ := hC.2 hallC
    have hB := refineBoundaries_verdict w hcbc p2 h2 hids hbs hfitB
      (mesh.nodeCount + 27 * mesh.cellCount + 5 * mesh.boundaryCount) hfit InvB hstepB
      mesh.boundaryCount 0 r1.1 r1.2 (by omega) hst1 (hCB _ hinv1) (by omega)
    rw [List.drop_zero, htakeB, Nat.zero_add] at hB
    rw [hr1]
    constructor
    · rintro (h | h)
      · exact absurd h hbadC
      · show (refineBoundaries w cbc mesh p2 h2 (List.range' 0 mesh.boundaryCount) r1.1 r1.2
            >>= fun y => pure y.1) = .error .toImpl
        rw [hB.1 h]
        rfl
    · intro _ hallB
      obtain ⟨r2, hr2, -, hinv2⟩ := hB.2 hallB
      refine ⟨r2.1, ?_, hinv2⟩
      show (refineBoundaries w cbc mesh p2 h2 (List.range' 0 mesh.boundaryCount) r1.1 r1.2
          >>= fun y => pure y.1) = .ok r2.1
      rw [hr2]
      rfl

theorem keepsNodesAndCells_of_pushesMarked {cbc : BoundaryCreator P R} (hp : PushesMarked cbc) :
    KeepsNodesAndCells cbc := by
  intro shape m nodes marker
  obtain ⟨b, -, heq⟩ := hp shape m nodes marker
  rw [heq]
  exact ⟨rfl, rfl⟩

theorem pushesMarked_pushBoundary : PushesMarked (pushBoundary : BoundaryCreator P R) := by
  intro shape m nodes marker
  exact ⟨_, rfl, rfl⟩

theorem unsplittable_of_not_mem {h2 flag : Bool} {shape : CellShape}
    (h : shape ∉ splittableShapes) : unsplittable h2 flag shape = true := by
  cases shape <;> simp [splittableShapes, unsplittable] at h ⊢

theorem unsplittableBoundary_iff {shape : BoundaryShape} :
    unsplittableBoundary shape = false ↔ shape ∈ splittableBoundaryShapes := by
  cases shape <;> simp [splittableBoundaryShapes, unsplittableBoundary]

theorem tetrahedronCount_append (l u : List (Cell R)) :
    tetrahedronCount (l ++ u) = tetrahedronCount l + tetrahedronCount u := by
  simp [tetrahedronCount, List.countP_append]

theorem take_succ_of_getElem? {α : Type} {l : List α} {i : Nat} {a : α} (h : l[i]? = some a) :
    l.take (i + 1) = l.take i ++ [a] := by
  rw [List.take_succ, h]
  rfl

theorem refinable_oneTetrahedron : Refinable 32 exampleTables oneTetrahedron := by
  refine ⟨?_, ?_, ?_, ?_, by decide⟩
  · intro i n h
    match i with
    | 0 => simp [oneTetrahedron] at h; subst h; rfl
    | 1 => simp [oneTetrahedron] at h; subst h; rfl
    | 2 => simp [oneTetrahedron] at h; subst h; rfl
    | 3 => simp [oneTetrahedron] at h; subst h; rfl
    | k + 4 => simp [oneTetrahedron] at h
  · unfold ProperTables ProperTable exampleTables
    decide
  · intro c hc
    simp only [oneTetrahedron, List.mem_singleton] at hc
    subst hc
    exact ⟨rfl, by decide⟩
  · intro b hb
    simp only [oneTetrahedron, List.mem_singleton] at hb
    subst hb
    exact ⟨rfl, by decide⟩

/-- C14: for an input that the refinement can walk through (ids are indices,
proper split tables, cells and boundaries over nodes of the mesh, counters wide
enough), `createRefined_` with `h2 = true` ends in `THROW_TO_IMPL` whenever the
input holds a tetrahedron while `oldTet10NumberingStyle_` of the receiver is
`false`, a pyramid, a cell of a class without a `case`, or a boundary of a class
without a `case`; with `oldTet10NumberingStyle_` set and neither a pyramid nor an
unsupported class in the input it returns a mesh that holds exactly 8
tetrahedra for every tetrahedron of the input. The boundary creator is any that
leaves nodes and cells alone. -/
theorem h2_unimplemented_or_eight_tetrahedra [Add P] [HDiv P R P] [OfNat R 2] [Inhabited R]
    (w : Nat) (ext : Externals P R) (tables : SplitTables) (cbc : BoundaryCreator P R)
    (this mesh : Mesh P R) (p2 : Bool) (hcbc : KeepsNodesAndCells cbc)
    (hwf : Refinable w tables mesh) :
    (((∃ c ∈ mesh.cellVector_,
          (c.shape = CellShape.Tetrahedron ∧ this.oldTet10NumberingStyle_ = false) ∨
          c.shape = CellShape.Pyramid ∨ c.shape ∉ splittableShapes) ∨
        ∃ b ∈ mesh.boundaryVector_, b.shape ∉ splittableBoundaryShapes) →
      createRefined_ w ext tables cbc this mesh p2 true = .error .toImpl) ∧
    (this.oldTet10NumberingStyle_ = true →
      (∀ c ∈ mesh.cellVector_, c.shape ∈ splittableShapes ∧ c.shape ≠ CellShape.Pyramid) →
      (∀ b ∈ mesh.boundaryVector_, b.shape ∈ splittableBoundaryShapes) →
      ∃ r, createRefined_ w ext tables cbc this mesh p2 true = .ok r ∧
        tetrahedronCount r.cellVector_ = 8 * tetrahedronCount mesh.cellVector_) := by
  have hv := createRefined_verdict w ext this p2 true hcbc hwf
    (fun i m => tetrahedronCount m.cellVector_ =
      8 * tetrahedronCount (mesh.cellVector_.take i))
    (fun _ m => tetrahedronCount m.cellVector_ = 8 * tetrahedronCount mesh.cellVector_)
    (by simp [clear, tetrahedronCount])
    (by
      intro i c m r hget _ hinv hstep
      obtain ⟨-, ⟨l, ch, -, heq, -, hch⟩, -⟩ := hstep
      simp only [Bool.not_true, Bool.and_false, Bool.false_eq_true, if_false]
      rw [heq, take_succ_of_getElem? hget]
      simp only [tetrahedronCount_append]
      rw [hinv, hch rfl]
      by_cases hs : c.shape = CellShape.Tetrahedron
      · rw [if_pos hs]
        simp [tetrahedronCount, hs]
        omega
      · rw [if_neg hs]
        simp [tetrahedronCount, hs])
    (by
      intro m hm
      have htake : mesh.cellVector_.take mesh.cellCount = mesh.cellVector_ := List.take_length _
      rw [htake] at hm
      exact hm)
    (by
      intro i b m r _ _ hinv hstep
      rw [hstep.2.2.1]
      exact hinv)
  constructor
  · rintro (⟨c, hc, h⟩ | ⟨b, hb, h⟩)
    · apply hv.1
      left
      refine ⟨c, hc, ?_⟩
      rcases h with ⟨h1, h2⟩ | h | h
      · rw [h1, h2]; rfl
      · rw [h]; rfl
      · exact unsplittable_of_not_mem h
    · apply hv.1
      right
      refine ⟨b, hb, ?_⟩
      cases hu : unsplittableBoundary b.shape
      · exact absurd (unsplittableBoundary_iff.mp hu) h
      · rfl
  · intro hflag hcells hbs
    refine hv.2 ?_ ?_
    · intro c hc
      obtain ⟨h1, h2⟩ := hcells c hc
      rw [hflag]
      revert h1 h2
      cases c.shape <;> simp [splittableShapes, unsplittable]
    · intro b hb
      exact unsplittableBoundary_iff.mpr (hbs b hb)

/-- Witness of C14: one tetrahedron is split into 8 tetrahedra by a receiver
with `oldTet10NumberingStyle_` set, and the call ends in `THROW_TO_IMPL` for a
receiver without it. -/
theorem h2_unimplemented_or_eight_tetrahedra_witness :
    (∃ r, createRefined_ 32 plainExternals exampleTables pushBoundary (Mesh.new 3)
        oneTetrahedron false true = .ok r ∧ tetrahedronCount r.cellVector_ = 8 * 1) ∧
    createRefined_ 32 plainExternals exampleTables pushBoundary newStyleMesh oneTetrahedron
      false true = .error .toImpl :=
  ⟨(h2_unimplemented_or_eight_tetrahedra 32 plainExternals exampleTables pushBoundary
      (Mesh.new 3) oneTetrahedron false keepsNodesAndCells_pushBoundary
      refinable_oneTetrahedron).2 rfl (by decide) (by decide),
   (h2_unimplemented_or_eight_tetrahedra 32 plainExternals exampleTables pushBoundary
      newStyleMesh oneTetrahedron false keepsNodesAndCells_pushBoundary
      refinable_oneTetrahedron).1 (Or.inl (by decide))⟩

theorem createCell_quadratic [Inhabited R] (m : Mesh P R) (n : List Nat) (marker : Int)
    {shape : CellShape} (hfit : FitsDimension m.dimension_ shape)
    (hlen : n.length = quadraticCount shape) :
    ∃ q : Cell R, quadraticShape shape = some q.shape ∧ q.marker = marker ∧ q.nodes = n ∧
      (createCell m n marker).2 = { m with cellVector_ := m.cellVector_ ++ [q] } := by
  obtain ⟨dim, nv, cv, bv, rk, nk, tr, fl⟩ := m
  unfold createCell
  cases shape <;> simp only [FitsDimension] at hfit <;> simp only [quadraticCount] at hlen <;>
    rw [hlen] <;> dsimp only <;> (try subst hfit) <;>
    exact ⟨⟨_, n, marker, _, default, [], false⟩, rfl, rfl, rfl, rfl⟩

theorem quadraticOf_of_append [Add P] [HDiv P R P] [OfNat R 2] {m m1 : Mesh P R}
    (l : List (Node P)) (h : m1.nodeVector_ = m.nodeVector_ ++ l) {c q : Cell R}
    (hq : QuadraticOf m c q) : QuadraticOf m1 c q :=
  ⟨hq.1, hq.2.1, quadraticNodes_of_append l h hq.2.2⟩

theorem forall2_concat {α β : Type} {F : α → β → Prop} {l : List α} {u : List β} {a : α}
    {b : β} (h : List.Forall₂ F l u) (hab : F a b) : List.Forall₂ F (l ++ [a]) (u ++ [b]) := by
  induction h with
  | nil => exact List.Forall₂.cons hab List.Forall₂.nil
  | cons h1 _ ih => exact List.Forall₂.cons h1 ih

theorem forall2_getElem? {α β : Type} {F : α → β → Prop} {l : List α} {u : List β}
    (h : List.Forall₂ F l u) : ∀ (i : Nat) (a : α), l[i]? = some a →
      ∃ b, u[i]? = some b ∧ F a b := by
  induction h with
  | nil => intro i a ha; simp at ha
  | cons h1 _ ih =>
    intro i a ha
    cases i with
    | zero =>
      simp only [List.getElem?_cons_zero, Option.some.injEq] at ha
      subst ha
      exact ⟨_, List.getElem?_cons_zero, h1⟩
    | succ j =>
      simp only [List.getElem?_cons_succ] at ha ⊢
      exact ih j a ha

theorem ne_of_nodup_getElem? {l : List Nat} (hl : l.Nodup) {i j a b : Nat} (hij : i ≠ j)
    (ha : l[i]? = some a) (hb : l[j]? = some b) : a ≠ b := by
  intro hab
  subst hab
  obtain ⟨hi, hai⟩ := List.getElem?_eq_some.mp ha
  obtain ⟨hj, haj⟩ := List.getElem?_eq_some.mp hb
  exact hij ((List.Nodup.getElem_inj_iff hl).mp (hai.trans haj.symm))

/-- C12, amended: for an input that the refinement can walk through, whose cells
are of the seven classes the cell loop handles, each in a mesh of the dimension
in which `createCell` reads the quadratic node count as the quadratic class, and
whose boundaries are of the classes the boundary loop handles, `createP2`
returns a mesh that starts with the nodes of the input and has as many cells as
the input; its cell `i` has the quadratic class of input cell `i`, the marker of
that cell, the nodes of that cell as its leading nodes, and after them only
nodes in the middle between two different nodes of that cell (the nodes of a cell
being pairwise different). -/
theorem createP2_quadratic_cells [Add P] [HDiv P R P] [OfNat R 2] [Inhabited R]
    (w : Nat) (ext : Externals P R) (tables : SplitTables) (cbc : BoundaryCreator P R)
    (mesh : Mesh P R) (hcbc : KeepsNodesAndCells cbc) (hwf : Refinable w tables mesh)
    (hfits : ∀ c ∈ mesh.cellVector_, FitsDimension mesh.dimension_ c.shape)
    (hdistinct : ∀ c ∈ mesh.cellVector_, c.nodes.Nodup)
    (hbs : ∀ b ∈ mesh.boundaryVector_, b.shape ∈ splittableBoundaryShapes) :
    ∃ r, createP2 w ext tables cbc mesh = .ok r ∧
      r.nodeVector_.take mesh.nodeCount = mesh.nodeVector_ ∧
      r.cellCount = mesh.cellCount ∧
      ∀ (i : Nat) (c : Cell R), mesh.cellVector_[i]? = some c →
        ∃ q, r.cellVector_[i]? = some q ∧ quadraticShape c.shape = some q.shape ∧
          q.marker = c.marker ∧ q.nodes.take c.nodes.length = c.nodes ∧
          ∀ x ∈ q.nodes.drop c.nodes.length,
            ∃ a b, a ∈ c.nodes ∧ b ∈ c.nodes ∧ a ≠ b ∧ MidPoint r a b x := by
  have hv := createRefined_verdict w ext (Mesh.new mesh.dimension_) true false hcbc hwf
    (fun i m => m.dimension_ = mesh.dimension_ ∧
      List.Forall₂ (QuadraticOf m) (mesh.cellVector_.take i) m.cellVector_)
    (fun _ m => List.Forall₂ (QuadraticOf m) mesh.cellVector_ m.cellVector_)
    (by
      refine ⟨rfl, ?_⟩
      simp [clear, Mesh.new])
    (by
      intro i c m r hget _ hinv hstep
      obtain ⟨-, ⟨l, ch, -, heq, hch, -⟩, hqn⟩ := hstep
      have hch0 := hch rfl
      subst hch0
      simp only [Bool.not_false, Bool.and_self, if_true]
      have hdim : r.2.1.dimension_ = mesh.dimension_ := by rw [heq]; exact hinv.1
      have hnv : r.2.1.nodeVector_ = m.nodeVector_ ++ l := by rw [heq]
      have hcv : r.2.1.cellVector_ = m.cellVector_ := by rw [heq]; simp
      obtain ⟨q, hq1, hq2, hq3, hq4⟩ := createCell_quadratic r.2.1 r.1 c.marker
        (by rw [hdim]; exact hfits c (List.getElem?_mem hget)) hqn.1
      rw [hq4]
      refine ⟨hdim, ?_⟩
      rw [take_succ_of_getElem? hget]
      show List.Forall₂ _ _ (r.2.1.cellVector_ ++ [q])
      rw [hcv]
      refine forall2_concat (hinv.2.imp (fun a b hab => quadraticOf_of_append l hnv hab)) ?_
      exact ⟨hq1, hq2, by rw [hq3]; exact quadraticNodes_of_append [] (by simp) hqn⟩)
    (by
      intro m hm
      have htake : mesh.cellVector_.take mesh.cellCount = mesh.cellVector_ := List.take_length _
      rw [htake] at hm
      exact hm.2)
    (by
      intro i b m r _ _ hinv hstep
      obtain ⟨-, ⟨l, -, hl⟩, hc, -⟩ := hstep
      rw [hc]
      exact hinv.imp (fun a b hab => quadraticOf_of_append l hl hab))
  obtain ⟨r, hr, hinv⟩ := hv.2
    (by
      intro c hc
      have := hfits c hc
      revert this
      cases c.shape <;> simp [FitsDimension, unsplittable])
    (fun b hb => unsplittableBoundary_iff.mpr (hbs b hb))
  obtain ⟨⟨l, hl⟩, -⟩ := holdsNodesOf_createRefined w ext tables hcbc (Mesh.new mesh.dimension_)
    mesh true false hwf.1 r hr
  refine ⟨r, hr, ?_, ?_, ?_⟩
  · rw [hl]
    simp [nodeCount]
  · exact hinv.length_eq.symm
  · intro i c hget
    obtain ⟨q, hq, hshape, hmarker, -, htake, hmid, -⟩ := forall2_getElem? hinv i c hget
    refine ⟨q, hq, hshape, hmarker, htake, ?_⟩
    intro x hx
    obtain ⟨k0, k1, a, b, hk, ha, hb, hpp⟩ := hmid x hx
    exact ⟨a, b, List.getElem?_mem ha, List.getElem?_mem hb,
      ne_of_nodup_getElem? (hdistinct c (List.getElem?_mem hget)) hk ha hb,
      hpp.2 (ne_of_nodup_getElem? (hdistinct c (List.getElem?_mem hget)) hk ha hb)⟩

theorem refinable_oneTriangle : Refinable 32 exampleTables (oneTriangle 0 0 0 7) := by
  refine ⟨idsAreIndices_threeNodes 2 0 0 0, ?_, ?_, ?_, by decide⟩
  · unfold ProperTables ProperTable exampleTables
    decide
  · intro c hc
    simp only [oneTriangle, List.mem_singleton] at hc
    subst hc
    exact ⟨rfl, by decide⟩
  · intro b hb
    cases hb

theorem fitsDimension_oneTriangle :
    ∀ c ∈ (oneTriangle 0 0 0 7).cellVector_,
      FitsDimension (oneTriangle 0 0 0 7).dimension_ c.shape := by
  intro c hc
  simp only [oneTriangle, List.mem_singleton] at hc
  subst hc
  rfl

/-- Counterexample to C12: the input is one triangle in a mesh of dimension 3;
`createP2` returns a mesh whose only cell is a `TriPrism`, not a `Triangle6`. -/
theorem createP2_triangle_in_space :
    (createP2 32 plainExternals exampleTables pushBoundary triangleInSpace).toOption.map
      (fun r => r.cellVector_.map (fun c => c.shape)) = some [CellShape.TriPrism] := by
  decide

/-- Witness of C12, amended: the quadratic refinement of one triangle in a mesh
of dimension 2. -/
theorem createP2_quadratic_cells_witness :
    ∃ r, createP2 32 plainExternals exampleTables pushBoundary (oneTriangle 0 0 0 7) = .ok r ∧
      r.nodeVector_.take 3 = (oneTriangle 0 0 0 7).nodeVector_ ∧
      r.cellCount = 1 ∧
      ∀ (i : Nat) (c : Cell Int), (oneTriangle 0 0 0 7).cellVector_[i]? = some c →
        ∃ q, r.cellVector_[i]? = some q ∧ quadraticShape c.shape = some q.shape ∧
          q.marker = c.marker ∧ q.nodes.take c.nodes.length = c.nodes ∧
          ∀ x ∈ q.nodes.drop c.nodes.length,
            ∃ a b, a ∈ c.nodes ∧ b ∈ c.nodes ∧ a ≠ b ∧ MidPoint r a b x :=
  createP2_quadratic_cells 32 plainExternals exampleTables pushBoundary (oneTriangle 0 0 0 7)
    keepsNodesAndCells_pushBoundary refinable_oneTriangle fitsDimension_oneTriangle
    (by decide) (by decide)

/-! ## Neighbour infos and the search for a cell -/

theorem createNeighbourInfos_of_known (ops : EntityOps P R) (cbc : BoundaryCreator P R)
    (m : Mesh P R) (h : m.neighboursKnown_ = true) :
    createNeighbourInfos ops cbc m false = .ok m := by
  unfold createNeighbourInfos
  rw [h]
  rfl

theorem neighboursKnown_of_createNeighbourInfos (ops : EntityOps P R)
    (cbc : BoundaryCreator P R) (m : Mesh P R) (force : Bool) (r : Mesh P R)
    (h : createNeighbourInfos ops cbc m force = .ok r) : r.neighboursKnown_ = true := by
  unfold createNeighbourInfos at h
  split at h
  · split at h
    · cases h
    · cases h
      rfl
  · rename_i hcond
    cases h
    cases hk : m.neighboursKnown_
    · rw [hk] at hcond
      simp at hcond
    · rfl

/-- Counterexample to C16: in the mesh of three edge cells that meet in one node
(`neighboursKnown_` not set) `createNeighbourInfos` ends in `throwError(1, ...)`
of the cross check, so it does not end with `neighboursKnown_` set. -/
theorem createNeighbourInfos_star_throws :
    starMesh.neighboursKnown_ = false ∧
    failureOf (createNeighbourInfos edgeOps findOrCreateBoundary starMesh false) =
      some (.throwError 1) := by
  decide

/-- C16, amended: on a mesh with `neighboursKnown_` set, `createNeighbourInfos`
without `force` returns the mesh as it is (the same entities, ids, and left and
right cells); and whenever `createNeighbourInfos` returns, with or without
`force`, `neighboursKnown_` is set in the mesh it returns, and a second call
without `force` returns that mesh unchanged. -/
theorem createNeighbourInfos_idempotent (ops : EntityOps P R) (cbc : BoundaryCreator P R)
    (m : Mesh P R) (h : m.neighboursKnown_ = true) :
    createNeighbourInfos ops cbc m false = .ok m ∧
    ∀ (m0 : Mesh P R) (force : Bool) (r : Mesh P R),
      createNeighbourInfos ops cbc m0 force = .ok r →
      r.neighboursKnown_ = true ∧ createNeighbourInfos ops cbc r false = .ok r := by
  refine ⟨createNeighbourInfos_of_known ops cbc m h, fun m0 force r hr => ?_⟩
  have hk := neighboursKnown_of_createNeighbourInfos ops cbc m0 force r hr
  exact ⟨hk, createNeighbourInfos_of_known ops cbc r hk⟩

/-- Witness of C16, amended: the mesh of two edge cells in a row with
`neighboursKnown_` set. -/
theorem createNeighbourInfos_idempotent_witness :
    createNeighbourInfos edgeOps findOrCreateBoundary knownLine false = .ok knownLine :=
  (createNeighbourInfos_idempotent edgeOps findOrCreateBoundary knownLine rfl).1

theorem found_findCellBySlopeSearch (ops : EntityOps P R) (cbc : BoundaryCreator P R) (pos : P)
    (tagging : Bool) (cell : Nat) :
    ∀ (fuel start count : Nat) (m : Mesh P R) (count1 : Nat) (m1 : Mesh P R),
      findCellBySlopeSearch_ ops cbc pos tagging fuel start count m =
        (.ok (.found cell), count1, m1) →
      ∃ c, m1.cellVector_[cell]? = some c ∧
        ops.isInside c.shape (nodePositions m1 c.nodes) pos = true := by
  intro fuel
  induction fuel with
  | zero =>
    intro start count m count1 m1 h
    simp only [findCellBySlopeSearch_] at h
    cases h
  | succ fuel ih =>
    intro start count m count1 m1 h
    simp only [findCellBySlopeSearch_] at h
    split at h
    · cases h
    · rename_i c hc
      split at h
      · cases h
      · split at h
        · rename_i hin
          cases h
          refine ⟨{ c with tagged_ := true }, ?_, hin⟩
          have hlt := (List.getElem?_eq_some.mp hc).1
          simp [List.getElem?_set, hlt]
        · split at h
          · cases h
          · split at h
            · cases h
            · split at h
              · cases h
              · exact ih _ _ _ _ _ h

theorem found_findCellExtensive (ops : EntityOps P R) (cbc : BoundaryCreator P R) (pos : P)
    (fuel : Nat) (cell : Nat) :
    ∀ (l : List Nat) (count : Nat) (m : Mesh P R) (count1 : Nat) (m1 : Mesh P R),
      findCellExtensive ops cbc pos fuel l count m = (.ok (.found cell), count1, m1) →
      ∃ c, m1.cellVector_[cell]? = some c ∧
        ops.isInside c.shape (nodePositions m1 c.nodes) pos = true := by
  intro l
  induction l with
  | nil =>
    intro count m count1 m1 h
    simp only [findCellExtensive] at h
    cases h
  | cons i rest ih =>
    intro count m count1 m1 h
    simp only [findCellExtensive] at h
    split at h
    · exact ih _ _ _ _ h
    · exact found_findCellBySlopeSearch ops cbc pos true cell _ _ _ _ _ _ h

/-- C19: whenever `findCell` returns a cell (for every mesh, position, `extensive`
flag and number of passes granted to the walks), the test `isInside` of the shape
of that cell holds at the position in the mesh that the call leaves: the cell
returned is one that was tested and found to contain the position. -/
theorem findCell_returns_containing_cell (ops : EntityOps P R) (ext : Externals P R)
    (cbc : BoundaryCreator P R) (fuel : Nat) (m : Mesh P R) (pos : P) (extensive : Bool)
    (cell count : Nat) (m1 : Mesh P R)
    (h : findCell ops ext cbc fuel m pos extensive = (.ok (.found cell), count, m1)) :
    ∃ c, m1.cellVector_[cell]? = some c ∧
      ops.isInside c.shape (nodePositions m1 c.nodes) pos = true := by
  unfold findCell at h
  split at h
  · cases h
  · split at h
    · cases h
    · split at h
      · cases h
      · split at h
        · split at h
          · exact found_findCellExtensive ops cbc pos fuel cell _ _ _ _ _ h
          · cases h
        · exact found_findCellBySlopeSearch ops cbc pos false cell _ _ _ _ _ _ h

theorem triple_eq_of_fst {α β γ : Type} {x : α × β × γ} {a : α} (h : x.1 = a) :
    x = (a, x.2.1, x.2.2) := by
  subst h
  rfl

/-- Witness of C19: the search for position 2 in the mesh of two edge cells in a
row walks from cell 0 to cell 1 and returns cell 1, which holds the position. -/
theorem findCell_returns_containing_cell_witness :
    (findCell edgeOps firstNodeExternals findOrCreateBoundary 5 walkLine 2 false).1.toOption =
      some (Walk.found 1) ∧
    ∃ c, (findCell edgeOps firstNodeExternals findOrCreateBoundary 5 walkLine 2
        false).2.2.cellVector_[1]? = some c ∧
      edgeOps.isInside c.shape
        (nodePositions (findCell edgeOps firstNodeExternals findOrCreateBoundary 5 walkLine 2
          false).2.2 c.nodes) 2 = true :=
  ⟨by decide,
   findCell_returns_containing_cell edgeOps firstNodeExternals findOrCreateBoundary 5 walkLine 2
    false 1 _ _ (triple_eq_of_fst (eq_ok_of_toOption (by decide)))⟩

theorem fillKDTree_cellVector (m : Mesh P R) : (fillKDTree_ m).2.cellVector_ = m.cellVector_ := by
  unfold fillKDTree_
  dsimp only
  split
  · split <;> rfl
  · rfl

/-- C20: after `fillKDTree_()` has returned, `findCell` ends in
`throwError(1, ...)` if the tree returns no nearest node (as for a mesh without
nodes) and if the nearest node has an empty cell set, in both cases with `count`
0 and with the cells as they were before the call: no cell has been tested or
tagged; and if the walk from the first cell of the nearest node ends with the
null pointer and `extensive` is `false`, `findCell` returns the null pointer
(not found) and no failure. -/
theorem findCell_fatal_or_not_found (ops : EntityOps P R) (ext : Externals P R)
    (cbc : BoundaryCreator P R) (fuel : Nat) (m : Mesh P R) (pos : P) (u : Unit)
    (m1 : Mesh P R) (hfill : fillKDTree_ m = (.ok u, m1)) :
    m1.cellVector_ = m.cellVector_ ∧
    (ext.nearest (m1.tree_.getD []) m1.nodeVector_ pos = none →
      ∀ extensive, findCell ops ext cbc fuel m pos extensive = (.error (.throwError 1), 0, m1)) ∧
    (∀ refNode, ext.nearest (m1.tree_.getD []) m1.nodeVector_ pos = some refNode →
      ops.cellSet m1 refNode = [] →
      ∀ extensive, findCell ops ext cbc fuel m pos extensive = (.error (.throwError 1), 0, m1)) ∧
    (∀ refNode start rest count m2,
      ext.nearest (m1.tree_.getD []) m1.nodeVector_ pos = some refNode →
      ops.cellSet m1 refNode = start :: rest →
      findCellBySlopeSearch_ ops cbc pos false fuel start 0 m1 = (.ok .notFound, count, m2) →
      findCell ops ext cbc fuel m pos false = (.ok .notFound, count, m2)) := by
  refine ⟨?_, ?_, ?_, ?_⟩
  · have := fillKDTree_cellVector m
    rw [hfill] at this
    exact this
  · intro hnone extensive
    unfold findCell
    simp only [hfill, hnone]
  · intro refNode hsome hset extensive
    unfold findCell
    simp only [hfill, hsome, hset]
  · intro refNode start rest count m2 hsome hset hwalk
    unfold findCell
    simp only [hfill, hsome, hset, hwalk]
    rfl

/-- Witness of C20: in a mesh without nodes the tree returns no nearest node and
`findCell` ends in `throwError(1, ...)`. -/
theorem findCell_fatal_or_not_found_witness :
    fillKDTree_ emptyMesh = (.ok (), { emptyMesh with tree_ := some [] }) ∧
    findCell edgeOps firstNodeExternals findOrCreateBoundary 5 emptyMesh 0 false =
      (.error (.throwError 1), 0, { emptyMesh with tree_ := some [] }) :=
  ⟨rfl, (findCell_fatal_or_not_found edgeOps firstNodeExternals findOrCreateBoundary 5 emptyMesh 0
    () { emptyMesh with tree_ := some [] } rfl).2.1 rfl false⟩

/-! ## The assignment step and the cross check -/

theorem assignSides_continue {c : Nat} {nb : Option Nat} {isLeft : Bool} {b : Boundary}
    (h : (assignSides c nb isLeft b).2 = true) :
    (assignSides c nb isLeft b).1 = b ∧ OnOneSide c b := by
  unfold assignSides at h ⊢
  unfold OnOneSide
  split_ifs at h ⊢ <;> simp_all

theorem onOneSide_of_crossCheck {c : Nat} {b : Boundary} (h : crossCheckFails c b = false) :
    OnOneSide c b := by
  unfold crossCheckFails at h
  unfold OnOneSide
  simp only [decide_eq_false_iff_not, not_or, not_and, ne_eq, Decidable.not_not] at h
  obtain ⟨h1, h2⟩ := h
  by_cases hl : b.leftCell = some c
  · left
    refine ⟨hl, fun hr => h2 (hl.trans hr.symm)⟩
  · right
    exact ⟨hl, h1 hl⟩

theorem crossCheck_of_onOneSide {c : Nat} {b : Boundary} (h : OnOneSide c b) :
    crossCheckFails c b = false := by
  unfold crossCheckFails
  unfold OnOneSide at h
  simp only [decide_eq_false_iff_not, not_or, not_and, ne_eq, Decidable.not_not]
  rcases h with ⟨h1, h2⟩ | ⟨h1, h2⟩
  · exact ⟨fun h => absurd h1 h, fun h => h2 (h ▸ h1)⟩
  · exact ⟨fun _ => h2, fun h => h1 (h ▸ h2)⟩

theorem assignSides_of_onOneSide {c : Nat} {nb : Option Nat} {isLeft : Bool} {b : Boundary}
    (h : OnOneSide c b) : (assignSides c nb isLeft b).1 = b := by
  unfold assignSides
  unfold OnOneSide at h
  split_ifs <;> simp_all

theorem assignSides_of_two_others {c x y : Nat} {nb : Option Nat} {isLeft : Bool} {b : Boundary}
    (hl : b.leftCell = some x) (hr : b.rightCell = some y) (hx : x ≠ c) (hy : y ≠ c) :
    assignSides c nb isLeft b = (b, false) ∧ crossCheckFails c b = true := by
  unfold assignSides crossCheckFails
  simp [hl, hr, hx, hy]

theorem entityNodeId_error {m : Mesh P R} {nodes : List Nat} {k : Nat} {e : Failure}
    (h : entityNodeId m nodes k = .error e) : e = .outOfRange := by
  unfold entityNodeId at h
  split at h
  · cases h; rfl
  · split at h
    · cases h; rfl
    · cases h

theorem cellIsLeft_error {ops : EntityOps P R} {m : Mesh P R} {c : Cell R} {j : Nat}
    {bound : Boundary} {e : Failure} (h : cellIsLeft ops m c j bound = .error e) :
    e = .outOfRange := by
  unfold cellIsLeft at h
  split at h
  · cases ha : entityNodeId m (ops.boundaryNodes c.shape c.nodes j) 0 with
    | error e1 =>
      simp only [ha] at h
      cases h
      exact entityNodeId_error ha
    | ok a =>
      cases hb : entityNodeId m bound.nodes 0 with
      | error e1 =>
        simp only [ha, hb] at h
        cases h
        exact entityNodeId_error hb
      | ok b =>
        simp only [ha, hb] at h
        cases h
  · split at h <;> cases h

theorem assignFacet_error {ops : EntityOps P R} {cbc : BoundaryCreator P R} {ci j : Nat}
    {m : Mesh P R} {e : Failure} (h : assignFacet ops cbc ci j m = .error e) :
    e = .outOfRange := by
  unfold assignFacet at h
  split at h
  · cases h; rfl
  · split at h
    · cases h
    · dsimp only at h
      split at h
      · cases h; rfl
      · split at h
        · cases h; rfl
        · split at h
          · rename_i he
            cases h
            exact cellIsLeft_error he
          · cases h

theorem assignFacet_spec {ops : EntityOps P R} {cbc : BoundaryCreator P R} {ci j : Nat}
    {m : Mesh P R} {a : Assigned P R} (h : assignFacet ops cbc ci j m = .ok (some a)) :
    ∃ c bound isLeft,
      m.cellVector_[ci]? = some c ∧ c.neighbourCell j = none ∧
      createBoundary cbc
        { m with cellVector_ :=
            m.cellVector_.set ci (c.setNeighbourCell j (ops.findNeighbourCell m ci j)) }
        (ops.boundaryNodes c.shape c.nodes j) 0 = (some a.bound, a.mesh) ∧
      a.mesh.boundaryVector_[a.bound]? = some bound ∧
      a.after = (assignSides ci
        ((c.setNeighbourCell j (ops.findNeighbourCell m ci j)).neighbourCell j) isLeft
        bound).1 ∧
      a.skipsCheck = (assignSides ci
        ((c.setNeighbourCell j (ops.findNeighbourCell m ci j)).neighbourCell j) isLeft
        bound).2 := by
  unfold assignFacet at h
  split at h
  · cases h
  · rename_i c hc
    split at h
    · cases h
    · rename_i hnb
      dsimp only at h
      split at h
      · cases h
      · rename_i bi m2 hcb
        split at h
        · cases h
        · rename_i bound hbound
          split at h
          · cases h
          · rename_i isLeft hleft
            cases h
            refine ⟨c, bound, isLeft, hc, ?_, hcb, hbound, rfl, rfl⟩
            cases hx : c.neighbourCell j
            · rfl
            · rw [hx] at hnb
              exact absurd rfl hnb

theorem set_of_getElem? {α : Type} {l : List α} {i : Nat} {x : α} (h : l[i]? = some x) :
    l.set i x = l := by
  apply List.ext_getElem?
  intro k
  rw [List.getElem?_set]
  split
  · rename_i hik
    subst hik
    split
    · exact h.symm
    · rename_i hlt
      rw [List.getElem?_eq_none (by omega)]
  · rfl

/-- What a pass of the loop body that returns has done: nothing if the facet was
left at once; otherwise the boundary `bound` holds the cell on exactly one side
and is the only boundary that the pass has changed after `createBoundary`. -/
theorem neighbourInfosFacet_ok {ops : EntityOps P R} {cbc : BoundaryCreator P R} {ci j : Nat}
    {m m1 : Mesh P R} (h : neighbourInfosFacet ops cbc ci j m = .ok m1) :
    (assignFacet ops cbc ci j m = .ok none ∧ m1 = m) ∨
    ∃ a, assignFacet ops cbc ci j m = .ok (some a) ∧ OnOneSide ci a.after ∧
      m1 = { a.mesh with boundaryVector_ := a.mesh.boundaryVector_.set a.bound a.after } := by
  unfold neighbourInfosFacet at h
  split at h
  · cases h
  · rename_i hnone
    cases h
    exact Or.inl ⟨hnone, rfl⟩
  · rename_i a ha
    right
    obtain ⟨c, bound, isLeft, -, -, -, hbound, hafter, hskip⟩ := assignFacet_spec ha
    split at h
    · rename_i hs
      cases h
      rw [hskip] at hs
      obtain ⟨h1, h2⟩ := assignSides_continue hs
      rw [h1] at hafter
      refine ⟨a, ha, by rw [hafter]; exact h2, ?_⟩
      rw [hafter, set_of_getElem? hbound]
    · split at h
      · cases h
      · rename_i hc
        cases h
        refine ⟨a, ha, onOneSide_of_crossCheck (by simpa using hc), rfl⟩

theorem neighbourInfosFacet_throws {ops : EntityOps P R} {cbc : BoundaryCreator P R}
    {ci j : Nat} {m : Mesh P R} :
    neighbourInfosFacet ops cbc ci j m = .error (.throwError 1) ↔
      ∃ a, assignFacet ops cbc ci j m = .ok (some a) ∧ crossCheckFails ci a.after = true := by
  unfold neighbourInfosFacet
  constructor
  · intro h
    split at h
    · rename_i e he
      cases h
      have := assignFacet_error he
      cases this
    · cases h
    · rename_i a ha
      split at h
      · cases h
      · split at h
        · rename_i hc
          exact ⟨a, ha, hc⟩
        · cases h
  · rintro ⟨a, ha, hc⟩
    rw [ha]
    dsimp only
    have hs : a.skipsCheck = false := by
      obtain ⟨c, bound, isLeft, -, -, -, -, hafter, hskip⟩ := assignFacet_spec ha
      cases hsk : a.skipsCheck
      · rfl
      · rw [hskip] at hsk
        obtain ⟨h1, h2⟩ := assignSides_continue hsk
        rw [hafter, h1, crossCheck_of_onOneSide h2] at hc
        cases hc
    rw [hs, hc]
    rfl

theorem assignSides_nodes (c : Nat) (nb : Option Nat) (isLeft : Bool) (bound : Boundary) :
    (assignSides c nb isLeft bound).1.nodes = bound.nodes := by
  unfold assignSides
  dsimp only
  split_ifs <;> rfl

theorem createBoundary_keepsSides {cbc : BoundaryCreator P R} (hcbc : KeepsSides cbc)
    (m : Mesh P R) (ns : List Nat) (marker : Int) :
    (createBoundary cbc m ns marker).2.cellVector_ = m.cellVector_ ∧
    (∀ (i : Nat) (b : Boundary), m.boundaryVector_[i]? = some b →
      ∃ b1 : Boundary, (createBoundary cbc m ns marker).2.boundaryVector_[i]? = some b1 ∧
        b1.nodes = b.nodes ∧ b1.leftCell = b.leftCell ∧ b1.rightCell = b.rightCell) ∧
    (∀ (i : Nat) (b1 : Boundary), m.boundaryCount ≤ i →
      (createBoundary cbc m ns marker).2.boundaryVector_[i]? = some b1 →
      b1.leftCell = none ∧ b1.rightCell = none) := by
  have hid : (m.cellVector_ = m.cellVector_) ∧
      (∀ (i : Nat) (b : Boundary), m.boundaryVector_[i]? = some b →
        ∃ b1 : Boundary, m.boundaryVector_[i]? = some b1 ∧
          b1.nodes = b.nodes ∧ b1.leftCell = b.leftCell ∧ b1.rightCell = b.rightCell) ∧
      (∀ (i : Nat) (b1 : Boundary), m.boundaryCount ≤ i →
        m.boundaryVector_[i]? = some b1 → b1.leftCell = none ∧ b1.rightCell = none) := by
    refine ⟨rfl, fun i b h => ⟨b, h, rfl, rfl, rfl⟩, fun i b1 hi h => ?_⟩
    have := (List.getElem?_eq_some.mp h).1
    unfold boundaryCount at hi
    omega
  unfold createBoundary
  split <;> (try split) <;> first | exact hcbc _ _ _ _ | exact hid

theorem neighbourInfosFacets_append (ops : EntityOps P R) (cbc : BoundaryCreator P R)
    (ci : Nat) (l1 l2 : List Nat) : ∀ m : Mesh P R,
    neighbourInfosFacets ops cbc ci (l1 ++ l2) m =
      match neighbourInfosFacets ops cbc ci l1 m with
      | .error e => .error e
      | .ok m1 => neighbourInfosFacets ops cbc ci l2 m1 := by
  induction l1 with
  | nil => intro m; rfl
  | cons j l1 ih =>
    intro m
    simp only [List.cons_append, neighbourInfosFacets]
    cases neighbourInfosFacet ops cbc ci j m with
    | error e => rfl
    | ok m1 => exact ih m1

theorem range_split {j n : Nat} (h : j < n) :
    List.range n = List.range j ++ j :: List.range' (j + 1) (n - (j + 1)) := by
  have h1 : n = (n - (j + 1) + 1) + j := by omega
  conv_lhs => rw [h1]
  rw [List.range_eq_range', List.range_eq_range', ← List.range'_append_1 0 j,
    Nat.zero_add, List.range'_succ]

theorem range_eq_append_cons {n j : Nat} {l1 l2 : List Nat}
    (h : List.range n = l1 ++ j :: l2) : l1 = List.range j ∧ j < n := by
  have hlen : (List.range n).length = l1.length + (l2.length + 1) := by
    rw [h]; simp
  rw [List.length_range] at hlen
  have hget : (List.range n)[l1.length]? = some j := by
    rw [h, List.getElem?_append_right (Nat.le_refl _)]
    simp
  rw [List.getElem?_range (by omega)] at hget
  have hj : l1.length = j := Option.some.inj hget
  refine ⟨?_, by omega⟩
  have htake : (List.range n).take l1.length = l1 := by
    rw [h, List.take_left]
  rw [← htake, List.take_range, hj, Nat.min_eq_left (by omega)]

theorem neighbourInfosFacets_error {ops : EntityOps P R} {cbc : BoundaryCreator P R}
    {ci : Nat} {e : Failure} : ∀ (l : List Nat) (m : Mesh P R),
    neighbourInfosFacets ops cbc ci l m = .error e →
    ∃ l1 j l2 mj, l = l1 ++ j :: l2 ∧ neighbourInfosFacets ops cbc ci l1 m = .ok mj ∧
      neighbourInfosFacet ops cbc ci j mj = .error e := by
  intro l
  induction l with
  | nil => intro m h; cases h
  | cons j l ih =>
    intro m h
    simp only [neighbourInfosFacets] at h
    cases hstep : neighbourInfosFacet ops cbc ci j m with
    | error e1 =>
      rw [hstep] at h
      cases h
      exact ⟨[], j, l, m, rfl, rfl, hstep⟩
    | ok m1 =>
      rw [hstep] at h
      obtain ⟨l1, j1, l2, mj, hl, hpre, herr⟩ := ih m1 h
      refine ⟨j :: l1, j1, l2, mj, by rw [hl]; rfl, ?_, herr⟩
      simp only [neighbourInfosFacets, hstep]
      exact hpre

theorem neighbourInfosFacet_keeps {ops : EntityOps P R} {cbc : BoundaryCreator P R}
    (hcbc : KeepsSides cbc) {ci j : Nat} {m m1 : Mesh P R}
    (h : neighbourInfosFacet ops cbc ci j m = .ok m1) (i : Nat) (b : Boundary)
    (hb : m.boundaryVector_[i]? = some b) :
    ∃ b1, m1.boundaryVector_[i]? = some b1 ∧ b1.nodes = b.nodes ∧
      ((b1.leftCell = b.leftCell ∧ b1.rightCell = b.rightCell) ∨ OnOneSide ci b1) := by
  rcases neighbourInfosFacet_ok h with ⟨-, rfl⟩ | ⟨a, ha, hone, rfl⟩
  · exact ⟨b, hb, rfl, Or.inl ⟨rfl, rfl⟩⟩
  · obtain ⟨c, bound, isLeft, -, -, hcb, hbound, hafter, -⟩ := assignFacet_spec ha
    have hk := (createBoundary_keepsSides hcbc
      { m with cellVector_ :=
          m.cellVector_.set ci (c.setNeighbourCell j (ops.findNeighbourCell m ci j)) }
      (ops.boundaryNodes c.shape c.nodes j) 0).2.1 i b hb
    rw [hcb] at hk
    obtain ⟨b1, hb1, hn1, hl1, hr1⟩ := hk
    have hlt := (List.getElem?_eq_some.mp hb1).1
    by_cases hi : a.bound = i
    · subst hi
      refine ⟨a.after, by simp [List.getElem?_set, hlt], ?_, Or.inr hone⟩
      rw [hb1] at hbound
      cases hbound
      rw [hafter, ← hn1]
      exact assignSides_nodes _ _ _ _
    · refine ⟨b1, ?_, hn1, Or.inl ⟨hl1, hr1⟩⟩
      simp [List.getElem?_set, hi, hb1]

theorem onOneSide_of_sides {c : Nat} {b b1 : Boundary} (hl : b1.leftCell = b.leftCell)
    (hr : b1.rightCell = b.rightCell) (h : OnOneSide c b) : OnOneSide c b1 := by
  unfold OnOneSide at *
  rw [hl, hr]
  exact h

theorem neighbourInfosFacets_keep_onOneSide {ops : EntityOps P R} {cbc : BoundaryCreator P R}
    (hcbc : KeepsSides cbc) {ci : Nat} : ∀ (l : List Nat) (m m1 : Mesh P R),
    neighbourInfosFacets ops cbc ci l m = .ok m1 → ∀ (i : Nat) (b : Boundary),
    m.boundaryVector_[i]? = some b → OnOneSide ci b →
    ∃ b1, m1.boundaryVector_[i]? = some b1 ∧ OnOneSide ci b1 := by
  intro l
  induction l with
  | nil =>
    intro m m1 h i b hb hone
    cases h
    exact ⟨b, hb, hone⟩
  | cons j l ih =>
    intro m m1 h i b hb hone
    simp only [neighbourInfosFacets] at h
    cases hstep : neighbourInfosFacet ops cbc ci j m with
    | error e => rw [hstep] at h; cases h
    | ok m2 =>
      rw [hstep] at h
      obtain ⟨b2, hb2, -, hs⟩ := neighbourInfosFacet_keeps hcbc hstep i b hb
      refine ih m2 m1 h i b2 hb2 ?_
      rcases hs with ⟨hl, hr⟩ | hs
      · exact onOneSide_of_sides hl hr hone
      · exact hs

theorem keepsSides_findOrCreateBoundary :
    KeepsSides (findOrCreateBoundary : BoundaryCreator P R) := by
  intro shape m nodes marker
  unfold findOrCreateBoundary
  split
  · refine ⟨rfl, fun i b h => ⟨b, h, rfl, rfl, rfl⟩, fun i b1 hi h => ?_⟩
    have h2 : m.boundaryVector_[i]? = some b1 := h
    have hlt : i < m.boundaryVector_.length := (List.getElem?_eq_some.mp h2).1
    have hi2 : m.boundaryVector_.length ≤ i := hi
    omega
  · refine ⟨rfl, fun i b h => ⟨b, ?_, rfl, rfl, rfl⟩, fun i b1 hi h => ?_⟩
    · show (m.boundaryVector_ ++ _)[i]? = some b
      rw [List.getElem?_append_left (List.getElem?_eq_some.mp h).1]
      exact h
    · have h1 : (m.boundaryVector_ ++
          [(⟨shape, nodes, marker, (m.boundaryCount : Int), none, none⟩ : Boundary)])[i]? =
            some b1 := h
      unfold boundaryCount at hi
      rw [List.getElem?_append_right hi] at h1
      cases hk : i - m.boundaryVector_.length with
      | zero =>
        rw [hk] at h1
        simp only [List.getElem?_cons_zero, Option.some.injEq] at h1
        subst h1
        exact ⟨rfl, rfl⟩
      | succ k =>
        rw [hk] at h1
        simp at h1

/-- C18, amended: for a cell `c` of the mesh and a boundary creator that keeps
the sides of the boundaries that exist, `createNeighbourInfosCell_(c)` ends in
`throwError(1, ...)` if and only if some facet of `c` reaches the assignment step
and after that step `c` is neither the left nor the right cell of the boundary of
the facet, or both sides are equal; a facet that reaches the assignment step (no
neighbour cell is recorded for it yet) and whose boundary has two other cells on
its sides is reported in this way; and when the call returns, `c` is on exactly
one side of every boundary whose facet has reached the assignment step. The
state before facet `j` is the state after the facets `0 .. j - 1`. -/
theorem createNeighbourInfosCell_cross_check (ops : EntityOps P R)
    (cbc : BoundaryCreator P R) (ci : Nat) (m : Mesh P R) (c : Cell R)
    (hcbc : KeepsSides cbc) (hc : m.cellVector_[ci]? = some c) :
    (createNeighbourInfosCell_ ops cbc ci m = .error (.throwError 1) ↔
      ∃ j mj a, j < ops.boundaryCount c.shape ∧
        neighbourInfosFacets ops cbc ci (List.range j) m = .ok mj ∧
        assignFacet ops cbc ci j mj = .ok (some a) ∧ crossCheckFails ci a.after = true) ∧
    (∀ j mj a bound x y, j < ops.boundaryCount c.shape →
      neighbourInfosFacets ops cbc ci (List.range j) m = .ok mj →
      assignFacet ops cbc ci j mj = .ok (some a) →
      a.mesh.boundaryVector_[a.bound]? = some bound →
      bound.leftCell = some x → bound.rightCell = some y → x ≠ ci → y ≠ ci →
      createNeighbourInfosCell_ ops cbc ci m = .error (.throwError 1)) ∧
    (∀ r, createNeighbourInfosCell_ ops cbc ci m = .ok r →
      ∀ j mj a, j < ops.boundaryCount c.shape →
        neighbourInfosFacets ops cbc ci (List.range j) m = .ok mj →
        assignFacet ops cbc ci j mj = .ok (some a) →
        ∃ b, r.boundaryVector_[a.bound]? = some b ∧ OnOneSide ci b) := by
  have hdef : createNeighbourInfosCell_ ops cbc ci m =
      neighbourInfosFacets ops cbc ci (List.range (ops.boundaryCount c.shape)) m := by
    unfold createNeighbourInfosCell_
    rw [hc]
  have hthrow : ∀ j mj a, j < ops.boundaryCount c.shape →
      neighbourInfosFacets ops cbc ci (List.range j) m = .ok mj →
      assignFacet ops cbc ci j mj = .ok (some a) → crossCheckFails ci a.after = true →
      createNeighbourInfosCell_ ops cbc ci m = .error (.throwError 1) := by
    intro j mj a hj hpre ha hcross
    rw [hdef, range_split hj, neighbourInfosFacets_append, hpre]
    simp only [neighbourInfosFacets, neighbourInfosFacet_throws.mpr ⟨a, ha, hcross⟩]
  refine ⟨⟨?_, ?_⟩, ?_, ?_⟩
  · intro h
    rw [hdef] at h
    obtain ⟨l1, j, l2, mj, hl, hpre, herr⟩ := neighbourInfosFacets_error _ _ h
    obtain ⟨hl1, hj⟩ := range_eq_append_cons hl
    subst hl1
    obtain ⟨a, ha, hcross⟩ := neighbourInfosFacet_throws.mp herr
    exact ⟨j, mj, a, hj, hpre, ha, hcross⟩
  · rintro ⟨j, mj, a, hj, hpre, ha, hcross⟩
    exact hthrow j mj a hj hpre ha hcross
  · intro j mj a bound x y hj hpre ha hbound hl hr hx hy
    obtain ⟨c1, bound1, isLeft, -, -, -, hbound1, hafter, -⟩ := assignFacet_spec ha
    rw [hbound] at hbound1
    cases hbound1
    have h12 : assignSides ci
        ((c1.setNeighbourCell j (ops.findNeighbourCell mj ci j)).neighbourCell j) isLeft bound =
          (bound, false) ∧ crossCheckFails ci bound = true :=
      assignSides_of_two_others hl hr hx hy
    obtain ⟨h1, h2⟩ := h12
    rw [h1] at hafter
    exact hthrow j mj a hj hpre ha (by rw [hafter]; exact h2)
  · intro r hr j mj a hj hpre ha
    rw [hdef, range_split hj, neighbourInfosFacets_append, hpre] at hr
    simp only [neighbourInfosFacets] at hr
    cases hstep : neighbourInfosFacet ops cbc ci j mj with
    | error e => rw [hstep] at hr; cases hr
    | ok m2 =>
      rw [hstep] at hr
      rcases neighbourInfosFacet_ok hstep with ⟨hnone, -⟩ | ⟨a1, ha1, hone, hm2⟩
      · rw [ha] at hnone
        cases hnone
      · rw [ha] at ha1
        cases ha1
        obtain ⟨c1, bound1, isLeft, -, -, -, hbound1, -, -⟩ := assignFacet_spec ha
        have hlt := (List.getElem?_eq_some.mp hbound1).1
        have hget : m2.boundaryVector_[a.bound]? = some a.after := by
          rw [hm2]
          simp [List.getElem?_set, hlt]
        exact neighbourInfosFacets_keep_onOneSide hcbc _ m2 r hr a.bound a.after hget hone

/-- Counterexample to C18: in `recordedStar` facet 0 of cell 0 is the node 0,
the boundary over node 0 has the two other cells 1 and 2 on its sides, and cell 0
has a neighbour recorded for facet 0. `createNeighbourInfosCell_` for cell 0
leaves facet 0 at the first `continue` and returns; the boundary over node 0
still has the cells 1 and 2 on its sides, and nothing is reported. -/
theorem createNeighbourInfosCell_skips_recorded_facet :
    edgeOps.boundaryNodes CellShape.EdgeCell [0, 1] 0 = [0] ∧
    recordedStar.boundaryVector_.map (fun b => (b.nodes, b.leftCell, b.rightCell)) =
      [([0], some 1, some 2)] ∧
    (createNeighbourInfosCell_ edgeOps findOrCreateBoundary 0 recordedStar).toOption.map
      (fun r => r.boundaryVector_.map (fun b => (b.nodes, b.leftCell, b.rightCell))) =
      some [([0], some 1, some 2), ([1], some 0, none)] := by
  decide

/-- Witness of C18, amended: cell 0 of the mesh of two edge cells in a row, with
the boundary creator that finds or creates. -/
theorem createNeighbourInfosCell_cross_check_witness :
    lineMesh.cellVector_[0]? = some ⟨CellShape.EdgeCell, [0, 1], 0, 0, 0, [], false⟩ ∧
    (createNeighbourInfosCell_ edgeOps findOrCreateBoundary 0 lineMesh =
        .error (.throwError 1) ↔
      ∃ j mj a, j < edgeOps.boundaryCount CellShape.EdgeCell ∧
        neighbourInfosFacets edgeOps findOrCreateBoundary 0 (List.range j) lineMesh = .ok mj ∧
        assignFacet edgeOps findOrCreateBoundary 0 j mj = .ok (some a) ∧
        crossCheckFails 0 a.after = true) :=
  ⟨rfl, (createNeighbourInfosCell_cross_check edgeOps findOrCreateBoundary 0 lineMesh
    ⟨CellShape.EdgeCell, [0, 1], 0, 0, 0, [], false⟩ keepsSides_findOrCreateBoundary rfl).1⟩

/-! ## The state after the adjacency derivation -/

theorem samePoints_iff {a b : List Nat} : samePoints a b = true ↔ ∀ x, x ∈ a ↔ x ∈ b := by
  have hc : ∀ (l : List Nat) (x : Nat), l.contains x = true ↔ x ∈ l := fun l x => List.elem_iff
  unfold samePoints
  simp only [Bool.and_eq_true, List.all_eq_true, hc]
  constructor
  · rintro ⟨h1, h2⟩ x
    exact ⟨h1 x, h2 x⟩
  · intro h
    exact ⟨fun x => (h x).mp, fun x => (h x).mpr⟩

theorem samePoints_refl (a : List Nat) : samePoints a a = true :=
  samePoints_iff.mpr (fun _ => Iff.rfl)

theorem samePoints_congr {a b : List Nat} (h : samePoints a b = true) (x : List Nat) :
    samePoints x a = samePoints x b := by
  rw [Bool.eq_iff_iff, samePoints_iff, samePoints_iff]
  have hab := samePoints_iff.mp h
  exact ⟨fun hx y => (hx y).trans (hab y), fun hx y => (hx y).trans (hab y).symm⟩

theorem samePoints_of_both {x a b : List Nat} (ha : samePoints x a = true)
    (hb : samePoints x b = true) : samePoints a b = true := by
  rw [samePoints_iff] at *
  exact fun y => (ha y).symm.trans (hb y)

theorem findIdx?_getElem {α : Type} (p : α → Bool) (l : List α) (i : Nat)
    (h : l.findIdx? p = some i) : ∃ b, l[i]? = some b ∧ p b = true := by
  obtain ⟨hi, hp, -⟩ := List.findIdx?_eq_some_iff_getElem.mp h
  exact ⟨l[i], List.getElem?_eq_getElem hi, hp⟩

theorem findIdx?_of_map_eq {α : Type} (p : α → Bool) (l l1 : List α)
    (h : l.map p = l1.map p) : l.findIdx? p = l1.findIdx? p := by
  have h1 := List.findIdx?_map (p := id) p l
  have h2 := List.findIdx?_map (p := id) p l1
  rw [h] at h1
  exact h1.symm.trans h2

theorem findIdx?_append_some {α : Type} (p : α → Bool) (ext : List α) (l : List α) (i : Nat)
    (h : l.findIdx? p = some i) : (l ++ ext).findIdx? p = some i := by
  rw [List.findIdx?_append, h]
  rfl

theorem findIdx?_append_none {α : Type} (p : α → Bool) (b : α) (hb : p b = true)
    (l : List α) (h : l.findIdx? p = none) : (l ++ [b]).findIdx? p = some l.length := by
  rw [List.findIdx?_append, h]
  simp [List.findIdx?_cons, hb]

theorem map_set_of_eq {α β : Type} (f : α → β) {l : List α} {i : Nat} {a b : α}
    (h : l[i]? = some b) (hf : f a = f b) : (l.set i a).map f = l.map f := by
  rw [List.map_set, hf]
  apply List.ext_getElem?
  intro k
  rw [List.getElem?_set]
  by_cases hk : i = k
  · subst hk
    have hlt := (List.getElem?_eq_some.mp h).1
    simp only [if_true, List.length_map, hlt, List.getElem?_map, h, Option.map_some']
  · simp [hk]

theorem neighbourCell_set_same (c : Cell R) (j : Nat) (v : Option Nat) :
    (c.setNeighbourCell j v).neighbourCell j = v := by
  have hfil : ∀ l : List (Nat × Nat), (l.filter (fun e => e.1 ≠ j)).lookup j = none := by
    intro l
    induction l with
    | nil => rfl
    | cons e l ih =>
      rw [List.filter_cons]
      by_cases he : e.1 = j
      · simp only [ne_eq, he, not_true_eq_false, decide_False, Bool.false_eq_true, if_false]
        exact ih
      · have hne : (j == e.1) = false := by simpa using fun h => he h.symm
        simp only [ne_eq, he, not_false_eq_true, decide_True, if_true]
        obtain ⟨e1, e2⟩ := e
        simp only [List.lookup_cons, hne]
        exact ih
  unfold Cell.neighbourCell Cell.setNeighbourCell
  cases v with
  | none => exact hfil _
  | some n => simp [List.lookup_cons]

theorem neighbourCell_set_other (c : Cell R) {j k : Nat} (v : Option Nat) (h : k ≠ j) :
    (c.setNeighbourCell j v).neighbourCell k = c.neighbourCell k := by
  have hfil : ∀ l : List (Nat × Nat), (l.filter (fun e => e.1 ≠ j)).lookup k = l.lookup k := by
    intro l
    induction l with
    | nil => rfl
    | cons e l ih =>
      obtain ⟨e1, e2⟩ := e
      rw [List.filter_cons]
      by_cases he : e1 = j
      · subst he
        have hne : (k == e1) = false := by simpa using h
        simp only [ne_eq, not_true_eq_false, decide_False, Bool.false_eq_true, if_false,
          List.lookup_cons, hne]
        exact ih
      · simp only [ne_eq, he, not_false_eq_true, decide_True, if_true, List.lookup_cons, ih]
  unfold Cell.neighbourCell Cell.setNeighbourCell
  cases v with
  | none => exact hfil _
  | some n =>
    have hne : (k == j) = false := by simpa using h
    simp only [List.lookup_cons, hne]
    exact hfil _

theorem cellKey_setNeighbourCell (c : Cell R) (j : Nat) (v : Option Nat) :
    cellKey (c.setNeighbourCell j v) = cellKey c := rfl

theorem assignSides_left {c x : Nat} {nb : Option Nat} {isLeft : Bool} {b : Boundary}
    (h : (assignSides c nb isLeft b).1.leftCell = some x) :
    b.leftCell = some x ∨ x = c ∨ nb = some x := by
  unfold assignSides at h
  dsimp only at h
  split_ifs at h <;> simp_all

theorem assignSides_right {c x : Nat} {nb : Option Nat} {isLeft : Bool} {b : Boundary}
    (h : (assignSides c nb isLeft b).1.rightCell = some x) :
    b.rightCell = some x ∨ x = c ∨ nb = some x := by
  unfold assignSides at h
  dsimp only at h
  split_ifs at h <;> simp_all

theorem assignSides_keeps_left {c x : Nat} {nb : Option Nat} {isLeft : Bool} {b : Boundary}
    (h : b.leftCell = some x) : (assignSides c nb isLeft b).1.leftCell = some x := by
  unfold assignSides
  dsimp only
  split_ifs <;> simp_all

theorem assignSides_keeps_right {c x : Nat} {nb : Option Nat} {isLeft : Bool} {b : Boundary}
    (h : b.rightCell = some x) : (assignSides c nb isLeft b).1.rightCell = some x := by
  unfold assignSides
  dsimp only
  split_ifs <;> simp_all

theorem findOrCreateBoundary_spec {shape : BoundaryShape} {m m2 : Mesh P R} {ns : List Nat}
    {mk : Int} {bi : Nat} (h : findOrCreateBoundary shape m ns mk = (some bi, m2)) :
    ∃ ext : List Boundary, m2 = { m with boundaryVector_ := m.boundaryVector_ ++ ext } ∧
      (m.boundaryVector_ ++ ext).findIdx? (fun b => samePoints b.nodes ns) = some bi ∧
      (∀ b ∈ ext, b.leftCell = none ∧ b.rightCell = none) ∧
      (∀ i : Nat, m.boundaryVector_.length ≤ i → i < (m.boundaryVector_ ++ ext).length →
        i = bi) := by
  unfold findOrCreateBoundary at h
  split at h
  · rename_i i hi
    cases h
    refine ⟨[], ?_, ?_, ?_, ?_⟩
    · rw [List.append_nil]
    · rw [List.append_nil]
      exact hi
    · intro b hb
      cases hb
    · intro i h1 h2
      rw [List.append_nil] at h2
      omega
  · rename_i hi
    unfold createBoundary_ at h
    cases h
    refine ⟨[⟨shape, ns, mk, (m.boundaryCount : Int), none, none⟩], rfl, ?_, ?_, ?_⟩
    · exact findIdx?_append_none (fun b : Boundary => samePoints b.nodes ns) _
        (samePoints_refl ns) _ hi
    · intro b hb
      rw [List.mem_singleton] at hb
      subst hb
      exact ⟨rfl, rfl⟩
    · intro i h1 h2
      rw [List.length_append, List.length_singleton] at h2
      omega

theorem createBoundary_findOrCreate {m m2 : Mesh P R} {ns : List Nat} {mk : Int} {bi : Nat}
    (h : createBoundary findOrCreateBoundary m ns mk = (some bi, m2)) :
    ∃ ext : List Boundary, m2 = { m with boundaryVector_ := m.boundaryVector_ ++ ext } ∧
      (m.boundaryVector_ ++ ext).findIdx? (fun b => samePoints b.nodes ns) = some bi ∧
      (∀ b ∈ ext, b.leftCell = none ∧ b.rightCell = none) ∧
      (∀ i : Nat, m.boundaryVector_.length ≤ i → i < (m.boundaryVector_ ++ ext).length →
        i = bi) := by
  unfold createBoundary at h
  split at h
  · exact findOrCreateBoundary_spec h
  · exact findOrCreateBoundary_spec h
  · split at h <;> exact findOrCreateBoundary_spec h
  · exact findOrCreateBoundary_spec h
  · exact findOrCreateBoundary_spec h
  · exact findOrCreateBoundary_spec h
  · cases h

theorem assignFacet_none {ops : EntityOps P R} {cbc : BoundaryCreator P R} {ci j : Nat}
    {m : Mesh P R} (h : assignFacet ops cbc ci j m = .ok none) :
    ∃ c, m.cellVector_[ci]? = some c ∧ (c.neighbourCell j).isSome = true := by
  unfold assignFacet at h
  split at h
  · cases h
  · rename_i c hc
    split at h
    · rename_i hnb
      exact ⟨c, hc, hnb⟩
    · dsimp only at h
      split at h
      · cases h
      · split at h
        · cases h
        · split at h <;> cases h

theorem neighbourInfosFacet_findOrCreate {ops : EntityOps P R} {ci j : Nat} {m m1 : Mesh P R}
    {c : Cell R} (hc : m.cellVector_[ci]? = some c) (hfresh : c.neighbourCell j = none)
    (h : neighbourInfosFacet ops findOrCreateBoundary ci j m = .ok m1) :
    ∃ (ext : List Boundary) (bi : Nat) (bound after : Boundary),
      m1.cellVector_ =
        m.cellVector_.set ci (c.setNeighbourCell j (ops.findNeighbourCell m ci j)) ∧
      m1.boundaryVector_ = (m.boundaryVector_ ++ ext).set bi after ∧
      (m.boundaryVector_ ++ ext)[bi]? = some bound ∧
      (m.boundaryVector_ ++ ext).findIdx?
        (fun b => samePoints b.nodes (ops.boundaryNodes c.shape c.nodes j)) = some bi ∧
      (∀ b ∈ ext, b.leftCell = none ∧ b.rightCell = none) ∧
      (∀ i : Nat, m.boundaryVector_.length ≤ i → i < (m.boundaryVector_ ++ ext).length →
        i = bi) ∧
      after.nodes = bound.nodes ∧ OnOneSide ci after ∧
      (∀ x, after.leftCell = some x →
        bound.leftCell = some x ∨ x = ci ∨ ops.findNeighbourCell m ci j = some x) ∧
      (∀ x, after.rightCell = some x →
        bound.rightCell = some x ∨ x = ci ∨ ops.findNeighbourCell m ci j = some x) ∧
      (∀ x, bound.leftCell = some x → after.leftCell = some x) ∧
      (∀ x, bound.rightCell = some x → after.rightCell = some x) := by
  rcases neighbourInfosFacet_ok h with ⟨hnone, -⟩ | ⟨a, ha, hone, hm1⟩
  · obtain ⟨c1, hc1, hsome⟩ := assignFacet_none hnone
    rw [hc] at hc1
    cases hc1
    rw [hfresh] at hsome
    cases hsome
  · obtain ⟨c1, bound, isLeft, hc1, -, hcb, hbound, hafter, -⟩ := assignFacet_spec ha
    rw [hc] at hc1
    cases hc1
    obtain ⟨ext, hmesh, hfind, hext, hidx⟩ := createBoundary_findOrCreate hcb
    rw [neighbourCell_set_same] at hafter
    have hbv : a.mesh.boundaryVector_ = m.boundaryVector_ ++ ext := by rw [hmesh]
    have hcv : a.mesh.cellVector_ =
        m.cellVector_.set ci (c.setNeighbourCell j (ops.findNeighbourCell m ci j)) := by
      rw [hmesh]
    rw [hbv] at hbound
    refine ⟨ext, a.bound, bound, a.after, ?_, ?_, hbound, hfind, hext, hidx, ?_, hone, ?_, ?_,
      ?_, ?_⟩
    · rw [hm1]
      exact hcv
    · rw [hm1, ← hbv]
    · rw [hafter]
      exact assignSides_nodes _ _ _ _
    · intro x hx
      rw [hafter] at hx
      exact assignSides_left hx
    · intro x hx
      rw [hafter] at hx
      exact assignSides_right hx
    · intro x hx
      rw [hafter]
      exact assignSides_keeps_left hx
    · intro x hx
      rw [hafter]
      exact assignSides_keeps_right hx

theorem hasSide_of_onOneSide {c : Nat} {b : Boundary} (h : OnOneSide c b) : HasSide b := by
  rcases h with ⟨h1, -⟩ | ⟨-, h2⟩
  · left
    rw [h1]
    exact fun h => Option.noConfusion h
  · right
    rw [h2]
    exact fun h => Option.noConfusion h

theorem adjacent_facet {ops : EntityOps P R} {n0 : Nat} {K : List (CellShape × List Nat)}
    {D : Nat → Nat → Prop} {ci j : Nat} {m m1 : Mesh P R} {c : Cell R}
    (hnb : NeighbourAcrossFacet ops K) (hinv : Adjacent ops n0 K D m)
    (hc : m.cellVector_[ci]? = some c) (hj : j < ops.boundaryCount c.shape) (hD : ¬ D ci j)
    (h : neighbourInfosFacet ops findOrCreateBoundary ci j m = .ok m1) :
    Adjacent ops n0 K (fun a b => D a b ∨ (a = ci ∧ b = j)) m1 := by
  obtain ⟨ext, bi, bound, after, hcv, hbv, hbound, hfind, hext, hidx, hnodes, hone, hleft,
    hright, -, -⟩ := neighbourInfosFacet_findOrCreate hc (hinv.fresh ci c j hc hD) h
  have hbi : bi < (m.boundaryVector_ ++ ext).length := (List.getElem?_eq_some.mp hbound).1
  have hci : ci < m.cellVector_.length := (List.getElem?_eq_some.mp hc).1
  have hside : HasSide after := hasSide_of_onOneSide hone
  have hcell : ∀ (x : Nat) (cx1 : Cell R), m1.cellVector_[x]? = some cx1 →
      ∃ cx, m.cellVector_[x]? = some cx ∧ cx1.shape = cx.shape ∧ cx1.nodes = cx.nodes ∧
        ∀ k, (x ≠ ci ∨ k ≠ j) → cx1.neighbourCell k = cx.neighbourCell k := by
    intro x cx1 hx
    rw [hcv, List.getElem?_set] at hx
    by_cases hxc : ci = x
    · subst hxc
      simp only [if_true, hci, Option.some.injEq] at hx
      subst hx
      refine ⟨c, hc, rfl, rfl, fun k hk => neighbourCell_set_other c _ ?_⟩
      rcases hk with hk | hk
      · exact absurd rfl hk
      · exact hk
    · simp only [hxc, if_false] at hx
      exact ⟨cx1, hx, rfl, rfl, fun _ _ => rfl⟩
  have hcell2 : ∀ (x : Nat) (cx : Cell R), m.cellVector_[x]? = some cx →
      ∃ cx1, m1.cellVector_[x]? = some cx1 ∧ cx1.shape = cx.shape ∧ cx1.nodes = cx.nodes := by
    intro x cx hx
    rw [hcv, List.getElem?_set]
    by_cases hxc : ci = x
    · subst hxc
      rw [hc] at hx
      cases hx
      exact ⟨c.setNeighbourCell j (ops.findNeighbourCell m ci j), by simp only [if_true, hci],
        rfl, rfl⟩
    · refine ⟨cx, ?_, rfl, rfl⟩
      simp only [hxc, if_false]
      exact hx
  have hget : ∀ (i : Nat) (b : Boundary), m1.boundaryVector_[i]? = some b →
      (i = bi ∧ b = after) ∨ (i ≠ bi ∧ (m.boundaryVector_ ++ ext)[i]? = some b) := by
    intro i b hb
    rw [hbv, List.getElem?_set] at hb
    by_cases hib : bi = i
    · subst hib
      simp only [if_true, hbi, Option.some.injEq] at hb
      exact Or.inl ⟨rfl, hb.symm⟩
    · simp only [hib, if_false] at hb
      exact Or.inr ⟨fun h => hib h.symm, hb⟩
  have hgetbi : m1.boundaryVector_[bi]? = some after := by
    rw [hbv, List.getElem?_set]
    simp only [if_true, hbi]
  have hold : ∀ (i : Nat) (b : Boundary), i ≠ bi → (m.boundaryVector_ ++ ext)[i]? = some b →
      m.boundaryVector_[i]? = some b := by
    intro i b hne hb
    by_cases hi : i < m.boundaryVector_.length
    · rwa [List.getElem?_append_left hi] at hb
    · exact absurd (hidx i (by omega) (List.getElem?_eq_some.mp hb).1) hne
  have hboundOld : ∀ x, (bound.leftCell = some x ∨ bound.rightCell = some x) →
      m.boundaryVector_[bi]? = some bound := by
    intro x hx
    by_cases hi : bi < m.boundaryVector_.length
    · rwa [List.getElem?_append_left hi] at hbound
    · rw [List.getElem?_append_right (by omega)] at hbound
      obtain ⟨h1, h2⟩ := hext bound (List.getElem?_mem hbound)
      rcases hx with hx | hx
      · rw [h1] at hx
        cases hx
      · rw [h2] at hx
        cases hx
  have hmap : ∀ ns : List Nat,
      m1.boundaryVector_.map (fun b => samePoints b.nodes ns) =
        (m.boundaryVector_ ++ ext).map (fun b => samePoints b.nodes ns) := by
    intro ns
    rw [hbv]
    exact map_set_of_eq (fun b : Boundary => samePoints b.nodes ns) hbound
      (by show samePoints after.nodes ns = samePoints bound.nodes ns; rw [hnodes])
  have hstable : ∀ (ns : List Nat) (i : Nat),
      m.boundaryVector_.findIdx? (fun b => samePoints b.nodes ns) = some i →
      m1.boundaryVector_.findIdx? (fun b => samePoints b.nodes ns) = some i := by
    intro ns i hi
    rw [findIdx?_of_map_eq _ _ _ (hmap ns)]
    exact findIdx?_append_some _ ext _ i hi
  have hnew : m1.boundaryVector_.findIdx?
      (fun b => samePoints b.nodes (ops.boundaryNodes c.shape c.nodes j)) = some bi := by
    rw [findIdx?_of_map_eq _ _ _ (hmap _)]
    exact hfind
  have hjust : ∀ (i : Nat) (b : Boundary) (x : Nat), m.boundaryVector_[i]? = some b →
      (b.leftCell = some x ∨ b.rightCell = some x) →
      ∃ (cx : Cell R) (jx : Nat), m1.cellVector_[x]? = some cx ∧
        jx < ops.boundaryCount cx.shape ∧ facetBoundary ops m1 cx jx = some i := by
    intro i b x hb hx
    obtain ⟨cx, jx, hcx, hjx, hfb⟩ := hinv.justified i b x hb hx
    obtain ⟨cx1, hcx1, hs, hn⟩ := hcell2 x cx hcx
    refine ⟨cx1, jx, hcx1, by rw [hs]; exact hjx, ?_⟩
    unfold facetBoundary at hfb ⊢
    rw [hs, hn]
    exact hstable _ _ hfb
  constructor
  · rw [hcv, map_set_of_eq cellKey hc (cellKey_setNeighbourCell c j _)]
    exact hinv.keys
  · intro b hb x hl hr
    obtain ⟨i, hib⟩ := List.getElem?_of_mem hb
    rcases hget i b hib with ⟨-, hba⟩ | ⟨hne, hb2⟩
    · subst hba
      rcases hone with ⟨h1, h2⟩ | ⟨h1, h2⟩
      · rw [h1] at hl
        cases hl
        exact h2 hr
      · rw [h2] at hr
        cases hr
        exact h1 hl
    · exact hinv.distinct b (List.getElem?_mem (hold i b hne hb2)) x hl hr
  · intro i b hb hn0
    rcases hget i b hb with ⟨-, hba⟩ | ⟨hne, hb2⟩
    · subst hba
      exact hside
    · exact hinv.created i b (hold i b hne hb2) hn0
  · intro i b x hb hx
    rcases hget i b hb with ⟨hi, hba⟩ | ⟨hne, hb2⟩
    · subst hi hba
      have hcases : (bound.leftCell = some x ∨ bound.rightCell = some x) ∨ x = ci ∨
          ops.findNeighbourCell m ci j = some x := by
        rcases hx with hx | hx
        · rcases hleft x hx with h1 | h1 | h1
          · exact Or.inl (Or.inl h1)
          · exact Or.inr (Or.inl h1)
          · exact Or.inr (Or.inr h1)
        · rcases hright x hx with h1 | h1 | h1
          · exact Or.inl (Or.inr h1)
          · exact Or.inr (Or.inl h1)
          · exact Or.inr (Or.inr h1)
      rcases hcases with h1 | h1 | h1
      · exact hjust _ bound x (hboundOld x h1) h1
      · subst h1
        obtain ⟨cx1, hcx1, hs, hn⟩ := hcell2 _ c hc
        refine ⟨cx1, j, hcx1, by rw [hs]; exact hj, ?_⟩
        unfold facetBoundary
        rw [hs, hn]
        exact hnew
      · obtain ⟨cx, jx, hcx, hjx, hsame⟩ := hnb m ci c j x hinv.keys hc h1
        obtain ⟨cx1, hcx1, hs, hn⟩ := hcell2 x cx hcx
        refine ⟨cx1, jx, hcx1, by rw [hs]; exact hjx, ?_⟩
        unfold facetBoundary
        rw [hs, hn]
        have hfun : (fun b : Boundary =>
            samePoints b.nodes (ops.boundaryNodes cx.shape cx.nodes jx)) =
            (fun b => samePoints b.nodes (ops.boundaryNodes c.shape c.nodes j)) :=
          funext (fun b => samePoints_congr hsame b.nodes)
        rw [hfun]
        exact hnew
    · exact hjust i b x (hold i b hne hb2) hx
  · intro ci1 c1 j1 hD1 hc1
    obtain ⟨c0, hc0, hs, hn, -⟩ := hcell ci1 c1 hc1
    rcases hD1 with hD1 | ⟨h1, h2⟩
    · obtain ⟨i, b, hfb, hb, hsb⟩ := hinv.visited ci1 c0 j1 hD1 hc0
      have hfb1 : facetBoundary ops m1 c1 j1 = some i := by
        unfold facetBoundary at hfb ⊢
        rw [hs, hn]
        exact hstable _ _ hfb
      by_cases hib : bi = i
      · subst hib
        exact ⟨bi, after, hfb1, hgetbi, hside⟩
      · refine ⟨i, b, hfb1, ?_, hsb⟩
        rw [hbv, List.getElem?_set]
        simp only [hib, if_false]
        rw [List.getElem?_append_left (List.getElem?_eq_some.mp hb).1]
        exact hb
    · subst h1 h2
      rw [hc] at hc0
      cases hc0
      refine ⟨bi, after, ?_, hgetbi, hside⟩
      unfold facetBoundary
      rw [hs, hn]
      exact hnew
  · intro ci1 c1 j1 hc1 hnD
    obtain ⟨c0, hc0, -, -, hk⟩ := hcell ci1 c1 hc1
    have hnD0 : ¬ D ci1 j1 := fun h => hnD (Or.inl h)
    have hne : ci1 ≠ ci ∨ j1 ≠ j := by
      by_contra hcon
      push_neg at hcon
      exact hnD (Or.inr hcon)
    rw [hk j1 hne]
    exact hinv.fresh ci1 c0 j1 hc0 hnD0

theorem Adjacent.congr {ops : EntityOps P R} {n0 : Nat} {K : List (CellShape × List Nat)}
    {D D1 : Nat → Nat → Prop} {m : Mesh P R} (hD : ∀ a b, D a b ↔ D1 a b)
    (h : Adjacent ops n0 K D m) : Adjacent ops n0 K D1 m :=
  ⟨h.keys, h.distinct, h.created, h.justified,
    fun ci c j hd hc => h.visited ci c j ((hD ci j).mpr hd) hc,
    fun ci c j hc hd => h.fresh ci c j hc (fun hd1 => hd ((hD ci j).mp hd1))⟩

theorem cell_of_keys {m : Mesh P R} {K : List (CellShape × List Nat)} {ci : Nat}
    {k : CellShape × List Nat} (hkeys : m.cellVector_.map cellKey = K) (hk : K[ci]? = some k) :
    ∃ c, m.cellVector_[ci]? = some c ∧ cellKey c = k := by
  rw [← hkeys, List.getElem?_map] at hk
  cases hc : m.cellVector_[ci]? with
  | none => rw [hc] at hk; cases hk
  | some c =>
    rw [hc] at hk
    exact ⟨c, rfl, Option.some.inj hk⟩

theorem keys_of_cell {m : Mesh P R} {K : List (CellShape × List Nat)} {ci : Nat} {c : Cell R}
    (hkeys : m.cellVector_.map cellKey = K) (hc : m.cellVector_[ci]? = some c) :
    K[ci]? = some (cellKey c) := by
  rw [← hkeys, List.getElem?_map, hc]
  rfl

theorem adjacent_facets {ops : EntityOps P R} {n0 : Nat} {K : List (CellShape × List Nat)}
    {ci : Nat} {k : CellShape × List Nat} (hnb : NeighbourAcrossFacet ops K)
    (hk : K[ci]? = some k) :
    ∀ (l : List Nat) (D : Nat → Nat → Prop) (m m1 : Mesh P R), l.Nodup →
      (∀ j ∈ l, j < ops.boundaryCount k.1 ∧ ¬ D ci j) → Adjacent ops n0 K D m →
      neighbourInfosFacets ops findOrCreateBoundary ci l m = .ok m1 →
      Adjacent ops n0 K (fun a b => D a b ∨ (a = ci ∧ b ∈ l)) m1 := by
  intro l
  induction l with
  | nil =>
    intro D m m1 _ _ hinv h
    cases h
    exact hinv.congr (fun a b => by simp)
  | cons j l ih =>
    intro D m m1 hnodup hl hinv h
    simp only [neighbourInfosFacets] at h
    cases hstep : neighbourInfosFacet ops findOrCreateBoundary ci j m with
    | error e => rw [hstep] at h; cases h
    | ok m2 =>
      rw [hstep] at h
      obtain ⟨c, hc, hck⟩ := cell_of_keys hinv.keys hk
      have hshape : c.shape = k.1 := congrArg Prod.fst hck
      obtain ⟨hj, hDj⟩ := hl j (List.mem_cons_self j l)
      have hinv2 := adjacent_facet hnb hinv hc (by rw [hshape]; exact hj) hDj hstep
      obtain ⟨hjl, hnodup2⟩ := List.nodup_cons.mp hnodup
      have hl2 : ∀ j1 ∈ l, j1 < ops.boundaryCount k.1 ∧ ¬ (D ci j1 ∨ (ci = ci ∧ j1 = j)) := by
        intro j1 hj1
        obtain ⟨h1, h2⟩ := hl j1 (List.mem_cons_of_mem j hj1)
        refine ⟨h1, fun h3 => ?_⟩
        rcases h3 with h3 | ⟨-, h3⟩
        · exact h2 h3
        · subst h3
          exact hjl hj1
      refine (ih _ m2 m1 hnodup2 hl2 hinv2 h).congr (fun a b => ?_)
      simp only [List.mem_cons]
      tauto

theorem adjacent_cell {ops : EntityOps P R} {n0 : Nat} {K : List (CellShape × List Nat)}
    {D : Nat → Nat → Prop} {ci : Nat} {m m1 : Mesh P R} (hnb : NeighbourAcrossFacet ops K)
    (hinv : Adjacent ops n0 K D m) (hD : ∀ j, ¬ D ci j)
    (h : createNeighbourInfosCell_ ops findOrCreateBoundary ci m = .ok m1) :
    ∃ k, K[ci]? = some k ∧
      Adjacent ops n0 K (fun a b => D a b ∨ (a = ci ∧ b < ops.boundaryCount k.1)) m1 := by
  unfold createNeighbourInfosCell_ at h
  split at h
  · cases h
  · rename_i c hc
    have hk := keys_of_cell hinv.keys hc
    refine ⟨cellKey c, hk, ?_⟩
    have hl : ∀ j ∈ List.range (ops.boundaryCount c.shape),
        j < ops.boundaryCount (cellKey c).1 ∧ ¬ D ci j :=
      fun j hj => ⟨List.mem_range.mp hj, hD j⟩
    refine (adjacent_facets hnb hk _ D m m1 (List.nodup_range _) hl hinv h).congr
      (fun a b => ?_)
    rw [List.mem_range]
    rfl

theorem adjacent_cells {ops : EntityOps P R} {n0 : Nat} {K : List (CellShape × List Nat)}
    (hnb : NeighbourAcrossFacet ops K) :
    ∀ (l : List Nat) (D : Nat → Nat → Prop) (m m1 : Mesh P R), l.Nodup →
      (∀ ci ∈ l, ∀ j, ¬ D ci j) → Adjacent ops n0 K D m →
      neighbourInfosCells ops findOrCreateBoundary l m = .ok m1 →
      Adjacent ops n0 K
        (fun a b => D a b ∨ (a ∈ l ∧ ∃ k, K[a]? = some k ∧ b < ops.boundaryCount k.1)) m1 := by
  intro l
  induction l with
  | nil =>
    intro D m m1 _ _ hinv h
    cases h
    exact hinv.congr (fun a b => by simp)
  | cons ci l ih =>
    intro D m m1 hnodup hl hinv h
    simp only [neighbourInfosCells] at h
    cases hstep : createNeighbourInfosCell_ ops findOrCreateBoundary ci m with
    | error e => rw [hstep] at h; cases h
    | ok m2 =>
      rw [hstep] at h
      obtain ⟨k, hk, hinv2⟩ := adjacent_cell hnb hinv (hl ci (List.mem_cons_self ci l)) hstep
      obtain ⟨hcl, hnodup2⟩ := List.nodup_cons.mp hnodup
      have hl2 : ∀ ci1 ∈ l, ∀ j,
          ¬ (D ci1 j ∨ (ci1 = ci ∧ j < ops.boundaryCount k.1)) := by
        intro ci1 hci1 j h3
        rcases h3 with h3 | ⟨h3, -⟩
        · exact hl ci1 (List.mem_cons_of_mem ci hci1) j h3
        · subst h3
          exact hcl hci1
      refine (ih _ m2 m1 hnodup2 hl2 hinv2 h).congr (fun a b => ?_)
      simp only [List.mem_cons]
      constructor
      · rintro ((h1 | ⟨h1, h2⟩) | ⟨h1, h2⟩)
        · exact Or.inl h1
        · exact Or.inr ⟨Or.inl h1, k, by rw [h1]; exact hk, h2⟩
        · exact Or.inr ⟨Or.inr h1, h2⟩
      · rintro (h1 | ⟨h1 | h1, k1, hk1, h2⟩)
        · exact Or.inl (Or.inl h1)
        · subst h1
          rw [hk] at hk1
          cases hk1
          exact Or.inl (Or.inr ⟨rfl, h2⟩)
        · exact Or.inr ⟨h1, k1, hk1, h2⟩

theorem adjacent_clean (ops : EntityOps P R) (m : Mesh P R) :
    Adjacent ops m.boundaryCount (m.cellVector_.map cellKey) (fun _ _ => False)
      m.cleanNeighbourInfos := by
  have hside : ∀ b ∈ m.cleanNeighbourInfos.boundaryVector_,
      b.leftCell = none ∧ b.rightCell = none := by
    intro b hb
    unfold cleanNeighbourInfos at hb
    simp only [List.mem_map] at hb
    obtain ⟨b0, -, rfl⟩ := hb
    exact ⟨rfl, rfl⟩
  constructor
  · unfold cleanNeighbourInfos
    simp only [List.map_map]
    rfl
  · intro b hb x hl
    rw [(hside b hb).1] at hl
    cases hl
  · intro i b hb hi
    have hlt := (List.getElem?_eq_some.mp hb).1
    unfold cleanNeighbourInfos at hlt
    simp only [List.length_map] at hlt
    unfold boundaryCount at hi
    omega
  · intro i b x hb hx
    obtain ⟨h1, h2⟩ := hside b (List.getElem?_mem hb)
    rw [h1, h2] at hx
    rcases hx with hx | hx <;> cases hx
  · intro ci c j hD
    exact hD.elim
  · intro ci c j hc _
    have hmem := List.getElem?_mem hc
    unfold cleanNeighbourInfos at hmem
    simp only [List.mem_map] at hmem
    obtain ⟨c0, -, rfl⟩ := hmem
    rfl

theorem countP_eq_one {α : Type} (p : α → Bool) (x : α) : ∀ l : List α, l.Nodup → x ∈ l →
    p x = true → (∀ y ∈ l, p y = true → y = x) → l.countP p = 1 := by
  intro l
  induction l with
  | nil => intro _ hx; cases hx
  | cons a l ih =>
    intro hnodup hx hpx huniq
    obtain ⟨hal, hnodup2⟩ := List.nodup_cons.mp hnodup
    rw [List.countP_cons]
    rcases List.mem_cons.mp hx with hxa | hxl
    · subst hxa
      have hzero : l.countP p = 0 := by
        rw [List.countP_eq_zero]
        intro y hy hpy
        have := huniq y (List.mem_cons_of_mem _ hy) hpy
        subst this
        exact hal hy
      rw [hzero, hpx]
      rfl
    · have hpa : ¬ p a = true := by
        intro hpa
        have := huniq a (List.mem_cons_self a l) hpa
        subst this
        exact hal hxl
      rw [ih hnodup2 hxl hpx (fun y hy => huniq y (List.mem_cons_of_mem _ hy))]
      simp [hpa]

theorem count_derivedBoundaries {ops : EntityOps P R} {m : Mesh P R} {c : Cell R} {i jx : Nat}
    (hjx : jx < ops.boundaryCount c.shape) (hfb : facetBoundary ops m c jx = some i)
    (hdiff : ∀ j1 j2 : Nat, j1 < ops.boundaryCount c.shape → j2 < ops.boundaryCount c.shape →
      samePoints (ops.boundaryNodes c.shape c.nodes j1)
        (ops.boundaryNodes c.shape c.nodes j2) = true → j1 = j2) :
    (derivedBoundaries ops m c).count i = 1 := by
  unfold derivedBoundaries
  rw [List.count_filterMap]
  refine countP_eq_one _ jx _ (List.nodup_range _) (List.mem_range.mpr hjx) ?_ ?_
  · rw [hfb]
    exact beq_self_eq_true _
  · intro y hy hpy
    have hy1 : facetBoundary ops m c y = some i := by simpa using hpy
    obtain ⟨b, hb, hpb⟩ := findIdx?_getElem _ _ _ hy1
    obtain ⟨b1, hb1, hpb1⟩ := findIdx?_getElem _ _ _ hfb
    rw [hb] at hb1
    cases hb1
    exact hdiff y jx (List.mem_range.mp hy) hjx (samePoints_of_both hpb hpb1)

/-- C17: when `createNeighbourInfos` has run the derivation (`neighboursKnown_`
was not set, or `force`) and returns, in the mesh it returns (1) a boundary with
a left and a right cell has two different cells; (2) every boundary created by
the derivation and the boundary of every facet of every cell has a left or a
right cell; (3) every cell on a side of a boundary is a cell of the mesh, and the
boundary occurs exactly once in the list of the boundaries of the facets of that
cell. Boundaries are found or created over the identical point set; the facets
of a cell are over pairwise different point sets, and the neighbour that
`findNeighbourCell` records has a facet over the point set of the facet it was
found for. -/
theorem derived_adjacency_is_consistent (ops : EntityOps P R) (m r : Mesh P R) (force : Bool)
    (hrun : m.neighboursKnown_ = false ∨ force = true) (hfacets : FacetsDiffer ops m)
    (hnb : NeighbourAcrossFacet ops (m.cellVector_.map cellKey))
    (hr : createNeighbourInfos ops findOrCreateBoundary m force = .ok r) :
    (∀ b ∈ r.boundaryVector_, ∀ x y : Nat, b.leftCell = some x → b.rightCell = some y →
      x ≠ y) ∧
    (∀ (i : Nat) (b : Boundary), r.boundaryVector_[i]? = some b → m.boundaryCount ≤ i →
      HasSide b) ∧
    (∀ (ci : Nat) (c : Cell R) (j : Nat), r.cellVector_[ci]? = some c →
      j < ops.boundaryCount c.shape →
      ∃ (i : Nat) (b : Boundary), facetBoundary ops r c j = some i ∧
        r.boundaryVector_[i]? = some b ∧ HasSide b) ∧
    (∀ (i : Nat) (b : Boundary) (x : Nat), r.boundaryVector_[i]? = some b →
      (b.leftCell = some x ∨ b.rightCell = some x) →
      ∃ cx : Cell R, r.cellVector_[x]? = some cx ∧ (derivedBoundaries ops r cx).count i = 1) := by
  unfold createNeighbourInfos at hr
  have hcond : (!m.neighboursKnown_ || force) = true := by
    rcases hrun with h | h <;> simp [h]
  rw [if_pos hcond] at hr
  split at hr
  · cases hr
  · rename_i m1 hm1
    cases hr
    have hinv := adjacent_cells hnb (List.range m.cellCount)
      (fun _ _ => False) _ m1 (List.nodup_range _) (fun _ _ _ h => h) (adjacent_clean ops m) hm1
    refine ⟨?_, ?_, ?_, ?_⟩
    · intro b hb x y hl hrr hxy
      subst hxy
      exact hinv.distinct b hb x hl hrr
    · intro i b hb hi
      exact hinv.created i b hb hi
    · intro ci c j hc hj
      have hlen : ci < m.cellCount := by
        have h1 := (List.getElem?_eq_some.mp hc).1
        have h2 : m1.cellVector_.length = m.cellVector_.length := by
          rw [← List.length_map m1.cellVector_ cellKey, hinv.keys, List.length_map]
        have h3 : m.cellCount = m.cellVector_.length := rfl
        have h4 : ci < m1.cellVector_.length := h1
        omega
      exact hinv.visited ci c j
        (Or.inr ⟨List.mem_range.mpr hlen, cellKey c, keys_of_cell hinv.keys hc, hj⟩) hc
    · intro i b x hb hx
      obtain ⟨cx, jx, hcx, hjx, hfb⟩ := hinv.justified i b x hb hx
      refine ⟨cx, hcx, count_derivedBoundaries hjx hfb ?_⟩
      obtain ⟨c0, hc0, hkey⟩ := cell_of_keys (m := m) rfl (keys_of_cell hinv.keys hcx)
      have hs : c0.shape = cx.shape := congrArg Prod.fst hkey
      have hn : c0.nodes = cx.nodes := congrArg Prod.snd hkey
      have hd := hfacets c0 (List.getElem?_mem hc0)
      rw [hs, hn] at hd
      exact hd

theorem facetsDiffer_lineMesh : FacetsDiffer edgeOps lineMesh := by
  intro c hc j1 j2 h1 h2 hsame
  have h1 : j1 < 2 := h1
  have h2 : j2 < 2 := h2
  simp only [lineMesh, List.mem_cons, List.mem_singleton, List.not_mem_nil, or_false] at hc
  rcases hc with rfl | rfl <;> interval_cases j1 <;> interval_cases j2 <;>
    first | rfl | exact absurd hsame (by decide)

theorem neighbourAcrossFacet_edgeOps (K : List (CellShape × List Nat)) :
    NeighbourAcrossFacet edgeOps K := by
  intro m ci c j x _ _ h
  cases h

/-- Witness of C17: the derivation on the mesh of two edge cells in a row
returns `derivedLine`. -/
theorem derived_adjacency_is_consistent_witness :
    lineMesh.neighboursKnown_ = false ∧
    createNeighbourInfos edgeOps findOrCreateBoundary lineMesh false = .ok derivedLine ∧
    (∀ (i : Nat) (b : Boundary) (x : Nat), derivedLine.boundaryVector_[i]? = some b →
      (b.leftCell = some x ∨ b.rightCell = some x) →
      ∃ cx : Cell Int, derivedLine.cellVector_[x]? = some cx ∧
        (derivedBoundaries edgeOps derivedLine cx).count i = 1) :=
  ⟨rfl, rfl, (derived_adjacency_is_consistent edgeOps lineMesh derivedLine false (Or.inl rfl)
    facetsDiffer_lineMesh (neighbourAcrossFacet_edgeOps _) rfl).2.2.2⟩

/-! ## The spatial index -/

theorem fillKDTree_of_empty (m : Mesh P R) (h : m.tree_.getD [] = []) :
    fillKDTree_ m = (.ok (), { m with tree_ := some (List.range m.nodeCount) }) := by
  obtain ⟨dim, nv, cv, bv, rk, nk, tr, fl⟩ := m
  simp only at h
  unfold fillKDTree_
  simp only [h, nodeCount, List.length_nil, List.nil_append]
  by_cases hn : nv.length = 0
  · rw [if_neg (fun hne => hne hn.symm), hn]
    rfl
  · rw [if_pos (fun h0 => hn h0.symm), if_pos trivial]

theorem fillKDTree_of_filled (m : Mesh P R) (t : List Nat) (ht : m.tree_ = some t)
    (hlen : t.length = m.nodeCount) : fillKDTree_ m = (.ok (), m) := by
  obtain ⟨dim, nv, cv, bv, rk, nk, tr, fl⟩ := m
  simp only at ht
  subst ht
  unfold fillKDTree_
  simp only [nodeCount, Option.getD_some] at hlen ⊢
  rw [if_neg (fun hne => hne hlen)]

theorem fillKDTree_of_partial (m : Mesh P R) (t : List Nat) (ht : m.tree_ = some t)
    (hne : t ≠ []) (hlen : t.length ≠ m.nodeCount) :
    fillKDTree_ m = (.error (.throwError 1), m) := by
  obtain ⟨dim, nv, cv, bv, rk, nk, tr, fl⟩ := m
  simp only at ht
  subst ht
  unfold fillKDTree_
  simp only [nodeCount, Option.getD_some] at hlen ⊢
  rw [if_pos hlen, if_neg (fun h0 => hne (List.length_eq_zero.mp h0))]

theorem fillKDTree_idem {m m1 : Mesh P R} {u : Unit} (h : fillKDTree_ m = (.ok u, m1)) :
    fillKDTree_ m1 = (.ok (), m1) := by
  unfold fillKDTree_ at h
  simp only at h
  split at h
  · split at h
    · cases h
      rename_i h0
      refine fillKDTree_of_filled _ _ rfl ?_
      rw [List.length_eq_zero.mp h0]
      simp [nodeCount]
    · cases h
  · rename_i hlen
    cases h
    exact fillKDTree_of_filled _ _ rfl (not_not.mp hlen)

/-- C23: `fillKDTree_()` fills a tree that holds no node (or is not allocated
yet) with the pointers to all nodes, after which its size is `nodeCount()`;
returns the mesh as it is when a tree is allocated and its size is
`nodeCount()`; and ends in `throwError(1, ...)` with the mesh as it is when the
tree holds a node and its size differs from `nodeCount()`, as after a call of
`createNode` on a mesh with a filled tree. `findNearestNode`, `findCell` and
`createNodeWithCheck` start with it: they end in its failure when it fails, and
when it returns they do what they do on the mesh it returns. -/
theorem fillKDTree_before_lookup (w : Nat) (ops : EntityOps P R) (ext : Externals P R)
    (cbc : BoundaryCreator P R) (fuel : Nat) (m : Mesh P R) :
    (m.tree_.getD [] = [] →
      fillKDTree_ m = (.ok (), { m with tree_ := some (List.range m.nodeCount) }) ∧
      (List.range m.nodeCount).length = m.nodeCount) ∧
    (∀ t, m.tree_ = some t → t.length = m.nodeCount → fillKDTree_ m = (.ok (), m)) ∧
    (∀ t, m.tree_ = some t → t ≠ [] → t.length ≠ m.nodeCount →
      fillKDTree_ m = (.error (.throwError 1), m)) ∧
    (∀ t pos marker, m.tree_ = some t → t ≠ [] → t.length = m.nodeCount →
      fillKDTree_ (createNode m pos marker).2 =
        (.error (.throwError 1), (createNode m pos marker).2)) ∧
    (∀ e m1, fillKDTree_ m = (.error e, m1) →
      (∀ pos, findNearestNode w ext m pos = (.error e, m1)) ∧
      (∀ pos extensive, findCell ops ext cbc fuel m pos extensive = (.error e, 0, m1)) ∧
      (∀ pos tol, createNodeWithCheck ext m pos tol = (.error e, m1))) ∧
    (∀ u m1, fillKDTree_ m = (.ok u, m1) →
      (∀ pos, findNearestNode w ext m pos = findNearestNode w ext m1 pos) ∧
      (∀ pos extensive, findCell ops ext cbc fuel m pos extensive =
        findCell ops ext cbc fuel m1 pos extensive) ∧
      (∀ pos tol, createNodeWithCheck ext m pos tol = createNodeWithCheck ext m1 pos tol)) := by
  refine ⟨fun h => ⟨fillKDTree_of_empty m h, List.length_range _⟩,
    fillKDTree_of_filled m, fillKDTree_of_partial m, ?_, ?_, ?_⟩
  · intro t pos marker ht hne hlen
    refine fillKDTree_of_partial _ t ?_ hne ?_
    · rw [createNode_eq]
      exact ht
    · rw [createNode_eq]
      simp only [nodeCount, List.length_append, List.length_singleton]
      unfold nodeCount at hlen
      omega
  · intro e m1 h
    refine ⟨fun pos => ?_, fun pos extensive => ?_, fun pos tol => ?_⟩
    · unfold findNearestNode
      rw [h]
    · unfold findCell
      rw [h]
    · unfold createNodeWithCheck
      rw [h]
  · intro u m1 h
    have h1 := fillKDTree_idem h
    refine ⟨fun pos => ?_, fun pos extensive => ?_, fun pos tol => ?_⟩
    · unfold findNearestNode
      rw [h, h1]
    · unfold findCell
      rw [h, h1]
    · unfold createNodeWithCheck
      rw [h, h1]

theorem fillKDTree_of_consistent {m : Mesh P R} (h : IndexConsistent m) :
    ∃ t1, fillKDTree_ m = (.ok (), { m with tree_ := some t1 }) ∧
      t1.Perm (List.range m.nodeCount) := by
  cases ht : m.tree_ with
  | none =>
    exact ⟨_, fillKDTree_of_empty m (by rw [ht]; rfl), List.Perm.refl _⟩
  | some t =>
    rcases h t ht with hnil | hperm
    · exact ⟨_, fillKDTree_of_empty m (by rw [ht, hnil]; rfl), List.Perm.refl _⟩
    · refine ⟨t, ?_, hperm⟩
      have hlen : t.length = m.nodeCount := by
        rw [hperm.length_eq, List.length_range]
      rw [fillKDTree_of_filled m t ht hlen]
      obtain ⟨dim, nv, cv, bv, rk, nk, tr, fl⟩ := m
      simp only at ht
      subst ht
      rfl

/-- C24: on a mesh with a consistent index, with a tree that returns a nearest
node: if some node of the mesh is closer to `pos` than `tol`,
`createNodeWithCheck(pos, tol)` returns a node of the mesh that is closer to
`pos` than `tol` and leaves the nodes as they are; if no node is,
it returns the pointer to a new node at `pos` with the id `nodeCount()` (the
count before the call), appended to the nodes, and the tree of the mesh it
leaves holds every node once, the new one included. -/
theorem createNodeWithCheck_finds_or_creates (ext : Externals P R) (m : Mesh P R) (pos : P)
    (tol : R) (hn : NearestOfTree ext) (hidx : IndexConsistent m) :
    ((∃ (i : Nat) (nd : Node P), m.nodeVector_[i]? = some nd ∧
        ext.less (ext.distance pos nd.pos) tol = true) →
      ∃ (n : Nat) (nd : Node P) (t : List Nat), createNodeWithCheck ext m pos tol = (.ok n, { m with tree_ := some t }) ∧
        m.nodeVector_[n]? = some nd ∧ ext.less (ext.distance pos nd.pos) tol = true ∧
        t.Perm (List.range m.nodeCount)) ∧
    ((∀ (i : Nat) (nd : Node P), m.nodeVector_[i]? = some nd →
        ext.less (ext.distance pos nd.pos) tol = false) →
      ∃ t : List Nat, createNodeWithCheck ext m pos tol =
          (.ok m.nodeCount,
            { m with
              nodeVector_ := m.nodeVector_ ++
                [⟨pos, ext.defaultMarker, (m.nodeCount : Int)⟩],
              tree_ := some t }) ∧
        t.length = m.nodeCount + 1 ∧ t.Perm (List.range (m.nodeCount + 1))) := by
  obtain ⟨t1, hfill, hperm⟩ := fillKDTree_of_consistent hidx
  obtain ⟨hnear, hless⟩ := hn
  have hvalid : ∀ n, n ∈ t1 → ∃ nn, m.nodeVector_[n]? = some nn := by
    intro n hmem
    have hlt : n < m.nodeVector_.length := List.mem_range.mp ((hperm.mem_iff).mp hmem)
    exact ⟨m.nodeVector_[n], List.getElem?_eq_getElem hlt⟩
  have hcreate : (createNode { m with tree_ := some t1 } pos ext.defaultMarker) =
      (m.nodeCount, { m with
        nodeVector_ := m.nodeVector_ ++ [⟨pos, ext.defaultMarker, (m.nodeCount : Int)⟩],
        tree_ := some t1 }) := by
    rw [createNode_eq]
    rfl
  have hperm1 : (t1 ++ [m.nodeCount]).Perm (List.range (m.nodeCount + 1)) := by
    rw [List.range_succ]
    exact hperm.append_right _
  constructor
  · rintro ⟨i, nd, hi, hclose⟩
    have hmem : i ∈ t1 :=
      (hperm.mem_iff).mpr (List.mem_range.mpr (List.getElem?_eq_some.mp hi).1)
    have hne : t1 ≠ [] := List.ne_nil_of_mem hmem
    cases hnr : ext.nearest t1 m.nodeVector_ pos with
    | none => exact absurd hnr ((hnear t1 m.nodeVector_ pos).1 hne)
    | some n =>
      obtain ⟨hn1, hmin⟩ := (hnear t1 m.nodeVector_ pos).2 n hnr
      obtain ⟨nn, hnn⟩ := hvalid n hn1
      have hc := hless _ _ _ (hmin i hmem nn nd hnn hi) hclose
      refine ⟨n, nn, t1, ?_, hnn, hc, hperm⟩
      unfold createNodeWithCheck
      rw [hfill]
      simp only [Option.getD_some, hnr, hnn, hc, if_true]
  · intro hfar
    refine ⟨t1 ++ [m.nodeCount], ?_, ?_, hperm1⟩
    · unfold createNodeWithCheck
      rw [hfill]
      simp only [Option.getD_some, hcreate]
      cases hnr : ext.nearest t1 m.nodeVector_ pos with
      | none => rfl
      | some n =>
        obtain ⟨hn1, -⟩ := (hnear t1 m.nodeVector_ pos).2 n hnr
        obtain ⟨nn, hnn⟩ := hvalid n hn1
        simp only [hnn, hfar n nn hnn, Bool.false_eq_true, if_false]
    · rw [hperm1.length_eq, List.length_range]

theorem nearestOnLine_fold (nodes : List (Node Int)) (pos : Int) :
    ∀ (tree : List Nat) (best : Option Nat) (n : Nat),
      tree.foldl (fun best x =>
        match best with
        | none => some x
        | some b =>
          if |pos - posOnLine nodes x| < |pos - posOnLine nodes b| then some x else some b)
        best = some n →
      (n ∈ tree ∨ best = some n) ∧
      (∀ x ∈ tree, ¬ |pos - posOnLine nodes x| < |pos - posOnLine nodes n|) ∧
      (∀ b, best = some b → ¬ |pos - posOnLine nodes b| < |pos - posOnLine nodes n|) := by
  intro tree
  induction tree with
  | nil =>
    intro best n h
    simp only [List.foldl_nil] at h
    refine ⟨Or.inr h, fun x hx => absurd hx (List.not_mem_nil x), fun b hb => ?_⟩
    rw [h] at hb
    cases hb
    exact lt_irrefl _
  | cons y tree ih =>
    intro best n h
    rw [List.foldl_cons] at h
    obtain ⟨h1, h2, h3⟩ := ih _ n h
    cases best with
    | none =>
      simp only at h1 h3
      have hy := h3 y rfl
      refine ⟨?_, ?_, fun b hb => by cases hb⟩
      · rcases h1 with h1 | h1
        · exact Or.inl (List.mem_cons_of_mem _ h1)
        · cases h1
          exact Or.inl (List.mem_cons_self _ _)
      · intro x hx
        rcases List.mem_cons.mp hx with rfl | hx
        · exact hy
        · exact h2 x hx
    | some b =>
      simp only at h1 h3
      by_cases hlt : |pos - posOnLine nodes y| < |pos - posOnLine nodes b|
      · rw [if_pos hlt] at h1 h3
        have hy := h3 y rfl
        refine ⟨?_, ?_, ?_⟩
        · rcases h1 with h1 | h1
          · exact Or.inl (List.mem_cons_of_mem _ h1)
          · cases h1
            exact Or.inl (List.mem_cons_self _ _)
        · intro x hx
          rcases List.mem_cons.mp hx with rfl | hx
          · exact hy
          · exact h2 x hx
        · intro b1 hb1
          cases hb1
          intro hcon
          exact hy (lt_trans hlt hcon)
      · rw [if_neg hlt] at h1 h3
        have hb := h3 b rfl
        refine ⟨?_, ?_, ?_⟩
        · rcases h1 with h1 | h1
          · exact Or.inl (List.mem_cons_of_mem _ h1)
          · exact Or.inr h1
        · intro x hx
          rcases List.mem_cons.mp hx with rfl | hx
          · intro hcon
            exact hlt (lt_of_lt_of_le hcon (not_lt.mp hb))
          · exact h2 x hx
        · intro b1 hb1
          cases hb1
          exact hb

theorem nearestOnLine_ne_none (nodes : List (Node Int)) (pos : Int) :
    ∀ (tree : List Nat) (best : Option Nat), (tree ≠ [] ∨ best ≠ none) →
      tree.foldl (fun best x =>
        match best with
        | none => some x
        | some b =>
          if |pos - posOnLine nodes x| < |pos - posOnLine nodes b| then some x else some b)
        best ≠ none := by
  intro tree
  induction tree with
  | nil =>
    intro best h
    rcases h with h | h
    · exact absurd rfl h
    · exact h
  | cons y tree ih =>
    intro best _
    rw [List.foldl_cons]
    refine ih _ (Or.inr ?_)
    cases best with
    | none => exact fun h => Option.noConfusion h
    | some b =>
      simp only
      split <;> exact fun h => Option.noConfusion h

theorem nearestOfTree_lineExternals : NearestOfTree lineExternals := by
  refine ⟨fun tree nodes pos => ⟨fun hne => nearestOnLine_ne_none nodes pos tree none (Or.inl hne),
    fun n hn => ?_⟩, ?_⟩
  · obtain ⟨h1, h2, -⟩ := nearestOnLine_fold nodes pos tree none n hn
    refine ⟨?_, fun x hx nn nx hnn hnx => ?_⟩
    · rcases h1 with h1 | h1
      · exact h1
      · cases h1
    · have := h2 x hx
      simp only [posOnLine, hnn, hnx, Option.map_some', Option.getD_some] at this
      simpa [lineExternals] using this
  · intro a b c hab hac
    simp only [lineExternals, decide_eq_false_iff_not, decide_eq_true_eq, not_lt] at *
    omega

/-- Witness of C24: in the mesh of the three nodes at 0, 10 and 1 the node at 10
is closer to the position 9 than the tolerance 3. -/
theorem createNodeWithCheck_finds_or_creates_witness :
    ∃ (n : Nat) (nd : Node Int) (t : List Nat), createNodeWithCheck lineExternals (threeNodes 2 0 0 0) 9 3 =
        (.ok n, { threeNodes 2 0 0 0 with tree_ := some t }) ∧
      (threeNodes 2 0 0 0).nodeVector_[n]? = some nd ∧
      lineExternals.less (lineExternals.distance 9 nd.pos) 3 = true ∧
      t.Perm (List.range (threeNodes 2 0 0 0).nodeCount) :=
  (createNodeWithCheck_finds_or_creates lineExternals (threeNodes 2 0 0 0) 9 3
    nearestOfTree_lineExternals (fun t ht => by cases ht)).1 ⟨1, ⟨10, 0, 1⟩, rfl, by decide⟩

/-! ## Filling of empty cells -/

theorem prolongation_sublist (aops : AttributeOps R) (m : Mesh P R) :
    ∀ (l next : List Nat) (pmap : List (Nat × R)) (next1 : List Nat) (pmap1 : List (Nat × R)),
      prolongation aops m l (next, pmap) = .ok (next1, pmap1) →
      ∃ kept, next1 = next ++ kept ∧ kept.Sublist l ∧
        (kept.length = l.length → pmap1 = pmap) := by
  intro l
  induction l with
  | nil =>
    intro next pmap next1 pmap1 h
    simp only [prolongation, Except.ok.injEq, Prod.mk.injEq] at h
    exact ⟨[], by rw [← h.1, List.append_nil], List.Sublist.refl _, fun _ => h.2.symm⟩
  | cons ci l ih =>
    intro next pmap next1 pmap1 h
    simp only [prolongation] at h
    split at h
    · cases h
    · split at h
      · cases h
      · split at h
        · obtain ⟨kept, h1, h2, h3⟩ := ih _ _ _ _ h
          refine ⟨ci :: kept, ?_, h2.cons₂ ci, fun hlen => ?_⟩
          · rw [h1, List.append_assoc]
            rfl
          · exact h3 (by simpa using hlen)
        · obtain ⟨kept, h1, h2, -⟩ := ih _ _ _ _ h
          refine ⟨kept, h1, h2.cons ci, fun hlen => ?_⟩
          have := h2.length_le
          simp only [List.length_cons] at hlen
          omega

theorem fillEmptyCellsRound_next (ops : EntityOps P R) (cbc : BoundaryCreator P R)
    (aops : AttributeOps R) (m m1 : Mesh P R) (emptyList next : List Nat)
    (h : fillEmptyCellsRound ops cbc aops m emptyList = .ok (m1, next)) :
    next = [] ∨ (next.Sublist emptyList ∧ next.length < emptyList.length) := by
  unfold fillEmptyCellsRound at h
  split at h
  · cases h
  · split at h
    · cases h
    · rename_i nextVector pmap hpro
      split at h
      · cases h
      · obtain ⟨kept, h1, h2, -⟩ := prolongation_sublist aops _ _ _ _ _ _ hpro
        rw [List.nil_append] at h1
        subst h1
        split at h
        · split at h
          · cases h
          · cases h
            exact Or.inl rfl
        · rename_i hlen
          cases h
          refine Or.inr ⟨h2, ?_⟩
          have := h2.length_le
          omega

theorem fillEmptyCells_of_fuel (ops : EntityOps P R) (cbc : BoundaryCreator P R)
    (aops : AttributeOps R) (background : R) :
    ∀ (n : Nat) (l : List Nat) (m : Mesh P R), l.length ≤ n →
      ∃ r, ∀ fuel, n + 1 ≤ fuel → fillEmptyCells ops cbc aops fuel m l background = some r := by
  intro n
  induction n with
  | zero =>
    intro l m hl
    have hnil : l = [] := List.length_eq_zero.mp (by omega)
    subst hnil
    refine ⟨.ok m, fun fuel hf => ?_⟩
    obtain ⟨f, rfl⟩ : ∃ f, fuel = f + 1 := ⟨fuel - 1, by omega⟩
    simp [fillEmptyCells]
  | succ n ih =>
    intro l m hl
    by_cases hemp : l.length = 0
    · refine ⟨.ok m, fun fuel hf => ?_⟩
      obtain ⟨f, rfl⟩ : ∃ f, fuel = f + 1 := ⟨fuel - 1, by omega⟩
      simp only [fillEmptyCells, hemp, if_true]
    · by_cases hbg : aops.notMinusOne background = true
      · refine ⟨setAttributes (fun _ => background) l m, fun fuel hf => ?_⟩
        obtain ⟨f, rfl⟩ : ∃ f, fuel = f + 1 := ⟨fuel - 1, by omega⟩
        simp only [fillEmptyCells, hemp, if_false, hbg, if_true]
      · cases hround : fillEmptyCellsRound ops cbc aops m l with
        | error e =>
          refine ⟨.error e, fun fuel hf => ?_⟩
          obtain ⟨f, rfl⟩ : ∃ f, fuel = f + 1 := ⟨fuel - 1, by omega⟩
          simp only [fillEmptyCells, hemp, if_false, hbg, hround, Bool.false_eq_true]
        | ok res =>
          obtain ⟨m1, next⟩ := res
          have hnext : next.length ≤ n := by
            rcases fillEmptyCellsRound_next ops cbc aops m m1 l next hround with h | ⟨-, h⟩
            · rw [h]
              exact Nat.zero_le _
            · omega
          obtain ⟨r, hr⟩ := ih next m1 hnext
          refine ⟨r, fun fuel hf => ?_⟩
          obtain ⟨f, rfl⟩ : ∃ f, fuel = f + 1 := ⟨fuel - 1, by omega⟩
          simp only [fillEmptyCells, hemp, if_false, hbg, hround, Bool.false_eq_true]
          exact hr f (by omega)

theorem length_le_of_nodup_lt {l : List Nat} {n : Nat} (hnodup : l.Nodup)
    (hlt : ∀ x ∈ l, x < n) : l.length ≤ n := by
  have hsub : l.toFinset ⊆ Finset.range n := by
    intro x hx
    exact Finset.mem_range.mpr (hlt x (List.mem_toFinset.mp hx))
  have hcard := Finset.card_le_card hsub
  rw [List.toFinset_card_of_nodup hnodup, Finset.card_range] at hcard
  exact hcard

/-- C29: the `nextVector` that a call of `fillEmptyCells` hands to its recursive
call is empty or a sub-list of `emptyList` that is shorter; `emptyList.size() + 1`
calls of the function (the first one and the recursive ones) suffice for the
call to end, with a mesh or a failure; and a worklist of different cells of the
mesh is at most as long as the number of cells. -/
theorem fillEmptyCells_terminates (ops : EntityOps P R) (cbc : BoundaryCreator P R)
    (aops : AttributeOps R) (m : Mesh P R) (emptyList : List Nat) (background : R) :
    (∀ m1 next, fillEmptyCellsRound ops cbc aops m emptyList = .ok (m1, next) →
      next = [] ∨ (next.Sublist emptyList ∧ next.length < emptyList.length)) ∧
    (∃ r, ∀ fuel, emptyList.length + 1 ≤ fuel →
      fillEmptyCells ops cbc aops fuel m emptyList background = some r) ∧
    (emptyList.Nodup → (∀ ci ∈ emptyList, ci < m.cellCount) →
      emptyList.length ≤ m.cellCount) :=
  ⟨fun m1 next h => fillEmptyCellsRound_next ops cbc aops m m1 emptyList next h,
    fillEmptyCells_of_fuel ops cbc aops background emptyList.length emptyList m (Nat.le_refl _),
    fun hnodup hlt => length_le_of_nodup_lt hnodup hlt⟩

theorem neighbourSum_of_stall (aops : AttributeOps R) (m : Mesh P R) (c : Cell R) :
    ∀ (l : List Nat) (acc : Nat × R),
      (∀ j ∈ l, ∀ n, c.neighbourCell j = some n →
        ∃ nCell, m.cellVector_[n]? = some nCell ∧ aops.aboveTolerance nCell.attribute_ = false) →
      neighbourSum aops m c l acc = .ok acc := by
  intro l
  induction l with
  | nil => intro acc _; rfl
  | cons j l ih =>
    intro acc h
    obtain ⟨count, val⟩ := acc
    have hrest := ih (count, val) (fun j1 hj1 => h j1 (List.mem_cons_of_mem _ hj1))
    simp only [neighbourSum]
    cases hnb : c.neighbourCell j with
    | none => exact hrest
    | some n =>
      obtain ⟨nCell, hn, hlow⟩ := h j (List.mem_cons_self _ _) n hnb
      simp only [hn, hlow, Bool.false_eq_true, if_false]
      exact hrest

theorem prolongation_of_stall (aops : AttributeOps R) (m : Mesh P R) :
    ∀ (l next : List Nat) (pmap : List (Nat × R)),
      (∀ ci ∈ l, ∃ c, m.cellVector_[ci]? = some c ∧
        ∀ j, j < aops.neighbourCellCount c.shape → ∀ n, c.neighbourCell j = some n →
          ∃ nCell, m.cellVector_[n]? = some nCell ∧
            aops.aboveTolerance nCell.attribute_ = false) →
      prolongation aops m l (next, pmap) = .ok (next ++ l, pmap) := by
  intro l
  induction l with
  | nil =>
    intro next pmap _
    rw [List.append_nil]
    rfl
  | cons ci l ih =>
    intro next pmap h
    obtain ⟨c, hc, hlow⟩ := h ci (List.mem_cons_self _ _)
    have hsum := neighbourSum_of_stall aops m c (List.range (aops.neighbourCellCount c.shape))
      (0, aops.zero) (fun j hj n hn => hlow j (List.mem_range.mp hj) n hn)
    simp only [prolongation, hc, hsum, if_true]
    rw [ih (next ++ [ci]) pmap (fun ci1 h1 => h ci1 (List.mem_cons_of_mem _ h1)),
      List.append_assoc]
    rfl

theorem setAttribute_ok {m : Mesh P R} {ci : Nat} (v : R) (h : ci < m.cellCount) :
    ∃ c m1, m.cellVector_[ci]? = some c ∧ m.setAttribute ci v = .ok m1 ∧
      m1.cellVector_ = m.cellVector_.set ci { c with attribute_ := v } ∧
      m1.cellCount = m.cellCount := by
  have hc : m.cellVector_[ci]? = some m.cellVector_[ci] := List.getElem?_eq_getElem h
  unfold setAttribute
  rw [hc]
  exact ⟨m.cellVector_[ci], _, rfl, rfl, rfl, by simp [cellCount]⟩

theorem setAttributes_append (v : Mesh P R → R) (l2 : List Nat) :
    ∀ (l1 : List Nat) (m : Mesh P R),
      setAttributes v (l1 ++ l2) m =
        match setAttributes v l1 m with
        | .error e => .error e
        | .ok m1 => setAttributes v l2 m1 := by
  intro l1
  induction l1 with
  | nil => intro m; rfl
  | cons ci l1 ih =>
    intro m
    simp only [List.cons_append, setAttributes]
    cases m.setAttribute ci (v m) with
    | error e => rfl
    | ok m1 => exact ih m1

theorem setAttributes_ok (v : Mesh P R → R) :
    ∀ (l : List Nat) (m : Mesh P R), (∀ ci ∈ l, ci < m.cellCount) →
      ∃ m1, setAttributes v l m = .ok m1 ∧ m1.cellCount = m.cellCount ∧
        ∀ ci, ci ∉ l → m1.cellVector_[ci]? = m.cellVector_[ci]? := by
  intro l
  induction l with
  | nil => intro m _; exact ⟨m, rfl, rfl, fun _ _ => rfl⟩
  | cons ci l ih =>
    intro m h
    obtain ⟨c, m0, -, hset, hcv, hcount⟩ := setAttribute_ok (v m) (h ci (List.mem_cons_self _ _))
    obtain ⟨m1, h1, h2, h3⟩ := ih m0 (fun ci1 h1 => by
      rw [hcount]
      exact h ci1 (List.mem_cons_of_mem _ h1))
    refine ⟨m1, ?_, h2.trans hcount, fun ci1 hci1 => ?_⟩
    · simp only [setAttributes, hset]
      exact h1
    · rw [h3 ci1 (fun hmem => hci1 (List.mem_cons_of_mem _ hmem)), hcv]
      have hne : ci ≠ ci1 := fun heq => hci1 (by rw [heq]; exact List.mem_cons_self _ _)
      simp [List.getElem?_set, hne]

/-- C30, what the code does: when no cell of the worklist has a neighbour with
an attribute above `TOLERANCE`, the call of `fillEmptyCells(emptyList, -1.0)`
returns after its round, and the recursive call changes nothing. The cells off
the worklist keep their attributes, and cell `k` of a worklist gets
`mean(cellAttributes())` of the mesh as the assignments to the `k` cells before
it have left it: the mean is evaluated again for every cell. -/
theorem stalled_round_fills_one_by_one (ops : EntityOps P R) (cbc : BoundaryCreator P R)
    (aops : AttributeOps R) (m m1 : Mesh P R) (emptyList : List Nat) (background : R)
    (hne : emptyList ≠ []) (hbg : aops.notMinusOne background = false)
    (hinfos : createNeighbourInfos ops cbc m false = .ok m1)
    (hstall : ∀ ci ∈ emptyList, ∃ c, m1.cellVector_[ci]? = some c ∧
      ∀ j, j < aops.neighbourCellCount c.shape → ∀ n, c.neighbourCell j = some n →
        ∃ nCell, m1.cellVector_[n]? = some nCell ∧
          aops.aboveTolerance nCell.attribute_ = false) :
    ∃ m3, fillEmptyCellsRound ops cbc aops m emptyList = .ok (m3, []) ∧
      (∀ fuel, fillEmptyCells ops cbc aops (fuel + 2) m emptyList background = some (.ok m3)) ∧
      (∀ ci, ci ∉ emptyList → m3.cellVector_[ci]? = m1.cellVector_[ci]?) ∧
      ∀ (k ci : Nat), emptyList[k]? = some ci → ci ∉ emptyList.drop (k + 1) →
        ∃ (mk : Mesh P R) (c3 : Cell R),
          setAttributes (fun m => aops.mean m.cellAttributes) (emptyList.take k) m1 = .ok mk ∧
          m3.cellVector_[ci]? = some c3 ∧ c3.attribute_ = aops.mean mk.cellAttributes := by
  have hvalid : ∀ ci ∈ emptyList, ci < m1.cellCount := by
    intro ci hci
    obtain ⟨c, hc, -⟩ := hstall ci hci
    exact (List.getElem?_eq_some.mp hc).1
  obtain ⟨m3, hm3, -, hother⟩ :=
    setAttributes_ok (fun m => aops.mean m.cellAttributes) emptyList m1 hvalid
  have hround : fillEmptyCellsRound ops cbc aops m emptyList = .ok (m3, []) := by
    unfold fillEmptyCellsRound
    simp only [hinfos, prolongation_of_stall aops m1 emptyList [] [] hstall, List.nil_append,
      applyProlongation, if_true, hm3]
  refine ⟨m3, hround, fun fuel => ?_, hother, fun k ci hk hlater => ?_⟩
  · have hlen : emptyList.length ≠ 0 := fun h => hne (List.length_eq_zero.mp h)
    simp only [fillEmptyCells, hlen, if_false, hbg, Bool.false_eq_true, hround, List.length_nil,
      if_true]
  · have hklt : k < emptyList.length := (List.getElem?_eq_some.mp hk).1
    have hsplit : emptyList = emptyList.take k ++ ci :: emptyList.drop (k + 1) := by
      have h1 := List.take_append_drop k emptyList
      have h2 : emptyList.drop k = ci :: emptyList.drop (k + 1) := by
        rw [List.drop_eq_getElem_cons hklt]
        congr 1
        exact Option.some.inj ((List.getElem?_eq_getElem hklt).symm.trans hk)
      rw [h2] at h1
      exact h1.symm
    obtain ⟨mk, hmk, hmkc, -⟩ :=
      setAttributes_ok (fun m => aops.mean m.cellAttributes) (emptyList.take k) m1
        (fun x hx => hvalid x (List.mem_of_mem_take hx))
    have hci : ci < mk.cellCount := by
      rw [hmkc]
      exact hvalid ci (List.getElem?_mem hk)
    obtain ⟨c, m0, hc, hset, hcv, hcount⟩ := setAttribute_ok (aops.mean mk.cellAttributes) hci
    obtain ⟨m4, hm4, -, hrest⟩ :=
      setAttributes_ok (fun m => aops.mean m.cellAttributes) (emptyList.drop (k + 1)) m0
        (fun x hx => by
          rw [hcount, hmkc]
          exact hvalid x (List.mem_of_mem_drop hx))
    have hall : setAttributes (fun m => aops.mean m.cellAttributes) emptyList m1 = .ok m4 := by
      rw [hsplit, setAttributes_append, hmk]
      simp only [setAttributes, hset]
      exact hm4
    rw [hm3] at hall
    cases hall
    refine ⟨mk, { c with attribute_ := aops.mean mk.cellAttributes }, hmk, ?_, rfl⟩
    rw [hrest ci hlater, hcv]
    have hlt : ci < mk.cellVector_.length := hci
    simp [List.getElem?_set, hlt]

/-- The failing input of C30: in `emptyLine` the cells 0 and 1 of the worklist
have no neighbour above `TOLERANCE`; the attributes are 0, 0, 9 with the mean 3.
`fillEmptyCells` gives cell 0 the value 3 and cell 1 the value 4, the mean of
3, 0, 9. -/
theorem stalled_cells_get_different_values :
    emptyLine.cellAttributes = [0, 0, 9] ∧
    intAttributes.mean emptyLine.cellAttributes = 3 ∧
    (fillEmptyCells edgeOps findOrCreateBoundary intAttributes 3 emptyLine [0, 1] (-1)).map
      (fun r => r.toOption.map (fun m => m.cellAttributes)) = some (some [3, 4, 9]) := by
  decide

/-- Witness of C30: the stalled round on `emptyLine` with the worklist of the
cells 0 and 1. -/
theorem stalled_round_fills_one_by_one_witness :
    ∃ m3, fillEmptyCellsRound edgeOps findOrCreateBoundary intAttributes emptyLine [0, 1] =
        .ok (m3, []) ∧
      (∀ fuel, fillEmptyCells edgeOps findOrCreateBoundary intAttributes (fuel + 2) emptyLine
        [0, 1] (-1) = some (.ok m3)) ∧
      (∀ ci, ci ∉ [0, 1] → m3.cellVector_[ci]? = emptyLine.cellVector_[ci]?) ∧
      ∀ (k ci : Nat), [0, 1][k]? = some ci → ci ∉ [0, 1].drop (k + 1) →
        ∃ (mk : Mesh Int Int) (c3 : Cell Int),
          setAttributes (fun m => intAttributes.mean m.cellAttributes) ([0, 1].take k)
            emptyLine = .ok mk ∧
          m3.cellVector_[ci]? = some c3 ∧ c3.attribute_ = intAttributes.mean mk.cellAttributes :=
  stalled_round_fills_one_by_one edgeOps findOrCreateBoundary intAttributes emptyLine emptyLine
    [0, 1] (-1) (by decide) (by decide) rfl (by
      intro ci hci
      simp only [List.mem_cons, List.mem_singleton, List.not_mem_nil, or_false] at hci
      rcases hci with rfl | rfl
      · exact ⟨_, rfl, fun j _ n hn => by cases hn⟩
      · exact ⟨_, rfl, fun j _ n hn => by cases hn⟩)

/-! ## Walks of the search for a cell -/

theorem countP_set {α : Type} (p : α → Bool) (a b : α) :
    ∀ (l : List α) (i : Nat), l[i]? = some a →
      (l.set i b).countP p + (if p a then 1 else 0) = l.countP p + (if p b then 1 else 0) := by
  intro l
  induction l with
  | nil => intro i h; simp at h
  | cons x l ih =>
    intro i h
    cases i with
    | zero =>
      simp only [List.getElem?_cons_zero, Option.some.injEq] at h
      subst h
      simp only [List.set_cons_zero, List.countP_cons]
      omega
    | succ i =>
      simp only [List.getElem?_cons_succ] at h
      have := ih i h
      simp only [List.set_cons_succ, List.countP_cons]
      omega

theorem untaggedCount_tag {m : Mesh P R} {i : Nat} {c : Cell R} (hc : m.cellVector_[i]? = some c)
    (ht : c.tagged_ = false) :
    untaggedCount { m with cellVector_ := m.cellVector_.set i { c with tagged_ := true } } + 1 =
      untaggedCount m := by
  have := countP_set (fun c : Cell R => !c.tagged_) c { c with tagged_ := true } _ i hc
  simp only [ht, Bool.not_false, if_true, Bool.not_true, Bool.false_eq_true, if_false,
    Nat.add_zero] at this
  exact this

theorem neighbourInfosFacet_tags {ops : EntityOps P R} {cbc : BoundaryCreator P R}
    (hcbc : KeepsSides cbc) {ci j : Nat} {m m1 : Mesh P R}
    (h : neighbourInfosFacet ops cbc ci j m = .ok m1) :
    m1.cellVector_.map (fun c => c.tagged_) = m.cellVector_.map (fun c => c.tagged_) := by
  rcases neighbourInfosFacet_ok h with ⟨-, rfl⟩ | ⟨a, ha, -, rfl⟩
  · rfl
  · obtain ⟨c, bound, isLeft, hc, -, hcb, -, -, -⟩ := assignFacet_spec ha
    have hk := (createBoundary_keepsSides hcbc
      { m with cellVector_ :=
          m.cellVector_.set ci (c.setNeighbourCell j (ops.findNeighbourCell m ci j)) }
      (ops.boundaryNodes c.shape c.nodes j) 0).1
    rw [hcb] at hk
    show a.mesh.cellVector_.map (fun c => c.tagged_) = _
    rw [hk]
    exact map_set_of_eq (fun c : Cell R => c.tagged_) hc rfl

theorem neighbourInfosFacets_tags {ops : EntityOps P R} {cbc : BoundaryCreator P R}
    (hcbc : KeepsSides cbc) {ci : Nat} : ∀ (l : List Nat) (m m1 : Mesh P R),
    neighbourInfosFacets ops cbc ci l m = .ok m1 →
    m1.cellVector_.map (fun c => c.tagged_) = m.cellVector_.map (fun c => c.tagged_) := by
  intro l
  induction l with
  | nil => intro m m1 h; cases h; rfl
  | cons j l ih =>
    intro m m1 h
    simp only [neighbourInfosFacets] at h
    cases hstep : neighbourInfosFacet ops cbc ci j m with
    | error e => rw [hstep] at h; cases h
    | ok m2 =>
      rw [hstep] at h
      rw [ih m2 m1 h, neighbourInfosFacet_tags hcbc hstep]

theorem createNeighbourInfosCell_untagged {ops : EntityOps P R} {cbc : BoundaryCreator P R}
    (hcbc : KeepsSides cbc) {ci : Nat} {m m1 : Mesh P R}
    (h : createNeighbourInfosCell_ ops cbc ci m = .ok m1) :
    untaggedCount m1 = untaggedCount m := by
  unfold createNeighbourInfosCell_ at h
  split at h
  · cases h
  · have ht := neighbourInfosFacets_tags hcbc _ m m1 h
    have h1 : ∀ m0 : Mesh P R, untaggedCount m0 =
        (m0.cellVector_.map (fun c => c.tagged_)).countP (fun t => !t) := by
      intro m0
      unfold untaggedCount
      rw [List.countP_map]
      rfl
    rw [h1, h1, ht]

theorem tagged_walk_bounded {ops : EntityOps P R} {cbc : BoundaryCreator P R}
    (hcbc : KeepsSides cbc) (pos : P) :
    ∀ (fuel start count : Nat) (m : Mesh P R), untaggedCount m < fuel →
      (findCellBySlopeSearch_ ops cbc pos true fuel start count m).1 ≠ .ok .unfinished ∧
      (findCellBySlopeSearch_ ops cbc pos true fuel start count m).2.1 +
        foundCount (findCellBySlopeSearch_ ops cbc pos true fuel start count m).1 +
        untaggedCount (findCellBySlopeSearch_ ops cbc pos true fuel start count m).2.2 ≤
          count + untaggedCount m ∧
      untaggedCount (findCellBySlopeSearch_ ops cbc pos true fuel start count m).2.2 ≤
        untaggedCount m := by
  intro fuel
  induction fuel with
  | zero => intro start count m h; omega
  | succ fuel ih =>
    intro start count m hfuel
    simp only [findCellBySlopeSearch_]
    cases hc : m.cellVector_[start]? with
    | none =>
      simp only
      refine ⟨(fun h => nomatch h), ?_, ?_⟩ <;> dsimp only [foundCount] <;> omega
    | some c =>
      simp only
      cases ht : c.tagged_ with
      | true =>
        simp only [Bool.and_self, if_true]
        refine ⟨(fun h => nomatch h), ?_, ?_⟩ <;> dsimp only [foundCount] <;> omega
      | false =>
        simp only [Bool.false_and, Bool.false_eq_true, if_false]
        have htag := untaggedCount_tag hc ht
        split
        · refine ⟨(fun h => nomatch h), ?_, ?_⟩ <;> dsimp only [foundCount] <;> omega
        · split
          · refine ⟨(fun h => nomatch h), ?_, ?_⟩ <;> dsimp only [foundCount] <;> omega
          · rename_i m2 hm2
            have hm2c : untaggedCount m2 + 1 = untaggedCount m := by
              split at hm2
              · rw [createNeighbourInfosCell_untagged hcbc hm2]
                exact htag
              · cases hm2
                exact htag
            split
            · refine ⟨(fun h => nomatch h), ?_, ?_⟩ <;> dsimp only [foundCount] <;> omega
            · split
              · refine ⟨(fun h => nomatch h), ?_, ?_⟩ <;> dsimp only [foundCount] <;> omega
              · rename_i next _
                obtain ⟨h1, h2, h3⟩ := ih next (count + 1) m2 (by omega)
                exact ⟨h1, by omega, by omega⟩

theorem extensive_bounded {ops : EntityOps P R} {cbc : BoundaryCreator P R}
    (hcbc : KeepsSides cbc) (pos : P) (fuel : Nat) :
    ∀ (l : List Nat) (count : Nat) (m : Mesh P R), untaggedCount m < fuel →
      (findCellExtensive ops cbc pos fuel l count m).1 ≠ .ok .unfinished ∧
      (findCellExtensive ops cbc pos fuel l count m).2.1 +
        foundCount (findCellExtensive ops cbc pos fuel l count m).1 +
        untaggedCount (findCellExtensive ops cbc pos fuel l count m).2.2 ≤
          count + untaggedCount m := by
  intro l
  induction l with
  | nil =>
    intro count m _
    simp only [findCellExtensive]
    refine ⟨(fun h => nomatch h), ?_⟩
    simp [foundCount]
  | cons i l ih =>
    intro count m hfuel
    obtain ⟨h1, h2, h3⟩ := tagged_walk_bounded hcbc pos fuel i count m hfuel
    simp only [findCellExtensive]
    rcases hw : findCellBySlopeSearch_ ops cbc pos true fuel i count m with ⟨r, count1, m1⟩
    rw [hw] at h1 h2 h3
    simp only at h1 h2 h3
    cases r with
    | error e => exact ⟨(fun h => nomatch h), h2⟩
    | ok w =>
      cases w with
      | found cell => exact ⟨(fun h => nomatch h), h2⟩
      | unfinished => exact absurd rfl h1
      | notFound =>
        simp only [foundCount] at h2
        obtain ⟨h4, h5⟩ := ih count1 m1 (by omega)
        refine ⟨h4, ?_⟩
        dsimp only at h5 ⊢
        omega


theorem SameButTags.same (m : Mesh P R) : SameButTags m m := ⟨rfl, rfl, rfl⟩

theorem SameButTags.chain {m m1 m2 : Mesh P R} (h1 : SameButTags m m1) (h2 : SameButTags m1 m2) :
    SameButTags m m2 :=
  ⟨h2.1.trans h1.1, h2.2.1.trans h1.2.1, h2.2.2.trans h1.2.2⟩

theorem sameButTags_tag {m : Mesh P R} {i : Nat} {c : Cell R} (hc : m.cellVector_[i]? = some c)
    (t : Bool) :
    SameButTags m { m with cellVector_ := m.cellVector_.set i { c with tagged_ := t } } :=
  ⟨rfl, rfl, map_set_of_eq Cell.untagged hc rfl⟩

theorem SameButTags.length {m m1 : Mesh P R} (h : SameButTags m m1) :
    m1.cellVector_.length = m.cellVector_.length := by
  have := congrArg List.length h.2.2
  simpa using this

theorem SameButTags.cell {m m1 : Mesh P R} (h : SameButTags m m1) {i : Nat} {c1 : Cell R}
    (hc : m1.cellVector_[i]? = some c1) :
    ∃ c, m.cellVector_[i]? = some c ∧ c.shape = c1.shape ∧ c.nodes = c1.nodes ∧
      c.neighbourCells_ = c1.neighbourCells_ := by
  have hi : i < m.cellVector_.length := by
    rw [← h.length]
    exact (List.getElem?_eq_some.mp hc).1
  have hget := congrArg (fun l => l[i]?) h.2.2
  simp only [List.getElem?_map, hc, List.getElem?_eq_getElem hi, Option.map_some',
    Option.some.injEq] at hget
  refine ⟨m.cellVector_[i], List.getElem?_eq_getElem hi, ?_, ?_, ?_⟩
  · exact (congrArg Cell.shape hget).symm
  · exact (congrArg Cell.nodes hget).symm
  · exact (congrArg Cell.neighbourCells_ hget).symm

theorem containsPos_congr (ops : EntityOps P R) (pos : P) {m m1 : Mesh P R} {c c1 : Cell R}
    (hn : m1.nodeVector_ = m.nodeVector_) (hs : c.shape = c1.shape) (hnodes : c.nodes = c1.nodes) :
    containsPos ops m c pos = containsPos ops m1 c1 pos := by
  unfold containsPos nodePositions
  rw [hn, hs, hnodes]

theorem walk_sameButTags (ops : EntityOps P R) (cbc : BoundaryCreator P R) (pos : P)
    (tagging : Bool) :
    ∀ (fuel start count : Nat) (m : Mesh P R), m.neighboursKnown_ = true →
      SameButTags m (findCellBySlopeSearch_ ops cbc pos tagging fuel start count m).2.2 := by
  intro fuel
  induction fuel with
  | zero => intro start count m _; exact SameButTags.same m
  | succ fuel ih =>
    intro start count m hknown
    simp only [findCellBySlopeSearch_]
    cases hc : m.cellVector_[start]? with
    | none => exact SameButTags.same m
    | some c =>
      have hs := sameButTags_tag hc true
      have hnk : ¬ (!m.neighboursKnown_) = true := by
        rw [hknown]
        decide
      simp only [if_neg hnk]
      split
      · exact SameButTags.same m
      · split
        · exact hs
        · split
          · exact hs
          · split
            · exact hs
            · exact hs.chain (ih _ _ _ hknown)

theorem tagged_walk_known (ops : EntityOps P R) (cbc : BoundaryCreator P R) (pos : P)
    (m0 : Mesh P R) (hknown : m0.neighboursKnown_ = true) (hptr : NeighboursInMesh m0) :
    ∀ (fuel start count : Nat) (m : Mesh P R), SameButTags m0 m → TaggedTested ops pos m →
      start < m0.cellCount → untaggedCount m < fuel →
      ∃ w count1 m1, findCellBySlopeSearch_ ops cbc pos true fuel start count m =
          (.ok w, count1, m1) ∧
        w ≠ .unfinished ∧ SameButTags m0 m1 ∧ TagsKept m m1 ∧
        untaggedCount m1 ≤ untaggedCount m ∧
        (w = .notFound → TaggedTested ops pos m1 ∧
          ∃ c1, m1.cellVector_[start]? = some c1 ∧ c1.tagged_ = true) ∧
        ∀ cell, w = .found cell →
          ∃ c, m1.cellVector_[cell]? = some c ∧ containsPos ops m1 c pos = true := by
  intro fuel
  induction fuel with
  | zero => intro start count m _ _ _ h; omega
  | succ fuel ih =>
    intro start count m hsame htested hstart hfuel
    have hlen : start < m.cellVector_.length := by
      rw [hsame.length]
      exact hstart
    have hc : m.cellVector_[start]? = some m.cellVector_[start] := List.getElem?_eq_getElem hlen
    generalize m.cellVector_[start] = c at hc
    have hmk : m.neighboursKnown_ = true := hsame.2.1.trans hknown
    have hkeep0 : TagsKept m m := by
      intro i a a1 ha hat ha1
      rw [ha] at ha1
      cases ha1
      exact hat
    have hnk : ¬ (!m.neighboursKnown_) = true := by
      rw [hmk]
      decide
    simp only [findCellBySlopeSearch_, hc, if_neg hnk]
    cases ht : c.tagged_ with
    | true =>
      simp only [Bool.and_self, if_true]
      exact ⟨_, _, _, rfl, (fun h => nomatch h), hsame, hkeep0, Nat.le_refl _,
        fun _ => ⟨htested, c, hc, ht⟩, fun cell h => nomatch h⟩
    | false =>
      simp only [Bool.false_and, Bool.false_eq_true, if_false]
      have htag := untaggedCount_tag hc ht
      have hs1 := sameButTags_tag hc true
      have hget1 : (m.cellVector_.set start { c with tagged_ := true })[start]? =
          some { c with tagged_ := true } := by
        simp [List.getElem?_set, hlen]
      simp only [hget1]
      generalize hmt :
        ({ m with cellVector_ := m.cellVector_.set start { c with tagged_ := true } } : Mesh P R) =
          mt at htag hs1 ⊢
      have hcv : mt.cellVector_ = m.cellVector_.set start { c with tagged_ := true } := by
        rw [← hmt]
      have hnv : mt.nodeVector_ = m.nodeVector_ := by
        rw [← hmt]
      have hgett : mt.cellVector_[start]? = some { c with tagged_ := true } := by
        rw [hcv]
        exact hget1
      have hkeep1 : TagsKept m mt := by
        intro i a a1 ha hat ha1
        rw [hcv, List.getElem?_set] at ha1
        by_cases hi : start = i
        · subst hi
          simp only [if_true, hlen, Option.some.injEq] at ha1
          subst ha1
          rfl
        · simp only [hi, if_false] at ha1
          rw [ha] at ha1
          cases ha1
          exact hat
      split
      · rename_i hin
        exact ⟨_, _, _, rfl, (fun h => nomatch h), hsame.chain hs1, hkeep1, by omega,
          (fun h => nomatch h), fun cell h => by
            cases h
            exact ⟨_, hgett, hin⟩⟩
      · rename_i hin
        have htested1 : TaggedTested ops pos mt := by
          intro a ha hat
          rw [hcv] at ha
          rcases List.mem_or_eq_of_mem_set ha with hmem | heq
          · rw [← containsPos_congr ops pos hnv rfl rfl]
            exact htested a hmem hat
          · subst heq
            exact Bool.eq_false_iff.mpr hin
        split
        · rename_i hnb
          exact ⟨_, _, _, rfl, (fun h => nomatch h), hsame.chain hs1, hkeep1, by omega,
            fun _ => ⟨htested1, _, hgett, rfl⟩, fun cell h => nomatch h⟩
        · rename_i next hnb
          have hnext : next < m0.cellCount := by
            obtain ⟨c0, hc0, -, -, hn0⟩ := hsame.cell hc
            refine hptr c0 (List.getElem?_mem hc0)
              (ops.exitFacet c.shape (nodePositions mt c.nodes) pos) next ?_
            unfold Cell.neighbourCell at hnb ⊢
            rw [hn0]
            exact hnb
          obtain ⟨w, count1, m1, hw, h1, h2, h3, h4, h5, h6⟩ :=
            ih next (count + 1) mt (hsame.chain hs1) htested1 hnext (by omega)
          refine ⟨w, count1, m1, hw, h1, h2, ?_, by omega, fun hnf => ?_, h6⟩
          · intro i a a1 ha hat ha1
            have hi : i < m.cellVector_.length := (List.getElem?_eq_some.mp ha).1
            have hi2 : i < mt.cellVector_.length := by
              rw [hcv]
              simpa using hi
            exact h3 i _ a1 (List.getElem?_eq_getElem hi2)
              (hkeep1 i a _ ha hat (List.getElem?_eq_getElem hi2)) ha1
          · obtain ⟨h7, -⟩ := h5 hnf
            refine ⟨h7, ?_⟩
            have hlen1 : start < m1.cellVector_.length := by
              rw [h2.length]
              exact hstart
            exact ⟨_, List.getElem?_eq_getElem hlen1,
              h3 start _ _ hgett rfl (List.getElem?_eq_getElem hlen1)⟩


theorem TagsKept.link {m m1 m2 : Mesh P R} (hlen : m1.cellVector_.length = m.cellVector_.length)
    (h1 : TagsKept m m1) (h2 : TagsKept m1 m2) : TagsKept m m2 := by
  intro i a a2 ha hat ha2
  have hi : i < m1.cellVector_.length := by
    rw [hlen]
    exact (List.getElem?_eq_some.mp ha).1
  exact h2 i _ a2 (List.getElem?_eq_getElem hi)
    (h1 i a _ ha hat (List.getElem?_eq_getElem hi)) ha2

theorem extensive_known (ops : EntityOps P R) (cbc : BoundaryCreator P R) (pos : P)
    (m0 : Mesh P R) (hknown : m0.neighboursKnown_ = true) (hptr : NeighboursInMesh m0)
    (fuel : Nat) :
    ∀ (l : List Nat) (count : Nat) (m : Mesh P R), SameButTags m0 m → TaggedTested ops pos m →
      (∀ i ∈ l, i < m0.cellCount) → untaggedCount m < fuel →
      ∃ w count1 m1, findCellExtensive ops cbc pos fuel l count m = (.ok w, count1, m1) ∧
        w ≠ .unfinished ∧ SameButTags m0 m1 ∧ TagsKept m m1 ∧
        (w = .notFound → TaggedTested ops pos m1 ∧
          ∀ i ∈ l, ∃ c1, m1.cellVector_[i]? = some c1 ∧ c1.tagged_ = true) ∧
        ∀ cell, w = .found cell →
          ∃ c, m1.cellVector_[cell]? = some c ∧ containsPos ops m1 c pos = true := by
  intro l
  induction l with
  | nil =>
    intro count m hsame htested _ _
    refine ⟨.notFound, count, m, rfl, (fun h => nomatch h), hsame, ?_,
      fun _ => ⟨htested, fun i hi => absurd hi (List.not_mem_nil i)⟩, fun cell h => nomatch h⟩
    intro i a a1 ha hat ha1
    rw [ha] at ha1
    cases ha1
    exact hat
  | cons i l ih =>
    intro count m hsame htested hl hfuel
    obtain ⟨w, count1, m1, hw, h1, h2, h3, h4, h5, h6⟩ :=
      tagged_walk_known ops cbc pos m0 hknown hptr fuel i count m hsame htested
        (hl i (List.mem_cons_self _ _)) hfuel
    simp only [findCellExtensive, hw]
    cases w with
    | found cell =>
      exact ⟨_, _, _, rfl, (fun h => nomatch h), h2, h3, (fun h => nomatch h), h6⟩
    | unfinished => exact absurd rfl h1
    | notFound =>
      obtain ⟨h7, c1, hc1, ht1⟩ := h5 rfl
      obtain ⟨w2, count2, m2, hw2, g1, g2, g3, g5, g6⟩ :=
        ih count1 m1 h2 h7 (fun k hk => hl k (List.mem_cons_of_mem _ hk)) (by omega)
      have hlen : m1.cellVector_.length = m.cellVector_.length := by
        rw [h2.length, hsame.length]
      refine ⟨w2, count2, m2, hw2, g1, g2, h3.link hlen g3, fun hnf => ?_, g6⟩
      obtain ⟨g7, g8⟩ := g5 hnf
      refine ⟨g7, fun k hk => ?_⟩
      rcases List.mem_cons.mp hk with rfl | hk
      · have hk2 : k < m2.cellVector_.length := by
          rw [g2.length]
          exact hl k (List.mem_cons_self _ _)
        exact ⟨_, List.getElem?_eq_getElem hk2, g3 k c1 _ hc1 ht1 (List.getElem?_eq_getElem hk2)⟩
      · exact g8 k hk

theorem fillKDTree_sameButTags (m : Mesh P R) : SameButTags m (fillKDTree_ m).2 := by
  refine ⟨fillKDTree_nodeVector m, ?_, by rw [fillKDTree_cellVector]⟩
  unfold fillKDTree_
  dsimp only
  split <;> (try split) <;> rfl

/-- C22: on a mesh with known adjacency whose recorded neighbour cells are cells
of the mesh, when the first walk of `findCell(pos, count, true)` ends (with a
cell or with the null pointer, within a number of passes above the number of
cells), `findCell` returns: a cell only if `isInside` of its shape holds at
`pos`, and the null pointer only if every cell of the mesh is tagged, which
the walks of the extensive pass do to a cell right before they test it, and
`isInside` holds for no cell of the mesh. So it returns a cell whenever
`isInside` holds for some cell. -/
theorem extensive_search_is_complete (ops : EntityOps P R) (ext : Externals P R)
    (cbc : BoundaryCreator P R) (fuel : Nat) (m : Mesh P R) (pos : P) (u : Unit)
    (m1 : Mesh P R) (refNode start : Nat) (rest : List Nat) (w : Walk) (count2 : Nat)
    (m2 : Mesh P R) (hknown : m.neighboursKnown_ = true) (hptr : NeighboursInMesh m)
    (hfuel : m.cellCount < fuel) (hfill : fillKDTree_ m = (.ok u, m1))
    (hnear : ext.nearest (m1.tree_.getD []) m1.nodeVector_ pos = some refNode)
    (hset : ops.cellSet m1 refNode = start :: rest)
    (hfirst : findCellBySlopeSearch_ ops cbc pos false fuel start 0 m1 = (.ok w, count2, m2))
    (hends : w ≠ .unfinished) :
    ∃ w1 count1 m3, findCell ops ext cbc fuel m pos true = (.ok w1, count1, m3) ∧
      w1 ≠ .unfinished ∧
      (∀ cell, w1 = .found cell →
        ∃ c, m3.cellVector_[cell]? = some c ∧ containsPos ops m3 c pos = true) ∧
      (w1 = .notFound → (∀ c ∈ m3.cellVector_, c.tagged_ = true) ∧
        ∀ c ∈ m.cellVector_, containsPos ops m c pos = false) ∧
      ((∃ c ∈ m.cellVector_, containsPos ops m c pos = true) → ∃ cell, w1 = .found cell) := by
  have hs1 : SameButTags m m1 := by
    have := fillKDTree_sameButTags m
    rw [hfill] at this
    exact this
  have hk1 : m1.neighboursKnown_ = true := hs1.2.1.trans hknown
  have hs2 : SameButTags m1 m2 := by
    have := walk_sameButTags ops cbc pos false fuel start 0 m1 hk1
    rw [hfirst] at this
    exact this
  have hmain : ∃ w1 count1 m3, findCell ops ext cbc fuel m pos true = (.ok w1, count1, m3) ∧
      w1 ≠ .unfinished ∧
      (∀ cell, w1 = .found cell →
        ∃ c, m3.cellVector_[cell]? = some c ∧ containsPos ops m3 c pos = true) ∧
      (w1 = .notFound → (∀ c ∈ m3.cellVector_, c.tagged_ = true) ∧
        ∀ c ∈ m.cellVector_, containsPos ops m c pos = false) := by
    unfold findCell
    rw [hfill]
    simp only [hnear, hset, hfirst]
    cases w with
    | unfinished => exact absurd rfl hends
    | found cell =>
      exact ⟨_, _, _, rfl, (fun h => nomatch h),
        fun cell1 h => by
          cases h
          exact found_findCellBySlopeSearch ops cbc pos false cell fuel start 0 m1 count2 m2 hfirst,
        fun h => nomatch h⟩
    | notFound =>
      simp only [if_true]
      generalize hmu :
        ({ m2 with cellVector_ := m2.cellVector_.map (fun c => { c with tagged_ := false }) } :
          Mesh P R) = mu
      have hcv : mu.cellVector_ = m2.cellVector_.map (fun c => { c with tagged_ := false }) := by
        rw [← hmu]
      have hall : ∀ c ∈ mu.cellVector_, c.tagged_ = false := by
        intro c hc
        rw [hcv, List.mem_map] at hc
        obtain ⟨c0, -, rfl⟩ := hc
        rfl
      have hsu : SameButTags m2 mu := by
        refine ⟨by rw [← hmu], by rw [← hmu], ?_⟩
        rw [hcv, List.map_map]
        rfl
      have hsmu : SameButTags m mu := (hs1.chain hs2).chain hsu
      have hcount : mu.cellCount = m.cellCount := hsmu.length
      have htested : TaggedTested ops pos mu := by
        intro c hc ht
        rw [hall c hc] at ht
        cases ht
      have hunt : untaggedCount mu < fuel := by
        have hle : untaggedCount mu ≤ mu.cellVector_.length := List.countP_le_length _
        have h2 : mu.cellVector_.length = m.cellCount := hcount
        omega
      obtain ⟨w1, count1, m3, hw1, g1, g2, -, g5, g6⟩ :=
        extensive_known ops cbc pos m hknown hptr fuel (List.range mu.cellCount) 0 mu hsmu htested
          (fun i hi => by
            rw [← hcount]
            exact List.mem_range.mp hi) hunt
      refine ⟨w1, count1, m3, hw1, g1, g6, fun hnf => ?_⟩
      obtain ⟨g7, g8⟩ := g5 hnf
      have htagged : ∀ c ∈ m3.cellVector_, c.tagged_ = true := by
        intro c hc
        obtain ⟨i, hi⟩ := List.getElem?_of_mem hc
        have hilt : i < mu.cellCount := by
          rw [hcount]
          have := (List.getElem?_eq_some.mp hi).1
          rw [g2.length] at this
          exact this
        obtain ⟨c1, hc1, ht1⟩ := g8 i (List.mem_range.mpr hilt)
        rw [hi] at hc1
        cases hc1
        exact ht1
      refine ⟨htagged, fun c0 hc0 => ?_⟩
      obtain ⟨i, hi⟩ := List.getElem?_of_mem hc0
      have hi3 : i < m3.cellVector_.length := by
        rw [g2.length]
        exact (List.getElem?_eq_some.mp hi).1
      have hc3 : m3.cellVector_[i]? = some m3.cellVector_[i] := List.getElem?_eq_getElem hi3
      obtain ⟨c, hc, hsh, hno, -⟩ := g2.cell hc3
      rw [hi] at hc
      cases hc
      rw [containsPos_congr ops pos g2.1 hsh hno]
      exact g7 _ (List.getElem?_mem hc3) (htagged _ (List.getElem?_mem hc3))
  obtain ⟨w1, count1, m3, h1, h2, h3, h4⟩ := hmain
  refine ⟨w1, count1, m3, h1, h2, h3, h4, fun hex => ?_⟩
  cases w1 with
  | found cell => exact ⟨cell, rfl⟩
  | unfinished => exact absurd rfl h2
  | notFound =>
    obtain ⟨c, hc, hin⟩ := hex
    rw [(h4 rfl).2 c hc] at hin
    cases hin

/-- Witness of C22: in the mesh of two edge cells in a row with known adjacency
and no neighbour recorded, the first walk for the position 2 steps off the mesh
at cell 0, and the extensive pass returns cell 1. -/
theorem extensive_search_is_complete_witness :
    ∃ w1 count1 m3, findCell edgeOps firstNodeExternals findOrCreateBoundary 3 knownLine 2 true =
        (.ok w1, count1, m3) ∧
      w1 ≠ .unfinished ∧
      (∀ cell, w1 = .found cell →
        ∃ c, m3.cellVector_[cell]? = some c ∧ containsPos edgeOps m3 c 2 = true) ∧
      (w1 = .notFound → (∀ c ∈ m3.cellVector_, c.tagged_ = true) ∧
        ∀ c ∈ knownLine.cellVector_, containsPos edgeOps knownLine c 2 = false) ∧
      ((∃ c ∈ knownLine.cellVector_, containsPos edgeOps knownLine c 2 = true) →
        ∃ cell, w1 = .found cell) :=
  extensive_search_is_complete edgeOps firstNodeExternals findOrCreateBoundary 3 knownLine 2 ()
    (fillKDTree_ knownLine).2 0 0 [] .notFound 1
    (findCellBySlopeSearch_ edgeOps findOrCreateBoundary 2 false 3 0 0
      (fillKDTree_ knownLine).2).2.2
    rfl (fun c hc j n hn => by
      simp only [knownLine, lineMesh, List.mem_cons, List.mem_singleton, List.not_mem_nil,
        or_false] at hc
      rcases hc with rfl | rfl <;> cases hn)
    (by decide) rfl rfl rfl rfl (fun h => nomatch h)


theorem createNeighbourInfosCell_length {ops : EntityOps P R} {cbc : BoundaryCreator P R}
    (hcbc : KeepsSides cbc) {ci : Nat} {m m1 : Mesh P R}
    (h : createNeighbourInfosCell_ ops cbc ci m = .ok m1) :
    m1.cellVector_.length = m.cellVector_.length := by
  unfold createNeighbourInfosCell_ at h
  split at h
  · cases h
  · have ht := congrArg List.length (neighbourInfosFacets_tags hcbc _ m m1 h)
    simpa using ht

theorem walk_length {ops : EntityOps P R} {cbc : BoundaryCreator P R} (hcbc : KeepsSides cbc)
    (pos : P) (tagging : Bool) :
    ∀ (fuel start count : Nat) (m : Mesh P R),
      (findCellBySlopeSearch_ ops cbc pos tagging fuel start count m).2.2.cellVector_.length =
        m.cellVector_.length := by
  intro fuel
  induction fuel with
  | zero => intro start count m; rfl
  | succ fuel ih =>
    intro start count m
    simp only [findCellBySlopeSearch_]
    cases hc : m.cellVector_[start]? with
    | none => rfl
    | some c =>
      simp only
      split
      · rfl
      · split
        · simp
        · split
          · simp
          · rename_i m2 hm2
            have hlen2 : m2.cellVector_.length = m.cellVector_.length := by
              split at hm2
              · rw [createNeighbourInfosCell_length hcbc hm2]
                simp
              · cases hm2
                simp
            split
            · exact hlen2
            · split
              · exact hlen2
              · rw [ih]
                exact hlen2

/-- C21, what holds: with a boundary creator that leaves the cells alone, and a
number of passes granted to each walk above the number of cells, a walk with
`tagging` ends, and `count` grows by at most the number of cells that are not
tagged, one per test of a cell that fails; the walks of the extensive pass,
which starts with no cell tagged and `count` 0, end with `count` plus the test
that succeeds at most the number of cells; and `findCell` ends unless its first
walk, which runs without `tagging`, does not. -/
theorem tagged_walks_end (ops : EntityOps P R) (ext : Externals P R) (cbc : BoundaryCreator P R)
    (pos : P) (fuel : Nat) (m : Mesh P R) (hcbc : KeepsSides cbc) (hfuel : m.cellCount < fuel) :
    (∀ start count,
      (findCellBySlopeSearch_ ops cbc pos true fuel start count m).1 ≠ .ok .unfinished ∧
      (findCellBySlopeSearch_ ops cbc pos true fuel start count m).2.1 +
        foundCount (findCellBySlopeSearch_ ops cbc pos true fuel start count m).1 ≤
          count + untaggedCount m ∧
      untaggedCount m ≤ m.cellCount) ∧
    (∀ m2 : Mesh P R, m2.cellCount = m.cellCount →
      (findCellExtensive ops cbc pos fuel (List.range m2.cellCount) 0 m2).1 ≠ .ok .unfinished ∧
      (findCellExtensive ops cbc pos fuel (List.range m2.cellCount) 0 m2).2.1 +
        foundCount (findCellExtensive ops cbc pos fuel (List.range m2.cellCount) 0 m2).1 ≤
          m.cellCount) ∧
    (∀ extensive, (findCell ops ext cbc fuel m pos extensive).1 = .ok .unfinished →
      ∃ u m1 refNode start rest, fillKDTree_ m = (.ok u, m1) ∧
        ext.nearest (m1.tree_.getD []) m1.nodeVector_ pos = some refNode ∧
        ops.cellSet m1 refNode = start :: rest ∧
        (findCellBySlopeSearch_ ops cbc pos false fuel start 0 m1).1 = .ok .unfinished) := by
  have hle : ∀ m0 : Mesh P R, untaggedCount m0 ≤ m0.cellCount :=
    fun m0 => List.countP_le_length _
  refine ⟨fun start count => ?_, fun m2 hm2 => ?_, fun extensive h => ?_⟩
  · obtain ⟨h1, h2, -⟩ := tagged_walk_bounded hcbc pos fuel start count m
      (by have := hle m; omega)
    exact ⟨h1, by omega, hle m⟩
  · obtain ⟨h1, h2⟩ := extensive_bounded hcbc pos fuel (List.range m2.cellCount) 0 m2
      (by have := hle m2; omega)
    refine ⟨h1, ?_⟩
    have := hle m2
    omega
  · unfold findCell at h
    rcases hfill : fillKDTree_ m with ⟨r, m1⟩
    rw [hfill] at h
    cases r with
    | error e => cases h
    | ok u =>
      simp only at h
      cases hnear : ext.nearest (m1.tree_.getD []) m1.nodeVector_ pos with
      | none =>
        rw [hnear] at h
        cases h
      | some refNode =>
        rw [hnear] at h
        simp only at h
        cases hset : ops.cellSet m1 refNode with
        | nil =>
          rw [hset] at h
          cases h
        | cons start rest =>
          rw [hset] at h
          simp only at h
          refine ⟨u, m1, refNode, start, rest, rfl, hnear, hset, ?_⟩
          have hlen := @walk_length P R ops cbc hcbc pos false fuel start 0 m1
          rcases hw : findCellBySlopeSearch_ ops cbc pos false fuel start 0 m1 with ⟨r, c2, m2⟩
          rw [hw] at h hlen
          simp only at h hlen
          cases r with
          | error e => cases h
          | ok w =>
            cases w with
            | unfinished => rfl
            | found cell => cases h
            | notFound =>
              simp only at h
              split at h
              · exfalso
                have hc1 : m1.cellVector_.length = m.cellVector_.length := by
                  have := fillKDTree_cellVector m
                  rw [hfill] at this
                  exact congrArg List.length this
                refine (extensive_bounded hcbc pos fuel _ 0 _ ?_).1 h
                refine Nat.lt_of_le_of_lt (hle _) ?_
                simp only [cellCount, List.length_map] at hfuel ⊢
                omega
              · cases h

theorem ring_walk_never_ends (pos : Int) (hpos : 2 < pos) :
    ∀ (fuel start count : Nat) (m : Mesh Int Int) (t0 t1 t2 : Bool),
      m.cellVector_ = ringCells t0 t1 t2 → m.nodeVector_ = ringMesh.nodeVector_ →
      m.neighboursKnown_ = true → start < 3 →
      (findCellBySlopeSearch_ edgeOps findOrCreateBoundary pos false fuel start count m).1 =
        .ok .unfinished := by
  intro fuel
  induction fuel with
  | zero => intro start count m t0 t1 t2 _ _ _ _; rfl
  | succ fuel ih =>
    intro start count m t0 t1 t2 hcv hnv hk hstart
    have hnk : ¬ (!m.neighboursKnown_) = true := by
      rw [hk]
      decide
    have h0 : (pos == 0) = false := beq_false_of_ne (by omega)
    have h1 : (pos == 1) = false := beq_false_of_ne (by omega)
    have h2 : (pos == 2) = false := beq_false_of_ne (by omega)
    interval_cases start
    · simp only [findCellBySlopeSearch_, hcv, ringCells, List.getElem?_cons_zero, Bool.and_false,
        Bool.false_eq_true, if_false, if_neg hnk, List.set_cons_zero]
      simp only [edgeOps, nodePositions, hnv, ringMesh, List.filterMap_cons, List.filterMap_nil,
        List.getElem?_cons_zero, List.getElem?_cons_succ, Option.map_some', List.contains_cons,
        List.contains_nil, beq_iff_eq, h0, h1, Bool.or_false, Bool.false_eq_true, if_false,
        decide_False, Cell.neighbourCell, List.lookup_cons, beq_self_eq_true]
      exact ih 2 (count + 1) _ true t1 t2 rfl rfl hk (by omega)
    · simp only [findCellBySlopeSearch_, hcv, ringCells, List.getElem?_cons_zero,
        List.getElem?_cons_succ, Bool.and_false, Bool.false_eq_true, if_false, if_neg hnk,
        List.set_cons_zero, List.set_cons_succ]
      simp only [edgeOps, nodePositions, hnv, ringMesh, List.filterMap_cons, List.filterMap_nil,
        List.getElem?_cons_zero, List.getElem?_cons_succ, Option.map_some', List.contains_cons,
        List.contains_nil, beq_iff_eq, h1, h2, Bool.or_false, Bool.false_eq_true, if_false,
        decide_False, Cell.neighbourCell, List.lookup_cons, beq_self_eq_true]
      exact ih 0 (count + 1) _ t0 true t2 rfl rfl hk (by omega)
    · simp only [findCellBySlopeSearch_, hcv, ringCells, List.getElem?_cons_zero,
        List.getElem?_cons_succ, Bool.and_false, Bool.false_eq_true, if_false, if_neg hnk,
        List.set_cons_zero, List.set_cons_succ]
      simp only [edgeOps, nodePositions, hnv, ringMesh, List.filterMap_cons, List.filterMap_nil,
        List.getElem?_cons_zero, List.getElem?_cons_succ, Option.map_some', List.contains_cons,
        List.contains_nil, beq_iff_eq, h0, h2, Bool.or_false, Bool.false_eq_true, if_false,
        decide_False, Cell.neighbourCell, List.lookup_cons, beq_self_eq_true]
      exact ih 1 (count + 1) _ t0 t1 true rfl rfl hk (by omega)


/-- C21, the input on which the search does not end: three edge cells over the
nodes at 0, 1 and 2 that are neighbours in a ring across the facet that the walk
leaves through, no cell tagged, adjacency known, and a position in no cell.
Whatever number of passes the first walk of `findCell` is granted, it has not
ended after them, with or without `extensive`. -/
theorem first_walk_can_circle :
    ringMesh.cellCount = 3 ∧ (∀ c ∈ ringMesh.cellVector_, c.tagged_ = false) ∧
    ∀ fuel extensive,
      (findCell edgeOps firstNodeExternals findOrCreateBoundary fuel ringMesh 7 extensive).1 =
        .ok .unfinished := by
  refine ⟨rfl, by decide, fun fuel extensive => ?_⟩
  have h := ring_walk_never_ends 7 (by decide) fuel 0 0 (fillKDTree_ ringMesh).2
    false false false rfl rfl rfl (by decide)
  have hfill : fillKDTree_ ringMesh = (.ok (), (fillKDTree_ ringMesh).2) := rfl
  have hnear : firstNodeExternals.nearest ((fillKDTree_ ringMesh).2.tree_.getD [])
      (fillKDTree_ ringMesh).2.nodeVector_ 7 = some 0 := rfl
  have hset : edgeOps.cellSet (fillKDTree_ ringMesh).2 0 = [0] := rfl
  unfold findCell
  rw [hfill]
  simp only [hnear, hset]
  rcases hw : findCellBySlopeSearch_ edgeOps findOrCreateBoundary 7 false fuel 0 0
    (fillKDTree_ ringMesh).2 with ⟨r, c2, m2⟩
  rw [hw] at h
  simp only at h
  subst h
  rfl

theorem tagged_walks_end_witness :
    ringMesh.cellCount < 4 ∧
    ∀ start count,
      (findCellBySlopeSearch_ edgeOps findOrCreateBoundary 7 true 4 start count ringMesh).1 ≠
        .ok .unfinished :=
  ⟨by decide, fun start count =>
    ((tagged_walks_end edgeOps firstNodeExternals findOrCreateBoundary 7 4 ringMesh
      keepsSides_findOrCreateBoundary (by decide)).1 start count).1⟩

/-! ## Extraction of a part of a mesh -/

theorem firstAppearancesFrom_append (l1 l2 : List Nat) : ∀ acc : List Nat,
    firstAppearancesFrom acc (l1 ++ l2) =
      firstAppearancesFrom (firstAppearancesFrom acc l1) l2 := by
  induction l1 with
  | nil => intro acc; rfl
  | cons p l1 ih =>
    intro acc
    simp only [List.cons_append, firstAppearancesFrom]
    split <;> exact ih _

theorem firstAppearancesFrom_nodup (l : List Nat) : ∀ acc : List Nat, acc.Nodup →
    (firstAppearancesFrom acc l).Nodup := by
  induction l with
  | nil => intro acc h; exact h
  | cons p l ih =>
    intro acc h
    simp only [firstAppearancesFrom]
    split
    · exact ih acc h
    · rename_i hp
      refine ih _ ?_
      rw [List.nodup_append]
      refine ⟨h, List.nodup_singleton p, ?_⟩
      intro a ha hb
      rw [List.mem_singleton] at hb
      subst hb
      exact hp ha

theorem mem_firstAppearancesFrom (l : List Nat) : ∀ (acc : List Nat) (q : Nat),
    q ∈ firstAppearancesFrom acc l ↔ q ∈ acc ∨ q ∈ l := by
  induction l with
  | nil => intro acc q; simp [firstAppearancesFrom]
  | cons p l ih =>
    intro acc q
    simp only [firstAppearancesFrom]
    split
    · rename_i hp
      rw [ih, List.mem_cons]
      constructor
      · rintro (h | h)
        · exact Or.inl h
        · exact Or.inr (Or.inr h)
      · rintro (h | h | h)
        · exact Or.inl h
        · subst h
          exact Or.inl hp
        · exact Or.inr h
    · rw [ih, List.mem_append, List.mem_singleton, List.mem_cons]
      tauto

theorem firstAppearancesFrom_prefix (l : List Nat) : ∀ acc : List Nat,
    ∃ t, firstAppearancesFrom acc l = acc ++ t := by
  induction l with
  | nil => intro acc; exact ⟨[], by simp [firstAppearancesFrom]⟩
  | cons p l ih =>
    intro acc
    simp only [firstAppearancesFrom]
    split
    · exact ih acc
    · obtain ⟨t, ht⟩ := ih (acc ++ [p])
      exact ⟨p :: t, by rw [ht]; simp⟩

theorem copiesNodes_nil (mesh this : Mesh P R) (h : this.nodeVector_ = []) :
    CopiesNodes mesh [] this [] := by
  refine ⟨by rw [h]; rfl, List.nodup_nil, ?_, ?_⟩
  · intro k p hk
    simp at hk
  · intro p k
    simp

theorem copiesNodes_push {mesh this : Mesh P R} {acc : List Nat} {nodeMap : NodeMap} {p : Nat}
    {n : Node P} (h : CopiesNodes mesh acc this nodeMap) (hn : mesh.nodeVector_[p]? = some n)
    (hp : nodeMap.lookup (p : Int) = none) :
    CopiesNodes mesh (acc ++ [p]) (createNode this n.pos n.marker).2
      (((p : Int), (createNode this n.pos n.marker).1) :: nodeMap) := by
  obtain ⟨hlen, hnd, hcopy, hmap⟩ := h
  have hnot : p ∉ acc := by
    intro hmem
    obtain ⟨k, hk⟩ := List.getElem?_of_mem hmem
    rw [(hmap p k).mpr hk] at hp
    cases hp
  have hcn : (createNode this n.pos n.marker).2.nodeVector_ =
      this.nodeVector_ ++ [⟨n.pos, n.marker, (acc.length : Int)⟩] := by
    simp [createNode, createNode_, nodeCount, hlen]
  have hc1 : (createNode this n.pos n.marker).1 = acc.length := by
    simp [createNode, createNode_, hlen]
  refine ⟨?_, ?_, ?_, ?_⟩
  · rw [hcn]
    simp [hlen]
  · rw [List.nodup_append]
    refine ⟨hnd, List.nodup_singleton p, ?_⟩
    intro a ha hb
    rw [List.mem_singleton] at hb
    subst hb
    exact hnot ha
  · intro k q hk
    rw [hcn]
    by_cases hlt : k < acc.length
    · rw [List.getElem?_append_left hlt] at hk
      obtain ⟨n1, hn1, hk1⟩ := hcopy k q hk
      refine ⟨n1, hn1, ?_⟩
      rw [List.getElem?_append_left (by omega)]
      exact hk1
    · have hge : acc.length ≤ k := by omega
      rw [List.getElem?_append_right hge] at hk
      cases hd : k - acc.length with
      | zero =>
        rw [hd] at hk
        simp only [List.getElem?_cons_zero, Option.some.injEq] at hk
        subst hk
        have hke : k = acc.length := by omega
        refine ⟨n, hn, ?_⟩
        rw [List.getElem?_append_right (by omega), hlen, hd, hke]
        rfl
      | succ d =>
        rw [hd] at hk
        simp at hk
  · intro q k
    rw [hc1, List.lookup_cons]
    by_cases hq : q = p
    · subst hq
      simp only [beq_self_eq_true]
      constructor
      · intro hk
        cases hk
        rw [List.getElem?_append_right (Nat.le_refl _)]
        simp
      · intro hk
        by_cases hlt : k < acc.length
        · rw [List.getElem?_append_left hlt] at hk
          exact absurd (List.getElem?_mem hk) hnot
        · have hlt2 := (List.getElem?_eq_some.mp hk).1
          simp only [List.length_append, List.length_singleton] at hlt2
          have : k = acc.length := by omega
          rw [this]
    · have hne : ((q : Int) == (p : Int)) = false := by
        rw [beq_eq_false_iff_ne]
        exact_mod_cast hq
      simp only [hne]
      rw [hmap q k]
      constructor
      · intro hk
        rw [List.getElem?_append_left (List.getElem?_eq_some.mp hk).1]
        exact hk
      · intro hk
        by_cases hlt : k < acc.length
        · rw [List.getElem?_append_left hlt] at hk
          exact hk
        · have hge : acc.length ≤ k := by omega
          rw [List.getElem?_append_right hge] at hk
          cases hd : k - acc.length with
          | zero =>
            rw [hd] at hk
            simp only [List.getElem?_cons_zero, Option.some.injEq] at hk
            exact absurd hk.symm hq
          | succ d =>
            rw [hd] at hk
            simp at hk

theorem copyNewNodes_spec {mesh : Mesh P R} (hids : IdsAreIndices mesh) :
    ∀ (l : List Nat) (this : Mesh P R) (nodeMap : NodeMap) (acc : List Nat),
      CopiesNodes mesh acc this nodeMap → (∀ p ∈ l, p < mesh.nodeCount) →
      ∃ this1 nodeMap1, copyNewNodes mesh l this nodeMap = .ok (this1, nodeMap1) ∧
        CopiesNodes mesh (firstAppearancesFrom acc l) this1 nodeMap1 ∧
        this1 = { this with nodeVector_ := this1.nodeVector_ } := by
  intro l
  induction l with
  | nil =>
    intro this nodeMap acc h _
    exact ⟨this, nodeMap, rfl, h, rfl⟩
  | cons p l ih =>
    intro this nodeMap acc h hl
    have hp : p < mesh.nodeVector_.length := hl p (List.mem_cons_self _ _)
    have hn : mesh.nodeVector_[p]? = some mesh.nodeVector_[p] := List.getElem?_eq_getElem hp
    have hid : (mesh.nodeVector_[p]).id = (p : Int) := hids p _ hn
    simp only [copyNewNodes, hn, hid, firstAppearancesFrom]
    cases hlook : nodeMap.lookup (p : Int) with
    | some k =>
      have hmem : p ∈ acc := List.getElem?_mem ((h.2.2.2 p k).mp hlook)
      rw [if_pos hmem]
      exact ih this nodeMap acc h (fun q hq => hl q (List.mem_cons_of_mem _ hq))
    | none =>
      have hnot : p ∉ acc := by
        intro hmem
        obtain ⟨k, hk⟩ := List.getElem?_of_mem hmem
        rw [(h.2.2.2 p k).mpr hk] at hlook
        cases hlook
      rw [if_neg hnot]
      obtain ⟨this1, nodeMap1, h1, h2, h3⟩ := ih _ _ _ (copiesNodes_push h hn hlook)
        (fun q hq => hl q (List.mem_cons_of_mem _ hq))
      refine ⟨this1, nodeMap1, h1, h2, ?_⟩
      rw [h3]
      rfl


theorem copyNodesOfCells_spec {w : Nat} {mesh : Mesh P R} (hids : IdsAreIndices mesh)
    (hfit : mesh.cellCount < 2 ^ w) :
    ∀ (L : List Nat) (this : Mesh P R) (nodeMap : NodeMap) (acc : List Nat),
      CopiesNodes mesh acc this nodeMap →
      (∀ k ∈ L, k < mesh.cellCount ∧ ∀ p ∈ cellNodes mesh k, p < mesh.nodeCount) →
      ∃ this1 nodeMap1,
        copyNodesOfCells w mesh (L.map (fun k : Nat => (k : Int))) this nodeMap =
          .ok (this1, nodeMap1) ∧
        CopiesNodes mesh (firstAppearancesFrom acc (L.flatMap (cellNodes mesh))) this1 nodeMap1 ∧
        this1 = { this with nodeVector_ := this1.nodeVector_ } := by
  intro L
  induction L with
  | nil =>
    intro this nodeMap acc h _
    exact ⟨this, nodeMap, rfl, h, rfl⟩
  | cons k L ih =>
    intro this nodeMap acc h hL
    obtain ⟨hk, hnodes⟩ := hL k (List.mem_cons_self _ _)
    obtain ⟨c, hc, hcell⟩ := cell_of_lt hk hfit
    have hcn : cellNodes mesh k = c.nodes := by
      unfold cellNodes
      rw [hc]
      rfl
    rw [hcn] at hnodes
    obtain ⟨this1, nodeMap1, h1, h2, h3⟩ := copyNewNodes_spec hids c.nodes this nodeMap acc h hnodes
    obtain ⟨this2, nodeMap2, g1, g2, g3⟩ := ih this1 nodeMap1 _ h2
      (fun i hi => hL i (List.mem_cons_of_mem _ hi))
    refine ⟨this2, nodeMap2, ?_, ?_, ?_⟩
    · simp only [List.map_cons, copyNodesOfCells, toUint_natCast (Nat.lt_trans hk hfit), hcell, h1]
      exact g1
    · rw [List.flatMap_cons, firstAppearancesFrom_append, hcn]
      exact g2
    · rw [g3, h3]

theorem mappedNodes_spec {mesh this : Mesh P R} {acc : List Nat} {nodeMap : NodeMap}
    (hids : IdsAreIndices mesh) (h : CopiesNodes mesh acc this nodeMap) :
    ∀ l : List Nat, (∀ p ∈ l, p < mesh.nodeCount ∧ p ∈ acc) →
      ∃ qs, mappedNodes mesh nodeMap l = .ok qs ∧ qs.length = l.length ∧
        ∀ (j p : Nat), l[j]? = some p → ∃ q, qs[j]? = some q ∧ acc[q]? = some p := by
  intro l
  induction l with
  | nil =>
    intro _
    exact ⟨[], rfl, rfl, fun j p hj => by simp at hj⟩
  | cons p l ih =>
    intro hl
    obtain ⟨hp, hmem⟩ := hl p (List.mem_cons_self _ _)
    have hp2 : p < mesh.nodeVector_.length := hp
    have hn : mesh.nodeVector_[p]? = some mesh.nodeVector_[p] := List.getElem?_eq_getElem hp2
    have hid : (mesh.nodeVector_[p]).id = (p : Int) := hids p _ hn
    obtain ⟨q, hq⟩ := List.getElem?_of_mem hmem
    have hlook := (h.2.2.2 p q).mpr hq
    obtain ⟨qs, h1, h2, h3⟩ := ih (fun x hx => hl x (List.mem_cons_of_mem _ hx))
    refine ⟨q :: qs, ?_, by simp [h2], ?_⟩
    · simp only [mappedNodes, hn, hid, hlook, h1]
    · intro j x hj
      cases j with
      | zero =>
        simp only [List.getElem?_cons_zero, Option.some.injEq] at hj
        subst hj
        exact ⟨q, by simp, hq⟩
      | succ j =>
        simp only [List.getElem?_cons_succ] at hj ⊢
        exact h3 j x hj

theorem createCell_of_table [Inhabited R] (m : Mesh P R) (nodes : List Nat) (marker : Int)
    (shape : CellShape) (h : cellTable nodes.length m.dimension_ = some shape) :
    createCell m nodes marker =
      (some m.cellCount,
       { m with cellVector_ := m.cellVector_ ++ [⟨shape, nodes, marker, (m.cellCount : Int), default, [], false⟩] }) := by
  unfold createCell
  unfold cellTable at h
  split <;> (try split) <;> (try simp [*] at h) <;> (try simp_all [createCell_, cellCount])

/-- The cells `cells` are the copies of the cells of `mesh` at the indices `L`:
cell `k` has the marker of the source cell and the class of the table, and its
nodes are the copies, in the same order, of the nodes of the source cell, where
the copy of the node `acc[q]` is the node `q`. -/
theorem copyCells_spec [Inhabited R] {w : Nat} {mesh : Mesh P R} {acc : List Nat}
    {nodeMap : NodeMap} {nodesOf : Mesh P R} (hids : IdsAreIndices mesh)
    (hfit : mesh.cellCount < 2 ^ w) (h : CopiesNodes mesh acc nodesOf nodeMap) :
    ∀ (L : List Nat) (this : Mesh P R), this.dimension_ = mesh.dimension_ →
      (∀ k ∈ L, k < mesh.cellCount ∧ (∀ p ∈ cellNodes mesh k, p < mesh.nodeCount ∧ p ∈ acc) ∧
        (cellTable (cellNodes mesh k).length mesh.dimension_).isSome = true) →
      ∃ cells : List (Cell R),
        copyCells w mesh nodeMap (L.map (fun k : Nat => (k : Int))) this =
          .ok { this with cellVector_ := this.cellVector_ ++ cells } ∧
        cells.length = L.length ∧
        ∀ (k i : Nat), L[k]? = some i → ∃ c c1 : Cell R, mesh.cellVector_[i]? = some c ∧
          cells[k]? = some c1 ∧ c1.marker = c.marker ∧
          cellTable c.nodes.length mesh.dimension_ = some c1.shape ∧
          c1.id = ((this.cellCount + k : Nat) : Int) ∧ c1.nodes.length = c.nodes.length ∧
          ∀ (j p : Nat), c.nodes[j]? = some p → ∃ q, c1.nodes[j]? = some q ∧ acc[q]? = some p := by
  intro L
  induction L with
  | nil =>
    intro this _ _
    exact ⟨[], by simp [copyCells], rfl, fun k i hk => by simp at hk⟩
  | cons k0 L ih =>
    intro this hdim hL
    obtain ⟨hk, hnodes, htab⟩ := hL k0 (List.mem_cons_self _ _)
    obtain ⟨c, hc, hcell⟩ := cell_of_lt hk hfit
    have hcn : cellNodes mesh k0 = c.nodes := by
      unfold cellNodes
      rw [hc]
      rfl
    rw [hcn] at hnodes htab
    obtain ⟨qs, hq1, hq2, hq3⟩ := mappedNodes_spec hids h c.nodes hnodes
    obtain ⟨shape, hshape⟩ := Option.isSome_iff_exists.mp htab
    have hcreate := createCell_of_table this qs c.marker shape (by rw [hq2, hdim]; exact hshape)
    obtain ⟨cells, g1, g2, g3⟩ := ih (createCell this qs c.marker).2
      (by rw [hcreate]; exact hdim) (fun i hi => hL i (List.mem_cons_of_mem _ hi))
    refine ⟨⟨shape, qs, c.marker, (this.cellCount : Int), default, [], false⟩ :: cells, ?_, ?_, ?_⟩
    · simp only [List.map_cons, copyCells, toUint_natCast (Nat.lt_trans hk hfit), hcell, hq1]
      rw [g1, hcreate]
      simp
    · simp [g2]
    · intro k i hki
      cases k with
      | zero =>
        simp only [List.getElem?_cons_zero, Option.some.injEq] at hki
        subst hki
        exact ⟨c, ⟨shape, qs, c.marker, (this.cellCount : Int), default, [], false⟩, hc,
          by simp, rfl, hshape, by simp, hq2, hq3⟩
      | succ k =>
        simp only [List.getElem?_cons_succ] at hki ⊢
        obtain ⟨c0, c1, e1, e2, e3, e4, e5, e6, e7⟩ := g3 k i hki
        refine ⟨c0, c1, e1, e2, e3, e4, ?_, e6, e7⟩
        rw [e5, hcreate]
        simp only [cellCount, List.length_append, List.length_singleton]
        congr 1
        omega

theorem insideNodes_returns (mesh : Mesh P R) (nodeMap : NodeMap) :
    ∀ l : List Nat, (∀ p ∈ l, p < mesh.nodeCount) → ∃ r, insideNodes mesh nodeMap l = .ok r := by
  intro l
  induction l with
  | nil => intro _; exact ⟨_, rfl⟩
  | cons p l ih =>
    intro hl
    have hp : p < mesh.nodeVector_.length := hl p (List.mem_cons_self _ _)
    obtain ⟨r, hr⟩ := ih (fun x hx => hl x (List.mem_cons_of_mem _ hx))
    simp only [insideNodes, List.getElem?_eq_getElem hp, hr]
    cases nodeMap.lookup (mesh.nodeVector_[p]).id with
    | none => exact ⟨_, rfl⟩
    | some q =>
      cases r with
      | none => exact ⟨_, rfl⟩
      | some qs => exact ⟨_, rfl⟩

theorem createBoundary_onlyBoundaries {cbc : BoundaryCreator P R} (hcbc : OnlyBoundaries cbc)
    (m : Mesh P R) (ns : List Nat) (marker : Int) :
    ∃ bv : List Boundary, (createBoundary cbc m ns marker).2 = { m with boundaryVector_ := bv } := by
  unfold createBoundary
  split <;> (try split) <;> first | exact hcbc _ _ _ _ | exact ⟨m.boundaryVector_, rfl⟩

theorem copyMarkedBoundaries_spec {w : Nat} {cbc : BoundaryCreator P R}
    (hcbc : OnlyBoundaries cbc) (findCommonCell : Mesh P R → List Nat → Bool)
    {mesh : Mesh P R} (nodeMap : NodeMap) (hfit : mesh.boundaryCount < 2 ^ w)
    (hvalid : ∀ b ∈ mesh.boundaryVector_, ∀ p ∈ b.nodes, p < mesh.nodeCount) :
    ∀ (l : List Nat) (this : Mesh P R), (∀ i ∈ l, i < mesh.boundaryCount) →
      ∃ bv : List Boundary,
        copyMarkedBoundaries w cbc findCommonCell mesh nodeMap l this =
          .ok { this with boundaryVector_ := bv } := by
  intro l
  induction l with
  | nil => intro this _; exact ⟨this.boundaryVector_, rfl⟩
  | cons i l ih =>
    intro this hl
    obtain ⟨b, hb, hbound⟩ := boundary_of_lt (hl i (List.mem_cons_self _ _)) hfit
    have hl2 : ∀ k ∈ l, k < mesh.boundaryCount := fun k hk => hl k (List.mem_cons_of_mem _ hk)
    obtain ⟨r, hr⟩ := insideNodes_returns mesh nodeMap b.nodes (hvalid b (List.getElem?_mem hb))
    simp only [copyMarkedBoundaries, hbound, hr]
    split
    · cases r with
      | none => exact ih this hl2
      | some nodes =>
        simp only
        split
        · obtain ⟨bv1, h1⟩ := createBoundary_onlyBoundaries hcbc this nodes b.marker
          obtain ⟨bv2, h2⟩ := ih (createBoundary cbc this nodes b.marker).2 hl2
          refine ⟨bv2, ?_⟩
          rw [h2, h1]
        · exact ih this hl2
    · exact ih this hl2


theorem neighbourInfosFacet_core {ops : EntityOps P R} {cbc : BoundaryCreator P R}
    (hcbc : OnlyBoundaries cbc) {ci j : Nat} {m m1 : Mesh P R}
    (h : neighbourInfosFacet ops cbc ci j m = .ok m1) :
    m1.dimension_ = m.dimension_ ∧ m1.nodeVector_ = m.nodeVector_ ∧
    m1.cellVector_.map cellCore = m.cellVector_.map cellCore := by
  rcases neighbourInfosFacet_ok h with ⟨-, rfl⟩ | ⟨a, ha, -, rfl⟩
  · exact ⟨rfl, rfl, rfl⟩
  · obtain ⟨c, bound, isLeft, hc, -, hcb, -, -, -⟩ := assignFacet_spec ha
    obtain ⟨bv, hbv⟩ := createBoundary_onlyBoundaries hcbc
      { m with cellVector_ :=
          m.cellVector_.set ci (c.setNeighbourCell j (ops.findNeighbourCell m ci j)) }
      (ops.boundaryNodes c.shape c.nodes j) 0
    rw [hcb] at hbv
    have hbv2 : a.mesh = _ := hbv
    rw [hbv2]
    exact ⟨rfl, rfl, map_set_of_eq cellCore hc rfl⟩

theorem neighbourInfosFacets_core {ops : EntityOps P R} {cbc : BoundaryCreator P R}
    (hcbc : OnlyBoundaries cbc) {ci : Nat} : ∀ (l : List Nat) (m m1 : Mesh P R),
    neighbourInfosFacets ops cbc ci l m = .ok m1 →
    m1.dimension_ = m.dimension_ ∧ m1.nodeVector_ = m.nodeVector_ ∧
    m1.cellVector_.map cellCore = m.cellVector_.map cellCore := by
  intro l
  induction l with
  | nil => intro m m1 h; cases h; exact ⟨rfl, rfl, rfl⟩
  | cons j l ih =>
    intro m m1 h
    simp only [neighbourInfosFacets] at h
    cases hstep : neighbourInfosFacet ops cbc ci j m with
    | error e => rw [hstep] at h; cases h
    | ok m2 =>
      rw [hstep] at h
      obtain ⟨a1, a2, a3⟩ := neighbourInfosFacet_core hcbc hstep
      obtain ⟨b1, b2, b3⟩ := ih m2 m1 h
      exact ⟨b1.trans a1, b2.trans a2, b3.trans a3⟩

theorem neighbourInfosCells_core {ops : EntityOps P R} {cbc : BoundaryCreator P R}
    (hcbc : OnlyBoundaries cbc) : ∀ (l : List Nat) (m m1 : Mesh P R),
    neighbourInfosCells ops cbc l m = .ok m1 →
    m1.dimension_ = m.dimension_ ∧ m1.nodeVector_ = m.nodeVector_ ∧
    m1.cellVector_.map cellCore = m.cellVector_.map cellCore := by
  intro l
  induction l with
  | nil => intro m m1 h; cases h; exact ⟨rfl, rfl, rfl⟩
  | cons i l ih =>
    intro m m1 h
    simp only [neighbourInfosCells] at h
    cases hstep : createNeighbourInfosCell_ ops cbc i m with
    | error e => rw [hstep] at h; cases h
    | ok m2 =>
      rw [hstep] at h
      have hcell : m2.dimension_ = m.dimension_ ∧ m2.nodeVector_ = m.nodeVector_ ∧
          m2.cellVector_.map cellCore = m.cellVector_.map cellCore := by
        unfold createNeighbourInfosCell_ at hstep
        split at hstep
        · cases hstep
        · exact neighbourInfosFacets_core hcbc _ m m2 hstep
      obtain ⟨a1, a2, a3⟩ := hcell
      obtain ⟨b1, b2, b3⟩ := ih m2 m1 h
      exact ⟨b1.trans a1, b2.trans a2, b3.trans a3⟩

theorem createNeighbourInfos_core {ops : EntityOps P R} {cbc : BoundaryCreator P R}
    (hcbc : OnlyBoundaries cbc) {m r : Mesh P R} {force : Bool}
    (h : createNeighbourInfos ops cbc m force = .ok r) :
    r.dimension_ = m.dimension_ ∧ r.nodeVector_ = m.nodeVector_ ∧
    r.cellVector_.map cellCore = m.cellVector_.map cellCore := by
  unfold createNeighbourInfos at h
  split at h
  · split at h
    · cases h
    · rename_i m1 hm1
      cases h
      obtain ⟨a1, a2, a3⟩ := neighbourInfosCells_core hcbc _ _ m1 hm1
      refine ⟨a1, a2, ?_⟩
      show m1.cellVector_.map cellCore = _
      rw [a3]
      unfold Mesh.cleanNeighbourInfos
      simp only [List.map_map]
      rfl
  · cases h
    exact ⟨rfl, rfl, rfl⟩

theorem listedCells_of_core {mesh mid r : Mesh P R} {L : List Nat} (h : ListedCells mesh L mid)
    (hdim : r.dimension_ = mid.dimension_) (hnodes : r.nodeVector_ = mid.nodeVector_)
    (hcells : r.cellVector_.map cellCore = mid.cellVector_.map cellCore) :
    ListedCells mesh L r := by
  obtain ⟨h1, h2, h3, h4, h5⟩ := h
  have hlen : r.cellVector_.length = mid.cellVector_.length := by
    have := congrArg List.length hcells
    simpa using this
  refine ⟨hdim.trans h1, ?_, ?_, ?_, ?_⟩
  · exact hlen.trans h2
  · unfold nodeCount
    rw [hnodes]
    exact h3
  · rw [hnodes]
    exact h4
  · intro k i hk
    obtain ⟨c, c1, e1, e2, e3, e4, e5, e6, e7⟩ := h5 k i hk
    have hk1 : k < mid.cellVector_.length := (List.getElem?_eq_some.mp e2).1
    have hk2 : k < r.cellVector_.length := by omega
    have hcore : cellCore (r.cellVector_[k]) = cellCore c1 := by
      have h6 : (r.cellVector_.map cellCore)[k]? = (mid.cellVector_.map cellCore)[k]? := by
        rw [hcells]
      rw [List.getElem?_map, List.getElem?_map, e2, List.getElem?_eq_getElem hk2] at h6
      simpa using h6
    simp only [cellCore, Prod.mk.injEq] at hcore
    obtain ⟨s1, s2, s3, s4, -⟩ := hcore
    refine ⟨c, r.cellVector_[k], e1, List.getElem?_eq_getElem hk2, ?_, ?_, ?_, ?_, ?_⟩
    · rw [s3]; exact e3
    · rw [s4]; exact e4
    · rw [s1]; exact e5
    · rw [s2]; exact e6
    · rw [s2]; exact e7

theorem copyByCellIdx_spec [Inhabited R] (w : Nat) (cbc : BoundaryCreator P R)
    (findCommonCell : Mesh P R → List Nat → Bool) (this mesh : Mesh P R) (L : List Nat)
    (hcbc : OnlyBoundaries cbc) (hids : IdsAreIndices mesh) (hfitC : mesh.cellCount < 2 ^ w)
    (hfitB : mesh.boundaryCount < 2 ^ w)
    (hL : ∀ k ∈ L, k < mesh.cellCount ∧ (∀ p ∈ cellNodes mesh k, p < mesh.nodeCount) ∧
      (cellTable (cellNodes mesh k).length mesh.dimension_).isSome = true)
    (hB : ∀ b ∈ mesh.boundaryVector_, ∀ p ∈ b.nodes, p < mesh.nodeCount) :
    ∃ mid, copyByCellIdx w cbc findCommonCell this mesh (L.map (fun k : Nat => (k : Int))) =
        .ok mid ∧ mid.neighboursKnown_ = false ∧ ListedCells mesh L mid := by
  generalize hthis : Mesh.clear this = this0
  have hcl : this0.cellVector_ = [] ∧ this0.nodeVector_ = [] ∧ this0.neighboursKnown_ = false := by
    rw [← hthis]
    exact ⟨rfl, rfl, rfl⟩
  obtain ⟨this1, nodeMap, h1, h2, h3⟩ := copyNodesOfCells_spec hids hfitC L
    { this0 with dimension_ := mesh.dimension_ } [] [] (copiesNodes_nil mesh _ hcl.2.1)
    (fun k hk => ⟨(hL k hk).1, (hL k hk).2.1⟩)
  have hmem : ∀ k ∈ L, ∀ p ∈ cellNodes mesh k,
      p ∈ firstAppearancesFrom [] (L.flatMap (cellNodes mesh)) := by
    intro k hk p hp
    rw [mem_firstAppearancesFrom]
    exact Or.inr (List.mem_flatMap.mpr ⟨k, hk, hp⟩)
  obtain ⟨cells, g1, g2, g3⟩ := copyCells_spec hids hfitC h2 L this1 (by rw [h3])
    (fun k hk => ⟨(hL k hk).1, fun p hp => ⟨(hL k hk).2.1 p hp, hmem k hk p hp⟩, (hL k hk).2.2⟩)
  obtain ⟨bv, hbv⟩ := copyMarkedBoundaries_spec hcbc findCommonCell nodeMap hfitB hB
    (List.range mesh.boundaryCount) { this1 with cellVector_ := this1.cellVector_ ++ cells }
    (fun i hi => List.mem_range.mp hi)
  have hc1 : this1.cellVector_ = [] := by rw [h3]; exact hcl.1
  have hcount : this1.cellCount = 0 := by
    unfold cellCount
    rw [hc1]
    rfl
  have hrun : copyByCellIdx w cbc findCommonCell this mesh (L.map (fun k : Nat => (k : Int))) =
      .ok { ({ this1 with cellVector_ := this1.cellVector_ ++ cells } : Mesh P R) with boundaryVector_ := bv } := by
    unfold copyByCellIdx
    simp only [hthis]
    rw [h1]
    simp only
    rw [g1]
    simp only
    exact hbv
  refine ⟨_, hrun, ?_, ?_⟩
  · show this1.neighboursKnown_ = false
    rw [h3]
    exact hcl.2.2
  · refine ⟨?_, ?_, ?_, ?_, ?_⟩
    · show this1.dimension_ = mesh.dimension_
      rw [h3]
    · show (this1.cellVector_ ++ cells).length = L.length
      rw [hc1]
      simpa using g2
    · exact h2.1
    · exact h2.2.2.1
    · intro k i hk
      obtain ⟨c, c1, e1, e2, e3, e4, e5, e6, e7⟩ := g3 k i hk
      refine ⟨c, c1, e1, ?_, e3, ?_, e4, e6, e7⟩
      · show (this1.cellVector_ ++ cells)[k]? = some c1
        rw [hc1]
        exact e2
      · rw [e5, hcount, Nat.zero_add]

/-- Counterexample to C27: the source mesh of dimension 3 with one triangle, and
the list of the one valid cell index 0. Three nodes have no cell class in
dimension 3, so `createCell` returns the null pointer and the mesh that is built
has the three nodes and no cell. -/
theorem unclassified_cell_is_not_extracted :
    triangleInSpace.cellCount = 1 ∧
    ((createMeshByCellIdx 32 edgeOps findOrCreateBoundary anyCommonCell emptyMesh
      triangleInSpace [0]).toOption.map (fun r => (r.nodeCount, r.cellCount))) = some (3, 0) := by
  decide

theorem onlyBoundaries_findOrCreateBoundary :
    OnlyBoundaries (findOrCreateBoundary : BoundaryCreator P R) := by
  intro shape m nodes marker
  unfold findOrCreateBoundary
  split
  · exact ⟨m.boundaryVector_, rfl⟩
  · exact ⟨_, rfl⟩

theorem idsAreIndices_markedLine : IdsAreIndices markedLine := by
  intro i n h
  match i with
  | 0 => simp [markedLine, lineMesh] at h; subst h; rfl
  | 1 => simp [markedLine, lineMesh] at h; subst h; rfl
  | 2 => simp [markedLine, lineMesh] at h; subst h; rfl
  | k + 3 => simp [markedLine, lineMesh] at h

/-- C27, amended: for a source mesh whose node ids are their indices, whose
counts fit the counters and whose boundaries are over nodes of the mesh, for a
list `L` of valid cell indices whose cells are over nodes of the mesh and have a
class in the table of `createCell` for the dimension of the source, and for a
boundary creator that changes nothing but the boundaries: the three loops of
`createMeshByCellIdx` return a mesh `mid` of the dimension of the source with
`|L|` cells, cell `k` with id `k`, the marker and the node count of source cell
`L[k]` and the copies of its nodes in the same order, and with one copy
(position and marker) of each node of the listed cells, numbered 0, 1, 2, ... in
the order of first appearance; `createMeshByCellIdx` is the adjacency derivation
on `mid`, and the mesh it returns, if it returns, has the same nodes and cells
and `neighboursKnown_` set. -/
theorem createMeshByCellIdx_copies_listed_cells [Inhabited R] (w : Nat) (ops : EntityOps P R)
    (cbc : BoundaryCreator P R) (findCommonCell : Mesh P R → List Nat → Bool)
    (this mesh : Mesh P R) (L : List Nat)
    (hcbc : OnlyBoundaries cbc) (hids : IdsAreIndices mesh) (hfitC : mesh.cellCount < 2 ^ w)
    (hfitB : mesh.boundaryCount < 2 ^ w)
    (hL : ∀ k ∈ L, k < mesh.cellCount ∧ (∀ p ∈ cellNodes mesh k, p < mesh.nodeCount) ∧
      (cellTable (cellNodes mesh k).length mesh.dimension_).isSome = true)
    (hB : ∀ b ∈ mesh.boundaryVector_, ∀ p ∈ b.nodes, p < mesh.nodeCount) :
    (firstAppearances (L.flatMap (cellNodes mesh))).Nodup ∧
    (∀ p, p ∈ firstAppearances (L.flatMap (cellNodes mesh)) ↔ p ∈ L.flatMap (cellNodes mesh)) ∧
    ∃ mid, copyByCellIdx w cbc findCommonCell this mesh (L.map (fun k : Nat => (k : Int))) =
        .ok mid ∧ mid.neighboursKnown_ = false ∧ ListedCells mesh L mid ∧
      createMeshByCellIdx w ops cbc findCommonCell this mesh (L.map (fun k : Nat => (k : Int))) =
        createNeighbourInfos ops cbc mid false ∧
      ∀ r, createMeshByCellIdx w ops cbc findCommonCell this mesh
          (L.map (fun k : Nat => (k : Int))) = .ok r →
        ListedCells mesh L r ∧ r.neighboursKnown_ = true := by
  obtain ⟨mid, h1, h2, h3⟩ := copyByCellIdx_spec w cbc findCommonCell this mesh L hcbc hids hfitC
    hfitB hL hB
  have heq : createMeshByCellIdx w ops cbc findCommonCell this mesh
      (L.map (fun k : Nat => (k : Int))) = createNeighbourInfos ops cbc mid false := by
    unfold createMeshByCellIdx
    rw [h1]
  refine ⟨firstAppearancesFrom_nodup _ [] List.nodup_nil, fun p => ?_, mid, h1, h2, h3, heq,
    fun r hr => ?_⟩
  · unfold firstAppearances
    rw [mem_firstAppearancesFrom]
    simp
  · rw [heq] at hr
    obtain ⟨a1, a2, a3⟩ := createNeighbourInfos_core hcbc hr
    exact ⟨listedCells_of_core h3 a1 a2 a3, neighboursKnown_of_createNeighbourInfos ops cbc mid false r hr⟩

/-- Witness of C27, amended: the cells 1 and 0 of `markedLine`, in this order.
The nodes 1, 2, 0 of the source become the nodes 0, 1, 2. -/
theorem createMeshByCellIdx_copies_listed_cells_witness :
    OnlyBoundaries (findOrCreateBoundary : BoundaryCreator Int Int) ∧
    IdsAreIndices markedLine ∧
    firstAppearances ([1, 0].flatMap (cellNodes markedLine)) = [1, 2, 0] ∧
    ((createMeshByCellIdx 32 edgeOps findOrCreateBoundary anyCommonCell emptyMesh markedLine
      [1, 0]).toOption.map
        (fun r => (r.nodeVector_.map (fun n => n.pos), r.cellVector_.map (fun c => (c.nodes, c.marker)),
          r.boundaryVector_.map (fun b => (b.nodes, b.marker))))) =
      some ([1, 2, 0], [([0, 1], -2), ([2, 0], 5)], [([1], 3), ([0], 0), ([2], 0)]) ∧
    ∃ mid, copyByCellIdx 32 findOrCreateBoundary anyCommonCell emptyMesh markedLine
        ([1, 0].map (fun k : Nat => (k : Int))) = .ok mid ∧ mid.neighboursKnown_ = false ∧
      ListedCells markedLine [1, 0] mid :=
  ⟨onlyBoundaries_findOrCreateBoundary, idsAreIndices_markedLine, by decide, by decide,
   (createMeshByCellIdx_copies_listed_cells 32 edgeOps findOrCreateBoundary anyCommonCell
      emptyMesh markedLine [1, 0] onlyBoundaries_findOrCreateBoundary idsAreIndices_markedLine
      (by decide) (by decide) (by decide) (by decide)).2.2.imp
    (fun _ h => ⟨h.1, h.2.1, h.2.2.1⟩)⟩

/-! ## Copy of a mesh -/

theorem copyAllNodes_spec {w : Nat} {mesh : Mesh P R} (hids : IdsAreIndices mesh)
    (hfit : mesh.nodeCount < 2 ^ w) :
    ∀ (rest pre : List (Node P)) (this : Mesh P R), mesh.nodeVector_ = pre ++ rest →
      this.nodeVector_ = pre →
      copyAllNodes w mesh (List.range' pre.length rest.length) this =
        .ok { this with nodeVector_ := mesh.nodeVector_ } := by
  intro rest
  induction rest with
  | nil =>
    intro pre this hm ht
    rw [List.append_nil] at hm
    simp only [List.length_nil, List.range'_zero, copyAllNodes]
    rw [hm, ← ht]
  | cons n rest ih =>
    intro pre this hm ht
    have hlen : mesh.nodeCount = pre.length + (rest.length + 1) := by
      unfold nodeCount
      rw [hm]
      simp
    obtain ⟨n1, hn1, hnode⟩ := node_of_lt (w := w) (m := mesh) (i := pre.length) (by omega) hfit
    have hn : mesh.nodeVector_[pre.length]? = some n := by
      rw [hm, List.getElem?_append_right (Nat.le_refl _)]
      simp
    rw [hn] at hn1
    cases hn1
    have hid := hids pre.length n hn
    have hcreate : (createNode this n.pos n.marker).2 =
        { this with nodeVector_ := pre ++ [n] } := by
      rw [createNode_eq]
      simp only [nodeCount, ht, ← hid]
    simp only [List.length_cons, List.range'_succ, copyAllNodes, hnode, hcreate]
    have h := ih (pre ++ [n]) { this with nodeVector_ := pre ++ [n] }
      (by rw [hm]; simp) rfl
    simp only [List.length_append, List.length_singleton] at h
    rw [h]


theorem copiesOfNodes_spec {w : Nat} {this mesh : Mesh P R} (hids : IdsAreIndices mesh)
    (hthis : this.nodeVector_ = mesh.nodeVector_) (hfit : mesh.nodeCount < 2 ^ w) :
    ∀ (rest pre : List Nat), (∀ p ∈ rest, p < mesh.nodeCount) →
      copiesOfNodes w this mesh (pre ++ rest) (List.range' pre.length rest.length) = .ok rest := by
  intro rest
  induction rest with
  | nil => intro pre _; rfl
  | cons p rest ih =>
    intro pre hl
    have hcount : this.nodeCount = mesh.nodeCount := by
      unfold nodeCount
      rw [hthis]
    have hk : (pre ++ p :: rest)[pre.length]? = some p := by
      rw [List.getElem?_append_right (Nat.le_refl _)]
      simp
    have hcopy : copyOfNode w this mesh (pre ++ p :: rest) pre.length = .ok p :=
      copyOfNode_of_lt hids hk (hl p (List.mem_cons_self _ _)) (by omega) (by omega)
    have h := ih (pre ++ [p]) (fun q hq => hl q (List.mem_cons_of_mem _ hq))
    simp only [List.append_assoc, List.singleton_append, List.length_append,
      List.length_singleton] at h
    simp only [List.length_cons, List.range'_succ, copiesOfNodes, hcopy, h]

theorem copiesOfNodes_all {w : Nat} {this mesh : Mesh P R} (hids : IdsAreIndices mesh)
    (hthis : this.nodeVector_ = mesh.nodeVector_) (hfit : mesh.nodeCount < 2 ^ w)
    (nodes : List Nat) (hl : ∀ p ∈ nodes, p < mesh.nodeCount) :
    copiesOfNodes w this mesh nodes (List.range nodes.length) = .ok nodes := by
  have h := copiesOfNodes_spec (w := w) hids hthis hfit nodes [] hl
  rw [List.range_eq_range']
  simpa using h

theorem createBoundary_of_table (cbc : BoundaryCreator P R) (m : Mesh P R) (nodes : List Nat)
    (marker : Int) (shape : BoundaryShape)
    (h : boundaryTable nodes.length m.dimension_ = some shape) :
    createBoundary cbc m nodes marker = cbc shape m nodes marker := by
  unfold createBoundary
  unfold boundaryTable at h
  split <;> (try split) <;> simp_all

theorem findsOrCreates_pushes {cbc : BoundaryCreator P R} (hcbc : FindsOrCreates cbc)
    (shape : BoundaryShape) (m : Mesh P R) (nodes : List Nat) (marker : Int)
    (habs : ∀ b ∈ m.boundaryVector_, samePoints b.nodes nodes = false) :
    cbc shape m nodes marker = createBoundary_ shape m nodes marker m.boundaryCount := by
  rcases hcbc shape m nodes marker with ⟨i, b, -, hb, hsame⟩ | h
  · rw [habs b (List.getElem?_mem hb)] at hsame
    cases hsame
  · exact h

theorem findsOrCreates_appends {cbc : BoundaryCreator P R} (hcbc : FindsOrCreates cbc)
    (shape : BoundaryShape) (m : Mesh P R) (nodes : List Nat) (marker : Int) :
    ∃ ext : List Boundary,
      (cbc shape m nodes marker).2 = { m with boundaryVector_ := m.boundaryVector_ ++ ext } := by
  rcases hcbc shape m nodes marker with ⟨i, b, h, -, -⟩ | h
  · rw [h]
    exact ⟨[], by simp⟩
  · rw [h]
    exact ⟨_, rfl⟩

theorem onlyBoundaries_of_findsOrCreates {cbc : BoundaryCreator P R} (hcbc : FindsOrCreates cbc) :
    OnlyBoundaries cbc := by
  intro shape m nodes marker
  obtain ⟨ext, h⟩ := findsOrCreates_appends hcbc shape m nodes marker
  exact ⟨_, h⟩

theorem findsOrCreates_findOrCreateBoundary :
    FindsOrCreates (findOrCreateBoundary : BoundaryCreator P R) := by
  intro shape m nodes marker
  unfold findOrCreateBoundary
  split
  · rename_i i hi
    rw [List.findIdx?_eq_some_iff_getElem] at hi
    obtain ⟨hlt, hp, -⟩ := hi
    exact Or.inl ⟨i, m.boundaryVector_[i], rfl, List.getElem?_eq_getElem hlt, hp⟩
  · exact Or.inr rfl

theorem copyAllBoundaries_spec {w : Nat} {cbc : BoundaryCreator P R} (hcbc : FindsOrCreates cbc)
    {mesh : Mesh P R} (hids : IdsAreIndices mesh) (hfitN : mesh.nodeCount < 2 ^ w)
    (hfitB : mesh.boundaryCount < 2 ^ w)
    (hvalid : ∀ b ∈ mesh.boundaryVector_, (∀ p ∈ b.nodes, p < mesh.nodeCount) ∧
      (boundaryTable b.nodes.length mesh.dimension_).isSome = true)
    (hdist : mesh.boundaryVector_.Pairwise (fun a b => samePoints a.nodes b.nodes = false)) :
    ∀ (rest pre : List Boundary) (this : Mesh P R), mesh.boundaryVector_ = pre ++ rest →
      this.nodeVector_ = mesh.nodeVector_ → this.dimension_ = mesh.dimension_ →
      this.boundaryVector_.map (fun b => (b.nodes, b.marker)) =
        pre.map (fun b => (b.nodes, b.marker)) →
      ∃ bv : List Boundary,
        copyAllBoundaries w cbc mesh (List.range' pre.length rest.length) this =
          .ok { this with boundaryVector_ := bv } ∧
        bv.map (fun b => (b.nodes, b.marker)) =
          mesh.boundaryVector_.map (fun b => (b.nodes, b.marker)) := by
  intro rest
  induction rest with
  | nil =>
    intro pre this hm _ _ hbv
    rw [List.append_nil] at hm
    refine ⟨this.boundaryVector_, rfl, ?_⟩
    rw [hbv, hm]
  | cons b rest ih =>
    intro pre this hm hnodes hdim hbv
    have hlen : mesh.boundaryCount = pre.length + (rest.length + 1) := by
      unfold boundaryCount
      rw [hm]
      simp
    obtain ⟨b1, hb1, hbound⟩ := boundary_of_lt (w := w) (m := mesh) (i := pre.length)
      (by omega) hfitB
    have hb : mesh.boundaryVector_[pre.length]? = some b := by
      rw [hm, List.getElem?_append_right (Nat.le_refl _)]
      simp
    rw [hb] at hb1
    cases hb1
    obtain ⟨hbn, htab⟩ := hvalid b (List.getElem?_mem hb)
    obtain ⟨shape, hshape⟩ := Option.isSome_iff_exists.mp htab
    have hcopies := copiesOfNodes_all (w := w) hids hnodes hfitN b.nodes hbn
    have habs : ∀ a ∈ this.boundaryVector_, samePoints a.nodes b.nodes = false := by
      intro a ha
      have h1 : (a.nodes, a.marker) ∈ this.boundaryVector_.map (fun b => (b.nodes, b.marker)) :=
        List.mem_map.mpr ⟨a, ha, rfl⟩
      rw [hbv, List.mem_map] at h1
      obtain ⟨a0, ha0, heq⟩ := h1
      simp only [Prod.mk.injEq] at heq
      rw [hm, List.pairwise_append] at hdist
      rw [← heq.1]
      exact hdist.2.2 a0 ha0 b (List.mem_cons_self _ _)
    have hcreate : createBoundary cbc this b.nodes b.marker =
        createBoundary_ shape this b.nodes b.marker this.boundaryCount := by
      rw [createBoundary_of_table cbc this b.nodes b.marker shape (by rw [hdim]; exact hshape)]
      exact findsOrCreates_pushes hcbc shape this b.nodes b.marker habs
    obtain ⟨bv, h1, h2⟩ := ih (pre ++ [b])
      (createBoundary_ shape this b.nodes b.marker this.boundaryCount).2
      (by rw [hm]; simp) hnodes hdim
      (by
        show (this.boundaryVector_ ++ _).map _ = _
        rw [List.map_append, List.map_append, hbv]
        rfl)
    refine ⟨bv, ?_, h2⟩
    simp only [List.length_cons, List.range'_succ, copyAllBoundaries, hbound, createBoundaryCopy,
      hcopies, hcreate]
    simp only [List.length_append, List.length_singleton] at h1
    rw [h1]
    rfl

theorem copyAllCells_spec [Inhabited R] {w : Nat} {mesh : Mesh P R} (hids : IdsAreIndices mesh)
    (hfitN : mesh.nodeCount < 2 ^ w) (hfitC : mesh.cellCount < 2 ^ w)
    (hvalid : ∀ c ∈ mesh.cellVector_, (∀ p ∈ c.nodes, p < mesh.nodeCount) ∧
      (cellTable c.nodes.length mesh.dimension_).isSome = true) :
    ∀ (rest pre : List (Cell R)) (this : Mesh P R), mesh.cellVector_ = pre ++ rest →
      this.nodeVector_ = mesh.nodeVector_ → this.dimension_ = mesh.dimension_ →
      this.cellVector_.map (fun c => (c.nodes, c.marker)) =
        pre.map (fun c => (c.nodes, c.marker)) →
      (∀ (i : Nat) (c : Cell R), this.cellVector_[i]? = some c →
        c.id = (i : Int) ∧ cellTable c.nodes.length mesh.dimension_ = some c.shape) →
      ∃ cv : List (Cell R),
        copyAllCells w mesh (List.range' pre.length rest.length) this =
          .ok { this with cellVector_ := cv } ∧
        cv.map (fun c => (c.nodes, c.marker)) =
          mesh.cellVector_.map (fun c => (c.nodes, c.marker)) ∧
        (∀ (i : Nat) (c : Cell R), cv[i]? = some c →
          c.id = (i : Int) ∧ cellTable c.nodes.length mesh.dimension_ = some c.shape) := by
  intro rest
  induction rest with
  | nil =>
    intro pre this hm _ _ hcv hid
    rw [List.append_nil] at hm
    refine ⟨this.cellVector_, rfl, ?_, hid⟩
    rw [hcv, hm]
  | cons c rest ih =>
    intro pre this hm hnodes hdim hcv hid
    have hlen : mesh.cellCount = pre.length + (rest.length + 1) := by
      unfold cellCount
      rw [hm]
      simp
    obtain ⟨c1, hc1, hcell⟩ := cell_of_lt (w := w) (m := mesh) (i := pre.length) (by omega) hfitC
    have hc : mesh.cellVector_[pre.length]? = some c := by
      rw [hm, List.getElem?_append_right (Nat.le_refl _)]
      simp
    rw [hc] at hc1
    cases hc1
    obtain ⟨hcn, htab⟩ := hvalid c (List.getElem?_mem hc)
    obtain ⟨shape, hshape⟩ := Option.isSome_iff_exists.mp htab
    have hcopies := copiesOfNodes_all (w := w) hids hnodes hfitN c.nodes hcn
    have hcreate := createCell_of_table this c.nodes c.marker shape (by rw [hdim]; exact hshape)
    have hcount : this.cellVector_.length = pre.length := by
      have := congrArg List.length hcv
      simpa using this
    obtain ⟨cv, h1, h2, h3⟩ := ih (pre ++ [c]) (createCell this c.nodes c.marker).2
      (by rw [hm]; simp) (by rw [hcreate]; exact hnodes) (by rw [hcreate]; exact hdim)
      (by
        rw [hcreate]
        show (this.cellVector_ ++ _).map _ = _
        rw [List.map_append, List.map_append, hcv]
        rfl)
      (by
        rw [hcreate]
        intro i c0 hi
        have hi2 : (this.cellVector_ ++
            [(⟨shape, c.nodes, c.marker, (this.cellCount : Int), default, [], false⟩ : Cell R)])[i]? =
              some c0 := hi
        by_cases hlt : i < this.cellVector_.length
        · rw [List.getElem?_append_left hlt] at hi2
          exact hid i c0 hi2
        · have hge : this.cellVector_.length ≤ i := by omega
          rw [List.getElem?_append_right hge] at hi2
          cases hd : i - this.cellVector_.length with
          | zero =>
            rw [hd] at hi2
            simp only [List.getElem?_cons_zero, Option.some.injEq] at hi2
            subst hi2
            have hi3 : i = this.cellVector_.length := by omega
            refine ⟨?_, hshape⟩
            show ((this.cellCount : Nat) : Int) = (i : Int)
            rw [hi3]
            rfl
          | succ d =>
            rw [hd] at hi2
            simp at hi2)
    refine ⟨cv, ?_, h2, h3⟩
    simp only [List.length_cons, List.range'_succ, copyAllCells, hcell, createCellCopy, hcopies]
    simp only [List.length_append, List.length_singleton] at h1
    rw [h1, hcreate]


theorem map_pair_eq {α β γ : Type} (f : α → β) (g : α → γ) : ∀ (l l2 : List α),
    l.map f = l2.map f → l.map g = l2.map g →
    l.map (fun x => (f x, g x)) = l2.map (fun x => (f x, g x)) := by
  intro l
  induction l with
  | nil =>
    intro l2 h1 _
    cases l2 with
    | nil => rfl
    | cons b l2 => simp at h1
  | cons a l ih =>
    intro l2 h1 h2
    cases l2 with
    | nil => simp at h1
    | cons b l2 =>
      simp only [List.map_cons, List.cons.injEq] at h1 h2 ⊢
      exact ⟨by rw [h1.1, h2.1], ih l2 h1.2 h2.2⟩

theorem getElem?_of_map_eq {α β : Type} (f : α → β) {l l2 : List α} (h : l.map f = l2.map f)
    {i : Nat} {a : α} (ha : l[i]? = some a) : ∃ b, l2[i]? = some b ∧ f b = f a := by
  have h1 : (l.map f)[i]? = (l2.map f)[i]? := by rw [h]
  rw [List.getElem?_map, List.getElem?_map, ha] at h1
  cases hb : l2[i]? with
  | none => rw [hb] at h1; cases h1
  | some b =>
    rw [hb] at h1
    simp only [Option.map_some', Option.some.injEq] at h1
    exact ⟨b, rfl, h1.symm⟩

theorem assignSides_marker (c : Nat) (nb : Option Nat) (isLeft : Bool) (bound : Boundary) :
    (assignSides c nb isLeft bound).1.marker = bound.marker := by
  unfold assignSides
  dsimp only
  split_ifs <;> rfl

theorem createBoundary_appends {cbc : BoundaryCreator P R} (hcbc : FindsOrCreates cbc)
    (m : Mesh P R) (ns : List Nat) (marker : Int) :
    ∃ ext : List Boundary,
      (createBoundary cbc m ns marker).2 =
        { m with boundaryVector_ := m.boundaryVector_ ++ ext } := by
  unfold createBoundary
  split <;> (try split) <;>
    first
    | exact findsOrCreates_appends hcbc _ _ _ _
    | exact ⟨[], by simp⟩

theorem neighbourInfosFacet_boundaryData {ops : EntityOps P R} {cbc : BoundaryCreator P R}
    (hcbc : FindsOrCreates cbc) {ci j : Nat} {m m1 : Mesh P R}
    (h : neighbourInfosFacet ops cbc ci j m = .ok m1) :
    ∃ ext, m1.boundaryVector_.map (fun b => (b.nodes, b.marker)) =
      m.boundaryVector_.map (fun b => (b.nodes, b.marker)) ++ ext := by
  rcases neighbourInfosFacet_ok h with ⟨-, rfl⟩ | ⟨a, ha, -, rfl⟩
  · exact ⟨[], by simp⟩
  · obtain ⟨c, bound, isLeft, hc, -, hcb, hbound, hafter, -⟩ := assignFacet_spec ha
    obtain ⟨ext, hext⟩ := createBoundary_appends hcbc
      { m with cellVector_ :=
          m.cellVector_.set ci (c.setNeighbourCell j (ops.findNeighbourCell m ci j)) }
      (ops.boundaryNodes c.shape c.nodes j) 0
    rw [hcb] at hext
    have hbv : a.mesh.boundaryVector_ = m.boundaryVector_ ++ ext := by
      have h2 : a.mesh = _ := hext
      rw [h2]
    refine ⟨ext.map (fun b => (b.nodes, b.marker)), ?_⟩
    show (a.mesh.boundaryVector_.set a.bound a.after).map _ = _
    rw [map_set_of_eq (fun b : Boundary => (b.nodes, b.marker)) hbound
      (by
        show (a.after.nodes, a.after.marker) = (bound.nodes, bound.marker)
        rw [hafter, assignSides_nodes, assignSides_marker]), hbv, List.map_append]

theorem neighbourInfosFacets_boundaryData {ops : EntityOps P R} {cbc : BoundaryCreator P R}
    (hcbc : FindsOrCreates cbc) {ci : Nat} : ∀ (l : List Nat) (m m1 : Mesh P R),
    neighbourInfosFacets ops cbc ci l m = .ok m1 →
    ∃ ext, m1.boundaryVector_.map (fun b => (b.nodes, b.marker)) =
      m.boundaryVector_.map (fun b => (b.nodes, b.marker)) ++ ext := by
  intro l
  induction l with
  | nil => intro m m1 h; cases h; exact ⟨[], by simp⟩
  | cons j l ih =>
    intro m m1 h
    simp only [neighbourInfosFacets] at h
    cases hstep : neighbourInfosFacet ops cbc ci j m with
    | error e => rw [hstep] at h; cases h
    | ok m2 =>
      rw [hstep] at h
      obtain ⟨e1, h1⟩ := neighbourInfosFacet_boundaryData hcbc hstep
      obtain ⟨e2, h2⟩ := ih m2 m1 h
      exact ⟨e1 ++ e2, by rw [h2, h1, List.append_assoc]⟩

theorem neighbourInfosCells_boundaryData {ops : EntityOps P R} {cbc : BoundaryCreator P R}
    (hcbc : FindsOrCreates cbc) : ∀ (l : List Nat) (m m1 : Mesh P R),
    neighbourInfosCells ops cbc l m = .ok m1 →
    ∃ ext, m1.boundaryVector_.map (fun b => (b.nodes, b.marker)) =
      m.boundaryVector_.map (fun b => (b.nodes, b.marker)) ++ ext := by
  intro l
  induction l with
  | nil => intro m m1 h; cases h; exact ⟨[], by simp⟩
  | cons i l ih =>
    intro m m1 h
    simp only [neighbourInfosCells] at h
    cases hstep : createNeighbourInfosCell_ ops cbc i m with
    | error e => rw [hstep] at h; cases h
    | ok m2 =>
      rw [hstep] at h
      have hcell : ∃ ext, m2.boundaryVector_.map (fun b => (b.nodes, b.marker)) =
          m.boundaryVector_.map (fun b => (b.nodes, b.marker)) ++ ext := by
        unfold createNeighbourInfosCell_ at hstep
        split at hstep
        · cases hstep
        · exact neighbourInfosFacets_boundaryData hcbc _ m m2 hstep
      obtain ⟨e1, h1⟩ := hcell
      obtain ⟨e2, h2⟩ := ih m2 m1 h
      exact ⟨e1 ++ e2, by rw [h2, h1, List.append_assoc]⟩

theorem createNeighbourInfos_boundaryData {ops : EntityOps P R} {cbc : BoundaryCreator P R}
    (hcbc : FindsOrCreates cbc) {m r : Mesh P R} {force : Bool}
    (h : createNeighbourInfos ops cbc m force = .ok r) :
    ∃ ext, r.boundaryVector_.map (fun b => (b.nodes, b.marker)) =
      m.boundaryVector_.map (fun b => (b.nodes, b.marker)) ++ ext := by
  unfold createNeighbourInfos at h
  split at h
  · split at h
    · cases h
    · rename_i m1 hm1
      cases h
      obtain ⟨ext, hext⟩ := neighbourInfosCells_boundaryData hcbc _ _ m1 hm1
      refine ⟨ext, ?_⟩
      show m1.boundaryVector_.map _ = _
      rw [hext]
      unfold Mesh.cleanNeighbourInfos
      simp only [List.map_map]
      rfl
  · cases h
    exact ⟨[], by simp⟩

theorem copyEntities_spec [Inhabited R] (w : Nat) (cbc : BoundaryCreator P R)
    (this mesh : Mesh P R) (hcbc : FindsOrCreates cbc) (hmesh : Copyable w mesh) :
    ∃ mid, copyEntities w cbc this mesh = .ok mid ∧ CopyOf mesh mid ∧
      mid.boundaryVector_.map (fun b => (b.nodes, b.marker)) =
        mesh.boundaryVector_.map (fun b => (b.nodes, b.marker)) ∧
      mid.neighboursKnown_ = false := by
  obtain ⟨hids, hfitN, hfitC, hfitB, hcells, hbounds, hdist⟩ := hmesh
  generalize hthis : Mesh.clear this = this0
  have hcl : this0.cellVector_ = [] ∧ this0.nodeVector_ = [] ∧ this0.boundaryVector_ = [] ∧
      this0.neighboursKnown_ = false := by
    rw [← hthis]
    exact ⟨rfl, rfl, rfl, rfl⟩
  generalize hinit : ({ this0 with rangesKnown_ := false, dimension_ := mesh.dimension_ } :
    Mesh P R) = init
  have hi : init.cellVector_ = [] ∧ init.nodeVector_ = [] ∧ init.boundaryVector_ = [] ∧
      init.neighboursKnown_ = false ∧ init.dimension_ = mesh.dimension_ := by
    rw [← hinit]
    exact ⟨hcl.1, hcl.2.1, hcl.2.2.1, hcl.2.2.2, rfl⟩
  have h1 := copyAllNodes_spec (w := w) hids hfitN mesh.nodeVector_ [] init rfl hi.2.1
  simp only [List.length_nil] at h1
  rw [← List.range_eq_range'] at h1
  generalize h1e : ({ init with nodeVector_ := mesh.nodeVector_ } : Mesh P R) = this1 at h1
  have hp1 : this1.cellVector_ = [] ∧ this1.nodeVector_ = mesh.nodeVector_ ∧
      this1.boundaryVector_ = [] ∧ this1.neighboursKnown_ = false ∧
      this1.dimension_ = mesh.dimension_ := by
    rw [← h1e]
    exact ⟨hi.1, rfl, hi.2.2.1, hi.2.2.2.1, hi.2.2.2.2⟩
  obtain ⟨bv, h2, hbv⟩ := copyAllBoundaries_spec (w := w) hcbc hids hfitN hfitB hbounds hdist
    mesh.boundaryVector_ [] this1 rfl hp1.2.1 hp1.2.2.2.2 (by rw [hp1.2.2.1])
  simp only [List.length_nil] at h2
  rw [← List.range_eq_range'] at h2
  generalize h2e : ({ this1 with boundaryVector_ := bv } : Mesh P R) = this2 at h2
  have hp2 : this2.cellVector_ = [] ∧ this2.nodeVector_ = mesh.nodeVector_ ∧
      this2.boundaryVector_ = bv ∧ this2.neighboursKnown_ = false ∧
      this2.dimension_ = mesh.dimension_ := by
    rw [← h2e]
    exact ⟨hp1.1, hp1.2.1, rfl, hp1.2.2.2.1, hp1.2.2.2.2⟩
  obtain ⟨cv, h3, hcv, hcid⟩ := copyAllCells_spec (w := w) hids hfitN hfitC hcells
    mesh.cellVector_ [] this2 rfl hp2.2.1 hp2.2.2.2.2 (by rw [hp2.1])
    (by
      intro i c hc
      rw [hp2.1] at hc
      simp at hc)
  simp only [List.length_nil] at h3
  rw [← List.range_eq_range'] at h3
  generalize h3e : ({ this2 with cellVector_ := cv } : Mesh P R) = this3 at h3
  have hp3 : this3.cellVector_ = cv ∧ this3.nodeVector_ = mesh.nodeVector_ ∧
      this3.boundaryVector_ = bv ∧ this3.neighboursKnown_ = false ∧
      this3.dimension_ = mesh.dimension_ := by
    rw [← h3e]
    exact ⟨rfl, hp2.2.1, hp2.2.2.1, hp2.2.2.2.1, hp2.2.2.2.2⟩
  have hlen : cv.length = mesh.cellVector_.length := by
    have := congrArg List.length hcv
    simpa using this
  have hattr : (cellAttributes mesh).length = this3.cellCount := by
    unfold cellAttributes cellCount
    rw [hp3.1, List.length_map, hlen]
  have h4 := setCellAttributes_eq w this3 (cellAttributes mesh)
    (by
      unfold cellCount
      rw [hp3.1, hlen]
      exact hfitC) hattr
  obtain ⟨this4, h4e⟩ : ∃ t : Mesh P R, t = { this3 with cellVector_ := List.zipWith (fun c a => ({ c with attribute_ := a } : Cell R)) this3.cellVector_ (cellAttributes mesh) } :=
    ⟨_, rfl⟩
  rw [← h4e] at h4
  have hl2 : (cellAttributes mesh).length = cv.length := by
    unfold cellAttributes
    rw [List.length_map, hlen]
  have hp4 : this4.cellVector_ =
        List.zipWith (fun c a => ({ c with attribute_ := a } : Cell R)) cv (cellAttributes mesh) ∧
      this4.nodeVector_ = mesh.nodeVector_ ∧
      this4.boundaryVector_ = bv ∧ this4.neighboursKnown_ = false ∧
      this4.dimension_ = mesh.dimension_ := by
    rw [h4e]
    exact ⟨by rw [hp3.1], hp3.2.1, hp3.2.2.1, hp3.2.2.2.1, hp3.2.2.2.2⟩
  refine ⟨this4, ?_, ⟨hp4.2.2.2.2, hp4.2.1, ?_, ?_, ?_⟩, ?_, hp4.2.2.2.1⟩
  · unfold copyEntities
    simp only [hthis, hinit, nodeCount, boundaryCount, cellCount, h1, h2, h3]
    rw [h4]
  · rw [hp4.1]
    refine map_pair_eq (fun c : Cell R => (c.nodes, c.marker)) (fun c : Cell R => c.attribute_)
      _ _ ?_ ?_
    · rw [zipWith_attribute_keep (fun c : Cell R => (c.nodes, c.marker)) (fun _ _ => rfl) cv _ hl2]
      exact hcv
    · rw [zipWith_attribute_map cv _ hl2]
      rfl
  · intro i c hc
    rw [hp4.1] at hc
    obtain ⟨c0, hc0, hsame⟩ := getElem?_of_map_eq (fun c : Cell R => (c.id, c.shape, c.nodes))
      (zipWith_attribute_keep (fun c : Cell R => (c.id, c.shape, c.nodes)) (fun _ _ => rfl)
        cv _ hl2) hc
    simp only [Prod.mk.injEq] at hsame
    obtain ⟨s1, s2, s3⟩ := hsame
    obtain ⟨g1, g2⟩ := hcid i c0 hc0
    rw [← s1, ← s2, ← s3]
    exact ⟨g1, g2⟩
  · rw [hp4.2.2.1, hbv]
    unfold boundaryCount
    rw [← List.length_map mesh.boundaryVector_ (fun b => (b.nodes, b.marker)), List.take_length]
  · rw [hp4.2.2.1, hbv]


theorem copyOf_of_derivation {ops : EntityOps P R} {cbc : BoundaryCreator P R}
    (hcbc : FindsOrCreates cbc) {mesh mid r : Mesh P R} {force : Bool} (hmid : CopyOf mesh mid)
    (hbv : mid.boundaryVector_.map (fun b => (b.nodes, b.marker)) =
      mesh.boundaryVector_.map (fun b => (b.nodes, b.marker)))
    (h : createNeighbourInfos ops cbc mid force = .ok r) :
    CopyOf mesh r ∧ mesh.boundaryCount ≤ r.boundaryCount := by
  obtain ⟨a1, a2, a3⟩ := createNeighbourInfos_core (onlyBoundaries_of_findsOrCreates hcbc) h
  obtain ⟨ext, hext⟩ := createNeighbourInfos_boundaryData hcbc h
  obtain ⟨m1, m2, m3, m4, -⟩ := hmid
  have hlenB : (mesh.boundaryVector_.map (fun b => (b.nodes, b.marker))).length =
      mesh.boundaryCount := by
    rw [List.length_map]
    rfl
  refine ⟨⟨a1.trans m1, a2.trans m2, ?_, ?_, ?_⟩, ?_⟩
  · rw [← m3]
    have h1 : r.cellVector_.map (fun c => ((c.nodes, c.marker), c.attribute_)) =
        (r.cellVector_.map cellCore).map (fun k => ((k.2.1, k.2.2.1), k.2.2.2.2)) := by
      rw [List.map_map]
      rfl
    have h2 : mid.cellVector_.map (fun c => ((c.nodes, c.marker), c.attribute_)) =
        (mid.cellVector_.map cellCore).map (fun k => ((k.2.1, k.2.2.1), k.2.2.2.2)) := by
      rw [List.map_map]
      rfl
    rw [h1, h2, a3]
  · intro i c hc
    obtain ⟨c0, hc0, hsame⟩ := getElem?_of_map_eq cellCore a3 hc
    simp only [cellCore, Prod.mk.injEq] at hsame
    obtain ⟨s1, s2, -, s4, -⟩ := hsame
    obtain ⟨g1, g2⟩ := m4 i c0 hc0
    rw [← s1, ← s2, ← s4]
    exact ⟨g1, g2⟩
  · rw [hext, hbv, ← hlenB, List.take_left]
  · have h1 := congrArg List.length hext
    rw [hbv, List.length_append, List.length_map, List.length_map] at h1
    unfold boundaryCount
    omega

/-- Counterexample to C25: the source mesh of dimension 3 with one triangle over
the nodes with the ids 0, 1, 2. For three nodes in dimension 3 `createCell`
returns the null pointer, the copy gets no cell, and `copy_` ends in
`setCellAttributes` with `throwError(1, ...)`: one attribute for no cell. -/
theorem copy_of_unclassified_cell_throws :
    triangleInSpace.nodeVector_.map (fun n => n.id) = [0, 1, 2] ∧
    triangleInSpace.cellCount = 1 ∧
    failureOf (copy_ 32 edgeOps findOrCreateBoundary emptyMesh triangleInSpace) =
      some (.throwError 1) := by
  decide

/-- C25, amended: for a source mesh that `copy_` can walk through (node ids are
indices, the counts fit the counters, every cell and boundary is over nodes of
the mesh and has a class in the table for its node count and the dimension, the
boundaries are over pairwise different point sets) and a boundary creator that
finds a boundary over the same point set or creates one, `copy_`, called by the
copy constructor and the assignment, builds a mesh `mid` with the dimension and
the nodes (position, marker, id) of the source and as many cells and boundaries;
cell `i` has the nodes, marker and attribute of source cell `i`, boundary `i` the
nodes and marker of source boundary `i`. If adjacency is not known in the source,
`copy_` returns `mid`, with `neighboursKnown_` not set; if it is known, `copy_`
is the adjacency derivation on `mid`, which may add boundaries after those
copied; and the mesh that `copy_` returns has `neighboursKnown_` as in the
source. -/
theorem copy_preserves_entities [Inhabited R] (w : Nat) (ops : EntityOps P R)
    (cbc : BoundaryCreator P R) (this mesh : Mesh P R) (hcbc : FindsOrCreates cbc)
    (hmesh : Copyable w mesh) :
    ∃ mid, copyEntities w cbc this mesh = .ok mid ∧ CopyOf mesh mid ∧
      mid.nodeCount = mesh.nodeCount ∧ mid.cellCount = mesh.cellCount ∧
      mid.boundaryCount = mesh.boundaryCount ∧ mid.neighboursKnown_ = false ∧
      copy_ w ops cbc this mesh =
        (if mesh.neighboursKnown_ = true then createNeighbourInfos ops cbc mid true
         else .ok mid) ∧
      ∀ r, copy_ w ops cbc this mesh = .ok r →
        CopyOf mesh r ∧ r.nodeCount = mesh.nodeCount ∧ r.cellCount = mesh.cellCount ∧
        mesh.boundaryCount ≤ r.boundaryCount ∧ r.neighboursKnown_ = mesh.neighboursKnown_ := by
  obtain ⟨mid, h1, h2, h3, h4⟩ := copyEntities_spec w cbc this mesh hcbc hmesh
  have hcopy : copy_ w ops cbc this mesh =
      (if mesh.neighboursKnown_ = true then createNeighbourInfos ops cbc mid true
       else .ok mid) := by
    unfold copy_
    rw [h1]
  have hcounts : ∀ r : Mesh P R, CopyOf mesh r →
      r.nodeCount = mesh.nodeCount ∧ r.cellCount = mesh.cellCount := by
    intro r hr
    refine ⟨by unfold nodeCount; rw [hr.2.1], ?_⟩
    have := congrArg List.length hr.2.2.1
    simpa using this
  refine ⟨mid, h1, h2, (hcounts mid h2).1, (hcounts mid h2).2, ?_, h4, hcopy, fun r hr => ?_⟩
  · have := congrArg List.length h3
    simpa using this
  · rw [hcopy] at hr
    by_cases hk : mesh.neighboursKnown_ = true
    · rw [if_pos hk] at hr
      obtain ⟨g1, g2⟩ := copyOf_of_derivation hcbc h2 h3 hr
      exact ⟨g1, (hcounts r g1).1, (hcounts r g1).2, g2,
        (neighboursKnown_of_createNeighbourInfos ops cbc mid true r hr).trans hk.symm⟩
    · rw [if_neg hk] at hr
      cases hr
      refine ⟨h2, (hcounts mid h2).1, (hcounts mid h2).2, ?_, ?_⟩
      · have := congrArg List.length h3
        have h5 : mid.boundaryCount = mesh.boundaryCount := by simpa using this
        omega
      · rw [h4]
        cases hm : mesh.neighboursKnown_ with
        | false => rfl
        | true => exact absurd hm hk

theorem idsAreIndices_derivedLine : IdsAreIndices derivedLine := by
  intro i n h
  match i with
  | 0 => simp [derivedLine, lineMesh] at h; subst h; rfl
  | 1 => simp [derivedLine, lineMesh] at h; subst h; rfl
  | 2 => simp [derivedLine, lineMesh] at h; subst h; rfl
  | k + 3 => simp [derivedLine, lineMesh] at h

theorem copyable_derivedLine : Copyable 32 derivedLine :=
  ⟨idsAreIndices_derivedLine, by decide, by decide, by decide, by decide, by decide, by decide⟩

/-- Witness of C25, amended: the copy of `derivedLine`, a mesh of two edge cells
with its three boundaries and known adjacency, into an empty mesh. -/
theorem copy_preserves_entities_witness :
    FindsOrCreates (findOrCreateBoundary : BoundaryCreator Int Int) ∧ Copyable 32 derivedLine ∧
    derivedLine.neighboursKnown_ = true ∧
    (copy_ 32 edgeOps findOrCreateBoundary emptyMesh derivedLine).toOption.map
      (fun r => (r.dimension_, r.nodeVector_, r.cellVector_.map (fun c => (c.nodes, c.marker)),
        r.boundaryVector_.map (fun b => (b.nodes, b.marker)), r.neighboursKnown_)) =
      some (1, derivedLine.nodeVector_, [([0, 1], 0), ([1, 2], 0)],
        [([0], 0), ([1], 0), ([2], 0)], true) ∧
    ∃ mid, copyEntities 32 findOrCreateBoundary emptyMesh derivedLine = .ok mid ∧
      CopyOf derivedLine mid :=
  ⟨findsOrCreates_findOrCreateBoundary, copyable_derivedLine, rfl, rfl,
   (copy_preserves_entities 32 edgeOps findOrCreateBoundary emptyMesh derivedLine
      findsOrCreates_findOrCreateBoundary copyable_derivedLine).imp (fun _ h => ⟨h.1, h.2.1⟩)⟩

/-! ## One-dimensional grids -/

theorem gridNodes_append (gops : GridOps P R) (x : List R) (xi : R) :
    gridNodes gops (x ++ [xi]) =
      gridNodes gops x ++ [⟨gops.point xi gops.zero gops.zero, gops.nodeMarker, (x.length : Int)⟩] := by
  unfold gridNodes
  rw [List.mapIdx_append]
  simp

theorem gridCellList_succ [Inhabited R] (gops : GridOps P R) (k : Nat) :
    gridCellList gops (k + 1) =
      (gridCellList gops k : List (Cell R)) ++
        [⟨.EdgeCell, [k, k + 1], gops.cellMarker, (k : Int), default, [], false⟩] := by
  unfold gridCellList
  rw [List.range_succ, List.map_append]
  rfl

theorem gridCells_spec [Inhabited R] (w : Nat) (gops : GridOps P R) :
    ∀ (rest pre : List R) (k : Nat) (this : Mesh P R), pre.length = k + 1 →
      pre.length + rest.length < 2 ^ w → this.nodeVector_ = gridNodes gops pre →
      this.cellVector_ = gridCellList gops k →
      gridCells w gops rest this =
        .ok { this with nodeVector_ := gridNodes gops (pre ++ rest), cellVector_ := gridCellList gops (k + rest.length) } := by
  intro rest
  induction rest with
  | nil =>
    intro pre k this _ _ hn hc
    simp only [gridCells, List.append_nil, List.length_nil, Nat.add_zero]
    rw [← hn, ← hc]
  | cons xi rest ih =>
    intro pre k this hk hfit hn hc
    simp only [List.length_cons] at hfit
    have hnl : this.nodeVector_.length = k + 1 := by
      rw [hn]
      unfold gridNodes
      rw [List.length_mapIdx, hk]
    generalize h1 : (createNode this (gops.point xi gops.zero gops.zero) gops.nodeMarker).2 = this1
    have hn1 : this1.nodeVector_ = gridNodes gops (pre ++ [xi]) := by
      rw [← h1, createNode_eq, gridNodes_append, ← hn]
      simp only [nodeCount, hnl, hk]
    have hc1 : this1.cellVector_ = gridCellList gops k := by
      rw [← h1, createNode_eq]
      exact hc
    have hcount : this1.nodeCount = k + 2 := by
      unfold nodeCount
      rw [hn1]
      unfold gridNodes
      rw [List.length_mapIdx, List.length_append, hk]
      rfl
    have hfit1 : this1.nodeCount < 2 ^ w := by omega
    have hp0 : nodePtr w this1 ((this1.nodeCount : Int) - 2) = .ok k := by
      have he : ((this1.nodeCount : Int) - 2) = ((k : Nat) : Int) := by
        rw [hcount]
        push_cast
        ring
      rw [he]
      unfold nodePtr
      rw [toUint_natCast (by omega)]
      obtain ⟨n, -, hnode⟩ := node_of_lt (w := w) (m := this1) (i := k) (by omega) hfit1
      rw [hnode]
    have hp1 : nodePtr w this1 ((this1.nodeCount : Int) - 1) = .ok (k + 1) := by
      have he : ((this1.nodeCount : Int) - 1) = ((k + 1 : Nat) : Int) := by
        rw [hcount]
        push_cast
        ring
      rw [he]
      unfold nodePtr
      rw [toUint_natCast (by omega)]
      obtain ⟨n, -, hnode⟩ := node_of_lt (w := w) (m := this1) (i := k + 1) (by omega) hfit1
      rw [hnode]
    have hcreate : (createCell this1 [k, k + 1] gops.cellMarker).2 =
        { this1 with cellVector_ := gridCellList gops (k + 1) } := by
      rw [createCell_of_table this1 [k, k + 1] gops.cellMarker .EdgeCell (by simp [cellTable]),
        gridCellList_succ, ← hc1]
      simp only [cellCount, hc1]
      unfold gridCellList
      rw [List.length_map, List.length_range]
    have h := ih (pre ++ [xi]) (k + 1) { this1 with cellVector_ := gridCellList gops (k + 1) }
      (by rw [List.length_append, hk]; rfl)
      (by rw [List.length_append]; simp only [List.length_singleton]; omega) hn1 rfl
    simp only [gridCells, h1, hp0, hp1, hcreate]
    rw [h]
    simp only [List.append_assoc, List.singleton_append, List.length_cons]
    have h2 : k + 1 + rest.length = k + (rest.length + 1) := by omega
    rw [h2, ← h1, createNode_eq]


theorem assignSides_shape (c : Nat) (nb : Option Nat) (isLeft : Bool) (bound : Boundary) :
    (assignSides c nb isLeft bound).1.shape = bound.shape := by
  unfold assignSides
  dsimp only
  split_ifs <;> rfl

theorem assignSides_passes (ci : Nat) (nb : Option Nat) (bound : Boundary) (hnb : nb ≠ some ci)
    (hboth : ∀ l r, bound.leftCell = some l → bound.rightCell = some r →
      (ci = l ∨ ci = r) ∧ l ≠ r)
    (hskip : (assignSides ci nb true bound).2 = false) :
    crossCheckFails ci (assignSides ci nb true bound).1 = false := by
  obtain ⟨shape, nodes, marker, id, l, r⟩ := bound
  unfold crossCheckFails
  unfold assignSides at hskip ⊢
  cases l with
  | none =>
    cases r with
    | none =>
      cases nb with
      | none => simp
      | some x =>
        have hx : x ≠ ci := fun h => hnb (by rw [h])
        simp [hx, Ne.symm hx]
    | some r0 =>
      by_cases hr : r0 = ci
      · subst hr
        simp at hskip
      · cases nb with
        | none => simp [hr, Ne.symm hr]
        | some x => simp [hr, Ne.symm hr]
  | some l0 =>
    cases r with
    | none =>
      by_cases hl : l0 = ci
      · subst hl
        simp at hskip
      · simp [hl, Ne.symm hl]
    | some r0 =>
      obtain ⟨h1, h2⟩ := hboth l0 r0 rfl rfl
      simp only [reduceCtorEq, false_and, if_false]
      simp only [decide_eq_false_iff_not, not_or, not_and, Option.some.injEq]
      refine ⟨fun hl hr => ?_, h2⟩
      rcases h1 with h | h
      · exact hl (by rw [h])
      · exact hr (by rw [h])


theorem nodeFacets_of_eq {m m1 : Mesh P R} (h : m1.boundaryVector_ = m.boundaryVector_)
    (hNF : NodeFacets m) : NodeFacets m1 := by
  unfold NodeFacets at *
  rw [h]
  exact hNF

theorem nodeFacets_set {m m1 : Mesh P R} {i : Nat} {bound after : Boundary}
    (hNF : NodeFacets m) (hb : m.boundaryVector_[i]? = some bound)
    (hshape : after.shape = bound.shape) (hmarker : after.marker = bound.marker)
    (hnodes : after.nodes = bound.nodes)
    (h : m1.boundaryVector_ = m.boundaryVector_.set i after) : NodeFacets m1 := by
  unfold NodeFacets at *
  rw [h]
  refine ⟨fun b hmem => ?_, ?_⟩
  · rcases List.mem_or_eq_of_mem_set hmem with h1 | h1
    · exact hNF.1 b h1
    · subst h1
      rw [hshape, hmarker, hnodes]
      exact hNF.1 bound (List.getElem?_mem hb)
  · rw [map_set_of_eq (fun b : Boundary => b.nodes) hb hnodes]
    exact hNF.2

theorem nodeFacets_push {m m1 : Mesh P R} {q : Nat} {id : Int} {i : Nat} {after : Boundary}
    (hNF : NodeFacets m) (habs : ∀ b ∈ m.boundaryVector_, samePoints b.nodes [q] = false)
    (hshape : after.shape = .NodeBoundary) (hmarker : after.marker = 0)
    (hnodes : after.nodes = [q])
    (h : m1.boundaryVector_ =
      (m.boundaryVector_ ++ [(⟨.NodeBoundary, [q], 0, id, none, none⟩ : Boundary)]).set i after)
    (hi : i = m.boundaryVector_.length) : NodeFacets m1 := by
  have hnew : NodeFacets ({ m with boundaryVector_ := m.boundaryVector_ ++ [(⟨.NodeBoundary, [q], 0, id, none, none⟩ : Boundary)] } : Mesh P R) := by
    refine ⟨fun b hmem => ?_, ?_⟩
    · have hmem2 : b ∈ m.boundaryVector_ ++ [(⟨.NodeBoundary, [q], 0, id, none, none⟩ : Boundary)] :=
        hmem
      rw [List.mem_append, List.mem_singleton] at hmem2
      rcases hmem2 with h1 | h1
      · exact hNF.1 b h1
      · subst h1
        exact ⟨rfl, rfl, q, rfl⟩
    · show ((m.boundaryVector_ ++ [(⟨.NodeBoundary, [q], 0, id, none, none⟩ : Boundary)]).map
        (fun b => b.nodes)).Nodup
      rw [List.map_append, List.nodup_append]
      refine ⟨hNF.2, List.nodup_singleton _, ?_⟩
      intro a ha hb
      simp only [List.map_cons, List.map_nil, List.mem_singleton] at hb
      subst hb
      rw [List.mem_map] at ha
      obtain ⟨b0, hb0, hn0⟩ := ha
      have := habs b0 hb0
      rw [hn0, samePoints_refl] at this
      cases this
  have hbnew : (m.boundaryVector_ ++ [(⟨.NodeBoundary, [q], 0, id, none, none⟩ : Boundary)])[i]? =
      some ⟨.NodeBoundary, [q], 0, id, none, none⟩ := by
    rw [hi, List.getElem?_append_right (Nat.le_refl _)]
    simp
  exact nodeFacets_set hnew hbnew hshape hmarker hnodes h

theorem cellIsLeft_nodeBoundary (ops : EntityOps P R) (m : Mesh P R) (c : Cell R) (j : Nat)
    (bound : Boundary) (h : bound.shape = .NodeBoundary) :
    cellIsLeft ops m c j bound = .ok true := by
  unfold cellIsLeft
  simp [h, boundaryNodeCount]

theorem nodeFacet_step {ops : EntityOps P R} {ci j q : Nat} {m : Mesh P R} {c : Cell R}
    (hother : NeighbourIsOther ops) (hc : m.cellVector_[ci]? = some c)
    (hfresh : c.neighbourCell j = none) (hF : ops.boundaryNodes c.shape c.nodes j = [q])
    (hNF : NodeFacets m)
    (hboth : ∀ b ∈ m.boundaryVector_, samePoints b.nodes [q] = true → ∀ l r,
      b.leftCell = some l → b.rightCell = some r → (ci = l ∨ ci = r) ∧ l ≠ r) :
    ∃ m1, neighbourInfosFacet ops findOrCreateBoundary ci j m = .ok m1 ∧ NodeFacets m1 := by
  generalize hnbe : ops.findNeighbourCell m ci j = nb
  have hnb : nb ≠ some ci := by
    intro h
    rw [h] at hnbe
    exact hother m ci j ci hnbe rfl
  have hF1 : ops.boundaryNodes (c.setNeighbourCell j nb).shape (c.setNeighbourCell j nb).nodes j =
      [q] := hF
  have hn1 : (c.setNeighbourCell j nb).neighbourCell j = nb := neighbourCell_set_same c j nb
  unfold neighbourInfosFacet assignFacet
  simp only [hc, hfresh, Option.isSome_none, Bool.false_eq_true, if_false, hnbe, hF1, hn1]
  rw [createBoundary_of_table _ _ [q] 0 .NodeBoundary (by simp [boundaryTable])]
  unfold findOrCreateBoundary
  dsimp only
  cases hfind : m.boundaryVector_.findIdx? (fun b => samePoints b.nodes [q]) with
  | some i =>
    obtain ⟨bound, hb, hsame⟩ := findIdx?_getElem _ _ _ hfind
    have hshape := (hNF.1 bound (List.getElem?_mem hb)).1
    simp only [hb, cellIsLeft_nodeBoundary _ _ _ _ _ hshape]
    by_cases hskip : (assignSides ci nb true bound).2 = true
    · rw [if_pos hskip]
      exact ⟨_, rfl, nodeFacets_of_eq rfl hNF⟩
    · have hskip2 : (assignSides ci nb true bound).2 = false := by
        cases h : (assignSides ci nb true bound).2 with
        | false => rfl
        | true => exact absurd h hskip
      have hpass := assignSides_passes ci nb bound hnb
        (hboth bound (List.getElem?_mem hb) hsame) hskip2
      rw [if_neg hskip, hpass]
      simp only [Bool.false_eq_true, if_false]
      exact ⟨_, rfl, nodeFacets_set hNF hb (assignSides_shape _ _ _ _) (assignSides_marker _ _ _ _)
        (assignSides_nodes _ _ _ _) rfl⟩
  | none =>
    have habs : ∀ b ∈ m.boundaryVector_, samePoints b.nodes [q] = false := by
      intro b hbm
      have := List.findIdx?_eq_none_iff.mp hfind b hbm
      simpa using this
    simp only [createBoundary_, boundaryCount, List.getElem?_append_right (Nat.le_refl _),
      Nat.sub_self, List.getElem?_cons_zero]
    rw [cellIsLeft_nodeBoundary _ _ _ _ _ rfl]
    dsimp only
    by_cases hskip : (assignSides ci nb true ⟨.NodeBoundary, [q], 0, (m.boundaryVector_.length : Int), none, none⟩).2 = true
    · exfalso
      simp [assignSides] at hskip
    · have hskip2 : (assignSides ci nb true ⟨.NodeBoundary, [q], 0, (m.boundaryVector_.length : Int), none, none⟩).2 = false := by
        cases h : (assignSides ci nb true ⟨.NodeBoundary, [q], 0, (m.boundaryVector_.length : Int), none, none⟩).2 with
        | false => rfl
        | true => exact absurd h hskip
      have hpass := assignSides_passes ci nb
        ⟨.NodeBoundary, [q], 0, (m.boundaryVector_.length : Int), none, none⟩ hnb
        (fun l r hl _ => by cases hl) hskip2
      rw [if_neg hskip, hpass]
      simp only [Bool.false_eq_true, if_false]
      have e1 : (assignSides ci nb true ⟨.NodeBoundary, [q], 0, (m.boundaryVector_.length : Int), none, none⟩).1.shape = .NodeBoundary :=
        assignSides_shape _ _ _ _
      have e2 : (assignSides ci nb true ⟨.NodeBoundary, [q], 0, (m.boundaryVector_.length : Int), none, none⟩).1.marker = 0 :=
        assignSides_marker _ _ _ _
      have e3 : (assignSides ci nb true ⟨.NodeBoundary, [q], 0, (m.boundaryVector_.length : Int), none, none⟩).1.nodes = [q] :=
        assignSides_nodes _ _ _ _
      exact ⟨_, rfl, nodeFacets_push hNF habs e1 e2 e3 rfl rfl⟩


theorem gridKeys_getElem {k ci : Nat} {key : CellShape × List Nat}
    (h : (gridKeys k)[ci]? = some key) : ci < k ∧ key = (CellShape.EdgeCell, [ci, ci + 1]) := by
  unfold gridKeys at h
  rw [List.getElem?_map] at h
  have hlt : ci < k := by
    by_contra hge
    rw [List.getElem?_eq_none (by simpa using hge)] at h
    cases h
  rw [List.getElem?_range hlt] at h
  exact ⟨hlt, (Option.some.inj h).symm⟩

theorem gridKeys_of_lt {k ci : Nat} (h : ci < k) :
    (gridKeys k)[ci]? = some (CellShape.EdgeCell, [ci, ci + 1]) := by
  unfold gridKeys
  rw [List.getElem?_map, List.getElem?_range h]
  rfl

theorem edgeFacet_nodes {ops : EntityOps P R} (hedge : EdgeFacets ops) {c : Cell R} {a j : Nat}
    (hkey : cellKey c = (CellShape.EdgeCell, [a, a + 1])) (hj : j < ops.boundaryCount c.shape) :
    ∃ q, ops.boundaryNodes c.shape c.nodes j = [q] ∧ (q = a ∨ q = a + 1) := by
  simp only [cellKey, Prod.mk.injEq] at hkey
  obtain ⟨hs, hn⟩ := hkey
  rw [hs] at hj ⊢
  rw [hn]
  rw [hedge.1] at hj
  rcases hedge.2 a (a + 1) with ⟨h0, h1⟩ | ⟨h0, h1⟩
  · interval_cases j
    · exact ⟨a, h0, Or.inl rfl⟩
    · exact ⟨a + 1, h1, Or.inr rfl⟩
  · interval_cases j
    · exact ⟨a + 1, h0, Or.inr rfl⟩
    · exact ⟨a, h1, Or.inl rfl⟩

theorem edgeFacet_exists {ops : EntityOps P R} (hedge : EdgeFacets ops) (a q : Nat)
    (hq : q = a ∨ q = a + 1) :
    ∃ j, j < 2 ∧ ops.boundaryNodes .EdgeCell [a, a + 1] j = [q] := by
  rcases hedge.2 a (a + 1) with ⟨h0, h1⟩ | ⟨h0, h1⟩
  · rcases hq with rfl | rfl
    · exact ⟨0, by omega, h0⟩
    · exact ⟨1, by omega, h1⟩
  · rcases hq with rfl | rfl
    · exact ⟨1, by omega, h1⟩
    · exact ⟨0, by omega, h0⟩

theorem samePoints_singleton {p q : Nat} (h : samePoints [p] [q] = true) : p = q := by
  have := (samePoints_iff.mp h) p
  simpa using this

theorem grid_side {ops : EntityOps P R} {n0 k : Nat} {D : Nat → Nat → Prop} {m : Mesh P R}
    (hedge : EdgeFacets ops) (hinv : Adjacent ops n0 (gridKeys k) D m) {i x p : Nat}
    {b : Boundary} (hb : m.boundaryVector_[i]? = some b) (hp : b.nodes = [p])
    (hx : b.leftCell = some x ∨ b.rightCell = some x) : x < k ∧ (p = x ∨ p = x + 1) := by
  obtain ⟨cx, jx, hcx, hjx, hfb⟩ := hinv.justified i b x hb hx
  obtain ⟨hlt, hkey⟩ := gridKeys_getElem (keys_of_cell hinv.keys hcx)
  obtain ⟨q, hq, hqa⟩ := edgeFacet_nodes hedge hkey hjx
  unfold facetBoundary at hfb
  obtain ⟨b1, hb1, hsame⟩ := findIdx?_getElem _ _ _ hfb
  rw [hb] at hb1
  cases hb1
  rw [hq, hp] at hsame
  have := samePoints_singleton hsame
  exact ⟨hlt, by omega⟩

theorem grid_both {ops : EntityOps P R} {n0 k : Nat} {D : Nat → Nat → Prop} {m : Mesh P R}
    (hedge : EdgeFacets ops) (hinv : Adjacent ops n0 (gridKeys k) D m) (hNF : NodeFacets m)
    {ci q : Nat} (hq : q = ci ∨ q = ci + 1) :
    ∀ b ∈ m.boundaryVector_, samePoints b.nodes [q] = true → ∀ l r,
      b.leftCell = some l → b.rightCell = some r → (ci = l ∨ ci = r) ∧ l ≠ r := by
  intro b hbm hsame l r hl hr
  obtain ⟨i, hi⟩ := List.getElem?_of_mem hbm
  obtain ⟨-, -, p, hp⟩ := hNF.1 b hbm
  rw [hp] at hsame
  have hpq := samePoints_singleton hsame
  obtain ⟨-, h1⟩ := grid_side hedge hinv hi hp (Or.inl hl)
  obtain ⟨-, h2⟩ := grid_side hedge hinv hi hp (Or.inr hr)
  have hne : l ≠ r := by
    intro h
    subst h
    exact hinv.distinct b hbm l hl hr
  exact ⟨by omega, hne⟩

theorem grid_facets_return {ops : EntityOps P R} {n0 k ci : Nat} (hedge : EdgeFacets ops)
    (hother : NeighbourIsOther ops) (hnb : NeighbourAcrossFacet ops (gridKeys k)) (hci : ci < k) :
    ∀ (l : List Nat) (D : Nat → Nat → Prop) (m : Mesh P R), l.Nodup →
      (∀ j ∈ l, j < 2 ∧ ¬ D ci j) → Adjacent ops n0 (gridKeys k) D m → NodeFacets m →
      ∃ m1, neighbourInfosFacets ops findOrCreateBoundary ci l m = .ok m1 ∧ NodeFacets m1 := by
  intro l
  induction l with
  | nil =>
    intro D m _ _ _ hNF
    exact ⟨m, rfl, hNF⟩
  | cons j l ih =>
    intro D m hnd hl hinv hNF
    obtain ⟨hj, hD⟩ := hl j (List.mem_cons_self _ _)
    obtain ⟨c, hc, hkey⟩ := cell_of_keys hinv.keys (gridKeys_of_lt hci)
    have hshape : c.shape = .EdgeCell := by
      have := congrArg Prod.fst hkey
      exact this
    have hj2 : j < ops.boundaryCount c.shape := by
      rw [hshape, hedge.1]
      exact hj
    obtain ⟨q, hq, hqa⟩ := edgeFacet_nodes hedge hkey hj2
    obtain ⟨m1, h1, hNF1⟩ := nodeFacet_step hother hc (hinv.fresh ci c j hc hD) hq hNF
      (grid_both hedge hinv hNF hqa)
    have hinv1 := adjacent_facet hnb hinv hc hj2 hD h1
    rw [List.nodup_cons] at hnd
    obtain ⟨m2, h2, hNF2⟩ := ih _ m1 hnd.2
      (fun j1 hj1 => ⟨(hl j1 (List.mem_cons_of_mem _ hj1)).1, fun hd => by
        rcases hd with hd | ⟨-, hd⟩
        · exact (hl j1 (List.mem_cons_of_mem _ hj1)).2 hd
        · subst hd
          exact hnd.1 hj1⟩) hinv1 hNF1
    refine ⟨m2, ?_, hNF2⟩
    simp only [neighbourInfosFacets, h1]
    exact h2

theorem grid_cells_return {ops : EntityOps P R} {n0 k : Nat} (hedge : EdgeFacets ops)
    (hother : NeighbourIsOther ops) (hnb : NeighbourAcrossFacet ops (gridKeys k)) :
    ∀ (l : List Nat) (D : Nat → Nat → Prop) (m : Mesh P R), l.Nodup →
      (∀ ci ∈ l, ci < k ∧ ∀ j, ¬ D ci j) → Adjacent ops n0 (gridKeys k) D m → NodeFacets m →
      ∃ m1, neighbourInfosCells ops findOrCreateBoundary l m = .ok m1 ∧ NodeFacets m1 := by
  intro l
  induction l with
  | nil =>
    intro D m _ _ _ hNF
    exact ⟨m, rfl, hNF⟩
  | cons ci l ih =>
    intro D m hnd hl hinv hNF
    obtain ⟨hci, hD⟩ := hl ci (List.mem_cons_self _ _)
    obtain ⟨c, hc, hkey⟩ := cell_of_keys hinv.keys (gridKeys_of_lt hci)
    have hshape : c.shape = .EdgeCell := by
      have := congrArg Prod.fst hkey
      exact this
    obtain ⟨m1, h1, hNF1⟩ := grid_facets_return hedge hother hnb hci
      (List.range (ops.boundaryCount c.shape)) D m (List.nodup_range _)
      (fun j hj => ⟨by
        have := List.mem_range.mp hj
        rw [hshape, hedge.1] at this
        exact this, hD j⟩) hinv hNF
    have hcell : createNeighbourInfosCell_ ops findOrCreateBoundary ci m = .ok m1 := by
      unfold createNeighbourInfosCell_
      rw [hc]
      exact h1
    obtain ⟨key, -, hinv1⟩ := adjacent_cell hnb hinv hD hcell
    rw [List.nodup_cons] at hnd
    obtain ⟨m2, h2, hNF2⟩ := ih _ m1 hnd.2
      (fun c1 hc1 => ⟨(hl c1 (List.mem_cons_of_mem _ hc1)).1, fun j hd => by
        rcases hd with hd | ⟨hd, -⟩
        · exact (hl c1 (List.mem_cons_of_mem _ hc1)).2 j hd
        · subst hd
          exact hnd.1 hc1⟩) hinv1 hNF1
    refine ⟨m2, ?_, hNF2⟩
    simp only [neighbourInfosCells, hcell]
    exact h2


theorem length_of_nodup_singletons {l : List (List Nat)} {n : Nat} (hnd : l.Nodup)
    (hmem : ∀ a, a ∈ l ↔ ∃ p, p < n ∧ a = [p]) : l.length = n := by
  have h2 : ((List.range n).map (fun p => [p])).Nodup :=
    List.Nodup.map (fun a b h => by simpa using h) (List.nodup_range n)
  have hperm : l.Perm ((List.range n).map (fun p => [p])) := by
    rw [List.perm_ext_iff_of_nodup hnd h2]
    intro a
    rw [hmem a, List.mem_map]
    constructor
    · rintro ⟨p, hp, rfl⟩
      exact ⟨p, List.mem_range.mpr hp, rfl⟩
    · rintro ⟨p, hp, rfl⟩
      exact ⟨p, List.mem_range.mp hp, rfl⟩
  rw [hperm.length_eq, List.length_map, List.length_range]

theorem grid_derivation {ops : EntityOps P R} (hedge : EdgeFacets ops)
    (hother : NeighbourIsOther ops) {k : Nat} (hnb : NeighbourAcrossFacet ops (gridKeys k))
    (hk : 0 < k) (G : Mesh P R) (hkeys : G.cellVector_.map cellKey = gridKeys k)
    (hbv : G.boundaryVector_ = []) (hknown : G.neighboursKnown_ = false) :
    ∃ r, createNeighbourInfos ops findOrCreateBoundary G false = .ok r ∧
      r.dimension_ = G.dimension_ ∧ r.nodeVector_ = G.nodeVector_ ∧
      r.cellVector_.map cellCore = G.cellVector_.map cellCore ∧ NodeFacets r ∧
      r.boundaryCount = k + 1 ∧
      (∀ p, p < k + 1 → ∃ b ∈ r.boundaryVector_, b.nodes = [p]) ∧
      (∀ b ∈ r.boundaryVector_, ∀ p, b.nodes = [p] →
        p < k + 1 ∧ ((p = 0 ∨ p = k) → b.leftCell = none ∨ b.rightCell = none)) := by
  have hcount : G.cellCount = k := by
    have := congrArg List.length hkeys
    simpa [gridKeys, cellCount] using this
  have hclean := adjacent_clean ops G
  rw [hkeys] at hclean
  have hn0 : G.boundaryCount = 0 := by
    unfold boundaryCount
    rw [hbv]
    rfl
  rw [hn0] at hclean
  have hNF0 : NodeFacets G.cleanNeighbourInfos := by
    unfold NodeFacets Mesh.cleanNeighbourInfos
    simp [hbv]
  obtain ⟨m1, h1, hNF1⟩ := grid_cells_return hedge hother hnb (List.range G.cellCount)
    (fun _ _ => False) G.cleanNeighbourInfos (List.nodup_range _)
    (fun ci hci => ⟨by
      have := List.mem_range.mp hci
      omega, fun _ h => h⟩) hclean hNF0
  have hinv := adjacent_cells hnb (List.range G.cellCount) (fun _ _ => False) _ m1
    (List.nodup_range _) (fun _ _ _ h => h) hclean h1
  have hrun : createNeighbourInfos ops findOrCreateBoundary G false =
      .ok { m1 with neighboursKnown_ := true } := by
    unfold createNeighbourInfos
    rw [hknown]
    simp only [Bool.not_false, Bool.true_or, if_true]
    rw [h1]
  obtain ⟨c1, c2, c3⟩ := createNeighbourInfos_core onlyBoundaries_findOrCreateBoundary hrun
  have hcell : ∀ a, a < k → ∃ c, m1.cellVector_[a]? = some c ∧
      c.shape = .EdgeCell ∧ c.nodes = [a, a + 1] := by
    intro a ha
    obtain ⟨c, hc, hkey⟩ := cell_of_keys hinv.keys (gridKeys_of_lt ha)
    simp only [cellKey, Prod.mk.injEq] at hkey
    exact ⟨c, hc, hkey.1, hkey.2⟩
  have hcover : ∀ p, p < k + 1 → ∃ b ∈ m1.boundaryVector_, b.nodes = [p] := by
    intro p hp
    obtain ⟨a, ha, hpa⟩ : ∃ a, a < k ∧ (p = a ∨ p = a + 1) := by
      by_cases hpk : p < k
      · exact ⟨p, hpk, Or.inl rfl⟩
      · exact ⟨k - 1, by omega, Or.inr (by omega)⟩
    obtain ⟨c, hc, hs, hn⟩ := hcell a ha
    obtain ⟨j, hj, hF⟩ := edgeFacet_exists hedge a p hpa
    obtain ⟨i, b, hfb, hb, -⟩ := hinv.visited a c j
      (Or.inr ⟨List.mem_range.mpr (by omega), _, gridKeys_of_lt ha, by
        show j < ops.boundaryCount CellShape.EdgeCell
        rw [hedge.1]
        exact hj⟩) hc
    unfold facetBoundary at hfb
    obtain ⟨b1, hb1, hsame⟩ := findIdx?_getElem _ _ _ hfb
    rw [hb] at hb1
    cases hb1
    rw [hs, hn, hF] at hsame
    obtain ⟨-, -, p1, hp1⟩ := hNF1.1 b (List.getElem?_mem hb)
    rw [hp1] at hsame
    have := samePoints_singleton hsame
    subst this
    exact ⟨b, List.getElem?_mem hb, hp1⟩
  have hall : ∀ b ∈ m1.boundaryVector_, ∀ p, b.nodes = [p] →
      p < k + 1 ∧ ((p = 0 ∨ p = k) → b.leftCell = none ∨ b.rightCell = none) := by
    intro b hbm p hp
    obtain ⟨i, hi⟩ := List.getElem?_of_mem hbm
    have hside := hinv.created i b hi (Nat.zero_le _)
    constructor
    · rcases hside with hl | hr
      · cases hlc : b.leftCell with
        | none => exact absurd hlc hl
        | some x =>
          obtain ⟨h1, h2⟩ := grid_side hedge hinv hi hp (Or.inl hlc)
          omega
      · cases hrc : b.rightCell with
        | none => exact absurd hrc hr
        | some x =>
          obtain ⟨h1, h2⟩ := grid_side hedge hinv hi hp (Or.inr hrc)
          omega
    · intro hend
      cases hlc : b.leftCell with
      | none => exact Or.inl rfl
      | some l =>
        cases hrc : b.rightCell with
        | none => exact Or.inr rfl
        | some r =>
          exfalso
          obtain ⟨h1, h2⟩ := grid_side hedge hinv hi hp (Or.inl hlc)
          obtain ⟨h3, h4⟩ := grid_side hedge hinv hi hp (Or.inr hrc)
          have hlr : l = r := by omega
          subst hlr
          exact hinv.distinct b hbm l hlc hrc
  refine ⟨_, hrun, c1, c2, c3, nodeFacets_of_eq rfl hNF1, ?_, hcover, hall⟩
  show m1.boundaryVector_.length = k + 1
  rw [← List.length_map m1.boundaryVector_ (fun b => b.nodes)]
  refine length_of_nodup_singletons hNF1.2 (fun a => ?_)
  rw [List.mem_map]
  constructor
  · rintro ⟨b, hbm, rfl⟩
    obtain ⟨-, -, p, hp⟩ := hNF1.1 b hbm
    exact ⟨p, (hall b hbm p hp).1, hp⟩
  · rintro ⟨p, hp, rfl⟩
    obtain ⟨b, hbm, hbn⟩ := hcover p hp
    exact ⟨b, hbm, hbn⟩


theorem nodup_getElem?_inj {α : Type} {l : List α} (hnd : l.Nodup) {i j : Nat} {a : α}
    (hi : l[i]? = some a) (hj : l[j]? = some a) : i = j := by
  obtain ⟨hi1, hi2⟩ := List.getElem?_eq_some.mp hi
  obtain ⟨hj1, hj2⟩ := List.getElem?_eq_some.mp hj
  exact (List.Nodup.getElem_inj_iff hnd).mp (hi2.trans hj2.symm)

theorem gridNodes_getElem? (gops : GridOps P R) (x : List R) {p : Nat} {xp : R}
    (h : x[p]? = some xp) :
    (gridNodes gops x)[p]? = some ⟨gops.point xp gops.zero gops.zero, gops.nodeMarker, (p : Int)⟩ := by
  unfold gridNodes
  rw [List.getElem?_mapIdx, h]
  rfl

theorem markGridBoundary_spec [DecidableEq R] {w : Nat} {gops : GridOps P R} {x : List R}
    {x0 xn : R} (hfirst : ∀ a b c, gops.first (gops.point a b c) = a) (hnd : x.Nodup)
    (hx0 : x[0]? = some x0) (hxn : x[x.length - 1]? = some xn) {m : Mesh P R}
    (hnodes : m.nodeVector_ = gridNodes gops x) (hfit : m.boundaryCount < 2 ^ w) {i p : Nat}
    {b : Boundary} (hb : m.boundaryVector_[i]? = some b) (hbn : b.nodes = [p])
    (hp : p < x.length) (hm : b.marker = 0)
    (hend : (p = 0 ∨ p + 1 = x.length) → b.leftCell = none ∨ b.rightCell = none) :
    markGridBoundary w gops x0 xn i m =
      .ok { m with boundaryVector_ := m.boundaryVector_.set i (gridMarked x.length b) } := by
  have hi : i < m.boundaryCount := (List.getElem?_eq_some.mp hb).1
  obtain ⟨b1, hb1, hbound⟩ := boundary_of_lt (w := w) hi hfit
  rw [hb] at hb1
  cases hb1
  have hxp : x[p]? = some x[p] := List.getElem?_eq_getElem hp
  have hnode := gridNodes_getElem? gops x hxp
  have hmark : gridMarked x.length b = { b with marker := gridMarker x.length p } := by
    unfold gridMarked
    rw [hbn]
    rfl
  have hsame : gridMarker x.length p = 0 →
      ({ m with boundaryVector_ := m.boundaryVector_.set i (gridMarked x.length b) } : Mesh P R) =
        m := by
    intro h0
    have hb2 : gridMarked x.length b = b := by
      rw [hmark, h0, ← hm]
    have hset : m.boundaryVector_.set i b = m.boundaryVector_ := by
      have := map_set_of_eq (fun b : Boundary => b) hb (rfl : b = b)
      simpa using this
    rw [hb2, hset]
  have hn0 : b.nodes[0]? = some p := by
    rw [hbn]
    rfl
  have hnode2 : m.nodeVector_[p]? =
      some ⟨gops.point x[p] gops.zero gops.zero, gops.nodeMarker, (p : Int)⟩ := by
    rw [hnodes]
    exact hnode
  unfold markGridBoundary
  simp only [hbound, hn0, hnode2, hfirst]
  by_cases hfree : b.leftCell = none ∨ b.rightCell = none
  · rw [if_pos hfree]
    by_cases h0 : x[p] = x0
    · have hp0 : p = 0 := nodup_getElem?_inj hnd (hxp.trans (by rw [h0])) hx0
      rw [if_pos h0, hmark]
      simp [gridMarker, hp0]
    · have hp0 : p ≠ 0 := by
        intro h
        subst h
        rw [hxp] at hx0
        exact h0 (Option.some.inj hx0)
      rw [if_neg h0]
      by_cases h1 : x[p] = xn
      · have hp1 : p = x.length - 1 := nodup_getElem?_inj hnd (hxp.trans (by rw [h1])) hxn
        rw [if_pos h1, hmark]
        have : p + 1 = x.length := by omega
        simp [gridMarker, hp0, this]
      · have hp1 : p + 1 ≠ x.length := by
          intro h
          have h2 : x.length - 1 = p := by omega
          rw [h2, hxp] at hxn
          exact h1 (Option.some.inj hxn)
        rw [if_neg h1, hsame (by simp [gridMarker, hp0, hp1])]
  · rw [if_neg hfree]
    have hp0 : p ≠ 0 := fun h => hfree (hend (Or.inl h))
    have hp1 : p + 1 ≠ x.length := fun h => hfree (hend (Or.inr h))
    rw [hsame (by simp [gridMarker, hp0, hp1])]

theorem markGridBoundaries_spec [DecidableEq R] {w : Nat} {gops : GridOps P R} {x : List R}
    {x0 xn : R} (hfirst : ∀ a b c, gops.first (gops.point a b c) = a) (hnd : x.Nodup)
    (hx0 : x[0]? = some x0) (hxn : x[x.length - 1]? = some xn) :
    ∀ (rest pre : List Boundary) (m : Mesh P R), m.boundaryVector_ = pre ++ rest →
      m.nodeVector_ = gridNodes gops x → pre.length + rest.length < 2 ^ w →
      (∀ b ∈ rest, ∃ p, b.nodes = [p] ∧ p < x.length ∧ b.marker = 0 ∧
        ((p = 0 ∨ p + 1 = x.length) → b.leftCell = none ∨ b.rightCell = none)) →
      markGridBoundaries w gops x0 xn (List.range' pre.length rest.length) m =
        .ok { m with boundaryVector_ := pre ++ rest.map (gridMarked x.length) } := by
  intro rest
  induction rest with
  | nil =>
    intro pre m hbv _ _ _
    simp only [List.length_nil, List.range'_zero, markGridBoundaries, List.map_nil]
    rw [← hbv]
  | cons b rest ih =>
    intro pre m hbv hnodes hfit hrest
    obtain ⟨p, hbn, hp, hm, hend⟩ := hrest b (List.mem_cons_self _ _)
    have hb : m.boundaryVector_[pre.length]? = some b := by
      rw [hbv, List.getElem?_append_right (Nat.le_refl _)]
      simp
    have hcount : m.boundaryCount = pre.length + (rest.length + 1) := by
      unfold boundaryCount
      rw [hbv]
      simp
    simp only [List.length_cons] at hfit
    have hstep := markGridBoundary_spec (w := w) hfirst hnd hx0 hxn hnodes (by omega) hb hbn hp
      hm hend
    have hset : m.boundaryVector_.set pre.length (gridMarked x.length b) =
        (pre ++ [gridMarked x.length b]) ++ rest := by
      rw [hbv]
      simp
    rw [hset] at hstep
    have h := ih (pre ++ [gridMarked x.length b])
      { m with boundaryVector_ := (pre ++ [gridMarked x.length b]) ++ rest } rfl hnodes
      (by rw [List.length_append]; simp only [List.length_singleton]; omega)
      (fun b1 hb1 => hrest b1 (List.mem_cons_of_mem _ hb1))
    simp only [List.length_append, List.length_singleton] at h
    simp only [List.length_cons, List.range'_succ, markGridBoundaries, hstep]
    rw [h]
    simp


theorem gridCellList_keys [Inhabited R] (gops : GridOps P R) (k : Nat) :
    (gridCellList gops k : List (Cell R)).map cellKey = gridKeys k := by
  unfold gridCellList gridKeys
  rw [List.map_map]
  rfl

theorem two_marked {n k : Nat} (hk : 0 < k) (hn : n = k + 1) (L : List Boundary)
    (hnd : (L.map (fun b => b.nodes)).Nodup)
    (hcover : ∀ p, p < n → ∃ b ∈ L, b.nodes = [p])
    (hall : ∀ b ∈ L, ∃ p, p < n ∧ b.nodes = [p] ∧ b.marker = gridMarker n p) :
    L.countP (fun b => decide (b.marker ≠ 0)) = 2 := by
  rw [List.countP_eq_length_filter, ← List.length_map (L.filter _) (fun b => b.nodes)]
  have hsub : ((L.filter (fun b => decide (b.marker ≠ 0))).map (fun b => b.nodes)).Nodup :=
    List.Nodup.sublist (List.Sublist.map _ (List.filter_sublist L)) hnd
  have h2 : ([[0], [k]] : List (List Nat)).Nodup := by
    simp only [List.nodup_cons, List.mem_singleton, List.cons.injEq, and_true, List.not_mem_nil,
      not_false_eq_true, List.nodup_nil]
    omega
  have hperm : ((L.filter (fun b => decide (b.marker ≠ 0))).map (fun b => b.nodes)).Perm
      [[0], [k]] := by
    rw [List.perm_ext_iff_of_nodup hsub h2]
    intro a
    simp only [List.mem_map, List.mem_filter, decide_eq_true_eq, List.mem_cons,
      List.mem_singleton, List.not_mem_nil, or_false]
    constructor
    · rintro ⟨b, ⟨hbm, hmk⟩, rfl⟩
      obtain ⟨p, hp, hbn, hbm2⟩ := hall b hbm
      rw [hbn]
      rw [hbm2] at hmk
      unfold gridMarker at hmk
      by_cases h0 : p = 0
      · left
        rw [h0]
      · by_cases h1 : p + 1 = n
        · right
          have : p = k := by omega
          rw [this]
        · rw [if_neg h0, if_neg h1] at hmk
          exact absurd rfl hmk
    · rintro (rfl | rfl)
      · obtain ⟨b, hbm, hbn⟩ := hcover 0 (by omega)
        obtain ⟨p, hp, hbn2, hbm2⟩ := hall b hbm
        rw [hbn] at hbn2
        have hp0 : p = 0 := by simpa using hbn2.symm
        refine ⟨b, ⟨hbm, ?_⟩, hbn⟩
        rw [hbm2, hp0]
        simp [gridMarker]
      · obtain ⟨b, hbm, hbn⟩ := hcover k (by omega)
        obtain ⟨p, hp, hbn2, hbm2⟩ := hall b hbm
        rw [hbn] at hbn2
        have hpk : p = k := by simpa using hbn2.symm
        refine ⟨b, ⟨hbm, ?_⟩, hbn⟩
        rw [hbm2, hpk]
        have hk0 : k ≠ 0 := by omega
        simp [gridMarker, hk0, hn]
  rw [hperm.length_eq]
  rfl

/-- C26: for a list `x` of at least two strictly increasing values whose length
fits the counter, `create1DGrid(x)` returns a mesh of dimension 1 with node `i` at
`(x[i], 0, 0)`, the edge cell `i` over the nodes `i` and `i + 1` for every
`i < n - 1`, and `n` boundaries, one over each node, of which the one over node 0
has the marker 1, the one over node `n - 1` the marker 2 and every other one the
marker 0, so that exactly two boundaries are marked. The boundary creator finds
a boundary over the same point set or creates one; the two facets of an edge cell
are its two nodes; the neighbour that `findNeighbourCell` records is another cell
with a facet over the point set of the facet; and `pos[0]` of the position
`(a, b, c)` is `a`. -/
theorem create1DGrid_marks_two_ends [Preorder R] [DecidableEq R] [Inhabited R] (w : Nat)
    (ops : EntityOps P R) (gops : GridOps P R) (this : Mesh P R) (x : List R)
    (hx : x.Pairwise (fun a b => a < b)) (hn : 2 ≤ x.length) (hfit : x.length < 2 ^ w)
    (hfirst : ∀ a b c, gops.first (gops.point a b c) = a) (hedge : EdgeFacets ops)
    (hother : NeighbourIsOther ops) (hnb : NeighbourAcrossFacet ops (gridKeys (x.length - 1))) :
    ∃ r, create1DGrid w ops findOrCreateBoundary gops this x = .ok r ∧ GridOf gops x r := by
  have hnd : x.Nodup := List.Pairwise.imp (fun h => ne_of_lt h) hx
  cases x with
  | nil => simp at hn
  | cons x0 x =>
    cases x with
    | nil => simp at hn
    | cons x1 rest =>
      generalize hthis : Mesh.clear this = this0
      have hcl : this0.cellVector_ = [] ∧ this0.nodeVector_ = [] ∧ this0.boundaryVector_ = [] ∧
          this0.neighboursKnown_ = false := by
        rw [← hthis]
        exact ⟨rfl, rfl, rfl, rfl⟩
      generalize h1 : (createNode ({ this0 with dimension_ := 1 } : Mesh P R)
        (gops.point x0 gops.zero gops.zero) gops.nodeMarker).2 = this1
      have hp1 : this1.nodeVector_ = gridNodes gops [x0] ∧ this1.cellVector_ = [] ∧
          this1.boundaryVector_ = [] ∧ this1.neighboursKnown_ = false ∧ this1.dimension_ = 1 := by
        rw [← h1, createNode_eq]
        refine ⟨?_, hcl.1, hcl.2.2.1, hcl.2.2.2, rfl⟩
        simp only [nodeCount, hcl.2.1, gridNodes]
        rfl
      simp only [List.length_cons] at hfit hnb
      have hcells := gridCells_spec w gops (x1 :: rest) [x0] 0 this1 rfl
        (by simp only [List.length_cons, List.length_nil]; omega) hp1.1 (by rw [hp1.2.1]; rfl)
      simp only [List.length_cons, Nat.zero_add, List.singleton_append] at hcells
      generalize hG : ({ this1 with nodeVector_ := gridNodes gops (x0 :: x1 :: rest), cellVector_ := gridCellList gops (rest.length + 1) } : Mesh P R) = G at hcells
      have hpG : G.nodeVector_ = gridNodes gops (x0 :: x1 :: rest) ∧
          G.cellVector_ = gridCellList gops (rest.length + 1) ∧ G.boundaryVector_ = [] ∧
          G.neighboursKnown_ = false ∧ G.dimension_ = 1 := by
        rw [← hG]
        exact ⟨rfl, rfl, hp1.2.2.1, hp1.2.2.2.1, hp1.2.2.2.2⟩
      have hnb2 : NeighbourAcrossFacet ops (gridKeys (rest.length + 1)) := by
        have he : rest.length + 1 + 1 - 1 = rest.length + 1 := by omega
        rw [he] at hnb
        exact hnb
      obtain ⟨r4, h4, d1, d2, d3, hNF, d5, hcover, hall⟩ := grid_derivation hedge hother hnb2
        (Nat.succ_pos _) G (by rw [hpG.2.1]; exact gridCellList_keys gops _) hpG.2.2.1
        hpG.2.2.2.1
      have hxn : (x0 :: x1 :: rest)[(x0 :: x1 :: rest).length - 1]? =
          some ((x1 :: rest).getLastD x1) := by
        rw [← List.getLast?_eq_getElem?, List.getLastD_eq_getLast?]
        rw [List.getLast?_cons_cons]
        cases hl : (x1 :: rest).getLast? with
        | none => simp at hl
        | some v => rfl
      have hx0e : (x0 :: x1 :: rest)[0]? = some x0 := rfl
      have hmark := markGridBoundaries_spec (w := w) hfirst hnd hx0e hxn
        r4.boundaryVector_ [] r4 rfl (d2.trans hpG.1)
        (by
          have : r4.boundaryVector_.length = rest.length + 1 + 1 := d5
          simp only [List.length_nil, Nat.zero_add]
          omega)
        (fun b hbm => by
          obtain ⟨-, hm0, p, hbn⟩ := hNF.1 b hbm
          obtain ⟨g1, g2⟩ := hall b hbm p hbn
          refine ⟨p, hbn, by simp only [List.length_cons]; omega, hm0, fun hend => g2 ?_⟩
          simp only [List.length_cons] at hend
          omega)
      simp only [List.length_nil, List.nil_append] at hmark
      rw [← List.range_eq_range'] at hmark
      obtain ⟨r5, hr5⟩ : ∃ t : Mesh P R, t = { r4 with boundaryVector_ := List.map (gridMarked (x0 :: x1 :: rest).length) r4.boundaryVector_ } :=
        ⟨_, rfl⟩
      rw [← hr5] at hmark
      have hp5 : r5.dimension_ = r4.dimension_ ∧ r5.nodeVector_ = r4.nodeVector_ ∧
          r5.cellVector_ = r4.cellVector_ ∧
          r5.boundaryVector_ = r4.boundaryVector_.map (gridMarked (x0 :: x1 :: rest).length) := by
        rw [hr5]
        exact ⟨rfl, rfl, rfl, rfl⟩
      have hrun : create1DGrid w ops findOrCreateBoundary gops this (x0 :: x1 :: rest) = .ok r5 := by
        simp only [create1DGrid, hthis, h1, hcells, h4]
        exact hmark
      refine ⟨r5, hrun, ?_⟩
      · have hall2 : ∀ b ∈ r4.boundaryVector_.map (gridMarked (x0 :: x1 :: rest).length),
            ∃ p, p < (x0 :: x1 :: rest).length ∧ b.nodes = [p] ∧ b.shape = .NodeBoundary ∧
              b.marker = gridMarker (x0 :: x1 :: rest).length p := by
          intro b hbm
          rw [List.mem_map] at hbm
          obtain ⟨b0, hb0, rfl⟩ := hbm
          obtain ⟨hs, -, p, hbn⟩ := hNF.1 b0 hb0
          refine ⟨p, ?_, hbn, hs, ?_⟩
          · have := (hall b0 hb0 p hbn).1
            simp only [List.length_cons]
            omega
          · show gridMarker _ (b0.nodes.headD 0) = _
            rw [hbn]
            rfl
        have hcover2 : ∀ p, p < (x0 :: x1 :: rest).length →
            ∃ b ∈ r4.boundaryVector_.map (gridMarked (x0 :: x1 :: rest).length), b.nodes = [p] := by
          intro p hp
          simp only [List.length_cons] at hp
          obtain ⟨b, hbm, hbn⟩ := hcover p (by omega)
          exact ⟨gridMarked _ b, List.mem_map.mpr ⟨b, hbm, rfl⟩, hbn⟩
        rw [← hp5.2.2.2] at hall2 hcover2
        refine ⟨hp5.1.trans (d1.trans hpG.2.2.2.2), hp5.2.1.trans (d2.trans hpG.1), ?_, ?_,
          hcover2, hall2, ?_⟩
        · rw [hp5.2.2.1, d3, hpG.2.1]
          rfl
        · unfold boundaryCount
          rw [hp5.2.2.2, List.length_map]
          exact d5
        · refine two_marked (k := rest.length + 1) (Nat.succ_pos _) rfl _ ?_ hcover2
            (fun b hbm => by
              obtain ⟨p, g1, g2, -, g4⟩ := hall2 b hbm
              exact ⟨p, g1, g2, g4⟩)
          rw [hp5.2.2.2, List.map_map]
          exact hNF.2

theorem edgeFacets_edgeOps : EdgeFacets edgeOps :=
  ⟨rfl, fun _ _ => Or.inl ⟨rfl, rfl⟩⟩

theorem neighbourIsOther_edgeOps : NeighbourIsOther edgeOps := by
  intro m ci j x h
  cases h

/-- Witness of C26: the grid over the positions 0, 1, 2, 3 has 4 nodes, 3 cells
and 4 boundaries, with the markers 1, 0, 0, 2. -/
theorem create1DGrid_marks_two_ends_witness :
    ([0, 1, 2, 3] : List Int).Pairwise (fun a b => a < b) ∧
    EdgeFacets edgeOps ∧ NeighbourIsOther edgeOps ∧
    (create1DGrid 32 edgeOps findOrCreateBoundary lineGridOps emptyMesh [0, 1, 2, 3]).toOption.map
      (fun r => (r.nodeCount, r.cellCount, r.boundaryVector_.map (fun b => (b.nodes, b.marker)))) =
      some (4, 3, [([0], 1), ([1], 0), ([2], 0), ([3], 2)]) ∧
    ∃ r, create1DGrid 32 edgeOps findOrCreateBoundary lineGridOps emptyMesh [0, 1, 2, 3] = .ok r ∧
      GridOf lineGridOps [0, 1, 2, 3] r :=
  ⟨by decide, edgeFacets_edgeOps, neighbourIsOther_edgeOps, by decide,
   create1DGrid_marks_two_ends 32 edgeOps lineGridOps emptyMesh [0, 1, 2, 3] (by decide)
     (by decide) (by decide) (fun _ _ _ => rfl) edgeFacets_edgeOps neighbourIsOther_edgeOps
     (neighbourAcrossFacet_edgeOps _)⟩

/-! ## The marker of a node between two nodes is symmetric -/

theorem markerT_comm (a b : Node P) : markerT a b = markerT b a := by
  unfold markerT
  by_cases h0 : a.marker = -99 <;> by_cases h1 : b.marker = -99 <;>
    by_cases h2 : a.marker = b.marker <;> simp [h0, h1, h2, eq_comm]

/-- C39: `markerT` is symmetric, and its value is -1 if both markers are the
sentinel -99, the marker of the other node if exactly one is, the common marker
if the two (non-sentinel) markers are equal, and 0 otherwise. The node that
`createRefinementNode_` creates between two distinct nodes therefore has the
same marker whichever of the two orders the request uses. -/
theorem markerT_is_symmetric [Add P] [HDiv P R P] [OfNat R 2] (m : Mesh P R)
    (a b : NodeRef P) (M M1 : NodeMatrix) (hab : a.ptr ≠ b.ptr)
    (hnew : M (a.node.id, b.node.id) = none) (hnew1 : M1 (b.node.id, a.node.id) = none) :
    markerT a.node b.node = markerT b.node a.node ∧
    (a.node.marker = -99 → b.node.marker = -99 → markerT a.node b.node = -1) ∧
    (a.node.marker = -99 → b.node.marker ≠ -99 → markerT a.node b.node = b.node.marker) ∧
    (a.node.marker ≠ -99 → b.node.marker = -99 → markerT a.node b.node = a.node.marker) ∧
    (a.node.marker ≠ -99 → b.node.marker ≠ -99 → a.node.marker = b.node.marker →
      markerT a.node b.node = a.node.marker) ∧
    (a.node.marker ≠ -99 → b.node.marker ≠ -99 → a.node.marker ≠ b.node.marker →
      markerT a.node b.node = 0) ∧
    ((createRefinementNode_ m a b M).2.1.nodeVector_[(createRefinementNode_ m a b M).1]?).map
        (fun n => n.marker) = some (markerT a.node b.node) ∧
    ((createRefinementNode_ m b a M1).2.1.nodeVector_[(createRefinementNode_ m b a M1).1]?).map
        (fun n => n.marker) = some (markerT a.node b.node) := by
  refine ⟨markerT_comm _ _, ?_, ?_, ?_, ?_, ?_, ?_, ?_⟩
  · intro h0 h1; simp [markerT, h0, h1]
  · intro h0 h1; simp [markerT, h0, h1]
  · intro h0 h1; simp [markerT, h0, h1]
  · intro h0 h1 h2
    unfold markerT
    rw [if_neg (fun h => h0 h.1), if_neg h0, if_neg h1, if_pos h2, h2]
  · intro h0 h1 h2
    unfold markerT
    rw [if_neg (fun h => h0 h.1), if_neg h0, if_neg h1, if_neg h2]
  · rw [createRefinementNode_of_none m a b M hab hnew]
    simp [nodeCount]
  · rw [createRefinementNode_of_none m b a M1 (Ne.symm hab) hnew1, markerT_comm a.node b.node]
    simp [nodeCount]

/-- Witness of C39: nodes of markers -99 and 3; the node between them gets
marker 3 in either order. -/
theorem markerT_is_symmetric_witness :
    markerT ({ pos := 10, marker := -99, id := 1 } : Node Int) { pos := 1, marker := 3, id := 2 } =
      markerT ({ pos := 1, marker := 3, id := 2 } : Node Int) { pos := 10, marker := -99, id := 1 } ∧
    markerT ({ pos := 10, marker := -99, id := 1 } : Node Int) { pos := 1, marker := 3, id := 2 } =
      3 :=
  ⟨(markerT_is_symmetric (oneTriangle (-99) (-99) 3 5)
      (ownRef 1 { pos := 10, marker := -99, id := 1 }) (ownRef 2 { pos := 1, marker := 3, id := 2 })
      emptyMatrix emptyMatrix (by decide) rfl rfl).1,
   by decide⟩

/-! ## The side assignment and its mirror image -/

theorem crossCheckFails_mirrored (c : Nat) (b : Boundary) :
    crossCheckFails c b.mirrored = crossCheckFails c b := by
  unfold crossCheckFails Boundary.mirrored
  simp only [decide_eq_decide]
  constructor
  · rintro (⟨h1, h2⟩ | h)
    · exact Or.inl ⟨h2, h1⟩
    · exact Or.inr h.symm
  · rintro (⟨h1, h2⟩ | h)
    · exact Or.inl ⟨h2, h1⟩
    · exact Or.inr h.symm

/-- Counterexample to C32: a boundary whose left cell is cell 1 and whose right
side is free, visited by cell 0 with the orientation outcome "left": the step
makes cell 0 the right cell and the cross check passes. On the mirrored input
(right cell 1, left side free, outcome "right") the step assigns nothing and the
cross check raises the error. -/
theorem side_assignment_is_not_symmetric :
    sideStep 0 none true ⟨.Edge, [0, 1], 0, 0, some 1, none⟩ =
      some ⟨.Edge, [0, 1], 0, 0, some 1, some 0⟩ ∧
    assignSides 0 none false (Boundary.mirrored ⟨.Edge, [0, 1], 0, 0, some 1, none⟩) =
      (⟨.Edge, [0, 1], 0, 0, none, some 1⟩, false) ∧
    sideStep 0 none false (Boundary.mirrored ⟨.Edge, [0, 1], 0, 0, some 1, none⟩) = none := by
  decide

/-- C32, amended: the assignment step with its cross check gives, on the
mirrored input (sides exchanged, orientation outcome negated), the mirror image
of its result, if and only if it is not the case that the boundary has one free
side, the orientation test names the other side, and that other side holds a
cell other than `c`. -/
theorem side_assignment_mirror (c : Nat) (neighbour : Option Nat) (isLeft : Bool)
    (bound : Boundary) :
    (sideStep c neighbour (!isLeft) bound.mirrored =
      (sideStep c neighbour isLeft bound).map Boundary.mirrored) ↔
    ¬ FreeSideDiffers c isLeft bound := by
  obtain ⟨shape, nodes, marker, id, l, r⟩ := bound
  unfold FreeSideDiffers sideStep assignSides crossCheckFails Boundary.mirrored
  cases isLeft <;> rcases l with _ | l <;> rcases r with _ | r <;> rcases neighbour with _ | nb
  all_goals simp
  all_goals (split_ifs <;> simp_all)
  all_goals omega

/-! ## Search of cells by attribute -/

theorem cell_getElem? {w : Nat} {m : Mesh P R} {i : Nat} {c : Cell R}
    (h : cell w m i = .ok c) : m.cellVector_[i]? = some c := by
  unfold cell at h
  split at h
  · cases h
  · split at h
    · rename_i c1 hc
      cases h
      exact hc
    · cases h

theorem collectCells_eq (w : Nat) (m : Mesh P R) (test : Cell R → Bool)
    (hfit : m.cellCount < 2 ^ w) :
    ∀ (l vCell : List Nat), (∀ i ∈ l, i < m.cellCount) →
      Mesh.collectCells w m test l vCell =
        .ok (vCell ++ l.filter (fun i =>
          match m.cellVector_[i]? with
          | some c => test c
          | none => false)) := by
  intro l
  induction l with
  | nil => intro vCell _; simp [Mesh.collectCells]
  | cons i l ih =>
    intro vCell hl
    obtain ⟨c, hc, hcell⟩ := cell_of_lt (w := w) (m := m) (i := i)
      (hl i (List.mem_cons_self _ _)) hfit
    simp only [Mesh.collectCells, hcell]
    rw [ih _ (fun x hx => hl x (List.mem_cons_of_mem _ hx)), List.filter_cons, hc]
    by_cases ht : test c = true
    · simp [ht]
    · simp [ht]

theorem collectCells_range (w : Nat) (m : Mesh P R) (test : Cell R → Bool)
    (hfit : m.cellCount < 2 ^ w) :
    Mesh.collectCells w m test (List.range m.cellCount) [] = .ok (m.cellsWith test) := by
  rw [collectCells_eq w m test hfit _ _ (fun i hi => List.mem_range.mp hi)]
  rfl

theorem mem_cellsWith {m : Mesh P R} {test : Cell R → Bool} {i : Nat} :
    i ∈ m.cellsWith test ↔ ∃ c, m.cellVector_[i]? = some c ∧ test c = true := by
  unfold Mesh.cellsWith
  rw [List.mem_filter, List.mem_range]
  constructor
  · rintro ⟨hi, h⟩
    rw [List.getElem?_eq_getElem hi] at h
    exact ⟨_, List.getElem?_eq_getElem hi, h⟩
  · rintro ⟨c, hc, ht⟩
    obtain ⟨hi, -⟩ := List.getElem?_eq_some.mp hc
    refine ⟨hi, ?_⟩
    rw [hc]
    exact ht

/-- C40, what the code does: for a mesh whose cell count fits the counter and
with `-1 < TOLERANCE`, `findCellByAttribute(from, to)` returns, in the order of
the cell vector, with `to >= TOLERANCE` exactly the cells with
`from <= attribute < to`, and with `to < TOLERANCE` exactly the cells with
`attribute - from < TOLERANCE`, whatever lies below `from` included; `to == -1`
is below `TOLERANCE` and selects the second form, so the replacement of `-1` by
`MAX_DOUBLE` is never reached. -/
theorem findCellByAttribute_selects [LinearOrder R] [Sub R] (w : Nat) (k : DoubleConstants R)
    (m : Mesh P R) (from_ to_ : R) (hfit : m.cellCount < 2 ^ w)
    (hk : k.minusOne < k.TOLERANCE) :
    (k.TOLERANCE ≤ to_ →
      Mesh.findCellByAttribute w k m from_ to_ = .ok (m.cellsWith (fun c =>
        decide (from_ ≤ c.attribute_) && decide (c.attribute_ < to_))) ∧
      ∀ i, i ∈ m.cellsWith (fun c => decide (from_ ≤ c.attribute_) && decide (c.attribute_ < to_))
        ↔ ∃ c, m.cellVector_[i]? = some c ∧ from_ ≤ c.attribute_ ∧ c.attribute_ < to_) ∧
    (to_ < k.TOLERANCE →
      Mesh.findCellByAttribute w k m from_ to_ = .ok (m.cellsWith (fun c =>
        decide (c.attribute_ - from_ < k.TOLERANCE))) ∧
      ∀ i, i ∈ m.cellsWith (fun c => decide (c.attribute_ - from_ < k.TOLERANCE))
        ↔ ∃ c, m.cellVector_[i]? = some c ∧ c.attribute_ - from_ < k.TOLERANCE) ∧
    Mesh.findCellByAttribute w k m from_ k.minusOne = .ok (m.cellsWith (fun c =>
      decide (c.attribute_ - from_ < k.TOLERANCE))) := by
  refine ⟨fun hto => ⟨?_, fun i => ?_⟩, fun hto => ⟨?_, fun i => ?_⟩, ?_⟩
  · have hne : to_ ≠ k.minusOne := by
      intro h
      rw [h] at hto
      exact absurd hk (not_lt.mpr hto)
    unfold Mesh.findCellByAttribute
    rw [if_neg (not_lt.mpr hto)]
    simp only [if_neg hne]
    exact collectCells_range w m _ hfit
  · rw [mem_cellsWith]
    simp
  · unfold Mesh.findCellByAttribute
    rw [if_pos hto]
    exact collectCells_range w m _ hfit
  · rw [mem_cellsWith]
    simp
  · unfold Mesh.findCellByAttribute
    rw [if_pos hk]
    exact collectCells_range w m _ hfit

/-- Witness of C40: on three cells with the attributes 0, 5 and 9, the range
from 5 to 9 selects cell 1. -/
theorem findCellByAttribute_selects_witness :
    attributeLine.cellCount < 2 ^ 32 ∧ intConstants.minusOne < intConstants.TOLERANCE ∧
    Mesh.findCellByAttribute 32 intConstants attributeLine 5 9 = .ok [1] :=
  ⟨by decide, by decide,
   ((findCellByAttribute_selects 32 intConstants attributeLine 5 9 (by decide) (by decide)).1
      (by decide)).1.trans rfl⟩

/-- Counterexample to C40: three cells with the attributes 0, 5 and 9, with
`TOLERANCE` 1. The single-value form for 5 (`to` is 0) returns the cells 0 and 1:
cell 0, whose attribute 0 lies below 5 by more than `TOLERANCE`, is returned.
With `to == -1` the call returns the same two cells and not the cells with an
attribute of at least 5 (cells 1 and 2). -/
theorem single_value_form_is_one_sided :
    attributeLine.cellAttributes = [0, 5, 9] ∧
    Mesh.findCellByAttribute 32 intConstants attributeLine 5 0 = .ok [0, 1] ∧
    Mesh.findCellByAttribute 32 intConstants attributeLine 5 (-1) = .ok [0, 1] :=
  ⟨rfl, rfl, rfl⟩

/-! ## Renumbering of the nodes -/

theorem setIdsFrom_ok (perm : List Int) :
    ∀ (l : List (Node P)) (i : Nat), i + l.length ≤ perm.length →
      ∃ r, Mesh.setIdsFrom perm l i = .ok r ∧ r.length = l.length ∧
        ∀ k nd, l[k]? = some nd → ∃ p, perm[i + k]? = some p ∧ r[k]? = some { nd with id := p } := by
  intro l
  induction l with
  | nil => intro i _; exact ⟨[], rfl, rfl, by simp⟩
  | cons n rest ih =>
    intro i hi
    simp only [List.length_cons] at hi
    obtain ⟨r, hr, hlen, hall⟩ := ih (i + 1) (by omega)
    have hp : perm[i]? = some perm[i] := List.getElem?_eq_getElem (by omega)
    refine ⟨{ n with id := perm[i] } :: r, ?_, by simp [hlen], ?_⟩
    · simp only [Mesh.setIdsFrom, hp, hr]
    · intro k nd hk
      cases k with
      | zero =>
        simp only [List.getElem?_cons_zero, Option.some.injEq] at hk
        subst hk
        exact ⟨perm[i], hp, by simp⟩
      | succ k =>
        simp only [List.getElem?_cons_succ] at hk
        obtain ⟨p, hp1, hp2⟩ := hall k nd hk
        refine ⟨p, ?_, ?_⟩
        · rw [← hp1]; congr 1; omega
        · simpa using hp2

theorem recountFrom_getElem? :
    ∀ (l : List (Node P)) (i k : Nat),
      (Mesh.recountFrom l i)[k]? = (l[k]?).map (fun n => { n with id := ((i + k : Nat) : Int) }) := by
  intro l
  induction l with
  | nil => intro i k; simp [Mesh.recountFrom]
  | cons n rest ih =>
    intro i k
    cases k with
    | zero => simp [Mesh.recountFrom]
    | succ k =>
      simp only [Mesh.recountFrom, List.getElem?_cons_succ]
      rw [ih]
      congr 1
      funext x
      congr 2
      omega

theorem recountFrom_length : ∀ (l : List (Node P)) (i : Nat),
    (Mesh.recountFrom l i).length = l.length := by
  intro l
  induction l with
  | nil => intro i; rfl
  | cons n rest ih => intro i; simp [Mesh.recountFrom, ih]

theorem idsAreIndices_recountNodes (m : Mesh P R) : IdsAreIndices (Mesh.recountNodes m) := by
  intro i n hn
  unfold Mesh.recountNodes at hn
  simp only [recountFrom_getElem?, Option.map_eq_some'] at hn
  obtain ⟨x, -, hx⟩ := hn
  subst hx
  simp

theorem sortsById_insertionSortById : SortsById (insertionSortById (P := P)) := by
  intro l
  unfold insertionSortById
  refine ⟨List.perm_insertionSort _ l, ?_⟩
  have hs : (l.insertionSort (fun a b : Nat × Node P => a.2.id ≤ b.2.id)).Sorted
      (fun a b => a.2.id ≤ b.2.id) := by
    haveI : IsTotal (Nat × Node P) (fun a b => a.2.id ≤ b.2.id) := ⟨fun a b => le_total _ _⟩
    haveI : IsTrans (Nat × Node P) (fun a b => a.2.id ≤ b.2.id) :=
      ⟨fun a b c h1 h2 => le_trans h1 h2⟩
    exact List.sorted_insertionSort _ l
  exact hs.imp (fun h => not_lt.mpr h)

theorem sorted_ids_eq_range {S : List (Nat × Node P)} {perm : List Int} {n : Nat}
    (hperm : perm.Perm ((List.range n).map (fun k : Nat => (k : Int))))
    (hS : (S.map (fun e => e.2.id)).Perm perm)
    (hsorted : S.Pairwise (fun a b => ¬ b.2.id < a.2.id)) :
    S.map (fun e => e.2.id) = (List.range n).map (fun k : Nat => (k : Int)) := by
  refine List.eq_of_perm_of_sorted (r := fun a b : Int => a ≤ b) (hS.trans hperm) ?_ ?_
  · rw [List.Sorted, List.pairwise_map]
    exact hsorted.imp (fun h => not_lt.mp h)
  · rw [List.Sorted, List.pairwise_map]
    refine (List.pairwise_lt_range n).imp ?_
    intro a b hab
    exact_mod_cast Nat.le_of_lt hab

/-- C38: for a mesh with `n` nodes and a vector `perm` with `n` entries,
`sortNodes(perm)` returns, the node count stays, and every node of the result
has its index as id, as after `recountNodes()`. If `perm` is a permutation of
`0 .. n - 1`, the node that was stored at index `i` is stored at index `perm[i]`
afterwards and has the id `perm[i]`, with its position and its marker. The
sorting routine is any that returns the pointers ordered by id. -/
theorem sortNodes_places_nodes (sort : List (Nat × Node P) → List (Nat × Node P))
    (m : Mesh P R) (perm : List Int) (hsort : SortsById sort)
    (hlen : perm.length = m.nodeCount) :
    IdsAreIndices (Mesh.recountNodes m) ∧
    ∃ r, Mesh.sortNodes sort m perm = .ok r ∧ r.nodeCount = m.nodeCount ∧ IdsAreIndices r ∧
      (perm.Perm ((List.range m.nodeCount).map (fun k : Nat => (k : Int))) →
        ∀ (i : Nat) (nd : Node P) (p : Int), m.nodeVector_[i]? = some nd → perm[i]? = some p →
          r.nodeVector_[p.toNat]? = some { nd with id := p }) := by
  refine ⟨idsAreIndices_recountNodes m, ?_⟩
  obtain ⟨l, hl, hllen, hlall⟩ := setIdsFrom_ok perm m.nodeVector_ 0
    (by simp only [nodeCount] at hlen; omega)
  obtain ⟨hSperm, hSsorted⟩ := hsort l.enum
  unfold Mesh.sortNodes
  rw [hl]
  refine ⟨_, rfl, ?_, idsAreIndices_recountNodes _, ?_⟩
  · simp only [Mesh.recountNodes, nodeCount, recountFrom_length, List.length_map]
    rw [hSperm.length_eq, List.enum_length, hllen]
  · intro hperm i nd p hi hp
    have hids : (l.map (fun n => n.id)) = perm := by
      apply List.ext_getElem?
      intro k
      rw [List.getElem?_map]
      by_cases hk : k < m.nodeVector_.length
      · obtain ⟨q, hq1, hq2⟩ := hlall k _ (List.getElem?_eq_getElem hk)
        rw [Nat.zero_add] at hq1
        rw [hq2, hq1]
        rfl
      · rw [List.getElem?_eq_none (by omega), List.getElem?_eq_none (by simp only [nodeCount] at hlen; omega)]
        rfl
    have hSids : ((sort l.enum).map (fun e => e.2.id)).Perm perm := by
      have h1 : ((sort l.enum).map (fun e => e.2.id)).Perm (l.enum.map (fun e => e.2.id)) :=
        hSperm.map _
      have h2 : l.enum.map (fun e => e.2.id) = l.map (fun n => n.id) := by
        have h3 : l.enum.map (fun e => e.2.id) =
            (l.enum.map (fun e : Nat × Node P => e.2)).map (fun n : Node P => n.id) := by
          rw [List.map_map]
          rfl
        rw [h3, List.enum_map_snd]
      rw [h2, hids] at h1
      exact h1
    have hrange := sorted_ids_eq_range hperm hSids hSsorted
    obtain ⟨q, hq1, hq2⟩ := hlall i nd hi
    rw [Nat.zero_add, hp] at hq1
    cases hq1
    have hmem : (i, ({ nd with id := p } : Node P)) ∈ sort l.enum := by
      rw [hSperm.mem_iff]
      exact List.mk_mem_enum_iff_getElem?.mpr hq2
    obtain ⟨k, hk, hkeq⟩ := List.getElem_of_mem hmem
    have hkid : ((sort l.enum).map (fun e => e.2.id))[k]? = some p := by
      rw [List.getElem?_map, List.getElem?_eq_getElem hk, hkeq]
      rfl
    rw [hrange, List.getElem?_map] at hkid
    have hkn : k < m.nodeCount := by
      by_contra hcon
      rw [List.getElem?_eq_none (by simp; omega)] at hkid
      cases hkid
    rw [List.getElem?_range hkn] at hkid
    simp only [Option.map_some', Option.some.injEq] at hkid
    subst hkid
    simp only [Mesh.recountNodes, recountFrom_getElem?, Int.toNat_ofNat, List.getElem?_map,
      List.getElem?_eq_getElem hk, hkeq, Option.map_some', Nat.zero_add]

/-- Witness of C38: three nodes and the permutation `[2, 0, 1]`, sorted by
insertion. -/
theorem sortNodes_places_nodes_witness :
    ([2, 0, 1] : List Int).length = (threeNodes 2 0 0 0).nodeCount ∧
    ∃ r, Mesh.sortNodes insertionSortById (threeNodes 2 0 0 0) [2, 0, 1] = .ok r ∧
      r.nodeCount = (threeNodes 2 0 0 0).nodeCount ∧ IdsAreIndices r :=
  ⟨rfl,
   (sortNodes_places_nodes insertionSortById (threeNodes 2 0 0 0) [2, 0, 1]
      sortsById_insertionSortById rfl).2.imp (fun _ h => ⟨h.1, h.2.1, h.2.2.1⟩)⟩

/-! ## The cached bounding box -/

theorem foldl_box [LinearOrder R] (j : Fin 3) :
    ∀ (l : List (Node (Fin 3 → R))) (lo hi : Fin 3 → R),
      (∀ n ∈ l, (l.foldl (fun (box : (Fin 3 → R) × (Fin 3 → R)) n =>
          (fun j => min (n.pos j) (box.1 j), fun j => max (n.pos j) (box.2 j))) (lo, hi)).1 j
            ≤ n.pos j ∧
        n.pos j ≤ (l.foldl (fun (box : (Fin 3 → R) × (Fin 3 → R)) n =>
          (fun j => min (n.pos j) (box.1 j), fun j => max (n.pos j) (box.2 j))) (lo, hi)).2 j) ∧
      (l.foldl (fun (box : (Fin 3 → R) × (Fin 3 → R)) n =>
          (fun j => min (n.pos j) (box.1 j), fun j => max (n.pos j) (box.2 j))) (lo, hi)).1 j
        ≤ lo j ∧
      hi j ≤ (l.foldl (fun (box : (Fin 3 → R) × (Fin 3 → R)) n =>
          (fun j => min (n.pos j) (box.1 j), fun j => max (n.pos j) (box.2 j))) (lo, hi)).2 j ∧
      ((l.foldl (fun (box : (Fin 3 → R) × (Fin 3 → R)) n =>
          (fun j => min (n.pos j) (box.1 j), fun j => max (n.pos j) (box.2 j))) (lo, hi)).1 j
          = lo j ∨
        ∃ n ∈ l, n.pos j = (l.foldl (fun (box : (Fin 3 → R) × (Fin 3 → R)) n =>
          (fun j => min (n.pos j) (box.1 j), fun j => max (n.pos j) (box.2 j))) (lo, hi)).1 j) ∧
      ((l.foldl (fun (box : (Fin 3 → R) × (Fin 3 → R)) n =>
          (fun j => min (n.pos j) (box.1 j), fun j => max (n.pos j) (box.2 j))) (lo, hi)).2 j
          = hi j ∨
        ∃ n ∈ l, n.pos j = (l.foldl (fun (box : (Fin 3 → R) × (Fin 3 → R)) n =>
          (fun j => min (n.pos j) (box.1 j), fun j => max (n.pos j) (box.2 j))) (lo, hi)).2 j) := by
  intro l
  induction l with
  | nil =>
    intro lo hi
    simp
  | cons a l ih =>
    intro lo hi
    simp only [List.foldl_cons]
    obtain ⟨h1, h2, h3, h4, h5⟩ := ih (fun j => min (a.pos j) (lo j)) (fun j => max (a.pos j) (hi j))
    refine ⟨?_, ?_, ?_, ?_, ?_⟩
    · intro n hn
      rcases List.mem_cons.mp hn with hn | hn
      · subst hn
        exact ⟨le_trans h2 (min_le_left _ _), le_trans (le_max_left _ _) h3⟩
      · exact h1 n hn
    · exact le_trans h2 (min_le_right _ _)
    · exact le_trans (le_max_right _ _) h3
    · rcases h4 with h4 | ⟨n, hn, h4⟩
      · rcases min_choice (a.pos j) (lo j) with hc | hc
        · right
          exact ⟨a, List.mem_cons_self _ _, by rw [h4]; exact hc.symm⟩
        · left
          rw [h4]; exact hc
      · right
        exact ⟨n, List.mem_cons_of_mem _ hn, h4⟩
    · rcases h5 with h5 | ⟨n, hn, h5⟩
      · rcases max_choice (a.pos j) (hi j) with hc | hc
        · right
          exact ⟨a, List.mem_cons_self _ _, by rw [h5]; exact hc.symm⟩
        · left
          rw [h5]; exact hc
      · right
        exact ⟨n, List.mem_cons_of_mem _ hn, h5⟩

theorem rangeValid_findRange [LinearOrder R] [Neg R] (MAX_DOUBLE : R) (m : RangeMesh R)
    (hv : RangeValid m)
    (hrange : ∀ n ∈ m.nodeVector_, ∀ j, - MAX_DOUBLE ≤ n.pos j ∧ n.pos j ≤ MAX_DOUBLE) :
    RangeValid (m.findRange_ MAX_DOUBLE) := by
  unfold RangeMesh.findRange_
  split
  · exact hv
  · intro _ hne j
    obtain ⟨h1, h2, h3, h4, h5⟩ := foldl_box j m.nodeVector_ (fun _ => MAX_DOUBLE)
      (fun _ => - MAX_DOUBLE)
    obtain ⟨n0, hn0⟩ := List.exists_mem_of_ne_nil _ hne
    refine ⟨h1, ?_, ?_⟩
    · rcases h4 with h4 | h4
      · refine ⟨n0, hn0, le_antisymm ?_ (h1 n0 hn0).1⟩
        exact le_trans (hrange n0 hn0 j).2 (le_of_eq h4.symm)
      · exact h4
    · rcases h5 with h5 | h5
      · refine ⟨n0, hn0, le_antisymm (h1 n0 hn0).2 ?_⟩
        exact le_trans (le_of_eq h5) (hrange n0 hn0 j).1
      · exact h5

theorem createNodeWithCheck_rangesKnown (ext : Mesh.Externals P R) (m : Mesh P R) (pos : P)
    (tol : R) : (Mesh.createNodeWithCheck ext m pos tol).2.rangesKnown_ = m.rangesKnown_ := by
  have h0 : (Mesh.fillKDTree_ m).2.rangesKnown_ = m.rangesKnown_ := by
    unfold Mesh.fillKDTree_
    dsimp only
    split_ifs <;> rfl
  unfold Mesh.createNodeWithCheck
  rcases hf : Mesh.fillKDTree_ m with ⟨r, m1⟩
  rw [hf] at h0
  cases r with
  | error e => exact h0
  | ok u =>
    dsimp only
    split
    · exact h0
    · split
      · exact h0
      · split
        · exact h0
        · exact h0


theorem createBoundary_rangesKnown {cbc : BoundaryCreator P R} (hcbc : KeepsRangeFlag cbc)
    (m : Mesh P R) (ns : List Nat) (marker : Int) :
    (createBoundary cbc m ns marker).2.rangesKnown_ = m.rangesKnown_ := by
  unfold createBoundary
  split <;> (try split) <;> first | exact hcbc _ _ _ _ | rfl

theorem createCell_rangesKnown [Inhabited R] (m : Mesh P R) (ns : List Nat) (marker : Int) :
    (createCell m ns marker).2.rangesKnown_ = m.rangesKnown_ := by
  unfold createCell
  split <;> (try split) <;> rfl

theorem copyAllNodes_rangesKnown (w : Nat) (mesh : Mesh P R) :
    ∀ (l : List Nat) (this r : Mesh P R), Mesh.copyAllNodes w mesh l this = .ok r →
      r.rangesKnown_ = this.rangesKnown_ := by
  intro l
  induction l with
  | nil =>
    intro this r h
    simp only [Mesh.copyAllNodes] at h
    cases h
    rfl
  | cons i l ih =>
    intro this r h
    simp only [Mesh.copyAllNodes] at h
    split at h
    · cases h
    · have h1 := ih _ _ h
      exact h1

theorem copyAllBoundaries_rangesKnown (w : Nat) {cbc : BoundaryCreator P R}
    (hcbc : KeepsRangeFlag cbc) (mesh : Mesh P R) :
    ∀ (l : List Nat) (this r : Mesh P R), Mesh.copyAllBoundaries w cbc mesh l this = .ok r →
      r.rangesKnown_ = this.rangesKnown_ := by
  intro l
  induction l with
  | nil =>
    intro this r h
    simp only [Mesh.copyAllBoundaries] at h
    cases h
    rfl
  | cons i l ih =>
    intro this r h
    simp only [Mesh.copyAllBoundaries] at h
    split at h
    · cases h
    · split at h
      · cases h
      · rename_i b hb r1 hr1
        rw [ih _ _ h]
        unfold Mesh.createBoundaryCopy at hr1
        split at hr1
        · cases hr1
        · cases hr1
          exact createBoundary_rangesKnown hcbc _ _ _

theorem copyAllCells_rangesKnown [Inhabited R] (w : Nat) (mesh : Mesh P R) :
    ∀ (l : List Nat) (this r : Mesh P R), Mesh.copyAllCells w mesh l this = .ok r →
      r.rangesKnown_ = this.rangesKnown_ := by
  intro l
  induction l with
  | nil =>
    intro this r h
    simp only [Mesh.copyAllCells] at h
    cases h
    rfl
  | cons i l ih =>
    intro this r h
    simp only [Mesh.copyAllCells] at h
    split at h
    · cases h
    · split at h
      · cases h
      · rename_i c hc r1 hr1
        rw [ih _ _ h]
        unfold Mesh.createCellCopy at hr1
        split at hr1
        · cases hr1
        · cases hr1
          exact createCell_rangesKnown _ _ _

theorem setCellAttributesFrom_rangesKnown (w : Nat) (attr : List R) :
    ∀ (todo i : Nat) (m : Mesh P R),
      (setCellAttributesFrom w attr todo i m).2.rangesKnown_ = m.rangesKnown_ := by
  intro todo
  induction todo with
  | zero => intro i m; rfl
  | succ todo ih =>
    intro i m
    simp only [setCellAttributesFrom]
    split
    · rfl
    · split
      · rfl
      · rw [ih]

theorem setCellAttributes_rangesKnown (w : Nat) (m : Mesh P R) (attr : List R) :
    (setCellAttributes w m attr).2.rangesKnown_ = m.rangesKnown_ := by
  unfold setCellAttributes
  split
  · rfl
  · exact setCellAttributesFrom_rangesKnown w attr _ _ m

theorem copyEntities_rangesKnown [Inhabited R] (w : Nat) {cbc : BoundaryCreator P R}
    (hcbc : KeepsRangeFlag cbc) (this mesh r : Mesh P R)
    (h : Mesh.copyEntities w cbc this mesh = .ok r) : r.rangesKnown_ = false := by
  unfold Mesh.copyEntities at h
  dsimp only at h
  split at h
  · cases h
  · rename_i this1 h1
    split at h
    · cases h
    · rename_i this2 h2
      split at h
      · cases h
      · rename_i this3 h3
        split at h
        · cases h
        · rename_i u this4 h4
          cases h
          have e4 := setCellAttributes_rangesKnown w this3 mesh.cellAttributes
          rw [h4] at e4
          have e3 := copyAllCells_rangesKnown w mesh _ _ _ h3
          have e2 := copyAllBoundaries_rangesKnown w hcbc mesh _ _ _ h2
          have e1 := copyAllNodes_rangesKnown w mesh _ _ _ h1
          show r.rangesKnown_ = false
          rw [e4, e3, e2, e1]


theorem neighbourInfosFacet_rangesKnown {ops : EntityOps P R} {cbc : BoundaryCreator P R}
    (hcbc : KeepsRangeFlag cbc) {ci j : Nat} {m r : Mesh P R}
    (h : Mesh.neighbourInfosFacet ops cbc ci j m = .ok r) :
    r.rangesKnown_ = m.rangesKnown_ := by
  unfold Mesh.neighbourInfosFacet at h
  split at h
  · cases h
  · cases h
    rfl
  · rename_i a hA
    obtain ⟨c, bound, isLeft, -, -, hcb, -, -, -⟩ := assignFacet_spec hA
    have hflag : a.mesh.rangesKnown_ = m.rangesKnown_ := by
      have h1 := createBoundary_rangesKnown hcbc
        { m with cellVector_ :=
            m.cellVector_.set ci (c.setNeighbourCell j (ops.findNeighbourCell m ci j)) }
        (ops.boundaryNodes c.shape c.nodes j) 0
      rw [hcb] at h1
      exact h1
    split at h
    · cases h
      exact hflag
    · split at h
      · cases h
      · cases h
        exact hflag

theorem neighbourInfosFacets_rangesKnown {ops : EntityOps P R} {cbc : BoundaryCreator P R}
    (hcbc : KeepsRangeFlag cbc) (ci : Nat) :
    ∀ (l : List Nat) (m r : Mesh P R), Mesh.neighbourInfosFacets ops cbc ci l m = .ok r →
      r.rangesKnown_ = m.rangesKnown_ := by
  intro l
  induction l with
  | nil =>
    intro m r h
    simp only [Mesh.neighbourInfosFacets] at h
    cases h
    rfl
  | cons j l ih =>
    intro m r h
    simp only [Mesh.neighbourInfosFacets] at h
    split at h
    · cases h
    · rename_i m1 h1
      rw [ih _ _ h, neighbourInfosFacet_rangesKnown hcbc h1]

theorem neighbourInfosCells_rangesKnown {ops : EntityOps P R} {cbc : BoundaryCreator P R}
    (hcbc : KeepsRangeFlag cbc) :
    ∀ (l : List Nat) (m r : Mesh P R), Mesh.neighbourInfosCells ops cbc l m = .ok r →
      r.rangesKnown_ = m.rangesKnown_ := by
  intro l
  induction l with
  | nil =>
    intro m r h
    simp only [Mesh.neighbourInfosCells] at h
    cases h
    rfl
  | cons i l ih =>
    intro m r h
    simp only [Mesh.neighbourInfosCells] at h
    split at h
    · cases h
    · rename_i m1 h1
      rw [ih _ _ h]
      unfold Mesh.createNeighbourInfosCell_ at h1
      split at h1
      · cases h1
      · exact neighbourInfosFacets_rangesKnown hcbc i _ _ _ h1

theorem createNeighbourInfos_rangesKnown {ops : EntityOps P R} {cbc : BoundaryCreator P R}
    (hcbc : KeepsRangeFlag cbc) {m r : Mesh P R} {force : Bool}
    (h : Mesh.createNeighbourInfos ops cbc m force = .ok r) :
    r.rangesKnown_ = m.rangesKnown_ := by
  unfold Mesh.createNeighbourInfos at h
  split at h
  · split at h
    · cases h
    · rename_i m1 h1
      cases h
      have e := neighbourInfosCells_rangesKnown hcbc _ _ _ h1
      exact e
  · cases h
    rfl

theorem copy_rangesKnown [Inhabited R] (w : Nat) {ops : EntityOps P R}
    {cbc : BoundaryCreator P R} (hcbc : KeepsRangeFlag cbc) (this mesh r : Mesh P R)
    (h : Mesh.copy_ w ops cbc this mesh = .ok r) : r.rangesKnown_ = false := by
  unfold Mesh.copy_ at h
  split at h
  · cases h
  · rename_i this4 h4
    have e := copyEntities_rangesKnown w hcbc this mesh this4 h4
    split at h
    · rw [createNeighbourInfos_rangesKnown hcbc h, e]
    · cases h
      exact e

/-- C37, what holds: `findRange_` leaves a valid box behind, with the flag set,
if the box was valid and every coordinate lies between `-MAX_DOUBLE` and
`MAX_DOUBLE`; `scale`, `translate`, `rotate` and `clear` reset the flag;
a copy has the flag reset whenever `copy_` returns; `createNode` and
`createNodeWithCheck` leave the flag and the box as they are, so the box is known
to stay valid under them only if the flag is not set. -/
theorem range_cache_after_operations [LinearOrder R] [Neg R] [Inhabited R] (MAX_DOUBLE : R)
    (ext : Mesh.Externals (Fin 3 → R) R) (move : (Fin 3 → R) → (Fin 3 → R) → Fin 3 → R)
    (m : RangeMesh R) (pos v : Fin 3 → R) (marker : Int) (tol : R) (hv : RangeValid m)
    (hrange : ∀ n ∈ m.nodeVector_, ∀ j, - MAX_DOUBLE ≤ n.pos j ∧ n.pos j ≤ MAX_DOUBLE) :
    RangeValid (m.findRange_ MAX_DOUBLE) ∧ (m.findRange_ MAX_DOUBLE).rangesKnown_ = true ∧
    (m.scale move v).rangesKnown_ = false ∧ RangeValid (m.scale move v) ∧
    (m.translate move v).rangesKnown_ = false ∧ RangeValid (m.translate move v) ∧
    (m.rotate move v).rangesKnown_ = false ∧ RangeValid (m.rotate move v) ∧
    m.clear.rangesKnown_ = false ∧ RangeValid m.clear ∧
    (∀ (w : Nat) (ops : EntityOps (Fin 3 → R) R) (cbc : Mesh.BoundaryCreator (Fin 3 → R) R)
      (this r : RangeMesh R), KeepsRangeFlag cbc → RangeMesh.copy_ w ops cbc this m = .ok r →
      r.rangesKnown_ = false ∧ RangeValid r) ∧
    (m.createNode pos marker).2.rangesKnown_ = m.rangesKnown_ ∧
    (m.createNode pos marker).2.minRange_ = m.minRange_ ∧
    (m.createNode pos marker).2.maxRange_ = m.maxRange_ ∧
    (m.createNodeWithCheck ext pos tol).2.rangesKnown_ = m.rangesKnown_ ∧
    (m.rangesKnown_ = false → RangeValid (m.createNode pos marker).2 ∧
      RangeValid (m.createNodeWithCheck ext pos tol).2) := by
  have hflag : (m.createNodeWithCheck ext pos tol).2.rangesKnown_ = m.rangesKnown_ :=
    createNodeWithCheck_rangesKnown ext m.toMesh pos tol
  refine ⟨rangeValid_findRange MAX_DOUBLE m hv hrange, ?_, rfl, fun h => ?_, rfl, fun h => ?_, rfl,
    fun h => ?_, rfl, fun h => ?_, ?_, rfl, rfl, rfl, hflag,
    fun hf => ⟨fun h => ?_, fun h => ?_⟩⟩
  · unfold RangeMesh.findRange_
    split
    · assumption
    · rfl
  · cases h
  · cases h
  · cases h
  · cases h
  · intro w ops cbc this r hcbc hr
    unfold RangeMesh.copy_ at hr
    split at hr
    · cases hr
    · rename_i r1 h1
      cases hr
      have e : r1.rangesKnown_ = false := copy_rangesKnown w hcbc _ _ _ h1
      refine ⟨e, fun h => ?_⟩
      rw [show ({ this with toMesh := r1 } : RangeMesh R).rangesKnown_ = r1.rangesKnown_ from rfl,
        e] at h
      cases h
  · have h1 : (m.createNode pos marker).2.rangesKnown_ = m.rangesKnown_ := rfl
    rw [h1, hf] at h
    cases h
  · rw [hflag, hf] at h
    cases h

/-- Witness of C37: the mesh with one node at the origin; `findRange_` sets the
flag. -/
theorem range_cache_after_operations_witness :
    RangeValid originMesh ∧ (originMesh.findRange_ 1000).rangesKnown_ = true :=
  ⟨fun h => absurd h (by decide),
   (range_cache_after_operations (1000 : Int) spaceExternals (fun p _ => p) originMesh
      (fun _ => 0) (fun _ => 0) 0 0 (fun h => absurd h (by decide))
      (by
        intro n hn j
        simp only [originMesh, List.mem_singleton] at hn
        subst hn
        exact ⟨by simp, by simp⟩)).2.1⟩

/-- Counterexample to C37: the mesh with one node at the origin. After
`findRange_` the box is flagged valid with both corners at the origin;
`createNode` at `(5, 5, 5)` leaves the flag set and the box as it is, so the
cached maximum 0 is below the coordinate 5 of a node of the mesh. -/
theorem createNode_leaves_stale_range :
    ((originMesh.findRange_ 1000).createNode (fun _ => 5) 0).2.rangesKnown_ = true ∧
    ((originMesh.findRange_ 1000).createNode (fun _ => 5) 0).2.maxRange_ 0 = 0 ∧
    ((originMesh.findRange_ 1000).createNode (fun _ => 5) 0).2.nodeVector_.map
      (fun n => n.pos 0) = [0, 5] ∧
    ¬ RangeValid ((originMesh.findRange_ 1000).createNode (fun _ => 5) 0).2 := by
  refine ⟨by decide, by decide, by decide, fun h => ?_⟩
  have h1 := (h (by decide) (by decide) 0).1 { pos := fun _ => 5, marker := 0, id := 1 }
    (by decide)
  exact absurd h1.2 (by decide)

/-! ## Orientation of the left cell -/

theorem cellIsLeft_two_nodes {ops : EntityOps P R} {m : Mesh P R} {c : Cell R} {j : Nat}
    {bound : Boundary} {isLeft : Bool} (h : Mesh.cellIsLeft ops m c j bound = .ok isLeft)
    (h2 : boundaryNodeCount bound.shape = 2) :
    ∃ p q, Mesh.entityNodeId m (ops.boundaryNodes c.shape c.nodes j) 0 = .ok p ∧
      Mesh.entityNodeId m bound.nodes 0 = .ok q ∧ (isLeft = true ↔ p = q) := by
  unfold Mesh.cellIsLeft at h
  rw [if_pos h2] at h
  split at h
  · rename_i p q hp hq
    cases h
    exact ⟨p, q, hp, hq, by simp⟩
  · cases h
  · cases h

/-- Counterexample to C31: two triangles that run through their common edge in
the same direction, from node 0 to node 1, and the boundary `(1, 0)` over that
edge. The derivation returns; the visit of cell 0 makes cell 0 the right cell of
the boundary and cell 1, recorded as its neighbour, the left cell. The local
facet of cell 1 over the points of the boundary is `(0, 1)`: its first point has
id 0, the first point of the boundary has id 1. -/
theorem neighbour_becomes_left_unoriented :
    (Mesh.createNeighbourInfos triangleOps findOrCreateBoundary flippedTriangles false).toOption.map
        (fun r => r.boundaryVector_.map (fun b => (b.nodes, b.leftCell, b.rightCell))) =
      some [([1, 0], some 1, some 0), ([1, 2], some 0, none), ([2, 0], some 0, none),
            ([1, 3], some 1, none), ([3, 0], some 1, none)] ∧
    triangleOps.boundaryNodes .Triangle [0, 1, 3] 0 = [0, 1] ∧
    Mesh.entityNodeId flippedTriangles (triangleOps.boundaryNodes .Triangle [0, 1, 3] 0) 0 =
      .ok 0 ∧
    Mesh.entityNodeId flippedTriangles [1, 0] 0 = .ok 1 := by
  refine ⟨by decide, rfl, rfl, rfl⟩

/-- C31, amended: in the step of `createNeighbourInfosCell_` for facet `j` of the
cell `c` and its boundary, with a boundary of 2 nodes the orientation outcome is
"left" exactly if the first node of the local facet and the first node of the
boundary have the same id. The step either keeps the left cell of the boundary,
or makes `c` the left cell, which needs a free left side and the outcome "left",
or, with both sides free and the outcome "right", makes `c` the right cell and
the neighbour recorded for the facet the left cell, without a test of the
orientation of that neighbour. A cell with the outcome "right" that is not the
left cell already is not the left cell after its step unless the cross check
fails. -/
theorem leftCell_follows_orientation {ops : EntityOps P R} {cbc : BoundaryCreator P R}
    {ci j : Nat} {m : Mesh P R} {a : Assigned P R}
    (h : Mesh.assignFacet ops cbc ci j m = .ok (some a)) :
    ∃ c bound isLeft, m.cellVector_[ci]? = some c ∧
      a.mesh.boundaryVector_[a.bound]? = some bound ∧
      Mesh.cellIsLeft ops a.mesh (c.setNeighbourCell j (ops.findNeighbourCell m ci j)) j bound =
        .ok isLeft ∧
      (boundaryNodeCount bound.shape = 2 →
        ∃ p q, Mesh.entityNodeId a.mesh (ops.boundaryNodes c.shape c.nodes j) 0 = .ok p ∧
          Mesh.entityNodeId a.mesh bound.nodes 0 = .ok q ∧ (isLeft = true ↔ p = q)) ∧
      (a.after.leftCell = bound.leftCell ∨
        (bound.leftCell = none ∧ isLeft = true ∧ a.after.leftCell = some ci) ∨
        (bound.leftCell = none ∧ bound.rightCell = none ∧ isLeft = false ∧
          a.after.rightCell = some ci ∧ (ops.findNeighbourCell m ci j).isSome ∧
          a.after.leftCell = ops.findNeighbourCell m ci j)) ∧
      (isLeft = false → bound.leftCell ≠ some ci → a.after.leftCell = some ci →
        crossCheckFails ci a.after = true) := by
  unfold Mesh.assignFacet at h
  split at h
  · cases h
  · rename_i c hc
    split at h
    · cases h
    · rename_i hnb
      dsimp only at h
      split at h
      · cases h
      · rename_i bi m2 hcb
        split at h
        · cases h
        · rename_i bound hbound
          split at h
          · cases h
          · rename_i isLeft hleft
            cases h
            have hrec : (c.setNeighbourCell j (ops.findNeighbourCell m ci j)).neighbourCell j =
                ops.findNeighbourCell m ci j := neighbourCell_set_same c j _
            refine ⟨c, bound, isLeft, hc, hbound, hleft, fun h2 => ?_, ?_, ?_⟩
            · exact cellIsLeft_two_nodes (c := c.setNeighbourCell j (ops.findNeighbourCell m ci j))
                hleft h2
            · dsimp only
              rw [hrec]
              obtain ⟨shape, nodes, marker, id, l, r⟩ := bound
              unfold assignSides
              cases isLeft <;> rcases l with _ | l <;> rcases r with _ | r <;>
                rcases hn : ops.findNeighbourCell m ci j with _ | nb <;> simp
              all_goals (split_ifs <;> simp_all)
            · dsimp only
              rw [hrec]
              obtain ⟨shape, nodes, marker, id, l, r⟩ := bound
              unfold assignSides crossCheckFails
              intro hl
              subst hl
              rcases l with _ | l <;> rcases r with _ | r <;>
                rcases hn : ops.findNeighbourCell m ci j with _ | nb <;> simp
              all_goals (try split_ifs) <;> simp_all

/-- Witness of the amended C31: the step of cell 0 of `flippedTriangles` for its
facet 0. -/
theorem leftCell_follows_orientation_witness :
    ∃ a : Assigned Int Int,
      Mesh.assignFacet triangleOps findOrCreateBoundary 0 0 flippedTriangles = .ok (some a) ∧
      ∃ c bound isLeft, flippedTriangles.cellVector_[0]? = some c ∧
        a.mesh.boundaryVector_[a.bound]? = some bound ∧
        Mesh.cellIsLeft triangleOps a.mesh
          (c.setNeighbourCell 0 (triangleOps.findNeighbourCell flippedTriangles 0 0)) 0 bound =
          .ok isLeft :=
  have h : ∃ a : Assigned Int Int,
      Mesh.assignFacet triangleOps findOrCreateBoundary 0 0 flippedTriangles = .ok (some a) :=
    ⟨_, rfl⟩
  h.elim (fun a ha => ⟨a, ha, (leftCell_follows_orientation ha).imp (fun _ h => h.imp
    (fun _ h => h.imp (fun _ h => ⟨h.1, h.2.1, h.2.2.1⟩)))⟩)

/-! ## Attributes of a refined mesh -/

theorem frame_refinementNode [Add P] [HDiv P R P] [OfNat R 2] {I : Mesh P R → Prop}
    (hnode : ∀ t pos marker, I t → I (createNode t pos marker).2) {this : Mesh P R}
    {M : NodeMatrix} {n0 n1 : Nat} {r : Nat × Mesh P R × NodeMatrix}
    (h : refinementNode this M n0 n1 = .ok r) (hm : I this) : I r.2.1 := by
  unfold refinementNode at h
  split at h
  · cases h
    rcases createRefinementNode_mesh this _ _ M with h1 | ⟨pos, marker, h1⟩
    · rw [h1]; exact hm
    · rw [h1]; exact hnode _ _ _ hm
  · cases h
  · cases h

theorem frame_splitNodes [Add P] [HDiv P R P] [OfNat R 2] {I : Mesh P R → Prop}
    (hnode : ∀ t pos marker, I t → I (createNode t pos marker).2) (w : Nat) (mesh : Mesh P R)
    (nodes : List Nat) (rows : List (Nat × Nat)) :
    ∀ (n : List Nat) (this : Mesh P R) (M : NodeMatrix) (r : List Nat × Mesh P R × NodeMatrix),
      splitNodes w mesh nodes rows n this M = .ok r → I this → I r.2.1 := by
  induction rows with
  | nil =>
    intro n this M r h hm
    simp only [splitNodes] at h
    cases h
    exact hm
  | cons row rows ih =>
    intro n this M r h hm
    obtain ⟨k0, k1⟩ := row
    simp only [splitNodes] at h
    split at h
    · split at h
      · rename_i hr
        exact ih _ _ _ r h (frame_refinementNode hnode hr hm)
      · cases h
    · cases h
    · cases h

theorem whenOk_request [Add P] [HDiv P R P] [OfNat R 2] {I : Mesh P R → Prop}
    (hnode : ∀ t pos marker, I t → I (createNode t pos marker).2) {this : Mesh P R}
    {M : NodeMatrix} {n0 n1 : Nat} {β : Type} {Q : β → Prop}
    {f : Nat × Mesh P R × NodeMatrix → Except Failure β} (hm : I this)
    (hf : ∀ n t M1, I t → WhenOk Q (f (n, t, M1))) :
    WhenOk Q (refinementNode this M n0 n1 >>= f) :=
  WhenOk.bind (Q := fun r => I r.2.1)
    (fun _ h => frame_refinementNode hnode h hm) (fun r hr => hf r.1 r.2.1 r.2.2 hr)

theorem whenOk_split [Add P] [HDiv P R P] [OfNat R 2] {I : Mesh P R → Prop}
    (hnode : ∀ t pos marker, I t → I (createNode t pos marker).2) {w : Nat}
    {mesh this : Mesh P R} {nodes : List Nat} {rows : List (Nat × Nat)} {n : List Nat}
    {M : NodeMatrix} {β : Type} {Q : β → Prop}
    {f : List Nat × Mesh P R × NodeMatrix → Except Failure β} (hm : I this)
    (hf : ∀ n t M1, I t → WhenOk Q (f (n, t, M1))) :
    WhenOk Q (splitNodes w mesh nodes rows n this M >>= f) :=
  WhenOk.bind (Q := fun r => I r.2.1)
    (fun r h => frame_splitNodes hnode w mesh nodes rows n this M r h hm)
    (fun r hr => hf r.1 r.2.1 r.2.2 hr)

/-- A frame rule for the `switch` of the cell loop: a property `I` that the
creation of a node keeps, and a property `J` that follows from `I` and holds
after the creation of at most 8 cells with the marker of `c` in a state with
`I`, give `J` for the state the `switch` returns. -/
theorem frame_refineCell [Add P] [HDiv P R P] [OfNat R 2] [Inhabited R] (w : Nat)
    (ext : Externals P R) (tables : SplitTables) (mesh : Mesh P R) (h2 : Bool) (c : Cell R)
    (this : Mesh P R) (M : NodeMatrix) {I J : Mesh P R → Prop}
    (hnode : ∀ t pos marker, I t → I (createNode t pos marker).2) (hIJ : ∀ t, I t → J t)
    (hcells_ : h2 = true → ∀ t shape lists, lists.length ≤ 8 → I t →
      J (createCells_ shape c.marker lists t))
    (hcells : h2 = true → ∀ t lists, lists.length ≤ 8 → I t → J (createCells c.marker lists t))
    (hm : I this) :
    WhenOk (fun r => J r.2.1) (refineCell w ext tables mesh h2 c this M) := by
  unfold refineCell
  cases c.shape
  case EdgeCell =>
    dsimp only
    refine WhenOk.bind_any (fun a => ?_)
    refine WhenOk.bind_any (fun a => ?_)
    refine whenOk_request hnode hm (fun n t M1 ht => ?_)
    refine WhenOk.pure ?_
    dsimp only
    split
    · rename_i h2t
      exact hcells h2t _ _ (by simp) ht
    · exact hIJ _ ht
  case Triangle =>
    dsimp only
    refine WhenOk.bind_any (fun a => ?_)
    refine WhenOk.bind_any (fun a => ?_)
    refine WhenOk.bind_any (fun a => ?_)
    refine whenOk_request hnode hm (fun n t M1 ht => ?_)
    refine whenOk_request hnode ht (fun n t M1 ht => ?_)
    refine whenOk_request hnode ht (fun n t M1 ht => ?_)
    refine WhenOk.pure ?_
    dsimp only
    split
    · rename_i h2t
      exact hcells_ h2t _ _ _ (by simp) ht
    · exact hIJ _ ht
  case Quadrangle =>
    dsimp only
    refine WhenOk.bind_any (fun a => ?_)
    refine WhenOk.bind_any (fun a => ?_)
    refine WhenOk.bind_any (fun a => ?_)
    refine WhenOk.bind_any (fun a => ?_)
    refine whenOk_request hnode hm (fun n t M1 ht => ?_)
    refine whenOk_request hnode ht (fun n t M1 ht => ?_)
    refine whenOk_request hnode ht (fun n t M1 ht => ?_)
    refine whenOk_request hnode ht (fun n t M1 ht => ?_)
    refine WhenOk.pure ?_
    dsimp only
    split
    · rename_i h2t
      exact hcells_ h2t _ _ _ (by simp) (hnode _ _ _ ht)
    · exact hIJ _ ht
  case Tetrahedron =>
    dsimp only
    split
    · refine WhenOk.bind_any (fun rows => ?_)
      refine whenOk_split hnode hm (fun n t M1 ht => ?_)
      refine WhenOk.pure ?_
      dsimp only
      split
      · rename_i h2t
        exact hcells_ h2t _ _ _ (by simp) ht
      · exact hIJ _ ht
    · refine WhenOk.bind_any (fun rows => ?_)
      refine whenOk_split hnode hm (fun n t M1 ht => ?_)
      dsimp only
      split
      · exact WhenOk.throw
      · exact WhenOk.pure (hIJ _ ht)
  case Hexahedron =>
    dsimp only
    refine WhenOk.bind_any (fun rows => ?_)
    refine whenOk_split hnode hm (fun n t M1 ht => ?_)
    dsimp only
    split
    · rename_i h2t
      refine whenOk_request hnode ht (fun n t M1 ht => ?_)
      refine whenOk_request hnode ht (fun n t M1 ht => ?_)
      refine whenOk_request hnode ht (fun n t M1 ht => ?_)
      refine whenOk_request hnode ht (fun n t M1 ht => ?_)
      refine whenOk_request hnode ht (fun n t M1 ht => ?_)
      refine whenOk_request hnode ht (fun n t M1 ht => ?_)
      refine whenOk_request hnode ht (fun n t M1 ht => ?_)
      refine WhenOk.pure ?_
      dsimp only
      exact hcells h2t t _ (by simp) ht
    · exact WhenOk.pure (hIJ _ ht)
  case TriPrism =>
    dsimp only
    refine WhenOk.bind_any (fun rows => ?_)
    refine whenOk_split hnode hm (fun n t M1 ht => ?_)
    dsimp only
    split
    · rename_i h2t
      refine whenOk_request hnode ht (fun n t M1 ht => ?_)
      refine whenOk_request hnode ht (fun n t M1 ht => ?_)
      refine whenOk_request hnode ht (fun n t M1 ht => ?_)
      refine WhenOk.pure ?_
      dsimp only
      exact hcells h2t t _ (by simp) ht
    · exact WhenOk.pure (hIJ _ ht)
  case Pyramid =>
    dsimp only
    refine WhenOk.bind_any (fun rows => ?_)
    refine whenOk_split hnode hm (fun n t M1 ht => ?_)
    dsimp only
    split
    · exact WhenOk.throw
    · exact WhenOk.pure (hIJ _ ht)
  all_goals exact WhenOk.throw

theorem frame_boundaryNodes [Add P] [HDiv P R P] [OfNat R 2] (w : Nat)
    (mesh : Mesh P R) (b : Boundary) (this : Mesh P R) (M : NodeMatrix) {I : Mesh P R → Prop}
    (hnode : ∀ t pos marker, I t → I (createNode t pos marker).2) (hm : I this) :
    WhenOk (fun r => I r.2.1) (boundaryNodes w mesh b this M) := by
  unfold boundaryNodes
  cases b.shape
  case NodeBoundary =>
    dsimp only
    refine WhenOk.bind_any (fun a => ?_)
    exact WhenOk.pure hm
  case Edge =>
    dsimp only
    refine WhenOk.bind_any (fun a => ?_)
    refine WhenOk.bind_any (fun a => ?_)
    refine whenOk_request hnode hm (fun n t M1 ht => ?_)
    exact WhenOk.pure ht
  case TriangleFace =>
    dsimp only
    refine WhenOk.bind_any (fun a => ?_)
    refine WhenOk.bind_any (fun a => ?_)
    refine WhenOk.bind_any (fun a => ?_)
    refine whenOk_request hnode hm (fun n t M1 ht => ?_)
    refine whenOk_request hnode ht (fun n t M1 ht => ?_)
    refine whenOk_request hnode ht (fun n t M1 ht => ?_)
    exact WhenOk.pure ht
  case QuadrangleFace =>
    dsimp only
    refine WhenOk.bind_any (fun a => ?_)
    refine WhenOk.bind_any (fun a => ?_)
    refine WhenOk.bind_any (fun a => ?_)
    refine WhenOk.bind_any (fun a => ?_)
    refine whenOk_request hnode hm (fun n t M1 ht => ?_)
    refine whenOk_request hnode ht (fun n t M1 ht => ?_)
    refine whenOk_request hnode ht (fun n t M1 ht => ?_)
    refine whenOk_request hnode ht (fun n t M1 ht => ?_)
    exact WhenOk.pure ht
  all_goals exact WhenOk.throw

theorem frame_createBoundary {cbc : BoundaryCreator P R} {I : Mesh P R → Prop}
    (hcbc : ∀ shape t nodes marker, I t → I (cbc shape t nodes marker).2)
    (m : Mesh P R) (ns : List Nat) (marker : Int) (hm : I m) :
    I (createBoundary cbc m ns marker).2 := by
  unfold createBoundary
  split <;> (try split) <;> first | exact hcbc _ _ _ _ hm | exact hm

theorem frame_createBoundaries {cbc : BoundaryCreator P R} {I : Mesh P R → Prop}
    (hcbc : ∀ shape t nodes marker, I t → I (cbc shape t nodes marker).2)
    (shape : BoundaryShape) (marker : Int) (l : List (List Nat)) :
    ∀ m : Mesh P R, I m → I (createBoundaries cbc shape marker l m) := by
  induction l with
  | nil => intro m hm; exact hm
  | cons ns l ih => intro m hm; simp only [createBoundaries]; exact ih _ (hcbc _ _ _ _ hm)

/-- A frame rule for the body of the boundary loop: a property that the creation
of a node and the boundary creator keep holds for the state the body returns. -/
theorem frame_refineBoundary [Add P] [HDiv P R P] [OfNat R 2] (w : Nat)
    {cbc : BoundaryCreator P R} (mesh : Mesh P R) (p2 h2 : Bool) (b : Boundary)
    (this : Mesh P R) (M : NodeMatrix) {I : Mesh P R → Prop}
    (hnode : ∀ t pos marker, I t → I (createNode t pos marker).2)
    (hcbc : ∀ shape t nodes marker, I t → I (cbc shape t nodes marker).2) (hm : I this) :
    WhenOk (fun r => I r.1) (refineBoundary w cbc mesh p2 h2 b this M) := by
  unfold refineBoundary
  refine WhenOk.bind (frame_boundaryNodes w mesh b this M hnode hm) (fun r hr => ?_)
  dsimp only
  split
  · exact WhenOk.pure (frame_createBoundary hcbc _ _ _ hr)
  · split
    · exact WhenOk.pure (frame_createBoundary hcbc _ _ _ hr)
    · exact WhenOk.pure (frame_createBoundaries hcbc _ _ _ _ hr)
    · exact WhenOk.pure (frame_createBoundaries hcbc _ _ _ _ hr)
    · refine WhenOk.bind_any (fun r4 => ?_)
      refine WhenOk.bind_any (fun r6 => ?_)
      split
      · refine WhenOk.bind (Q := fun (x : Nat × Mesh P R × NodeMatrix) => I x.2.1)
          (WhenOk.pure hr) (fun x hx => ?_)
        exact WhenOk.pure (frame_createBoundaries hcbc _ _ _ _ hx)
      · refine whenOk_request hnode hr (fun n t M1 ht => ?_)
        exact WhenOk.pure (frame_createBoundaries hcbc _ _ _ _ ht)
    · exact WhenOk.pure hr

theorem frame_refineBoundaries [Add P] [HDiv P R P] [OfNat R 2] (w : Nat)
    {cbc : BoundaryCreator P R} (mesh : Mesh P R) (p2 h2 : Bool) {I : Mesh P R → Prop}
    (hnode : ∀ t pos marker, I t → I (createNode t pos marker).2)
    (hcbc : ∀ shape t nodes marker, I t → I (cbc shape t nodes marker).2) (l : List Nat) :
    ∀ (this : Mesh P R) (M : NodeMatrix), I this →
      WhenOk (fun r => I r.1) (refineBoundaries w cbc mesh p2 h2 l this M) := by
  induction l with
  | nil =>
    intro this M hm r hr
    simp only [refineBoundaries] at hr
    cases hr
    exact hm
  | cons i l ih =>
    intro this M hm r hr
    simp only [refineBoundaries] at hr
    split at hr
    · cases hr
    · split at hr
      · cases hr
      · rename_i x1 b hb x2 this1 M1 hr1
        exact ih _ _ (frame_refineBoundary w mesh p2 h2 b this M hnode hcbc hm _ hr1) r hr

theorem createCell_stem [Inhabited R] (m : Mesh P R) (ns : List Nat) (marker : Int) :
    ∃ g, (createCell m ns marker).2 = { m with cellVector_ := m.cellVector_ ++ g } ∧
      g.length ≤ 1 ∧ ∀ x ∈ g, x.marker = marker ∧ x.attribute_ = default := by
  unfold createCell
  split <;> (try split) <;>
    first
    | exact ⟨[_], rfl, by simp, by
        intro x hx
        simp only [List.mem_singleton] at hx
        subst hx
        exact ⟨rfl, rfl⟩⟩
    | exact ⟨[], by simp, by simp, by simp⟩

theorem createCells_stem [Inhabited R] (marker : Int) :
    ∀ (lists : List (List Nat)) (this : Mesh P R),
      ∃ g, createCells marker lists this = { this with cellVector_ := this.cellVector_ ++ g } ∧
        g.length ≤ lists.length ∧ ∀ x ∈ g, x.marker = marker ∧ x.attribute_ = default := by
  intro lists
  induction lists with
  | nil =>
    intro this
    exact ⟨[], by simp [createCells], by simp, by simp⟩
  | cons ns rest ih =>
    intro this
    obtain ⟨g1, h1, hl1, ha1⟩ := createCell_stem this ns marker
    obtain ⟨g, h2, hl2, ha2⟩ := ih (createCell this ns marker).2
    refine ⟨g1 ++ g, ?_, ?_, ?_⟩
    · simp only [createCells]
      rw [h2, h1]
      simp
    · simp only [List.length_append, List.length_cons]
      omega
    · intro x hx
      rcases List.mem_append.mp hx with hx | hx
      · exact ha1 x hx
      · exact ha2 x hx

theorem createCells__stem [Inhabited R] (shape : CellShape) (marker : Int) :
    ∀ (lists : List (List Nat)) (this : Mesh P R),
      ∃ g, createCells_ shape marker lists this =
          { this with cellVector_ := this.cellVector_ ++ g } ∧
        g.length ≤ lists.length ∧ ∀ x ∈ g, x.marker = marker ∧ x.attribute_ = default := by
  intro lists
  induction lists with
  | nil =>
    intro this
    exact ⟨[], by simp [createCells_], by simp, by simp⟩
  | cons ns rest ih =>
    intro this
    obtain ⟨g, h1, h2, h3⟩ := ih (createCell_ shape this ns marker this.cellCount).2
    refine ⟨(⟨shape, ns, marker, (this.cellCount : Int), default, [], false⟩ : Cell R) :: g,
      ?_, ?_, ?_⟩
    · simp only [createCells_]
      rw [h1]
      simp [createCell_]
    · simp only [List.length_cons]
      omega
    · intro x hx
      rcases List.mem_cons.mp hx with hx | hx
      · subst hx
        exact ⟨rfl, rfl⟩
      · exact h3 x hx

/-- The cells that the `switch` of the cell loop creates for the cell `c` stem
from `c`, and there are none without `h2`. -/
theorem refineCell_stems [Add P] [HDiv P R P] [OfNat R 2] [Inhabited R] (w : Nat)
    (ext : Externals P R) (tables : SplitTables) (mesh : Mesh P R) (h2 : Bool) (c : Cell R)
    (this : Mesh P R) (M : NodeMatrix) :
    WhenOk (fun r => ∃ g, r.2.1.cellVector_ = this.cellVector_ ++ g ∧ StemFrom c g ∧
        (h2 = false → g = []))
      (refineCell w ext tables mesh h2 c this M) := by
  refine frame_refineCell w ext tables mesh h2 c this M
    (I := fun t => t.cellVector_ = this.cellVector_)
    (J := fun t => ∃ g, t.cellVector_ = this.cellVector_ ++ g ∧ StemFrom c g ∧
        (h2 = false → g = []))
    (fun t pos marker ht => ht) (fun t ht => ⟨[], by simpa using ht, ⟨by simp, by simp⟩, fun _ => rfl⟩)
    (fun h2t t shape lists hl ht => ?_) (fun h2t t lists hl ht => ?_) rfl
  · obtain ⟨g, h1, h2', h3⟩ := createCells__stem (P := P) (R := R) shape c.marker lists t
    refine ⟨g, ?_, ⟨by omega, h3⟩, fun hf => ?_⟩
    · rw [h1]
      show t.cellVector_ ++ g = _
      rw [ht]
    · rw [h2t] at hf
      cases hf
  · obtain ⟨g, h1, h2', h3⟩ := createCells_stem (P := P) (R := R) c.marker lists t
    refine ⟨g, ?_, ⟨by omega, h3⟩, fun hf => ?_⟩
    · rw [h1]
      show t.cellVector_ ++ g = _
      rw [ht]
    · rw [h2t] at hf
      cases hf

theorem refineCells_stems [Add P] [HDiv P R P] [OfNat R 2] [Inhabited R] (w : Nat)
    (ext : Externals P R) (tables : SplitTables) (mesh : Mesh P R) (p2 h2 : Bool)
    (l : List Nat) : ∀ (this : Mesh P R) (M : NodeMatrix),
      WhenOk (fun r => ∃ groups : List (List (Cell R)),
          List.Forall₂ (fun i g => ∃ c, mesh.cellVector_[i]? = some c ∧ StemFrom c g) l groups ∧
          r.1.cellVector_ = this.cellVector_ ++ groups.flatten)
        (refineCells w ext tables mesh p2 h2 l this M) := by
  induction l with
  | nil =>
    intro this M r hr
    simp only [refineCells] at hr
    cases hr
    exact ⟨[], List.Forall₂.nil, by simp⟩
  | cons i l ih =>
    intro this M r hr
    simp only [refineCells] at hr
    split at hr
    · cases hr
    · rename_i x1 c hc
      split at hr
      · cases hr
      · rename_i x2 n this1 M1 hr1
        obtain ⟨g, hg, hstem, hfalse⟩ := refineCell_stems w ext tables mesh h2 c this M _ hr1
        obtain ⟨g1, hg1, hl1, ha1⟩ := createCell_stem this1 n c.marker
        obtain ⟨groups, hall, hcells⟩ := ih _ _ r hr
        by_cases hq : (p2 && !h2) = true
        · have h2f : h2 = false := by
            cases h2
            · rfl
            · simp at hq
          have hge := hfalse h2f
          subst hge
          refine ⟨g1 :: groups, List.Forall₂.cons ⟨c, cell_getElem? hc, ?_, ha1⟩ hall, ?_⟩
          · omega
          · rw [hcells, if_pos hq, hg1]
            show (this1.cellVector_ ++ g1) ++ groups.flatten = _
            rw [hg]
            simp
        · refine ⟨g :: groups, List.Forall₂.cons ⟨c, cell_getElem? hc, hstem⟩ hall, ?_⟩
          rw [hcells, if_neg hq, hg]
          simp

theorem copyNodes_cellVector [Add P] [HDiv P R P] [OfNat R 2] (w : Nat) (mesh : Mesh P R)
    (l : List Nat) : ∀ (this : Mesh P R) (M : NodeMatrix) (r : Mesh P R × NodeMatrix),
      copyNodes w mesh l this M = .ok r → r.1.cellVector_ = this.cellVector_ := by
  induction l with
  | nil =>
    intro this M r hr
    simp only [copyNodes] at hr
    cases hr
    rfl
  | cons i l ih =>
    intro this M r hr
    simp only [copyNodes] at hr
    split at hr
    · cases hr
    · rw [ih _ _ r hr]
      rcases createRefinementNode_mesh this _ _ M with h1 | ⟨pos, marker, h1⟩
      · rw [h1]
      · rw [h1]
        rfl

theorem forall₂_range_getElem? {α β : Type} {Q : α → β → Prop} (L : List α) :
    ∀ (groups : List β),
      List.Forall₂ (fun i g => ∃ c, L[i]? = some c ∧ Q c g) (List.range L.length) groups →
      List.Forall₂ Q L groups := by
  intro groups h
  rw [List.forall₂_iff_get] at h ⊢
  obtain ⟨hlen, hall⟩ := h
  rw [List.length_range] at hlen
  refine ⟨hlen, fun i h1 h2 => ?_⟩
  obtain ⟨c, hc, hq⟩ := hall i (by rw [List.length_range]; exact h1) h2
  simp only [List.get_eq_getElem, List.getElem_range] at hc
  rw [List.getElem?_eq_getElem h1] at hc
  cases hc
  exact hq

theorem flatten_length_le {α β : Type} {Q : α → List β → Prop} {k : Nat}
    (hQ : ∀ a g, Q a g → g.length ≤ k) {L : List α} {groups : List (List β)}
    (h : List.Forall₂ Q L groups) : groups.flatten.length ≤ k * L.length := by
  induction h with
  | nil => simp
  | cons hag _ ih =>
    simp only [List.flatten_cons, List.length_append, List.length_cons]
    have := hQ _ _ hag
    rw [Nat.mul_succ]
    omega

/-- The cells of the mesh that `createRefined_` returns are, cell by cell of the
input and in that order, cells that stem from the input cell. -/
theorem createRefined_stems [Add P] [HDiv P R P] [OfNat R 2] [Inhabited R] (w : Nat)
    (ext : Externals P R) (tables : SplitTables) {cbc : BoundaryCreator P R}
    (hcbc : KeepsNodesAndCells cbc) (this mesh : Mesh P R) (p2 h2 : Bool) :
    WhenOk (fun r => ∃ groups : List (List (Cell R)),
        List.Forall₂ StemFrom mesh.cellVector_ groups ∧ r.cellVector_ = groups.flatten)
      (createRefined_ w ext tables cbc this mesh p2 h2) := by
  intro r hr
  unfold createRefined_ at hr
  cases h0 : copyNodes w mesh (List.range mesh.nodeCount) this.clear (fun _ => none) with
  | error e => rw [h0] at hr; cases hr
  | ok r0 =>
    rw [h0] at hr
    have hc0 : r0.1.cellVector_ = [] := copyNodes_cellVector w mesh _ _ _ _ h0
    cases h1 : refineCells w ext tables mesh p2 h2 (List.range mesh.cellCount) r0.1 r0.2 with
    | error e =>
      simp only [bind, Except.bind] at hr
      rw [h1] at hr
      cases hr
    | ok r1 =>
      simp only [bind, Except.bind] at hr
      rw [h1] at hr
      obtain ⟨groups, hall, hcells⟩ := refineCells_stems w ext tables mesh p2 h2 _ _ _ _ h1
      rw [hc0, List.nil_append] at hcells
      cases h2' : refineBoundaries w cbc mesh p2 h2 (List.range mesh.boundaryCount) r1.1 r1.2 with
      | error e =>
        simp only [h2'] at hr
        cases hr
      | ok r2 =>
        simp only [h2'] at hr
        cases hr
        have hb := frame_refineBoundaries w mesh p2 h2
          (I := fun t => t.cellVector_ = r1.1.cellVector_)
          (fun t pos marker ht => ht)
          (fun shape t nodes marker ht => ((hcbc shape t nodes marker).2).trans ht)
          _ r1.1 r1.2 rfl _ h2'
        refine ⟨groups, forall₂_range_getElem? _ _ hall, ?_⟩
        show r2.1.cellVector_ = _
        rw [hb, hcells]


/-- C36: for an input that the refinement can walk through, `createH2` returns
a mesh in which the attribute of every cell is its own marker (converted to
`double`), and the markers of its cells are, cell by cell of the input and in
that order, at most 8 copies of the marker of the input cell, so no attribute of
the input enters the result; if a cell cannot be split the call ends in
`THROW_TO_IMPL`. `createP2` returns a mesh in which every cell has the attribute
of a fresh cell. -/
theorem createH2_attributes_are_markers [Add P] [HDiv P R P] [OfNat R 2] [Inhabited R]
    (w : Nat) (ext : Externals P R) (tables : SplitTables) (cbc : BoundaryCreator P R)
    (ofInt : Int → R) (mesh : Mesh P R) (hcbc : KeepsNodesAndCells cbc)
    (hwf : Refinable w tables mesh)
    (hbs : ∀ b ∈ mesh.boundaryVector_, unsplittableBoundary b.shape = false) :
    ((∀ c ∈ mesh.cellVector_, unsplittable true true c.shape = false) →
      ∃ (r : Mesh P R) (groups : List (List Int)),
        Mesh.createH2 w ext tables cbc ofInt mesh = .ok r ∧
        cellAttributes r = (cellMarker r).map ofInt ∧
        List.Forall₂ (fun c g => g.length ≤ 8 ∧ ∀ x ∈ g, x = c.marker) mesh.cellVector_ groups ∧
        cellMarker r = groups.flatten) ∧
    ((∃ c ∈ mesh.cellVector_, unsplittable true true c.shape = true) →
      Mesh.createH2 w ext tables cbc ofInt mesh = .error .toImpl) ∧
    ((∀ c ∈ mesh.cellVector_, unsplittable false true c.shape = false) →
      ∃ r : Mesh P R, Mesh.createP2 w ext tables cbc mesh = .ok r ∧
        ∀ c ∈ r.cellVector_, c.attribute_ = default) := by
  have hH := createRefined_verdict w ext (Mesh.new mesh.dimension_) false true hcbc hwf
    (fun _ _ => True) (fun _ _ => True) trivial (fun _ _ _ _ _ _ _ _ => trivial)
    (fun _ _ => trivial) (fun _ _ _ _ _ _ _ _ => trivial)
  have hP := createRefined_verdict w ext (Mesh.new mesh.dimension_) true false hcbc hwf
    (fun _ _ => True) (fun _ _ => True) trivial (fun _ _ _ _ _ _ _ _ => trivial)
    (fun _ _ => trivial) (fun _ _ _ _ _ _ _ _ => trivial)
  refine ⟨fun hcs => ?_, fun hbad => ?_, fun hcs => ?_⟩
  · obtain ⟨r0, hr0, -⟩ := hH.2 hcs hbs
    obtain ⟨groups, hall, hcells⟩ := createRefined_stems w ext tables hcbc _ mesh false true _ hr0
    have hcount : r0.cellCount ≤ 8 * mesh.cellCount := by
      unfold cellCount
      rw [hcells]
      exact flatten_length_le (fun a g h => h.1) hall
    have hfit : r0.cellCount < 2 ^ w := by
      have := hwf.2.2.2.2
      omega
    have hset := setCellAttributes_eq w r0 (r0.cellMarker.map ofInt) hfit
      (by simp [cellMarker, cellCount])
    obtain ⟨r, hr⟩ : ∃ r : Mesh P R, r = { r0 with cellVector_ :=
        (List.zipWith (fun c a => ({ c with attribute_ := a } : Cell R)) r0.cellVector_
          (r0.cellMarker.map ofInt)) } := ⟨_, rfl⟩
    rw [← hr] at hset
    have hrc : r.cellVector_ = List.zipWith (fun c a => ({ c with attribute_ := a } : Cell R))
        r0.cellVector_ (r0.cellMarker.map ofInt) := by rw [hr]
    have hmark : cellMarker r = cellMarker r0 := by
      unfold cellMarker
      rw [hrc]
      exact zipWith_attribute_keep (fun c => c.marker) (fun _ _ => rfl) _ _
        (by simp [cellMarker])
    refine ⟨r, groups.map (fun g => g.map (fun x => x.marker)), ?_, ?_, ?_, ?_⟩
    · unfold Mesh.createH2
      rw [hr0]
      dsimp only
      rw [hset]
    · rw [hmark]
      unfold cellAttributes
      rw [hrc]
      exact zipWith_attribute_map _ _ (by simp [cellMarker])
    · rw [List.forall₂_map_right_iff]
      refine hall.imp (fun c g h => ⟨by simpa using h.1, ?_⟩)
      intro x hx
      obtain ⟨y, hy, rfl⟩ := List.mem_map.mp hx
      exact (h.2 y hy).1
    · rw [hmark]
      unfold cellMarker
      rw [hcells, List.map_flatten]
  · unfold Mesh.createH2
    rw [hH.1 (Or.inl hbad)]
  · obtain ⟨r0, hr0, -⟩ := hP.2 hcs hbs
    obtain ⟨groups, hall, hcells⟩ := createRefined_stems w ext tables hcbc _ mesh true false _ hr0
    refine ⟨r0, hr0, fun c hc => ?_⟩
    rw [hcells] at hc
    obtain ⟨g, hg, hcg⟩ := List.mem_flatten.mp hc
    obtain ⟨i, hi, hgi⟩ := List.getElem_of_mem hg
    have hlen := hall.length_eq
    have hstem := (List.forall₂_iff_get.mp hall).2 i (by omega) hi
    simp only [List.get_eq_getElem, hgi] at hstem
    exact (hstem.2 c hcg).2

/-- Witness of C36: one tetrahedron of marker 7 and attribute 0. -/
theorem createH2_attributes_are_markers_witness :
    ∃ (r : Mesh Int Int) (groups : List (List Int)),
      Mesh.createH2 32 plainExternals exampleTables pushBoundary id oneTetrahedron = .ok r ∧
      cellAttributes r = (cellMarker r).map id ∧
      List.Forall₂ (fun c g => g.length ≤ 8 ∧ ∀ x ∈ g, x = c.marker)
        oneTetrahedron.cellVector_ groups ∧
      cellMarker r = groups.flatten :=
  (createH2_attributes_are_markers 32 plainExternals exampleTables pushBoundary id oneTetrahedron
    keepsNodesAndCells_pushBoundary refinable_oneTetrahedron (by decide)).1 (by decide)

/-! ## Requests in a symmetric map -/

theorem MatrixLe.rfl_ (M : NodeMatrix) : MatrixLe M M := fun _ _ h => h

theorem MatrixLe.compose {M M1 M2 : NodeMatrix} (h1 : MatrixLe M M1) (h2 : MatrixLe M1 M2) :
    MatrixLe M M2 := fun k x h => h2 k x (h1 k x h)

theorem symmetricMatrix_of_diagMatrix {V : Nat} {M : NodeMatrix} (h : DiagMatrix V M) :
    SymmetricMatrix M := by
  intro i j
  rw [h i j, h j i]
  by_cases hij : i = j
  · subst hij
    rfl
  · rw [if_neg (fun hh => hij hh.1), if_neg (fun hh => hij hh.1.symm)]

/-- A request for two nodes of the mesh under construction in a state with a
symmetric map: the state stays one, no entry of the map is lost, the node
delivered is registered under the pair, a registered node is delivered as it is,
and an unregistered pair gets a new node. -/
theorem request_step [Add P] [HDiv P R P] [OfNat R 2] {V : Nat} {this : Mesh P R}
    {M : NodeMatrix} {a b : Nat} (hs : RefState V this M) (hsym : SymmetricMatrix M)
    (ha : a < this.nodeCount) (hb : b < this.nodeCount) :
    Returns (fun r => RefState V r.2.1 r.2.2 ∧ SymmetricMatrix r.2.2 ∧ MatrixLe M r.2.2 ∧
        Grows this r.2.1 1 ∧ r.1 < r.2.1.nodeCount ∧
        r.2.2 ((a : Int), (b : Int)) = some r.1 ∧
        (∀ x, M ((a : Int), (b : Int)) = some x → r.1 = x ∧ r.2.1 = this ∧ r.2.2 = M) ∧
        (M ((a : Int), (b : Int)) = none → r.1 = this.nodeCount))
      (refinementNode this M a b) := by
  obtain ⟨r, hr, hst, hlt, hg, -⟩ := refState_refinementNode hs ha hb
  refine ⟨r, hr, hst, ?_⟩
  obtain ⟨na, hna, hida⟩ := ownNodeRef_of_lt (i := a) hs.1 ha
  obtain ⟨nb, hnb, hidb⟩ := ownNodeRef_of_lt (i := b) hs.1 hb
  have hr' : r = createRefinementNode_ this { ptr := .own a, node := na }
      { ptr := .own b, node := nb } M := by
    unfold refinementNode at hr
    rw [hna, hnb] at hr
    cases hr
    rfl
  have hsymr : SymmetricMatrix r.2.2 := by
    rw [hr']
    exact symmetricMatrix_createRefinementNode _ _ _ _ hsym
  refine ⟨hsymr, ?_, hg, hlt, ?_, ?_, ?_⟩
  · intro k x hk
    rw [hr']
    unfold createRefinementNode_
    dsimp only
    rw [hida, hidb]
    cases hM : M ((a : Int), (b : Int)) with
    | some n => exact hk
    | none =>
      dsimp only
      have h1 : k ≠ ((a : Int), (b : Int)) := by
        intro h
        rw [h, hM] at hk
        cases hk
      have h2 : k ≠ ((b : Int), (a : Int)) := by
        intro h
        rw [h, ← hsym, hM] at hk
        cases hk
      split
      · rename_i hab
        have : a = b := by simpa using hab
        subst this
        dsimp only
        rw [Function.update_apply, if_neg h1]
        exact hk
      · dsimp only
        rw [Function.update_apply, if_neg h2, Function.update_apply, if_neg h1]
        exact hk
  · rw [hr']
    unfold createRefinementNode_
    dsimp only
    rw [hida, hidb]
    cases hM : M ((a : Int), (b : Int)) with
    | some n => exact hM
    | none =>
      dsimp only
      split
      · rename_i hab
        have : a = b := by simpa using hab
        subst this
        simp
      · dsimp only
        rw [Function.update_apply]
        split
        · rfl
        · simp
  · intro x hx
    have h := createRefinementNode_of_some this { ptr := .own a, node := na }
      { ptr := .own b, node := nb } M x (by rw [hida, hidb]; exact hx)
    rw [hr', h]
    exact ⟨rfl, rfl, rfl⟩
  · intro hM
    rw [hr']
    unfold createRefinementNode_
    dsimp only
    rw [hida, hidb, hM]
    dsimp only
    split <;> simp [createNode_eq, nodeCount]

/-! ## The children of a split cell -/

theorem createCells__exact [Inhabited R] (shape : CellShape) (marker : Int) :
    ∀ (lists : List (List Nat)) (this : Mesh P R),
      createCells_ shape marker lists this =
        { this with cellVector_ := this.cellVector_ ++
            childCellsFrom shape marker this.cellCount lists } := by
  intro lists
  induction lists with
  | nil => intro this; simp [createCells_, childCellsFrom]
  | cons ns rest ih =>
    intro this
    simp only [createCells_]
    rw [ih]
    simp [createCell_, childCellsFrom, cellCount]

theorem createCell_of_none [Inhabited R] (m : Mesh P R) (nodes : List Nat) (marker : Int)
    (h : cellTable nodes.length m.dimension_ = none) :
    createCell m nodes marker = (none, m) := by
  unfold createCell
  unfold cellTable at h
  split <;> (try split) <;> (try simp [*] at h) <;> (try simp_all [createCell_, cellCount])

theorem createCells_exact [Inhabited R] (marker : Int) (L : Nat) :
    ∀ (lists : List (List Nat)) (this : Mesh P R), (∀ ns ∈ lists, ns.length = L) →
      createCells marker lists this =
        { this with cellVector_ := this.cellVector_ ++
            (match cellTable L this.dimension_ with
             | some s => childCellsFrom s marker this.cellCount lists
             | none => []) } := by
  intro lists
  induction lists with
  | nil =>
    intro this _
    cases cellTable L this.dimension_ <;> simp [createCells, childCellsFrom]
  | cons ns rest ih =>
    intro this hl
    have hns : ns.length = L := hl ns (List.mem_cons_self _ _)
    simp only [createCells]
    rw [ih _ (fun x hx => hl x (List.mem_cons_of_mem _ hx))]
    cases hT : cellTable L this.dimension_ with
    | none =>
      rw [createCell_of_none this ns marker (by rw [hns]; exact hT)]
      simp [hT]
    | some s =>
      rw [createCell_of_table this ns marker s (by rw [hns]; exact hT)]
      simp [hT, childCellsFrom, cellCount]

theorem nth_local (n e : List Nat) {t k : Nat} (hk : k < t) :
    nth ((List.range t).map (nth n) ++ e) k = nth n k := by
  unfold nth
  rw [List.getD_eq_getElem?_getD, List.getElem?_append_left (by simpa using hk),
    List.getElem?_map, List.getElem?_range hk]
  rfl

theorem request_bind [Add P] [HDiv P R P] [OfNat R 2] {V : Nat} {this : Mesh P R}
    {M : NodeMatrix} {a b : Nat} {β : Type} {T : β → Prop}
    {f : Nat × Mesh P R × NodeMatrix → Except Failure β} (hs : RefState V this M)
    (hsym : SymmetricMatrix M) (ha : a < this.nodeCount) (hb : b < this.nodeCount)
    (hf : ∀ x t M1, RefState V t M1 → SymmetricMatrix M1 → MatrixLe M M1 → Grows this t 1 →
      x < t.nodeCount → M1 ((a : Int), (b : Int)) = some x → Returns T (f (x, t, M1))) :
    Returns T (refinementNode this M a b >>= f) :=
  Returns.step (request_step hs hsym ha hb)
    (fun r hr => hf r.1 r.2.1 r.2.2 hr.1 hr.2.1 hr.2.2.1 hr.2.2.2.1 hr.2.2.2.2.1 hr.2.2.2.2.2.1)

/-- The loop over the rows of a split table in a state with a symmetric map:
besides what `refState_splitNodes` states, no entry of the map is lost and every
node delivered is registered under the pair of its row. -/
theorem split_step [Add P] [HDiv P R P] [OfNat R 2] (w : Nat) {mesh : Mesh P R}
    (hids : IdsAreIndices mesh) {nodes : List Nat} (hnodes : ∀ p ∈ nodes, p < mesh.nodeCount) :
    ∀ (rows : List (Nat × Nat)) (n : List Nat) (this : Mesh P R) (M : NodeMatrix),
      (∀ row ∈ rows, row.1 < nodes.length ∧ row.2 < nodes.length) →
      RefState mesh.nodeCount this M → SymmetricMatrix M →
      this.nodeCount + rows.length < 2 ^ w →
      Returns (fun r => SymmetricMatrix r.2.2 ∧ MatrixLe M r.2.2 ∧
          ∃ res, r.1 = n ++ res ∧
            List.Forall₂ (fun row x =>
              r.2.2 ((nth nodes row.1 : Int), (nth nodes row.2 : Int)) = some x) rows res)
        (splitNodes w mesh nodes rows n this M) := by
  intro rows
  induction rows with
  | nil =>
    intro n this M _ _ hsym _
    exact ⟨_, rfl, hsym, MatrixLe.rfl_ M, [], by simp, List.Forall₂.nil⟩
  | cons row rows ih =>
    intro n this M hrows hst hsym hfit
    obtain ⟨k0, k1⟩ := row
    obtain ⟨hk0, hk1⟩ := hrows (k0, k1) (List.mem_cons_self _ _)
    have hV := hst.2.1
    simp only [List.length_cons] at hfit
    have h0 : copyOfNode w this mesh nodes k0 = .ok (nth nodes k0) :=
      copyOfNode_of_lt hids (getElem?_nth hk0) (hnodes _ (nth_mem hk0)) hV (by omega)
    have h1 : copyOfNode w this mesh nodes k1 = .ok (nth nodes k1) :=
      copyOfNode_of_lt hids (getElem?_nth hk1) (hnodes _ (nth_mem hk1)) hV (by omega)
    obtain ⟨r1, hr1, hst1, hsym1, hle1, hg1, hlt1, hreg1, -, -⟩ :=
      request_step (a := nth nodes k0) (b := nth nodes k1) hst hsym
        (Nat.lt_of_lt_of_le (hnodes _ (nth_mem hk0)) hV)
        (Nat.lt_of_lt_of_le (hnodes _ (nth_mem hk1)) hV)
    have hn1 := hg1.nodeCount_le
    obtain ⟨r, hr, hsymr, hler, res, hres, hall⟩ :=
      ih (n ++ [r1.1]) r1.2.1 r1.2.2 (fun row hrow => hrows row (List.mem_cons_of_mem _ hrow))
        hst1 hsym1 (by omega)
    refine ⟨r, ?_, hsymr, hle1.compose hler, r1.1 :: res, ?_, ?_⟩
    · simp only [splitNodes, h0, h1, hr1]
      exact hr
    · rw [hres]
      simp
    · exact List.Forall₂.cons (hler _ _ hreg1) hall

theorem mem_tableRequests {rows : List (Nat × Nat)} {q : Nat × Nat × Nat}
    (h : q ∈ tableRequests rows) : rows[q.1]? = some (q.2.1, q.2.2) := by
  unfold tableRequests at h
  obtain ⟨e, he, rfl⟩ := List.mem_map.mp h
  exact List.mk_mem_enum_iff_getElem?.mp he

/-- The loop over a proper split table in a state with a symmetric map. -/
theorem table_step [Add P] [HDiv P R P] [OfNat R 2] (w : Nat) {mesh : Mesh P R}
    (hids : IdsAreIndices mesh) {k t : Nat} {T : List (Nat × Nat)} (hT : ProperTable k t T)
    {nodes : List Nat} (hlen : nodes.length = k) (hnodes : ∀ p ∈ nodes, p < mesh.nodeCount)
    {this : Mesh P R} {M : NodeMatrix} (hst : RefState mesh.nodeCount this M)
    (hsym : SymmetricMatrix M) (hfit : this.nodeCount + t < 2 ^ w) :
    Returns (fun r => RefState mesh.nodeCount r.2.1 r.2.2 ∧ SymmetricMatrix r.2.2 ∧
        MatrixLe M r.2.2 ∧ Grows this r.2.1 t ∧
        r.1.length = t ∧ r.1.take k = nodes ∧ (∀ x ∈ r.1, x < r.2.1.nodeCount) ∧
        ∀ q ∈ tableRequests (T.take t),
          q.1 < t ∧ q.2.1 < k ∧ q.2.2 < k ∧
          r.2.2 ((nth r.1 q.2.1 : Int), (nth r.1 q.2.2 : Int)) = some (nth r.1 q.1))
      (splitNodes w mesh nodes (T.take t) [] this M) := by
  have hrowsLen : (T.take t).length = t := by
    rw [List.length_take]
    exact Nat.min_eq_left hT.2.1
  obtain ⟨r, hr, hs, hg, hrlen, htake, -, hall⟩ :=
    returns_splitTable w hids hT hlen hnodes hst hfit
  obtain ⟨r', hr', hsym', hle', res, hres, hreg⟩ :=
    split_step w hids hnodes (T.take t) [] this M
      (by rw [hlen]; exact properTable_rows hT) hst hsym (by omega)
  rw [hr] at hr'
  cases hr'
  rw [List.nil_append] at hres
  refine ⟨r, hr, hs, hsym', hle', hg, hrlen, htake, hall, ?_⟩
  intro q hq
  have hrow := mem_tableRequests hq
  obtain ⟨hq1, hq1e⟩ := List.getElem?_eq_some.mp hrow
  rw [hrowsLen] at hq1
  have hrowmem : (q.2.1, q.2.2) ∈ T.take t := List.getElem?_mem hrow
  obtain ⟨hlt1, hlt2⟩ := properTable_rows hT _ hrowmem
  refine ⟨hq1, hlt1, hlt2, ?_⟩
  have hk_le : k ≤ r.1.length := by rw [hrlen]; exact hT.1
  have hcorner : ∀ i, i < k → nth r.1 i = nth nodes i := by
    intro i hi
    have : (r.1.take k)[i]? = r.1[i]? := by
      rw [List.getElem?_take]
      simp [hi]
    unfold nth
    rw [List.getD_eq_getElem?_getD, List.getD_eq_getElem?_getD, ← this, htake]
  have hget := (List.forall₂_iff_get.mp hreg).2 q.1 (by rw [hrowsLen]; exact hq1)
    (by rw [← hres, hrlen]; exact hq1)
  simp only [List.get_eq_getElem, hq1e] at hget
  rw [hcorner _ hlt1, hcorner _ hlt2, hget]
  congr 1
  subst hres
  unfold nth
  rw [List.getD_eq_getElem?_getD, List.getElem?_eq_getElem]
  rfl


theorem createCells_nodeCount [Inhabited R] (marker : Int) (l : List (List Nat)) (m : Mesh P R) :
    (createCells marker l m).nodeCount = m.nodeCount := by
  unfold nodeCount
  rw [createCells_nodeVector]

theorem createCells__nodeCount [Inhabited R] (shape : CellShape) (marker : Int)
    (l : List (List Nat)) (m : Mesh P R) :
    (createCells_ shape marker l m).nodeCount = m.nodeCount := by
  unfold nodeCount
  rw [createCells__nodeVector]

theorem h2Step_edgeCell [Add P] [HDiv P R P] [OfNat R 2] [Inhabited R] (w : Nat)
    (ext : Externals P R) (tables : SplitTables) {mesh : Mesh P R} {c : Cell R}
    {this : Mesh P R} {M : NodeMatrix} (hids : IdsAreIndices mesh)
    (hshape : c.shape = CellShape.EdgeCell) (hc : CellOver mesh.nodeCount c)
    (hst : RefState mesh.nodeCount this M) (hsym : SymmetricMatrix M)
    (hfit : this.nodeCount + 27 < 2 ^ w) :
    Returns (H2Step mesh.nodeCount tables (ext.shapeCentre (nodePositions mesh c.nodes)) c this M)
      (refineCell w ext tables mesh true c this M) := by
  obtain ⟨hlen, hval⟩ := hc
  rw [hshape] at hlen
  obtain ⟨a, b, hnodes⟩ := List.length_eq_two.mp hlen
  have ha : a < mesh.nodeCount := hval a (by simp [hnodes])
  have hb : b < mesh.nodeCount := hval b (by simp [hnodes])
  have hV := hst.2.1
  unfold refineCell
  rw [hshape]
  dsimp only
  refine Returns.step_eq (copyOfNode_of_lt hids (by rw [hnodes]; rfl) ha hV (by omega)) ?_
  refine Returns.step_eq (copyOfNode_of_lt hids (by rw [hnodes]; rfl) hb hV (by omega)) ?_
  refine request_bind hst hsym (by omega) (by omega) (fun x1 t1 M1 s1 y1 le1 g1 lt1 reg1 => ?_)
  refine Returns.done ?_
  simp only [if_true]
  have hn1 := g1.nodeCount_le
  have hcells := createCells_exact (P := P) (R := R) c.marker 2 [[a, x1], [x1, b]] t1 (by simp)
  have hcount := createCells_nodeCount (P := P) (R := R) c.marker [[a, x1], [x1, b]] t1
  obtain ⟨l, hl, rfl⟩ := g1
  refine ⟨refState_of_nodeVector_eq (createCells_nodeVector _ _ _) s1, y1, le1, [a, b, x1], l,
    by rw [hshape]; rfl, by rw [hnodes]; rfl, by rw [hshape]; rfl, ?_, ?_, ?_, by omega, ?_⟩
  · intro x hx
    simp only [List.mem_cons, List.mem_singleton, List.not_mem_nil, or_false] at hx
    simp only [hcount]
    rcases hx with hx | hx | hx <;> subst hx <;> omega
  · intro q hq
    rw [hshape] at hq
    simp only [h2Requests, List.mem_singleton] at hq
    subst hq
    exact reg1
  · intro h
    rw [hshape] at h
    cases h
  · dsimp only
    rw [hcells]
    simp only [h2Children, hshape, h2Class, h2Tuples]
    rfl


theorem h2Step_triangle [Add P] [HDiv P R P] [OfNat R 2] [Inhabited R] (w : Nat)
    (ext : Externals P R) (tables : SplitTables) {mesh : Mesh P R} {c : Cell R}
    {this : Mesh P R} {M : NodeMatrix} (hids : IdsAreIndices mesh)
    (hshape : c.shape = CellShape.Triangle) (hc : CellOver mesh.nodeCount c)
    (hst : RefState mesh.nodeCount this M) (hsym : SymmetricMatrix M)
    (hfit : this.nodeCount + 27 < 2 ^ w) :
    Returns (H2Step mesh.nodeCount tables (ext.shapeCentre (nodePositions mesh c.nodes)) c this M)
      (refineCell w ext tables mesh true c this M) := by
  obtain ⟨hlen, hval⟩ := hc
  rw [hshape] at hlen
  obtain ⟨a, b, d, hnodes⟩ := List.length_eq_three.mp hlen
  have ha : a < mesh.nodeCount := hval a (by simp [hnodes])
  have hb : b < mesh.nodeCount := hval b (by simp [hnodes])
  have hd : d < mesh.nodeCount := hval d (by simp [hnodes])
  have hV := hst.2.1
  unfold refineCell
  rw [hshape]
  dsimp only
  refine Returns.step_eq (copyOfNode_of_lt hids (by rw [hnodes]; rfl) ha hV (by omega)) ?_
  refine Returns.step_eq (copyOfNode_of_lt hids (by rw [hnodes]; rfl) hb hV (by omega)) ?_
  refine Returns.step_eq (copyOfNode_of_lt hids (by rw [hnodes]; rfl) hd hV (by omega)) ?_
  refine request_bind hst hsym (by omega) (by omega) (fun x1 t1 M1 s1 y1 le1 g1 lt1 reg1 => ?_)
  dsimp only
  have hn1 := g1.nodeCount_le
  refine request_bind s1 y1 (by omega) (by omega) (fun x2 t2 M2 s2 y2 le2 g2 lt2 reg2 => ?_)
  dsimp only
  have hn2 := g2.nodeCount_le
  refine request_bind s2 y2 (by omega) (by omega) (fun x3 t3 M3 s3 y3 le3 g3 lt3 reg3 => ?_)
  dsimp only
  have hn3 := g3.nodeCount_le
  refine Returns.done ?_
  simp only [if_true]
  have hcells := createCells__exact (P := P) (R := R) CellShape.Triangle c.marker
    [[a, x1, x3], [b, x2, x1], [d, x3, x2], [x1, x2, x3]] t3
  have hcount := createCells__nodeCount (P := P) (R := R) CellShape.Triangle c.marker
    [[a, x1, x3], [b, x2, x1], [d, x3, x2], [x1, x2, x3]] t3
  obtain ⟨l, hl, rfl⟩ := (g1.trans g2).trans g3
  refine ⟨refState_of_nodeVector_eq (createCells__nodeVector _ _ _ _) s3, y3,
    (le1.compose le2).compose le3, [a, b, d, x1, x2, x3], l,
    by rw [hshape]; rfl, by rw [hnodes]; rfl, by rw [hshape]; rfl, ?_, ?_, ?_, by omega, ?_⟩
  · intro x hx
    simp only [List.mem_cons, List.mem_singleton, List.not_mem_nil, or_false] at hx
    simp only [hcount]
    rcases hx with hx | hx | hx | hx | hx | hx <;> subst hx <;> omega
  · intro q hq
    rw [hshape] at hq
    simp only [h2Requests, List.mem_cons, List.mem_singleton, List.not_mem_nil, or_false] at hq
    rcases hq with hq | hq | hq <;> subst hq
    · exact le3 _ _ (le2 _ _ reg1)
    · exact le3 _ _ reg2
    · exact reg3
  · intro h
    rw [hshape] at h
    cases h
  · dsimp only
    rw [hcells]
    simp only [h2Children, hshape, h2Class, h2Tuples]
    rfl

theorem h2Step_quadrangle [Add P] [HDiv P R P] [OfNat R 2] [Inhabited R] (w : Nat)
    (ext : Externals P R) (tables : SplitTables) {mesh : Mesh P R} {c : Cell R}
    {this : Mesh P R} {M : NodeMatrix} (hids : IdsAreIndices mesh)
    (hshape : c.shape = CellShape.Quadrangle) (hc : CellOver mesh.nodeCount c)
    (hst : RefState mesh.nodeCount this M) (hsym : SymmetricMatrix M)
    (hfit : this.nodeCount + 27 < 2 ^ w) :
    Returns (H2Step mesh.nodeCount tables (ext.shapeCentre (nodePositions mesh c.nodes)) c this M)
      (refineCell w ext tables mesh true c this M) := by
  obtain ⟨hlen, hval⟩ := hc
  rw [hshape] at hlen
  obtain ⟨a, b, d, e, hnodes⟩ := length_eq_four hlen
  have ha : a < mesh.nodeCount := hval a (by simp [hnodes])
  have hb : b < mesh.nodeCount := hval b (by simp [hnodes])
  have hd : d < mesh.nodeCount := hval d (by simp [hnodes])
  have he : e < mesh.nodeCount := hval e (by simp [hnodes])
  have hV := hst.2.1
  unfold refineCell
  rw [hshape]
  dsimp only
  refine Returns.step_eq (copyOfNode_of_lt hids (by rw [hnodes]; rfl) ha hV (by omega)) ?_
  refine Returns.step_eq (copyOfNode_of_lt hids (by rw [hnodes]; rfl) hb hV (by omega)) ?_
  refine Returns.step_eq (copyOfNode_of_lt hids (by rw [hnodes]; rfl) hd hV (by omega)) ?_
  refine Returns.step_eq (copyOfNode_of_lt hids (by rw [hnodes]; rfl) he hV (by omega)) ?_
  refine request_bind hst hsym (by omega) (by omega) (fun x1 t1 M1 s1 y1 le1 g1 lt1 reg1 => ?_)
  dsimp only
  have hn1 := g1.nodeCount_le
  refine request_bind s1 y1 (by omega) (by omega) (fun x2 t2 M2 s2 y2 le2 g2 lt2 reg2 => ?_)
  dsimp only
  have hn2 := g2.nodeCount_le
  refine request_bind s2 y2 (by omega) (by omega) (fun x3 t3 M3 s3 y3 le3 g3 lt3 reg3 => ?_)
  dsimp only
  have hn3 := g3.nodeCount_le
  refine request_bind s3 y3 (by omega) (by omega) (fun x4 t4 M4 s4 y4 le4 g4 lt4 reg4 => ?_)
  dsimp only
  have hn4 := g4.nodeCount_le
  refine Returns.done ?_
  simp only [if_true]
  obtain ⟨s5, g5, lt5⟩ := refState_createNode (ext.shapeCentre (nodePositions mesh c.nodes))
    ext.defaultMarker s4
  have hn5 := g5.nodeCount_le
  have hx5 : (createNode t4 (ext.shapeCentre (nodePositions mesh c.nodes)) ext.defaultMarker).1 =
      t4.nodeCount := by simp [createNode_eq, nodeCount]
  have hnd : (createNode t4 (ext.shapeCentre (nodePositions mesh c.nodes))
      ext.defaultMarker).2.nodeVector_[t4.nodeCount]? =
      some { pos := ext.shapeCentre (nodePositions mesh c.nodes), marker := ext.defaultMarker,
             id := (t4.nodeCount : Int) } := by
    simp [createNode_eq, nodeCount]
  generalize hx : (createNode t4 (ext.shapeCentre (nodePositions mesh c.nodes))
    ext.defaultMarker).1 = x5 at *
  generalize ht : (createNode t4 (ext.shapeCentre (nodePositions mesh c.nodes))
    ext.defaultMarker).2 = t5 at *
  have hcells := createCells__exact (P := P) (R := R) CellShape.Quadrangle c.marker
    [[a, x1, x5, x4], [b, x2, x5, x1], [d, x3, x5, x2], [e, x4, x5, x3]] t5
  have hcount := createCells__nodeCount (P := P) (R := R) CellShape.Quadrangle c.marker
    [[a, x1, x5, x4], [b, x2, x5, x1], [d, x3, x5, x2], [e, x4, x5, x3]] t5
  have hvec := createCells__nodeVector (P := P) (R := R) CellShape.Quadrangle c.marker
    [[a, x1, x5, x4], [b, x2, x5, x1], [d, x3, x5, x2], [e, x4, x5, x3]] t5
  obtain ⟨l, hl, rfl⟩ := (((g1.trans g2).trans g3).trans g4).trans g5
  refine ⟨refState_of_nodeVector_eq hvec s5, y4,
    ((le1.compose le2).compose le3).compose le4, [a, b, d, e, x1, x2, x3, x4, x5], l,
    by rw [hshape]; rfl, by rw [hnodes]; rfl, by rw [hshape]; rfl, ?_, ?_, ?_, by omega, ?_⟩
  · intro x hx
    simp only [List.mem_cons, List.mem_singleton, List.not_mem_nil, or_false] at hx
    simp only [hcount]
    rcases hx with hx | hx | hx | hx | hx | hx | hx | hx | hx <;> subst hx <;> omega
  · intro q hq
    rw [hshape] at hq
    simp only [h2Requests, List.mem_cons, List.mem_singleton, List.not_mem_nil, or_false] at hq
    rcases hq with hq | hq | hq | hq <;> subst hq
    · exact le4 _ _ (le3 _ _ (le2 _ _ reg1))
    · exact le4 _ _ (le3 _ _ reg2)
    · exact le4 _ _ reg3
    · exact reg4
  · intro _
    refine ⟨{ pos := ext.shapeCentre (nodePositions mesh c.nodes), marker := ext.defaultMarker,
              id := (t4.nodeCount : Int) }, ?_, rfl, ?_⟩
    · show (createCells_ _ _ _ _).nodeVector_[x5]? = _
      rw [hvec, hx5]
      exact hnd
    · show this.nodeCount ≤ x5
      omega
  · dsimp only
    rw [hcells]
    simp only [h2Children, hshape, h2Class, h2Tuples]
    rfl


theorem h2Step_tetrahedron [Add P] [HDiv P R P] [OfNat R 2] [Inhabited R] (w : Nat)
    (ext : Externals P R) {tables : SplitTables} {mesh : Mesh P R} {c : Cell R}
    {this : Mesh P R} {M : NodeMatrix} (hids : IdsAreIndices mesh) (htab : ProperTables tables)
    (hshape : c.shape = CellShape.Tetrahedron) (hc : CellOver mesh.nodeCount c)
    (hst : RefState mesh.nodeCount this M) (hsym : SymmetricMatrix M)
    (hfit : this.nodeCount + 27 < 2 ^ w) (hflag : this.oldTet10NumberingStyle_ = true) :
    Returns (H2Step mesh.nodeCount tables (ext.shapeCentre (nodePositions mesh c.nodes)) c this M)
      (refineCell w ext tables mesh true c this M) := by
  obtain ⟨hlen, hval⟩ := hc
  rw [hshape] at hlen
  have hlen4 : c.nodes.length = 4 := hlen
  unfold refineCell
  rw [hshape]
  dsimp only
  rw [hflag]
  simp only [if_true]
  refine Returns.step_eq (tableRows_of_proper htab.1) ?_
  refine Returns.step (table_step w hids htab.1 hlen4 hval hst hsym (by omega)) (fun r hr => ?_)
  obtain ⟨n, t, M1⟩ := r
  obtain ⟨hs, hy, hle, hg, hrlen, htake, hall, hreq⟩ := hr
  dsimp only at hs hy hle hg hrlen htake hall hreq ⊢
  refine Returns.done ?_
  have hcells := createCells__exact (P := P) (R := R) CellShape.Tetrahedron c.marker
    [[nth n 4, nth n 6, nth n 5, nth n 0], [nth n 4, nth n 5, nth n 6, nth n 9],
     [nth n 7, nth n 9, nth n 4, nth n 1], [nth n 7, nth n 4, nth n 9, nth n 5],
     [nth n 8, nth n 7, nth n 5, nth n 2], [nth n 8, nth n 5, nth n 7, nth n 9],
     [nth n 6, nth n 9, nth n 8, nth n 3], [nth n 6, nth n 8, nth n 9, nth n 5]] t
  have hcount := createCells__nodeCount (P := P) (R := R) CellShape.Tetrahedron c.marker
    [[nth n 4, nth n 6, nth n 5, nth n 0], [nth n 4, nth n 5, nth n 6, nth n 9],
     [nth n 7, nth n 9, nth n 4, nth n 1], [nth n 7, nth n 4, nth n 9, nth n 5],
     [nth n 8, nth n 7, nth n 5, nth n 2], [nth n 8, nth n 5, nth n 7, nth n 9],
     [nth n 6, nth n 9, nth n 8, nth n 3], [nth n 6, nth n 8, nth n 9, nth n 5]] t
  obtain ⟨l, hl, rfl⟩ := hg
  refine ⟨refState_of_nodeVector_eq (createCells__nodeVector _ _ _ _) hs, hy, hle, n, l,
    by rw [hshape]; exact hrlen, by rw [hlen4]; exact htake, ?_, ?_, ?_, ?_, by omega, ?_⟩
  · rw [hshape]
    show n.take 10 = n
    rw [← hrlen]
    exact List.take_length n
  · intro x hx
    simp only [hcount]
    exact hall x hx
  · intro q hq
    rw [hshape] at hq
    exact (hreq q hq).2.2.2
  · intro h
    rw [hshape] at h
    cases h
  · dsimp only
    rw [hcells]
    simp only [h2Children, hshape, h2Class, h2Tuples]
    rfl

theorem h2Step_hexahedron [Add P] [HDiv P R P] [OfNat R 2] [Inhabited R] (w : Nat)
    (ext : Externals P R) {tables : SplitTables} {mesh : Mesh P R} {c : Cell R}
    {this : Mesh P R} {M : NodeMatrix} (hids : IdsAreIndices mesh) (htab : ProperTables tables)
    (hshape : c.shape = CellShape.Hexahedron) (hc : CellOver mesh.nodeCount c)
    (hst : RefState mesh.nodeCount this M) (hsym : SymmetricMatrix M)
    (hfit : this.nodeCount + 27 < 2 ^ w) :
    Returns (H2Step mesh.nodeCount tables (ext.shapeCentre (nodePositions mesh c.nodes)) c this M)
      (refineCell w ext tables mesh true c this M) := by
  obtain ⟨hlen, hval⟩ := hc
  rw [hshape] at hlen
  have hlen8 : c.nodes.length = 8 := hlen
  unfold refineCell
  rw [hshape]
  dsimp only
  refine Returns.step_eq (tableRows_of_proper htab.2.2.1) ?_
  refine Returns.step (table_step w hids htab.2.2.1 hlen8 hval hst hsym (by omega))
    (fun r hr => ?_)
  obtain ⟨n, t, M0⟩ := r
  obtain ⟨hs, hy, hle, hg, hrlen, htake, hall, hreq⟩ := hr
  dsimp only at hs hy hle hg hrlen htake hall hreq ⊢
  have hn0 := hg.nodeCount_le
  have hnth : ∀ j, j < 20 → nth n j < t.nodeCount := fun j hj => hall _ (nth_mem (by omega))
  simp only [if_true]
  have a1 := hnth 8 (by decide)
  have b1 := hnth 10 (by decide)
  refine request_bind hs hy a1 b1 (fun x1 t1 M1 s1 y1 le1 g1 lt1 reg1 => ?_)
  dsimp only
  have hn1 := g1.nodeCount_le
  have a2 := hnth 12 (by decide)
  have b2 := hnth 14 (by decide)
  refine request_bind s1 y1 (by omega) (by omega) (fun x2 t2 M2 s2 y2 le2 g2 lt2 reg2 => ?_)
  dsimp only
  have hn2 := g2.nodeCount_le
  refine request_bind s2 y2 (by omega) (by omega) (fun x3 t3 M3 s3 y3 le3 g3 lt3 reg3 => ?_)
  dsimp only
  have hn3 := g3.nodeCount_le
  have a4 := hnth 9 (by decide)
  have b4 := hnth 13 (by decide)
  refine request_bind s3 y3 (by omega) (by omega) (fun x4 t4 M4 s4 y4 le4 g4 lt4 reg4 => ?_)
  dsimp only
  have hn4 := g4.nodeCount_le
  refine request_bind s4 y4 (by omega) (by omega) (fun x5 t5 M5 s5 y5 le5 g5 lt5 reg5 => ?_)
  dsimp only
  have hn5 := g5.nodeCount_le
  have a6 := hnth 11 (by decide)
  have b6 := hnth 15 (by decide)
  refine request_bind s5 y5 (by omega) (by omega) (fun x6 t6 M6 s6 y6 le6 g6 lt6 reg6 => ?_)
  dsimp only
  have hn6 := g6.nodeCount_le
  refine request_bind s6 y6 (by omega) (by omega) (fun x7 t7 M7 s7 y7 le7 g7 lt7 reg7 => ?_)
  dsimp only
  have hn7 := g7.nodeCount_le
  refine Returns.done ?_
  have hcells := createCells_exact (P := P) (R := R) c.marker 8
    [[nth n 0, nth n 8, x1, nth n 11, nth n 16, x3, x7, x6],
     [nth n 8, nth n 1, nth n 9, x1, x3, nth n 17, x4, x7],
     [nth n 11, x1, nth n 10, nth n 3, x6, x7, x5, nth n 19],
     [x1, nth n 9, nth n 2, nth n 10, x7, x4, nth n 18, x5],
     [nth n 16, x3, x7, x6, nth n 4, nth n 12, x2, nth n 15],
     [x3, nth n 17, x4, x7, nth n 12, nth n 5, nth n 13, x2],
     [x6, x7, x5, nth n 19, nth n 15, x2, nth n 14, nth n 7],
     [x7, x4, nth n 18, x5, x2, nth n 13, nth n 6, nth n 14]] t7 (by simp)
  have hcount := createCells_nodeCount (P := P) (R := R) c.marker
    [[nth n 0, nth n 8, x1, nth n 11, nth n 16, x3, x7, x6],
     [nth n 8, nth n 1, nth n 9, x1, x3, nth n 17, x4, x7],
     [nth n 11, x1, nth n 10, nth n 3, x6, x7, x5, nth n 19],
     [x1, nth n 9, nth n 2, nth n 10, x7, x4, nth n 18, x5],
     [nth n 16, x3, x7, x6, nth n 4, nth n 12, x2, nth n 15],
     [x3, nth n 17, x4, x7, nth n 12, nth n 5, nth n 13, x2],
     [x6, x7, x5, nth n 19, nth n 15, x2, nth n 14, nth n 7],
     [x7, x4, nth n 18, x5, x2, nth n 13, nth n 6, nth n 14]] t7
  have hmap : (List.range 20).map (nth n) = n := by
    rw [← hrlen]
    exact map_nth_range n
  have L1 : MatrixLe M1 M7 := ((((le2.compose le3).compose le4).compose le5).compose le6).compose le7
  have L2 : MatrixLe M2 M7 := (((le3.compose le4).compose le5).compose le6).compose le7
  have L3 : MatrixLe M3 M7 := ((le4.compose le5).compose le6).compose le7
  have L4 : MatrixLe M4 M7 := (le5.compose le6).compose le7
  have L5 : MatrixLe M5 M7 := le6.compose le7
  obtain ⟨l, hl, rfl⟩ := ((((((hg.trans g1).trans g2).trans g3).trans g4).trans g5).trans g6).trans g7
  refine ⟨refState_of_nodeVector_eq (createCells_nodeVector _ _ _) s7, y7,
    hle.compose (le1.compose L1), (List.range 20).map (nth n) ++ [x1, x2, x3, x4, x5, x6, x7], l,
    by rw [hshape]; simp [localCount], ?_, ?_, ?_, ?_, ?_, by omega, ?_⟩
  · rw [hmap, hlen8, List.take_append_of_le_length (by omega)]
    exact htake
  · rw [hshape, hmap]
    show (n ++ _).take 20 = n
    rw [List.take_append_of_le_length (by omega), ← hrlen]
    exact List.take_length n
  · intro x hx
    rw [hmap] at hx
    simp only [hcount]
    simp only [List.mem_append, List.mem_cons, List.mem_singleton, List.not_mem_nil,
      or_false] at hx
    rcases hx with hx | hx | hx | hx | hx | hx | hx | hx
    · have := hall x hx
      omega
    all_goals (subst hx; omega)
  · intro q hq
    rw [hshape] at hq
    simp only [h2Requests, List.mem_append] at hq
    rcases hq with hq | hq
    · obtain ⟨h1, h2, h3, h4⟩ := hreq q hq
      rw [nth_local n _ h1, nth_local n _ (by omega : q.2.1 < 20),
        nth_local n _ (by omega : q.2.2 < 20)]
      exact L1 _ _ (le1 _ _ h4)
    · simp only [List.mem_cons, List.mem_singleton, List.not_mem_nil, or_false] at hq
      rcases hq with hq | hq | hq | hq | hq | hq | hq <;> subst hq
      · exact L1 _ _ reg1
      · exact L2 _ _ reg2
      · exact L3 _ _ reg3
      · exact L4 _ _ reg4
      · exact L5 _ _ reg5
      · exact le7 _ _ reg6
      · exact reg7
  · intro h
    rw [hshape] at h
    cases h
  · dsimp only
    rw [hcells]
    simp only [h2Children, hshape, h2Class, h2Tuples]
    rfl

theorem h2Step_triPrism [Add P] [HDiv P R P] [OfNat R 2] [Inhabited R] (w : Nat)
    (ext : Externals P R) {tables : SplitTables} {mesh : Mesh P R} {c : Cell R}
    {this : Mesh P R} {M : NodeMatrix} (hids : IdsAreIndices mesh) (htab : ProperTables tables)
    (hshape : c.shape = CellShape.TriPrism) (hc : CellOver mesh.nodeCount c)
    (hst : RefState mesh.nodeCount this M) (hsym : SymmetricMatrix M)
    (hfit : this.nodeCount + 27 < 2 ^ w) :
    Returns (H2Step mesh.nodeCount tables (ext.shapeCentre (nodePositions mesh c.nodes)) c this M)
      (refineCell w ext tables mesh true c this M) := by
  obtain ⟨hlen, hval⟩ := hc
  rw [hshape] at hlen
  have hlen6 : c.nodes.length = 6 := hlen
  unfold refineCell
  rw [hshape]
  dsimp only
  refine Returns.step_eq (tableRows_of_proper htab.2.2.2.1) ?_
  refine Returns.step (table_step w hids htab.2.2.2.1 hlen6 hval hst hsym (by omega))
    (fun r hr => ?_)
  obtain ⟨n, t, M0⟩ := r
  obtain ⟨hs, hy, hle, hg, hrlen, htake, hall, hreq⟩ := hr
  dsimp only at hs hy hle hg hrlen htake hall hreq ⊢
  have hn0 := hg.nodeCount_le
  have hnth : ∀ j, j < 15 → nth n j < t.nodeCount := fun j hj => hall _ (nth_mem (by omega))
  simp only [if_true]
  have a1 := hnth 6 (by decide)
  have b1 := hnth 9 (by decide)
  refine request_bind hs hy a1 b1 (fun x1 t1 M1 s1 y1 le1 g1 lt1 reg1 => ?_)
  dsimp only
  have hn1 := g1.nodeCount_le
  have a2 := hnth 7 (by decide)
  have b2 := hnth 10 (by decide)
  refine request_bind s1 y1 (by omega) (by omega) (fun x2 t2 M2 s2 y2 le2 g2 lt2 reg2 => ?_)
  dsimp only
  have hn2 := g2.nodeCount_le
  have a3 := hnth 8 (by decide)
  have b3 := hnth 11 (by decide)
  refine request_bind s2 y2 (by omega) (by omega) (fun x3 t3 M3 s3 y3 le3 g3 lt3 reg3 => ?_)
  dsimp only
  have hn3 := g3.nodeCount_le
  refine Returns.done ?_
  have hcells := createCells_exact (P := P) (R := R) c.marker 6
    [[nth n 0, nth n 6, nth n 8, nth n 12, x1, x3],
     [nth n 1, nth n 7, nth n 6, nth n 13, x2, x1],
     [nth n 2, nth n 8, nth n 7, nth n 14, x3, x2],
     [nth n 6, nth n 7, nth n 8, x1, x2, x3],
     [nth n 12, x1, x3, nth n 3, nth n 9, nth n 11],
     [nth n 13, x2, x1, nth n 4, nth n 10, nth n 9],
     [nth n 14, x3, x2, nth n 5, nth n 11, nth n 10],
     [x1, x2, x3, nth n 9, nth n 10, nth n 11]] t3 (by simp)
  have hcount := createCells_nodeCount (P := P) (R := R) c.marker
    [[nth n 0, nth n 6, nth n 8, nth n 12, x1, x3],
     [nth n 1, nth n 7, nth n 6, nth n 13, x2, x1],
     [nth n 2, nth n 8, nth n 7, nth n 14, x3, x2],
     [nth n 6, nth n 7, nth n 8, x1, x2, x3],
     [nth n 12, x1, x3, nth n 3, nth n 9, nth n 11],
     [nth n 13, x2, x1, nth n 4, nth n 10, nth n 9],
     [nth n 14, x3, x2, nth n 5, nth n 11, nth n 10],
     [x1, x2, x3, nth n 9, nth n 10, nth n 11]] t3
  have hmap : (List.range 15).map (nth n) = n := by
    rw [← hrlen]
    exact map_nth_range n
  obtain ⟨l, hl, rfl⟩ := ((hg.trans g1).trans g2).trans g3
  refine ⟨refState_of_nodeVector_eq (createCells_nodeVector _ _ _) s3, y3,
    hle.compose ((le1.compose le2).compose le3), (List.range 15).map (nth n) ++ [x1, x2, x3], l,
    by rw [hshape]; simp [localCount], ?_, ?_, ?_, ?_, ?_, by omega, ?_⟩
  · rw [hmap, hlen6, List.take_append_of_le_length (by omega)]
    exact htake
  · rw [hshape, hmap]
    show (n ++ _).take 15 = n
    rw [List.take_append_of_le_length (by omega), ← hrlen]
    exact List.take_length n
  · intro x hx
    rw [hmap] at hx
    simp only [hcount]
    simp only [List.mem_append, List.mem_cons, List.mem_singleton, List.not_mem_nil,
      or_false] at hx
    rcases hx with hx | hx | hx | hx
    · have := hall x hx
      omega
    all_goals (subst hx; omega)
  · intro q hq
    rw [hshape] at hq
    simp only [h2Requests, List.mem_append] at hq
    rcases hq with hq | hq
    · obtain ⟨h1, h2, h3, h4⟩ := hreq q hq
      rw [nth_local n _ h1, nth_local n _ (by omega : q.2.1 < 15),
        nth_local n _ (by omega : q.2.2 < 15)]
      exact le3 _ _ (le2 _ _ (le1 _ _ h4))
    · simp only [List.mem_cons, List.mem_singleton, List.not_mem_nil, or_false] at hq
      rcases hq with hq | hq | hq <;> subst hq
      · exact le3 _ _ (le2 _ _ reg1)
      · exact le3 _ _ reg2
      · exact reg3
  · intro h
    rw [hshape] at h
    cases h
  · dsimp only
    rw [hcells]
    simp only [h2Children, hshape, h2Class, h2Tuples]
    rfl


/-! ## The sub-facets of a split boundary -/

theorem Grows.mono {a b : Mesh P R} {j k : Nat} (h : Grows a b j) (hjk : j ≤ k) :
    Grows a b k := by
  obtain ⟨l, hl, heq⟩ := h
  exact ⟨l, by omega, heq⟩

/-- The first `switch` of the boundary loop for an edge, a triangle face or a
quadrangle face in a state with a symmetric map. -/
theorem facetNodes_step [Add P] [HDiv P R P] [OfNat R 2] (w : Nat) {mesh : Mesh P R}
    (hids : IdsAreIndices mesh) {b : Boundary} {this : Mesh P R} {M : NodeMatrix}
    (hb : BoundaryOver mesh.nodeCount b)
    (hshape : b.shape = .Edge ∨ b.shape = .TriangleFace ∨ b.shape = .QuadrangleFace)
    (hst : RefState mesh.nodeCount this M) (hsym : SymmetricMatrix M)
    (hfit : this.nodeCount + 5 < 2 ^ w) :
    Returns (fun r => RefState mesh.nodeCount r.2.1 r.2.2 ∧ SymmetricMatrix r.2.2 ∧
        MatrixLe M r.2.2 ∧ Grows this r.2.1 4 ∧
        r.1.length = quadraticFacetCount b.shape ∧ r.1.take b.nodes.length = b.nodes ∧
        (∀ x ∈ r.1, x < r.2.1.nodeCount) ∧
        ∀ q ∈ facetRequests b.shape,
          r.2.2 ((nth r.1 q.2.1 : Int), (nth r.1 q.2.2 : Int)) = some (nth r.1 q.1))
      (boundaryNodes w mesh b this M) := by
  obtain ⟨hlen, hval⟩ := hb
  have hV := hst.2.1
  unfold boundaryNodes
  rcases hshape with hshape | hshape | hshape
  · rw [hshape] at hlen ⊢
    obtain ⟨a, b', hnodes⟩ := List.length_eq_two.mp hlen
    have ha : a < mesh.nodeCount := hval a (by simp [hnodes])
    have hb' : b' < mesh.nodeCount := hval b' (by simp [hnodes])
    dsimp only
    refine Returns.step_eq (copyOfNode_of_lt hids (by rw [hnodes]; rfl) ha hV (by omega)) ?_
    refine Returns.step_eq (copyOfNode_of_lt hids (by rw [hnodes]; rfl) hb' hV (by omega)) ?_
    refine request_bind hst hsym (by omega) (by omega) (fun x1 t1 M1 s1 y1 le1 g1 lt1 reg1 => ?_)
    dsimp only
    have hn1 := g1.nodeCount_le
    refine Returns.done ⟨s1, y1, le1, g1.mono (by omega), rfl,
      by rw [hnodes]; rfl, ?_, ?_⟩
    · intro x hx
      simp only [List.mem_cons, List.mem_singleton, List.not_mem_nil, or_false] at hx
      rcases hx with hx | hx | hx <;> subst hx <;> dsimp only <;> omega
    · intro q hq
      simp only [facetRequests, List.mem_singleton] at hq
      subst hq
      exact reg1
  · rw [hshape] at hlen ⊢
    obtain ⟨a, b', d, hnodes⟩ := List.length_eq_three.mp hlen
    have ha : a < mesh.nodeCount := hval a (by simp [hnodes])
    have hb' : b' < mesh.nodeCount := hval b' (by simp [hnodes])
    have hd : d < mesh.nodeCount := hval d (by simp [hnodes])
    dsimp only
    refine Returns.step_eq (copyOfNode_of_lt hids (by rw [hnodes]; rfl) ha hV (by omega)) ?_
    refine Returns.step_eq (copyOfNode_of_lt hids (by rw [hnodes]; rfl) hb' hV (by omega)) ?_
    refine Returns.step_eq (copyOfNode_of_lt hids (by rw [hnodes]; rfl) hd hV (by omega)) ?_
    refine request_bind hst hsym (by omega) (by omega) (fun x1 t1 M1 s1 y1 le1 g1 lt1 reg1 => ?_)
    dsimp only
    have hn1 := g1.nodeCount_le
    refine request_bind s1 y1 (by omega) (by omega) (fun x2 t2 M2 s2 y2 le2 g2 lt2 reg2 => ?_)
    dsimp only
    have hn2 := g2.nodeCount_le
    refine request_bind s2 y2 (by omega) (by omega) (fun x3 t3 M3 s3 y3 le3 g3 lt3 reg3 => ?_)
    dsimp only
    have hn3 := g3.nodeCount_le
    refine Returns.done ⟨s3, y3, (le1.compose le2).compose le3,
      ((g1.trans g2).trans g3).mono (by omega), rfl, by rw [hnodes]; rfl, ?_, ?_⟩
    · intro x hx
      simp only [List.mem_cons, List.mem_singleton, List.not_mem_nil, or_false] at hx
      rcases hx with hx | hx | hx | hx | hx | hx <;> subst hx <;> dsimp only <;> omega
    · intro q hq
      simp only [facetRequests, List.mem_cons, List.mem_singleton, List.not_mem_nil,
        or_false] at hq
      rcases hq with hq | hq | hq <;> subst hq
      · exact le3 _ _ (le2 _ _ reg1)
      · exact le3 _ _ reg2
      · exact reg3
  · rw [hshape] at hlen ⊢
    obtain ⟨a, b', d, e, hnodes⟩ := length_eq_four hlen
    have ha : a < mesh.nodeCount := hval a (by simp [hnodes])
    have hb' : b' < mesh.nodeCount := hval b' (by simp [hnodes])
    have hd : d < mesh.nodeCount := hval d (by simp [hnodes])
    have he : e < mesh.nodeCount := hval e (by simp [hnodes])
    dsimp only
    refine Returns.step_eq (copyOfNode_of_lt hids (by rw [hnodes]; rfl) ha hV (by omega)) ?_
    refine Returns.step_eq (copyOfNode_of_lt hids (by rw [hnodes]; rfl) hb' hV (by omega)) ?_
    refine Returns.step_eq (copyOfNode_of_lt hids (by rw [hnodes]; rfl) hd hV (by omega)) ?_
    refine Returns.step_eq (copyOfNode_of_lt hids (by rw [hnodes]; rfl) he hV (by omega)) ?_
    refine request_bind hst hsym (by omega) (by omega) (fun x1 t1 M1 s1 y1 le1 g1 lt1 reg1 => ?_)
    dsimp only
    have hn1 := g1.nodeCount_le
    refine request_bind s1 y1 (by omega) (by omega) (fun x2 t2 M2 s2 y2 le2 g2 lt2 reg2 => ?_)
    dsimp only
    have hn2 := g2.nodeCount_le
    refine request_bind s2 y2 (by omega) (by omega) (fun x3 t3 M3 s3 y3 le3 g3 lt3 reg3 => ?_)
    dsimp only
    have hn3 := g3.nodeCount_le
    refine request_bind s3 y3 (by omega) (by omega) (fun x4 t4 M4 s4 y4 le4 g4 lt4 reg4 => ?_)
    dsimp only
    have hn4 := g4.nodeCount_le
    refine Returns.done ⟨s4, y4, ((le1.compose le2).compose le3).compose le4,
      ((g1.trans g2).trans g3).trans g4, rfl, by rw [hnodes]; rfl, ?_, ?_⟩
    · intro x hx
      simp only [List.mem_cons, List.mem_singleton, List.not_mem_nil, or_false] at hx
      rcases hx with hx | hx | hx | hx | hx | hx | hx | hx <;> subst hx <;> dsimp only <;> omega
    · intro q hq
      simp only [facetRequests, List.mem_cons, List.mem_singleton, List.not_mem_nil,
        or_false] at hq
      rcases hq with hq | hq | hq | hq <;> subst hq
      · exact le4 _ _ (le3 _ _ (le2 _ _ reg1))
      · exact le4 _ _ (le3 _ _ reg2)
      · exact le4 _ _ reg3
      · exact reg4


theorem length_eq_eight {l : List Nat} (h : l.length = 8) :
    ∃ a b c d e f g i, l = [a, b, c, d, e, f, g, i] := by
  match l, h with
  | [a, b, c, d, e, f, g, i], _ => exact ⟨a, b, c, d, e, f, g, i, rfl⟩

/-- The body of the boundary loop where it creates sub-facets (not
`p2 && !h2`) for an edge, a triangle face or a quadrangle face in a state with a
symmetric map. -/
theorem facetStep_of_shape [Add P] [HDiv P R P] [OfNat R 2] (w : Nat)
    (cbc : BoundaryCreator P R) {mesh : Mesh P R} (p2 h2 : Bool) (hq : (p2 && !h2) = false)
    (hids : IdsAreIndices mesh) {b : Boundary} {this : Mesh P R} {M : NodeMatrix}
    (hb : BoundaryOver mesh.nodeCount b)
    (hshape : b.shape = .Edge ∨ b.shape = .TriangleFace ∨ b.shape = .QuadrangleFace)
    (hst : RefState mesh.nodeCount this M) (hsym : SymmetricMatrix M)
    (hfit : this.nodeCount + 5 < 2 ^ w) :
    Returns (FacetStep mesh.nodeCount cbc b this M)
      (refineBoundary w cbc mesh p2 h2 b this M) := by
  unfold refineBoundary
  refine Returns.step (facetNodes_step w hids hb hshape hst hsym hfit) ?_
  rintro ⟨n, t, M1⟩ ⟨s1, y1, le1, g1, hlen, htake, hlt, hreg⟩
  dsimp only at s1 y1 le1 g1 hlen htake hlt hreg ⊢
  rw [hq, if_neg (by simp)]
  rcases hshape with hshape | hshape | hshape
  · rw [hshape] at hlen hreg ⊢
    refine Returns.done ⟨y1, le1, n, t, s1, g1.mono (by omega), ?_, htake, hlt, ?_, ?_, ?_⟩
    · rw [hshape]
      exact hlen
    · rw [hshape]
      exact hreg
    · intro h
      rw [hshape] at h
      cases h
    · rw [hshape]
      rfl
  · rw [hshape] at hlen hreg ⊢
    refine Returns.done ⟨y1, le1, n, t, s1, g1.mono (by omega), ?_, htake, hlt, ?_, ?_, ?_⟩
    · rw [hshape]
      exact hlen
    · rw [hshape]
      exact hreg
    · intro h
      rw [hshape] at h
      cases h
    · rw [hshape]
      rfl
  · rw [hshape] at hlen hreg ⊢
    obtain ⟨a0, a1, a2, a3, a4, a5, a6, a7, hn⟩ := length_eq_eight hlen
    subst hn
    have h4 : a4 < t.nodeCount := hlt a4 (by simp)
    have h5 : a5 < t.nodeCount := hlt a5 (by simp)
    have h6 : a6 < t.nodeCount := hlt a6 (by simp)
    have h7 : a7 < t.nodeCount := hlt a7 (by simp)
    obtain ⟨r4, hr4, hid4⟩ := ownNodeRef_of_lt (i := a4) s1.1 h4
    obtain ⟨r6, hr6, hid6⟩ := ownNodeRef_of_lt (i := a6) s1.1 h6
    have e4 : nth [a0, a1, a2, a3, a4, a5, a6, a7] 4 = a4 := rfl
    have e5 : nth [a0, a1, a2, a3, a4, a5, a6, a7] 5 = a5 := rfl
    have e6 : nth [a0, a1, a2, a3, a4, a5, a6, a7] 6 = a6 := rfl
    have e7 : nth [a0, a1, a2, a3, a4, a5, a6, a7] 7 = a7 := rfl
    dsimp only
    rw [e4, e5, e6, e7]
    refine Returns.step_eq hr4 ?_
    refine Returns.step_eq hr6 ?_
    dsimp only
    rw [hid4, hid6]
    have hg1 := g1.nodeCount_le
    have htake9 : ∀ x8 : Nat,
        List.take b.nodes.length [a0, a1, a2, a3, a4, a5, a6, a7, x8] = b.nodes := by
      intro x8
      have hl4 : b.nodes.length = 4 := by
        have h := hb.1
        rw [hshape] at h
        exact h
      rw [hl4] at htake ⊢
      exact htake
    have hregs : ∀ (M2 : NodeMatrix), MatrixLe M1 M2 →
        ∀ q ∈ facetRequests BoundaryShape.QuadrangleFace, ∀ x8 : Nat,
          M2 ((nth [a0, a1, a2, a3, a4, a5, a6, a7, x8] q.2.1 : Int),
            (nth [a0, a1, a2, a3, a4, a5, a6, a7, x8] q.2.2 : Int)) =
              some (nth [a0, a1, a2, a3, a4, a5, a6, a7, x8] q.1) := by
      intro M2 le2 q hq x8
      have h := hreg q hq
      simp only [facetRequests, List.mem_cons, List.mem_singleton, List.not_mem_nil,
        or_false] at hq
      rcases hq with hq | hq | hq | hq <;> subst hq <;> exact le2 _ _ h
    cases h46 : M1 ((a4 : Int), (a6 : Int)) with
    | some x8 =>
      dsimp only
      refine Returns.step_eq rfl ?_
      dsimp only
      have hx8 : x8 < t.nodeCount := (s1.2.2.2 _ _ _ h46).1
      refine Returns.done ⟨y1, le1, [a0, a1, a2, a3, a4, a5, a6, a7, x8], t, s1,
        g1.mono (by omega), ?_, htake9 x8, ?_, ?_, ?_, ?_⟩
      · rw [hshape]
        rfl
      · intro x hx
        simp only [List.mem_cons, List.mem_singleton, List.not_mem_nil, or_false] at hx
        rcases hx with hx | hx | hx | hx | hx | hx | hx | hx | hx
        · exact hx ▸ hlt a0 (by simp)
        · exact hx ▸ hlt a1 (by simp)
        · exact hx ▸ hlt a2 (by simp)
        · exact hx ▸ hlt a3 (by simp)
        · exact hx ▸ h4
        · exact hx ▸ h5
        · exact hx ▸ h6
        · exact hx ▸ h7
        · exact hx ▸ hx8
      · rw [hshape]
        intro q hq
        exact hregs M1 (MatrixLe.rfl_ M1) q hq x8
      · intro _
        refine ⟨Or.inl h46, ?_, ?_⟩
        · intro x hx
          have h := le1 _ _ hx
          have e : nth [a0, a1, a2, a3, a4, a5, a6, a7, x8] 8 = x8 := rfl
          have e4' : nth [a0, a1, a2, a3, a4, a5, a6, a7, x8] 4 = a4 := rfl
          have e6' : nth [a0, a1, a2, a3, a4, a5, a6, a7, x8] 6 = a6 := rfl
          rw [e4', e6'] at h
          rw [e]
          rw [h46] at h
          exact Option.some.inj h
        · intro x _ hx
          have e : nth [a0, a1, a2, a3, a4, a5, a6, a7, x8] 8 = x8 := rfl
          have e4' : nth [a0, a1, a2, a3, a4, a5, a6, a7, x8] 4 = a4 := rfl
          have e6' : nth [a0, a1, a2, a3, a4, a5, a6, a7, x8] 6 = a6 := rfl
          rw [e4', e6'] at hx
          dsimp only at hx
          rw [e]
          rw [h46] at hx
          rcases hx with hx | hx
          · cases hx
          · exact Option.some.inj hx
      · rw [hshape]
        rfl
    | none =>
      dsimp only
      refine Returns.step (request_step s1 y1 h5 h7) ?_
      rintro ⟨x8, t2, M2⟩ ⟨s2, y2, le2, g2, lt2, reg2, hold, -⟩
      dsimp only at s2 y2 le2 g2 lt2 reg2 hold ⊢
      have hg2 := g2.nodeCount_le
      refine Returns.done ⟨y2, le1.compose le2, [a0, a1, a2, a3, a4, a5, a6, a7, x8], t2, s2,
        g1.trans g2, ?_, htake9 x8, ?_, ?_, ?_, ?_⟩
      · rw [hshape]
        rfl
      · intro x hx
        simp only [List.mem_cons, List.mem_singleton, List.not_mem_nil, or_false] at hx
        rcases hx with hx | hx | hx | hx | hx | hx | hx | hx | hx
        · exact hx ▸ Nat.lt_of_lt_of_le (hlt a0 (by simp)) hg2.1
        · exact hx ▸ Nat.lt_of_lt_of_le (hlt a1 (by simp)) hg2.1
        · exact hx ▸ Nat.lt_of_lt_of_le (hlt a2 (by simp)) hg2.1
        · exact hx ▸ Nat.lt_of_lt_of_le (hlt a3 (by simp)) hg2.1
        · exact hx ▸ Nat.lt_of_lt_of_le h4 hg2.1
        · exact hx ▸ Nat.lt_of_lt_of_le h5 hg2.1
        · exact hx ▸ Nat.lt_of_lt_of_le h6 hg2.1
        · exact hx ▸ Nat.lt_of_lt_of_le h7 hg2.1
        · exact hx ▸ lt2
      · rw [hshape]
        intro q hq
        exact hregs M2 le2 q hq x8
      · intro _
        refine ⟨Or.inr reg2, ?_, ?_⟩
        · intro x hx
          have h := le1 _ _ hx
          have e4' : nth [a0, a1, a2, a3, a4, a5, a6, a7, x8] 4 = a4 := rfl
          have e6' : nth [a0, a1, a2, a3, a4, a5, a6, a7, x8] 6 = a6 := rfl
          rw [e4', e6'] at h
          rw [h46] at h
          cases h
        · intro x hx _
          have h := le1 _ _ hx
          have e : nth [a0, a1, a2, a3, a4, a5, a6, a7, x8] 8 = x8 := rfl
          have e5' : nth [a0, a1, a2, a3, a4, a5, a6, a7, x8] 5 = a5 := rfl
          have e7' : nth [a0, a1, a2, a3, a4, a5, a6, a7, x8] 7 = a7 := rfl
          rw [e5', e7'] at h
          rw [e]
          exact (hold x h).1
      · rw [hshape]
        rfl


/-! ## The children of a split cell -/

/-- The `switch` of the cell loop with `h2` for a cell of one of the six classes
that are split, a tetrahedron with `oldTet10NumberingStyle_`. -/
theorem h2Step_of_shape [Add P] [HDiv P R P] [OfNat R 2] [Inhabited R] (w : Nat)
    (ext : Externals P R) {tables : SplitTables} {mesh : Mesh P R} {c : Cell R}
    {this : Mesh P R} {M : NodeMatrix} (hids : IdsAreIndices mesh) (htab : ProperTables tables)
    (hshape : c.shape ∈ [CellShape.EdgeCell, CellShape.Triangle, CellShape.Quadrangle,
      CellShape.Tetrahedron, CellShape.Hexahedron, CellShape.TriPrism])
    (hflag : c.shape = CellShape.Tetrahedron → this.oldTet10NumberingStyle_ = true)
    (hc : CellOver mesh.nodeCount c) (hst : RefState mesh.nodeCount this M)
    (hsym : SymmetricMatrix M) (hfit : this.nodeCount + 27 < 2 ^ w) :
    Returns (H2Step mesh.nodeCount tables (ext.shapeCentre (nodePositions mesh c.nodes)) c this M)
      (refineCell w ext tables mesh true c this M) := by
  simp only [List.mem_cons, List.mem_singleton, List.not_mem_nil, or_false] at hshape
  rcases hshape with h | h | h | h | h | h
  · exact h2Step_edgeCell w ext tables hids h hc hst hsym hfit
  · exact h2Step_triangle w ext tables hids h hc hst hsym hfit
  · exact h2Step_quadrangle w ext tables hids h hc hst hsym hfit
  · exact h2Step_tetrahedron w ext hids htab h hc hst hsym hfit (hflag h)
  · exact h2Step_hexahedron w ext hids htab h hc hst hsym hfit
  · exact h2Step_triPrism w ext hids htab h hc hst hsym hfit

theorem childCellsFrom_nodes [Inhabited R] (shape : CellShape) (marker : Int) :
    ∀ (lists : List (List Nat)) (start : Nat),
      (childCellsFrom (R := R) shape marker start lists).map (fun x => x.nodes) = lists := by
  intro lists
  induction lists with
  | nil => intro _; rfl
  | cons ns rest ih =>
    intro start
    simp only [childCellsFrom, List.map_cons, ih]

theorem childCellsFrom_mem [Inhabited R] (shape : CellShape) (marker : Int) :
    ∀ (lists : List (List Nat)) (start : Nat),
      ∀ x ∈ childCellsFrom (R := R) shape marker start lists,
        x.shape = shape ∧ x.marker = marker := by
  intro lists
  induction lists with
  | nil => intro _ x hx; simp [childCellsFrom] at hx
  | cons ns rest ih =>
    intro start x hx
    simp only [childCellsFrom, List.mem_cons] at hx
    rcases hx with hx | hx
    · subst hx
      exact ⟨rfl, rfl⟩
    · exact ih _ x hx

/-- A node registered under a pair in a symmetric map is the node that an
earlier map registered under the pair in either order. -/
theorem registered_eq {M M1 : NodeMatrix} {a b : Int} {x y : Nat} (hle : MatrixLe M M1)
    (hsym : SymmetricMatrix M1) (hreg : M1 (a, b) = some y)
    (h : M (a, b) = some x ∨ M (b, a) = some x) : y = x := by
  rcases h with h | h
  · have h1 := hle _ _ h
    rw [hreg] at h1
    exact Option.some.inj h1
  · have h1 := hle _ _ h
    rw [← hsym a b, hreg] at h1
    exact Option.some.inj h1

theorem diagMatrix_diagonalMatrix (V : Nat) : DiagMatrix V (diagonalMatrix V) :=
  fun _ _ => rfl

theorem idsAreIndices_oneHexahedron : IdsAreIndices oneHexahedron := by
  intro i n h
  match i with
  | 0 => simp [oneHexahedron, hexNodes] at h; subst h; rfl
  | 1 => simp [oneHexahedron, hexNodes] at h; subst h; rfl
  | 2 => simp [oneHexahedron, hexNodes] at h; subst h; rfl
  | 3 => simp [oneHexahedron, hexNodes] at h; subst h; rfl
  | 4 => simp [oneHexahedron, hexNodes] at h; subst h; rfl
  | 5 => simp [oneHexahedron, hexNodes] at h; subst h; rfl
  | 6 => simp [oneHexahedron, hexNodes] at h; subst h; rfl
  | 7 => simp [oneHexahedron, hexNodes] at h; subst h; rfl
  | k + 8 => simp [oneHexahedron, hexNodes] at h

theorem properTables_exampleTables : ProperTables exampleTables := by
  unfold ProperTables ProperTable exampleTables
  decide

/-! ## C34: the children per class -/

/-- C34, amended: the `switch` of the cell loop with `h2` returns for a cell of
the six classes that are split (a tetrahedron with the default numbering
`oldTet10NumberingStyle_`); it appends one child per tuple of `h2Tuples`, over a
local node vector that starts with the nodes of the parent, every child with the
marker of the parent; every child has the class of the parent provided that the
mesh under construction has dimension 3 where the parent is a hexahedron or a
prism. The tuples are 2 for an edge, 4 for a triangle, 4 for a quadrangle and 8
for a tetrahedron, a hexahedron and a prism; every tuple names pairwise distinct
local nodes; every corner of the parent is in exactly one tuple; of the 27 local
nodes of a hexahedron the edge midpoints 8 .. 19 are in exactly 2 tuples, the
face centres 20 .. 25 in exactly 4, and node 26 in all 8; and the tuples of a
tetrahedron without a corner are 4, each with the local nodes 5 and 9. -/
theorem h2_children_per_class [Add P] [HDiv P R P] [OfNat R 2] [Inhabited R] (w : Nat)
    (ext : Externals P R) {tables : SplitTables} {mesh : Mesh P R} {c : Cell R}
    {this : Mesh P R} {M : NodeMatrix} (hids : IdsAreIndices mesh) (htab : ProperTables tables)
    (hshape : c.shape ∈ [CellShape.EdgeCell, CellShape.Triangle, CellShape.Quadrangle,
      CellShape.Tetrahedron, CellShape.Hexahedron, CellShape.TriPrism])
    (hflag : c.shape = CellShape.Tetrahedron → this.oldTet10NumberingStyle_ = true)
    (hdim : c.shape = CellShape.Hexahedron ∨ c.shape = CellShape.TriPrism → this.dimension_ = 3)
    (hc : CellOver mesh.nodeCount c) (hst : RefState mesh.nodeCount this M)
    (hsym : SymmetricMatrix M) (hfit : this.nodeCount + 27 < 2 ^ w) :
    Returns (fun r => ∃ (loc : List Nat) (ch : List (Cell R)),
        loc.length = localCount c.shape ∧ loc.take c.nodes.length = c.nodes ∧
        r.2.1.cellVector_ = this.cellVector_ ++ ch ∧
        ch.map (fun x => x.nodes) = (h2Tuples c.shape).map (fun t => t.map (nth loc)) ∧
        ∀ x ∈ ch, x.shape = c.shape ∧ x.marker = c.marker)
      (refineCell w ext tables mesh true c this M) ∧
    ((h2Tuples CellShape.EdgeCell).length = 2 ∧ (h2Tuples CellShape.Triangle).length = 4 ∧
      (h2Tuples CellShape.Quadrangle).length = 4 ∧ (h2Tuples CellShape.Tetrahedron).length = 8 ∧
      (h2Tuples CellShape.Hexahedron).length = 8 ∧ (h2Tuples CellShape.TriPrism).length = 8) ∧
    (∀ s ∈ [CellShape.EdgeCell, CellShape.Triangle, CellShape.Quadrangle,
        CellShape.Tetrahedron, CellShape.Hexahedron, CellShape.TriPrism],
      (∀ t ∈ h2Tuples s, t.Nodup ∧ ∀ k ∈ t, k < localCount s) ∧
      ∀ k < shapeNodeCount s, ((h2Tuples s).filter (fun t => decide (k ∈ t))).length = 1) ∧
    ((∀ k < 20, 8 ≤ k →
        ((h2Tuples CellShape.Hexahedron).filter (fun t => decide (k ∈ t))).length = 2) ∧
      (∀ k < 26, 20 ≤ k →
        ((h2Tuples CellShape.Hexahedron).filter (fun t => decide (k ∈ t))).length = 4) ∧
      ((h2Tuples CellShape.Hexahedron).filter (fun t => decide (26 ∈ t))).length = 8) ∧
    (((h2Tuples CellShape.Tetrahedron).filter (fun t => t.all (fun k => decide (4 ≤ k)))).length = 4 ∧
      ∀ t ∈ h2Tuples CellShape.Tetrahedron, (∀ k ∈ t, 4 ≤ k) → 5 ∈ t ∧ 9 ∈ t) := by
  refine ⟨?_, by decide, by decide, by decide, by decide⟩
  obtain ⟨r, hr, -, -, -, loc, l, hlen, htake, -, -, -, -, -, heq⟩ :=
    h2Step_of_shape w ext hids htab hshape hflag hc hst hsym hfit
  have hclass : h2Class this.dimension_ c.shape = some c.shape := by
    simp only [List.mem_cons, List.mem_singleton, List.not_mem_nil, or_false] at hshape
    rcases hshape with h | h | h | h | h | h
    · rw [h]; rfl
    · rw [h]; rfl
    · rw [h]; rfl
    · rw [h]; rfl
    · rw [h, h2Class, hdim (Or.inl h)]; rfl
    · rw [h, h2Class, hdim (Or.inr h)]; rfl
  refine ⟨r, hr, loc, h2Children this.dimension_ c this.cellCount loc, hlen, htake, ?_, ?_, ?_⟩
  · rw [heq]
  · unfold h2Children
    rw [hclass]
    exact childCellsFrom_nodes _ _ _ _
  · unfold h2Children
    rw [hclass]
    exact childCellsFrom_mem _ _ _ _

/-- Witness of C34: the tetrahedron of `oneTetrahedron` in the state after the
node loop. -/
theorem h2_children_per_class_witness :
    Returns (fun r => ∃ (loc : List Nat) (ch : List (Cell Int)),
        loc.length = 10 ∧ loc.take 4 = [0, 1, 2, 3] ∧
        r.2.1.cellVector_ = oneTetrahedron.cellVector_ ++ ch ∧
        ch.map (fun x => x.nodes) =
          (h2Tuples CellShape.Tetrahedron).map (fun t => t.map (nth loc)) ∧
        ∀ x ∈ ch, x.shape = CellShape.Tetrahedron ∧ x.marker = 7)
      (refineCell 32 plainExternals exampleTables oneTetrahedron true
        { shape := .Tetrahedron, nodes := [0, 1, 2, 3], marker := 7, id := 0, attribute_ := 0 }
        oneTetrahedron (diagonalMatrix 4)) :=
  (h2_children_per_class 32 plainExternals
    (c := { shape := .Tetrahedron, nodes := [0, 1, 2, 3], marker := 7, id := 0, attribute_ := 0 })
    refinable_oneTetrahedron.1 properTables_exampleTables (by decide) (fun _ => rfl)
    (fun h => by simp at h) ⟨rfl, by decide⟩
    (refState_of_diagMatrix refinable_oneTetrahedron.1 rfl (diagMatrix_diagonalMatrix 4))
    (symmetricMatrix_of_diagMatrix (diagMatrix_diagonalMatrix 4)) (by decide)).1

/-- C34, as stated, fails: `createH2` of a hexahedron in a mesh of dimension 2
returns a mesh whose 8 cells are of the class `Quadrangle8`, because
`createCell` takes the class of the children from the number of nodes and the
dimension. -/
theorem flat_hexahedron_children :
    (Mesh.createH2 32 plainExternals exampleTables pushBoundary id flatHexahedron).toOption.map
      (fun r => r.cellVector_.map (fun x => x.shape)) =
        some (List.replicate 8 CellShape.Quadrangle8) := by
  decide

/-! ## C33: boundaries are split like cells -/

/-- A node registered in a state of the refinement under two different nodes
lies in the middle between them. -/
theorem midPoint_of_registered [Add P] [HDiv P R P] [OfNat R 2] {V : Nat} {this : Mesh P R}
    {M : NodeMatrix} {a b x : Nat} (hs : RefState V this M)
    (hreg : M ((a : Int), (b : Int)) = some x) (hab : a ≠ b) : MidPoint this a b x := by
  have h := (hs.2.2.2 _ _ _ hreg).2 (by omega)
  simpa using h.2.2

/-- C33: with `h2` the boundary loop splits an edge, a triangle face and a
quadrangle face by the tuples by which the cell loop splits an edge cell, a
triangle and a quadrangle: `(0,2),(2,1)`; `(0,3,5),(1,4,3),(2,5,4),(3,4,5)`;
`(0,4,8,7),(1,5,8,4),(2,6,8,5),(3,7,8,6)`, over a local node vector that starts
with the nodes of the entity and goes on with the nodes requested for the pairs
`(0,1)`; `(0,1),(1,2),(2,0)`; `(0,1),(1,2),(2,3),(3,0)`, each in the middle of
its pair. Node 8 of a quadrangle is a node at the centre of the cell, node 8 of
a quadrangle face is registered under the nodes 4 and 6 or under the nodes 5 and
7. And when a cell has been split, a boundary that is split in a later state
gets, for every pair of nodes for which the cell has requested a node, in
either order, the node that the cell got. -/
theorem h2_facets_split_like_cells [Add P] [HDiv P R P] [OfNat R 2] [Inhabited R] (w : Nat)
    (ext : Externals P R) (cbc : BoundaryCreator P R) (p2 : Bool) {tables : SplitTables}
    {mesh : Mesh P R} {c : Cell R} {b : Boundary} {this : Mesh P R} {M : NodeMatrix}
    (hids : IdsAreIndices mesh) (htab : ProperTables tables)
    (hshape : c.shape ∈ [CellShape.EdgeCell, CellShape.Triangle, CellShape.Quadrangle,
      CellShape.Tetrahedron, CellShape.Hexahedron, CellShape.TriPrism])
    (hflag : c.shape = CellShape.Tetrahedron → this.oldTet10NumberingStyle_ = true)
    (hc : CellOver mesh.nodeCount c)
    (hbs : b.shape = .Edge ∨ b.shape = .TriangleFace ∨ b.shape = .QuadrangleFace)
    (hb : BoundaryOver mesh.nodeCount b) (hst : RefState mesh.nodeCount this M)
    (hsym : SymmetricMatrix M) (hfit : this.nodeCount + 27 < 2 ^ w) :
    (h2FacetTuples .Edge = [[0, 2], [2, 1]] ∧ h2Tuples .EdgeCell = [[0, 2], [2, 1]] ∧
      h2FacetTuples .TriangleFace = [[0, 3, 5], [1, 4, 3], [2, 5, 4], [3, 4, 5]] ∧
      h2Tuples .Triangle = [[0, 3, 5], [1, 4, 3], [2, 5, 4], [3, 4, 5]] ∧
      h2FacetTuples .QuadrangleFace = [[0, 4, 8, 7], [1, 5, 8, 4], [2, 6, 8, 5], [3, 7, 8, 6]] ∧
      h2Tuples .Quadrangle = [[0, 4, 8, 7], [1, 5, 8, 4], [2, 6, 8, 5], [3, 7, 8, 6]] ∧
      facetRequests .Edge = [(2, 0, 1)] ∧ h2Requests tables .EdgeCell = [(2, 0, 1)] ∧
      facetRequests .TriangleFace = [(3, 0, 1), (4, 1, 2), (5, 2, 0)] ∧
      h2Requests tables .Triangle = [(3, 0, 1), (4, 1, 2), (5, 2, 0)] ∧
      facetRequests .QuadrangleFace = [(4, 0, 1), (5, 1, 2), (6, 2, 3), (7, 3, 0)] ∧
      h2Requests tables .Quadrangle = [(4, 0, 1), (5, 1, 2), (6, 2, 3), (7, 3, 0)]) ∧
    Returns (fun r =>
        RefState mesh.nodeCount r.2.1 r.2.2 ∧ SymmetricMatrix r.2.2 ∧
        r.2.1.nodeCount ≤ this.nodeCount + 27 ∧
        ∃ locc : List Nat, locc.take c.nodes.length = c.nodes ∧
          r.2.1.cellVector_ =
            this.cellVector_ ++ h2Children this.dimension_ c this.cellCount locc ∧
          (∀ q ∈ h2Requests tables c.shape,
            r.2.2 ((nth locc q.2.1 : Int), (nth locc q.2.2 : Int)) = some (nth locc q.1) ∧
            (nth locc q.2.1 ≠ nth locc q.2.2 →
              MidPoint r.2.1 (nth locc q.2.1) (nth locc q.2.2) (nth locc q.1))) ∧
          (c.shape = .Quadrangle → ∃ nd, r.2.1.nodeVector_[nth locc 8]? = some nd ∧
            nd.pos = ext.shapeCentre (nodePositions mesh c.nodes)) ∧
          ∀ (this2 : Mesh P R) (M2 : NodeMatrix), RefState mesh.nodeCount this2 M2 →
            SymmetricMatrix M2 → MatrixLe r.2.2 M2 → this2.nodeCount + 5 < 2 ^ w →
            Returns (fun r2 => ∃ (locb : List Nat) (t : Mesh P R),
                locb.take b.nodes.length = b.nodes ∧
                r2.1 = createBoundaries cbc b.shape b.marker
                  ((h2FacetTuples b.shape).map (fun u => u.map (nth locb))) t ∧
                (∀ q ∈ facetRequests b.shape,
                  r2.2 ((nth locb q.2.1 : Int), (nth locb q.2.2 : Int)) = some (nth locb q.1) ∧
                  (nth locb q.2.1 ≠ nth locb q.2.2 →
                    MidPoint t (nth locb q.2.1) (nth locb q.2.2) (nth locb q.1))) ∧
                (b.shape = .QuadrangleFace →
                  r2.2 ((nth locb 4 : Int), (nth locb 6 : Int)) = some (nth locb 8) ∨
                    r2.2 ((nth locb 5 : Int), (nth locb 7 : Int)) = some (nth locb 8)) ∧
                ∀ qc ∈ h2Requests tables c.shape, ∀ qb ∈ facetRequests b.shape,
                  ((nth locb qb.2.1 = nth locc qc.2.1 ∧ nth locb qb.2.2 = nth locc qc.2.2) ∨
                    (nth locb qb.2.1 = nth locc qc.2.2 ∧ nth locb qb.2.2 = nth locc qc.2.1)) →
                  nth locb qb.1 = nth locc qc.1)
              (refineBoundary w cbc mesh p2 true b this2 M2))
      (refineCell w ext tables mesh true c this M) := by
  refine ⟨⟨rfl, rfl, rfl, rfl, rfl, rfl, rfl, rfl, rfl, rfl, rfl, rfl⟩, ?_⟩
  obtain ⟨r, hr, s1, y1, -, locc, l, -, htake, -, -, hreg, hcentre, hl, heq⟩ :=
    h2Step_of_shape w ext hids htab hshape hflag hc hst hsym hfit
  refine ⟨r, hr, s1, y1, ?_, locc, htake, ?_, ?_, ?_, ?_⟩
  · rw [heq]
    simp only [nodeCount, List.length_append]
    omega
  · rw [heq]
  · intro q hq
    exact ⟨hreg q hq, fun hne => midPoint_of_registered s1 (hreg q hq) hne⟩
  · intro h
    obtain ⟨nd, h1, h2, -⟩ := hcentre h
    exact ⟨nd, h1, h2⟩
  · intro this2 M2 hst2 hsym2 hle2 hfit2
    obtain ⟨r2, hr2, y2, le2, locb, t, s2, -, -, htakeb, -, hregb, hquad, hres⟩ :=
      facetStep_of_shape w cbc p2 true (by simp) hids hb hbs hst2 hsym2 hfit2
    refine ⟨r2, hr2, locb, t, htakeb, hres, ?_, fun h => (hquad h).1, ?_⟩
    · intro q hq
      exact ⟨hregb q hq, fun hne => midPoint_of_registered s2 (hregb q hq) hne⟩
    · intro qc hqc qb hqb hpair
      refine registered_eq (hle2.compose le2) y2 (hregb qb hqb) ?_
      rcases hpair with ⟨e1, e2⟩ | ⟨e1, e2⟩
      · left
        rw [e1, e2]
        exact hreg qc hqc
      · right
        rw [e1, e2]
        exact hreg qc hqc

/-- Witness of C33: the tetrahedron of `oneTetrahedron` is split in the state
after the node loop, its triangle face in the state that the split leaves. -/
theorem h2_facets_split_like_cells_witness :
    ∃ r, refineCell 32 plainExternals exampleTables oneTetrahedron true
        { shape := .Tetrahedron, nodes := [0, 1, 2, 3], marker := 7, id := 0, attribute_ := 0 }
        oneTetrahedron (diagonalMatrix 4) = .ok r ∧
      ∃ locc : List Nat, locc.take 4 = [0, 1, 2, 3] ∧
        Returns (fun r2 => ∃ (locb : List Nat) (t : Mesh Int Int),
            locb.take 3 = [0, 1, 2] ∧
            r2.1 = createBoundaries pushBoundary .TriangleFace 5
              ((h2FacetTuples .TriangleFace).map (fun u => u.map (nth locb))) t ∧
            ∀ qc ∈ h2Requests exampleTables .Tetrahedron, ∀ qb ∈ facetRequests .TriangleFace,
              ((nth locb qb.2.1 = nth locc qc.2.1 ∧ nth locb qb.2.2 = nth locc qc.2.2) ∨
                (nth locb qb.2.1 = nth locc qc.2.2 ∧ nth locb qb.2.2 = nth locc qc.2.1)) →
              nth locb qb.1 = nth locc qc.1)
          (refineBoundary 32 pushBoundary oneTetrahedron false true
            { shape := .TriangleFace, nodes := [0, 1, 2], marker := 5, id := 0 } r.2.1 r.2.2) := by
  obtain ⟨r, hr, s1, y1, hn, locc, htake, -, -, -, hlater⟩ :=
    (h2_facets_split_like_cells 32 plainExternals pushBoundary false
      (c := { shape := .Tetrahedron, nodes := [0, 1, 2, 3], marker := 7, id := 0,
              attribute_ := 0 })
      (b := { shape := .TriangleFace, nodes := [0, 1, 2], marker := 5, id := 0 })
      refinable_oneTetrahedron.1 properTables_exampleTables (by decide) (fun _ => rfl)
      ⟨rfl, by decide⟩ (Or.inr (Or.inl rfl)) ⟨rfl, by decide⟩
      (refState_of_diagMatrix refinable_oneTetrahedron.1 rfl (diagMatrix_diagonalMatrix 4))
      (symmetricMatrix_of_diagMatrix (diagMatrix_diagonalMatrix 4)) (by decide)).2
  refine ⟨r, hr, locc, htake, ?_⟩
  have hfit : r.2.1.nodeCount + 5 < 2 ^ 32 := by
    have h4 : oneTetrahedron.nodeCount = 4 := rfl
    omega
  obtain ⟨r2, hr2, locb, t, h1, h2, -, -, h5⟩ := hlater r.2.1 r.2.2 s1 y1 (MatrixLe.rfl_ _) hfit
  exact ⟨r2, hr2, locb, t, h1, h2, h5⟩

/-! ## C35: the centre of a quadrangle face -/

theorem mem_h2Requests_of_faceCentre (tables : SplitTables) {q : Nat × Nat × Nat}
    (hq : q ∈ faceCentreRequests) : q ∈ h2Requests tables CellShape.Hexahedron := by
  unfold h2Requests
  refine List.mem_append_right _ ?_
  simp only [faceCentreRequests, List.mem_cons, List.mem_singleton, List.not_mem_nil,
    or_false] at hq ⊢
  tauto

/-- C35, what the code does for the centre of a quadrangle face: with `h2` a
hexahedron requests the centre of each of its faces for one pair of opposite
edge midpoints of the face (`faceCentreRequests`), so that it gets the node that
is registered under this pair, in either order, and registers the node it gets
under this pair only; a quadrangle face takes as node 8 the node registered
under its nodes 4 and 6, and otherwise the node requested for its nodes 5 and 7,
so that it uses a centre that is registered under either pair of opposite edge
midpoints. -/
theorem face_centre_by_requested_pair [Add P] [HDiv P R P] [OfNat R 2] [Inhabited R] (w : Nat)
    (ext : Externals P R) (cbc : BoundaryCreator P R) (p2 : Bool) {tables : SplitTables}
    {mesh : Mesh P R} {c : Cell R} {b : Boundary} {this : Mesh P R} {M : NodeMatrix}
    (hids : IdsAreIndices mesh) (htab : ProperTables tables)
    (hcs : c.shape = CellShape.Hexahedron) (hc : CellOver mesh.nodeCount c)
    (hbs : b.shape = BoundaryShape.QuadrangleFace) (hb : BoundaryOver mesh.nodeCount b)
    (hst : RefState mesh.nodeCount this M) (hsym : SymmetricMatrix M)
    (hfit : this.nodeCount + 27 < 2 ^ w) :
    Returns (fun r => ∃ loc : List Nat, loc.length = 27 ∧ loc.take 8 = c.nodes ∧
        ∀ q ∈ faceCentreRequests,
          r.2.2 ((nth loc q.2.1 : Int), (nth loc q.2.2 : Int)) = some (nth loc q.1) ∧
          ∀ x, (M ((nth loc q.2.1 : Int), (nth loc q.2.2 : Int)) = some x ∨
              M ((nth loc q.2.2 : Int), (nth loc q.2.1 : Int)) = some x) → nth loc q.1 = x)
      (refineCell w ext tables mesh true c this M) ∧
    Returns (fun r => ∃ (loc : List Nat) (t : Mesh P R), loc.length = 9 ∧ loc.take 4 = b.nodes ∧
        r.1 = createBoundaries cbc .QuadrangleFace b.marker
          ((h2FacetTuples .QuadrangleFace).map (fun u => u.map (nth loc))) t ∧
        (r.2 ((nth loc 4 : Int), (nth loc 6 : Int)) = some (nth loc 8) ∨
          r.2 ((nth loc 5 : Int), (nth loc 7 : Int)) = some (nth loc 8)) ∧
        (∀ x, M ((nth loc 4 : Int), (nth loc 6 : Int)) = some x → nth loc 8 = x) ∧
        (∀ x, M ((nth loc 5 : Int), (nth loc 7 : Int)) = some x →
          (r.2 ((nth loc 4 : Int), (nth loc 6 : Int)) = none ∨
            r.2 ((nth loc 4 : Int), (nth loc 6 : Int)) = some x) → nth loc 8 = x))
      (refineBoundary w cbc mesh p2 true b this M) := by
  constructor
  · obtain ⟨r, hr, -, y1, le1, loc, l, hlen, htake, -, -, hreg, -, -, -⟩ :=
      h2Step_hexahedron w ext hids htab hcs hc hst hsym hfit
    have hlen8 : c.nodes.length = 8 := by
      have h := hc.1
      rw [hcs] at h
      exact h
    rw [hcs] at hlen
    rw [hlen8] at htake
    refine ⟨r, hr, loc, hlen, htake, ?_⟩
    intro q hq
    have h := hreg q (hcs ▸ mem_h2Requests_of_faceCentre tables hq)
    exact ⟨h, fun x hx => registered_eq le1 y1 h hx⟩
  · obtain ⟨r, hr, -, -, loc, t, -, -, hlen, htake, -, -, hquad, hres⟩ :=
      facetStep_of_shape w cbc p2 true (by simp) hids hb (Or.inr (Or.inr hbs)) hst hsym
        (by omega)
    have hlen4 : b.nodes.length = 4 := by
      have h := hb.1
      rw [hbs] at h
      exact h
    rw [hbs] at hlen hres
    rw [hlen4] at htake
    exact ⟨r, hr, loc, t, hlen, htake, hres, hquad hbs⟩

/-- Witness of C35: the hexahedron and the quadrangle face of `oneHexahedron` in
the state after the node loop. -/
theorem face_centre_by_requested_pair_witness :
    Returns (fun r => ∃ loc : List Nat, loc.length = 27 ∧ loc.take 8 = [0, 1, 2, 3, 4, 5, 6, 7] ∧
        ∀ q ∈ faceCentreRequests,
          r.2.2 ((nth loc q.2.1 : Int), (nth loc q.2.2 : Int)) = some (nth loc q.1) ∧
          ∀ x, (diagonalMatrix 8 ((nth loc q.2.1 : Int), (nth loc q.2.2 : Int)) = some x ∨
              diagonalMatrix 8 ((nth loc q.2.2 : Int), (nth loc q.2.1 : Int)) = some x) →
            nth loc q.1 = x)
      (refineCell 32 plainExternals exampleTables oneHexahedron true
        { shape := .Hexahedron, nodes := [0, 1, 2, 3, 4, 5, 6, 7], marker := 1, id := 0,
          attribute_ := 0 } oneHexahedron (diagonalMatrix 8)) ∧
    Returns (fun r => ∃ (loc : List Nat) (t : Mesh Int Int), loc.length = 9 ∧
        loc.take 4 = [1, 2, 6, 5] ∧
        r.1 = createBoundaries pushBoundary .QuadrangleFace 3
          ((h2FacetTuples .QuadrangleFace).map (fun u => u.map (nth loc))) t ∧
        (r.2 ((nth loc 4 : Int), (nth loc 6 : Int)) = some (nth loc 8) ∨
          r.2 ((nth loc 5 : Int), (nth loc 7 : Int)) = some (nth loc 8)) ∧
        (∀ x, diagonalMatrix 8 ((nth loc 4 : Int), (nth loc 6 : Int)) = some x → nth loc 8 = x) ∧
        (∀ x, diagonalMatrix 8 ((nth loc 5 : Int), (nth loc 7 : Int)) = some x →
          (r.2 ((nth loc 4 : Int), (nth loc 6 : Int)) = none ∨
            r.2 ((nth loc 4 : Int), (nth loc 6 : Int)) = some x) → nth loc 8 = x))
      (refineBoundary 32 pushBoundary oneHexahedron false true
        { shape := .QuadrangleFace, nodes := [1, 2, 6, 5], marker := 3, id := 0 } oneHexahedron
        (diagonalMatrix 8)) :=
  face_centre_by_requested_pair 32 plainExternals pushBoundary false
    (c := { shape := .Hexahedron, nodes := [0, 1, 2, 3, 4, 5, 6, 7], marker := 1, id := 0,
            attribute_ := 0 })
    (b := { shape := .QuadrangleFace, nodes := [1, 2, 6, 5], marker := 3, id := 0 })
    idsAreIndices_oneHexahedron properTables_exampleTables rfl ⟨rfl, by decide⟩ rfl
    ⟨rfl, by decide⟩
    (refState_of_diagMatrix idsAreIndices_oneHexahedron rfl (diagMatrix_diagonalMatrix 8))
    (symmetricMatrix_of_diagMatrix (diagMatrix_diagonalMatrix 8)) (by decide)

/-- C35 fails for two hexahedra: `createH2` of `turnedHexahedra`, in which the
shared face is turned by a quarter in the second hexahedron, returns 46 nodes,
of which the nodes 27 and 39 both lie at the centre `(4, 2, 2)` of the shared
face; for `alignedHexahedra` it returns 45 nodes and the one centre 27. -/
theorem turned_hexahedra_get_two_centres :
    (Mesh.createH2 32 plainExternals exampleTables pushBoundary id turnedHexahedra).toOption.map
        (fun r => (r.nodeCount,
          (r.nodeVector_.filter (fun n => decide (n.pos = 40202))).map (fun n => n.id))) =
      some (46, [27, 39]) ∧
    (Mesh.createH2 32 plainExternals exampleTables pushBoundary id alignedHexahedra).toOption.map
        (fun r => (r.nodeCount,
          (r.nodeVector_.filter (fun n => decide (n.pos = 40202))).map (fun n => n.id))) =
      some (45, [27]) := by
  constructor <;> decide

/-! ## The map of a refinement -/

theorem Extends.next {t t1 : Mesh P R} {M M1 M2 : NodeMatrix} (h1 : Extends t M M1)
    (h2 : Extends t1 M1 M2) (hle : t.nodeCount ≤ t1.nodeCount) : Extends t M M2 :=
  ⟨fun k x h => h2.1 k x (h1.1 k x h),
   fun k n h hn => h1.2 k n (h2.2 k n h (by omega)) hn⟩

theorem not_samePoints_of_mem_right {s u : List Nat} {x : Nat} (h : x ∈ u) (hs : x ∉ s) :
    samePoints s u = false := by
  cases hsp : samePoints s u with
  | false => rfl
  | true => exact absurd ((samePoints_iff.mp hsp x).mpr h) hs

end GIMLI
